import Mathlib

/-!
# ARM (A32/T32) mangler: embedding of `core/arch/arm/mangle.c`

Shallow embedding of the mangling routines and the properties proved about
them.  Conventions used throughout:

* an instruction list is a Lean `List instr_t`; an `instr_t *` into a list is
  modelled by splitting the list at that instruction (the instructions before
  it, nearest first, the instruction, the instructions after it);
* C `int`/`ptr_int_t` values are `Int`; `uint` arithmetic is reduced with
  `% 2^32` (`u32`) and reinterpreted as signed with `to_int32` where the
  source stores it in an `int`;
* C `x & 0xffff` on a two's complement value is `x % 65536`, `x >> 16` is
  `x / 65536` (floor), `~x` is `-x - 1`;
* machine words are `Int` values reduced with `wrap32`.
-/

namespace Mangle

/-! ## Machine integers -/

/-- Reduction of an integer to its 32-bit pattern, as an unsigned value. -/
def wrap32 (z : Int) : Int := z % 4294967296

/-- C `uint` arithmetic result: the value modulo 2^32. -/
def u32 (z : Int) : Int := z % 4294967296

/-- Conversion of a 32-bit pattern to C `int` (two's complement). -/
def to_int32 (z : Int) : Int :=
  (z + 2147483648) % 4294967296 - 2147483648

/-- C `sizeof(reg_t)` on 32-bit ARM. -/
def sizeof_reg_t : Int := 4

/-! ## Registers -/

/-- Modelled from the spec: the register enumeration (`reg_id_t`) lives in a
header that is not part of the sources.  Register identifiers are natural
numbers; `REG_NULL` is the null register and the general purpose registers
r0..r15 are numbered consecutively above it. -/
def REG_NULL : Nat := 0

/-- Modelled from the spec: first general purpose register, see `REG_NULL`. -/
def DR_REG_R0 : Nat := 1

def DR_REG_R1 : Nat := DR_REG_R0 + 1
def DR_REG_R2 : Nat := DR_REG_R0 + 2
def DR_REG_R3 : Nat := DR_REG_R0 + 3
def DR_REG_R4 : Nat := DR_REG_R0 + 4
def DR_REG_R5 : Nat := DR_REG_R0 + 5
def DR_REG_R6 : Nat := DR_REG_R0 + 6
def DR_REG_R7 : Nat := DR_REG_R0 + 7
def DR_REG_R8 : Nat := DR_REG_R0 + 8
def DR_REG_R9 : Nat := DR_REG_R0 + 9
def DR_REG_R10 : Nat := DR_REG_R0 + 10
def DR_REG_R11 : Nat := DR_REG_R0 + 11
def DR_REG_R12 : Nat := DR_REG_R0 + 12
def DR_REG_SP : Nat := DR_REG_R0 + 13
def DR_REG_LR : Nat := DR_REG_R0 + 14
def DR_REG_PC : Nat := DR_REG_R0 + 15

/-- Modelled from the spec: identity of the status register `cpsr`, a
register outside r0..r15; the number only has to differ from the others. -/
def DR_REG_CPSR : Nat := DR_REG_PC + 1

/-- Modelled from the spec: identity of the SIMD register `d0`; the register
`d<k>` is `DR_REG_D0 + k`, and none of them is one of r0..r15 or `cpsr`. -/
def DR_REG_D0 : Nat := DR_REG_PC + 2

def SCRATCH_REG0 : Nat := DR_REG_R0
def SCRATCH_REG1 : Nat := DR_REG_R1
def SCRATCH_REG2 : Nat := DR_REG_R2
def SCRATCH_REG3 : Nat := DR_REG_R3

/-! ## Instruction IR -/

/-- Condition codes (`dr_pred_type_t`). -/
inductive dr_pred_type_t where
  | DR_PRED_NONE | DR_PRED_EQ | DR_PRED_NE | DR_PRED_CS | DR_PRED_CC
  | DR_PRED_MI | DR_PRED_PL | DR_PRED_VS | DR_PRED_VC | DR_PRED_HI
  | DR_PRED_LS | DR_PRED_GE | DR_PRED_LT | DR_PRED_GT | DR_PRED_LE
  | DR_PRED_AL | DR_PRED_OP
  deriving DecidableEq, Repr, Inhabited

open dr_pred_type_t

/-- Modelled from the spec: `instr_predicate_is_cond`, an IR helper outside the
sources: a predicate is conditional when it is one of the 14 real condition
codes. -/
def instr_predicate_is_cond (p : dr_pred_type_t) : Bool :=
  p != DR_PRED_NONE && p != DR_PRED_AL && p != DR_PRED_OP

/-- Modelled from the spec: `instr_invert_predicate`, an IR helper outside the
sources: the condition code with the opposite sense. -/
def instr_invert_predicate (p : dr_pred_type_t) : dr_pred_type_t :=
  match p with
  | DR_PRED_EQ => DR_PRED_NE
  | DR_PRED_NE => DR_PRED_EQ
  | DR_PRED_CS => DR_PRED_CC
  | DR_PRED_CC => DR_PRED_CS
  | DR_PRED_MI => DR_PRED_PL
  | DR_PRED_PL => DR_PRED_MI
  | DR_PRED_VS => DR_PRED_VC
  | DR_PRED_VC => DR_PRED_VS
  | DR_PRED_HI => DR_PRED_LS
  | DR_PRED_LS => DR_PRED_HI
  | DR_PRED_GE => DR_PRED_LT
  | DR_PRED_LT => DR_PRED_GE
  | DR_PRED_GT => DR_PRED_LE
  | DR_PRED_LE => DR_PRED_GT
  | q => q

/-- ISA mode of an instruction. -/
inductive dr_isa_mode_t where
  | DR_ISA_ARM_A32 | DR_ISA_ARM_THUMB
  deriving DecidableEq, Repr, Inhabited

open dr_isa_mode_t

/-- Opcodes used by the mangler; every other opcode is `OP_other n`.
`OP_ldmia` and `OP_stmia` are the names the source uses for `OP_ldm` and
`OP_stm`. -/
inductive opcode_t where
  | OP_label | OP_it | OP_b | OP_b_short | OP_cbz | OP_cbnz
  | OP_mov | OP_mvn | OP_movw | OP_movt | OP_add | OP_sub | OP_orr | OP_lsl
  | OP_ldr | OP_str | OP_ldrb | OP_ldrh
  | OP_ldmia | OP_ldmib | OP_ldmda | OP_ldmdb
  | OP_stmia | OP_stmib | OP_stmda | OP_stmdb
  | OP_bl | OP_blx | OP_blx_ind | OP_bx | OP_bxj | OP_tbb | OP_tbh
  | OP_svc | OP_mrc | OP_mrs | OP_msr | OP_vstmdb | OP_vldmia
  | OP_other (n : Nat)
  deriving DecidableEq, Repr, Inhabited

open opcode_t

/-- Operand flag `DR_OPND_NEGATED`: the displacement is subtracted. -/
def DR_OPND_NEGATED : Nat := 1

/-- C `TEST(mask, var)`. -/
def TEST (mask var : Nat) : Bool := (var &&& mask) != 0

/-- Operand size of a pointer-sized value. -/
def OPSZ_PTR : Nat := 4

/-- Operand size of a register-list memory operand. -/
def OPSZ_VAR_REGLIST : Nat := 0

/-- Operands (`opnd_t`): register, immediate, pc, instruction reference and
base+index+shift+displacement memory.  A memory list is a base-disp operand
of size `OPSZ_VAR_REGLIST`. -/
inductive opnd_t where
  | null
  | reg (r : Nat) (size : Nat) (flags : Nat)
  | immed_int (v : Int)
  | pc (target : Int)
  | instr (label : Nat) (size : Nat) (shift : Nat)
  | base_disp (base index : Nat) (shift_type shift_amt : Nat) (disp : Int)
      (flags : Nat) (size : Nat)
  deriving DecidableEq, Repr, Inhabited

/-- An instruction record. `it_block` holds the predicates an `OP_it` declares
(empty for every other opcode); `label_id` names a label instruction;
`operands_valid` is the flag `instr_set_operands_valid` sets. -/
structure instr_t where
  opcode : opcode_t
  dsts : List opnd_t
  srcs : List opnd_t
  predicate : dr_pred_type_t
  isa_mode : dr_isa_mode_t
  is_app : Bool
  our_mangling : Bool
  translation : Option Int
  raw_bits : Option (List Nat)
  it_block : List dr_pred_type_t
  label_id : Nat
  operands_valid : Bool := true
  deriving DecidableEq, Repr, Inhabited

/-! ## IR helpers

The instruction IR is an external collaborator of the mangler; the helpers
below are the ones the embedded routines call. -/

/-- Modelled from the spec: `opnd_is_reg`, IR helper outside the sources. -/
def opnd_is_reg : opnd_t → Bool
  | .reg _ _ _ => true
  | _ => false

/-- Modelled from the spec: `opnd_get_reg`, IR helper outside the sources. -/
def opnd_get_reg : opnd_t → Nat
  | .reg r _ _ => r
  | _ => REG_NULL

/-- Modelled from the spec: `opnd_is_base_disp`, IR helper outside the sources. -/
def opnd_is_base_disp : opnd_t → Bool
  | .base_disp _ _ _ _ _ _ _ => true
  | _ => false

/-- Modelled from the spec: `opnd_is_immed_int`, IR helper outside the sources. -/
def opnd_is_immed_int : opnd_t → Bool
  | .immed_int _ => true
  | _ => false

/-- Modelled from the spec: `opnd_get_immed_int`, IR helper outside the sources. -/
def opnd_get_immed_int : opnd_t → Int
  | .immed_int v => v
  | _ => 0

/-- Modelled from the spec: `opnd_get_base`, IR helper outside the sources. -/
def opnd_get_base : opnd_t → Nat
  | .base_disp b _ _ _ _ _ _ => b
  | _ => REG_NULL

/-- Modelled from the spec: `opnd_get_index`, IR helper outside the sources. -/
def opnd_get_index : opnd_t → Nat
  | .base_disp _ i _ _ _ _ _ => i
  | _ => REG_NULL

/-- Modelled from the spec: `opnd_get_index_shift`, IR helper outside the
sources; returns the shift type and the shift amount. -/
def opnd_get_index_shift : opnd_t → Nat × Nat
  | .base_disp _ _ st sa _ _ _ => (st, sa)
  | _ => (0, 0)

/-- Modelled from the spec: `opnd_get_disp`, IR helper outside the sources.  On
ARM the stored displacement is a magnitude and `DR_OPND_NEGATED` tells whether
it is subtracted. -/
def opnd_get_disp : opnd_t → Int
  | .base_disp _ _ _ _ d _ _ => d
  | _ => 0

/-- Modelled from the spec: `opnd_get_flags`, IR helper outside the sources. -/
def opnd_get_flags : opnd_t → Nat
  | .reg _ _ f => f
  | .base_disp _ _ _ _ _ f _ => f
  | _ => 0

/-- Modelled from the spec: `opnd_get_size`, IR helper outside the sources. -/
def opnd_get_size : opnd_t → Nat
  | .reg _ sz _ => sz
  | .base_disp _ _ _ _ _ _ sz => sz
  | _ => 0

/-- The displacement of a memory operand with its sign: the magnitude,
subtracted when the operand carries `DR_OPND_NEGATED`. -/
def opnd_get_signed_disp (o : opnd_t) : Int :=
  if TEST DR_OPND_NEGATED (opnd_get_flags o) then - opnd_get_disp o else opnd_get_disp o

/-- Modelled from the spec: `opnd_uses_reg`, IR helper outside the sources. -/
def opnd_uses_reg (o : opnd_t) (r : Nat) : Bool :=
  match o with
  | .reg r1 _ _ => r1 == r
  | .base_disp b i _ _ _ _ _ => b == r || i == r
  | _ => false

/-- Modelled from the spec: `opnd_same`, IR helper outside the sources. -/
def opnd_same (a b : opnd_t) : Bool := a == b

/-- Modelled from the spec: `opnd_create_reg`, IR helper outside the sources. -/
def opnd_create_reg (r : Nat) : opnd_t := .reg r OPSZ_PTR 0

/-- Modelled from the spec: `opnd_create_reg_ex`, IR helper outside the sources. -/
def opnd_create_reg_ex (r : Nat) (size flags : Nat) : opnd_t := .reg r size flags

/-- Modelled from the spec: `OPND_CREATE_INT`, IR helper outside the sources. -/
def OPND_CREATE_INT (v : Int) : opnd_t := .immed_int v

/-- Modelled from the spec: `opnd_create_base_disp_arm`, IR helper outside the
sources; it stores the fields it is given. -/
def opnd_create_base_disp_arm (base index : Nat) (shift_type shift_amt : Nat)
    (disp : Int) (flags size : Nat) : opnd_t :=
  .base_disp base index shift_type shift_amt disp flags size

/-- Modelled from the spec: `opnd_create_base_disp`, IR helper outside the
sources; a negative displacement is stored as its magnitude with
`DR_OPND_NEGATED`. -/
def opnd_create_base_disp (base index : Nat) (_scale : Nat) (disp : Int)
    (size : Nat) : opnd_t :=
  if disp < 0 then .base_disp base index 0 0 (- disp) DR_OPND_NEGATED size
  else .base_disp base index 0 0 disp 0 size

/-- Modelled from the spec: `OPND_CREATE_MEMPTR`, IR helper outside the sources. -/
def OPND_CREATE_MEMPTR (base : Nat) (disp : Int) : opnd_t :=
  opnd_create_base_disp base REG_NULL 0 disp OPSZ_PTR

/-- Modelled from the spec: `OPND_CREATE_MEMLIST`, IR helper outside the sources. -/
def OPND_CREATE_MEMLIST (base : Nat) : opnd_t :=
  opnd_create_base_disp base REG_NULL 0 0 OPSZ_VAR_REGLIST

/-- Query flags of `instr_reads_from_reg` / `instr_writes_to_reg`. -/
def DR_QUERY_INCLUDE_COND_DSTS : Nat := 1
def DR_QUERY_INCLUDE_COND_SRCS : Nat := 2
def DR_QUERY_DEFAULT : Nat := DR_QUERY_INCLUDE_COND_SRCS
def DR_QUERY_INCLUDE_ALL : Nat := 3

/-- Modelled from the spec: `instr_get_src`, IR helper outside the sources. -/
def instr_get_src (i : instr_t) (k : Nat) : opnd_t := i.srcs.getD k .null

/-- Modelled from the spec: `instr_get_dst`, IR helper outside the sources. -/
def instr_get_dst (i : instr_t) (k : Nat) : opnd_t := i.dsts.getD k .null

def instr_num_srcs (i : instr_t) : Nat := i.srcs.length
def instr_num_dsts (i : instr_t) : Nat := i.dsts.length

/-- Modelled from the spec: `instr_set_src`, IR helper outside the sources. -/
def instr_set_src (i : instr_t) (k : Nat) (o : opnd_t) : instr_t :=
  { i with srcs := i.srcs.set k o }

/-- Modelled from the spec: `instr_set_dst`, IR helper outside the sources. -/
def instr_set_dst (i : instr_t) (k : Nat) (o : opnd_t) : instr_t :=
  { i with dsts := i.dsts.set k o }

/-- Modelled from the spec: `instr_remove_srcs(instr, start, end)`, IR helper
outside the sources: drops the sources at positions [start, end). -/
def instr_remove_srcs (i : instr_t) (s e : Nat) : instr_t :=
  { i with srcs := i.srcs.take s ++ i.srcs.drop e }

/-- Modelled from the spec: `instr_remove_dsts(instr, start, end)`, IR helper
outside the sources: drops the destinations at positions [start, end). -/
def instr_remove_dsts (i : instr_t) (s e : Nat) : instr_t :=
  { i with dsts := i.dsts.take s ++ i.dsts.drop e }

def instr_set_opcode (i : instr_t) (op : opcode_t) : instr_t := { i with opcode := op }
def instr_set_predicate (i : instr_t) (p : dr_pred_type_t) : instr_t :=
  { i with predicate := p }
def instr_set_translation (i : instr_t) (pc : Option Int) : instr_t :=
  { i with translation := pc }

/-- Modelled from the spec: `instr_is_predicated`, IR helper outside the sources. -/
def instr_is_predicated (i : instr_t) : Bool := instr_predicate_is_cond i.predicate

def instr_is_label (i : instr_t) : Bool := i.opcode == OP_label
def instr_is_our_mangling (i : instr_t) : Bool := i.our_mangling
def instr_is_meta (i : instr_t) : Bool := !i.is_app

/-- Modelled from the spec: `instr_reg_in_src`, IR helper outside the sources. -/
def instr_reg_in_src (i : instr_t) (r : Nat) : Bool :=
  i.srcs.any (fun o => opnd_uses_reg o r)

/-- Modelled from the spec: `instr_reg_in_dst`, IR helper outside the sources. -/
def instr_reg_in_dst (i : instr_t) (r : Nat) : Bool :=
  i.dsts.any (fun o => opnd_uses_reg o r)

/-- Modelled from the spec: `instr_uses_reg`, IR helper outside the sources. -/
def instr_uses_reg (i : instr_t) (r : Nat) : Bool :=
  instr_reg_in_dst i r || instr_reg_in_src i r

/-- Modelled from the spec: `instr_reads_from_reg`, IR helper outside the
sources: a register is read when a source uses it or a destination memory
operand addresses through it; a conditionally executed instruction reads
nothing unless `DR_QUERY_INCLUDE_COND_SRCS` is given. -/
def instr_reads_from_reg (i : instr_t) (r : Nat) (flags : Nat) : Bool :=
  if !TEST DR_QUERY_INCLUDE_COND_SRCS flags && instr_is_predicated i then false
  else instr_reg_in_src i r || i.dsts.any (fun o => !opnd_is_reg o && opnd_uses_reg o r)

/-- Modelled from the spec: `instr_writes_to_reg`, IR helper outside the
sources: a register is written when it is a register destination; a
conditionally executed instruction writes nothing unless
`DR_QUERY_INCLUDE_COND_DSTS` is given. -/
def instr_writes_to_reg (i : instr_t) (r : Nat) (flags : Nat) : Bool :=
  if !TEST DR_QUERY_INCLUDE_COND_DSTS flags && instr_is_predicated i then false
  else i.dsts.any (fun o => opnd_is_reg o && opnd_get_reg o == r)

/-- Modelled from the spec: `instr_writes_to_exact_reg`, IR helper outside the
sources (on 32-bit ARM general purpose registers do not overlap). -/
def instr_writes_to_exact_reg (i : instr_t) (r : Nat) (flags : Nat) : Bool :=
  instr_writes_to_reg i r flags

/-! ## Configuration -/

/-- The fields of `clean_call_info_t` that `insert_push_all_registers` and
`insert_pop_all_registers` read. -/
structure clean_call_info_t where
  skip_save_aflags : Bool
  preserve_mcontext : Bool
  num_xmms_skip : Nat
  num_regs_skip : Nat
  deriving DecidableEq, Repr

/-- Process-wide configuration and the environment the mangler consumes: the
stolen register, the IBL target register, TLS slot offsets, the `opt_mangle`
option, the ISA mode of the thread (`dr_get_isa_mode`), whether the list being
mangled marks inserted instructions as the mangler's own
(`instr_is_our_mangling`), `os_tls_offset`, `instr_is_cti`,
`decode_cur_pc` and `get_app_instr_xl8`; the TLS slot of the IBL target
register, `get_call_return_address`, the second bytes `CBNZ_BYTE_A` and
`CBZ_BYTE_A` of the 16-bit `cbnz`/`cbz` encodings with displacement 1,
`encode_raw_jmp(mode, target, pc)` giving the 4-byte `b` as a word,
`decode_raw_jmp_target` reading a target back from the 4 bytes found at an
address, `instr_is_cti_short_rewrite` given the instruction and the bytes
found at `pc`, and `opnd_get_instr` giving the instruction an instruction
operand refers to; the start address of a new thread
(`get_new_thread_start`) and `vmcode_get_start`; the parameter registers
`regparms` (`NUM_REGPARM` is their number); `default_clean_call_info`,
`get_clean_call_switch_stack_size`, `NUM_SIMD_SLOTS` and
`sizeof(dr_simd_t)`; the instructions `insert_get_mcontext_base` inserts for
a register, and `instr_create_restore_from_dc_via_reg` at `XSP_OFFSET` for a
base and a destination register. -/
structure config_t where
  dr_reg_stolen : Nat
  IBL_TARGET_REG : Nat
  TLS_REG0_SLOT : Nat
  TLS_REG_STOLEN_SLOT : Nat
  opt_mangle : Nat
  isa_mode : dr_isa_mode_t
  ilist_our_mangling : Bool
  os_tls_offset : Nat → Int
  instr_is_cti : instr_t → Bool
  decode_cur_pc : instr_t → Int
  get_app_instr_xl8 : instr_t → Option Int
  IBL_TARGET_SLOT : Nat
  get_call_return_address : instr_t → Int
  CBNZ_BYTE_A : Nat
  CBZ_BYTE_A : Nat
  encode_raw_jmp : dr_isa_mode_t → Int → Int → Nat
  decode_raw_jmp_target : List Nat → Int → Int
  instr_is_cti_short_rewrite : instr_t → List Nat → Bool
  opnd_get_instr : Nat → instr_t
  get_new_thread_start : Int
  vmcode_get_start : Int
  regparms : List Nat
  default_clean_call_info : clean_call_info_t
  get_clean_call_switch_stack_size : Nat
  NUM_SIMD_SLOTS : Nat
  sizeof_dr_simd_t : Nat
  insert_get_mcontext_base : Nat → List instr_t
  restore_xsp_from_dc_via_reg : Nat → Nat → instr_t

def TLS_REG1_SLOT (cfg : config_t) : Nat := cfg.TLS_REG0_SLOT + 4

/-! ## Instruction creation -/

/-- A fresh instruction with the given opcode and operands, marked as
application code (callers inserting it through `PRE`/`POST` clear the mark). -/
def instr_create (op : opcode_t) (dsts srcs : List opnd_t) : instr_t :=
  { opcode := op, dsts := dsts, srcs := srcs, predicate := DR_PRED_NONE,
    isa_mode := DR_ISA_ARM_A32, is_app := true, our_mangling := false,
    translation := none, raw_bits := none, it_block := [], label_id := 0 }

/-- Marks an instruction as a meta instruction. -/
def instr_set_meta (i : instr_t) : instr_t := { i with is_app := false }

/-- Modelled from the spec: the list operations `instrlist_preinsert` /
`instrlist_postinsert` are outside the sources; an instruction entering a list
is marked as the mangler's own when the list says so. -/
def list_insert (cfg : config_t) (i : instr_t) : instr_t :=
  { i with our_mangling := i.our_mangling || cfg.ilist_our_mangling }

/-- Modelled from the spec: `instrlist_meta_preinsert` /
`instrlist_meta_postinsert` (`PRE` / `POST`) are outside the sources; they mark
the instruction as meta and insert it. -/
def meta_insert (cfg : config_t) (i : instr_t) : instr_t :=
  list_insert cfg (instr_set_meta i)

def INSTR_CREATE_mov (d s : opnd_t) : instr_t := instr_create OP_mov [d] [s]
def INSTR_CREATE_mvn (d s : opnd_t) : instr_t := instr_create OP_mvn [d] [s]
def INSTR_CREATE_movw (d s : opnd_t) : instr_t := instr_create OP_movw [d] [s]
def INSTR_CREATE_movt (d s : opnd_t) : instr_t := instr_create OP_movt [d] [s]
def XINST_CREATE_load (r m : opnd_t) : instr_t := instr_create OP_ldr [r] [m]
def XINST_CREATE_store (m r : opnd_t) : instr_t := instr_create OP_str [m] [r]

/-- The two-operand forms `add d, d, s` and `sub d, d, s`. -/
def XINST_CREATE_add (d s : opnd_t) : instr_t := instr_create OP_add [d] [d, s]
def XINST_CREATE_sub (d s : opnd_t) : instr_t := instr_create OP_sub [d] [d, s]

/-- The instruction `pop {list}`: an `ldm sp!, {list}`. -/
def INSTR_CREATE_pop_list (regs : List opnd_t) : instr_t :=
  instr_create OP_ldmia (regs ++ [opnd_create_reg DR_REG_SP])
    [OPND_CREATE_MEMLIST DR_REG_SP, opnd_create_reg DR_REG_SP]

/-- Modelled from the spec: `opnd_create_tls_slot`, helper outside the sources:
a pointer-sized memory operand addressed off the stolen register. -/
def opnd_create_tls_slot (cfg : config_t) (offs : Int) : opnd_t :=
  opnd_create_base_disp cfg.dr_reg_stolen REG_NULL 0 offs OPSZ_PTR

/-- Modelled from the spec: `instr_create_save_to_tls`, TLS helper outside the
sources: `str reg, [dr_reg_stolen, os_tls_offset(slot)]`. -/
def instr_create_save_to_tls (cfg : config_t) (reg : Nat) (slot : Nat) : instr_t :=
  XINST_CREATE_store (opnd_create_tls_slot cfg (cfg.os_tls_offset slot)) (opnd_create_reg reg)

/-- Modelled from the spec: `instr_create_restore_from_tls`, TLS helper outside
the sources: `ldr reg, [dr_reg_stolen, os_tls_offset(slot)]`. -/
def instr_create_restore_from_tls (cfg : config_t) (reg : Nat) (slot : Nat) : instr_t :=
  XINST_CREATE_load (opnd_create_reg reg) (opnd_create_tls_slot cfg (cfg.os_tls_offset slot))

/-- Modelled from the spec: `instr_is_reg_spill_or_restore`, helper outside the
sources.  Recognises `str reg, [dr_reg_stolen, disp]` (a TLS spill) and
`ldr reg, [dr_reg_stolen, disp]` (a TLS restore); returns `(tls, spill, reg)`.
The displacement is not examined: the sources do not show whether the helper
ties a register to the slot it is spilled to. -/
def instr_is_reg_spill_or_restore (cfg : config_t) (i : instr_t) :
    Option (Bool × Bool × Nat) :=
  match i.opcode, i.dsts, i.srcs with
  | OP_str, [.base_disp b x _ _ _ _ _], [.reg r _ _] =>
    if b = cfg.dr_reg_stolen ∧ x = REG_NULL then some (true, true, r) else none
  | OP_ldr, [.reg r _ _], [.base_disp b x _ _ _ _ _] =>
    if b = cfg.dr_reg_stolen ∧ x = REG_NULL then some (true, false, r) else none
  | _, _, _ => none

/-- Modelled from the spec: `opnd_create_instr_ex`, IR helper outside the
sources: a reference to an instruction, with a size and a right shift. -/
def opnd_create_instr_ex (src_inst : instr_t) (size shift : Nat) : opnd_t :=
  .instr src_inst.label_id size shift

/-! ## Scratch registers and spill elision (`mangle.c` 417-474, 1116-1187)

The instructions in front of an instruction are passed as a list, nearest
first; `PRE(ilist, where, x)` is `x :: left`. -/

/-- Source `find_prior_scratch_reg_restore`: position (in `left`, nearest
first) of the prior restore and the register it restores. -/
def find_prior_scratch_reg_restore (cfg : config_t) (left : List instr_t) :
    Option (Nat × Nat) :=
  if cfg.opt_mangle = 0 then none
  else
    let labels := left.takeWhile (fun p => instr_is_label p && instr_is_our_mangling p)
    match left.drop labels.length with
    | [] => none
    | prev :: _ =>
      match instr_is_reg_spill_or_restore cfg prev with
      | some (tls, spill, prior_reg) =>
        if tls && !spill && decide (SCRATCH_REG0 ≤ prior_reg) && decide (prior_reg ≤ SCRATCH_REG3)
        then some (labels.length, prior_reg)
        else none
      | none => none

/-- Source `insert_save_to_tls_if_necessary`, with `where` given by the
instructions in front of it; returns those instructions after the call. -/
def insert_save_to_tls_if_necessary (cfg : config_t) (left : List instr_t)
    (reg : Nat) (slot : Nat) : List instr_t :=
  match find_prior_scratch_reg_restore cfg left with
  | some (k, prior_reg) =>
    if cfg.opt_mangle > 0 ∧ prior_reg = reg then left.eraseIdx k
    else meta_insert cfg (instr_create_save_to_tls cfg reg slot) :: left
  | none => meta_insert cfg (instr_create_save_to_tls cfg reg slot) :: left

/-- The loop `for (reg = SCRATCH_REG0, slot = TLS_REG0_SLOT; reg <= SCRATCH_REG3;
reg++, slot += sizeof(reg_t)) if (ok(reg)) break;` of `pick_scratch_reg`; the
first argument counts the registers still to be tried (`slot` is a `ushort`). -/
def scratch_scan (ok : Nat → Bool) : Nat → Nat → Nat → Nat × Nat
  | 0, reg, slot => (reg, slot)
  | n + 1, reg, slot =>
    if ok reg then (reg, slot) else scratch_scan ok n (reg + 1) ((slot + 4) % 65536)

/-- The test `!instr_is_cti(instr) || reg != IBL_TARGET_REG` of
`pick_scratch_reg`. -/
def scratch_not_ibl (cfg : config_t) (instr : instr_t) (reg : Nat) : Bool :=
  !cfg.instr_is_cti instr || decide (reg ≠ cfg.IBL_TARGET_REG)

/-- First step of `pick_scratch_reg` (lines 1135-1149): the register of the
prior restore, if usable, with its slot; `REG_NULL` otherwise. -/
def pick_scratch_prior (cfg : config_t) (left : List instr_t) (instr : instr_t) : Nat × Nat :=
  match find_prior_scratch_reg_restore cfg left with
  | some (_, reg) =>
    if reg ≠ REG_NULL ∧ instr_uses_reg instr reg = false ∧ scratch_not_ibl cfg instr reg = true
    then (reg, (cfg.TLS_REG0_SLOT + 4 * (reg - SCRATCH_REG0)) % 65536)
    else (REG_NULL, 0)
  | none => (REG_NULL, 0)

/-- Second step of `pick_scratch_reg` (lines 1151-1159): the scan for a
register the instruction does not use. -/
def pick_scratch_unused (cfg : config_t) (instr : instr_t) (first : Nat × Nat) : Nat × Nat :=
  if first.1 = REG_NULL then
    scratch_scan (fun reg => !instr_uses_reg instr reg && scratch_not_ibl cfg instr reg) 4
      SCRATCH_REG0 cfg.TLS_REG0_SLOT
  else first

/-- Third step of `pick_scratch_reg` (lines 1163-1176): the scan for a
register the instruction does not read, with `*should_restore`. -/
def pick_scratch_dead (cfg : config_t) (instr : instr_t) (dead_reg_ok : Bool)
    (second : Nat × Nat) : Nat × Nat × Bool :=
  if second.1 > SCRATCH_REG3 ∧ dead_reg_ok = true then
    let r := scratch_scan
      (fun reg => !instr_reads_from_reg instr reg DR_QUERY_INCLUDE_ALL &&
        scratch_not_ibl cfg instr reg) 4 SCRATCH_REG0 cfg.TLS_REG0_SLOT
    (r.1, r.2, false)
  else (second.1, second.2, true)

/-- Source `pick_scratch_reg`; `left` are the instructions in front of
`instr`.  Returns the register, `*scratch_slot` and `*should_restore`. -/
def pick_scratch_reg (cfg : config_t) (left : List instr_t) (instr : instr_t)
    (dead_reg_ok : Bool) : Nat × Nat × Bool :=
  let third := pick_scratch_dead cfg instr dead_reg_ok
    (pick_scratch_unused cfg instr (pick_scratch_prior cfg left instr))
  if third.1 > SCRATCH_REG3 then (REG_NULL, third.2.1, third.2.2) else third

/-! ## Immediate materialisation (`mangle.c` 621-665) -/

/-- Result of `insert_mov_immed_arch`: the instructions inserted in front of
`instr`, in list order, and the values stored through `first` and `second`. -/
structure mov_immed_result where
  inserted : List instr_t
  first : instr_t
  second : Option instr_t

/-- Source `insert_mov_immed_arch`.  `src_inst` is `none` for NULL. -/
def insert_mov_immed_arch (cfg : config_t) (src_inst : Option instr_t)
    (encode_estimate : Int) (val : Int) (dst : opnd_t) : mov_immed_result :=
  let val := if src_inst.isSome then encode_estimate else val
  if src_inst.isNone ∧ (- val - 1) ≥ 0 ∧ (- val - 1) ≤ 0xff then
    let mov1 := meta_insert cfg (INSTR_CREATE_mvn dst (OPND_CREATE_INT (- val - 1)))
    { inserted := [mov1], first := mov1, second := none }
  else
    let mov1 := meta_insert cfg (INSTR_CREATE_movw dst
      (match src_inst with
       | none => OPND_CREATE_INT (val % 65536)
       | some si => opnd_create_instr_ex si 2 0))
    let val := (val / 65536) % 65536
    if val = 0 then
      { inserted := [mov1], first := mov1, second := none }
    else
      let mov2 := meta_insert cfg (INSTR_CREATE_movt dst
        (match src_inst with
         | none => OPND_CREATE_INT val
         | some si => opnd_create_instr_ex si 2 16))
      { inserted := [mov1, mov2], first := mov1, second := some mov2 }

/-- Modelled from the spec: `insert_mov_immed_ptrsz`, a shared routine outside
the sources that materialises a pointer-sized immediate; on ARM it hands the
value to `insert_mov_immed_arch` with no source instruction. -/
def insert_mov_immed_ptrsz (cfg : config_t) (val : Int) (dst : opnd_t) : List instr_t :=
  (insert_mov_immed_arch cfg none 0 val dst).inserted

/-! ## Fix-up stores of a register-list store (`mangle.c` 1474-1542) -/

/-- The `switch` of `store_reg_to_memlist`: the displacement `offs`.  The
operands are `uint`, so the products are formed modulo 2^32 and stored in an
`int`. -/
def store_reg_to_memlist_offs (opcode : opcode_t) (writeback : Bool)
    (num_srcs fix_reg_idx : Nat) : Int :=
  let n : Int := num_srcs
  let i : Int := fix_reg_idx
  match opcode with
  | OP_stmia =>
    if writeback then to_int32 (u32 (- u32 (u32 (n - 1 - i) * 4)))
    else to_int32 (u32 (i * 4))
  | OP_stmda =>
    if writeback then to_int32 (u32 (u32 (i + 1) * 4))
    else to_int32 (u32 (- u32 (u32 (n - i - 1) * 4)))
  | OP_stmdb =>
    if writeback then to_int32 (u32 (i * 4))
    else to_int32 (u32 (- u32 (u32 (n - i) * 4)))
  | OP_stmib =>
    if writeback then to_int32 (u32 (- u32 (u32 (n - 1 - i - 1) * 4)))
    else to_int32 (u32 (u32 (i + 1) * 4))
  | _ => 0

/-- Source `store_reg_to_memlist`: the instructions it inserts in front of
`next_instr`, in list order; the last one is the fix-up store. -/
def store_reg_to_memlist (cfg : config_t) (instr : instr_t) (base_reg : Nat)
    (app_val_slot : Nat) (tmp_reg fix_reg : Nat) (fix_reg_idx : Nat) : List instr_t :=
  let writeback := decide (instr_num_dsts instr > 1)
  let num_srcs := instr_num_srcs instr
  let offs := store_reg_to_memlist_offs instr.opcode writeback num_srcs fix_reg_idx
  let load :=
    if fix_reg = DR_REG_PC then
      insert_mov_immed_ptrsz cfg (cfg.decode_cur_pc instr) (opnd_create_reg tmp_reg)
    else [meta_insert cfg (instr_create_restore_from_tls cfg tmp_reg app_val_slot)]
  let store := XINST_CREATE_store (opnd_create_base_disp base_reg REG_NULL 0 offs OPSZ_PTR)
    (opnd_create_reg tmp_reg)
  let store := instr_set_predicate store instr.predicate
  let store := instr_set_translation store instr.translation
  load ++ [list_insert cfg store]

/-! ## The list around an instruction -/

/-- The instruction list seen from a mangling routine called with
`(ilist, instr, next_instr)`: `prev` are the instructions in front of `instr`
(nearest first), `mid` those after `instr` and in front of `next_instr`, and
`next` is `next_instr` with everything after it. -/
structure ilist_at where
  prev : List instr_t
  instr : instr_t
  mid : List instr_t
  next : List instr_t
  deriving DecidableEq, Repr

/-- The instruction list, in execution order. -/
def ilist_at.to_list (c : ilist_at) : List instr_t :=
  c.prev.reverse ++ c.instr :: (c.mid ++ c.next)

/-! ## Stolen register (`mangle.c` 1301-1422) -/

/-- Source `restore_app_value_to_stolen_reg`; `left` are the instructions in
front of `instr`, the result those after the call. -/
def restore_app_value_to_stolen_reg (cfg : config_t) (left : List instr_t)
    (instr : instr_t) (reg : Nat) (slot : Nat) : List instr_t :=
  let left := insert_save_to_tls_if_necessary cfg left reg slot
  let left := meta_insert cfg (INSTR_CREATE_mov (opnd_create_reg reg)
    (opnd_create_reg cfg.dr_reg_stolen)) :: left
  if instr_reads_from_reg instr cfg.dr_reg_stolen DR_QUERY_DEFAULT ||
     !instr_writes_to_exact_reg instr cfg.dr_reg_stolen DR_QUERY_DEFAULT then
    meta_insert cfg (instr_create_restore_from_tls cfg cfg.dr_reg_stolen
      cfg.TLS_REG_STOLEN_SLOT) :: left
  else left

/-- Source `restore_tls_base_to_stolen_reg`: the instructions it inserts in
front of `next_instr`, in list order. -/
def restore_tls_base_to_stolen_reg (cfg : config_t) (instr : instr_t)
    (reg : Nat) (_slot : Nat) : List instr_t :=
  (if instr_writes_to_reg instr cfg.dr_reg_stolen DR_QUERY_INCLUDE_COND_DSTS then
    [meta_insert cfg (XINST_CREATE_store
      (opnd_create_base_disp reg REG_NULL 0 (cfg.os_tls_offset cfg.TLS_REG_STOLEN_SLOT)
        OPSZ_PTR)
      (opnd_create_reg cfg.dr_reg_stolen))]
   else []) ++
  [meta_insert cfg (INSTR_CREATE_mov (opnd_create_reg cfg.dr_reg_stolen)
    (opnd_create_reg reg))]

/-- Source `mangle_stolen_reg`.  `none` stands for a failed `ASSERT`. -/
def mangle_stolen_reg (cfg : config_t) (c : ilist_at) (instr_to_be_removed : Bool) :
    Option ilist_at :=
  let instr := c.instr
  if instr_is_meta instr || !instr_uses_reg instr cfg.dr_reg_stolen then none
  else
    let general : Option ilist_at :=
      let (tmp, slot, should_restore) := pick_scratch_reg cfg c.prev instr false
      if tmp = REG_NULL then none
      else
        let prev := restore_app_value_to_stolen_reg cfg c.prev instr tmp slot
        let mid := c.mid ++ restore_tls_base_to_stolen_reg cfg instr tmp slot
        let mid := if should_restore then
            mid ++ [meta_insert cfg (instr_create_restore_from_tls cfg tmp slot)]
          else mid
        some { c with prev := prev, mid := mid }
    if instr.opcode = OP_mov ∧ opnd_is_reg (instr_get_src instr 0) = true then
      if ¬ (instr_num_srcs instr = 1 ∧ instr_num_dsts instr = 1) then none
      else if opnd_is_reg (instr_get_dst instr 0) = false then none
      else if opnd_same (instr_get_src instr 0) (instr_get_dst instr 0) then some c
      else if !instr_to_be_removed then
        let opnd := opnd_create_tls_slot cfg (cfg.os_tls_offset cfg.TLS_REG_STOLEN_SLOT)
        if opnd_get_reg (instr_get_src instr 0) = cfg.dr_reg_stolen then
          some { c with instr := instr_set_src (instr_set_opcode instr OP_ldr) 0 opnd }
        else if opnd_get_reg (instr_get_dst instr 0) ≠ cfg.dr_reg_stolen then none
        else
          some { c with instr := instr_set_dst (instr_set_opcode instr OP_str) 0 opnd }
      else general
    else general

/-! ## Machine model

Registers and memory words are 32-bit patterns held as `Int`; `cond` gives
the truth of each condition code under the current flags.  The forms of
instruction the mangler emits have the semantics below; every other
instruction is executed by the `app` parameter. -/

structure mstate where
  regs : Nat → Int
  mem : Int → Int
  cond : dr_pred_type_t → Bool

def mstate.set_reg (s : mstate) (r : Nat) (v : Int) : mstate :=
  { s with regs := fun x => if x = r then v else s.regs x }

def mstate.set_mem (s : mstate) (a : Int) (v : Int) : mstate :=
  { s with mem := fun x => if x = a then v else s.mem x }

/-- Loads the listed registers from consecutive words starting at `a`. -/
def load_list : List Nat → Int → mstate → mstate
  | [], _, s => s
  | r :: rs, a, s => load_list rs (a + 4) (s.set_reg r (s.mem (wrap32 a)))

/-- First address read by `ldm{ia,ib,da,db}` of `n` registers with base value
`x` (comments of `normalize_ldm_instr`: ia reads [X, X+4n), ib [X+4, X+4n+4),
da [X-4n+4, X+4), db [X-4n, X)). -/
def ldm_start_addr (op : opcode_t) (x : Int) (n : Nat) : Int :=
  match op with
  | OP_ldmib => x + 4
  | OP_ldmda => x - 4 * n + 4
  | OP_ldmdb => x - 4 * n
  | _ => x

/-- Base value the writeback of `ldm{ia,ib,da,db}` / `stm{ia,ib,da,db}` of `n`
registers leaves: X+4n for ia/ib, X-4n for da/db. -/
def ldm_final_base (op : opcode_t) (x : Int) (n : Nat) : Int :=
  match op with
  | OP_ldmda | OP_ldmdb | OP_stmda | OP_stmdb => x - 4 * n
  | _ => x + 4 * n

/-- Address at which `stm{ia,ib,da,db}` of `n` registers with base value `x`
stores list position `i`. -/
def stm_slot_addr (op : opcode_t) (x : Int) (n i : Nat) : Int :=
  match op with
  | OP_stmib => x + 4 + 4 * i
  | OP_stmda => x - 4 * (n - 1 - i : Int)
  | OP_stmdb => x - 4 * (n - i : Int)
  | _ => x + 4 * i

/-- The register list of a register-list load: its destinations, without the
trailing writeback base when there is one. -/
def ldm_reglist (i : instr_t) : List Nat :=
  ((if i.srcs.length > 1 then i.dsts.dropLast else i.dsts).map opnd_get_reg)

/-- Architectural effect of `ldm{ia,ib,da,db} base{!}, {list}`. -/
def exec_ldm (i : instr_t) (s : mstate) : mstate :=
  let base := opnd_get_base (instr_get_src i 0)
  let regs := ldm_reglist i
  let x := s.regs base
  let s1 := load_list regs (ldm_start_addr i.opcode x regs.length) s
  if i.srcs.length > 1 then s1.set_reg base (wrap32 (ldm_final_base i.opcode x regs.length))
  else s1

/-- Stores the listed registers to consecutive words starting at `a`. -/
def store_list : List Nat → Int → mstate → mstate
  | [], _, s => s
  | r :: rs, a, s => store_list rs (a + 4) (s.set_mem (wrap32 a) (s.regs r))

/-- Stores the listed 64-bit registers to consecutive double words starting at
`a`, the low word of each first. -/
def store_dlist : List Nat → Int → mstate → mstate
  | [], _, s => s
  | r :: rs, a, s =>
    store_dlist rs (a + 8)
      ((s.set_mem (wrap32 a) (s.regs r % 4294967296)).set_mem (wrap32 (a + 4))
        (s.regs r / 4294967296 % 4294967296))

/-- Loads the listed 64-bit registers from consecutive double words starting
at `a`, the low word of each first. -/
def load_dlist : List Nat → Int → mstate → mstate
  | [], _, s => s
  | r :: rs, a, s =>
    load_dlist rs (a + 8)
      (s.set_reg r (s.mem (wrap32 a) + 4294967296 * s.mem (wrap32 (a + 4))))

/-- The register list of a register-list store: its sources, without the
trailing writeback base when there is one. -/
def stm_reglist (i : instr_t) : List Nat :=
  ((if i.dsts.length > 1 then i.srcs.dropLast else i.srcs).map opnd_get_reg)

/-- Architectural effect of `stm{ia,ib,da,db} base{!}, {list}`. -/
def exec_stm (i : instr_t) (s : mstate) : mstate :=
  let base := opnd_get_base (instr_get_dst i 0)
  let regs := stm_reglist i
  let x := s.regs base
  let s1 := store_list regs (stm_slot_addr i.opcode x regs.length 0) s
  if i.dsts.length > 1 then s1.set_reg base (wrap32 (ldm_final_base i.opcode x regs.length))
  else s1

/-- Architectural effect of `vstmdb base!, {d-list}`: the double words go
below the base, which ends at the lowest of them. -/
def exec_vstmdb (i : instr_t) (s : mstate) : mstate :=
  let base := opnd_get_base (instr_get_dst i 0)
  let regs := i.srcs.dropLast.map opnd_get_reg
  let x := s.regs base
  (store_dlist regs (x - 8 * regs.length) s).set_reg base (wrap32 (x - 8 * regs.length))

/-- Architectural effect of `vldmia base!, {d-list}`. -/
def exec_vldmia (i : instr_t) (s : mstate) : mstate :=
  let base := opnd_get_base (instr_get_src i 0)
  let regs := i.dsts.dropLast.map opnd_get_reg
  let x := s.regs base
  (load_dlist regs x s).set_reg base (wrap32 (x + 8 * regs.length))

/-- Architectural effect of `msr` with field mask `m` on the status word
`old` given the source word `v`: bit 3 of the mask selects the flags N, Z, C,
V, Q (bits 31..27), bit 2 the flags GE (bits 19..16); the other bits of the
status word stay. -/
def msr_write (m old v : Int) : Int :=
  old - (old / 134217728 % 32) * 134217728 - (old / 65536 % 16) * 65536 +
    (if m / 8 % 2 = 1 then v / 134217728 % 32 else old / 134217728 % 32) * 134217728 +
    (if m / 4 % 2 = 1 then v / 65536 % 16 else old / 65536 % 16) * 65536

/-- Effect of one instruction when it executes. -/
def exec_body (app : instr_t → mstate → mstate) (i : instr_t) (s : mstate) : mstate :=
  match i.opcode, i.dsts, i.srcs with
  | OP_label, _, _ => s
  | OP_it, _, _ => s
  | OP_mov, [.reg d _ _], [.reg a _ _] => s.set_reg d (s.regs a)
  | OP_mvn, [.reg d _ _], [.immed_int v] => s.set_reg d (wrap32 (- v - 1))
  | OP_movw, [.reg d _ _], [.immed_int v] => s.set_reg d (wrap32 (v % 65536))
  | OP_movt, [.reg d _ _], [.immed_int v] =>
    s.set_reg d (wrap32 (s.regs d % 65536 + (v % 65536) * 65536))
  | OP_add, [.reg d _ _], [.reg a _ _, .immed_int v] => s.set_reg d (wrap32 (s.regs a + v))
  | OP_sub, [.reg d _ _], [.reg a _ _, .immed_int v] => s.set_reg d (wrap32 (s.regs a - v))
  | OP_lsl, [.reg d _ _], [.reg a _ _, .immed_int v] =>
    s.set_reg d (wrap32 (s.regs a * 2 ^ v.toNat))
  | OP_ldr, [.reg d _ _], [.base_disp b 0 st sa disp fl sz] =>
    s.set_reg d (s.mem (wrap32 (s.regs b +
      opnd_get_signed_disp (.base_disp b 0 st sa disp fl sz))))
  | OP_str, [.base_disp b 0 st sa disp fl sz], [.reg r _ _] =>
    s.set_mem (wrap32 (s.regs b + opnd_get_signed_disp (.base_disp b 0 st sa disp fl sz)))
      (s.regs r)
  | OP_ldmia, _, _ => exec_ldm i s
  | OP_ldmib, _, _ => exec_ldm i s
  | OP_ldmda, _, _ => exec_ldm i s
  | OP_ldmdb, _, _ => exec_ldm i s
  | OP_str, [.base_disp b 0 st sa disp fl sz, .reg w _ _],
      [.reg r _ _, .reg _ _ _, .immed_int v] =>
    (s.set_mem (wrap32 (s.regs b + opnd_get_signed_disp (.base_disp b 0 st sa disp fl sz)))
      (s.regs r)).set_reg w (wrap32 (s.regs b + v))
  | OP_ldr, [.reg d _ _, .reg w _ _],
      [.base_disp b 0 st sa disp fl sz, .reg _ _ _, .immed_int v] =>
    (s.set_reg w (wrap32 (s.regs b + v))).set_reg d
      (s.mem (wrap32 (s.regs b + opnd_get_signed_disp (.base_disp b 0 st sa disp fl sz))))
  | OP_stmia, _, _ => exec_stm i s
  | OP_stmib, _, _ => exec_stm i s
  | OP_stmda, _, _ => exec_stm i s
  | OP_stmdb, _, _ => exec_stm i s
  | OP_vstmdb, _, _ => exec_vstmdb i s
  | OP_vldmia, _, _ => exec_vldmia i s
  | OP_mrs, [.reg d _ _], [.reg c _ _] => s.set_reg d (s.regs c)
  | OP_msr, [.reg c _ _], [.immed_int m, .reg r _ _] =>
    { regs := (s.set_reg c (msr_write m (s.regs c) (s.regs r))).regs, mem := s.mem,
      cond := (app i s).cond }
  | _, _, _ => app i s

/-- Effect of one instruction: a conditionally executed instruction whose
condition fails does nothing. -/
def exec_instr (app : instr_t → mstate → mstate) (i : instr_t) (s : mstate) : mstate :=
  if instr_is_predicated i && !s.cond i.predicate then s else exec_body app i s

/-- Effect of a straight-line sequence. -/
def exec_list (app : instr_t → mstate → mstate) : List instr_t → mstate → mstate
  | [], s => s
  | i :: is, s => exec_list app is (exec_instr app i s)

/-! ## IT blocks (`mangle.c` 476-619) -/

def IT_BLOCK_MAX_INSTRS : Nat := 4

/-- Modelled from the spec: `instr_it_block_create`, IR helper outside the
sources: an `OP_it` (an application instruction) declaring the given
predicates, up to the first `DR_PRED_NONE`. -/
def instr_it_block_create (p0 p1 p2 p3 : dr_pred_type_t) : instr_t :=
  { instr_create OP_it [] [] with
    isa_mode := DR_ISA_ARM_THUMB
    it_block := [p0, p1, p2, p3].takeWhile (fun p => p != DR_PRED_NONE) }

/-- Modelled from the spec: `instr_it_block_get_count`, IR helper outside the
sources: the number of predicates the `OP_it` declares. -/
def instr_it_block_get_count (it : instr_t) : Nat := it.it_block.length

/-- Modelled from the spec: `instr_it_block_get_pred`, IR helper outside the
sources: the predicate declared for position `k`. -/
def instr_it_block_get_pred (it : instr_t) (k : Nat) : dr_pred_type_t :=
  it.it_block.getD k DR_PRED_NONE

/-- Modelled from the spec: `instr_get_app_pc`, IR helper outside the sources:
the translation PC of the instruction (NULL for none). -/
def instr_get_app_pc (i : instr_t) : Option Int := i.translation

/-- Source `app_instr_is_in_it_block`. -/
def app_instr_is_in_it_block (instr : instr_t) : Bool :=
  instr.isa_mode == DR_ISA_ARM_THUMB && instr_is_predicated instr

/-- Source `mangle_remove_from_it_block`.  The returned cursor is the new
`next_instr`: in the result `mid` is empty and `next` starts at the instruction
after `instr`.  `none` stands for a failed `ASSERT`. -/
def mangle_remove_from_it_block (cfg : config_t) (c : ilist_at) : Option ilist_at :=
  let instr := c.instr
  if instr.isa_mode ≠ DR_ISA_ARM_THUMB ∨ instr_is_predicated instr = false then
    some { c with mid := [], next := c.mid ++ c.next }
  else
    let before_it := c.prev.takeWhile (fun p => p.opcode != OP_it)
    let prior := before_it.length
    if before_it.any (fun p => !instr_is_predicated p) then none
    else
      match c.prev.drop prior with
      | [] => none
      | it :: outer =>
        let count := instr_it_block_get_count it
        if ¬ (count > prior ∧ count ≤ IT_BLOCK_MAX_INSTRS) then none
        else
          let head_it : List instr_t :=
            if prior > 0 then
              [list_insert cfg (instr_it_block_create (instr_it_block_get_pred it 0)
                (if prior > 1 then instr_it_block_get_pred it 1 else DR_PRED_NONE)
                (if prior > 2 then instr_it_block_get_pred it 2 else DR_PRED_NONE)
                DR_PRED_NONE)]
            else []
          let count := if prior > 0 then count - prior else count
          let count := count - 1
          let tail_it : List instr_t :=
            if count > 0 then
              [list_insert cfg (instr_it_block_create (instr_it_block_get_pred it (prior + 1))
                (if count > 1 then instr_it_block_get_pred it (prior + 2) else DR_PRED_NONE)
                (if count > 2 then instr_it_block_get_pred it (prior + 3) else DR_PRED_NONE)
                DR_PRED_NONE)]
            else []
          some { prev := before_it ++ head_it ++ outer, instr := instr, mid := [],
                 next := tail_it ++ c.mid ++ c.next }

/-- Local variables of the loop of `reinstate_it_blocks`.  `block_start` is
NULL when `pending` is `none`; otherwise `pending` holds the instructions from
`block_start` up to the one in front of the current instruction. -/
structure it_scan where
  pending : Option (List instr_t)
  block_xl8 : Option Int
  it_count : Nat
  block_count : Nat
  block_pred : List dr_pred_type_t

/-- The locals at loop entry (`block_pred` is an array of
`IT_BLOCK_MAX_INSTRS` entries). -/
def it_scan.init : it_scan :=
  { pending := none, block_xl8 := none, it_count := 0, block_count := 0,
    block_pred := [DR_PRED_NONE, DR_PRED_NONE, DR_PRED_NONE, DR_PRED_NONE] }

/-- The `OP_it` that `reinstate_it_blocks` creates for the current block. -/
def it_scan.make_it (cfg : config_t) (st : it_scan) : instr_t :=
  list_insert cfg (instr_set_translation
    (instr_it_block_create (st.block_pred.getD 0 DR_PRED_NONE)
      (if st.block_count > 1 then st.block_pred.getD 1 DR_PRED_NONE else DR_PRED_NONE)
      (if st.block_count > 2 then st.block_pred.getD 2 DR_PRED_NONE else DR_PRED_NONE)
      (if st.block_count > 3 then st.block_pred.getD 3 DR_PRED_NONE else DR_PRED_NONE))
    st.block_xl8)

/-- `instrlist_preinsert(ilist, block_start, it)`: the instructions of the
block, the first one with the `OP_it` placed in front of it. -/
def it_annotate (it : instr_t) : List instr_t → List (Option instr_t × instr_t)
  | [] => []
  | b :: bs => (some it, b) :: bs.map (fun x => (none, x))

/-- The test `instr_predicated` of the loop of `reinstate_it_blocks`. -/
def it_instr_predicated (instr : instr_t) : Bool :=
  instr_is_predicated instr && instr.opcode != OP_b && instr.opcode != OP_b_short

/-- The `for` loop of scanning for the translation of a new block: the app PC
of the first instruction from `instr` on that has one. -/
def it_block_xl8 : List instr_t → Option Int
  | [] => none
  | app :: rest => if (instr_get_app_pc app).isSome then instr_get_app_pc app
                   else it_block_xl8 rest

/-- The loop of `reinstate_it_blocks` followed by the closing of a pending
block.  `after` are the instructions from `end` on.  The result pairs `res`
with every instruction of the range, in order, each with the `OP_it` that was
inserted in front of it, if any. -/
def reinstate_loop (cfg : config_t) (after : List instr_t) :
    List instr_t → it_scan → Nat × List (Option instr_t × instr_t)
  | [], st =>
    match st.pending with
    | some pend => (1, it_annotate (st.make_it cfg) pend)
    | none => (0, [])
  | instr :: rest, st =>
    let instr_predicated := it_instr_predicated instr
    let skip_existing : it_scan → Nat × List (Option instr_t × instr_t) := fun st =>
      if st.it_count > 0 then
        let r := reinstate_loop cfg after rest { st with it_count := st.it_count - 1 }
        (r.1, (none, instr) :: r.2)
      else if instr.opcode = OP_it then
        let r := reinstate_loop cfg after rest
          { st with it_count := instr_it_block_get_count instr }
        (r.1, (none, instr) :: r.2)
      else if instr_predicated then
        reinstate_loop cfg after rest
          { st with pending := some [instr]
                    block_pred := st.block_pred.set 0 instr.predicate
                    block_count := 1
                    block_xl8 := it_block_xl8 (instr :: (rest ++ after)) }
      else
        let r := reinstate_loop cfg after rest st
        (r.1, (none, instr) :: r.2)
    match st.pending with
    | some pend =>
      let pred0 := st.block_pred.getD 0 DR_PRED_NONE
      let is_match := !(instr_predicated && instr.predicate != pred0 &&
        instr.predicate != instr_invert_predicate pred0)
      let st1 : it_scan :=
        if instr_predicated && is_match then
          { st with block_pred := st.block_pred.set st.block_count instr.predicate
                    block_count := st.block_count + 1 }
        else st
      if !is_match || !instr_predicated || st1.block_count == IT_BLOCK_MAX_INSTRS then
        let it := st1.make_it cfg
        if instr_predicated && is_match then
          let r := reinstate_loop cfg after rest { st1 with pending := none }
          (r.1 + 1, it_annotate it (pend ++ [instr]) ++ r.2)
        else
          let r := skip_existing { st1 with pending := none }
          (r.1 + 1, it_annotate it pend ++ r.2)
      else
        reinstate_loop cfg after rest { st1 with pending := some (pend ++ [instr]) }
    | none => skip_existing st

/-- The list after `reinstate_it_blocks`, seen from the same `start` and
`end`. -/
structure reinstate_result where
  res : Nat
  before : List instr_t
  range : List instr_t
  after : List instr_t

/-- The instructions of an annotated range, with the inserted `OP_it`s. -/
def it_flatten : List (Option instr_t × instr_t) → List instr_t
  | [] => []
  | (some it, x) :: rest => it :: x :: it_flatten rest
  | (none, x) :: rest => x :: it_flatten rest

/-- Source `reinstate_it_blocks(dcontext, ilist, start, end)`.  The list is
given in three parts: `before` are the instructions in front of `start`
(nearest first), `range` the instructions from `start` up to but not including
`end` (up to the end of the list when `end` is NULL or not reachable from
`start`; empty when `start` is NULL or equal to `end`), `after` the
instructions from `end` on.  An `OP_it` inserted in front of `start` lands in
`before`, so that `range` still begins at `start`. -/
def reinstate_it_blocks (cfg : config_t) (before range after : List instr_t) :
    reinstate_result :=
  let r := reinstate_loop cfg after range it_scan.init
  match r.2 with
  | [] => { res := r.1, before := before, range := [], after := after }
  | (some it, x) :: rest =>
    { res := r.1, before := it :: before, range := x :: it_flatten rest, after := after }
  | (none, x) :: rest =>
    { res := r.1, before := before, range := x :: it_flatten rest, after := after }

/-- The whole list after `reinstate_it_blocks`, in execution order. -/
def reinstate_result.to_list (r : reinstate_result) : List instr_t :=
  r.before.reverse ++ r.range ++ r.after

/-- Source `mangle_reinstate_it_blocks(dcontext, ilist, bound_start,
next_instr)` for a list seen from `instr`, where `bound_start` is the `k`-th
instruction in front of `instr`. -/
def mangle_reinstate_it_blocks (cfg : config_t) (c : ilist_at) (k : Nat) : ilist_at :=
  if cfg.isa_mode ≠ DR_ISA_ARM_THUMB then c
  else
    let inner := (c.prev.take k).reverse
    let r := reinstate_loop cfg c.next (inner ++ c.instr :: c.mid) it_scan.init
    match r.2.drop k with
    | [] => c
    | (a, x) :: ann_mid =>
      { prev := a.toList ++ (it_flatten (r.2.take k)).reverse ++ c.prev.drop k,
        instr := x, mid := it_flatten ann_mid, next := c.next }

/-! ## PC-relative memory operands (`mangle.c` 1192-1264) -/

/-- Modelled from the spec: `instr_writes_memory`, IR helper outside the
sources: some destination is a memory operand. -/
def instr_writes_memory (i : instr_t) : Bool := i.dsts.any opnd_is_base_disp

/-- Modelled from the spec: `instr_reads_gpr_list`, IR helper outside the
sources: the register-list stores. -/
def instr_reads_gpr_list (i : instr_t) : Bool :=
  i.opcode == OP_stmia || i.opcode == OP_stmib || i.opcode == OP_stmda ||
  i.opcode == OP_stmdb

/-- Modelled from the spec: `instr_writes_gpr_list`, IR helper outside the
sources: the register-list loads. -/
def instr_writes_gpr_list (i : instr_t) : Bool :=
  i.opcode == OP_ldmia || i.opcode == OP_ldmib || i.opcode == OP_ldmda ||
  i.opcode == OP_ldmdb

/-- Modelled from the spec: `instr_has_rel_addr_reference`, IR helper outside
the sources: some memory operand has the PC as its base. -/
def instr_has_rel_addr_reference (i : instr_t) : Bool :=
  (i.srcs ++ i.dsts).any (fun o => opnd_is_base_disp o && opnd_get_base o == DR_REG_PC)

/-- Whether `insert_save_to_tls_if_necessary` removes the prior restore
instead of inserting a spill. -/
def spill_elided (cfg : config_t) (left : List instr_t) (reg : Nat) : Bool :=
  match find_prior_scratch_reg_restore cfg left with
  | some (_, prior_reg) => decide (cfg.opt_mangle > 0 ∧ prior_reg = reg)
  | none => false

/-- Lines 1228-1238 of `mangle_rel_addr`: the value of r15 to materialise and
the displacement to keep, from the app value of r15 and the memory operand. -/
def rel_addr_adjust (isa_mode : dr_isa_mode_t) (mem_op : opnd_t) (r15 : Int) : Int × Int :=
  let disp := u32 (opnd_get_disp mem_op)
  if isa_mode = DR_ISA_ARM_THUMB ∧ TEST DR_OPND_NEGATED (opnd_get_flags mem_op) = true ∧
      disp ≥ 256 then
    (to_int32 (r15 - disp), 0)
  else (r15, disp)

/-- Source `mangle_rel_addr`.  `none` stands for a failed `ASSERT`; the result
is the list seen from `instr` with the returned `next_instr`. -/
def mangle_rel_addr (cfg : config_t) (c : ilist_at) : Option ilist_at :=
  let instr := c.instr
  let r15 := cfg.decode_cur_pc instr
  let (reg, slot, should_restore) := pick_scratch_reg cfg c.prev instr true
  let store := instr_writes_memory instr
  let in_it := app_instr_is_in_it_block instr
  let bound_start := meta_insert cfg (instr_create OP_label [] [])
  match (if in_it then mangle_remove_from_it_block cfg c else some c) with
  | none => none
  | some c1 =>
    if instr_has_rel_addr_reference instr = false then none
    else if instr_reads_gpr_list instr || instr_writes_gpr_list instr then none
    else if reg = REG_NULL then none
    else
      let mem_op := if store then instr_get_dst instr 0 else instr_get_src instr 0
      if opnd_is_base_disp mem_op = false then none
      else if opnd_get_base mem_op ≠ DR_REG_PC then none
      else
        let adj := rel_addr_adjust instr.isa_mode mem_op r15
        let left0 := bound_start :: c1.prev
        let outer_len := if spill_elided cfg left0 reg then c1.prev.length - 1
                         else c1.prev.length
        let left := insert_save_to_tls_if_necessary cfg left0 reg slot
        let left := (insert_mov_immed_ptrsz cfg adj.1 (opnd_create_reg reg)).reverse ++ left
        let shift := opnd_get_index_shift mem_op
        let new_op := opnd_create_base_disp_arm reg (opnd_get_index mem_op) shift.1 shift.2
          (to_int32 adj.2) (opnd_get_flags mem_op) (opnd_get_size mem_op)
        let instr := if store then instr_set_dst instr 0 new_op
                     else instr_set_src instr 0 new_op
        let mid := if should_restore then
            c1.mid ++ [meta_insert cfg (instr_create_restore_from_tls cfg reg slot)]
          else c1.mid
        let c2 : ilist_at := { prev := left, instr := instr, mid := mid, next := c1.next }
        if in_it then some (mangle_reinstate_it_blocks cfg c2 (left.length - outer_len))
        else some c2

/-! ## Register-list loads (`mangle.c` 1660-2004) -/

/-- The two ways a mangling routine gives up. -/
inductive mangle_error where
  | not_implemented
  | assert_failed
  deriving DecidableEq, Repr

/-- Outputs of `normalize_ldm_instr`: the rewritten `instr` and the four
instructions returned through pointers (`none` for NULL). -/
structure ldm_normalized where
  instr : instr_t
  pre_ldm_adjust : Option instr_t
  pre_ldm_ldr : Option instr_t
  post_ldm_adjust : Option instr_t
  ldr_pc : Option instr_t
  deriving DecidableEq, Repr

/-- The `switch (opcode)` of `normalize_ldm_instr`: `adjust_pre`,
`adjust_post`, `ldr_pc_disp` and `use_pop_pc`.  `sizeof(reg_t)` is unsigned, so
mixed sums are formed modulo 2^32 and stored in an `int`. -/
def ldm_adjust_table (opcode : opcode_t) (writeback write_pc : Bool) (base : Nat)
    (memsz : Int) : Option (Int × Int × Int × Bool) :=
  match opcode with
  | OP_ldmia =>
    if write_pc then
      if writeback then
        if base = DR_REG_SP then some (0, 0, 0, true)
        else some (0, to_int32 4, to_int32 (-4), false)
      else some (0, 0, to_int32 (memsz - 4), false)
    else some (0, 0, 0, false)
  | OP_ldmda =>
    let adjust_pre := to_int32 (- memsz + 4)
    if write_pc then
      if writeback then some (adjust_pre, to_int32 (- memsz), to_int32 (memsz + 4), false)
      else some (adjust_pre, to_int32 (- adjust_pre), 0, false)
    else
      if writeback then some (adjust_pre, to_int32 (- memsz - 4), 0, false)
      else some (adjust_pre, to_int32 (- adjust_pre), 0, false)
  | OP_ldmdb =>
    let adjust_pre := to_int32 (- memsz)
    if write_pc then
      if writeback then
        some (adjust_pre, to_int32 (- (memsz - 4)), to_int32 (memsz - 4), false)
      else some (adjust_pre, to_int32 (- adjust_pre), to_int32 (-4), false)
    else
      if writeback then some (adjust_pre, adjust_pre, 0, false)
      else some (adjust_pre, to_int32 (- adjust_pre), 0, false)
  | OP_ldmib =>
    let adjust_pre := to_int32 4
    if write_pc then
      if writeback then some (adjust_pre, 0, 0, false)
      else some (adjust_pre, to_int32 (- adjust_pre), memsz, false)
    else
      if writeback then some (adjust_pre, to_int32 (-4), 0, false)
      else some (adjust_pre, to_int32 (- adjust_pre), 0, false)
  | _ => none

/-- The base adjustment `add base, #adjust` or `sub base, #-adjust` with the
predicate and translation of the original instruction; NULL for no adjustment. -/
def ldm_adjust_instr (base : Nat) (adjust : Int) (pred : dr_pred_type_t)
    (pc : Option Int) : Option instr_t :=
  if adjust ≠ 0 then
    let i := if adjust > 0 then
        XINST_CREATE_add (opnd_create_reg base) (OPND_CREATE_INT adjust)
      else XINST_CREATE_sub (opnd_create_reg base) (OPND_CREATE_INT (to_int32 (- adjust)))
    some (instr_set_translation (instr_set_predicate i pred) pc)
  else none

/-- Source `normalize_ldm_instr`; `left` are the instructions in front of
`instr` (consulted by `pick_scratch_reg`). -/
def normalize_ldm_instr (cfg : config_t) (left : List instr_t) (instr : instr_t) :
    Except mangle_error ldm_normalized :=
  let opcode := instr.opcode
  let base := opnd_get_base (instr_get_src instr 0)
  let writeback := decide (instr_num_srcs instr > 1)
  let write_pc := instr_writes_to_reg instr DR_REG_PC DR_QUERY_INCLUDE_ALL
  let num_dsts : Int := instr_num_dsts instr
  let memsz := to_int32 (u32 (4 * (if writeback then u32 (num_dsts - 1) else num_dsts)))
  let pred := instr.predicate
  let pc := cfg.get_app_instr_xl8 instr
  if write_pc && !writeback && instr_writes_to_reg instr base DR_QUERY_INCLUDE_ALL then
    .error .not_implemented
  else if opnd_get_reg (instr_get_dst instr 0) = DR_REG_PC then
    if write_pc = true ∧ memsz = 4 then
      .ok { instr := instr, pre_ldm_adjust := none, pre_ldm_ldr := none,
            post_ldm_adjust := none, ldr_pc := none }
    else .error .assert_failed
  else
    match ldm_adjust_table opcode writeback write_pc base memsz with
    | none => .error .assert_failed
    | some (adjust_pre, adjust_post, ldr_pc_disp, use_pop_pc) =>
      let split := instr_uses_reg instr cfg.dr_reg_stolen &&
        decide ((pick_scratch_reg cfg left instr false).1 = REG_NULL)
      let adjust_pre := if split then to_int32 (adjust_pre + 4) else adjust_pre
      let adjust_post :=
        if split && !instr_writes_to_reg instr base DR_QUERY_INCLUDE_ALL then
          to_int32 (adjust_post - 4)
        else adjust_post
      let pre_ldm_ldr : Option instr_t :=
        if split then
          some (instr_set_translation (instr_set_predicate
            (XINST_CREATE_load (instr_get_dst instr 0) (OPND_CREATE_MEMPTR base (to_int32 (-4))))
            pred) pc)
        else none
      let pre_ldm_adjust := ldm_adjust_instr base adjust_pre pred pc
      let n := instr_num_dsts instr
      let instr := if write_pc then
          instr_remove_dsts instr (if writeback then n - 2 else n - 1)
            (if writeback then n - 1 else n)
        else instr
      let instr := if pre_ldm_ldr.isSome then instr_remove_dsts instr 0 1 else instr
      if instr_num_dsts instr = (if writeback then 1 else 0) then .error .assert_failed
      else
        let single := decide (instr_num_dsts instr = (if writeback then 2 else 1))
        let adjust_post := if single && writeback then to_int32 (adjust_post + 4)
                           else adjust_post
        let instr :=
          if single then
            let i := instr_set_src (instr_set_opcode instr OP_ldr) 0 (OPND_CREATE_MEMPTR base 0)
            if writeback then instr_remove_dsts (instr_remove_srcs i 1 2) 1 2 else i
          else instr_set_src (instr_set_opcode instr OP_ldmia) 0 (OPND_CREATE_MEMLIST base)
        let adjust_post :=
          if !writeback && instr_writes_to_reg instr base DR_QUERY_INCLUDE_ALL then 0
          else adjust_post
        let post_ldm_adjust := ldm_adjust_instr base adjust_post pred pc
        let ldr_pc : Option instr_t :=
          if write_pc then
            let i := if use_pop_pc then INSTR_CREATE_pop_list [opnd_create_reg DR_REG_PC]
              else XINST_CREATE_load (opnd_create_reg DR_REG_PC)
                     (OPND_CREATE_MEMPTR base ldr_pc_disp)
            some (instr_set_translation (instr_set_predicate i pred) pc)
          else none
        .ok { instr := instr, pre_ldm_adjust := pre_ldm_adjust, pre_ldm_ldr := pre_ldm_ldr,
              post_ldm_adjust := post_ldm_adjust, ldr_pc := ldr_pc }

/-- The instructions of a normalised `ldm` in the order in which
`mangle_gpr_list_write` places them in the list: pre-adjust, split-off `ldr`,
the rewritten instruction, post-adjust, `ldr pc`. -/
def ldm_normalized.sequence (n : ldm_normalized) : List instr_t :=
  n.pre_ldm_adjust.toList ++ n.pre_ldm_ldr.toList ++ [n.instr] ++
    n.post_ldm_adjust.toList ++ n.ldr_pc.toList


/-! ## Concrete inputs -/

/-- A configuration: r10 stolen, r2 the IBL target register, TLS slots r0..r3
at offsets 0..12 and the stolen slot at 16. -/
def ex_cfg : config_t :=
  { dr_reg_stolen := DR_REG_R10, IBL_TARGET_REG := DR_REG_R2, TLS_REG0_SLOT := 0,
    TLS_REG_STOLEN_SLOT := 16, opt_mangle := 1, isa_mode := DR_ISA_ARM_THUMB,
    ilist_our_mangling := true, os_tls_offset := fun s => 64 + s,
    instr_is_cti := fun _ => false, decode_cur_pc := fun _ => 4096,
    get_app_instr_xl8 := fun i => i.translation,
    IBL_TARGET_SLOT := 8,
    get_call_return_address := fun i => i.translation.getD 0 + 4,
    CBNZ_BYTE_A := 0xb9, CBZ_BYTE_A := 0xb1,
    encode_raw_jmp := fun _ target pc => ((target - pc) % 4294967296).toNat,
    decode_raw_jmp_target := fun bs pc =>
      (pc + (bs.getD 0 0 + 256 * bs.getD 1 0 + 65536 * bs.getD 2 0 + 16777216 * bs.getD 3 0 : Nat))
        % 4294967296,
    instr_is_cti_short_rewrite := fun i bs =>
      (i.opcode == opcode_t.OP_cbz || i.opcode == opcode_t.OP_cbnz) &&
      (bs.getD 1 0 == 0xb9 || bs.getD 1 0 == 0xb1) && (bs.getD 0 0 / 8 == 1),
    opnd_get_instr := fun id =>
      { opcode := opcode_t.OP_label, dsts := [], srcs := [],
        predicate := dr_pred_type_t.DR_PRED_NONE, isa_mode := dr_isa_mode_t.DR_ISA_ARM_A32,
        is_app := false, our_mangling := true, translation := none, raw_bits := none,
        it_block := [], label_id := id },
    get_new_thread_start := 0x71000000, vmcode_get_start := 0x70000000,
    regparms := [DR_REG_R0, DR_REG_R1, DR_REG_R2, DR_REG_R3],
    default_clean_call_info :=
      { skip_save_aflags := false, preserve_mcontext := false, num_xmms_skip := 0,
        num_regs_skip := 0 },
    get_clean_call_switch_stack_size := 324,
    NUM_SIMD_SLOTS := 16, sizeof_dr_simd_t := 16,
    insert_get_mcontext_base := fun _ => [],
    restore_xsp_from_dc_via_reg := fun _ r =>
      { opcode := opcode_t.OP_ldr, dsts := [opnd_t.reg r 4 0], srcs := [],
        predicate := dr_pred_type_t.DR_PRED_NONE, isa_mode := dr_isa_mode_t.DR_ISA_ARM_A32,
        is_app := true, our_mangling := false, translation := none, raw_bits := none,
        it_block := [], label_id := 0 } }

/-- The register operand `r<k>`. -/
def ex_reg (k : Nat) : opnd_t := opnd_create_reg (DR_REG_R0 + k)

/-- The instruction `stm<op> r<base>{!}, {regs}`. -/
def ex_stm (op : opcode_t) (wb : Bool) (base : Nat) (regs : List Nat) : instr_t :=
  instr_create op ([OPND_CREATE_MEMLIST (DR_REG_R0 + base)] ++ (if wb then [ex_reg base] else []))
    (regs.map ex_reg ++ (if wb then [ex_reg base] else []))

/-- The instruction `ldm<op> r<base>{!}, {regs}`. -/
def ex_ldm (op : opcode_t) (wb : Bool) (base : Nat) (regs : List Nat) : instr_t :=
  instr_create op (regs.map ex_reg ++ (if wb then [ex_reg base] else []))
    ([OPND_CREATE_MEMLIST (DR_REG_R0 + base)] ++ (if wb then [ex_reg base] else []))

/-- A machine state: register k holds 1000*k, every memory word holds its own
address, every condition holds. -/
def ex_state : mstate :=
  { regs := fun r => 1000 * r, mem := fun a => a, cond := fun _ => true }

/-- An interpretation of the instructions outside the machine model: no
effect. -/
def ex_app : instr_t → mstate → mstate := fun _ s => s

/-- The app instruction `add r10, r10, #1` (r10 is the stolen register of
`ex_cfg`). -/
def ex_add_stolen : instr_t :=
  instr_create OP_add [ex_reg 10] [ex_reg 10, OPND_CREATE_INT 1]

/-- The app instruction `mov r10, r5`, in a list between two other
instructions. -/
def ex_mov_to_stolen : ilist_at :=
  { prev := [ex_add_stolen], instr := instr_create OP_mov [ex_reg 10] [ex_reg 5],
    mid := [], next := [ex_add_stolen] }

/-- The app instruction `ldr r1, [pc, #-300]` in Thumb mode, alone in its
list. -/
def ex_ldr_pc_rel : ilist_at :=
  { prev := [],
    instr := { instr_create OP_ldr [ex_reg 1]
                 [opnd_create_base_disp_arm DR_REG_PC REG_NULL 0 0 300 DR_OPND_NEGATED OPSZ_PTR]
               with isa_mode := DR_ISA_ARM_THUMB },
    mid := [], next := [] }

/-- The list that `mangle_rel_addr` makes of `ex_ldr_pc_rel`: r0 is spilled,
`movw r0, #3796` materialises 4096 - 300, the load uses `[r0, #-0]` and r0 is
restored after it. -/
def ex_ldr_pc_rel_out : ilist_at :=
  { prev := [meta_insert ex_cfg (INSTR_CREATE_movw (ex_reg 0) (OPND_CREATE_INT 3796)),
             meta_insert ex_cfg (instr_create_save_to_tls ex_cfg DR_REG_R0 0),
             meta_insert ex_cfg (instr_create OP_label [] [])],
    instr := { instr_create OP_ldr [ex_reg 1]
                 [opnd_create_base_disp_arm DR_REG_R0 REG_NULL 0 0 0 DR_OPND_NEGATED OPSZ_PTR]
               with isa_mode := DR_ISA_ARM_THUMB },
    mid := [meta_insert ex_cfg (instr_create_restore_from_tls ex_cfg DR_REG_R0 0)],
    next := [] }

/-- The app instruction `add r10, r10, #1` alone in its list. -/
def ex_stolen_alone : ilist_at :=
  { prev := [], instr := ex_add_stolen, mid := [], next := [] }

/-- The list `mangle_stolen_reg` makes of `ex_stolen_alone`: r0 is spilled and
takes the TLS base, r10 is loaded with the app value, and after the `add` the
app value is stored, r10 gets the TLS base back and r0 is restored. -/
def ex_stolen_alone_out : ilist_at :=
  { prev := [meta_insert ex_cfg (instr_create_restore_from_tls ex_cfg DR_REG_R10 16),
             meta_insert ex_cfg (INSTR_CREATE_mov (ex_reg 0) (ex_reg 10)),
             meta_insert ex_cfg (instr_create_save_to_tls ex_cfg DR_REG_R0 0)],
    instr := ex_add_stolen,
    mid := [meta_insert ex_cfg (XINST_CREATE_store
              (opnd_create_base_disp DR_REG_R0 REG_NULL 0 80 OPSZ_PTR) (ex_reg 10)),
            meta_insert ex_cfg (INSTR_CREATE_mov (ex_reg 10) (ex_reg 0)),
            meta_insert ex_cfg (instr_create_restore_from_tls ex_cfg DR_REG_R0 0)],
    next := [] }

/-- The app instruction `add r10, r10, #1` right after a restore of r0 from
its TLS slot (the end of the mangling of the previous instruction). -/
def ex_stolen_after_restore : ilist_at :=
  { prev := [meta_insert ex_cfg (instr_create_restore_from_tls ex_cfg DR_REG_R0 0)],
    instr := ex_add_stolen, mid := [], next := [] }

/-- The list `mangle_stolen_reg` makes of `ex_stolen_after_restore`: the prior
restore of r0 is removed and no spill is inserted. -/
def ex_stolen_after_restore_out : ilist_at :=
  { prev := [meta_insert ex_cfg (instr_create_restore_from_tls ex_cfg DR_REG_R10 16),
             meta_insert ex_cfg (INSTR_CREATE_mov (ex_reg 0) (ex_reg 10))],
    instr := ex_add_stolen,
    mid := [meta_insert ex_cfg (XINST_CREATE_store
              (opnd_create_base_disp DR_REG_R0 REG_NULL 0 80 OPSZ_PTR) (ex_reg 10)),
            meta_insert ex_cfg (INSTR_CREATE_mov (ex_reg 10) (ex_reg 0)),
            meta_insert ex_cfg (instr_create_restore_from_tls ex_cfg DR_REG_R0 0)],
    next := [] }

/-! ## Well-formedness of IT blocks

The properties below are read off a list from left to right; `cur` holds the
predicates that the most recent `OP_it` still declares for the coming
instructions. -/

/-- A list in which every `OP_it` that is not itself inside a block is
unconditional and is immediately followed by its declared number of
instructions, each conditional on the predicate declared for its position.
`cur` is empty when the list does not begin inside a block. -/
def it_input_ok : List dr_pred_type_t → List instr_t → Bool
  | _, [] => true
  | p :: cur, x :: rest => instr_is_predicated x && x.predicate == p && it_input_ok cur rest
  | [], x :: rest =>
    if x.opcode = OP_it then !instr_is_predicated x && it_input_ok x.it_block rest
    else it_input_ok [] rest

/-- The range after `reinstate_it_blocks`, each instruction paired with the
`OP_it` inserted in front of it.  `ins` tells whether the `OP_it` whose
predicates are in `cur` was inserted by the call.
* An inserted `OP_it` is not inside another block, is unconditional, declares
  between 1 and 4 predicates, each equal to the first or to its inverse, and
  the instruction it stands in front of is a predicated non-branch instruction
  with the first declared predicate.
* An instruction covered by an inserted `OP_it` is a predicated non-branch
  instruction (so not `b` / `b_short`) with the predicate declared for its
  position.
* An instruction other than `OP_it` that no `OP_it` covers is not a predicated
  non-branch instruction.
* With `strict`, an instruction covered by an `OP_it` of the input has the
  predicate declared for its position when it is a predicated non-branch
  instruction, and an `OP_it` of the input outside a block is not
  predicated. -/
def it_blocks_ok (strict : Bool) :
    List dr_pred_type_t → Bool → List (Option instr_t × instr_t) → Bool
  | _, _, [] => true
  | cur, _, (some it, x) :: rest =>
    cur.isEmpty && it.opcode == OP_it && !instr_is_predicated it &&
    decide (1 ≤ it.it_block.length ∧ it.it_block.length ≤ IT_BLOCK_MAX_INSTRS) &&
    it.it_block.all (fun p => p == it.it_block.headD DR_PRED_NONE ||
      p == instr_invert_predicate (it.it_block.headD DR_PRED_NONE)) &&
    it_instr_predicated x && x.predicate == it.it_block.headD DR_PRED_NONE &&
    it_blocks_ok strict it.it_block.tail true rest
  | p :: cur, ins, (none, x) :: rest =>
    (if ins then it_instr_predicated x && x.predicate == p
     else !strict || !it_instr_predicated x || x.predicate == p) &&
    it_blocks_ok strict cur ins rest
  | [], _, (none, x) :: rest =>
    if x.opcode = OP_it then
      (!strict || !it_instr_predicated x) && it_blocks_ok strict x.it_block false rest
    else !it_instr_predicated x && it_blocks_ok strict [] false rest

/-- Invariant of the loop of `reinstate_it_blocks` while a block is open:
`block_pred` has `IT_BLOCK_MAX_INSTRS` entries, the first `block_count` of
which are the predicates of the instructions of the block, all of them
predicated non-branch instructions whose predicate is `block_pred[0]` or its
inverse. -/
def block_inv (bp : List dr_pred_type_t) (n : Nat) (members : List instr_t) : Prop :=
  bp.length = 4 ∧ members.length = n ∧ 1 ≤ n ∧ n ≤ 4 ∧
  bp.take n = members.map (fun x => x.predicate) ∧
  ∀ x ∈ members, it_instr_predicated x = true ∧
    (x.predicate = bp.getD 0 DR_PRED_NONE ∨
     x.predicate = instr_invert_predicate (bp.getD 0 DR_PRED_NONE))

/-- The test `matches` for an instruction met inside an open block. -/
def it_joins (st : it_scan) (x : instr_t) : Bool :=
  it_instr_predicated x &&
    (x.predicate == st.block_pred.getD 0 DR_PRED_NONE ||
     x.predicate == instr_invert_predicate (st.block_pred.getD 0 DR_PRED_NONE))

/-- Every predicated non-branch instruction of a list is covered by an `OP_it`
of the list (or by the block whose remaining predicates are `cur`) that
declares the instruction's predicate for its position. -/
def it_all_covered : List dr_pred_type_t → List instr_t → Bool
  | _, [] => true
  | p :: cur, x :: rest => (!it_instr_predicated x || x.predicate == p) && it_all_covered cur rest
  | [], x :: rest =>
    !it_instr_predicated x &&
      (if x.opcode = OP_it then it_all_covered x.it_block rest else it_all_covered [] rest)

/-- A list in which every `OP_it` that is not itself inside a block is
immediately followed by its declared number of predicated instructions,
whatever their predicates. -/
def it_input_counts_ok : Nat → List instr_t → Bool
  | _, [] => true
  | k + 1, x :: rest => instr_is_predicated x && it_input_counts_ok k rest
  | 0, x :: rest =>
    if x.opcode = OP_it then it_input_counts_ok (instr_it_block_get_count x) rest
    else it_input_counts_ok 0 rest

/-- A Thumb instruction `add r1, r1, #1` conditional on `p`. -/
def ex_t32_add (p : dr_pred_type_t) : instr_t :=
  { instr_create OP_add [ex_reg 1] [ex_reg 1, OPND_CREATE_INT 1] with
    isa_mode := DR_ISA_ARM_THUMB, predicate := p }

/-- A Thumb branch conditional on `p`. -/
def ex_t32_b (p : dr_pred_type_t) : instr_t :=
  { instr_create OP_b [] [.pc 4096] with isa_mode := DR_ISA_ARM_THUMB, predicate := p }

/-- A range that begins at a label: two instructions of an `eq`/`ne` block, a
conditional branch, an existing one-instruction `it gt` block, and five
instructions on `cs`/`cc`. -/
def ex_it_range : List instr_t :=
  [meta_insert ex_cfg (instr_create OP_label [] []),
   ex_t32_add DR_PRED_EQ, ex_t32_add DR_PRED_NE, ex_t32_b DR_PRED_EQ,
   instr_it_block_create DR_PRED_GT DR_PRED_NONE DR_PRED_NONE DR_PRED_NONE,
   ex_t32_add DR_PRED_GT,
   ex_t32_add DR_PRED_CS, ex_t32_add DR_PRED_CC, ex_t32_add DR_PRED_CS, ex_t32_add DR_PRED_CS,
   ex_t32_add DR_PRED_CC]

/-- An existing `it eq` in front of an instruction conditional on `ne`. -/
def ex_it_mismatch : List instr_t :=
  [instr_it_block_create DR_PRED_EQ DR_PRED_NONE DR_PRED_NONE DR_PRED_NONE,
   ex_t32_add DR_PRED_NE]

/-- A range that is a single instruction `addeq r1, r1, #1`. -/
def ex_it_single : List instr_t := [ex_t32_add DR_PRED_EQ]

/-- The number of predicated non-branch instructions of a list that are not
inside a block of an `OP_it` of the list; the first argument is the number of
coming instructions that the most recent `OP_it` still covers. -/
def it_uncovered : Nat → List instr_t → Nat
  | _, [] => 0
  | k + 1, _ :: rest => it_uncovered k rest
  | 0, x :: rest =>
    if x.opcode = OP_it then it_uncovered (instr_it_block_get_count x) rest
    else (if it_instr_predicated x then 1 else 0) + it_uncovered 0 rest

/-- The number of `OP_it` instructions of a list. -/
def count_it (l : List instr_t) : Nat := l.countP (fun x => x.opcode == OP_it)

/-- A range that begins at a label, followed by an instruction conditional on
`eq` and one conditional on `gt`. -/
def ex_it_two_preds : List instr_t :=
  [meta_insert ex_cfg (instr_create OP_label [] []),
   ex_t32_add DR_PRED_EQ, ex_t32_add DR_PRED_GT]

/-- An `OP_it` declaring the predicates `ps`, as `instr_it_block_create`
builds it. -/
def it_block_of (ps : List dr_pred_type_t) : instr_t :=
  { instr_create OP_it [] [] with isa_mode := DR_ISA_ARM_THUMB, it_block := ps }

/-- The second of three instructions of an `it eq; ne; eq` block, seen in its
list: `label; it; addeq; [addne]; addeq; label`. -/
def ex_it_middle : ilist_at :=
  { prev := [ex_t32_add DR_PRED_EQ,
             it_block_of [DR_PRED_EQ, DR_PRED_NE, DR_PRED_EQ],
             meta_insert ex_cfg (instr_create OP_label [] [])],
    instr := ex_t32_add DR_PRED_NE,
    mid := [],
    next := [ex_t32_add DR_PRED_EQ, meta_insert ex_cfg (instr_create OP_label [] [])] }

/-! ## Widening of short branches (`mangle.c` 52-155)

The raw bytes of an instruction are a list of bytes; the address `pc` that
`remangle_short_rewrite` is given is read through a byte memory. -/

/-- Length of a widened `cbz`/`cbnz`: the source asserts it to be the two
bytes of the inverted compare-and-branch plus `sizeof(int)`. -/
def CTI_SHORT_REWRITE_LENGTH : Nat := 6

/-- Offset of the `b` inside a widened `cbz`/`cbnz` (asserted by the source
to be reached after two `instr_set_raw_byte`). -/
def CTI_SHORT_REWRITE_B_OFFS : Nat := 2

/-- Modelled from the spec: `opnd_create_pc`, IR helper outside the sources. -/
def opnd_create_pc (t : Int) : opnd_t := .pc t

/-- Modelled from the spec: `opnd_is_pc`, IR helper outside the sources. -/
def opnd_is_pc : opnd_t → Bool
  | .pc _ => true
  | _ => false

/-- Modelled from the spec: `opnd_is_near_pc`, IR helper outside the sources
(32-bit ARM has no far targets). -/
def opnd_is_near_pc (o : opnd_t) : Bool := opnd_is_pc o

/-- Modelled from the spec: `opnd_is_near_instr`, IR helper outside the
sources. -/
def opnd_is_near_instr : opnd_t → Bool
  | .instr _ _ _ => true
  | _ => false

/-- Modelled from the spec: `opnd_get_pc`, IR helper outside the sources. -/
def opnd_get_pc : opnd_t → Int
  | .pc t => t
  | _ => 0

/-- Modelled from the spec: `opnd_create_instr`, IR helper outside the
sources: an operand referring to the instruction with that label. -/
def opnd_create_instr (i : instr_t) : opnd_t := .instr i.label_id 0 0

/-- Modelled from the spec: `instr_get_target`, IR helper outside the sources:
the target of a control transfer is its first source. -/
def instr_get_target (i : instr_t) : opnd_t := instr_get_src i 0

/-- Modelled from the spec: `instr_set_target`, IR helper outside the sources. -/
def instr_set_target (i : instr_t) (o : opnd_t) : instr_t := instr_set_src i 0 o

/-- Modelled from the spec: `instr_invert_cbr`, IR helper outside the sources:
`cbz` and `cbnz` are exchanged, any other conditional branch gets the inverse
predicate. -/
def instr_invert_cbr (i : instr_t) : instr_t :=
  if i.opcode = OP_cbz then instr_set_opcode i OP_cbnz
  else if i.opcode = OP_cbnz then instr_set_opcode i OP_cbz
  else instr_set_predicate i (instr_invert_predicate i.predicate)

/-- `INSTR_CREATE_label`: a new label; `id` stands for the identity of the
newly allocated instruction. -/
def INSTR_CREATE_label (id : Nat) : instr_t :=
  { instr_create OP_label [] [] with label_id := id }

def INSTR_CREATE_b (tgt : opnd_t) : instr_t := instr_create OP_b [] [tgt]

/-- Modelled from the spec: `instr_allocate_raw_bits`, IR helper outside the
sources: the instruction gets `n` raw bytes of its own (the bytes it had are
kept, new ones read as 0 here) and its operands are marked not valid. -/
def instr_allocate_raw_bits (i : instr_t) (n : Nat) : instr_t :=
  { i with raw_bits := some (((i.raw_bits.getD []).take n) ++
             List.replicate (n - (i.raw_bits.getD []).length) 0),
           operands_valid := false }

/-- Modelled from the spec: `instr_set_raw_byte`, IR helper outside the
sources; the value is stored as a `byte`. -/
def instr_set_raw_byte (i : instr_t) (pos : Nat) (b : Nat) : instr_t :=
  { i with raw_bits := i.raw_bits.map (fun l => l.set pos (b % 256)) }

/-- The four bytes of a 32-bit word in memory order (little endian). -/
def word_bytes (w : Nat) : List Nat :=
  [w % 256, w / 256 % 256, w / 65536 % 256, w / 16777216 % 256]

/-- Modelled from the spec: `instr_set_raw_word`, IR helper outside the
sources: stores a 32-bit word at byte offset `pos`. -/
def instr_set_raw_word (i : instr_t) (pos : Nat) (w : Nat) : instr_t :=
  { i with raw_bits := i.raw_bits.map (fun l =>
      (((l.set pos (w % 256)).set (pos + 1) (w / 256 % 256)).set (pos + 2)
        (w / 65536 % 256)).set (pos + 3) (w / 16777216 % 256)) }

/-- Modelled from the spec: `instr_set_raw_bytes`, IR helper outside the
sources: copies the given bytes over the start of the raw bytes. -/
def instr_set_raw_bytes (i : instr_t) (bs : List Nat) : instr_t :=
  { i with raw_bits := i.raw_bits.map (fun l => bs.take l.length ++ l.drop bs.length) }

/-- Modelled from the spec: `instr_set_operands_valid`, IR helper outside the
sources. -/
def instr_set_operands_valid (i : instr_t) (v : Bool) : instr_t :=
  { i with operands_valid := v }

/-- The `n` bytes found in memory from address `pc` on. -/
def read_bytes (mem : Int → Nat) (pc : Int) (n : Nat) : List Nat :=
  (List.range n).map (fun (k : Nat) => mem (pc + (k : Int)) % 256)

/-- Source `remangle_short_rewrite(dcontext, instr, pc, target)`; `target` is
`none` for NULL, `mem` is the memory `pc` points into.  Returns the
instruction and the returned address; `none` stands for the failed `ASSERT`. -/
def remangle_short_rewrite (cfg : config_t) (mem : Int → Nat) (instr : instr_t) (pc : Int)
    (target : Option Int) : Option (instr_t × Int) :=
  let mangled_sz := CTI_SHORT_REWRITE_LENGTH
  if cfg.instr_is_cti_short_rewrite instr (read_bytes mem pc mangled_sz) = false then none
  else
    let target := match target with
      | none => cfg.decode_raw_jmp_target
          (read_bytes mem (pc + CTI_SHORT_REWRITE_B_OFFS) 4) (pc + CTI_SHORT_REWRITE_B_OFFS)
      | some t => t
    let instr := instr_set_target instr (opnd_create_pc target)
    let instr := instr_allocate_raw_bits instr mangled_sz
    let instr := instr_set_raw_bytes instr (read_bytes mem pc mangled_sz)
    let raw_jmp := cfg.encode_raw_jmp cfg.isa_mode target (pc + CTI_SHORT_REWRITE_B_OFFS)
    let instr := instr_set_raw_word instr CTI_SHORT_REWRITE_B_OFFS raw_jmp
    let instr := instr_set_operands_valid instr true
    some (instr, pc + mangled_sz)

/-- What `convert_to_near_rel_arch` leaves: the instruction it was given, the
instructions that follow it in the list, and the returned instruction. -/
structure near_rel_result where
  instr : instr_t
  after : List instr_t
  ret : instr_t
  deriving DecidableEq, Repr

/-- C `(byte)(0x08 | v)` for an `int` v. -/
def byte_or8 (v : Int) : Nat := 0x08 ||| (v % 256).toNat

/-- Source `convert_to_near_rel_arch(dcontext, ilist, instr)`.  `ilist` is
`none` for NULL and otherwise holds the instructions that follow `instr` (the
ones in front of it are not touched); `fall_id` is the identity of the label
created, `bytes` the address of the raw bytes allocated for `instr`.
`instrlist_meta_postinsert(ilist, instr, x)` puts `x` right behind `instr`;
the third call of the meta path passes `instr` itself, so the element behind
`instr` is `instr` again, and the later changes of `instr` show in both
places.  `none` stands for a failed `ASSERT`. -/
def convert_to_near_rel_arch (cfg : config_t) (ilist : Option (List instr_t))
    (instr : instr_t) (fall_id : Nat) (bytes : Int) : Option near_rel_result :=
  let opcode := instr.opcode
  if opcode = OP_b_short then
    some { instr := instr_set_opcode instr OP_b, after := ilist.getD [],
           ret := instr_set_opcode instr OP_b }
  else if opcode = OP_cbz ∨ opcode = OP_cbnz then
    match ilist with
    | some after =>
      let tgt := instr_get_target instr
      let fall := INSTR_CREATE_label fall_id
      let jmp := INSTR_CREATE_b tgt
      if instr_is_meta instr = false then none
      else
        let after := meta_insert cfg fall :: after
        let after := meta_insert cfg jmp :: after
        let instr := meta_insert cfg instr
        let instr := instr_set_target instr (opnd_create_instr fall)
        let instr := instr_invert_cbr instr
        some { instr := instr, after := instr :: after, ret := meta_insert cfg jmp }
    | none =>
      let tgt := instr_get_target instr
      let target_ok : Bool :=
        if opnd_is_near_pc tgt then true
        else if opnd_is_near_instr tgt then
          match tgt with
          | .instr id _ _ =>
            (cfg.opnd_get_instr id).translation.isSome ||
              (cfg.opnd_get_instr id).raw_bits.isSome
          | _ => false
        else false
      if target_ok = false then none
      else if opnd_is_reg (instr_get_src instr 1) = false then none
      else
        let src_reg := opnd_get_reg (instr_get_src instr 1)
        let mangled_sz := CTI_SHORT_REWRITE_LENGTH
        let instr := instr_allocate_raw_bits instr mangled_sz
        let instr := instr_set_raw_byte instr 0 (byte_or8 ((src_reg : Int) - DR_REG_R0))
        let instr := instr_set_raw_byte instr 1
          (if opcode = OP_cbz then cfg.CBNZ_BYTE_A else cfg.CBZ_BYTE_A)
        let raw_jmp := cfg.encode_raw_jmp cfg.isa_mode (bytes + CTI_SHORT_REWRITE_B_OFFS)
          (bytes + CTI_SHORT_REWRITE_B_OFFS)
        let instr := instr_set_raw_word instr CTI_SHORT_REWRITE_B_OFFS raw_jmp
        let instr := instr_set_operands_valid instr true
        some { instr := instr, after := [], ret := instr }
  else none

/-- The app instruction `cbz r3, 8192` (or `cbnz` for `nz`). -/
def ex_cbz (nz : Bool) : instr_t :=
  { instr_create (if nz then OP_cbnz else OP_cbz) [] [opnd_create_pc 8192, ex_reg 3] with
    isa_mode := DR_ISA_ARM_THUMB }

/-- A memory holding, at address 20480, the six bytes of a widened `cbz r3`
whose `b` goes to 8192: `0x0b, 0xb9` and the word `encode_raw_jmp` of
`ex_cfg` gives for target 8192 at address 20482. -/
def ex_mem : Int → Nat := fun a =>
  if a = 20480 then 0x0b else if a = 20481 then 0xb9
  else if a = 20482 then 0xfe else if a = 20483 then 0xcf
  else if a = 20484 then 0xff else if a = 20485 then 0xff else 0

/-- The Thumb instruction `bne.n 4096` (a predicated `b_short`). -/
def ex_t32_b_short : instr_t :=
  { instr_create OP_b_short [] [opnd_create_pc 4096] with
    isa_mode := DR_ISA_ARM_THUMB, predicate := DR_PRED_NE }

/-- The meta instruction `cbz r3, 8192`. -/
def ex_meta_cbz : instr_t := instr_set_meta (ex_cbz false)

/-- The instruction `ex_meta_cbz` becomes: `cbnz r3, <label 7>`. -/
def ex_meta_cbnz_fall : instr_t :=
  { meta_insert ex_cfg ex_meta_cbz with
    opcode := OP_cbnz, srcs := [opnd_create_instr (INSTR_CREATE_label 7), ex_reg 3] }

/-! ## Control transfers (`mangle.c` 777-1114) -/

/-- C `x | 1`: the integer with bit 0 set. -/
def or_one (x : Int) : Int := x - x % 2 + 1

/-- Modelled from the spec: `PC_AS_JMP_TGT(mode, pc)`, a macro outside the
sources: the address with bit 0 set for a Thumb target, the address itself
otherwise. -/
def PC_AS_JMP_TGT (mode : dr_isa_mode_t) (pc : Int) : Int :=
  if mode = DR_ISA_ARM_THUMB then or_one pc else pc

def INSTR_CREATE_ldrb (d m : opnd_t) : instr_t := instr_create OP_ldrb [d] [m]
def INSTR_CREATE_ldrh (d m : opnd_t) : instr_t := instr_create OP_ldrh [d] [m]
def INSTR_CREATE_lsl (d s i : opnd_t) : instr_t := instr_create OP_lsl [d] [s, i]
def INSTR_CREATE_orr (d s i : opnd_t) : instr_t := instr_create OP_orr [d] [s, i]

/-- The instructions the `OP_tbb`/`OP_tbh` branch of `mangle_indirect_jump`
puts in front of `instr` from the load of the table entry on (`mangle.c`
1016-1055), in execution order.  `cur_pc` is a `ptr_int_t`; the masks
`0xffff0000` and `0xff000000` are unsigned constants, so those two `&` are
formed on the 32-bit pattern, and `OPND_CREATE_INT` takes the result as a
`ptr_int_t` again. -/
def mangle_indirect_jump_tb (cfg : config_t) (instr : instr_t) : List instr_t :=
  let opc := instr.opcode
  let cur_pc : Int := to_int32 (cfg.decode_cur_pc instr)
  let ibl := opnd_create_reg cfg.IBL_TARGET_REG
  [meta_insert cfg
      (if opc = OP_tbb then INSTR_CREATE_ldrb ibl (instr_get_src instr 0)
       else INSTR_CREATE_ldrh ibl (instr_get_src instr 0)),
   meta_insert cfg (INSTR_CREATE_lsl ibl ibl (OPND_CREATE_INT 1))] ++
  (if opc = OP_tbb then
     [meta_insert cfg (INSTR_CREATE_movt ibl
        (OPND_CREATE_INT (u32 cur_pc / 65536 * 65536 / 65536)))]
   else
     [meta_insert cfg (XINST_CREATE_add ibl
        (OPND_CREATE_INT (to_int32 (u32 cur_pc / 16777216 * 16777216)))),
      meta_insert cfg (XINST_CREATE_add ibl
        (OPND_CREATE_INT (cur_pc / 65536 % 256 * 65536)))]) ++
  [meta_insert cfg (XINST_CREATE_add ibl (OPND_CREATE_INT (cur_pc / 256 % 256 * 256))),
   meta_insert cfg (XINST_CREATE_add ibl (OPND_CREATE_INT (or_one (cur_pc % 256))))]

/-- The Thumb instruction `tbb [r0, r1]` (`tbh [r0, r1, lsl #1]` for `h`). -/
def ex_tb (h : Bool) : instr_t :=
  { instr_create (if h then OP_tbh else OP_tbb) []
      [opnd_create_base_disp DR_REG_R0 DR_REG_R1 0 0 (if h then 2 else 1)] with
    isa_mode := DR_ISA_ARM_THUMB }

/-- Modelled from the spec: `instr_is_app`, IR helper outside the sources. -/
def instr_is_app (i : instr_t) : Bool := i.is_app

/-- `XINST_CREATE_move`: on ARM a `mov`. -/
def XINST_CREATE_move (d s : opnd_t) : instr_t := INSTR_CREATE_mov d s

/-- `XINST_CREATE_jump`: on ARM a `b`. -/
def XINST_CREATE_jump (t : opnd_t) : instr_t := INSTR_CREATE_b t

/-- `INSTR_PRED(instr, pred)`: the instruction with that predicate. -/
def INSTR_PRED (i : instr_t) (p : dr_pred_type_t) : instr_t := instr_set_predicate i p

/-- The body of the loop of `mangle_add_predicated_fall_through`: the
instruction `prev` gets the predicate unless it is a meta spill or restore. -/
def mangle_add_predicated_fall_through_mark (cfg : config_t) (pred : dr_pred_type_t)
    (prev : instr_t) : instr_t :=
  if instr_is_app prev || (instr_is_reg_spill_or_restore cfg prev).isNone then
    instr_set_predicate prev pred
  else prev

/-- Source `mangle_add_predicated_fall_through(dcontext, ilist, instr,
next_instr, mangle_start)`, where `mangle_start` is the `k`-th instruction in
front of `instr` (so `c.prev.take k` are the instructions after it).  `none`
stands for the failed `ASSERT`. -/
def mangle_add_predicated_fall_through (cfg : config_t) (c : ilist_at) (k : Nat) :
    Option ilist_at :=
  let instr := c.instr
  let pred := instr.predicate
  let fall_through := cfg.get_call_return_address instr
  if instr_is_predicated instr = false then none
  else
    let mark := mangle_add_predicated_fall_through_mark cfg pred
    let c : ilist_at :=
      if instr_uses_reg instr cfg.dr_reg_stolen = false then
        { c with prev := (c.prev.take k).map mark ++ c.prev.drop k,
                 instr := mark c.instr, mid := c.mid.map mark }
      else c
    let movs := (insert_mov_immed_ptrsz cfg
      (to_int32 (PC_AS_JMP_TGT instr.isa_mode fall_through))
      (opnd_create_reg cfg.IBL_TARGET_REG)).map
        (fun m => instr_set_predicate m (instr_invert_predicate pred))
    some { c with mid := c.mid ++ movs }

/-- The list once `instr` is removed, seen from the label `bound_start` that
stands `k` instructions in front of it: the instructions in front of the
label, the label, the instructions up to `next_instr`, and `next_instr` with
what follows it. -/
def remove_at_bound (c : ilist_at) (k : Nat) : Option ilist_at :=
  match c.prev.drop k with
  | [] => none
  | b :: pre => some { prev := pre, instr := b, mid := (c.prev.take k).reverse ++ c.mid,
                       next := c.next }

/-- Source `mangle_direct_call(dcontext, ilist, instr, next_instr,
mangle_calls, flags)`; `bound_id` is the identity of the label created.  The
result is the list after the call, with `instr` removed, seen from the label
`bound_start`; its `next` begins at the returned `next_instr`.  `none` stands
for a failed `ASSERT`. -/
def mangle_direct_call (cfg : config_t) (c : ilist_at) (bound_id : Nat) : Option ilist_at :=
  let instr := c.instr
  let opc := instr.opcode
  let in_it := app_instr_is_in_it_block instr
  let bound_start := INSTR_CREATE_label bound_id
  match (if in_it then mangle_remove_from_it_block cfg c else some c) with
  | none => none
  | some c =>
    let c := { c with prev := meta_insert cfg bound_start :: c.prev }
    if ¬ (opc = OP_bl ∨ opc = OP_blx) then none
    else if opnd_is_pc (instr_get_target instr) = false then none
    else
      let target := opnd_get_pc (instr_get_target instr)
      let retaddr := cfg.get_call_return_address instr
      let movs := insert_mov_immed_ptrsz cfg
        (to_int32 (PC_AS_JMP_TGT instr.isa_mode retaddr)) (opnd_create_reg DR_REG_LR)
      let r : Option (ilist_at × Nat) :=
        if opc = OP_bl then
          if instr_is_predicated instr then
            let movs := movs.map (fun m => instr_set_predicate m instr.predicate)
            let jmp := list_insert cfg
              (INSTR_PRED (XINST_CREATE_jump (opnd_create_pc target)) instr.predicate)
            some ({ c with prev := jmp :: movs.reverse ++ c.prev }, movs.length + 1)
          else some ({ c with prev := movs.reverse ++ c.prev }, movs.length)
        else
          let target :=
            if instr.isa_mode = DR_ISA_ARM_A32 then
              to_int32 (PC_AS_JMP_TGT DR_ISA_ARM_THUMB target)
            else target
          let save := meta_insert cfg
            (instr_create_save_to_tls cfg cfg.IBL_TARGET_REG cfg.IBL_TARGET_SLOT)
          let tmovs := insert_mov_immed_ptrsz cfg target (opnd_create_reg cfg.IBL_TARGET_REG)
          let c := { c with prev := tmovs.reverse ++ save :: movs.reverse ++ c.prev }
          let k := movs.length + 1 + tmovs.length
          if instr_is_predicated instr then
            match mangle_add_predicated_fall_through cfg c k with
            | none => none
            | some c =>
              if in_it ∨ instr.isa_mode ≠ DR_ISA_ARM_THUMB then some (c, k) else none
          else some (c, k)
      match r with
      | none => none
      | some (c, k) =>
        match remove_at_bound c k with
        | none => none
        | some c => some (if in_it then mangle_reinstate_it_blocks cfg c 0 else c)

/-- Source `mangle_indirect_call(dcontext, ilist, instr, next_instr,
mangle_calls, flags)`; `bound_id` is the identity of the label created.  The
result is the list after the call, with `instr` removed, seen from the label
`bound_start`; its `next` begins at the returned `next_instr`.  `none` stands
for a failed `ASSERT`. -/
def mangle_indirect_call (cfg : config_t) (c : ilist_at) (bound_id : Nat) : Option ilist_at :=
  let instr := c.instr
  let in_it := app_instr_is_in_it_block instr
  let bound_start := INSTR_CREATE_label bound_id
  match (if in_it then mangle_remove_from_it_block cfg c else some c) with
  | none => none
  | some c =>
    let save := meta_insert cfg
      (instr_create_save_to_tls cfg cfg.IBL_TARGET_REG cfg.IBL_TARGET_SLOT)
    let c := { c with prev := meta_insert cfg bound_start :: save :: c.prev }
    let tgt : List instr_t :=
      if opnd_same (instr_get_target instr) (opnd_create_reg cfg.IBL_TARGET_REG) = false then
        if opnd_same (instr_get_target instr) (opnd_create_reg cfg.dr_reg_stolen) then
          [meta_insert cfg
            (instr_create_restore_from_tls cfg cfg.IBL_TARGET_REG cfg.TLS_REG_STOLEN_SLOT)]
        else
          [meta_insert cfg
            (XINST_CREATE_move (opnd_create_reg cfg.IBL_TARGET_REG) (instr_get_target instr))]
      else []
    let retaddr := cfg.get_call_return_address instr
    let movs := insert_mov_immed_ptrsz cfg
      (to_int32 (PC_AS_JMP_TGT instr.isa_mode retaddr)) (opnd_create_reg DR_REG_LR)
    let c := { c with prev := movs.reverse ++ tgt.reverse ++ c.prev }
    let k := tgt.length + movs.length
    let r : Option ilist_at :=
      if instr_is_predicated instr then
        match mangle_add_predicated_fall_through cfg c k with
        | none => none
        | some c => if in_it ∨ instr.isa_mode ≠ DR_ISA_ARM_THUMB then some c else none
      else some c
    match r with
    | none => none
    | some c =>
      match remove_at_bound c k with
      | none => none
      | some c => some (if in_it then mangle_reinstate_it_blocks cfg c 0 else c)

/-- The Thumb instruction `blx r5` at address 12288. -/
def ex_blx_ind (r : Nat) : instr_t :=
  { instr_create OP_blx_ind [opnd_create_reg DR_REG_LR] [opnd_create_reg r] with
    isa_mode := DR_ISA_ARM_THUMB, translation := some 12288 }

/-- The Thumb instruction `bl 8192` at address 12288, under predicate `p`. -/
def ex_bl (p : dr_pred_type_t) : instr_t :=
  { instr_create OP_bl [opnd_create_reg DR_REG_LR] [opnd_create_pc 8192] with
    isa_mode := DR_ISA_ARM_THUMB, translation := some 12288, predicate := p }

/-- The instruction `blx 8192` at address 12288 in the given mode. -/
def ex_blx (m : dr_isa_mode_t) : instr_t :=
  { instr_create OP_blx [opnd_create_reg DR_REG_LR] [opnd_create_pc 8192] with
    isa_mode := m, translation := some 12288 }

/-- The list `add r10, r10, #1` in front of `blx r10` (r10 the stolen register)
followed by one instruction. -/
def ex_blx_stolen_at : ilist_at :=
  { prev := [ex_add_stolen], instr := ex_blx_ind ex_cfg.dr_reg_stolen, mid := [],
    next := [ex_t32_add DR_PRED_NONE] }

/-- The instructions the description of the immediate `blx` names, in list
order, for a `blx` to `T`: the materialisation of the return address in `lr`,
the spill of `IBL_TARGET_REG`, the materialisation of the target in
`IBL_TARGET_REG` (bit 0 set when the call site is A32), and for a predicated
`blx` the materialisation of the fall-through address under the inverse
predicate.  The materialisations carry the predicate of the `blx` when it is
predicated and does not use the stolen register. -/
def blx_sequence_spec (cfg : config_t) (instr : instr_t) (T : Int) : List instr_t :=
  let q := if instr_is_predicated instr = true ∧ instr_uses_reg instr cfg.dr_reg_stolen = false
    then instr.predicate else DR_PRED_NONE
  let ret := to_int32 (PC_AS_JMP_TGT instr.isa_mode (cfg.get_call_return_address instr))
  (insert_mov_immed_ptrsz cfg ret (opnd_create_reg DR_REG_LR)).map
      (fun m => instr_set_predicate m q) ++
    meta_insert cfg (instr_create_save_to_tls cfg cfg.IBL_TARGET_REG cfg.IBL_TARGET_SLOT) ::
    (insert_mov_immed_ptrsz cfg
      (if instr.isa_mode = DR_ISA_ARM_A32 then to_int32 (or_one T) else T)
      (opnd_create_reg cfg.IBL_TARGET_REG)).map (fun m => instr_set_predicate m q) ++
    (if instr_is_predicated instr = true then
       (insert_mov_immed_ptrsz cfg ret (opnd_create_reg cfg.IBL_TARGET_REG)).map
         (fun m => instr_set_predicate m (instr_invert_predicate instr.predicate))
     else [])

/-- An A32 `blx 8192` with one instruction in front of it and one behind. -/
def ex_blx_a32_at : ilist_at :=
  { prev := [ex_add_stolen], instr := ex_blx DR_ISA_ARM_A32, mid := [],
    next := [ex_t32_add DR_PRED_NONE] }

/-- An unpredicated Thumb `bl 8192` at address 12288 with one instruction in
front of it and one behind. -/
def ex_bl_at : ilist_at :=
  { prev := [ex_add_stolen], instr := ex_bl DR_PRED_NONE, mid := [],
    next := [ex_t32_add DR_PRED_NONE] }

/-! ## System calls (`mangle.c` 370-395, 687-766) -/

/-- Modelled from the spec: `DR_REG_STOLEN_MIN`, a constant outside the
sources: the lowest register that may be stolen (r8). -/
def DR_REG_STOLEN_MIN : Nat := DR_REG_R8

/-- Modelled from the spec: `DR_REG_STOLEN_MAX`, a constant outside the
sources: the highest register that may be stolen (r12). -/
def DR_REG_STOLEN_MAX : Nat := DR_REG_R12

/-- Modelled from the spec: `DR_REG_SYSNUM`, a constant outside the sources:
the register holding the system call number (r7). -/
def DR_REG_SYSNUM : Nat := DR_REG_R7

/-- Source `mangle_syscall_arch(dcontext, ilist, flags, instr, next_instr)`.
`none` stands for a failed `ASSERT`. -/
def mangle_syscall_arch (cfg : config_t) (c : ilist_at) : Option ilist_at :=
  if instr_is_predicated c.instr then none
  else if ¬ (DR_REG_STOLEN_MIN > DR_REG_SYSNUM) then none
  else
    let prev := c.prev
    let prev :=
      if cfg.dr_reg_stolen ≠ DR_REG_R10 ∧ cfg.dr_reg_stolen ≠ DR_REG_R11 then
        meta_insert cfg (XINST_CREATE_move (opnd_create_reg DR_REG_R10)
            (opnd_create_reg cfg.dr_reg_stolen)) ::
          meta_insert cfg (instr_create_save_to_tls cfg DR_REG_R10 (TLS_REG1_SLOT cfg)) :: prev
      else prev
    let prev := meta_insert cfg (instr_create_save_to_tls cfg DR_REG_R0 cfg.TLS_REG0_SLOT) :: prev
    let mid :=
      if cfg.dr_reg_stolen ≠ DR_REG_R10 ∧ cfg.dr_reg_stolen ≠ DR_REG_R11 then
        c.mid ++
          [meta_insert cfg (XINST_CREATE_move (opnd_create_reg cfg.dr_reg_stolen)
             (opnd_create_reg DR_REG_R10)),
           meta_insert cfg (instr_create_restore_from_tls cfg DR_REG_R10 (TLS_REG1_SLOT cfg))]
      else c.mid
    some { c with prev := prev, mid := mid }

/-- Modelled from the spec: `insert_mov_instr_addr`, a shared routine outside
the sources that materialises the address of an instruction; on ARM it hands
the instruction to `insert_mov_immed_arch`. -/
def insert_mov_instr_addr (cfg : config_t) (src_inst : instr_t) (encode_estimate : Int)
    (dst : opnd_t) : List instr_t :=
  (insert_mov_immed_arch cfg (some src_inst) encode_estimate 0 dst).inserted

/-- Source `insert_reachable_cti(dcontext, ilist, where, encode_pc, target,
jmp, returns, precise, scratch, inlined_tgt_instr)`: the instructions put in
front of `where`, in list order, and the value returned.  `post_id` is the
identity of the label created; `none` stands for the failed `ASSERT`. -/
def insert_reachable_cti (cfg : config_t) (encode_pc target : Int) (jmp returns : Bool)
    (_precise : Bool) (scratch : Nat) (post_id : Nat) : Option (List instr_t × Bool) :=
  let post_call := INSTR_CREATE_label post_id
  if scratch = REG_NULL then none
  else
    let movs := insert_mov_immed_ptrsz cfg (to_int32 (PC_AS_JMP_TGT cfg.isa_mode target))
      (opnd_create_reg scratch)
    let lr := if !jmp && returns then
        insert_mov_instr_addr cfg post_call encode_pc (opnd_create_reg DR_REG_LR)
      else []
    some (movs ++ lr ++
      [meta_insert cfg (INSTR_CREATE_mov (opnd_create_reg DR_REG_PC) (opnd_create_reg scratch)),
       meta_insert cfg post_call], false)

def INSTR_CREATE_cbnz (t r : opnd_t) : instr_t := instr_create OP_cbnz [] [t, r]

/-- The list with `instr_set_meta` applied to its last element. -/
def set_meta_last (l : List instr_t) : List instr_t :=
  match l.getLast? with
  | none => l
  | some x => l.dropLast ++ [instr_set_meta x]

/-- Source `mangle_insert_clone_code(dcontext, ilist, instr)`; `parent_id` and
`post_id` are the identities of the labels created.  `in` is the first
instruction behind `instr`; `instr_get_prev(in)` is taken when the call of
`instr_set_meta` is reached, that is behind the insertions in front of `in`.
In the result `mid` holds what stands between `instr` and `in`.  `none` stands
for a failed `ASSERT`. -/
def mangle_insert_clone_code (cfg : config_t) (c : ilist_at) (parent_id post_id : Nat) :
    Option ilist_at :=
  let parent := INSTR_CREATE_label parent_id
  match c.mid ++ c.next with
  | [] => none
  | inn :: rest =>
    let ins := [meta_insert cfg
      (INSTR_CREATE_cbnz (opnd_create_instr parent) (opnd_create_reg DR_REG_R0))]
    match insert_reachable_cti cfg cfg.vmcode_get_start cfg.get_new_thread_start true false false
        DR_REG_R0 post_id with
    | none => none
    | some (cti, _) =>
      let ins := ins ++ cti
      match set_meta_last (c.instr :: ins) with
      | [] => none
      | instr :: ins =>
        some { prev := c.prev, instr := instr, mid := ins ++ [meta_insert cfg parent],
               next := inn :: rest }

/-- An app `svc 0` in Thumb mode. -/
def ex_svc : instr_t :=
  { instr_create OP_svc [] [OPND_CREATE_INT 0] with isa_mode := DR_ISA_ARM_THUMB }

/-- The list `add r10, r10, #1; svc 0; add r2, r2, #1`, seen from the `svc`. -/
def ex_svc_at : ilist_at :=
  { prev := [ex_add_stolen], instr := ex_svc, mid := [], next := [ex_t32_add DR_PRED_NONE] }

/-- The configuration `ex_cfg` with r12 as the stolen register. -/
def ex_cfg_r12 : config_t := { ex_cfg with dr_reg_stolen := DR_REG_R12 }

/-- The Thumb `blx r5` at address 12288 under predicate `eq`, with one
instruction behind it. -/
def ex_blx_ind_eq_at : ilist_at :=
  { prev := [], instr := { ex_blx_ind DR_REG_R5 with predicate := DR_PRED_EQ }, mid := [],
    next := [ex_t32_add DR_PRED_NONE] }

/-! ## Parameter preparation (`mangle.c` 324-368) -/

/-- Modelled from the spec: `DR_REG_XSP`, a constant outside the sources: the
stack pointer. -/
def DR_REG_XSP : Nat := DR_REG_SP

/-- Number of register parameters: the length of the table `regparms`. -/
def NUM_REGPARM (cfg : config_t) : Nat := cfg.regparms.length

/-- The body of the loop of `insert_parameter_preparation` for the argument
`arg` destined to the parameter register `rp`: the instructions it inserts
behind `mark`, in list order.  `none` stands for `ASSERT_NOT_IMPLEMENTED`. -/
def insert_parameter_preparation_arg (cfg : config_t) (arg : opnd_t) (rp : Nat) :
    Option (List instr_t) :=
  if opnd_is_immed_int arg then
    some (insert_mov_immed_ptrsz cfg (opnd_get_immed_int arg) (opnd_create_reg rp))
  else if opnd_is_reg arg then
    if opnd_get_size arg ≠ OPSZ_PTR then none
    else if opnd_get_reg arg = DR_REG_XSP then
      some (meta_insert cfg (instr_create_save_to_tls cfg rp cfg.TLS_REG0_SLOT) ::
        (cfg.insert_get_mcontext_base rp ++
          [meta_insert cfg (cfg.restore_xsp_from_dc_via_reg rp rp)]))
    else if opnd_get_reg arg ≠ rp then
      some [meta_insert cfg (XINST_CREATE_move (opnd_create_reg rp) arg)]
    else some []
  else none

/-- The loop of `insert_parameter_preparation` from argument number `i` on;
`acc` are the instructions that stand behind `mark` so far.  Every argument
puts its instructions directly behind `mark`, in front of those of the
arguments before it. -/
def insert_parameter_preparation_loop (cfg : config_t) :
    List opnd_t → Nat → List instr_t → Option (List instr_t)
  | [], _, acc => some acc
  | a :: rest, i, acc =>
    match insert_parameter_preparation_arg cfg a (cfg.regparms.getD i REG_NULL) with
    | none => none
    | some l => insert_parameter_preparation_loop cfg rest (i + 1) (l ++ acc)

/-- Source `insert_parameter_preparation(dcontext, ilist, instr, clean_call,
num_args, args)` with `instr = c.instr` and `num_args` the length of `args`;
`mark_id` is the identity of the label created.  The result is the list and
the returned number; `none` stands for `ASSERT_NOT_IMPLEMENTED`. -/
def insert_parameter_preparation (cfg : config_t) (c : ilist_at) (args : List opnd_t)
    (mark_id : Nat) : Option (ilist_at × Nat) :=
  let mark := meta_insert cfg (INSTR_CREATE_label mark_id)
  if args.length > NUM_REGPARM cfg then none
  else
    match insert_parameter_preparation_loop cfg args 0 [] with
    | none => none
    | some ins => some ({ c with prev := ins.reverse ++ mark :: c.prev }, 0)

/-- The value of an argument operand in state `s`: an immediate as a 32-bit
pattern, a register by its content. -/
def arg_value (s : mstate) (a : opnd_t) : Int :=
  match a with
  | .immed_int v => wrap32 v
  | .reg r _ _ => s.regs r
  | _ => 0

/-- The instructions the arguments `args`, destined to the parameter
registers number `i` on, leave behind `mark`: those of the last argument
first. -/
def parameter_instrs (cfg : config_t) : List opnd_t → Nat → List instr_t
  | [], _ => []
  | a :: rest, i =>
    parameter_instrs cfg rest (i + 1) ++
      ((insert_parameter_preparation_arg cfg a (cfg.regparms.getD i REG_NULL)).getD [])

/-- The arguments `r5, 7, r0` of a call. -/
def ex_args : List opnd_t := [ex_reg 5, OPND_CREATE_INT 7, ex_reg 0]

/-! ## Clean-call register save and restore (`mangle.c` 171-312) -/

/-- Modelled from the spec: `XSP_SZ`, a constant outside the sources: the size
of a stack slot. -/
def XSP_SZ : Nat := 4

/-- Modelled from the spec: `OPND_CREATE_INT8`, IR helper outside the sources. -/
def OPND_CREATE_INT8 (v : Int) : opnd_t := OPND_CREATE_INT v

/-- Modelled from the spec: `OPND_CREATE_INT_MSR_NZCVQG`, IR helper outside the
sources: the field mask of `msr` selecting N, Z, C, V, Q and GE. -/
def OPND_CREATE_INT_MSR_NZCVQG : opnd_t := OPND_CREATE_INT 12

/-- Modelled from the spec: `SIMD_REG_LIST_LEN`, a constant outside the
sources. -/
def SIMD_REG_LIST_LEN : Nat := 16

/-- Modelled from the spec: `SIMD_REG_LIST_0_15`, the registers d0..d15. -/
def SIMD_REG_LIST_0_15 : List opnd_t :=
  (List.range 16).map (fun (k : Nat) => opnd_create_reg (DR_REG_D0 + k))

/-- Modelled from the spec: `SIMD_REG_LIST_16_31`, the registers d16..d31. -/
def SIMD_REG_LIST_16_31 : List opnd_t :=
  (List.range 16).map (fun (k : Nat) => opnd_create_reg (DR_REG_D0 + 16 + k))

/-- Modelled from the spec: `DR_REG_LIST_LENGTH_T32`, a constant outside the
sources. -/
def DR_REG_LIST_LENGTH_T32 : Nat := 13

/-- Modelled from the spec: `DR_REG_LIST_T32`, the registers r0..r12. -/
def DR_REG_LIST_T32 : List opnd_t :=
  (List.range 13).map (fun (k : Nat) => opnd_create_reg (DR_REG_R0 + k))

/-- Modelled from the spec: `DR_REG_LIST_LENGTH_ARM`, a constant outside the
sources. -/
def DR_REG_LIST_LENGTH_ARM : Nat := 15

/-- Modelled from the spec: `DR_REG_LIST_ARM`, the registers r0..r14. -/
def DR_REG_LIST_ARM : List opnd_t :=
  (List.range 15).map (fun (k : Nat) => opnd_create_reg (DR_REG_R0 + k))

/-- Modelled from the spec: `INSTR_CREATE_vstmdb(dc, mem, list_len, ...)`, IR
helper outside the sources: `vstmdb base!, {list}`. -/
def INSTR_CREATE_vstmdb (mem : opnd_t) (list_len : Nat) (list : List opnd_t) : instr_t :=
  instr_create OP_vstmdb [mem, opnd_create_reg (opnd_get_base mem)]
    (list.take list_len ++ [opnd_create_reg (opnd_get_base mem)])

/-- Modelled from the spec: `INSTR_CREATE_vldm_wb(dc, mem, list_len, ...)`, IR
helper outside the sources: `vldmia base!, {list}`. -/
def INSTR_CREATE_vldm_wb (mem : opnd_t) (list_len : Nat) (list : List opnd_t) : instr_t :=
  instr_create OP_vldmia (list.take list_len ++ [opnd_create_reg (opnd_get_base mem)])
    [mem, opnd_create_reg (opnd_get_base mem)]

/-- Modelled from the spec: `INSTR_CREATE_stmdb_wb(dc, mem, list_len, ...)`, IR
helper outside the sources: `stmdb base!, {list}`. -/
def INSTR_CREATE_stmdb_wb (mem : opnd_t) (list_len : Nat) (list : List opnd_t) : instr_t :=
  instr_create OP_stmdb [mem, opnd_create_reg (opnd_get_base mem)]
    (list.take list_len ++ [opnd_create_reg (opnd_get_base mem)])

/-- Modelled from the spec: `INSTR_CREATE_ldm_wb(dc, mem, list_len, ...)`, IR
helper outside the sources: `ldm base!, {list}`. -/
def INSTR_CREATE_ldm_wb (mem : opnd_t) (list_len : Nat) (list : List opnd_t) : instr_t :=
  instr_create OP_ldmia (list.take list_len ++ [opnd_create_reg (opnd_get_base mem)])
    [mem, opnd_create_reg (opnd_get_base mem)]

/-- Modelled from the spec: `INSTR_CREATE_mrs`, IR helper outside the sources. -/
def INSTR_CREATE_mrs (d statreg : opnd_t) : instr_t := instr_create OP_mrs [d] [statreg]

/-- Modelled from the spec: `INSTR_CREATE_msr`, IR helper outside the sources. -/
def INSTR_CREATE_msr (statreg mask r : opnd_t) : instr_t :=
  instr_create OP_msr [statreg] [mask, r]

/-- Modelled from the spec: `INSTR_CREATE_push`, IR helper outside the sources:
`str Rt, [sp, #-4]!`. -/
def INSTR_CREATE_push (rt : opnd_t) : instr_t :=
  instr_create OP_str [OPND_CREATE_MEMPTR DR_REG_XSP (-4), opnd_create_reg DR_REG_XSP]
    [rt, opnd_create_reg DR_REG_XSP, OPND_CREATE_INT (-4)]

/-- Modelled from the spec: `INSTR_CREATE_pop`, IR helper outside the sources:
`ldr Rt, [sp], #4`. -/
def INSTR_CREATE_pop (rt : opnd_t) : instr_t :=
  instr_create OP_ldr [rt, opnd_create_reg DR_REG_XSP]
    [OPND_CREATE_MEMPTR DR_REG_XSP 0, opnd_create_reg DR_REG_XSP, OPND_CREATE_INT 4]

/-- Modelled from the spec: `XINST_CREATE_load_int`, IR helper outside the
sources: `mvn` of the complement for a negative value, `movw` otherwise. -/
def XINST_CREATE_load_int (r i : opnd_t) : instr_t :=
  if opnd_get_immed_int i < 0 then
    INSTR_CREATE_mvn r (OPND_CREATE_INT (- opnd_get_immed_int i - 1))
  else INSTR_CREATE_movw r i

/-- The part of `insert_push_all_registers` under `!cci->skip_save_aflags`:
the instructions it inserts, in list order.  `none` stands for the failed
`ASSERT(opnd_is_reg(push_pc))`. -/
def insert_push_all_registers_aflags (cfg : config_t) (push_pc : opnd_t) (scratch : Nat) :
    Option (List instr_t) :=
  let spill := scratch == REG_NULL
  let conflict := opnd_is_reg push_pc && opnd_get_reg push_pc == DR_REG_R0
  let slot := if spill && conflict then TLS_REG1_SLOT cfg else cfg.TLS_REG0_SLOT
  let scratch := if spill then (if conflict then DR_REG_R1 else DR_REG_R0) else scratch
  let save := if spill then [meta_insert cfg (instr_create_save_to_tls cfg scratch slot)] else []
  let flags :=
    [meta_insert cfg (INSTR_CREATE_mrs (opnd_create_reg scratch) (opnd_create_reg DR_REG_CPSR)),
     meta_insert cfg (INSTR_CREATE_push (opnd_create_reg scratch))]
  let restore :=
    if spill then [meta_insert cfg (instr_create_restore_from_tls cfg scratch slot)] else []
  if opnd_is_immed_int push_pc then
    some (save ++ flags ++
      [meta_insert cfg (XINST_CREATE_load_int (opnd_create_reg scratch) push_pc),
       meta_insert cfg (INSTR_CREATE_push (opnd_create_reg scratch))] ++ restore)
  else if opnd_is_reg push_pc then
    some (save ++ flags ++ [meta_insert cfg (INSTR_CREATE_push push_pc)] ++ restore)
  else none

/-- The instructions with which `insert_push_all_registers` pushes the general
purpose registers, in list order. -/
def insert_push_all_registers_gprs (cfg : config_t) : List instr_t :=
  if cfg.isa_mode = DR_ISA_ARM_THUMB then
    [meta_insert cfg (INSTR_CREATE_push (opnd_create_reg DR_REG_LR)),
     meta_insert cfg (XINST_CREATE_sub (opnd_create_reg DR_REG_SP) (OPND_CREATE_INT8 XSP_SZ)),
     meta_insert cfg (INSTR_CREATE_stmdb_wb (OPND_CREATE_MEMLIST DR_REG_SP)
       DR_REG_LIST_LENGTH_T32 DR_REG_LIST_T32)]
  else
    [meta_insert cfg (INSTR_CREATE_stmdb_wb (OPND_CREATE_MEMLIST DR_REG_SP)
       DR_REG_LIST_LENGTH_ARM DR_REG_LIST_ARM)]

/-- The two `vstmdb` with which `insert_push_all_registers` starts. -/
def insert_push_all_registers_simd (cfg : config_t) : List instr_t :=
  [meta_insert cfg (INSTR_CREATE_vstmdb (OPND_CREATE_MEMLIST DR_REG_SP) SIMD_REG_LIST_LEN
     SIMD_REG_LIST_16_31),
   meta_insert cfg (INSTR_CREATE_vstmdb (OPND_CREATE_MEMLIST DR_REG_SP) SIMD_REG_LIST_LEN
     SIMD_REG_LIST_0_15)]

/-- Source `insert_push_all_registers(dcontext, cci, ilist, instr, alignment,
push_pc, scratch)` with `instr = c.instr`; `cci = none` is the null pointer.
The result is the list and the returned `dstack_offs` (a C `uint`); `none`
stands for a failed `ASSERT`. -/
def insert_push_all_registers (cfg : config_t) (cci : Option clean_call_info_t) (c : ilist_at)
    (_alignment : Nat) (push_pc : opnd_t) (scratch : Nat) : Option (ilist_at × Nat) :=
  let cci := cci.getD cfg.default_clean_call_info
  let dstack_offs : Nat := 0
  let simd := insert_push_all_registers_simd cfg
  let dstack_offs := (dstack_offs + cfg.NUM_SIMD_SLOTS * cfg.sizeof_dr_simd_t) % 4294967296
  let aflags : Option (List instr_t × Nat) :=
    if cci.skip_save_aflags = false then
      match insert_push_all_registers_aflags cfg push_pc scratch with
      | none => none
      | some l => some (l, ((dstack_offs + XSP_SZ) % 4294967296 + XSP_SZ) % 4294967296)
    else some ([], dstack_offs)
  match aflags with
  | none => none
  | some (afl, dstack_offs) =>
    let gprs := insert_push_all_registers_gprs cfg
    let dstack_offs := (dstack_offs + 15 * XSP_SZ) % 4294967296
    if cci.skip_save_aflags || cci.num_xmms_skip != 0 || cci.num_regs_skip != 0 ||
        dstack_offs == cfg.get_clean_call_switch_stack_size % 4294967296 then
      some ({ c with prev := (simd ++ afl ++ gprs).reverse ++ c.prev }, dstack_offs)
    else none

/-- The instructions `insert_pop_all_registers` inserts, in list order. -/
def insert_pop_all_registers_instrs (cfg : config_t) (cci : clean_call_info_t) :
    List instr_t :=
  [meta_insert cfg (INSTR_CREATE_ldm_wb (OPND_CREATE_MEMLIST DR_REG_SP)
     DR_REG_LIST_LENGTH_T32 DR_REG_LIST_T32),
   meta_insert cfg (XINST_CREATE_add (opnd_create_reg DR_REG_SP) (OPND_CREATE_INT8 XSP_SZ)),
   meta_insert cfg (INSTR_CREATE_pop (opnd_create_reg DR_REG_LR))] ++
  (if cci.skip_save_aflags = false then
    [meta_insert cfg (XINST_CREATE_add (opnd_create_reg DR_REG_SP) (OPND_CREATE_INT8 XSP_SZ)),
     meta_insert cfg (instr_create_save_to_tls cfg DR_REG_R0 cfg.TLS_REG0_SLOT),
     meta_insert cfg (INSTR_CREATE_pop (opnd_create_reg DR_REG_R0)),
     meta_insert cfg (INSTR_CREATE_msr (opnd_create_reg DR_REG_CPSR)
       OPND_CREATE_INT_MSR_NZCVQG (opnd_create_reg DR_REG_R0)),
     meta_insert cfg (instr_create_restore_from_tls cfg DR_REG_R0 cfg.TLS_REG0_SLOT)]
   else []) ++
  [meta_insert cfg (INSTR_CREATE_vldm_wb (OPND_CREATE_MEMLIST DR_REG_SP) SIMD_REG_LIST_LEN
     SIMD_REG_LIST_0_15),
   meta_insert cfg (INSTR_CREATE_vldm_wb (OPND_CREATE_MEMLIST DR_REG_SP) SIMD_REG_LIST_LEN
     SIMD_REG_LIST_16_31)]

/-- Source `insert_pop_all_registers(dcontext, cci, ilist, instr, alignment)`
with `instr = c.instr`; `cci = none` is the null pointer. -/
def insert_pop_all_registers (cfg : config_t) (cci : Option clean_call_info_t) (c : ilist_at)
    (_alignment : Nat) : ilist_at :=
  let cci := cci.getD cfg.default_clean_call_info
  { c with prev := (insert_pop_all_registers_instrs cfg cci).reverse ++ c.prev }

/-- The number of bytes the registers saved for a clean call take: the 32
SIMD double words, r0..r14 and, unless `skip_save_aflags`, the status word and
the pc. -/
def pushed_bytes (cci : clean_call_info_t) : Int :=
  2 * SIMD_REG_LIST_LEN * 8 + 15 * XSP_SZ + (if cci.skip_save_aflags then 0 else 2 * XSP_SZ)

/-- Offset of the slot of `d0` from the lowest saved word. -/
def simd_slot_offset (cci : clean_call_info_t) : Int :=
  15 * XSP_SZ + (if cci.skip_save_aflags then 0 else 2 * XSP_SZ)

/-- The registers `base`, `base + 1`, ... the lists of the clean-call save
name. -/
def reg_range (base n : Nat) : List Nat := (List.range n).map (fun (k : Nat) => base + k)

/-- A machine state for the restore: register k holds 1000*k and the memory
word at address a holds 100000 + a. -/
def ex_state_saved : mstate :=
  { regs := fun r => 1000 * r, mem := fun a => 100000 + a, cond := fun _ => true }

/-! ## Statements of the selection order and of the block translation -/

/-- First rule of the selection order of `pick_scratch_reg` in words: when
`opt_mangle` is on and the nearest instruction in front that is not a label
of the mangler is a TLS restore of some `r` of r0..r3 that the instruction
does not use and that is not `IBL_TARGET_REG` for a control transfer, `r`. -/
def pick_scratch_reg_order_prior (cfg : config_t) (left : List instr_t) (instr : instr_t) :
    Option Nat :=
  if cfg.opt_mangle = 0 then none
  else
    match (left.dropWhile (fun p => instr_is_label p && instr_is_our_mangling p)).head? with
    | some prev =>
      match instr_is_reg_spill_or_restore cfg prev with
      | some (true, false, r) =>
        if [DR_REG_R0, DR_REG_R1, DR_REG_R2, DR_REG_R3].contains r &&
            !instr_uses_reg instr r &&
            (!cfg.instr_is_cti instr || decide (r ≠ cfg.IBL_TARGET_REG)) then some r
        else none
      | _ => none
    | none => none

/-- The selection order of `pick_scratch_reg` in words, as register and
`should_restore`: the register of the first rule when there is one;
otherwise the lowest-numbered register of r0..r3 that the instruction does
not use and that is not `IBL_TARGET_REG` for a control transfer; if there is
none and `dead_reg_ok` holds, the lowest-numbered register the instruction
does not read and that is not `IBL_TARGET_REG` for a control transfer, with
`should_restore` false; otherwise `REG_NULL`. -/
def pick_scratch_reg_order (cfg : config_t) (left : List instr_t) (instr : instr_t)
    (dead_reg_ok : Bool) : Nat × Bool :=
  match pick_scratch_reg_order_prior cfg left instr with
  | some r => (r, true)
  | none =>
    match [DR_REG_R0, DR_REG_R1, DR_REG_R2, DR_REG_R3].find? (fun r =>
        !instr_uses_reg instr r &&
          (!cfg.instr_is_cti instr || decide (r ≠ cfg.IBL_TARGET_REG))) with
    | some r => (r, true)
    | none =>
      if dead_reg_ok then
        match [DR_REG_R0, DR_REG_R1, DR_REG_R2, DR_REG_R3].find? (fun r =>
            !instr_reads_from_reg instr r DR_QUERY_INCLUDE_ALL &&
              (!cfg.instr_is_cti instr || decide (r ≠ cfg.IBL_TARGET_REG))) with
        | some r => (r, false)
        | none => (REG_NULL, false)
      else (REG_NULL, true)

/-- The configuration `ex_cfg` with the prior-restore optimisation off. -/
def ex_cfg_noopt : config_t := { ex_cfg with opt_mangle := 0 }

/-- The configuration `ex_cfg` in which an instruction writing the PC is a
control transfer. -/
def ex_cfg_cti : config_t :=
  { ex_cfg with
    instr_is_cti := fun i => instr_writes_to_reg i DR_REG_PC DR_QUERY_INCLUDE_ALL }

/-- The A32 instruction `add pc, r0, r1, lsl r3`. -/
def ex_add_pc_shifted : instr_t :=
  instr_create OP_add [ex_reg 15] [ex_reg 0, ex_reg 1, ex_reg 3]

/-- The statement about the translations of the inserted `OP_it`s, on an
annotated range: the translation of every `OP_it` is the app PC of the first
instruction, from the instruction it stands in front of to the end of the
list (`after` being the instructions behind the range), that has one, and
null when none of them has one. -/
def it_xl8_ok (after : List instr_t) : List (Option instr_t × instr_t) → Bool
  | [] => true
  | (a, x) :: rest =>
    (match a with
     | some it => it.translation == it_block_xl8 (x :: (rest.map Prod.snd ++ after))
     | none => true) && it_xl8_ok after rest

/-- A predicated meta `add r0, r0, #1` without translation. -/
def ex_meta_add_eq : instr_t :=
  { instr_set_meta (ex_t32_add DR_PRED_EQ) with translation := none }

/-- A Thumb `bl 8192` under `eq` at address 12288, the only instruction of
the IT block in front of it, with one instruction behind. -/
def ex_bl_eq_at : ilist_at :=
  { prev := [instr_it_block_create DR_PRED_EQ DR_PRED_NONE DR_PRED_NONE DR_PRED_NONE],
    instr := ex_bl DR_PRED_EQ, mid := [], next := [ex_t32_add DR_PRED_NONE] }

/-- The list of `ex_bl_eq_at` once the `bl` is taken out of its IT block. -/
def ex_bl_eq_removed : ilist_at :=
  { prev := [], instr := ex_bl DR_PRED_EQ, mid := [], next := [ex_t32_add DR_PRED_NONE] }

/-! ## Indirect jumps (`mangle.c` 944-1115) -/

/-- Modelled from the spec: `opnd_set_size`, IR helper outside the sources:
the operand with the given size. -/
def opnd_set_size : opnd_t → Nat → opnd_t
  | .reg r _ f, sz => .reg r sz f
  | .instr l _ sh, sz => .instr l sz sh
  | .base_disp b i st sa d f _, sz => .base_disp b i st sa d f sz
  | o, _ => o

/-- Modelled from the spec: the opcodes `OP_rfe`, `OP_rfedb`, `OP_rfeda`,
`OP_rfeib` and `OP_eret`, constants outside the sources; they are among the
opcodes the model does not name. -/
def OP_rfe : opcode_t := OP_other 1
def OP_rfedb : opcode_t := OP_other 2
def OP_rfeda : opcode_t := OP_other 3
def OP_rfeib : opcode_t := OP_other 4
def OP_eret : opcode_t := OP_other 5

/-- The list with `instr` kept, seen from the label `bound_start` that stands
`k` instructions in front of it: the instructions in front of the label, the
label, the instructions up to `next_instr`, and `next_instr` with what follows
it. -/
def keep_at_bound (c : ilist_at) (k : Nat) : Option ilist_at :=
  match c.prev.drop k with
  | [] => none
  | b :: pre => some { prev := pre, instr := b,
                       mid := (c.prev.take k).reverse ++ c.instr :: c.mid, next := c.next }

/-- The loop `for (i = 0; i < instr_num_dsts(instr); i++)` of
`mangle_indirect_jump` looking for the first destination that is the register
PC; the second argument is `i`. -/
def find_pc_dst : List opnd_t → Nat → Option Nat
  | [], _ => none
  | o :: rest, i =>
    if opnd_is_reg o && opnd_get_reg o == DR_REG_PC then some i else find_pc_dst rest (i + 1)

/-- The branch "Explicitly writes just the pc" of `mangle_indirect_jump`
(`mangle.c` 1062-1101), for a list seen from `instr`; returns the list and
`remove_instr`.  `immed_next` is the instruction directly behind `instr` at
entry, so the `orr` placed behind `instr` is all there is between `instr` and
`immed_next` when `mangle_stolen_reg` is called, and what `mangle_stolen_reg`
inserts in front of `immed_next` comes in front of the old `mid`.  `none`
stands for a failed `ASSERT` (`found_pc` is taken as false when no destination
is the PC). -/
def mangle_indirect_jump_pc (cfg : config_t) (c : ilist_at) : Option (ilist_at × Bool) :=
  let instr := c.instr
  let isa_mode := instr.isa_mode
  if instr_writes_to_reg instr cfg.IBL_TARGET_REG DR_QUERY_INCLUDE_ALL then none
  else
    match find_pc_dst instr.dsts 0 with
    | none => none
    | some i =>
      let instr := instr_set_dst instr i (opnd_create_reg cfg.IBL_TARGET_REG)
      let simple : Bool := decide (isa_mode = DR_ISA_ARM_THUMB) &&
        (decide (instr.opcode = OP_mov) || decide (instr.opcode = OP_add))
      let remove_instr : Bool :=
        simple && (decide (instr.opcode = OP_mov) && !instr_is_predicated instr)
      let src := if remove_instr then instr_get_src instr 0
                 else opnd_create_reg cfg.IBL_TARGET_REG
      let orr : List instr_t :=
        if simple then
          [meta_insert cfg (INSTR_CREATE_orr (opnd_create_reg cfg.IBL_TARGET_REG) src
            (OPND_CREATE_INT 1))]
        else []
      if instr_uses_reg instr cfg.dr_reg_stolen then
        match mangle_stolen_reg cfg
            { prev := c.prev, instr := instr, mid := orr, next := c.mid ++ c.next }
            remove_instr with
        | none => none
        | some r => some ({ r with mid := r.mid ++ c.mid, next := c.next }, remove_instr)
      else some ({ c with instr := instr, mid := orr ++ c.mid }, remove_instr)

/-- Source `mangle_indirect_jump(dcontext, ilist, instr, next_instr, flags)`;
`bound_id` is the identity of the label created.  The result is the list after
the call seen from the label `bound_start` (found by its distance from the
front of the list, which the insertions behind it do not change); `instr`,
when it is kept, is in `mid`, and `next` begins at the returned `next_instr`.
`none` stands for a failed `ASSERT`. -/
def mangle_indirect_jump (cfg : config_t) (c : ilist_at) (bound_id : Nat) : Option ilist_at :=
  let instr := c.instr
  let opc := instr.opcode
  let isa_mode := instr.isa_mode
  let in_it := app_instr_is_in_it_block instr
  let bound_start := INSTR_CREATE_label bound_id
  match (if in_it then mangle_remove_from_it_block cfg c else some c) with
  | none => none
  | some c =>
    let save := meta_insert cfg
      (instr_create_save_to_tls cfg cfg.IBL_TARGET_REG cfg.IBL_TARGET_SLOT)
    let front := c.prev.length
    let c := { c with prev := meta_insert cfg bound_start :: save :: c.prev }
    let r : Option (ilist_at × Bool) :=
      if instr_writes_gpr_list instr then
        let memop := instr_get_src instr 0
        if opnd_is_base_disp memop = false then none
        else if opnd_get_reg (instr_get_dst instr 0) ≠ DR_REG_PC then none
        else if opnd_uses_reg memop cfg.dr_reg_stolen then none
        else
          let memop := opnd_set_size memop OPSZ_VAR_REGLIST
          let instr := instr_set_dst (instr_set_src instr 0 memop) 0
            (opnd_create_reg cfg.IBL_TARGET_REG)
          some ({ c with instr := instr }, false)
      else if opc = OP_bx ∨ opc = OP_bxj then
        if opnd_is_reg (instr_get_target instr) = false then none
        else
          let tgt :=
            if opnd_same (instr_get_target instr) (opnd_create_reg cfg.dr_reg_stolen) then
              meta_insert cfg
                (instr_create_restore_from_tls cfg cfg.IBL_TARGET_REG cfg.TLS_REG_STOLEN_SLOT)
            else
              meta_insert cfg
                (XINST_CREATE_move (opnd_create_reg cfg.IBL_TARGET_REG) (instr_get_target instr))
          some ({ c with prev := tgt :: c.prev }, true)
      else if opc = OP_tbb ∨ opc = OP_tbh then
        let c1 : Option ilist_at :=
          if instr_uses_reg instr cfg.dr_reg_stolen then
            match mangle_stolen_reg cfg { c with mid := [], next := c.mid ++ c.next } false with
            | none => none
            | some r => some { r with mid := r.mid ++ c.mid, next := c.next }
          else some c
        match c1 with
        | none => none
        | some c1 =>
          some ({ c1 with prev := (mangle_indirect_jump_tb cfg instr).reverse ++ c1.prev }, true)
      else if opc = OP_rfe ∨ opc = OP_rfedb ∨ opc = OP_rfeda ∨ opc = OP_rfeib ∨
          opc = OP_eret then none
      else mangle_indirect_jump_pc cfg c
    match r with
    | none => none
    | some (c, remove_instr) =>
      let k := c.prev.length - (front + 2)
      let r2 : Option ilist_at :=
        if instr_is_predicated c.instr then
          match mangle_add_predicated_fall_through cfg c k with
          | none => none
          | some c => if in_it ∨ isa_mode ≠ DR_ISA_ARM_THUMB then some c else none
        else some c
      match r2 with
      | none => none
      | some c =>
        match (if remove_instr then remove_at_bound c k else keep_at_bound c k) with
        | none => none
        | some c => some (if in_it then mangle_reinstate_it_blocks cfg c 0 else c)

/-- The Thumb instruction `mov pc, r<k>` at address 12288 under predicate
`p`. -/
def ex_mov_pc (k : Nat) (p : dr_pred_type_t) : instr_t :=
  { instr_create OP_mov [ex_reg 15] [ex_reg k] with
    isa_mode := DR_ISA_ARM_THUMB, translation := some 12288, predicate := p }

/-- The instruction `add pc, r5, r6` at address 12288 in the given mode. -/
def ex_add_pc (m : dr_isa_mode_t) : instr_t :=
  { instr_create OP_add [ex_reg 15] [ex_reg 5, ex_reg 6] with
    isa_mode := m, translation := some 12288 }

/-- An instruction with one instruction in front of it and one behind. -/
def ex_at (i : instr_t) : ilist_at :=
  { prev := [ex_add_stolen], instr := i, mid := [], next := [ex_t32_add DR_PRED_NONE] }

/-! ## Simple PC reads (`mangle.c` 1266-1298) -/

/-- The loop `for (i = 0; i < instr_num_srcs(instr); i++)` of `mangle_pc_read`;
the first argument counts the sources still to be visited, the second is `i`.
`none` stands for the failed `ASSERT(opnd_is_reg(orig))`. -/
def mangle_pc_read_loop (reg : Nat) : Nat → Nat → instr_t → Option instr_t
  | 0, _, instr => some instr
  | n + 1, i, instr =>
    if opnd_uses_reg (instr_get_src instr i) DR_REG_PC then
      let orig := instr_get_src instr i
      if opnd_is_reg orig = false then none
      else
        mangle_pc_read_loop reg n (i + 1)
          (instr_set_src instr i
            (opnd_create_reg_ex reg (opnd_get_size orig) (opnd_get_flags orig)))
    else mangle_pc_read_loop reg n (i + 1) instr

/-- Source `mangle_pc_read(dcontext, ilist, instr, next_instr)`.  `none` stands
for a failed `ASSERT`. -/
def mangle_pc_read (cfg : config_t) (c : ilist_at) : Option ilist_at :=
  let instr := c.instr
  let (reg, slot, should_restore) := pick_scratch_reg cfg c.prev instr true
  let app_r15 := cfg.decode_cur_pc instr
  if reg = REG_NULL then none
  else if instr_is_meta instr || !instr_reads_from_reg instr DR_REG_PC DR_QUERY_INCLUDE_ALL
  then none
  else
    let prev := insert_save_to_tls_if_necessary cfg c.prev reg slot
    let prev := (insert_mov_immed_ptrsz cfg app_r15 (opnd_create_reg reg)).reverse ++ prev
    match mangle_pc_read_loop reg (instr_num_srcs instr) 0 instr with
    | none => none
    | some instr =>
      let mid := if should_restore then
          c.mid ++ [meta_insert cfg (instr_create_restore_from_tls cfg reg slot)]
        else c.mid
      some { prev := prev, instr := instr, mid := mid, next := c.next }

/-- The app instruction `add r5, pc, r0`, between two other instructions. -/
def ex_add_from_pc : ilist_at :=
  { prev := [ex_add_stolen], instr := instr_create OP_add [ex_reg 5] [ex_reg 15, ex_reg 0],
    mid := [], next := [ex_t32_add DR_PRED_NONE] }

/-! ## Thread register reads (`mangle.c` 1424-1472) -/

/-- Modelled from the spec: `reg_is_gpr`, IR helper outside the sources: the
registers r0..r15. -/
def reg_is_gpr (reg : Nat) : Bool := decide (DR_REG_R0 ≤ reg) && decide (reg ≤ DR_REG_PC)

/-- Modelled from the spec: `opnd_create_sized_tls_slot`, helper outside the
sources: a memory operand of the given size addressed off the stolen
register. -/
def opnd_create_sized_tls_slot (cfg : config_t) (offs : Int) (size : Nat) : opnd_t :=
  opnd_create_base_disp cfg.dr_reg_stolen REG_NULL 0 offs size

/-- Source `mangle_reads_thread_register(dcontext, ilist, instr, next_instr)`;
`bound_id` is the identity of the label created.  Outside the sources and
taken as parameters: the test `instr_reads_thread_register` and the slot
`os_get_app_tls_base_offset(TLS_REG_LIB)`.  The result is the list after the
call, seen from `instr`; its `next` begins at the returned `next_instr`.
`none` stands for a failed `ASSERT`. -/
def mangle_reads_thread_register (cfg : config_t) (instr_reads_thread_register : instr_t → Bool)
    (app_tls_base_slot : Nat) (c : ilist_at) (bound_id : Nat) : Option ilist_at :=
  let instr := c.instr
  let in_it := app_instr_is_in_it_block instr
  let bound_start := meta_insert cfg (INSTR_CREATE_label bound_id)
  match (if in_it then mangle_remove_from_it_block cfg c else some c) with
  | none => none
  | some c1 =>
    let left0 := bound_start :: c1.prev
    if instr_is_meta instr || !instr_reads_thread_register instr then none
    else
      let reg := opnd_get_reg (instr_get_dst instr 0)
      if ¬ (reg_is_gpr reg = true ∧ opnd_get_size (instr_get_dst instr 0) = OPSZ_PTR) then none
      else
        let opnd := opnd_create_sized_tls_slot cfg (cfg.os_tls_offset app_tls_base_slot) OPSZ_PTR
        let instr := instr_remove_srcs instr 1 (instr_num_srcs instr)
        let instr := instr_set_src instr 0 opnd
        let instr := instr_set_opcode instr OP_ldr
        if reg = DR_REG_PC then none
        else if reg = cfg.dr_reg_stolen then
          let outer_len := if spill_elided cfg left0 SCRATCH_REG0 then c1.prev.length - 1
                           else c1.prev.length
          let left := insert_save_to_tls_if_necessary cfg left0 SCRATCH_REG0 cfg.TLS_REG0_SLOT
          let left := meta_insert cfg (INSTR_CREATE_mov (opnd_create_reg SCRATCH_REG0)
            (opnd_create_reg cfg.dr_reg_stolen)) :: left
          let post := restore_tls_base_to_stolen_reg cfg instr SCRATCH_REG0 cfg.TLS_REG0_SLOT ++
            [meta_insert cfg (instr_create_restore_from_tls cfg SCRATCH_REG0 cfg.TLS_REG0_SLOT)]
          let c2 : ilist_at :=
            { prev := left, instr := instr, mid := post ++ c1.mid, next := c1.next }
          some (if in_it then mangle_reinstate_it_blocks cfg c2 (left.length - outer_len)
                else c2)
        else
          let c2 : ilist_at :=
            { prev := left0, instr := instr, mid := c1.mid, next := c1.next }
          some (if in_it then mangle_reinstate_it_blocks cfg c2 1 else c2)

/-- The Thumb instruction `mrc p15, 0, r<k>, c13, c0, 3` (a read of the thread
register) under predicate `p`. -/
def ex_mrc (k : Nat) (p : dr_pred_type_t) : instr_t :=
  { instr_create OP_mrc [ex_reg k]
      [OPND_CREATE_INT 15, OPND_CREATE_INT 0, OPND_CREATE_INT 13, OPND_CREATE_INT 0,
       OPND_CREATE_INT 3] with
    isa_mode := DR_ISA_ARM_THUMB, translation := some 12288, predicate := p }

/-- A test for thread register reads: every `mrc`. -/
def ex_reads_thread_register : instr_t → Bool := fun i => i.opcode == OP_mrc

/-- The `mrc` to r10 under `ne`, the only instruction of the IT block in front
of it, with one instruction behind. -/
def ex_mrc_ne_at : ilist_at :=
  { prev := [instr_it_block_create DR_PRED_NE DR_PRED_NONE DR_PRED_NONE DR_PRED_NONE],
    instr := ex_mrc 10 DR_PRED_NE, mid := [], next := [ex_t32_add DR_PRED_NONE] }

/-- The state `ex_state` with the condition `ne` false. -/
def ex_state_ne_false : mstate :=
  { ex_state with cond := fun p => p != DR_PRED_NE }

/-! ## Register-list stores (`mangle.c` 1543-1657) -/

/-- The loops `for (i = 0; ...) for (j = 0; j < 2; j++)` of
`mangle_gpr_list_read` over the given sources: `reg_pos[0]` and `reg_pos[1]`,
`none` while `reg_found[j]` is false; the second argument is `i`.  The result
is `none` for the failed `ASSERT(opnd_is_reg(instr_get_src(instr, i)))`. -/
def gpr_list_scan (fix0 fix1 : Nat) :
    List opnd_t → Nat → Option Nat × Option Nat → Option (Option Nat × Option Nat)
  | [], _, acc => some acc
  | o :: rest, i, acc =>
    if opnd_is_reg o = false then none
    else
      gpr_list_scan fix0 fix1 rest (i + 1)
        (if opnd_get_reg o = fix0 then some i else acc.1,
         if opnd_get_reg o = fix1 then some i else acc.2)

/-- Source `mangle_gpr_list_read(dcontext, ilist, instr, next_instr)`.  The
instructions behind `instr` and in front of `next_instr` are kept in `after`;
`insert_save_to_tls_if_necessary` is given the instructions in front of
`next_instr`, nearest first, and what it returns is split again at `instr`.
`none` stands for a failed `ASSERT` (and for a writeback form without
sources, whose loop bound `num_srcs - 1` wraps). -/
def mangle_gpr_list_read (cfg : config_t) (c : ilist_at) : Option ilist_at :=
  let instr := c.instr
  let num_srcs := instr_num_srcs instr
  let writeback := decide (instr_num_dsts instr > 1)
  let memop := instr_get_dst instr 0
  if cfg.dr_reg_stolen = DR_REG_R0 ∨ cfg.dr_reg_stolen = DR_REG_R1 then none
  else
    let stolen_reg_is_base := opnd_uses_reg memop cfg.dr_reg_stolen
    let prev :=
      if stolen_reg_is_base then
        restore_app_value_to_stolen_reg cfg c.prev instr DR_REG_R0 cfg.TLS_REG0_SLOT
      else c.prev
    let fix_reg1 := if stolen_reg_is_base then DR_REG_R0 else cfg.dr_reg_stolen
    let after :=
      if stolen_reg_is_base then
        restore_tls_base_to_stolen_reg cfg instr DR_REG_R0 cfg.TLS_REG0_SLOT ++ c.mid
      else c.mid
    if writeback && num_srcs == 0 then none
    else
      match gpr_list_scan DR_REG_PC fix_reg1
          (instr.srcs.take (if writeback then num_srcs - 1 else num_srcs)) 0 (none, none) with
      | none => none
      | some (pos0, pos1) =>
        let fixed : Option (List instr_t) :=
          if pos0.isSome || pos1.isSome then
            let app_val_slot :=
              if stolen_reg_is_base then cfg.TLS_REG0_SLOT else cfg.TLS_REG_STOLEN_SLOT
            let base_reg := if stolen_reg_is_base then DR_REG_R0 else opnd_get_base memop
            let scratch :=
              if stolen_reg_is_base then DR_REG_R1
              else if opnd_uses_reg memop DR_REG_R1 then DR_REG_R0 else DR_REG_R1
            let after :=
              if stolen_reg_is_base then
                after ++ [meta_insert cfg
                  (instr_create_restore_from_tls cfg DR_REG_R0 cfg.TLS_REG_STOLEN_SLOT)]
              else after
            if opnd_uses_reg memop scratch then none
            else
              let left := insert_save_to_tls_if_necessary cfg
                (after.reverse ++ instr :: prev) scratch (TLS_REG1_SLOT cfg)
              let after := (left.take (left.length - (prev.length + 1))).reverse
              let fix0 := match pos0 with
                | some p => store_reg_to_memlist cfg instr base_reg app_val_slot scratch
                    DR_REG_PC p
                | none => []
              let fix1 := match pos1 with
                | some p => store_reg_to_memlist cfg instr base_reg app_val_slot scratch
                    fix_reg1 p
                | none => []
              some (after ++ fix0 ++ fix1 ++
                [meta_insert cfg (instr_create_restore_from_tls cfg scratch (TLS_REG1_SLOT cfg))])
          else some after
        match fixed with
        | none => none
        | some after =>
          let after :=
            if stolen_reg_is_base then
              after ++ [meta_insert cfg
                (instr_create_restore_from_tls cfg DR_REG_R0 cfg.TLS_REG0_SLOT)]
            else after
          some { prev := prev, instr := instr, mid := after, next := c.next }

/-- The second register `mangle_gpr_list_read` fixes up (`fix_regs[1]`) for a
store off `base`: r0 when the stolen register is the base, the stolen
register otherwise. -/
def gpr_list_fix_reg1 (cfg : config_t) (base : Nat) : Nat :=
  if base = cfg.dr_reg_stolen then DR_REG_R0 else cfg.dr_reg_stolen

/-- The scratch register of the fix-up of `mangle_gpr_list_read` for a store
off `base`: r1, or r0 when r1 is the base. -/
def gpr_list_scratch (cfg : config_t) (base : Nat) : Nat :=
  if base = cfg.dr_reg_stolen then DR_REG_R1
  else if base = DR_REG_R1 then DR_REG_R0 else DR_REG_R1

/-- The register addressing the slots in the fix-up of `mangle_gpr_list_read`
(`base_reg`): r0 when the stolen register is the base, the base otherwise. -/
def gpr_list_base_reg (cfg : config_t) (base : Nat) : Nat :=
  if base = cfg.dr_reg_stolen then DR_REG_R0 else base

/-- The slot holding the app value (`app_val_slot`) in the fix-up of
`mangle_gpr_list_read`. -/
def gpr_list_app_val_slot (cfg : config_t) (base : Nat) : Nat :=
  if base = cfg.dr_reg_stolen then cfg.TLS_REG0_SLOT else cfg.TLS_REG_STOLEN_SLOT

/-- The store `stmia r5, {r0, r10, pc}` with one instruction in front of it
and one behind. -/
def ex_stm_at : ilist_at := ex_at (ex_stm OP_stmia false 5 [0, 10, 15])

/-- A memory holding, at address 20480, the six raw bytes the widener itself
gives `cbz r3, 8192` when the raw bytes of the instruction are allocated at
20480: the inverted compare-and-branch and a `b` encoded to its own address. -/
def ex_widened_mem : Int → Nat := fun a =>
  match convert_to_near_rel_arch ex_cfg none (ex_cbz false) 7 20480 with
  | some res =>
    if 20480 ≤ a ∧ a < 20486 then (res.instr.raw_bits.getD []).getD (a - 20480).toNat 0 else 0
  | none => 0

/-- The Thumb instruction `moveq pc, r5` as the single member of an `it eq`
block, in front of an unpredicated `add`. -/
def ex_mov_pc_eq_at : ilist_at :=
  { prev := [instr_it_block_create DR_PRED_EQ DR_PRED_NONE DR_PRED_NONE DR_PRED_NONE],
    instr := ex_mov_pc 5 DR_PRED_EQ, mid := [], next := [ex_t32_add DR_PRED_NONE] }

/-! # Theorems -/

/-! ## Arithmetic helpers -/

theorem wrap32_add_to_int32 (a b : Int) : wrap32 (a + to_int32 b) = wrap32 (a + b) := by
  unfold wrap32 to_int32
  omega

theorem wrap32_sub_to_int32 (a b : Int) : wrap32 (a - to_int32 b) = wrap32 (a - b) := by
  unfold wrap32 to_int32
  omega

theorem wrap32_wrap32_add (a b : Int) : wrap32 (wrap32 a + b) = wrap32 (a + b) := by
  unfold wrap32
  omega

theorem wrap32_idem (a : Int) : wrap32 (wrap32 a) = wrap32 a := by
  unfold wrap32
  omega

theorem TEST_negated_one : TEST DR_OPND_NEGATED DR_OPND_NEGATED = true := by decide

theorem TEST_negated_zero : TEST DR_OPND_NEGATED 0 = false := by decide

theorem signed_disp_create (b x : Nat) (sc : Nat) (d : Int) (sz : Nat) :
    opnd_get_signed_disp (opnd_create_base_disp b x sc d sz) = d := by
  unfold opnd_create_base_disp opnd_get_signed_disp
  by_cases h : d < 0
  · simp [h, opnd_get_flags, opnd_get_disp, TEST_negated_one]
  · simp [h, opnd_get_flags, opnd_get_disp, TEST_negated_zero]

/-! ## C3 -/

/-- C3: for every stm opcode in stmia, stmda, stmdb, stmib, with and without
writeback, every register count n >= 1, every list position i < n and every
initial base X, the displacement of the fix-up store emitted by
`store_reg_to_memlist`, added to the base value after the store (X without
writeback, X+4n for ia/ib and X-4n for da/db with writeback), is the address at
which the original stm stored list position i, modulo 2^32. -/
theorem store_reg_to_memlist_slot_address (cfg : config_t) (instr : instr_t)
    (base_reg : Nat) (app_val_slot : Nat) (tmp_reg fix_reg : Nat)
    (n i : Nat) (x : Int)
    (hop : instr.opcode = OP_stmia ∨ instr.opcode = OP_stmda ∨ instr.opcode = OP_stmdb ∨
      instr.opcode = OP_stmib)
    (hsrcs : instr_num_srcs instr = n + (if instr_num_dsts instr > 1 then 1 else 0)) :
    ∃ st, (store_reg_to_memlist cfg instr base_reg app_val_slot tmp_reg fix_reg i).getLast?
        = some st ∧
      st.opcode = OP_str ∧ opnd_get_base (instr_get_dst st 0) = base_reg ∧
      wrap32 ((if instr_num_dsts instr > 1 then ldm_final_base instr.opcode x n else x) +
          opnd_get_signed_disp (instr_get_dst st 0)) =
        wrap32 (stm_slot_addr instr.opcode x n i) := by
  have hlast : (store_reg_to_memlist cfg instr base_reg app_val_slot tmp_reg fix_reg i).getLast?
      = some (list_insert cfg (instr_set_translation (instr_set_predicate
          (XINST_CREATE_store (opnd_create_base_disp base_reg REG_NULL 0
            (store_reg_to_memlist_offs instr.opcode (decide (instr_num_dsts instr > 1))
              (instr_num_srcs instr) i) OPSZ_PTR) (opnd_create_reg tmp_reg))
          instr.predicate) instr.translation)) := by
    simp [store_reg_to_memlist]
  refine ⟨_, hlast, ?_, ?_, ?_⟩
  · simp [list_insert, instr_set_translation, instr_set_predicate, XINST_CREATE_store,
      instr_create]
  · simp only [list_insert, instr_set_translation, instr_set_predicate, XINST_CREATE_store,
      instr_create, instr_get_dst, List.getD_cons_zero]
    unfold opnd_create_base_disp
    split_ifs <;> rfl
  · simp only [list_insert, instr_set_translation, instr_set_predicate, XINST_CREATE_store,
      instr_create, instr_get_dst, List.getD_cons_zero, signed_disp_create]
    by_cases hwb : instr_num_dsts instr > 1
    · simp only [hwb, if_true] at hsrcs ⊢
      rcases hop with h | h | h | h <;>
        simp only [h, hsrcs, store_reg_to_memlist_offs, ldm_final_base, stm_slot_addr,
          decide_True, if_true, wrap32_add_to_int32] <;>
        (unfold wrap32 u32; push_cast; omega)
    · simp only [hwb, if_false] at hsrcs ⊢
      rcases hop with h | h | h | h <;>
        simp only [h, hsrcs, store_reg_to_memlist_offs, ldm_final_base, stm_slot_addr,
          decide_False, Bool.false_eq_true, if_false, wrap32_add_to_int32] <;>
        (unfold wrap32 u32; push_cast; omega)

theorem store_reg_to_memlist_slot_address_witness :
    ((ex_stm OP_stmdb true 13 [4, 14, 15]).opcode = OP_stmia ∨
      (ex_stm OP_stmdb true 13 [4, 14, 15]).opcode = OP_stmda ∨
      (ex_stm OP_stmdb true 13 [4, 14, 15]).opcode = OP_stmdb ∨
      (ex_stm OP_stmdb true 13 [4, 14, 15]).opcode = OP_stmib) ∧
    ∃ st, (store_reg_to_memlist ex_cfg (ex_stm OP_stmdb true 13 [4, 14, 15]) DR_REG_SP 16
        DR_REG_R1 DR_REG_PC 2).getLast? = some st ∧
      st.opcode = OP_str ∧ opnd_get_base (instr_get_dst st 0) = DR_REG_SP ∧
      wrap32 ((if instr_num_dsts (ex_stm OP_stmdb true 13 [4, 14, 15]) > 1
          then ldm_final_base (ex_stm OP_stmdb true 13 [4, 14, 15]).opcode 1000 3 else 1000) +
          opnd_get_signed_disp (instr_get_dst st 0)) =
        wrap32 (stm_slot_addr (ex_stm OP_stmdb true 13 [4, 14, 15]).opcode 1000 3 2) :=
  ⟨by decide,
   store_reg_to_memlist_slot_address ex_cfg (ex_stm OP_stmdb true 13 [4, 14, 15]) DR_REG_SP 16
    DR_REG_R1 DR_REG_PC 3 2 1000 (by decide) (by decide)⟩

/-! ## C7 -/

theorem exec_instr_unpredicated (app : instr_t → mstate → mstate) (i : instr_t) (s : mstate)
    (h : i.predicate = DR_PRED_NONE) : exec_instr app i s = exec_body app i s := by
  simp [exec_instr, instr_is_predicated, instr_predicate_is_cond, h]

theorem set_reg_same (s : mstate) (r : Nat) (v : Int) : (s.set_reg r v).regs r = v := by
  simp [mstate.set_reg]

theorem set_reg_other (s : mstate) (r q : Nat) (v : Int) (h : q ≠ r) :
    (s.set_reg r v).regs q = s.regs q := by
  simp [mstate.set_reg, h]

theorem insert_mov_immed_arch_mvn (cfg : config_t) (val : Int) (dst : opnd_t)
    (h : 0 ≤ - val - 1 ∧ - val - 1 ≤ 0xff) :
    insert_mov_immed_arch cfg none 0 val dst =
      { inserted := [meta_insert cfg (INSTR_CREATE_mvn dst (OPND_CREATE_INT (- val - 1)))],
        first := meta_insert cfg (INSTR_CREATE_mvn dst (OPND_CREATE_INT (- val - 1))),
        second := none } := by
  have hc : (- val - 1 ≥ 0 ∧ - val - 1 ≤ 0xff) := h
  simp only [insert_mov_immed_arch, Option.isSome_none, Bool.false_eq_true, if_false,
    Option.isNone_none, true_and, hc, if_true, and_self]

theorem insert_mov_immed_arch_movw (cfg : config_t) (val : Int) (dst : opnd_t)
    (h : ¬ (0 ≤ - val - 1 ∧ - val - 1 ≤ 0xff)) (h2 : (val / 65536) % 65536 = 0) :
    insert_mov_immed_arch cfg none 0 val dst =
      { inserted := [meta_insert cfg (INSTR_CREATE_movw dst (OPND_CREATE_INT (val % 65536)))],
        first := meta_insert cfg (INSTR_CREATE_movw dst (OPND_CREATE_INT (val % 65536))),
        second := none } := by
  have hc : ¬ (- val - 1 ≥ 0 ∧ - val - 1 ≤ 0xff) := h
  simp only [insert_mov_immed_arch, Option.isSome_none, Bool.false_eq_true, if_false,
    Option.isNone_none, true_and, hc, h2, if_true]

theorem insert_mov_immed_arch_movw_movt (cfg : config_t) (val : Int) (dst : opnd_t)
    (h : ¬ (0 ≤ - val - 1 ∧ - val - 1 ≤ 0xff)) (h2 : ¬ (val / 65536) % 65536 = 0) :
    insert_mov_immed_arch cfg none 0 val dst =
      { inserted := [meta_insert cfg (INSTR_CREATE_movw dst (OPND_CREATE_INT (val % 65536))),
          meta_insert cfg (INSTR_CREATE_movt dst (OPND_CREATE_INT ((val / 65536) % 65536)))],
        first := meta_insert cfg (INSTR_CREATE_movw dst (OPND_CREATE_INT (val % 65536))),
        second := some (meta_insert cfg
          (INSTR_CREATE_movt dst (OPND_CREATE_INT ((val / 65536) % 65536)))) } := by
  have hc : ¬ (- val - 1 ≥ 0 ∧ - val - 1 ≤ 0xff) := h
  simp only [insert_mov_immed_arch, Option.isSome_none, Bool.false_eq_true, if_false,
    Option.isNone_none, true_and, hc, h2]

/-- C7: with `src_inst == NULL`, the instructions inserted by
`insert_mov_immed_arch` leave `dst` equal to `val` (as a 32-bit pattern): a
single `mvn dst, #~val` when 0 <= ~val <= 0xff, with `*second` NULL, otherwise
`movw dst, #(val & 0xffff)` followed by `movt dst, #((val >> 16) & 0xffff)`,
the `movt` being emitted exactly when that high half is non-zero; at most two
instructions are inserted and `*first` is the first of them. -/
theorem insert_mov_immed_arch_materializes (cfg : config_t) (val : Int) (d : Nat)
    (sz fl : Nat) (app : instr_t → mstate → mstate) (s : mstate) :
    (exec_list app (insert_mov_immed_arch cfg none 0 val (.reg d sz fl)).inserted s).regs d
        = wrap32 val ∧
      ((0 ≤ - val - 1 ∧ - val - 1 ≤ 0xff) →
        (insert_mov_immed_arch cfg none 0 val (.reg d sz fl)).inserted =
            [meta_insert cfg (INSTR_CREATE_mvn (.reg d sz fl) (OPND_CREATE_INT (- val - 1)))] ∧
          (insert_mov_immed_arch cfg none 0 val (.reg d sz fl)).second = none) ∧
      (¬ (0 ≤ - val - 1 ∧ - val - 1 ≤ 0xff) →
        (insert_mov_immed_arch cfg none 0 val (.reg d sz fl)).inserted =
            meta_insert cfg (INSTR_CREATE_movw (.reg d sz fl) (OPND_CREATE_INT (val % 65536))) ::
              (if (val / 65536) % 65536 = 0 then []
               else [meta_insert cfg (INSTR_CREATE_movt (.reg d sz fl)
                       (OPND_CREATE_INT ((val / 65536) % 65536)))]) ∧
          ((insert_mov_immed_arch cfg none 0 val (.reg d sz fl)).second.isSome = true ↔
            (val / 65536) % 65536 ≠ 0)) ∧
      (insert_mov_immed_arch cfg none 0 val (.reg d sz fl)).inserted.length ≤ 2 ∧
      (insert_mov_immed_arch cfg none 0 val (.reg d sz fl)).inserted =
        (insert_mov_immed_arch cfg none 0 val (.reg d sz fl)).first ::
          (insert_mov_immed_arch cfg none 0 val (.reg d sz fl)).second.toList := by
  by_cases h1 : (0 ≤ - val - 1 ∧ - val - 1 ≤ 0xff)
  · rw [insert_mov_immed_arch_mvn cfg val _ h1]
    refine ⟨?_, fun _ => ⟨rfl, rfl⟩, fun h => absurd h1 h, by simp, rfl⟩
    simp only [exec_list]
    rw [exec_instr_unpredicated _ _ _ (by rfl)]
    simp only [exec_body, meta_insert, list_insert, instr_set_meta, INSTR_CREATE_mvn,
      instr_create, OPND_CREATE_INT, set_reg_same]
    unfold wrap32
    omega
  · by_cases h2 : (val / 65536) % 65536 = 0
    · rw [insert_mov_immed_arch_movw cfg val _ h1 h2]
      refine ⟨?_, fun h => absurd h h1, fun _ => ⟨by simp [h2], by simp [h2]⟩, by simp, rfl⟩
      simp only [exec_list]
      rw [exec_instr_unpredicated _ _ _ (by rfl)]
      simp only [exec_body, meta_insert, list_insert, instr_set_meta, INSTR_CREATE_movw,
        instr_create, OPND_CREATE_INT, set_reg_same]
      unfold wrap32
      omega
    · rw [insert_mov_immed_arch_movw_movt cfg val _ h1 h2]
      refine ⟨?_, fun h => absurd h h1, fun _ => ⟨by simp [h2], by simp [h2]⟩, by simp, rfl⟩
      simp only [exec_list]
      rw [exec_instr_unpredicated _ _ _ (by rfl), exec_instr_unpredicated _ _ _ (by rfl)]
      simp only [exec_body, meta_insert, list_insert, instr_set_meta, INSTR_CREATE_movw,
        INSTR_CREATE_movt, instr_create, OPND_CREATE_INT, set_reg_same]
      unfold wrap32
      omega

/-! ## C8 -/

theorem scratch_scan_spec (ok : Nat → Bool) (n : Nat) (reg slot : Nat) :
    ((scratch_scan ok n reg slot).1 = reg + n ∨
      (reg ≤ (scratch_scan ok n reg slot).1 ∧ (scratch_scan ok n reg slot).1 < reg + n ∧
        ok (scratch_scan ok n reg slot).1 = true)) ∧
    (scratch_scan ok n reg slot).2 % 65536 =
      (slot + 4 * ((scratch_scan ok n reg slot).1 - reg)) % 65536 ∧
    reg ≤ (scratch_scan ok n reg slot).1 := by
  induction n generalizing reg slot with
  | zero => simp [scratch_scan]
  | succ n ih =>
    unfold scratch_scan
    by_cases h : ok reg = true
    · simp [h]
    · simp only [h, Bool.false_eq_true, if_false]
      obtain ⟨h1, h2, h3⟩ := ih (reg + 1) ((slot + 4) % 65536)
      refine ⟨?_, ?_, by omega⟩
      · rcases h1 with h1 | ⟨h1, h1b, h1c⟩
        · left; omega
        · right; exact ⟨by omega, by omega, h1c⟩
      · omega

theorem scratch_scan_slot_lt (ok : Nat → Bool) (n : Nat) (reg slot : Nat)
    (h : slot < 65536) : (scratch_scan ok n reg slot).2 < 65536 := by
  induction n generalizing reg slot with
  | zero => simpa [scratch_scan] using h
  | succ n ih =>
    unfold scratch_scan
    by_cases h1 : ok reg = true
    · simpa [h1] using h
    · simp only [h1, Bool.false_eq_true, if_false]
      exact ih _ _ (by omega)

theorem instr_uses_of_reads (i : instr_t) (r : Nat) (flags : Nat)
    (h : instr_uses_reg i r = false) : instr_reads_from_reg i r flags = false := by
  simp only [instr_uses_reg, Bool.or_eq_false_iff, instr_reg_in_dst, instr_reg_in_src,
    List.any_eq_false] at h
  unfold instr_reads_from_reg
  split_ifs
  · rfl
  · simp only [Bool.or_eq_false_iff, instr_reg_in_src, List.any_eq_false]
    refine ⟨h.2, ?_⟩
    intro o ho
    have := h.1 o ho
    simp [this]

theorem find_prior_scratch_reg_restore_range (cfg : config_t) (left : List instr_t)
    (k : Nat) (reg : Nat) (h : find_prior_scratch_reg_restore cfg left = some (k, reg)) :
    SCRATCH_REG0 ≤ reg ∧ reg ≤ SCRATCH_REG3 := by
  unfold find_prior_scratch_reg_restore at h
  split_ifs at h
  simp only at h
  split at h
  · exact absurd h (by simp)
  · split at h
    · split_ifs at h with hc
      simp only [Option.some.injEq, Prod.mk.injEq] at h
      simp only [Bool.and_eq_true, decide_eq_true_eq] at hc
      rw [← h.2]
      exact ⟨hc.1.2, hc.2⟩
    · exact absurd h (by simp)

theorem pick_scratch_prior_spec (cfg : config_t) (left : List instr_t) (instr : instr_t) :
    ((pick_scratch_prior cfg left instr).1 ≠ REG_NULL →
      SCRATCH_REG0 ≤ (pick_scratch_prior cfg left instr).1 ∧
      (pick_scratch_prior cfg left instr).1 ≤ SCRATCH_REG3 ∧
      instr_uses_reg instr (pick_scratch_prior cfg left instr).1 = false ∧
      scratch_not_ibl cfg instr (pick_scratch_prior cfg left instr).1 = true ∧
      (pick_scratch_prior cfg left instr).2 < 65536) ∧
    ((pick_scratch_prior cfg left instr).1 ≠ REG_NULL →
      (pick_scratch_prior cfg left instr).2 % 65536 =
        (cfg.TLS_REG0_SLOT + 4 * ((pick_scratch_prior cfg left instr).1 - SCRATCH_REG0))
          % 65536) := by
  unfold pick_scratch_prior
  split
  · rename_i k reg hfind
    have hr := find_prior_scratch_reg_restore_range cfg left k reg hfind
    split_ifs with hc
    · refine ⟨fun _ => ⟨hr.1, hr.2, hc.2.1, hc.2.2, ?_⟩, fun _ => ?_⟩
      · exact Nat.mod_lt _ (by norm_num)
      · simp
    · simp
  · simp

/-- C8: whenever `pick_scratch_reg` returns a register other than `REG_NULL`,
that register is one of r0-r3, the instruction does not read it, the
instruction does not use it at all when `should_restore` is reported true
(always so when `dead_reg_ok` is false), it differs from `IBL_TARGET_REG` when
the instruction is a control transfer, and the reported slot is
`TLS_REG0_SLOT + 4*(reg - r0)` (computed as a `ushort`; the plain sum when the
slot of r3 fits a `ushort`). -/
theorem pick_scratch_reg_sound (cfg : config_t) (left : List instr_t) (instr : instr_t)
    (dead_reg_ok : Bool)
    (h : (pick_scratch_reg cfg left instr dead_reg_ok).1 ≠ REG_NULL) :
    (SCRATCH_REG0 ≤ (pick_scratch_reg cfg left instr dead_reg_ok).1 ∧
      (pick_scratch_reg cfg left instr dead_reg_ok).1 ≤ SCRATCH_REG3) ∧
    instr_reads_from_reg instr (pick_scratch_reg cfg left instr dead_reg_ok).1
      DR_QUERY_INCLUDE_ALL = false ∧
    ((pick_scratch_reg cfg left instr dead_reg_ok).2.2 = true →
      instr_uses_reg instr (pick_scratch_reg cfg left instr dead_reg_ok).1 = false) ∧
    (dead_reg_ok = false → (pick_scratch_reg cfg left instr dead_reg_ok).2.2 = true) ∧
    (cfg.instr_is_cti instr = true →
      (pick_scratch_reg cfg left instr dead_reg_ok).1 ≠ cfg.IBL_TARGET_REG) ∧
    (pick_scratch_reg cfg left instr dead_reg_ok).2.1 % 65536 =
      (cfg.TLS_REG0_SLOT + 4 * ((pick_scratch_reg cfg left instr dead_reg_ok).1 - DR_REG_R0))
        % 65536 ∧
    (cfg.TLS_REG0_SLOT + 12 < 65536 →
      (pick_scratch_reg cfg left instr dead_reg_ok).2.1 =
        cfg.TLS_REG0_SLOT + 4 * ((pick_scratch_reg cfg left instr dead_reg_ok).1 - DR_REG_R0)) := by
  obtain ⟨hp1, hp2⟩ := pick_scratch_prior_spec cfg left instr
  obtain ⟨hs1, hs2, hs3⟩ := scratch_scan_spec
    (fun reg => !instr_uses_reg instr reg && scratch_not_ibl cfg instr reg) 4 SCRATCH_REG0
    cfg.TLS_REG0_SLOT
  have hs4 := scratch_scan_slot_lt
    (fun reg => !instr_uses_reg instr reg && scratch_not_ibl cfg instr reg) 4 SCRATCH_REG0
    cfg.TLS_REG0_SLOT
  obtain ⟨hd1, hd2, hd3⟩ := scratch_scan_spec
    (fun reg => !instr_reads_from_reg instr reg DR_QUERY_INCLUDE_ALL &&
      scratch_not_ibl cfg instr reg) 4 SCRATCH_REG0 cfg.TLS_REG0_SLOT
  have hd4 := scratch_scan_slot_lt
    (fun reg => !instr_reads_from_reg instr reg DR_QUERY_INCLUDE_ALL &&
      scratch_not_ibl cfg instr reg) 4 SCRATCH_REG0 cfg.TLS_REG0_SLOT
  unfold pick_scratch_reg pick_scratch_dead pick_scratch_unused at h ⊢
  simp only [] at h ⊢
  generalize pick_scratch_prior cfg left instr = fp at *
  generalize scratch_scan
    (fun reg => !instr_uses_reg instr reg && scratch_not_ibl cfg instr reg) 4 SCRATCH_REG0
    cfg.TLS_REG0_SLOT = sc at *
  generalize scratch_scan
    (fun reg => !instr_reads_from_reg instr reg DR_QUERY_INCLUDE_ALL &&
      scratch_not_ibl cfg instr reg) 4 SCRATCH_REG0 cfg.TLS_REG0_SLOT = sd at *
  simp only [SCRATCH_REG0, SCRATCH_REG3, DR_REG_R3, DR_REG_R0, REG_NULL, scratch_not_ibl,
    Bool.and_eq_true, Bool.not_eq_true', Bool.or_eq_true, decide_eq_true_eq] at *
  by_cases hf : fp.1 = 0
  · simp only [hf, if_true] at h ⊢
    by_cases hsc : sc.1 > 1 + 3 ∧ dead_reg_ok = true
    · simp only [hsc, and_self, if_true] at h ⊢
      by_cases hsd : sd.1 > 1 + 3
      · simp [hsd] at h
      · simp only [hsd, if_false] at h ⊢
        rcases hd1 with hd1 | ⟨_, hd1b, hd1c, hd1d⟩
        · omega
        · refine ⟨⟨by omega, by omega⟩, hd1c, by simp, by simp [hsc.2], ?_, hd2, ?_⟩
          · intro hc
            rcases hd1d with hd1d | hd1d
            · simp [hc] at hd1d
            · exact hd1d
          · intro hslot
            have := hd4 (by omega)
            omega
    · simp only [hsc, if_false] at h ⊢
      by_cases hsd : sc.1 > 1 + 3
      · simp [hsd] at h
      · simp only [hsd, if_false] at h ⊢
        rcases hs1 with hs1 | ⟨_, hs1b, hs1c, hs1d⟩
        · omega
        · refine ⟨⟨by omega, by omega⟩, instr_uses_of_reads _ _ _ hs1c, fun _ => hs1c,
            by simp, ?_, hs2, ?_⟩
          · intro hc
            rcases hs1d with hs1d | hs1d
            · simp [hc] at hs1d
            · exact hs1d
          · intro hslot
            have := hs4 (by omega)
            omega
  · obtain ⟨hq1, hq2, hq3, hq4, hq5⟩ := hp1 hf
    have hle : ¬ (fp.1 > 1 + 3) := by omega
    simp only [hf, if_false, hle, false_and] at h ⊢
    refine ⟨⟨by omega, by omega⟩, instr_uses_of_reads _ _ _ hq3, fun _ => hq3, by simp, ?_,
      hp2 hf, ?_⟩
    · intro hc
      rcases hq4 with hq4 | hq4
      · simp [hc] at hq4
      · exact hq4
    · intro hslot
      have := hp2 hf
      omega

theorem pick_scratch_reg_sound_witness :
    (pick_scratch_reg ex_cfg [] ex_add_stolen false).1 ≠ REG_NULL ∧
    (SCRATCH_REG0 ≤ (pick_scratch_reg ex_cfg [] ex_add_stolen false).1 ∧
      (pick_scratch_reg ex_cfg [] ex_add_stolen false).1 ≤ SCRATCH_REG3) ∧
    instr_reads_from_reg ex_add_stolen (pick_scratch_reg ex_cfg [] ex_add_stolen false).1
      DR_QUERY_INCLUDE_ALL = false :=
  ⟨by decide, (pick_scratch_reg_sound ex_cfg [] ex_add_stolen false (by decide)).1,
    (pick_scratch_reg_sound ex_cfg [] ex_add_stolen false (by decide)).2.1⟩

/-! ## C5 -/

/-- C5: for every register Rx other than `dr_reg_stolen`, when the instruction
is not scheduled for removal, `mangle_stolen_reg` rewrites
`mov Rx, dr_reg_stolen` in place to `ldr Rx, [tls: stolen-slot]` and
`mov dr_reg_stolen, Rx` in place to `str Rx, [tls: stolen-slot]`, keeping the
other operand, and the instructions in front of it and after it are exactly
those of the input (nothing is inserted or removed). -/
theorem mangle_stolen_reg_mov_in_place (cfg : config_t) (c : ilist_at) (rx sz fl sz2 fl2 : Nat)
    (hrx : rx ≠ cfg.dr_reg_stolen) (happ : c.instr.is_app = true)
    (hop : c.instr.opcode = OP_mov) :
    (c.instr.dsts = [.reg rx sz fl] → c.instr.srcs = [.reg cfg.dr_reg_stolen sz2 fl2] →
      mangle_stolen_reg cfg c false = some
        { prev := c.prev,
          instr := { c.instr with
            opcode := OP_ldr
            srcs := [opnd_create_tls_slot cfg (cfg.os_tls_offset cfg.TLS_REG_STOLEN_SLOT)] },
          mid := c.mid, next := c.next }) ∧
    (c.instr.dsts = [.reg cfg.dr_reg_stolen sz fl] → c.instr.srcs = [.reg rx sz2 fl2] →
      mangle_stolen_reg cfg c false = some
        { prev := c.prev,
          instr := { c.instr with
            opcode := OP_str
            dsts := [opnd_create_tls_slot cfg (cfg.os_tls_offset cfg.TLS_REG_STOLEN_SLOT)] },
          mid := c.mid, next := c.next }) := by
  constructor
  · intro hd hs
    have hne : cfg.dr_reg_stolen ≠ rx := fun h => hrx h.symm
    simp [mangle_stolen_reg, instr_is_meta, happ, instr_uses_reg, instr_reg_in_dst,
      instr_reg_in_src, hd, hs, opnd_uses_reg, hop, instr_get_src, instr_get_dst, opnd_is_reg,
      instr_num_srcs, instr_num_dsts, opnd_same, opnd_get_reg, instr_set_src, instr_set_opcode,
      hne]
  · intro hd hs
    simp [mangle_stolen_reg, instr_is_meta, happ, instr_uses_reg, instr_reg_in_dst,
      instr_reg_in_src, hd, hs, opnd_uses_reg, hop, instr_get_src, instr_get_dst, opnd_is_reg,
      instr_num_srcs, instr_num_dsts, opnd_same, opnd_get_reg, instr_set_dst, instr_set_opcode,
      hrx]

theorem mangle_stolen_reg_mov_in_place_witness :
    (DR_REG_R5 ≠ ex_cfg.dr_reg_stolen ∧ ex_mov_to_stolen.instr.is_app = true ∧
      ex_mov_to_stolen.instr.opcode = OP_mov ∧
      ex_mov_to_stolen.instr.dsts = [.reg ex_cfg.dr_reg_stolen 4 0] ∧
      ex_mov_to_stolen.instr.srcs = [.reg DR_REG_R5 4 0]) ∧
    mangle_stolen_reg ex_cfg ex_mov_to_stolen false = some
      { prev := ex_mov_to_stolen.prev,
        instr := { ex_mov_to_stolen.instr with
          opcode := OP_str
          dsts := [opnd_create_tls_slot ex_cfg
            (ex_cfg.os_tls_offset ex_cfg.TLS_REG_STOLEN_SLOT)] },
        mid := ex_mov_to_stolen.mid, next := ex_mov_to_stolen.next } :=
  ⟨⟨by decide, by decide, by decide, by decide, by decide⟩,
   (mangle_stolen_reg_mov_in_place ex_cfg ex_mov_to_stolen DR_REG_R5 4 0 4 0 (by decide)
      (by decide) (by decide)).2 (by decide) (by decide)⟩

/-! ## Machine state lemmas -/

theorem mstate_ext (s t : mstate) (h1 : s.regs = t.regs) (h2 : s.mem = t.mem)
    (h3 : s.cond = t.cond) : s = t := by
  cases s; cases t; simp_all

theorem set_reg_self (s : mstate) (r : Nat) : s.set_reg r (s.regs r) = s := by
  apply mstate_ext
  · funext x
    by_cases h : x = r <;> simp [mstate.set_reg, h]
  · rfl
  · rfl

theorem set_reg_set_reg (s : mstate) (r : Nat) (v w : Int) :
    (s.set_reg r v).set_reg r w = s.set_reg r w := by
  apply mstate_ext
  · funext x
    by_cases h : x = r <;> simp [mstate.set_reg, h]
  · rfl
  · rfl

theorem set_reg_comm (s : mstate) (r q : Nat) (v w : Int) (h : r ≠ q) :
    (s.set_reg r v).set_reg q w = (s.set_reg q w).set_reg r v := by
  apply mstate_ext
  · funext x
    by_cases h1 : x = r
    · by_cases h2 : x = q
      · exact absurd (h1.symm.trans h2) h
      · simp [mstate.set_reg, h1, h]
    · by_cases h2 : x = q
      · subst h2
        simp [mstate.set_reg, h1]
      · simp [mstate.set_reg, h1, h2]
  · rfl
  · rfl

theorem set_reg_mem (s : mstate) (r : Nat) (v : Int) : (s.set_reg r v).mem = s.mem := rfl

theorem set_reg_cond (s : mstate) (r : Nat) (v : Int) : (s.set_reg r v).cond = s.cond := rfl

theorem load_list_mem (regs : List Nat) (a : Int) (s : mstate) :
    (load_list regs a s).mem = s.mem := by
  induction regs generalizing a s with
  | nil => rfl
  | cons r rs ih => simp [load_list, ih, set_reg_mem]

theorem load_list_cond (regs : List Nat) (a : Int) (s : mstate) :
    (load_list regs a s).cond = s.cond := by
  induction regs generalizing a s with
  | nil => rfl
  | cons r rs ih => simp [load_list, ih, set_reg_cond]

theorem load_list_not_mem (regs : List Nat) (a : Int) (s : mstate) (r : Nat)
    (h : r ∉ regs) : (load_list regs a s).regs r = s.regs r := by
  induction regs generalizing a s with
  | nil => rfl
  | cons q rs ih =>
    simp only [List.mem_cons, not_or] at h
    simp only [load_list]
    rw [ih _ _ h.2, set_reg_other _ _ _ _ h.1]

theorem load_list_set_reg (regs : List Nat) (a : Int) (s : mstate) (b : Nat) (v : Int)
    (h : b ∉ regs) : load_list regs a (s.set_reg b v) = (load_list regs a s).set_reg b v := by
  induction regs generalizing a s with
  | nil => rfl
  | cons q rs ih =>
    simp only [List.mem_cons, not_or] at h
    simp only [load_list, set_reg_mem]
    rw [set_reg_comm _ _ _ _ _ h.1, ih _ _ h.2]

theorem load_list_append (xs ys : List Nat) (a : Int) (s : mstate) :
    load_list (xs ++ ys) a s = load_list ys (a + 4 * xs.length) (load_list xs a s) := by
  induction xs generalizing a s with
  | nil => simp [load_list]
  | cons x xs ih =>
    have e : a + 4 + 4 * (xs.length : Int) = a + 4 * ((xs.length + 1 : Nat) : Int) := by
      push_cast
      ring
    show load_list (xs ++ ys) (a + 4) (s.set_reg x (s.mem (wrap32 a))) =
      load_list ys (a + 4 * ((xs.length + 1 : Nat) : Int))
        (load_list xs (a + 4) (s.set_reg x (s.mem (wrap32 a))))
    rw [ih, e]

theorem load_list_addr_congr (regs : List Nat) (a b : Int) (s : mstate)
    (h : wrap32 a = wrap32 b) : load_list regs a s = load_list regs b s := by
  induction regs generalizing a b s with
  | nil => rfl
  | cons r rs ih =>
    simp only [load_list, h]
    apply ih
    unfold wrap32 at h ⊢
    omega

/-! ## Register-list loads: normal form of the output -/

theorem any_writes_map (l : List Nat) (r : Nat) :
    (l.map opnd_create_reg).any (fun o => opnd_is_reg o && opnd_get_reg o == r)
      = decide (r ∈ l) := by
  induction l with
  | nil => simp
  | cons x xs ih =>
    rw [List.map_cons, List.any_cons, ih]
    by_cases h : x = r
    · simp [h, opnd_create_reg, opnd_is_reg, opnd_get_reg]
    · have h' : ¬ r = x := fun e => h e.symm
      simp [h, h', opnd_create_reg, opnd_is_reg, opnd_get_reg]

theorem u32_four_mul_u32 (n : Int) : u32 (4 * u32 n) = u32 (4 * n) := by
  unfold u32
  omega

/-- The operands of `ldm<op> base{!}, {r0, rest.., [pc]}`. -/
theorem normalize_ldm_instr_normal_form (cfg : config_t) (left : List instr_t)
    (instr : instr_t) (wb wpc : Bool) (base r0 : Nat) (rest : List Nat)
    (hs : instr.srcs = OPND_CREATE_MEMLIST base :: (if wb then [opnd_create_reg base] else []))
    (hd : instr.dsts = (r0 :: rest ++ (if wpc then [DR_REG_PC] else [])).map opnd_create_reg ++
      (if wb then [opnd_create_reg base] else []))
    (hpc : DR_REG_PC ∉ r0 :: rest) (hb : base ∉ r0 :: rest) (hbpc : base ≠ DR_REG_PC)
    (hsplit : (instr_uses_reg instr cfg.dr_reg_stolen &&
        decide ((pick_scratch_reg cfg left instr false).1 = REG_NULL)) = false) :
    normalize_ldm_instr cfg left instr =
      match ldm_adjust_table instr.opcode wb wpc base
          (to_int32 (u32 (4 * ((rest.length + 1 + (if wpc then 1 else 0) : Nat) : Int)))) with
      | none => .error .assert_failed
      | some (adjust_pre, adjust_post, ldr_pc_disp, use_pop_pc) =>
        .ok
          { instr :=
              if rest = [] then
                { instr with opcode := OP_ldr, srcs := [OPND_CREATE_MEMPTR base 0],
                             dsts := [opnd_create_reg r0] }
              else
                { instr with opcode := OP_ldmia,
                             srcs := OPND_CREATE_MEMLIST base ::
                               (if wb then [opnd_create_reg base] else []),
                             dsts := (r0 :: rest).map opnd_create_reg ++
                               (if wb then [opnd_create_reg base] else []) },
            pre_ldm_adjust := ldm_adjust_instr base adjust_pre instr.predicate
              (cfg.get_app_instr_xl8 instr),
            pre_ldm_ldr := none,
            post_ldm_adjust := ldm_adjust_instr base
              (if rest = [] ∧ wb = true then to_int32 (adjust_post + 4) else adjust_post)
              instr.predicate (cfg.get_app_instr_xl8 instr),
            ldr_pc :=
              if wpc then
                some (instr_set_translation (instr_set_predicate
                  (if use_pop_pc then INSTR_CREATE_pop_list [opnd_create_reg DR_REG_PC]
                   else XINST_CREATE_load (opnd_create_reg DR_REG_PC)
                     (OPND_CREATE_MEMPTR base ldr_pc_disp))
                  instr.predicate) (cfg.get_app_instr_xl8 instr))
              else none } := by
  have hpc' : DR_REG_PC ≠ r0 ∧ DR_REG_PC ∉ rest := by simpa using hpc
  have hb' : base ≠ r0 ∧ base ∉ rest := by simpa using hb
  have hbpc' : ¬ DR_REG_PC = base := fun e => hbpc e.symm
  have hr0 : ¬ r0 = DR_REG_PC := fun e => hpc'.1 e.symm
  have hr0b : ¬ r0 = base := fun e => hb'.1 e.symm
  have hrb : ∀ x ∈ rest, ¬ x = base := fun x hx e => hb'.2 (e ▸ hx)
  have hbeq : (base == DR_REG_PC) = false := by simpa using hbpc
  have hdrop : ∀ (x : opnd_t), List.drop (rest.length + 1)
      (List.map opnd_create_reg rest ++ [x]) = [] := by
    intro x
    apply List.drop_eq_nil_of_le
    simp
  have hdrop2 : ∀ (x y : opnd_t), List.drop (rest.length + 1)
      (List.map opnd_create_reg rest ++ [x, y]) = [y] := by
    intro x y
    have e : List.map opnd_create_reg rest ++ [x, y] =
        (List.map opnd_create_reg rest ++ [x]) ++ [y] := by simp
    rw [e, List.drop_append_of_le_length (by simp), List.drop_eq_nil_of_le (by simp)]
    rfl
  unfold normalize_ldm_instr
  cases wb <;> cases wpc <;> by_cases hrest : rest = []
  all_goals
    simp only [if_true, if_false, Bool.false_eq_true] at hs hd
    simp only [instr_get_src, instr_get_dst, instr_num_srcs, instr_num_dsts, hs, hd,
      instr_writes_to_reg, TEST, DR_QUERY_INCLUDE_ALL, DR_QUERY_INCLUDE_COND_DSTS,
      List.any_append, any_writes_map, hsplit, if_true, if_false, Bool.false_eq_true,
      instr_remove_dsts, instr_remove_srcs, instr_set_src, instr_set_opcode]
    simp [OPND_CREATE_MEMLIST, opnd_create_base_disp, opnd_get_base, hpc', hb', hbpc', hbpc,
      opnd_create_reg, opnd_is_reg, opnd_get_reg, hr0, hr0b, hrb, hrest, u32_four_mul_u32, hs, hd,
      hbeq, hdrop, hdrop2]
  all_goals
    rw [show ((rest.length : Int) + 1 + 1) = rest.length + 2 by ring]

/-! ## Register-list loads: semantics of the pieces -/

theorem exec_instr_run (app : instr_t → mstate → mstate) (i : instr_t) (s : mstate)
    (h : instr_predicate_is_cond i.predicate = false ∨ s.cond i.predicate = true) :
    exec_instr app i s = exec_body app i s := by
  unfold exec_instr instr_is_predicated
  rcases h with h | h <;> simp [h]

theorem exec_instr_skip (app : instr_t → mstate → mstate) (i : instr_t) (s : mstate)
    (h : instr_predicate_is_cond i.predicate = true ∧ s.cond i.predicate = false) :
    exec_instr app i s = s := by
  unfold exec_instr instr_is_predicated
  simp [h.1, h.2]

theorem exec_list_append (app : instr_t → mstate → mstate) (xs ys : List instr_t)
    (s : mstate) : exec_list app (xs ++ ys) s = exec_list app ys (exec_list app xs s) := by
  induction xs generalizing s with
  | nil => rfl
  | cons x xs ih => simp [exec_list, ih]

theorem ldm_adjust_instr_predicate (base : Nat) (adj : Int) (pred : dr_pred_type_t)
    (pc : Option Int) (i : instr_t) (h : ldm_adjust_instr base adj pred pc = some i) :
    i.predicate = pred := by
  unfold ldm_adjust_instr at h
  split_ifs at h <;> simp only [Option.some.injEq] at h <;> rw [← h] <;> rfl

/-- A base adjustment that executes adds `adj` to the base register. -/
theorem exec_ldm_adjust (app : instr_t → mstate → mstate) (base : Nat) (adj : Int)
    (pred : dr_pred_type_t) (pc : Option Int) (s : mstate)
    (hx : wrap32 (s.regs base) = s.regs base)
    (hc : instr_predicate_is_cond pred = false ∨ s.cond pred = true) :
    exec_list app (ldm_adjust_instr base adj pred pc).toList s =
      s.set_reg base (wrap32 (s.regs base + adj)) := by
  unfold ldm_adjust_instr
  by_cases h0 : adj = 0
  · subst h0
    simp only [ne_eq, not_true_eq_false, if_false, Option.toList, exec_list, add_zero, hx,
      set_reg_self]
  · simp only [ne_eq, h0, not_false_eq_true, if_true, Option.toList, exec_list]
    rw [exec_instr_run _ _ _ (by simpa [instr_set_translation, instr_set_predicate] using hc)]
    by_cases hpos : adj > 0
    · simp [hpos, exec_body, instr_set_translation, instr_set_predicate, XINST_CREATE_add,
        instr_create, opnd_create_reg, OPND_CREATE_INT]
    · simp only [hpos, if_false, exec_body, instr_set_translation, instr_set_predicate,
        XINST_CREATE_sub, instr_create, opnd_create_reg, OPND_CREATE_INT,
        wrap32_sub_to_int32]
      congr 2
      ring

theorem map_get_reg_create (l : List Nat) :
    l.map (opnd_get_reg ∘ opnd_create_reg) = l := by
  induction l with
  | nil => rfl
  | cons x xs ih => simp [opnd_create_reg, opnd_get_reg] at ih ⊢; exact ih

/-- Effect of a register-list load with the operand shape of `ldm`. -/
theorem exec_ldm_shape (instr : instr_t) (wb : Bool) (base : Nat) (regs : List Nat)
    (s : mstate)
    (hs : instr.srcs = OPND_CREATE_MEMLIST base :: (if wb then [opnd_create_reg base] else []))
    (hd : instr.dsts = regs.map opnd_create_reg ++ (if wb then [opnd_create_reg base] else [])) :
    exec_ldm instr s =
      if wb then
        (load_list regs (ldm_start_addr instr.opcode (s.regs base) regs.length) s).set_reg base
          (wrap32 (ldm_final_base instr.opcode (s.regs base) regs.length))
      else load_list regs (ldm_start_addr instr.opcode (s.regs base) regs.length) s := by
  unfold exec_ldm ldm_reglist instr_get_src
  cases wb
  · simp [hs, hd, OPND_CREATE_MEMLIST, opnd_create_base_disp, opnd_get_base,
      map_get_reg_create]
  · simp [hs, hd, OPND_CREATE_MEMLIST, opnd_create_base_disp, opnd_get_base,
      map_get_reg_create, List.dropLast_concat]

/-! ## Register-list loads: the adjustment table -/

theorem to_int32_mod (z : Int) : to_int32 z % 4294967296 = z % 4294967296 := by
  unfold to_int32
  omega

theorem ldm_adjust_table_sound_OP_ldmia (wb wpc : Bool) (base k : Nat) (x : Int)
    (a_pre a_post disp : Int) (pop : Bool)
    (h : ldm_adjust_table OP_ldmia wb wpc base
      (to_int32 (u32 (4 * ((k + 1 + (if wpc then 1 else 0) : Nat) : Int)))) =
        some (a_pre, a_post, disp, pop)) :
    wrap32 (x + a_pre) = wrap32 (ldm_start_addr OP_ldmia x (k + 1 + (if wpc then 1 else 0))) ∧
    wrap32 (x + a_pre + (if wb then 4 * ((k : Int) + 1) else 0) + a_post +
        (if pop then 4 else 0)) =
      wrap32 (if wb then ldm_final_base OP_ldmia x (k + 1 + (if wpc then 1 else 0)) else x) ∧
    (pop = true → base = DR_REG_SP ∧ wb = true ∧ wpc = true) := by
  have hm := to_int32_mod (u32 (4 * ((k + 1 + (if wpc then 1 else 0) : Nat) : Int)))
  generalize to_int32 (u32 (4 * ((k + 1 + (if wpc then 1 else 0) : Nat) : Int))) = m at h hm
  cases wb <;> cases wpc <;>
    simp only [ldm_adjust_table, if_true, if_false, Bool.false_eq_true] at h
  all_goals
    try (by_cases hsp : base = DR_REG_SP <;> simp only [hsp, if_true, if_false] at h)
  all_goals
    simp only [Option.some.injEq, Prod.mk.injEq] at h
    obtain ⟨rfl, rfl, rfl, rfl⟩ := h
    simp only [ldm_start_addr, ldm_final_base, if_true, if_false, Bool.false_eq_true]
    refine ⟨?_, ?_, by simp_all⟩
  all_goals
    simp only [wrap32, u32, to_int32, ↓reduceIte] at hm ⊢
    push_cast at hm ⊢
    omega

theorem ldm_adjust_table_sound_OP_ldmib (wb wpc : Bool) (base k : Nat) (x : Int)
    (a_pre a_post disp : Int) (pop : Bool)
    (h : ldm_adjust_table OP_ldmib wb wpc base
      (to_int32 (u32 (4 * ((k + 1 + (if wpc then 1 else 0) : Nat) : Int)))) =
        some (a_pre, a_post, disp, pop)) :
    wrap32 (x + a_pre) = wrap32 (ldm_start_addr OP_ldmib x (k + 1 + (if wpc then 1 else 0))) ∧
    wrap32 (x + a_pre + (if wb then 4 * ((k : Int) + 1) else 0) + a_post +
        (if pop then 4 else 0)) =
      wrap32 (if wb then ldm_final_base OP_ldmib x (k + 1 + (if wpc then 1 else 0)) else x) ∧
    (pop = true → base = DR_REG_SP ∧ wb = true ∧ wpc = true) := by
  have hm := to_int32_mod (u32 (4 * ((k + 1 + (if wpc then 1 else 0) : Nat) : Int)))
  generalize to_int32 (u32 (4 * ((k + 1 + (if wpc then 1 else 0) : Nat) : Int))) = m at h hm
  cases wb <;> cases wpc <;>
    simp only [ldm_adjust_table, if_true, if_false, Bool.false_eq_true] at h
  all_goals
    simp only [Option.some.injEq, Prod.mk.injEq] at h
    obtain ⟨rfl, rfl, rfl, rfl⟩ := h
    simp only [ldm_start_addr, ldm_final_base, if_true, if_false, Bool.false_eq_true]
    refine ⟨?_, ?_, by simp_all⟩
  all_goals
    simp only [wrap32, u32, to_int32, ↓reduceIte] at hm ⊢
    push_cast at hm ⊢
    omega

theorem ldm_adjust_table_sound_OP_ldmda (wb wpc : Bool) (base k : Nat) (x : Int)
    (a_pre a_post disp : Int) (pop : Bool)
    (h : ldm_adjust_table OP_ldmda wb wpc base
      (to_int32 (u32 (4 * ((k + 1 + (if wpc then 1 else 0) : Nat) : Int)))) =
        some (a_pre, a_post, disp, pop)) :
    wrap32 (x + a_pre) = wrap32 (ldm_start_addr OP_ldmda x (k + 1 + (if wpc then 1 else 0))) ∧
    wrap32 (x + a_pre + (if wb then 4 * ((k : Int) + 1) else 0) + a_post +
        (if pop then 4 else 0)) =
      wrap32 (if wb then ldm_final_base OP_ldmda x (k + 1 + (if wpc then 1 else 0)) else x) ∧
    (pop = true → base = DR_REG_SP ∧ wb = true ∧ wpc = true) := by
  have hm := to_int32_mod (u32 (4 * ((k + 1 + (if wpc then 1 else 0) : Nat) : Int)))
  generalize to_int32 (u32 (4 * ((k + 1 + (if wpc then 1 else 0) : Nat) : Int))) = m at h hm
  cases wb <;> cases wpc <;>
    simp only [ldm_adjust_table, if_true, if_false, Bool.false_eq_true] at h
  all_goals
    simp only [Option.some.injEq, Prod.mk.injEq] at h
    obtain ⟨rfl, rfl, rfl, rfl⟩ := h
    simp only [ldm_start_addr, ldm_final_base, if_true, if_false, Bool.false_eq_true]
    refine ⟨?_, ?_, by simp_all⟩
  all_goals
    simp only [wrap32, u32, to_int32, ↓reduceIte] at hm ⊢
    push_cast at hm ⊢
    omega

theorem ldm_adjust_table_sound_OP_ldmdb (wb wpc : Bool) (base k : Nat) (x : Int)
    (a_pre a_post disp : Int) (pop : Bool)
    (h : ldm_adjust_table OP_ldmdb wb wpc base
      (to_int32 (u32 (4 * ((k + 1 + (if wpc then 1 else 0) : Nat) : Int)))) =
        some (a_pre, a_post, disp, pop)) :
    wrap32 (x + a_pre) = wrap32 (ldm_start_addr OP_ldmdb x (k + 1 + (if wpc then 1 else 0))) ∧
    wrap32 (x + a_pre + (if wb then 4 * ((k : Int) + 1) else 0) + a_post +
        (if pop then 4 else 0)) =
      wrap32 (if wb then ldm_final_base OP_ldmdb x (k + 1 + (if wpc then 1 else 0)) else x) ∧
    (pop = true → base = DR_REG_SP ∧ wb = true ∧ wpc = true) := by
  have hm := to_int32_mod (u32 (4 * ((k + 1 + (if wpc then 1 else 0) : Nat) : Int)))
  generalize to_int32 (u32 (4 * ((k + 1 + (if wpc then 1 else 0) : Nat) : Int))) = m at h hm
  cases wb <;> cases wpc <;>
    simp only [ldm_adjust_table, if_true, if_false, Bool.false_eq_true] at h
  all_goals
    simp only [Option.some.injEq, Prod.mk.injEq] at h
    obtain ⟨rfl, rfl, rfl, rfl⟩ := h
    simp only [ldm_start_addr, ldm_final_base, if_true, if_false, Bool.false_eq_true]
    refine ⟨?_, ?_, by simp_all⟩
  all_goals
    simp only [wrap32, u32, to_int32, ↓reduceIte] at hm ⊢
    push_cast at hm ⊢
    omega

/-- The table of `normalize_ldm_instr`: the pre-adjusted base is the first
address of the original `ldm`, and pre-adjust, writeback of the remaining
`ldmia`, post-adjust (and the `pop {pc}`) together leave the original's final
base. -/
theorem ldm_adjust_table_sound (op : opcode_t) (wb wpc : Bool) (base k : Nat) (x : Int)
    (a_pre a_post disp : Int) (pop : Bool)
    (hop : op = OP_ldmia ∨ op = OP_ldmib ∨ op = OP_ldmda ∨ op = OP_ldmdb)
    (h : ldm_adjust_table op wb wpc base
      (to_int32 (u32 (4 * ((k + 1 + (if wpc then 1 else 0) : Nat) : Int)))) =
        some (a_pre, a_post, disp, pop)) :
    wrap32 (x + a_pre) = wrap32 (ldm_start_addr op x (k + 1 + (if wpc then 1 else 0))) ∧
    wrap32 (x + a_pre + (if wb then 4 * ((k : Int) + 1) else 0) + a_post +
        (if pop then 4 else 0)) =
      wrap32 (if wb then ldm_final_base op x (k + 1 + (if wpc then 1 else 0)) else x) ∧
    (pop = true → base = DR_REG_SP ∧ wb = true ∧ wpc = true) := by
  rcases hop with rfl | rfl | rfl | rfl
  · exact ldm_adjust_table_sound_OP_ldmia wb wpc base k x a_pre a_post disp pop h
  · exact ldm_adjust_table_sound_OP_ldmib wb wpc base k x a_pre a_post disp pop h
  · exact ldm_adjust_table_sound_OP_ldmda wb wpc base k x a_pre a_post disp pop h
  · exact ldm_adjust_table_sound_OP_ldmdb wb wpc base k x a_pre a_post disp pop h

theorem ldm_adjust_table_some (op : opcode_t) (wb wpc : Bool) (base : Nat) (m : Int)
    (hop : op = OP_ldmia ∨ op = OP_ldmib ∨ op = OP_ldmda ∨ op = OP_ldmdb) :
    ∃ t, ldm_adjust_table op wb wpc base m = some t := by
  rcases hop with rfl | rfl | rfl | rfl <;> cases wb <;> cases wpc <;>
    simp only [ldm_adjust_table, if_true, if_false, Bool.false_eq_true]
  all_goals first
    | exact ⟨_, rfl⟩
    | (split_ifs <;> exact ⟨_, rfl⟩)

/-! ## Register-list loads: the normalised sequence -/

/-- The instruction `normalize_ldm_instr` leaves in place of the `ldm`. -/
theorem exec_ldm_rewritten (app : instr_t → mstate → mstate) (instr : instr_t) (wb : Bool)
    (base r0 : Nat) (rest : List Nat) (s : mstate) :
    exec_body app
      (if rest = [] then
        { instr with opcode := OP_ldr, srcs := [OPND_CREATE_MEMPTR base 0],
                     dsts := [opnd_create_reg r0] }
      else
        { instr with opcode := OP_ldmia,
                     srcs := OPND_CREATE_MEMLIST base ::
                       (if wb then [opnd_create_reg base] else []),
                     dsts := (r0 :: rest).map opnd_create_reg ++
                       (if wb then [opnd_create_reg base] else []) }) s =
      if rest = [] ∨ wb = false then load_list (r0 :: rest) (s.regs base) s
      else (load_list (r0 :: rest) (s.regs base) s).set_reg base
        (wrap32 (s.regs base + 4 * ((rest.length : Int) + 1))) := by
  by_cases hrest : rest = []
  · subst hrest
    simp [exec_body, OPND_CREATE_MEMPTR, opnd_create_base_disp, opnd_create_reg, load_list,
      opnd_get_signed_disp, opnd_get_flags, opnd_get_disp, TEST_negated_zero, REG_NULL]
  · simp only [hrest, if_false, false_or]
    have h := exec_ldm_shape
      { instr with opcode := OP_ldmia,
                   srcs := OPND_CREATE_MEMLIST base :: (if wb then [opnd_create_reg base] else []),
                   dsts := (r0 :: rest).map opnd_create_reg ++
                     (if wb then [opnd_create_reg base] else []) }
      wb base (r0 :: rest) s rfl rfl
    have e : exec_body app
        { instr with opcode := OP_ldmia,
                     srcs := OPND_CREATE_MEMLIST base :: (if wb then [opnd_create_reg base] else []),
                     dsts := (r0 :: rest).map opnd_create_reg ++
                       (if wb then [opnd_create_reg base] else []) } s =
        exec_ldm
        { instr with opcode := OP_ldmia,
                     srcs := OPND_CREATE_MEMLIST base :: (if wb then [opnd_create_reg base] else []),
                     dsts := (r0 :: rest).map opnd_create_reg ++
                       (if wb then [opnd_create_reg base] else []) } s := by
      simp [exec_body]
    rw [e, h]
    cases wb
    · simp [ldm_start_addr]
    · simp [ldm_start_addr, ldm_final_base]

/-- Pre-adjust, rewritten instruction and post-adjust, when they execute: the
list registers are loaded from the pre-adjusted base and the base ends at the
sum of the adjustments and the writeback. -/
theorem exec_ldm_core (app : instr_t → mstate → mstate) (instr : instr_t) (wb : Bool)
    (base r0 : Nat) (rest : List Nat) (a_pre a_post : Int) (pc : Option Int) (s : mstate)
    (hb : base ∉ r0 :: rest)
    (hx : wrap32 (s.regs base) = s.regs base)
    (hc : instr_predicate_is_cond instr.predicate = false ∨ s.cond instr.predicate = true) :
    exec_list app
      ((ldm_adjust_instr base a_pre instr.predicate pc).toList ++
        [if rest = [] then
          { instr with opcode := OP_ldr, srcs := [OPND_CREATE_MEMPTR base 0],
                       dsts := [opnd_create_reg r0] }
        else
          { instr with opcode := OP_ldmia,
                       srcs := OPND_CREATE_MEMLIST base ::
                         (if wb then [opnd_create_reg base] else []),
                       dsts := (r0 :: rest).map opnd_create_reg ++
                         (if wb then [opnd_create_reg base] else []) }] ++
        (ldm_adjust_instr base
          (if rest = [] ∧ wb = true then to_int32 (a_post + 4) else a_post)
          instr.predicate pc).toList) s =
      (load_list (r0 :: rest) (s.regs base + a_pre) s).set_reg base
        (wrap32 (s.regs base + a_pre + (if wb then 4 * ((rest.length : Int) + 1) else 0)
          + a_post)) := by
  rw [exec_list_append, exec_list_append, exec_ldm_adjust app base a_pre _ pc s hx hc]
  simp only [exec_list]
  rw [exec_instr_run _ _ _ (by split_ifs <;> simpa [set_reg_cond] using hc),
    exec_ldm_rewritten, set_reg_same, load_list_set_reg _ _ _ _ _ hb]
  have ha : load_list (r0 :: rest) (wrap32 (s.regs base + a_pre)) s =
      load_list (r0 :: rest) (s.regs base + a_pre) s :=
    load_list_addr_congr _ _ _ _ (wrap32_idem _)
  rw [ha]
  by_cases hrest : rest = []
  · subst hrest
    simp only [true_or, if_true, true_and, List.length_nil, Int.Nat.cast_ofNat_Int]
    rw [exec_ldm_adjust app base _ _ pc _ (by simp [set_reg_same, wrap32_idem])
      (by simpa [set_reg_cond, load_list_cond] using hc)]
    rw [set_reg_same, set_reg_set_reg]
    congr 1
    cases wb
    · simp only [Bool.false_eq_true, if_false]
      unfold wrap32
      omega
    · simp only [if_true]
      unfold wrap32 to_int32
      omega
  · cases wb
    · simp only [hrest, false_or, if_true, false_and, if_false, Bool.false_eq_true]
      rw [exec_ldm_adjust app base _ _ pc _ (by simp [set_reg_same, wrap32_idem])
        (by simpa [set_reg_cond, load_list_cond] using hc)]
      rw [set_reg_same, set_reg_set_reg]
      congr 1
      unfold wrap32
      omega
    · simp only [hrest, false_or, Bool.true_eq_false, if_false, false_and, if_true]
      rw [set_reg_set_reg]
      rw [exec_ldm_adjust app base _ _ pc _ (by simp [set_reg_same, wrap32_idem])
        (by simpa [set_reg_cond, load_list_cond] using hc)]
      rw [set_reg_same, set_reg_set_reg]
      congr 1
      unfold wrap32
      omega

theorem exec_body_ldm (app : instr_t → mstate → mstate) (instr : instr_t) (s : mstate)
    (hop : instr.opcode = OP_ldmia ∨ instr.opcode = OP_ldmib ∨ instr.opcode = OP_ldmda ∨
      instr.opcode = OP_ldmdb) : exec_body app instr s = exec_ldm instr s := by
  unfold exec_body
  rcases hop with h | h | h | h <;> simp [h]

theorem exec_list_skip (app : instr_t → mstate → mstate) (l : List instr_t) (s : mstate)
    (p : dr_pred_type_t) (hp : instr_predicate_is_cond p = true ∧ s.cond p = false)
    (hl : ∀ i ∈ l, i.predicate = p) : exec_list app l s = s := by
  induction l with
  | nil => rfl
  | cons x xs ih =>
    simp only [exec_list]
    rw [exec_instr_skip _ _ _ (by rw [hl x (by simp)]; exact hp)]
    exact ih (fun i hi => hl i (by simp [hi]))

theorem load_list_pcs (wpc : Bool) (a : Int) (s : mstate) (r : Nat) (hr : r ≠ DR_REG_PC) :
    (load_list (if wpc then [DR_REG_PC] else []) a s).regs r = s.regs r := by
  cases wpc
  · rfl
  · simp [load_list, set_reg_other _ _ _ _ hr]

/-- Effect of `ldr d, [base, #disp]` as created by `XINST_CREATE_load` with
`OPND_CREATE_MEMPTR`. -/
theorem exec_body_load_memptr (app : instr_t → mstate → mstate) (d base : Nat) (disp : Int)
    (pred : dr_pred_type_t) (pc : Option Int) (t : mstate) :
    exec_body app (instr_set_translation (instr_set_predicate
      (XINST_CREATE_load (opnd_create_reg d) (OPND_CREATE_MEMPTR base disp)) pred) pc) t =
      t.set_reg d (t.mem (wrap32 (t.regs base + disp))) := by
  unfold OPND_CREATE_MEMPTR opnd_create_base_disp
  split_ifs
  · simp [exec_body, instr_set_translation, instr_set_predicate, XINST_CREATE_load,
      instr_create, opnd_create_reg, REG_NULL, opnd_get_signed_disp, opnd_get_flags,
      opnd_get_disp, TEST_negated_one]
  · simp [exec_body, instr_set_translation, instr_set_predicate, XINST_CREATE_load,
      instr_create, opnd_create_reg, REG_NULL, opnd_get_signed_disp, opnd_get_flags,
      opnd_get_disp, TEST_negated_zero]

/-- Effect of `pop {pc}` as created by `INSTR_CREATE_pop_list`. -/
theorem exec_body_pop_pc (app : instr_t → mstate → mstate) (pred : dr_pred_type_t)
    (pc : Option Int) (t : mstate) :
    exec_body app (instr_set_translation (instr_set_predicate
      (INSTR_CREATE_pop_list [opnd_create_reg DR_REG_PC]) pred) pc) t =
      (t.set_reg DR_REG_PC (t.mem (wrap32 (t.regs DR_REG_SP)))).set_reg DR_REG_SP
        (wrap32 (t.regs DR_REG_SP + 4)) := by
  rw [exec_body_ldm _ _ _ (Or.inl rfl),
    exec_ldm_shape _ true DR_REG_SP [DR_REG_PC] _ rfl rfl]
  simp [instr_set_translation, instr_set_predicate, INSTR_CREATE_pop_list, instr_create,
    ldm_start_addr, ldm_final_base, load_list]

/-! ## C1 -/

/-- C1: for every opcode in ldmia, ldmib, ldmda, ldmdb, both writeback
settings, both write_pc settings, every register list `r0, rest.., [pc]` (PC,
if present, last and not the only register) that does not contain the base
register and needs no scratch split, and every 32-bit base value: the sequence
produced by `normalize_ldm_instr`, executed in order (pre-adjust, rewritten
ldmia or ldr, post-adjust, ldr pc / pop pc), leaves every register other than
PC, and memory, exactly as the original ldm does; in particular the list
registers are loaded from the addresses the original reads and the base
register ends with the original's final value (X without writeback, X+4n for
ia/ib and X-4n for da/db with writeback), all modulo 2^32. -/
theorem normalize_ldm_instr_equiv (cfg : config_t) (left : List instr_t) (instr : instr_t)
    (wb wpc : Bool) (base r0 : Nat) (rest : List Nat)
    (app : instr_t → mstate → mstate) (s : mstate)
    (hop : instr.opcode = OP_ldmia ∨ instr.opcode = OP_ldmib ∨ instr.opcode = OP_ldmda ∨
      instr.opcode = OP_ldmdb)
    (hs : instr.srcs = OPND_CREATE_MEMLIST base :: (if wb then [opnd_create_reg base] else []))
    (hd : instr.dsts = (r0 :: rest ++ (if wpc then [DR_REG_PC] else [])).map opnd_create_reg ++
      (if wb then [opnd_create_reg base] else []))
    (hpc : DR_REG_PC ∉ r0 :: rest) (hb : base ∉ r0 :: rest) (hbpc : base ≠ DR_REG_PC)
    (hsplit : (instr_uses_reg instr cfg.dr_reg_stolen &&
        decide ((pick_scratch_reg cfg left instr false).1 = REG_NULL)) = false)
    (hx : wrap32 (s.regs base) = s.regs base) :
    ∃ n, normalize_ldm_instr cfg left instr = .ok n ∧ n.pre_ldm_ldr = none ∧
      (∀ r, r ≠ DR_REG_PC →
        (exec_list app n.sequence s).regs r = (exec_instr app instr s).regs r) ∧
      (exec_list app n.sequence s).mem = s.mem ∧
      ((instr_predicate_is_cond instr.predicate = false ∨ s.cond instr.predicate = true) →
        (∀ r, r ≠ DR_REG_PC →
          (exec_list app n.sequence s).regs r =
            ((load_list (r0 :: rest)
                (ldm_start_addr instr.opcode (s.regs base)
                  (rest.length + 1 + (if wpc then 1 else 0))) s).set_reg base
              (if wb then wrap32 (ldm_final_base instr.opcode (s.regs base)
                  (rest.length + 1 + (if wpc then 1 else 0)))
               else s.regs base)).regs r)) := by
  obtain ⟨⟨a_pre, a_post, disp, pop⟩, ht⟩ := ldm_adjust_table_some instr.opcode wb wpc base
    (to_int32 (u32 (4 * ((rest.length + 1 + (if wpc then 1 else 0) : Nat) : Int)))) hop
  have hnf := normalize_ldm_instr_normal_form cfg left instr wb wpc base r0 rest hs hd hpc hb
    hbpc hsplit
  rw [ht] at hnf
  simp only at hnf
  obtain ⟨hT1, hT2, hT3⟩ := ldm_adjust_table_sound instr.opcode wb wpc base rest.length
    (s.regs base) a_pre a_post disp pop hop ht
  have hbl : base ∉ (r0 :: rest ++ (if wpc then [DR_REG_PC] else [])) := by
    cases wpc
    · simpa using hb
    · simp only [if_true, List.mem_append, List.mem_singleton, not_or]
      exact ⟨hb, hbpc⟩
  have hexec : (instr_predicate_is_cond instr.predicate = false ∨
      s.cond instr.predicate = true) →
      ∀ r, r ≠ DR_REG_PC →
        (exec_list app
          (((ldm_adjust_instr base a_pre instr.predicate (cfg.get_app_instr_xl8 instr)).toList ++
            [if rest = [] then
              { instr with opcode := OP_ldr, srcs := [OPND_CREATE_MEMPTR base 0],
                           dsts := [opnd_create_reg r0] }
            else
              { instr with opcode := OP_ldmia,
                           srcs := OPND_CREATE_MEMLIST base ::
                             (if wb then [opnd_create_reg base] else []),
                           dsts := (r0 :: rest).map opnd_create_reg ++
                             (if wb then [opnd_create_reg base] else []) }] ++
            (ldm_adjust_instr base
              (if rest = [] ∧ wb = true then to_int32 (a_post + 4) else a_post)
              instr.predicate (cfg.get_app_instr_xl8 instr)).toList) ++
            (if wpc then
                some (instr_set_translation (instr_set_predicate
                  (if pop then INSTR_CREATE_pop_list [opnd_create_reg DR_REG_PC]
                   else XINST_CREATE_load (opnd_create_reg DR_REG_PC)
                     (OPND_CREATE_MEMPTR base disp))
                  instr.predicate) (cfg.get_app_instr_xl8 instr))
              else none).toList) s).regs r =
        ((load_list (r0 :: rest)
            (ldm_start_addr instr.opcode (s.regs base)
              (rest.length + 1 + (if wpc then 1 else 0))) s).set_reg base
          (if wb then wrap32 (ldm_final_base instr.opcode (s.regs base)
              (rest.length + 1 + (if wpc then 1 else 0)))
           else s.regs base)).regs r := by
    intro hc r hr
    rw [exec_list_append, exec_ldm_core app instr wb base r0 rest a_pre a_post _ s hb hx hc,
      load_list_addr_congr _ _ _ _ hT1]
    cases wpc
    · -- no PC in the list: nothing follows the post-adjust
      have hpop : pop = false := by
        cases pop
        · rfl
        · exact absurd (hT3 rfl).2.2 (by simp)
      subst hpop
      simp only [Bool.false_eq_true, if_false, Option.toList_none, exec_list, add_zero] at hT2 ⊢
      rw [hT2]
      cases wb
      · simp only [Bool.false_eq_true, if_false, hx]
      · simp only [if_true]
    · simp only [if_true, Option.toList_some, exec_list]
      rw [exec_instr_run _ _ _ (by
        simpa [instr_set_translation, instr_set_predicate, set_reg_cond, load_list_cond]
          using hc)]
      cases pop
      · -- ldr pc, [base, disp]
        simp only [Bool.false_eq_true, if_false, add_zero] at hT2 ⊢
        rw [exec_body_load_memptr, set_reg_other _ _ _ _ hr, hT2]
        cases wb
        · simp only [Bool.false_eq_true, if_false, hx]
        · simp only [if_true]
      · -- pop {pc}
        obtain ⟨hsp, hwb, -⟩ := hT3 rfl
        subst hwb
        subst hsp
        simp only [if_true] at hT2 ⊢
        rw [exec_body_pop_pc]
        by_cases hrb : r = DR_REG_SP
        · subst hrb
          rw [set_reg_same, set_reg_same, set_reg_same, ← hT2]
          unfold wrap32
          omega
        · rw [set_reg_other _ _ _ _ hrb, set_reg_other _ _ _ _ hr,
            set_reg_other _ _ _ _ hrb, set_reg_other _ _ _ _ hrb]
  have hseq : ∀ (n : ldm_normalized), n.pre_ldm_ldr = none →
      n.sequence = (n.pre_ldm_adjust.toList ++ [n.instr] ++ n.post_ldm_adjust.toList) ++
        n.ldr_pc.toList := by
    intro n hn
    simp only [ldm_normalized.sequence, hn, Option.toList_none, List.append_nil]
  have hpreds : ∀ i ∈ ((ldm_adjust_instr base a_pre instr.predicate
        (cfg.get_app_instr_xl8 instr)).toList ++
      [if rest = [] then
        { instr with opcode := OP_ldr, srcs := [OPND_CREATE_MEMPTR base 0],
                     dsts := [opnd_create_reg r0] }
      else
        { instr with opcode := OP_ldmia,
                     srcs := OPND_CREATE_MEMLIST base ::
                       (if wb then [opnd_create_reg base] else []),
                     dsts := (r0 :: rest).map opnd_create_reg ++
                       (if wb then [opnd_create_reg base] else []) }] ++
      (ldm_adjust_instr base
        (if rest = [] ∧ wb = true then to_int32 (a_post + 4) else a_post)
        instr.predicate (cfg.get_app_instr_xl8 instr)).toList) ++
      (if wpc then
          some (instr_set_translation (instr_set_predicate
            (if pop then INSTR_CREATE_pop_list [opnd_create_reg DR_REG_PC]
             else XINST_CREATE_load (opnd_create_reg DR_REG_PC)
               (OPND_CREATE_MEMPTR base disp))
            instr.predicate) (cfg.get_app_instr_xl8 instr))
        else none).toList, i.predicate = instr.predicate := by
    intro i hi
    simp only [List.mem_append, Option.mem_toList, List.mem_singleton] at hi
    rcases hi with ((hi | hi) | hi) | hi
    · exact ldm_adjust_instr_predicate _ _ _ _ _ hi
    · rw [hi]
      split_ifs <;> rfl
    · exact ldm_adjust_instr_predicate _ _ _ _ _ hi
    · cases wpc
      · simp at hi
      · simp only [if_true, Option.mem_def, Option.some.injEq] at hi
        rw [← hi]
        rfl
  refine ⟨_, hnf, rfl, ?_, ?_, ?_⟩
  · intro r hr
    rw [hseq _ rfl]
    by_cases hc : instr_predicate_is_cond instr.predicate = false ∨
        s.cond instr.predicate = true
    · rw [hexec hc r hr, exec_instr_run _ _ _ hc, exec_body_ldm _ _ _ hop,
        exec_ldm_shape instr wb base _ s hs hd]
      simp only [List.length_append, List.length_cons]
      have hlen : (rest.length + 1 + (if wpc = true then [DR_REG_PC] else []).length) =
          rest.length + 1 + (if wpc = true then 1 else 0) := by
        cases wpc <;> simp
      rw [hlen]
      have hll : ∀ a, (load_list (r0 :: rest ++ (if wpc = true then [DR_REG_PC] else [])) a s).regs r
          = (load_list (r0 :: rest) a s).regs r := by
        intro a
        rw [load_list_append, load_list_pcs _ _ _ _ hr]
      by_cases hrb : r = base
      · subst hrb
        cases wb
        · simp only [Bool.false_eq_true, if_false, set_reg_same]
          rw [load_list_not_mem _ _ _ _ hbl]
        · simp only [if_true, set_reg_same]
      · cases wb
        · simp only [Bool.false_eq_true, if_false]
          rw [set_reg_other _ _ _ _ hrb, hll]
        · simp only [if_true]
          rw [set_reg_other _ _ _ _ hrb, set_reg_other _ _ _ _ hrb, hll]
    · have hp : instr_predicate_is_cond instr.predicate = true ∧
          s.cond instr.predicate = false := by
        simpa [not_or] using hc
      rw [exec_instr_skip _ _ _ hp, exec_list_skip app _ s instr.predicate hp hpreds]
  · rw [hseq _ rfl]
    by_cases hc : instr_predicate_is_cond instr.predicate = false ∨
        s.cond instr.predicate = true
    · rw [exec_list_append, exec_ldm_core app instr wb base r0 rest a_pre a_post _ s hb hx hc]
      cases wpc
      · simp only [Bool.false_eq_true, if_false, Option.toList_none, exec_list, set_reg_mem,
          load_list_mem]
      · simp only [if_true, Option.toList_some, exec_list]
        rw [exec_instr_run _ _ _ (by
          simpa [instr_set_translation, instr_set_predicate, set_reg_cond, load_list_cond]
            using hc)]
        cases pop
        · simp only [Bool.false_eq_true, if_false]
          rw [exec_body_load_memptr, set_reg_mem, set_reg_mem, load_list_mem]
        · simp only [if_true]
          rw [exec_body_pop_pc, set_reg_mem, set_reg_mem, set_reg_mem, load_list_mem]
    · have hp : instr_predicate_is_cond instr.predicate = true ∧
          s.cond instr.predicate = false := by
        simpa [not_or] using hc
      rw [exec_list_skip app _ s instr.predicate hp hpreds]
  · intro hc r hr
    rw [hseq _ rfl]
    exact hexec hc r hr

theorem normalize_ldm_instr_equiv_witness :
    ((ex_ldm OP_ldmdb true 0 [1, 2, 15]).opcode = OP_ldmdb ∧
      (ex_ldm OP_ldmdb true 0 [1, 2, 15]).srcs =
        OPND_CREATE_MEMLIST DR_REG_R0 :: (if true then [opnd_create_reg DR_REG_R0] else []) ∧
      (ex_ldm OP_ldmdb true 0 [1, 2, 15]).dsts =
        (DR_REG_R1 :: [DR_REG_R2] ++ (if true then [DR_REG_PC] else [])).map opnd_create_reg ++
          (if true then [opnd_create_reg DR_REG_R0] else []) ∧
      DR_REG_PC ∉ DR_REG_R1 :: [DR_REG_R2] ∧ DR_REG_R0 ∉ DR_REG_R1 :: [DR_REG_R2] ∧
      DR_REG_R0 ≠ DR_REG_PC ∧
      (instr_uses_reg (ex_ldm OP_ldmdb true 0 [1, 2, 15]) ex_cfg.dr_reg_stolen &&
        decide ((pick_scratch_reg ex_cfg [] (ex_ldm OP_ldmdb true 0 [1, 2, 15]) false).1
          = REG_NULL)) = false ∧
      wrap32 (ex_state.regs DR_REG_R0) = ex_state.regs DR_REG_R0) ∧
    ∃ n, normalize_ldm_instr ex_cfg [] (ex_ldm OP_ldmdb true 0 [1, 2, 15]) = .ok n ∧
      n.pre_ldm_ldr = none ∧
      (∀ r, r ≠ DR_REG_PC →
        (exec_list ex_app n.sequence ex_state).regs r =
          (exec_instr ex_app (ex_ldm OP_ldmdb true 0 [1, 2, 15]) ex_state).regs r) :=
  ⟨⟨by decide, by decide, by decide, by decide, by decide, by decide, by decide, by decide⟩,
   let ⟨n, h1, h2, h3, _⟩ := normalize_ldm_instr_equiv ex_cfg [] (ex_ldm OP_ldmdb true 0 [1, 2, 15])
      true true DR_REG_R0 DR_REG_R1 [DR_REG_R2] ex_app ex_state
      (by decide) (by decide) (by decide) (by decide) (by decide) (by decide) (by decide)
      (by decide)
   ⟨n, h1, h2, h3⟩⟩

/-! ## C2 -/

/-- C2 (failing input): for `ldmda r0!, {r1, r2, r3, pc}` with base value
X = 1000 the original loads PC from address X = 1000 and leaves r0 = X - 16,
but the trailing `ldr pc, [r0, #20]` produced by `normalize_ldm_instr` reads
address X + 4 = 1004 (every memory word of `ex_state` holds its own address). -/
theorem normalize_ldm_ldmda_wb_pc_reads_wrong_slot :
    (∃ n, normalize_ldm_instr ex_cfg [] (ex_ldm OP_ldmda true 0 [1, 2, 3, 15]) = .ok n ∧
       n.ldr_pc = some (XINST_CREATE_load (opnd_create_reg DR_REG_PC)
         (OPND_CREATE_MEMPTR DR_REG_R0 20)) ∧
       (exec_list ex_app n.sequence ex_state).regs DR_REG_R0 = 1000 - 16 ∧
       (exec_list ex_app n.sequence ex_state).regs DR_REG_PC = 1004) ∧
    (exec_instr ex_app (ex_ldm OP_ldmda true 0 [1, 2, 3, 15]) ex_state).regs DR_REG_PC = 1000 ∧
    (exec_instr ex_app (ex_ldm OP_ldmda true 0 [1, 2, 3, 15]) ex_state).regs DR_REG_R0
      = 1000 - 16 :=
  ⟨⟨_, rfl, by decide, by decide, by decide⟩, by decide, by decide⟩

/-! ## IT blocks: the instructions of the range are kept -/

theorem it_annotate_snd (it : instr_t) (l : List instr_t) :
    (it_annotate it l).map Prod.snd = l := by
  cases l with
  | nil => rfl
  | cons b bs => simp [it_annotate, Function.comp_def]

/-- `reinstate_it_blocks` keeps the instructions of the range, in order. -/
theorem reinstate_loop_snd (cfg : config_t) (after l : List instr_t) (st : it_scan) :
    (reinstate_loop cfg after l st).2.map Prod.snd = st.pending.getD [] ++ l := by
  induction l generalizing st with
  | nil =>
    unfold reinstate_loop
    cases hp : st.pending with
    | none => simp
    | some pend => simp [it_annotate_snd]
  | cons instr rest ih =>
    unfold reinstate_loop
    cases hp : st.pending with
    | none =>
      simp only [Option.getD_none, List.nil_append]
      split_ifs <;> simp [ih, hp]
    | some pend =>
      simp only [Option.getD_some]
      split_ifs <;> simp [ih, it_annotate_snd, hp]

theorem it_flatten_sublist (l : List (Option instr_t × instr_t)) :
    (l.map Prod.snd).Sublist (it_flatten l) := by
  induction l with
  | nil => simp [it_flatten]
  | cons p ps ih =>
    obtain ⟨a, x⟩ := p
    cases a with
    | none => simpa [it_flatten] using ih
    | some it =>
      simp only [List.map_cons, it_flatten]
      exact List.Sublist.cons _ (List.Sublist.cons₂ _ ih)

/-- `mangle_reinstate_it_blocks` keeps `instr` and `next_instr` and every
instruction in front of `instr` and between the two, in order. -/
theorem mangle_reinstate_it_blocks_keeps (cfg : config_t) (c : ilist_at) (k : Nat)
    (hk : k ≤ c.prev.length) :
    (mangle_reinstate_it_blocks cfg c k).instr = c.instr ∧
    c.prev.Sublist (mangle_reinstate_it_blocks cfg c k).prev ∧
    c.mid.Sublist (mangle_reinstate_it_blocks cfg c k).mid ∧
    (mangle_reinstate_it_blocks cfg c k).next = c.next := by
  unfold mangle_reinstate_it_blocks
  by_cases hm : cfg.isa_mode ≠ DR_ISA_ARM_THUMB
  · simp [hm]
  · simp only [hm, if_false]
    have hs := reinstate_loop_snd cfg c.next ((c.prev.take k).reverse ++ c.instr :: c.mid)
      it_scan.init
    have e : it_scan.init.pending.getD [] = [] := rfl
    rw [e, List.nil_append] at hs
    generalize (reinstate_loop cfg c.next ((c.prev.take k).reverse ++ c.instr :: c.mid)
      it_scan.init).2 = ann at hs ⊢
    have hlen : ((c.prev.take k).reverse).length = k := by simp [hk]
    have hdrop := congrArg (List.drop k) hs
    rw [← List.map_drop, List.drop_left' hlen] at hdrop
    have htake := congrArg (List.take k) hs
    rw [← List.map_take, List.take_left' hlen] at htake
    cases hd : ann.drop k with
    | nil => simp [hd] at hdrop
    | cons p ann_mid =>
      obtain ⟨a, x⟩ := p
      rw [hd] at hdrop
      simp only [List.map_cons, List.cons.injEq] at hdrop
      refine ⟨hdrop.1, ?_, ?_, rfl⟩
      · have h1 : ((c.prev.take k).reverse).Sublist (it_flatten (ann.take k)) := by
          rw [← htake]
          exact it_flatten_sublist _
        have h2 : (c.prev.take k).Sublist (it_flatten (ann.take k)).reverse := by
          have := h1.reverse
          simpa using this
        have h3 : (c.prev.take k ++ c.prev.drop k).Sublist
            (a.toList ++ (it_flatten (ann.take k)).reverse ++ c.prev.drop k) := by
          apply List.Sublist.append _ (List.Sublist.refl _)
          exact List.Sublist.trans h2 (List.sublist_append_right _ _)
        simpa using h3
      · simp only
        rw [← hdrop.2]
        exact it_flatten_sublist _

/-! ## C6 -/

theorem getD_set_zero (l : List opnd_t) (o : opnd_t) (h : opnd_is_base_disp (l.getD 0 .null) = true) :
    (l.set 0 o).getD 0 .null = o := by
  cases l with
  | nil => simp [opnd_is_base_disp] at h
  | cons x xs => simp

theorem reinstate_or_keep (cfg : config_t) (c2 c' : ilist_at) (k : Nat)
    (h : c2 = c' ∨ (mangle_reinstate_it_blocks cfg c2 k = c' ∧ k ≤ c2.prev.length)) :
    c'.instr = c2.instr ∧ c2.prev.Sublist c'.prev := by
  rcases h with h | ⟨h, hk⟩
  · subst h
    exact ⟨rfl, List.Sublist.refl _⟩
  · subst h
    exact ⟨(mangle_reinstate_it_blocks_keeps cfg c2 k hk).1,
      (mangle_reinstate_it_blocks_keeps cfg c2 k hk).2.1⟩

/-- Shape of the result of `mangle_rel_addr`: the memory operand is a
PC-based base+disp operand, a scratch register was found, the instruction is the
original one with the operand replaced, and the instructions materialising the
new base are in front of it. -/
theorem mangle_rel_addr_shape (cfg : config_t) (c c' : ilist_at)
    (h : mangle_rel_addr cfg c = some c') :
    opnd_is_base_disp (if instr_writes_memory c.instr then instr_get_dst c.instr 0
        else instr_get_src c.instr 0) = true ∧
    opnd_get_base (if instr_writes_memory c.instr then instr_get_dst c.instr 0
        else instr_get_src c.instr 0) = DR_REG_PC ∧
    (pick_scratch_reg cfg c.prev c.instr true).1 ≠ REG_NULL ∧
    c'.instr =
      (if instr_writes_memory c.instr then
        instr_set_dst c.instr 0
          (opnd_create_base_disp_arm (pick_scratch_reg cfg c.prev c.instr true).1
            (opnd_get_index (instr_get_dst c.instr 0))
            (opnd_get_index_shift (instr_get_dst c.instr 0)).1
            (opnd_get_index_shift (instr_get_dst c.instr 0)).2
            (to_int32 (rel_addr_adjust c.instr.isa_mode (instr_get_dst c.instr 0)
              (cfg.decode_cur_pc c.instr)).2)
            (opnd_get_flags (instr_get_dst c.instr 0)) (opnd_get_size (instr_get_dst c.instr 0)))
       else
        instr_set_src c.instr 0
          (opnd_create_base_disp_arm (pick_scratch_reg cfg c.prev c.instr true).1
            (opnd_get_index (instr_get_src c.instr 0))
            (opnd_get_index_shift (instr_get_src c.instr 0)).1
            (opnd_get_index_shift (instr_get_src c.instr 0)).2
            (to_int32 (rel_addr_adjust c.instr.isa_mode (instr_get_src c.instr 0)
              (cfg.decode_cur_pc c.instr)).2)
            (opnd_get_flags (instr_get_src c.instr 0)) (opnd_get_size (instr_get_src c.instr 0)))) ∧
    (insert_mov_immed_ptrsz cfg
      (rel_addr_adjust c.instr.isa_mode
        (if instr_writes_memory c.instr then instr_get_dst c.instr 0
          else instr_get_src c.instr 0) (cfg.decode_cur_pc c.instr)).1
      (opnd_create_reg (pick_scratch_reg cfg c.prev c.instr true).1)).reverse.Sublist c'.prev := by
  unfold mangle_rel_addr at h
  simp only [] at h
  generalize hpick : pick_scratch_reg cfg c.prev c.instr true = pk at h ⊢
  obtain ⟨reg, slot, should_restore⟩ := pk
  simp only [] at h ⊢
  split at h
  · exact absurd h (by simp)
  · rename_i c1 hc1
    split_ifs at h with h1 h2 h3 h4 h5 h6 h7 h8 h9
    all_goals
      simp only [Option.some.injEq] at h
      simp only [Bool.not_eq_false, ne_eq, not_not] at *
    all_goals
      first
      | have hh := reinstate_or_keep cfg _ c' _ (Or.inr ⟨h, Nat.sub_le _ _⟩)
      | have hh := reinstate_or_keep cfg _ c' 0 (Or.inl h)
    all_goals
      obtain ⟨hi, hp⟩ := hh
      have hw := h4
      have hb := ‹opnd_is_base_disp _ = true›
      have hpc := ‹opnd_get_base _ = DR_REG_PC›
      refine ⟨by simpa [hw] using hb, by simpa [hw] using hpc, h3, ?_, ?_⟩
      · rw [hi]; simp [hw]
      · refine List.Sublist.trans ?_ hp
        simp [hw]

theorem exec_insert_mov_immed_ptrsz (cfg : config_t) (val : Int) (d : Nat)
    (app : instr_t → mstate → mstate) (s : mstate) :
    (exec_list app (insert_mov_immed_ptrsz cfg val (opnd_create_reg d)) s).regs d
      = wrap32 val := by
  unfold insert_mov_immed_ptrsz opnd_create_reg
  by_cases h1 : (0 ≤ - val - 1 ∧ - val - 1 ≤ 0xff)
  · rw [insert_mov_immed_arch_mvn cfg val _ h1]
    simp only [exec_list]
    rw [exec_instr_unpredicated _ _ _ (by rfl)]
    simp only [exec_body, meta_insert, list_insert, instr_set_meta, INSTR_CREATE_mvn,
      instr_create, OPND_CREATE_INT, set_reg_same]
    unfold wrap32
    omega
  · by_cases h2 : (val / 65536) % 65536 = 0
    · rw [insert_mov_immed_arch_movw cfg val _ h1 h2]
      simp only [exec_list]
      rw [exec_instr_unpredicated _ _ _ (by rfl)]
      simp only [exec_body, meta_insert, list_insert, instr_set_meta, INSTR_CREATE_movw,
        instr_create, OPND_CREATE_INT, set_reg_same]
      unfold wrap32
      omega
    · rw [insert_mov_immed_arch_movw_movt cfg val _ h1 h2]
      simp only [exec_list]
      rw [exec_instr_unpredicated _ _ _ (by rfl), exec_instr_unpredicated _ _ _ (by rfl)]
      simp only [exec_body, meta_insert, list_insert, instr_set_meta, INSTR_CREATE_movw,
        INSTR_CREATE_movt, instr_create, OPND_CREATE_INT, set_reg_same]
      unfold wrap32
      omega

theorem opnd_is_base_disp_cases (o : opnd_t) (h : opnd_is_base_disp o = true) :
    ∃ b i st sa d f sz, o = .base_disp b i st sa d f sz := by
  cases o <;> simp [opnd_is_base_disp] at h ⊢

theorem rel_addr_adjust_sound (isa_mode : dr_isa_mode_t) (b i st sa : Nat) (d : Int)
    (f sz : Nat) (r15 : Int) (hd : 0 ≤ d ∧ d < 2147483648) :
    wrap32 ((rel_addr_adjust isa_mode (.base_disp b i st sa d f sz) r15).1 +
        opnd_get_signed_disp (.base_disp b i st sa
          (to_int32 (rel_addr_adjust isa_mode (.base_disp b i st sa d f sz) r15).2) f sz))
      = wrap32 (r15 + opnd_get_signed_disp (.base_disp b i st sa d f sz)) ∧
    (if isa_mode = DR_ISA_ARM_THUMB ∧ TEST DR_OPND_NEGATED f = true ∧ d ≥ 256 then
      wrap32 (rel_addr_adjust isa_mode (.base_disp b i st sa d f sz) r15).1 = wrap32 (r15 - d) ∧
      to_int32 (rel_addr_adjust isa_mode (.base_disp b i st sa d f sz) r15).2 = 0
     else
      (rel_addr_adjust isa_mode (.base_disp b i st sa d f sz) r15).1 = r15 ∧
      to_int32 (rel_addr_adjust isa_mode (.base_disp b i st sa d f sz) r15).2 = d) := by
  obtain ⟨hd0, hd1⟩ := hd
  have hu : u32 d = d := by unfold u32; omega
  by_cases hc : isa_mode = DR_ISA_ARM_THUMB ∧ TEST DR_OPND_NEGATED f = true ∧ d ≥ 256
  · have hn : TEST DR_OPND_NEGATED f = true := hc.2.1
    simp only [rel_addr_adjust, opnd_get_disp, opnd_get_flags, opnd_get_signed_disp, hu, hc,
      and_self, if_true, hn]
    refine ⟨?_, ?_, ?_⟩
    · unfold wrap32 to_int32; omega
    · unfold wrap32 to_int32; omega
    · unfold to_int32; omega
  · have ht : to_int32 d = d := by unfold to_int32; omega
    simp only [rel_addr_adjust, opnd_get_disp, opnd_get_flags, opnd_get_signed_disp, hu, hc,
      if_false, ht, and_self]

/-- C6: when `mangle_rel_addr` rewrites the PC-based memory operand of an
instruction (displacement magnitude `disp`, decode-time PC `r15_app`), the
rewritten operand has the chosen scratch register as its base and the same
index, shift, flags and size; the instructions materialising the new base are
placed before the instruction and leave `wrap32 v` in the scratch register,
where `v` plus the rewritten signed displacement equals `r15_app` plus the
original signed displacement modulo 2^32; in Thumb mode with the negated flag
and `disp >= 256` the scratch receives `r15_app - disp` and the displacement
becomes 0, otherwise the scratch receives `r15_app` and the displacement is
unchanged. -/
theorem mangle_rel_addr_operand (cfg : config_t) (c c' : ilist_at)
    (app : instr_t → mstate → mstate) (s : mstate)
    (h : mangle_rel_addr cfg c = some c')
    (hd : 0 ≤ opnd_get_disp (if instr_writes_memory c.instr then instr_get_dst c.instr 0
              else instr_get_src c.instr 0) ∧
          opnd_get_disp (if instr_writes_memory c.instr then instr_get_dst c.instr 0
              else instr_get_src c.instr 0) < 2147483648) :
    let store := instr_writes_memory c.instr
    let mem_op := if store then instr_get_dst c.instr 0 else instr_get_src c.instr 0
    let new_op := if store then instr_get_dst c'.instr 0 else instr_get_src c'.instr 0
    let r15_app := cfg.decode_cur_pc c.instr
    let reg := (pick_scratch_reg cfg c.prev c.instr true).1
    let v := (rel_addr_adjust c.instr.isa_mode mem_op r15_app).1
    opnd_is_base_disp mem_op = true ∧ opnd_get_base mem_op = DR_REG_PC ∧
    opnd_is_base_disp new_op = true ∧ opnd_get_base new_op = reg ∧ reg ≠ REG_NULL ∧
    opnd_get_index new_op = opnd_get_index mem_op ∧
    opnd_get_index_shift new_op = opnd_get_index_shift mem_op ∧
    opnd_get_flags new_op = opnd_get_flags mem_op ∧
    opnd_get_size new_op = opnd_get_size mem_op ∧
    (insert_mov_immed_ptrsz cfg v (opnd_create_reg reg)).reverse.Sublist c'.prev ∧
    (exec_list app (insert_mov_immed_ptrsz cfg v (opnd_create_reg reg)) s).regs reg
      = wrap32 v ∧
    wrap32 (v + opnd_get_signed_disp new_op)
      = wrap32 (r15_app + opnd_get_signed_disp mem_op) ∧
    (if c.instr.isa_mode = DR_ISA_ARM_THUMB ∧
          TEST DR_OPND_NEGATED (opnd_get_flags mem_op) = true ∧ opnd_get_disp mem_op ≥ 256 then
      wrap32 v = wrap32 (r15_app - opnd_get_disp mem_op) ∧ opnd_get_disp new_op = 0
     else v = r15_app ∧ opnd_get_disp new_op = opnd_get_disp mem_op) := by
  obtain ⟨hb, hpc, hreg, hi, hp⟩ := mangle_rel_addr_shape cfg c c' h
  intro store mem_op new_op r15_app reg v
  have hnew : new_op = opnd_create_base_disp_arm reg (opnd_get_index mem_op)
      (opnd_get_index_shift mem_op).1 (opnd_get_index_shift mem_op).2
      (to_int32 (rel_addr_adjust c.instr.isa_mode mem_op r15_app).2)
      (opnd_get_flags mem_op) (opnd_get_size mem_op) := by
    by_cases hw : instr_writes_memory c.instr = true
    · simp only [new_op, mem_op, store, hw, if_true] at hb ⊢
      rw [hi]
      simp only [hw, if_true, instr_get_dst, instr_set_dst]
      exact getD_set_zero _ _ hb
    · simp only [new_op, mem_op, store, hw, if_false] at hb ⊢
      rw [hi]
      simp only [hw, if_false, instr_get_src, instr_set_src]
      exact getD_set_zero _ _ hb
  obtain ⟨b, i, st, sa, d, f, sz, hm⟩ := opnd_is_base_disp_cases mem_op hb
  have hd2 : 0 ≤ d ∧ d < 2147483648 := by
    have := hd
    simp only [show (if instr_writes_memory c.instr then instr_get_dst c.instr 0
      else instr_get_src c.instr 0) = mem_op from rfl, hm, opnd_get_disp] at this
    exact this
  have hsound := rel_addr_adjust_sound c.instr.isa_mode b i st sa d f sz r15_app hd2
  have hv : v = (rel_addr_adjust c.instr.isa_mode (.base_disp b i st sa d f sz) r15_app).1 := by
    rw [← hm]
  refine ⟨hb, hpc, ?_, ?_, hreg, ?_, ?_, ?_, ?_, hp, ?_, ?_, ?_⟩
  · rw [hnew]; rfl
  · rw [hnew]; rfl
  · rw [hnew]; rfl
  · rw [hnew]; rfl
  · rw [hnew]; rfl
  · rw [hnew]; rfl
  · exact exec_insert_mov_immed_ptrsz cfg v reg app s
  · have h1 := hsound.1
    rw [hnew, hv, hm]
    simp only [opnd_create_base_disp_arm, opnd_get_index, opnd_get_index_shift,
      opnd_get_flags, opnd_get_size, opnd_get_signed_disp, opnd_get_disp] at h1 ⊢
    exact h1
  · have h2 := hsound.2
    rw [hnew, hv, hm]
    simp only [opnd_create_base_disp_arm, opnd_get_index, opnd_get_index_shift,
      opnd_get_flags, opnd_get_size, opnd_get_disp] at h2 ⊢
    exact h2

theorem mangle_rel_addr_operand_witness :
    mangle_rel_addr ex_cfg ex_ldr_pc_rel = some ex_ldr_pc_rel_out ∧
    instr_get_src ex_ldr_pc_rel_out.instr 0 =
      .base_disp DR_REG_R0 REG_NULL 0 0 0 DR_OPND_NEGATED OPSZ_PTR ∧
    (exec_list ex_app (insert_mov_immed_ptrsz ex_cfg 3796 (opnd_create_reg DR_REG_R0))
      ex_state).regs DR_REG_R0 = wrap32 3796 ∧
    wrap32 (3796 + opnd_get_signed_disp (instr_get_src ex_ldr_pc_rel_out.instr 0))
      = wrap32 (4096 + opnd_get_signed_disp (instr_get_src ex_ldr_pc_rel.instr 0)) :=
  ⟨by decide, by decide,
   (mangle_rel_addr_operand ex_cfg ex_ldr_pc_rel ex_ldr_pc_rel_out ex_app ex_state
      (by decide) (by decide)).2.2.2.2.2.2.2.2.2.2.1,
   (mangle_rel_addr_operand ex_cfg ex_ldr_pc_rel ex_ldr_pc_rel_out ex_app ex_state
      (by decide) (by decide)).2.2.2.2.2.2.2.2.2.2.2.1⟩

/-! ## C4 -/

/-- With `dead_reg_ok` false, `pick_scratch_reg` reports `should_restore` and
the register it returns is not used by the instruction. -/
theorem pick_scratch_reg_no_dead (cfg : config_t) (left : List instr_t) (instr : instr_t) :
    (pick_scratch_reg cfg left instr false).2.2 = true ∧
    ((pick_scratch_reg cfg left instr false).1 ≠ REG_NULL →
      instr_uses_reg instr (pick_scratch_reg cfg left instr false).1 = false) := by
  obtain ⟨hp1, -⟩ := pick_scratch_prior_spec cfg left instr
  obtain ⟨hs1, -, -⟩ := scratch_scan_spec
    (fun reg => !instr_uses_reg instr reg && scratch_not_ibl cfg instr reg) 4 SCRATCH_REG0
    cfg.TLS_REG0_SLOT
  unfold pick_scratch_reg pick_scratch_dead pick_scratch_unused
  simp only []
  generalize pick_scratch_prior cfg left instr = fp at *
  generalize scratch_scan
    (fun reg => !instr_uses_reg instr reg && scratch_not_ibl cfg instr reg) 4 SCRATCH_REG0
    cfg.TLS_REG0_SLOT = sc at *
  simp only [SCRATCH_REG0, SCRATCH_REG3, DR_REG_R3, DR_REG_R0, REG_NULL,
    Bool.and_eq_true, Bool.not_eq_true', Bool.false_eq_true, and_false, if_false] at *
  by_cases hf : fp.1 = 0
  · simp only [hf, if_true]
    by_cases hsd : sc.1 > 1 + 3
    · simp [hsd]
    · simp only [hsd, if_false, true_and]
      intro _
      rcases hs1 with hs1 | ⟨_, _, hs1c, _⟩
      · omega
      · exact hs1c
  · obtain ⟨hq1, hq2, hq3, -, -⟩ := hp1 hf
    have hle : ¬ (fp.1 > 1 + 3) := by omega
    simp only [hf, if_false, hle, true_and]
    intro _
    exact hq3

theorem exec_meta_mov (cfg : config_t) (app : instr_t → mstate → mstate) (d a : Nat)
    (s : mstate) :
    exec_instr app (meta_insert cfg (INSTR_CREATE_mov (opnd_create_reg d) (opnd_create_reg a))) s
      = s.set_reg d (s.regs a) := by
  rw [exec_instr_unpredicated _ _ _ (by rfl)]
  rfl

theorem exec_meta_store (cfg : config_t) (app : instr_t → mstate → mstate) (b r : Nat)
    (d : Int) (s : mstate) :
    exec_instr app (meta_insert cfg (XINST_CREATE_store
        (opnd_create_base_disp b REG_NULL 0 d OPSZ_PTR) (opnd_create_reg r))) s
      = s.set_mem (wrap32 (s.regs b + d)) (s.regs r) := by
  rw [exec_instr_unpredicated _ _ _ (by rfl)]
  unfold opnd_create_base_disp
  split_ifs
  · simp [exec_body, meta_insert, list_insert, instr_set_meta, XINST_CREATE_store,
      instr_create, opnd_create_reg, REG_NULL, opnd_get_signed_disp, opnd_get_flags,
      opnd_get_disp, TEST_negated_one]
  · simp [exec_body, meta_insert, list_insert, instr_set_meta, XINST_CREATE_store,
      instr_create, opnd_create_reg, REG_NULL, opnd_get_signed_disp, opnd_get_flags,
      opnd_get_disp, TEST_negated_zero]

theorem exec_meta_load (cfg : config_t) (app : instr_t → mstate → mstate) (b r : Nat)
    (d : Int) (s : mstate) :
    exec_instr app (meta_insert cfg (XINST_CREATE_load (opnd_create_reg r)
        (opnd_create_base_disp b REG_NULL 0 d OPSZ_PTR))) s
      = s.set_reg r (s.mem (wrap32 (s.regs b + d))) := by
  rw [exec_instr_unpredicated _ _ _ (by rfl)]
  unfold opnd_create_base_disp
  split_ifs
  · simp [exec_body, meta_insert, list_insert, instr_set_meta, XINST_CREATE_load,
      instr_create, opnd_create_reg, REG_NULL, opnd_get_signed_disp, opnd_get_flags,
      opnd_get_disp, TEST_negated_one]
  · simp [exec_body, meta_insert, list_insert, instr_set_meta, XINST_CREATE_load,
      instr_create, opnd_create_reg, REG_NULL, opnd_get_signed_disp, opnd_get_flags,
      opnd_get_disp, TEST_negated_zero]

theorem exec_meta_save_to_tls (cfg : config_t) (app : instr_t → mstate → mstate)
    (r slot : Nat) (s : mstate) :
    exec_instr app (meta_insert cfg (instr_create_save_to_tls cfg r slot)) s
      = s.set_mem (wrap32 (s.regs cfg.dr_reg_stolen + cfg.os_tls_offset slot)) (s.regs r) :=
  exec_meta_store cfg app cfg.dr_reg_stolen r (cfg.os_tls_offset slot) s

theorem exec_meta_restore_from_tls (cfg : config_t) (app : instr_t → mstate → mstate)
    (r slot : Nat) (s : mstate) :
    exec_instr app (meta_insert cfg (instr_create_restore_from_tls cfg r slot)) s
      = s.set_reg r (s.mem (wrap32 (s.regs cfg.dr_reg_stolen + cfg.os_tls_offset slot))) :=
  exec_meta_load cfg app cfg.dr_reg_stolen r (cfg.os_tls_offset slot) s

theorem set_mem_regs (s : mstate) (a v : Int) : (s.set_mem a v).regs = s.regs := rfl

theorem set_mem_same (s : mstate) (a v : Int) : (s.set_mem a v).mem a = v := by
  simp [mstate.set_mem]

theorem set_mem_other (s : mstate) (a b v : Int) (h : b ≠ a) :
    (s.set_mem a v).mem b = s.mem b := by
  simp [mstate.set_mem, h]

theorem insert_save_to_tls_if_necessary_shape (cfg : config_t) (left : List instr_t)
    (reg slot : Nat) :
    (spill_elided cfg left reg = true ∧
      ∃ k, find_prior_scratch_reg_restore cfg left = some (k, reg) ∧
        insert_save_to_tls_if_necessary cfg left reg slot = left.eraseIdx k) ∨
    (spill_elided cfg left reg = false ∧
      insert_save_to_tls_if_necessary cfg left reg slot =
        meta_insert cfg (instr_create_save_to_tls cfg reg slot) :: left) := by
  unfold spill_elided insert_save_to_tls_if_necessary
  cases hf : find_prior_scratch_reg_restore cfg left with
  | none => exact Or.inr ⟨rfl, rfl⟩
  | some p =>
    obtain ⟨k, prior_reg⟩ := p
    by_cases hc : cfg.opt_mangle > 0 ∧ prior_reg = reg
    · refine Or.inl ⟨by simp [hc], k, ?_, by simp [hc]⟩
      rw [hc.2]
    · exact Or.inr ⟨by simp [hc], by simp [hc]⟩

/-- The general path of `mangle_stolen_reg`: what it returns for an
instruction that is not a register-to-register mov. -/
theorem mangle_stolen_reg_general (cfg : config_t) (c c' : ilist_at) (rm : Bool)
    (h : mangle_stolen_reg cfg c rm = some c')
    (hmov : ¬ (c.instr.opcode = OP_mov ∧ opnd_is_reg (instr_get_src c.instr 0) = true)) :
    instr_uses_reg c.instr cfg.dr_reg_stolen = true ∧
    (pick_scratch_reg cfg c.prev c.instr false).1 ≠ REG_NULL ∧
    c' = { prev := restore_app_value_to_stolen_reg cfg c.prev c.instr
              (pick_scratch_reg cfg c.prev c.instr false).1
              (pick_scratch_reg cfg c.prev c.instr false).2.1,
           instr := c.instr,
           mid := (c.mid ++ restore_tls_base_to_stolen_reg cfg c.instr
              (pick_scratch_reg cfg c.prev c.instr false).1
              (pick_scratch_reg cfg c.prev c.instr false).2.1) ++
              [meta_insert cfg (instr_create_restore_from_tls cfg
                (pick_scratch_reg cfg c.prev c.instr false).1
                (pick_scratch_reg cfg c.prev c.instr false).2.1)],
           next := c.next } := by
  have hsr := (pick_scratch_reg_no_dead cfg c.prev c.instr).1
  unfold mangle_stolen_reg at h
  simp only [] at h
  generalize pick_scratch_reg cfg c.prev c.instr false = pk at h hsr ⊢
  obtain ⟨tmp, slot, should_restore⟩ := pk
  simp only [] at h hsr ⊢
  subst hsr
  simp only [if_true] at h
  split_ifs at h with h1 h2
  simp only [Bool.or_eq_true, Bool.not_eq_true', not_or, Bool.not_eq_false] at h1
  simp only [Option.some.injEq] at h
  exact ⟨h1.2, h2, h.symm⟩

/-- Execution of the instructions `mangle_stolen_reg` places around an
instruction `I`: the spill of `t` (unless elided), `mov t, stolen`, the reload
of the app value (when `reload`), `I`, the store of the app value (when `wr`),
`mov stolen, t` and the restore of `t`. -/
theorem stolen_reg_sequence_exec (cfg : config_t) (app : instr_t → mstate → mstate)
    (I : instr_t) (t slot : Nat) (el reload wr : Bool) (s : mstate)
    (hne : t ≠ cfg.dr_reg_stolen)
    (ht : ∀ u, (exec_instr app I u).regs t = u.regs t)
    (hm : ∀ u, (exec_instr app I u).mem
        (wrap32 (s.regs cfg.dr_reg_stolen + cfg.os_tls_offset slot)) =
      u.mem (wrap32 (s.regs cfg.dr_reg_stolen + cfg.os_tls_offset slot)))
    (hslots : wrap32 (s.regs cfg.dr_reg_stolen + cfg.os_tls_offset cfg.TLS_REG_STOLEN_SLOT) ≠
      wrap32 (s.regs cfg.dr_reg_stolen + cfg.os_tls_offset slot)) :
    (exec_list app
      (((if el then [] else [meta_insert cfg (instr_create_save_to_tls cfg t slot)]) ++
        [meta_insert cfg (INSTR_CREATE_mov (opnd_create_reg t)
          (opnd_create_reg cfg.dr_reg_stolen))] ++
        (if reload then [meta_insert cfg (instr_create_restore_from_tls cfg cfg.dr_reg_stolen
          cfg.TLS_REG_STOLEN_SLOT)] else [])) ++
       I :: ((if wr then [meta_insert cfg (XINST_CREATE_store
            (opnd_create_base_disp t REG_NULL 0 (cfg.os_tls_offset cfg.TLS_REG_STOLEN_SLOT)
              OPSZ_PTR) (opnd_create_reg cfg.dr_reg_stolen))] else []) ++
          [meta_insert cfg (INSTR_CREATE_mov (opnd_create_reg cfg.dr_reg_stolen)
            (opnd_create_reg t))] ++
          [meta_insert cfg (instr_create_restore_from_tls cfg t slot)])) s).regs
        cfg.dr_reg_stolen = s.regs cfg.dr_reg_stolen ∧
    (exec_list app
      (((if el then [] else [meta_insert cfg (instr_create_save_to_tls cfg t slot)]) ++
        [meta_insert cfg (INSTR_CREATE_mov (opnd_create_reg t)
          (opnd_create_reg cfg.dr_reg_stolen))] ++
        (if reload then [meta_insert cfg (instr_create_restore_from_tls cfg cfg.dr_reg_stolen
          cfg.TLS_REG_STOLEN_SLOT)] else [])) ++
       I :: ((if wr then [meta_insert cfg (XINST_CREATE_store
            (opnd_create_base_disp t REG_NULL 0 (cfg.os_tls_offset cfg.TLS_REG_STOLEN_SLOT)
              OPSZ_PTR) (opnd_create_reg cfg.dr_reg_stolen))] else []) ++
          [meta_insert cfg (INSTR_CREATE_mov (opnd_create_reg cfg.dr_reg_stolen)
            (opnd_create_reg t))] ++
          [meta_insert cfg (instr_create_restore_from_tls cfg t slot)])) s).regs t =
      (if el then s.mem (wrap32 (s.regs cfg.dr_reg_stolen + cfg.os_tls_offset slot))
       else s.regs t) ∧
    (reload = true →
      (exec_list app
        ((if el then [] else [meta_insert cfg (instr_create_save_to_tls cfg t slot)]) ++
          [meta_insert cfg (INSTR_CREATE_mov (opnd_create_reg t)
            (opnd_create_reg cfg.dr_reg_stolen))] ++
          (if reload then [meta_insert cfg (instr_create_restore_from_tls cfg cfg.dr_reg_stolen
            cfg.TLS_REG_STOLEN_SLOT)] else [])) s).regs cfg.dr_reg_stolen =
        s.mem (wrap32 (s.regs cfg.dr_reg_stolen +
          cfg.os_tls_offset cfg.TLS_REG_STOLEN_SLOT))) := by
  have hne2 : cfg.dr_reg_stolen ≠ t := fun h => hne h.symm
  have hslots2 := hslots.symm
  cases el <;> cases reload <;> cases wr <;>
    simp [exec_list, exec_meta_mov, exec_meta_store, exec_meta_save_to_tls,
      exec_meta_restore_from_tls, mstate.set_reg, mstate.set_mem, hne, hne2, ht, hm, hslots,
      hslots2]

/-- C4 (amended): for an app instruction `I` that uses `dr_reg_stolen`, is not
a register-to-register mov, does not write the scratch `t` chosen by
`pick_scratch_reg` and does not write the TLS word of `t`'s slot (the slots of
`t` and of the stolen register being distinct words): `mangle_stolen_reg`
returns the list with a sequence `pre` in front of `I` and `post` after it,
and executing `pre, I, post` from any state ends with `dr_reg_stolen` equal to
its entry value (the TLS base) and with `t` equal to its entry value when the
spill of `t` was emitted, and equal to the entry content of `t`'s TLS slot when
a prior restore of `t` was removed instead of emitting the spill; when `I`
reads `dr_reg_stolen`, it executes with the content of the stolen TLS slot in
`dr_reg_stolen`. -/
theorem mangle_stolen_reg_restores (cfg : config_t) (c c' : ilist_at) (rm : Bool)
    (app : instr_t → mstate → mstate) (s : mstate)
    (h : mangle_stolen_reg cfg c rm = some c')
    (hmov : ¬ (c.instr.opcode = OP_mov ∧ opnd_is_reg (instr_get_src c.instr 0) = true))
    (ht : ∀ u, (exec_instr app c.instr u).regs (pick_scratch_reg cfg c.prev c.instr false).1 =
      u.regs (pick_scratch_reg cfg c.prev c.instr false).1)
    (hm : ∀ u, (exec_instr app c.instr u).mem
        (wrap32 (s.regs cfg.dr_reg_stolen +
          cfg.os_tls_offset (pick_scratch_reg cfg c.prev c.instr false).2.1)) =
      u.mem (wrap32 (s.regs cfg.dr_reg_stolen +
          cfg.os_tls_offset (pick_scratch_reg cfg c.prev c.instr false).2.1)))
    (hslots : wrap32 (s.regs cfg.dr_reg_stolen + cfg.os_tls_offset cfg.TLS_REG_STOLEN_SLOT) ≠
      wrap32 (s.regs cfg.dr_reg_stolen +
        cfg.os_tls_offset (pick_scratch_reg cfg c.prev c.instr false).2.1)) :
    ∃ pre post kept : List instr_t,
      c' = { prev := pre.reverse ++ kept, instr := c.instr, mid := c.mid ++ post,
             next := c.next } ∧
      (if spill_elided cfg c.prev (pick_scratch_reg cfg c.prev c.instr false).1 = true then
        ∃ k, find_prior_scratch_reg_restore cfg c.prev =
            some (k, (pick_scratch_reg cfg c.prev c.instr false).1) ∧
          kept = c.prev.eraseIdx k
       else kept = c.prev) ∧
      (exec_list app (pre ++ c.instr :: post) s).regs cfg.dr_reg_stolen =
        s.regs cfg.dr_reg_stolen ∧
      (exec_list app (pre ++ c.instr :: post) s).regs
          (pick_scratch_reg cfg c.prev c.instr false).1 =
        (if spill_elided cfg c.prev (pick_scratch_reg cfg c.prev c.instr false).1 = true then
          s.mem (wrap32 (s.regs cfg.dr_reg_stolen +
            cfg.os_tls_offset (pick_scratch_reg cfg c.prev c.instr false).2.1))
         else s.regs (pick_scratch_reg cfg c.prev c.instr false).1) ∧
      (instr_reads_from_reg c.instr cfg.dr_reg_stolen DR_QUERY_DEFAULT = true →
        (exec_list app pre s).regs cfg.dr_reg_stolen =
          s.mem (wrap32 (s.regs cfg.dr_reg_stolen +
            cfg.os_tls_offset cfg.TLS_REG_STOLEN_SLOT))) := by
  obtain ⟨huse, hnull, hc'⟩ := mangle_stolen_reg_general cfg c c' rm h hmov
  have hnu := (pick_scratch_reg_no_dead cfg c.prev c.instr).2 hnull
  generalize (pick_scratch_reg cfg c.prev c.instr false).1 = t at *
  generalize (pick_scratch_reg cfg c.prev c.instr false).2.1 = slot at *
  have hne : t ≠ cfg.dr_reg_stolen := by
    intro he
    rw [he, huse] at hnu
    exact absurd hnu (by simp)
  have hex := stolen_reg_sequence_exec cfg app c.instr t slot (spill_elided cfg c.prev t)
    (instr_reads_from_reg c.instr cfg.dr_reg_stolen DR_QUERY_DEFAULT ||
      !instr_writes_to_exact_reg c.instr cfg.dr_reg_stolen DR_QUERY_DEFAULT)
    (instr_writes_to_reg c.instr cfg.dr_reg_stolen DR_QUERY_INCLUDE_COND_DSTS) s hne ht hm hslots
  obtain ⟨hex1, hex2, hex3⟩ := hex
  refine ⟨_, _, if spill_elided cfg c.prev t = true then
      insert_save_to_tls_if_necessary cfg c.prev t slot else c.prev, ?_, ?_, hex1, ?_, ?_⟩
  · rw [hc']
    unfold restore_app_value_to_stolen_reg restore_tls_base_to_stolen_reg
    rcases insert_save_to_tls_if_necessary_shape cfg c.prev t slot with ⟨hel, k, hk, hins⟩ | ⟨hel, hins⟩
    · cases hrl : (instr_reads_from_reg c.instr cfg.dr_reg_stolen DR_QUERY_DEFAULT ||
        !instr_writes_to_exact_reg c.instr cfg.dr_reg_stolen DR_QUERY_DEFAULT) <;>
        simp [hel, hrl]
    · cases hrl : (instr_reads_from_reg c.instr cfg.dr_reg_stolen DR_QUERY_DEFAULT ||
        !instr_writes_to_exact_reg c.instr cfg.dr_reg_stolen DR_QUERY_DEFAULT) <;>
        simp [hel, hrl, hins]
  · rcases insert_save_to_tls_if_necessary_shape cfg c.prev t slot with ⟨hel, k, hk, hins⟩ | ⟨hel, hins⟩
    · simp only [hel, if_true]
      exact ⟨k, hk, hins⟩
    · simp [hel]
  · simpa using hex2
  · intro hr
    exact hex3 (by simp [hr])

theorem mangle_stolen_reg_restores_witness :
    mangle_stolen_reg ex_cfg ex_stolen_alone false = some ex_stolen_alone_out ∧
    ∃ pre post kept : List instr_t,
      ex_stolen_alone_out = { prev := pre.reverse ++ kept, instr := ex_add_stolen,
                              mid := [] ++ post, next := [] } ∧
      kept = [] ∧
      (exec_list ex_app (pre ++ ex_add_stolen :: post) ex_state).regs DR_REG_R10 = 11000 ∧
      (exec_list ex_app (pre ++ ex_add_stolen :: post) ex_state).regs DR_REG_R0 = 1000 :=
  ⟨by decide,
   let ⟨pre, post, kept, h1, h2, h3, h4, _⟩ :=
     mangle_stolen_reg_restores ex_cfg ex_stolen_alone ex_stolen_alone_out false ex_app ex_state
       (by decide) (by decide) (fun _ => rfl) (fun _ => rfl) (by decide)
   ⟨pre, post, kept, h1, h2, h3, h4⟩⟩

/-- C4 (as stated, counterexample): `add r10, r10, #1` right after a restore of
r0.  The instruction uses the stolen register r10 and not r0, which
`pick_scratch_reg` chooses; `mangle_stolen_reg` removes the prior restore
instead of spilling r0, and executing the emitted sequence from a state with
r0 = 1000 ends with r10 unchanged but with r0 = 11064, the content of r0's TLS
slot. -/
theorem mangle_stolen_reg_elided_spill_scratch_differs :
    mangle_stolen_reg ex_cfg ex_stolen_after_restore false = some ex_stolen_after_restore_out ∧
    (pick_scratch_reg ex_cfg ex_stolen_after_restore.prev ex_add_stolen false).1 = DR_REG_R0 ∧
    instr_uses_reg ex_add_stolen ex_cfg.dr_reg_stolen = true ∧
    instr_uses_reg ex_add_stolen DR_REG_R0 = false ∧
    (∀ u, (exec_instr ex_app ex_add_stolen u).regs DR_REG_R0 = u.regs DR_REG_R0) ∧
    (exec_list ex_app ex_stolen_after_restore_out.to_list ex_state).regs ex_cfg.dr_reg_stolen
      = ex_state.regs ex_cfg.dr_reg_stolen ∧
    ex_state.regs DR_REG_R0 = 1000 ∧
    (exec_list ex_app ex_stolen_after_restore_out.to_list ex_state).regs DR_REG_R0 = 11064 :=
  ⟨by decide, by decide, by decide, by decide, fun _ => rfl, by decide, by decide, by decide⟩

/-! ## The loop of `reinstate_it_blocks`, case by case -/

theorem reinstate_loop_nil_none (cfg : config_t) (after : List instr_t) (st : it_scan)
    (hp : st.pending = none) : reinstate_loop cfg after [] st = (0, []) := by
  unfold reinstate_loop
  rw [hp]

theorem reinstate_loop_nil_some (cfg : config_t) (after : List instr_t) (st : it_scan)
    (pend : List instr_t) (hp : st.pending = some pend) :
    reinstate_loop cfg after [] st = (1, it_annotate (st.make_it cfg) pend) := by
  unfold reinstate_loop
  rw [hp]

/-- An instruction met while an existing block is being skipped. -/
theorem reinstate_loop_skip (cfg : config_t) (after : List instr_t) (st : it_scan)
    (x : instr_t) (rest : List instr_t) (hp : st.pending = none) (hc : st.it_count > 0) :
    reinstate_loop cfg after (x :: rest) st =
      ((reinstate_loop cfg after rest { st with it_count := st.it_count - 1 }).1,
       (none, x) :: (reinstate_loop cfg after rest { st with it_count := st.it_count - 1 }).2) := by
  rw [reinstate_loop]
  simp only [hp, hc, if_true]

/-- An existing `OP_it` met outside a block. -/
theorem reinstate_loop_it (cfg : config_t) (after : List instr_t) (st : it_scan)
    (x : instr_t) (rest : List instr_t) (hp : st.pending = none) (hc : st.it_count = 0)
    (hop : x.opcode = OP_it) :
    reinstate_loop cfg after (x :: rest) st =
      ((reinstate_loop cfg after rest
          { st with it_count := instr_it_block_get_count x }).1,
       (none, x) :: (reinstate_loop cfg after rest
          { st with it_count := instr_it_block_get_count x }).2) := by
  rw [reinstate_loop]
  simp only [hp, hc, hop, if_true, gt_iff_lt, lt_self_iff_false, if_false]

/-- A predicated non-branch instruction met outside a block starts one. -/
theorem reinstate_loop_start (cfg : config_t) (after : List instr_t) (st : it_scan)
    (x : instr_t) (rest : List instr_t) (hp : st.pending = none) (hc : st.it_count = 0)
    (hop : x.opcode ≠ OP_it) (hx : it_instr_predicated x = true) :
    reinstate_loop cfg after (x :: rest) st =
      reinstate_loop cfg after rest
        { st with pending := some [x]
                  block_pred := st.block_pred.set 0 x.predicate
                  block_count := 1
                  block_xl8 := it_block_xl8 (x :: (rest ++ after)) } := by
  rw [reinstate_loop]
  simp only [hp, hc, hop, hx, if_true, gt_iff_lt, lt_self_iff_false, if_false]

/-- Any other instruction met outside a block. -/
theorem reinstate_loop_plain (cfg : config_t) (after : List instr_t) (st : it_scan)
    (x : instr_t) (rest : List instr_t) (hp : st.pending = none) (hc : st.it_count = 0)
    (hop : x.opcode ≠ OP_it) (hx : it_instr_predicated x = false) :
    reinstate_loop cfg after (x :: rest) st =
      ((reinstate_loop cfg after rest st).1,
       (none, x) :: (reinstate_loop cfg after rest st).2) := by
  rw [reinstate_loop]
  simp only [hp, hc, hop, hx, if_true, gt_iff_lt, lt_self_iff_false, if_false,
    Bool.false_eq_true]


theorem it_joins_eq (st : it_scan) (x : instr_t) :
    (it_instr_predicated x &&
      !(it_instr_predicated x && x.predicate != st.block_pred.getD 0 DR_PRED_NONE &&
        x.predicate != instr_invert_predicate (st.block_pred.getD 0 DR_PRED_NONE))) =
    it_joins st x := by
  unfold it_joins
  simp only [bne]
  generalize it_instr_predicated x = a
  generalize (x.predicate == st.block_pred.getD 0 DR_PRED_NONE) = b
  generalize (x.predicate == instr_invert_predicate (st.block_pred.getD 0 DR_PRED_NONE)) = c
  cases a <;> cases b <;> cases c <;> rfl

/-- A matching instruction met inside an open block that does not fill it. -/
theorem reinstate_loop_extend (cfg : config_t) (after : List instr_t) (st : it_scan)
    (x : instr_t) (rest pend : List instr_t) (hp : st.pending = some pend)
    (hj : it_joins st x = true) (hn : st.block_count + 1 ≠ IT_BLOCK_MAX_INSTRS) :
    reinstate_loop cfg after (x :: rest) st =
      reinstate_loop cfg after rest
        { st with block_pred := st.block_pred.set st.block_count x.predicate
                  block_count := st.block_count + 1
                  pending := some (pend ++ [x]) } := by
  have hj2 := it_joins_eq st x
  rw [hj] at hj2
  have hx : it_instr_predicated x = true := by
    unfold it_joins at hj
    simp only [Bool.and_eq_true] at hj
    exact hj.1
  rw [reinstate_loop]
  simp only [hp]
  simp only [hj2, if_true, hx, Bool.not_true, Bool.false_or, Bool.true_and] at hj2 ⊢
  simp only [hj2, Bool.not_true, Bool.false_or, beq_iff_eq, hn, if_false, if_true]

/-- A matching instruction met inside an open block that fills it. -/
theorem reinstate_loop_full (cfg : config_t) (after : List instr_t) (st : it_scan)
    (x : instr_t) (rest pend : List instr_t) (hp : st.pending = some pend)
    (hj : it_joins st x = true) (hn : st.block_count + 1 = IT_BLOCK_MAX_INSTRS) :
    reinstate_loop cfg after (x :: rest) st =
      ((reinstate_loop cfg after rest
          { st with block_pred := st.block_pred.set st.block_count x.predicate
                    block_count := st.block_count + 1
                    pending := none }).1 + 1,
       it_annotate (it_scan.make_it cfg
          { st with block_pred := st.block_pred.set st.block_count x.predicate
                    block_count := st.block_count + 1 }) (pend ++ [x]) ++
        (reinstate_loop cfg after rest
          { st with block_pred := st.block_pred.set st.block_count x.predicate
                    block_count := st.block_count + 1
                    pending := none }).2) := by
  have hj2 := it_joins_eq st x
  rw [hj] at hj2
  have hx : it_instr_predicated x = true := by
    unfold it_joins at hj
    simp only [Bool.and_eq_true] at hj
    exact hj.1
  rw [reinstate_loop]
  simp only [hp]
  simp only [hj2, if_true, hx, Bool.not_true, Bool.false_or, Bool.true_and] at hj2 ⊢
  simp only [hj2, Bool.not_true, Bool.false_or, beq_iff_eq, hn, if_false, if_true]

/-- An instruction that does not join the open block closes it and is then
handled as outside a block. -/
theorem reinstate_loop_close (cfg : config_t) (after : List instr_t) (st : it_scan)
    (x : instr_t) (rest pend : List instr_t) (hp : st.pending = some pend)
    (hj : it_joins st x = false) :
    reinstate_loop cfg after (x :: rest) st =
      ((reinstate_loop cfg after (x :: rest) { st with pending := none }).1 + 1,
       it_annotate (st.make_it cfg) pend ++
        (reinstate_loop cfg after (x :: rest) { st with pending := none }).2) := by
  have hj2 := it_joins_eq st x
  rw [hj] at hj2
  have hcond : (!!(it_instr_predicated x && x.predicate != st.block_pred.getD 0 DR_PRED_NONE &&
        x.predicate != instr_invert_predicate (st.block_pred.getD 0 DR_PRED_NONE)) ||
      !it_instr_predicated x || st.block_count == IT_BLOCK_MAX_INSTRS) = true := by
    revert hj2
    generalize it_instr_predicated x = a
    generalize (x.predicate != st.block_pred.getD 0 DR_PRED_NONE) = b
    generalize (x.predicate != instr_invert_predicate (st.block_pred.getD 0 DR_PRED_NONE)) = c
    generalize (st.block_count == IT_BLOCK_MAX_INSTRS) = e
    cases a <;> cases b <;> cases c <;> cases e <;> simp
  conv_lhs => rw [reinstate_loop]
  conv_rhs => rw [reinstate_loop]
  simp only [hp, hj2, Bool.false_eq_true, if_false]
  rw [if_pos hcond]

/-! ## The block under construction -/

theorem it_instr_predicated_ne_none (x : instr_t) (h : it_instr_predicated x = true) :
    x.predicate ≠ DR_PRED_NONE := by
  intro hn
  simp [it_instr_predicated, instr_is_predicated, instr_predicate_is_cond, hn] at h

theorem block_inv_start (bp : List dr_pred_type_t) (x : instr_t) (hlen : bp.length = 4)
    (hx : it_instr_predicated x = true) : block_inv (bp.set 0 x.predicate) 1 [x] := by
  rcases bp with _ | ⟨a, _ | ⟨b, _ | ⟨c, _ | ⟨d, _ | _⟩⟩⟩⟩ <;> simp at hlen
  simp [block_inv, hx]

theorem block_inv_extend (bp : List dr_pred_type_t) (n : Nat) (members : List instr_t)
    (x : instr_t) (h : block_inv bp n members) (hn : n < 4)
    (hx : it_instr_predicated x = true)
    (hm : x.predicate = bp.getD 0 DR_PRED_NONE ∨
      x.predicate = instr_invert_predicate (bp.getD 0 DR_PRED_NONE)) :
    block_inv (bp.set n x.predicate) (n + 1) (members ++ [x]) := by
  obtain ⟨hlen, hml, h1, h4, htake, hall⟩ := h
  rcases bp with _ | ⟨a, _ | ⟨b, _ | ⟨c, _ | ⟨d, _ | _⟩⟩⟩⟩ <;> simp at hlen
  rcases members with _ | ⟨m1, _ | ⟨m2, _ | ⟨m3, _ | ⟨m4, ms⟩⟩⟩⟩ <;>
    simp at hml <;> subst hml <;> simp at h1 hn
  · simp only [List.take, List.map, List.cons.injEq, and_true] at htake
    simp only [List.mem_singleton, forall_eq, List.getD_cons_zero] at hall hm
    subst htake
    simp [block_inv, hall, hx, hm]
  · simp only [List.take, List.map, List.cons.injEq, and_true] at htake
    simp only [List.mem_cons, List.mem_singleton, forall_eq_or_imp, forall_eq,
      List.getD_cons_zero, List.not_mem_nil, false_implies, implies_true, and_true] at hall hm
    obtain ⟨ha, hb⟩ := htake
    subst ha hb
    simp [block_inv, hall, hx, hm]
  · simp only [List.take, List.map, List.cons.injEq, and_true] at htake
    simp only [List.mem_cons, List.mem_singleton, forall_eq_or_imp, forall_eq,
      List.getD_cons_zero, List.not_mem_nil, false_implies, implies_true, and_true] at hall hm
    obtain ⟨ha, hb, hc⟩ := htake
    subst ha hb hc
    simp [block_inv, hall, hx, hm]
  · omega

theorem it_block_of_inv (bp : List dr_pred_type_t) (n : Nat) (members : List instr_t)
    (h : block_inv bp n members) :
    [bp.getD 0 DR_PRED_NONE,
      if n > 1 then bp.getD 1 DR_PRED_NONE else DR_PRED_NONE,
      if n > 2 then bp.getD 2 DR_PRED_NONE else DR_PRED_NONE,
      if n > 3 then bp.getD 3 DR_PRED_NONE else DR_PRED_NONE].takeWhile
        (fun p => p != DR_PRED_NONE) = members.map (fun x => x.predicate) := by
  obtain ⟨hlen, hml, h1, h4, htake, hall⟩ := h
  have hne : ∀ x ∈ members, (x.predicate != DR_PRED_NONE) = true := fun x hx =>
    bne_iff_ne.mpr (it_instr_predicated_ne_none x (hall x hx).1)
  rcases bp with _ | ⟨a, _ | ⟨b, _ | ⟨c, _ | ⟨d, _ | _⟩⟩⟩⟩ <;> simp at hlen
  rcases members with _ | ⟨m1, _ | ⟨m2, _ | ⟨m3, _ | ⟨m4, _ | ⟨m5, ms⟩⟩⟩⟩⟩ <;>
    simp at hml <;> subst hml <;> simp at h1 h4
  · simp only [List.take, List.map, List.cons.injEq, and_true] at htake
    have e1 := hne m1 (by simp)
    subst htake
    simp [List.takeWhile, e1]
  · simp only [List.take, List.map, List.cons.injEq, and_true] at htake
    have e1 := hne m1 (by simp)
    have e2 := hne m2 (by simp)
    obtain ⟨ha, hb⟩ := htake
    subst ha hb
    simp [List.takeWhile, e1, e2]
  · simp only [List.take, List.map, List.cons.injEq, and_true] at htake
    have e1 := hne m1 (by simp)
    have e2 := hne m2 (by simp)
    have e3 := hne m3 (by simp)
    obtain ⟨ha, hb, hc⟩ := htake
    subst ha hb hc
    simp [List.takeWhile, e1, e2, e3]
  · simp only [List.take, List.map, List.cons.injEq, and_true] at htake
    have e1 := hne m1 (by simp)
    have e2 := hne m2 (by simp)
    have e3 := hne m3 (by simp)
    have e4 := hne m4 (by simp)
    obtain ⟨ha, hb, hc, hd⟩ := htake
    subst ha hb hc hd
    simp [List.takeWhile, e1, e2, e3, e4]

/-- The `OP_it` created for a block declares the predicates of its
instructions. -/
theorem make_it_of_inv (cfg : config_t) (st : it_scan) (members : List instr_t)
    (h : block_inv st.block_pred st.block_count members) :
    (st.make_it cfg).opcode = OP_it ∧
    (st.make_it cfg).it_block = members.map (fun x => x.predicate) :=
  ⟨rfl, it_block_of_inv st.block_pred st.block_count members h⟩

/-! ## The shape of the range after the loop -/

theorem it_blocks_ok_nil_ins (strict : Bool) (l : List (Option instr_t × instr_t)) :
    it_blocks_ok strict [] true l = it_blocks_ok strict [] false l := by
  rcases l with _ | ⟨⟨a, x⟩, rest⟩
  · rfl
  · cases a <;> simp [it_blocks_ok]

theorem it_blocks_ok_members (strict : Bool) (members : List instr_t)
    (tail : List (Option instr_t × instr_t))
    (hall : ∀ x ∈ members, it_instr_predicated x = true) :
    it_blocks_ok strict (members.map (fun x => x.predicate)) true
        (members.map (fun x => (none, x)) ++ tail) =
      it_blocks_ok strict [] false tail := by
  induction members with
  | nil => simpa using it_blocks_ok_nil_ins strict tail
  | cons m ms ih =>
    have hm := hall m (by simp)
    have hms : ∀ x ∈ ms, it_instr_predicated x = true := fun x hx => hall x (by simp [hx])
    simp [it_blocks_ok, hm, ih hms]

/-- A block closed by the loop passes the check. -/
theorem it_blocks_ok_block (strict : Bool) (cfg : config_t) (st : it_scan)
    (members : List instr_t) (tail : List (Option instr_t × instr_t))
    (h : block_inv st.block_pred st.block_count members) :
    it_blocks_ok strict [] false (it_annotate (st.make_it cfg) members ++ tail) =
      it_blocks_ok strict [] false tail := by
  obtain ⟨hop, hblk⟩ := make_it_of_inv cfg st members h
  have hnp : instr_is_predicated (st.make_it cfg) = false := rfl
  obtain ⟨hlen, hml, h1, h4, htake, hall⟩ := h
  rcases members with _ | ⟨m, ms⟩
  · simp at hml
    omega
  · have hp0 : st.block_pred.getD 0 DR_PRED_NONE = m.predicate := by
      rcases hbp : st.block_pred with _ | ⟨a, bp⟩
      · simp [hbp] at hlen
      · rw [hbp] at htake
        have : st.block_count = ms.length + 1 := by simpa using hml.symm
        rw [this] at htake
        simp only [List.take, List.map, List.cons.injEq] at htake
        simp [htake.1]
    have hm := hall m (by simp)
    have hms : ∀ x ∈ ms, it_instr_predicated x = true := fun x hx => (hall x (by simp [hx])).1
    have hallp : ∀ x ∈ ms, x.predicate = m.predicate ∨
        x.predicate = instr_invert_predicate m.predicate := fun x hx => by
      have := (hall x (by simp [hx])).2
      rwa [hp0] at this
    have hlen2 : ms.length + 1 ≤ IT_BLOCK_MAX_INSTRS := by
      have : st.block_count = ms.length + 1 := by simpa using hml.symm
      unfold IT_BLOCK_MAX_INSTRS
      omega
    simp only [it_annotate, List.cons_append, it_blocks_ok, List.isEmpty_nil, hop, beq_self_eq_true,
      hblk, hnp, Bool.not_false, List.map_cons, List.length_cons, List.length_map, List.headD_cons, List.tail_cons,
      List.all_cons, Bool.true_or, Bool.true_and, hm.1, Bool.and_true]
    have hmem := it_blocks_ok_members strict ms tail hms
    simp only [List.append_eq] at hmem ⊢
    rw [hmem]
    have hall2 : (ms.map (fun x => x.predicate)).all (fun p => p == m.predicate ||
        p == instr_invert_predicate m.predicate) = true := by
      simp only [List.all_eq_true, Bool.or_eq_true, beq_iff_eq, List.mem_map]
      rintro p ⟨x, hx, rfl⟩
      exact hallp x hx
    simp [hall2, hlen2]

theorem it_instr_predicated_is_predicated (x : instr_t) (h : it_instr_predicated x = true) :
    instr_is_predicated x = true := by
  simp only [it_instr_predicated, Bool.and_eq_true] at h
  exact h.1.1

theorem it_joins_spec (st : it_scan) (x : instr_t) (h : it_joins st x = true) :
    it_instr_predicated x = true ∧
    (x.predicate = st.block_pred.getD 0 DR_PRED_NONE ∨
     x.predicate = instr_invert_predicate (st.block_pred.getD 0 DR_PRED_NONE)) := by
  simpa [it_joins] using h

/-- The result of the loop of `reinstate_it_blocks` passes `it_blocks_ok`:
from a state outside a block (first part) and from a state with an open block
(second part).  With `strict`, the input is taken to satisfy `it_input_ok`. -/
theorem reinstate_loop_ok (strict : Bool) (cfg : config_t) (after : List instr_t)
    (l : List instr_t) :
    (∀ (st : it_scan) (cur : List dr_pred_type_t), st.pending = none →
      st.it_count = cur.length → st.block_pred.length = 4 →
      (strict = true → it_input_ok cur l = true) →
      it_blocks_ok strict cur false (reinstate_loop cfg after l st).2 = true) ∧
    (∀ (st : it_scan) (pend : List instr_t), st.pending = some pend →
      st.it_count = 0 → block_inv st.block_pred st.block_count pend → st.block_count < 4 →
      (strict = true → it_input_ok [] l = true) →
      it_blocks_ok strict [] false (reinstate_loop cfg after l st).2 = true) := by
  induction l with
  | nil =>
    constructor
    · intro st cur hp _ _ _
      rw [reinstate_loop_nil_none cfg after st hp]
      simp [it_blocks_ok]
    · intro st pend hp _ hinv _ _
      rw [reinstate_loop_nil_some cfg after st pend hp]
      have := it_blocks_ok_block strict cfg st pend [] hinv
      rw [List.append_nil] at this
      rw [this]
      simp [it_blocks_ok]
  | cons x rest ih =>
    obtain ⟨ihn, ihs⟩ := ih
    have hnone : ∀ (st : it_scan) (cur : List dr_pred_type_t), st.pending = none →
        st.it_count = cur.length → st.block_pred.length = 4 →
        (strict = true → it_input_ok cur (x :: rest) = true) →
        it_blocks_ok strict cur false (reinstate_loop cfg after (x :: rest) st).2 = true := by
      intro st cur hp hc hlen hin
      rcases cur with _ | ⟨p, cur⟩
      · have hc0 : st.it_count = 0 := by simpa using hc
        by_cases hop : x.opcode = OP_it
        · rw [reinstate_loop_it cfg after st x rest hp hc0 hop]
          have hrec := ihn { st with it_count := instr_it_block_get_count x } x.it_block hp rfl hlen
            (fun hs => by
              have := hin hs
              simp only [it_input_ok, hop, if_true, Bool.and_eq_true] at this
              exact this.2)
          have hx : strict = true → it_instr_predicated x = false := fun hs => by
            have := hin hs
            simp only [it_input_ok, hop, if_true, Bool.and_eq_true, Bool.not_eq_true'] at this
            cases hxp : it_instr_predicated x
            · rfl
            · rw [it_instr_predicated_is_predicated x hxp] at this
              exact absurd this.1 (by simp)
          simp only [it_blocks_ok, hop, if_true, hrec, Bool.and_true]
          cases strict
          · rfl
          · simp [hx rfl]
        · have hin2 : strict = true → it_input_ok [] rest = true := fun hs => by
            have := hin hs
            simpa only [it_input_ok, hop, if_false] using this
          by_cases hx : it_instr_predicated x = true
          · rw [reinstate_loop_start cfg after st x rest hp hc0 hop hx]
            exact ihs _ [x] rfl hc0 (block_inv_start st.block_pred x hlen hx) (by simp) hin2
          · have hx2 : it_instr_predicated x = false := by simpa using hx
            rw [reinstate_loop_plain cfg after st x rest hp hc0 hop hx2]
            have hrec := ihn st [] hp hc hlen hin2
            simp only [it_blocks_ok, hop, if_false, hrec, Bool.and_true, hx2, Bool.not_false]
      · have hcp : st.it_count > 0 := by
          rw [hc]
          simp
        rw [reinstate_loop_skip cfg after st x rest hp hcp]
        have hrec := ihn { st with it_count := st.it_count - 1 } cur hp (by simp [hc]) hlen
          (fun hs => by
            have := hin hs
            simp only [it_input_ok, Bool.and_eq_true] at this
            exact this.2)
        have hx : strict = true → x.predicate = p := fun hs => by
          have := hin hs
          simp only [it_input_ok, Bool.and_eq_true, beq_iff_eq] at this
          exact this.1.2
        simp only [it_blocks_ok, hrec, Bool.and_true, Bool.false_eq_true, if_false]
        cases strict
        · rfl
        · simp [hx rfl]
    refine ⟨hnone, ?_⟩
    intro st pend hp hc hinv hlt hin
    by_cases hj : it_joins st x = true
    · obtain ⟨hx, hm⟩ := it_joins_spec st x hj
      have hin2 : strict = true → it_input_ok [] rest = true := fun hs => by
        have := hin hs
        by_cases hop : x.opcode = OP_it
        · simp only [it_input_ok, hop, if_true, Bool.and_eq_true, Bool.not_eq_true'] at this
          rw [it_instr_predicated_is_predicated x hx] at this
          exact absurd this.1 (by simp)
        · simpa only [it_input_ok, hop, if_false] using this
      have hinv2 := block_inv_extend st.block_pred st.block_count pend x hinv hlt hx hm
      by_cases hn : st.block_count + 1 = IT_BLOCK_MAX_INSTRS
      · rw [reinstate_loop_full cfg after st x rest pend hp hj hn]
        simp only []
        rw [it_blocks_ok_block strict cfg
          { st with block_pred := st.block_pred.set st.block_count x.predicate
                    block_count := st.block_count + 1 } (pend ++ [x]) _ hinv2]
        exact ihn _ [] rfl hc (by simp [hinv.1]) hin2
      · rw [reinstate_loop_extend cfg after st x rest pend hp hj hn]
        exact ihs _ (pend ++ [x]) rfl hc hinv2
          (by
            unfold IT_BLOCK_MAX_INSTRS at hn
            show st.block_count + 1 < 4
            omega) hin2
    · have hj2 : it_joins st x = false := by simpa using hj
      rw [reinstate_loop_close cfg after st x rest pend hp hj2]
      simp only []
      rw [it_blocks_ok_block strict cfg st pend _ hinv]
      exact hnone { st with pending := none } [] rfl hc hinv.1 hin

/-! ## C9 -/

theorem it_blocks_ok_flat (ann : List (Option instr_t × instr_t)) (cur : List dr_pred_type_t)
    (ins : Bool) (h : it_blocks_ok true cur ins ann = true) :
    it_all_covered cur (it_flatten ann) = true := by
  induction ann generalizing cur ins with
  | nil => simp [it_flatten, it_all_covered]
  | cons a rest ih =>
    obtain ⟨o, x⟩ := a
    cases o with
    | some it =>
      simp only [it_blocks_ok, Bool.and_eq_true, List.isEmpty_iff, beq_iff_eq,
        Bool.not_eq_true', decide_eq_true_eq] at h
      obtain ⟨⟨⟨⟨⟨⟨⟨hcur, hop⟩, hnp⟩, hlen⟩, -⟩, hxp⟩, hx⟩, hrest⟩ := h
      subst hcur
      have hit : it_instr_predicated it = false := by
        simp [it_instr_predicated, hnp]
      rcases hb : it.it_block with _ | ⟨p0, tl⟩
      · rw [hb] at hlen
        simp at hlen
      · rw [hb] at hx hrest
        simp only [List.headD_cons, List.tail_cons] at hx hrest
        simp [it_flatten, it_all_covered, hit, hop, hb, hx, ih tl true hrest]
    | none =>
      rcases cur with _ | ⟨p, cur⟩
      · by_cases hop : x.opcode = OP_it
        · simp only [it_blocks_ok, hop, if_true, Bool.and_eq_true, Bool.not_true, Bool.false_or,
            Bool.not_eq_true'] at h
          simp [it_flatten, it_all_covered, hop, h.1, ih _ _ h.2]
        · simp only [it_blocks_ok, hop, if_false, Bool.and_eq_true, Bool.not_eq_true'] at h
          simp [it_flatten, it_all_covered, hop, h.1, ih _ _ h.2]
      · cases ins
        · simp only [it_blocks_ok, Bool.false_eq_true, if_false, Bool.and_eq_true, Bool.not_true,
            Bool.false_or] at h
          simp [it_flatten, it_all_covered, h.1, ih _ _ h.2]
        · simp only [it_blocks_ok, if_true, Bool.and_eq_true] at h
          simp [it_flatten, it_all_covered, h.1.2, ih _ _ h.2]

theorem it_blocks_ok_inserted (strict : Bool) (ann : List (Option instr_t × instr_t))
    (cur : List dr_pred_type_t) (ins : Bool) (h : it_blocks_ok strict cur ins ann = true) :
    ∀ it x, (some it, x) ∈ ann →
      it.opcode = OP_it ∧ 1 ≤ instr_it_block_get_count it ∧
      instr_it_block_get_count it ≤ IT_BLOCK_MAX_INSTRS ∧
      ∀ p ∈ it.it_block, p = instr_it_block_get_pred it 0 ∨
        p = instr_invert_predicate (instr_it_block_get_pred it 0) := by
  induction ann generalizing cur ins with
  | nil => simp
  | cons a rest ih =>
    obtain ⟨o, x⟩ := a
    intro it y hmem
    cases o with
    | some it0 =>
      simp only [it_blocks_ok, Bool.and_eq_true, List.isEmpty_iff, beq_iff_eq,
        Bool.not_eq_true', decide_eq_true_eq, List.all_eq_true, Bool.or_eq_true] at h
      obtain ⟨⟨⟨⟨⟨⟨⟨-, hop⟩, -⟩, hlen⟩, hall⟩, -⟩, -⟩, hrest⟩ := h
      simp only [List.mem_cons, Prod.mk.injEq, Option.some.injEq] at hmem
      rcases hmem with ⟨rfl, rfl⟩ | hmem
      · refine ⟨hop, hlen.1, hlen.2, ?_⟩
        intro p hp
        have := hall p hp
        rcases hb : it.it_block with _ | ⟨p0, tl⟩
        · rw [hb] at hp
          simp at hp
        · simpa [instr_it_block_get_pred, hb] using this
      · exact ih _ _ hrest it y hmem
    | none =>
      simp only [List.mem_cons, Prod.mk.injEq, false_and, false_or, reduceCtorEq] at hmem
      rcases cur with _ | ⟨p, cur⟩
      · by_cases hop : x.opcode = OP_it
        · simp only [it_blocks_ok, hop, if_true, Bool.and_eq_true] at h
          exact ih _ _ h.2 it y hmem
        · simp only [it_blocks_ok, hop, if_false, Bool.and_eq_true] at h
          exact ih _ _ h.2 it y hmem
      · simp only [it_blocks_ok, Bool.and_eq_true] at h
        exact ih _ _ h.2 it y hmem

theorem reinstate_it_blocks_to_list (cfg : config_t) (before range after : List instr_t) :
    (reinstate_it_blocks cfg before range after).to_list =
      before.reverse ++ it_flatten (reinstate_loop cfg after range it_scan.init).2 ++ after := by
  unfold reinstate_it_blocks reinstate_result.to_list
  simp only []
  rcases (reinstate_loop cfg after range it_scan.init).2 with _ | ⟨⟨o, x⟩, rest⟩
  · simp [it_flatten]
  · cases o <;> simp [it_flatten]

/-- C9 (amended): for a range that does not begin inside a block and in which
every existing `OP_it` is unconditional and is immediately followed by its
declared number of instructions, each conditional on the predicate declared
for its position: after `reinstate_it_blocks` the list is the old one with
the inserted `OP_it`s placed in the range (the range instructions are kept in
order); every predicated instruction of the range other than `b`/`b_short` is
covered by an `OP_it` declaring its predicate for its position; every
instruction covered by an inserted `OP_it` is such an instruction, so no
`b`/`b_short` is; and every inserted `OP_it` declares between 1 and 4
predicates, each equal to its first predicate or to its inverse. -/
theorem reinstate_it_blocks_covers (cfg : config_t) (before range after : List instr_t)
    (hin : it_input_ok [] range = true) :
    (reinstate_it_blocks cfg before range after).to_list =
      before.reverse ++ it_flatten (reinstate_loop cfg after range it_scan.init).2 ++ after ∧
    (reinstate_loop cfg after range it_scan.init).2.map Prod.snd = range ∧
    it_all_covered [] (it_flatten (reinstate_loop cfg after range it_scan.init).2) = true ∧
    it_blocks_ok true [] false (reinstate_loop cfg after range it_scan.init).2 = true ∧
    (∀ it x, (some it, x) ∈ (reinstate_loop cfg after range it_scan.init).2 →
      it.opcode = OP_it ∧ 1 ≤ instr_it_block_get_count it ∧
      instr_it_block_get_count it ≤ IT_BLOCK_MAX_INSTRS ∧
      ∀ p ∈ it.it_block, p = instr_it_block_get_pred it 0 ∨
        p = instr_invert_predicate (instr_it_block_get_pred it 0)) := by
  have hok := (reinstate_loop_ok true cfg after range).1 it_scan.init [] rfl rfl rfl
    (fun _ => hin)
  refine ⟨reinstate_it_blocks_to_list cfg before range after, ?_, it_blocks_ok_flat _ _ _ hok,
    hok, it_blocks_ok_inserted true _ _ _ hok⟩
  have := reinstate_loop_snd cfg after range it_scan.init
  simpa [it_scan.init] using this

theorem reinstate_it_blocks_covers_witness :
    it_input_ok [] ex_it_range = true ∧
    (reinstate_loop ex_cfg [] ex_it_range it_scan.init).2.map Prod.snd = ex_it_range ∧
    it_all_covered [] (it_flatten (reinstate_loop ex_cfg [] ex_it_range it_scan.init).2) = true ∧
    it_blocks_ok true [] false (reinstate_loop ex_cfg [] ex_it_range it_scan.init).2 = true :=
  ⟨by decide, (reinstate_it_blocks_covers ex_cfg [] ex_it_range [] (by decide)).2.1,
    (reinstate_it_blocks_covers ex_cfg [] ex_it_range [] (by decide)).2.2.1,
    (reinstate_it_blocks_covers ex_cfg [] ex_it_range [] (by decide)).2.2.2.1⟩

/-- C9 (as stated, counterexample): the list `it eq; addne r1, r1, #1`.  The
`OP_it` is followed by its declared number (one) of predicated instructions
and the range begins at the `OP_it`; `reinstate_it_blocks` skips the existing
block and inserts nothing, so the predicated `add` stays covered only by an
`OP_it` that declares `eq` for its position, not its predicate `ne`. -/
theorem reinstate_it_blocks_keeps_mismatched_block :
    it_input_counts_ok 0 ex_it_mismatch = true ∧
    (reinstate_it_blocks ex_cfg [] ex_it_mismatch []).res = 0 ∧
    (reinstate_it_blocks ex_cfg [] ex_it_mismatch []).to_list = ex_it_mismatch ∧
    it_instr_predicated (ex_t32_add DR_PRED_NE) = true ∧
    (ex_t32_add DR_PRED_NE).predicate = DR_PRED_NE ∧
    instr_it_block_get_pred
      (instr_it_block_create DR_PRED_EQ DR_PRED_NONE DR_PRED_NONE DR_PRED_NONE) 0 = DR_PRED_EQ ∧
    it_all_covered [] (reinstate_it_blocks ex_cfg [] ex_it_mismatch []).to_list = false := by
  decide

/-! ## C10 -/

theorem it_flatten_map_none (l : List instr_t) :
    it_flatten (l.map (fun x => ((none : Option instr_t), x))) = l := by
  induction l with
  | nil => rfl
  | cons x xs ih => simp [it_flatten, ih]

/-- A second pass over a range that passes `it_blocks_ok` inserts nothing. -/
theorem reinstate_loop_quiet (cfg : config_t) (after : List instr_t)
    (ann : List (Option instr_t × instr_t)) (cur : List dr_pred_type_t) (ins : Bool)
    (st : it_scan) (h : it_blocks_ok false cur ins ann = true) (hp : st.pending = none)
    (hc : st.it_count = cur.length) :
    reinstate_loop cfg after (it_flatten ann) st =
      (0, (it_flatten ann).map (fun x => (none, x))) := by
  induction ann generalizing cur ins st with
  | nil =>
    simp only [it_flatten, List.map_nil]
    exact reinstate_loop_nil_none cfg after st hp
  | cons a rest ih =>
    obtain ⟨o, x⟩ := a
    cases o with
    | some it =>
      simp only [it_blocks_ok, Bool.and_eq_true, List.isEmpty_iff, beq_iff_eq,
        Bool.not_eq_true', decide_eq_true_eq] at h
      obtain ⟨⟨⟨⟨⟨⟨⟨hcur, hop⟩, -⟩, hlen⟩, -⟩, -⟩, -⟩, hrest⟩ := h
      subst hcur
      have hc0 : st.it_count = 0 := by simpa using hc
      simp only [it_flatten, List.map_cons]
      rw [reinstate_loop_it cfg after st it _ hp hc0 hop]
      have hpos : ({ st with it_count := instr_it_block_get_count it } : it_scan).it_count > 0 := by
        show instr_it_block_get_count it > 0
        unfold instr_it_block_get_count
        omega
      rw [reinstate_loop_skip cfg after { st with it_count := instr_it_block_get_count it } x _
        hp hpos]
      have hrec := ih it.it_block.tail true
        { st with it_count := instr_it_block_get_count it - 1 } hrest hp
        (by simp [instr_it_block_get_count])
      simp only [] at hrec ⊢
      rw [hrec]
    | none =>
      simp only [it_flatten, List.map_cons]
      rcases cur with _ | ⟨p, cur⟩
      · have hc0 : st.it_count = 0 := by simpa using hc
        by_cases hop : x.opcode = OP_it
        · simp only [it_blocks_ok, hop, if_true, Bool.and_eq_true] at h
          rw [reinstate_loop_it cfg after st x _ hp hc0 hop]
          rw [ih x.it_block false { st with it_count := instr_it_block_get_count x } h.2 hp rfl]
        · simp only [it_blocks_ok, hop, if_false, Bool.and_eq_true, Bool.not_eq_true'] at h
          rw [reinstate_loop_plain cfg after st x _ hp hc0 hop h.1]
          rw [ih [] false st h.2 hp hc]
      · simp only [it_blocks_ok, Bool.and_eq_true] at h
        have hpos : st.it_count > 0 := by
          rw [hc]
          simp
        rw [reinstate_loop_skip cfg after st x _ hp hpos]
        rw [ih cur ins { st with it_count := st.it_count - 1 } h.2 hp (by simp [hc])]

/-- C10 (amended): when the range does not begin at a predicated non-branch
instruction (it is empty, or `start` is an `OP_it`, a label or any other
instruction that does not open a block), calling `reinstate_it_blocks` a
second time with the same `start` and `end` returns 0 and leaves the list as
the first call made it. -/
theorem reinstate_it_blocks_idempotent (cfg : config_t) (before range after : List instr_t)
    (hstart : ∀ x ∈ range.head?, x.opcode = OP_it ∨ it_instr_predicated x = false) :
    reinstate_it_blocks cfg (reinstate_it_blocks cfg before range after).before
        (reinstate_it_blocks cfg before range after).range
        (reinstate_it_blocks cfg before range after).after =
      { res := 0,
        before := (reinstate_it_blocks cfg before range after).before,
        range := (reinstate_it_blocks cfg before range after).range,
        after := (reinstate_it_blocks cfg before range after).after } := by
  have hok := (reinstate_loop_ok false cfg after range).1 it_scan.init [] rfl rfl rfl
    (fun h => absurd h (by simp))
  have hhead : ∀ it x rest, (reinstate_loop cfg after range it_scan.init).2 ≠
      (some it, x) :: rest := by
    intro it x rest
    rcases range with _ | ⟨y, ys⟩
    · rw [reinstate_loop_nil_none cfg after _ rfl]
      simp
    · rcases hstart y (by simp) with hop | hy
      · rw [reinstate_loop_it cfg after _ y ys rfl rfl hop]
        simp
      · by_cases hop : y.opcode = OP_it
        · rw [reinstate_loop_it cfg after _ y ys rfl rfl hop]
          simp
        · rw [reinstate_loop_plain cfg after _ y ys rfl rfl hop hy]
          simp
  generalize hann : (reinstate_loop cfg after range it_scan.init).2 = ann at hok hhead
  have h1 : reinstate_it_blocks cfg before range after =
      { res := (reinstate_loop cfg after range it_scan.init).1, before := before,
        range := it_flatten ann, after := after } := by
    unfold reinstate_it_blocks
    simp only [hann]
    rcases ann with _ | ⟨⟨o, x⟩, rest⟩
    · rfl
    · cases o with
      | some it => exact absurd rfl (hhead it x rest)
      | none => rfl
  rw [h1]
  simp only []
  have hq := reinstate_loop_quiet cfg after ann [] false it_scan.init hok rfl rfl
  unfold reinstate_it_blocks
  simp only [hq]
  rcases hfl : it_flatten ann with _ | ⟨z, zs⟩
  · rfl
  · simp [it_flatten_map_none]

theorem reinstate_it_blocks_idempotent_witness :
    (∀ x ∈ ex_it_range.head?, x.opcode = OP_it ∨ it_instr_predicated x = false) ∧
    (reinstate_it_blocks ex_cfg [] ex_it_range []).res = 3 ∧
    reinstate_it_blocks ex_cfg (reinstate_it_blocks ex_cfg [] ex_it_range []).before
        (reinstate_it_blocks ex_cfg [] ex_it_range []).range
        (reinstate_it_blocks ex_cfg [] ex_it_range []).after =
      { res := 0,
        before := (reinstate_it_blocks ex_cfg [] ex_it_range []).before,
        range := (reinstate_it_blocks ex_cfg [] ex_it_range []).range,
        after := (reinstate_it_blocks ex_cfg [] ex_it_range []).after } :=
  ⟨by decide, by decide, reinstate_it_blocks_idempotent ex_cfg [] ex_it_range [] (by decide)⟩

/-- C10 (as stated, counterexample): the range is the single instruction
`addeq r1, r1, #1`.  The first call inserts an `it eq` in front of `start`,
that is outside the range; the second call with the same `start` finds the
instruction at the head of the range again, returns 1 and inserts a second
`it eq`. -/
theorem reinstate_it_blocks_twice_inserts_again :
    (reinstate_it_blocks ex_cfg [] ex_it_single []).res = 1 ∧
    (reinstate_it_blocks ex_cfg [] ex_it_single []).to_list =
      [list_insert ex_cfg
        (instr_it_block_create DR_PRED_EQ DR_PRED_NONE DR_PRED_NONE DR_PRED_NONE),
       ex_t32_add DR_PRED_EQ] ∧
    (reinstate_it_blocks ex_cfg [] ex_it_single []).range = ex_it_single ∧
    (reinstate_it_blocks ex_cfg (reinstate_it_blocks ex_cfg [] ex_it_single []).before
        (reinstate_it_blocks ex_cfg [] ex_it_single []).range
        (reinstate_it_blocks ex_cfg [] ex_it_single []).after).res = 1 ∧
    (reinstate_it_blocks ex_cfg (reinstate_it_blocks ex_cfg [] ex_it_single []).before
        (reinstate_it_blocks ex_cfg [] ex_it_single []).range
        (reinstate_it_blocks ex_cfg [] ex_it_single []).after).to_list =
      [list_insert ex_cfg
        (instr_it_block_create DR_PRED_EQ DR_PRED_NONE DR_PRED_NONE DR_PRED_NONE),
       list_insert ex_cfg
        (instr_it_block_create DR_PRED_EQ DR_PRED_NONE DR_PRED_NONE DR_PRED_NONE),
       ex_t32_add DR_PRED_EQ] := by
  decide

/-! ## C11 -/

theorem it_uncovered_cons_plain (x : instr_t) (rest : List instr_t)
    (hop : x.opcode ≠ OP_it) :
    it_uncovered 0 (x :: rest) =
      (if it_instr_predicated x then 1 else 0) + it_uncovered 0 rest := by
  simp [it_uncovered, hop]

theorem it_uncovered_cons_pos (k : Nat) (x : instr_t) (rest : List instr_t) (hk : k > 0) :
    it_uncovered k (x :: rest) = it_uncovered (k - 1) rest := by
  rcases k with _ | k
  · omega
  · simp [it_uncovered]

/-- Bounds on the count returned by the loop of `reinstate_it_blocks`, from a
state outside a block and from a state with an open block. -/
theorem reinstate_loop_res_bounds (cfg : config_t) (after : List instr_t) (l : List instr_t)
    (hit : ∀ x ∈ l, x.opcode = OP_it → it_instr_predicated x = false) :
    (∀ (st : it_scan), st.pending = none →
      (reinstate_loop cfg after l st).1 ≤ it_uncovered st.it_count l ∧
      it_uncovered st.it_count l ≤ 4 * (reinstate_loop cfg after l st).1) ∧
    (∀ (st : it_scan) (pend : List instr_t), st.pending = some pend → st.it_count = 0 →
      st.block_count < 4 →
      (reinstate_loop cfg after l st).1 ≤ 1 + it_uncovered 0 l ∧
      st.block_count + it_uncovered 0 l ≤ 4 * (reinstate_loop cfg after l st).1) := by
  induction l with
  | nil =>
    constructor
    · intro st hp
      rw [reinstate_loop_nil_none cfg after st hp]
      simp [it_uncovered]
    · intro st pend hp _ hlt
      rw [reinstate_loop_nil_some cfg after st pend hp]
      simp only [it_uncovered]
      omega
  | cons x rest ih =>
    obtain ⟨ihn, ihs⟩ := ih (fun y hy => hit y (by simp [hy]))
    have hx_it := hit x (by simp)
    have hnone : ∀ (st : it_scan), st.pending = none →
        (reinstate_loop cfg after (x :: rest) st).1 ≤ it_uncovered st.it_count (x :: rest) ∧
        it_uncovered st.it_count (x :: rest) ≤
          4 * (reinstate_loop cfg after (x :: rest) st).1 := by
      intro st hp
      by_cases hpos : st.it_count > 0
      · rw [reinstate_loop_skip cfg after st x rest hp hpos,
          it_uncovered_cons_pos _ x rest hpos]
        exact ihn { st with it_count := st.it_count - 1 } hp
      · have hk : st.it_count = 0 := by omega
        by_cases hop : x.opcode = OP_it
        · rw [reinstate_loop_it cfg after st x rest hp hk hop]
          have := ihn { st with it_count := instr_it_block_get_count x } hp
          have e : it_uncovered st.it_count (x :: rest) =
              it_uncovered (instr_it_block_get_count x) rest := by
            rw [hk]
            simp [it_uncovered, hop]
          rw [e]
          exact this
        · have e : it_uncovered st.it_count (x :: rest) =
              (if it_instr_predicated x then 1 else 0) + it_uncovered 0 rest := by
            rw [hk]
            exact it_uncovered_cons_plain x rest hop
          rw [e]
          by_cases hx : it_instr_predicated x = true
          · rw [reinstate_loop_start cfg after st x rest hp hk hop hx]
            have := ihs { st with pending := some [x]
                                  block_pred := st.block_pred.set 0 x.predicate
                                  block_count := 1
                                  block_xl8 := it_block_xl8 (x :: (rest ++ after)) } [x] rfl hk
              (by show 1 < 4; omega)
            simp only [hx, if_true]
            simp only [] at this
            omega
          · have hx2 : it_instr_predicated x = false := by simpa using hx
            rw [reinstate_loop_plain cfg after st x rest hp hk hop hx2]
            have := ihn st hp
            rw [hk] at this
            simp only [hx2, Bool.false_eq_true, if_false, Nat.zero_add]
            exact this
    refine ⟨hnone, ?_⟩
    intro st pend hp hc hlt
    by_cases hj : it_joins st x = true
    · obtain ⟨hx, -⟩ := it_joins_spec st x hj
      have hop : x.opcode ≠ OP_it := fun h => by
        rw [hx_it h] at hx
        exact absurd hx (by simp)
      rw [it_uncovered_cons_plain x rest hop]
      simp only [hx, if_true]
      by_cases hn : st.block_count + 1 = IT_BLOCK_MAX_INSTRS
      · rw [reinstate_loop_full cfg after st x rest pend hp hj hn]
        have := ihn { st with block_pred := st.block_pred.set st.block_count x.predicate
                              block_count := st.block_count + 1
                              pending := none } rfl
        generalize reinstate_loop cfg after rest
          { st with block_pred := st.block_pred.set st.block_count x.predicate
                    block_count := st.block_count + 1
                    pending := none } = r at this ⊢
        simp only [] at this ⊢
        rw [hc] at this
        unfold IT_BLOCK_MAX_INSTRS at hn
        omega
      · rw [reinstate_loop_extend cfg after st x rest pend hp hj hn]
        have := ihs { st with block_pred := st.block_pred.set st.block_count x.predicate
                              block_count := st.block_count + 1
                              pending := some (pend ++ [x]) } (pend ++ [x]) rfl hc
          (by
            unfold IT_BLOCK_MAX_INSTRS at hn
            show st.block_count + 1 < 4
            omega)
        simp only [] at this
        omega
    · have hj2 : it_joins st x = false := by simpa using hj
      rw [reinstate_loop_close cfg after st x rest pend hp hj2]
      have := hnone { st with pending := none } rfl
      generalize reinstate_loop cfg after (x :: rest) { st with pending := none } = r at this ⊢
      simp only [] at this ⊢
      rw [hc] at this
      omega

theorem it_annotate_count (it : instr_t) (l : List instr_t) (hl : l ≠ []) :
    (it_annotate it l).countP (fun a => a.1.isSome) = 1 := by
  rcases l with _ | ⟨b, bs⟩
  · exact absurd rfl hl
  · simp [it_annotate, List.countP_cons, List.countP_map, Function.comp_def]

/-- The count returned by the loop is the number of `OP_it`s it inserts. -/
theorem reinstate_loop_res_count (cfg : config_t) (after : List instr_t) (l : List instr_t) :
    (∀ (st : it_scan), st.pending = none →
      (reinstate_loop cfg after l st).1 =
        (reinstate_loop cfg after l st).2.countP (fun a => a.1.isSome)) ∧
    (∀ (st : it_scan) (pend : List instr_t), st.pending = some pend → pend ≠ [] →
      (reinstate_loop cfg after l st).1 =
        (reinstate_loop cfg after l st).2.countP (fun a => a.1.isSome)) := by
  induction l with
  | nil =>
    constructor
    · intro st hp
      rw [reinstate_loop_nil_none cfg after st hp]
      rfl
    · intro st pend hp hne
      rw [reinstate_loop_nil_some cfg after st pend hp]
      simp [it_annotate_count _ _ hne]
  | cons x rest ih =>
    obtain ⟨ihn, ihs⟩ := ih
    have hnone : ∀ (st : it_scan), st.pending = none →
        (reinstate_loop cfg after (x :: rest) st).1 =
          (reinstate_loop cfg after (x :: rest) st).2.countP (fun a => a.1.isSome) := by
      intro st hp
      by_cases hk : st.it_count > 0
      · rw [reinstate_loop_skip cfg after st x rest hp hk]
        simpa [List.countP_cons] using ihn { st with it_count := st.it_count - 1 } hp
      · have hk0 : st.it_count = 0 := by omega
        by_cases hop : x.opcode = OP_it
        · rw [reinstate_loop_it cfg after st x rest hp hk0 hop]
          simpa [List.countP_cons] using
            ihn { st with it_count := instr_it_block_get_count x } hp
        · by_cases hx : it_instr_predicated x = true
          · rw [reinstate_loop_start cfg after st x rest hp hk0 hop hx]
            exact ihs _ [x] rfl (by simp)
          · have hx2 : it_instr_predicated x = false := by simpa using hx
            rw [reinstate_loop_plain cfg after st x rest hp hk0 hop hx2]
            simpa [List.countP_cons] using ihn _ hp
    refine ⟨hnone, ?_⟩
    intro st pend hp hne
    by_cases hj : it_joins st x = true
    · by_cases hn : st.block_count + 1 = IT_BLOCK_MAX_INSTRS
      · rw [reinstate_loop_full cfg after st x rest pend hp hj hn]
        simp only [List.countP_append]
        rw [it_annotate_count _ _ (by simp), ← ihn _ rfl]
        omega
      · rw [reinstate_loop_extend cfg after st x rest pend hp hj hn]
        exact ihs _ (pend ++ [x]) rfl (by simp)
    · have hj2 : it_joins st x = false := by simpa using hj
      rw [reinstate_loop_close cfg after st x rest pend hp hj2]
      simp only [List.countP_append]
      rw [it_annotate_count _ _ hne, ← hnone _ rfl]
      omega

theorem count_it_flatten (ann : List (Option instr_t × instr_t))
    (h : ∀ it x, (some it, x) ∈ ann → it.opcode = OP_it) :
    count_it (it_flatten ann) =
      count_it (ann.map Prod.snd) + ann.countP (fun a => a.1.isSome) := by
  induction ann with
  | nil => rfl
  | cons a rest ih =>
    obtain ⟨o, x⟩ := a
    have hrest := ih (fun it y hy => h it y (by simp [hy]))
    unfold count_it at hrest ⊢
    cases o with
    | none =>
      simp only [it_flatten, List.map_cons, List.countP_cons, Option.isSome_none,
        Bool.false_eq_true, if_false, hrest]
      omega
    | some it =>
      have hop := h it x (by simp)
      simp only [it_flatten, List.map_cons, List.countP_cons, Option.isSome_some, if_true,
        hrest, hop, beq_self_eq_true]
      omega

theorem reinstate_it_blocks_res (cfg : config_t) (before range after : List instr_t) :
    (reinstate_it_blocks cfg before range after).res =
      (reinstate_loop cfg after range it_scan.init).1 := by
  unfold reinstate_it_blocks
  simp only []
  rcases (reinstate_loop cfg after range it_scan.init).2 with _ | ⟨⟨o, x⟩, rest⟩
  · rfl
  · cases o <;> rfl

/-- C11 (amended): for every range in which no `OP_it` is itself predicated,
containing P predicated non-branch instructions that are not inside a
pre-existing IT block, `reinstate_it_blocks` inserts, and returns a count of,
at least ceil(P/4) and at most P `OP_it` blocks, and the number of `OP_it`
instructions in the list grows by exactly the returned count, so it never
decreases across a call. -/
theorem reinstate_it_blocks_count (cfg : config_t) (before range after : List instr_t)
    (hit : ∀ x ∈ range, x.opcode = OP_it → it_instr_predicated x = false) :
    (it_uncovered 0 range + 3) / 4 ≤ (reinstate_it_blocks cfg before range after).res ∧
    (reinstate_it_blocks cfg before range after).res ≤ it_uncovered 0 range ∧
    count_it (reinstate_it_blocks cfg before range after).to_list =
      count_it (before.reverse ++ range ++ after) +
        (reinstate_it_blocks cfg before range after).res := by
  have hb := (reinstate_loop_res_bounds cfg after range hit).1 it_scan.init rfl
  have hcnt := (reinstate_loop_res_count cfg after range).1 it_scan.init rfl
  have hok := (reinstate_loop_ok false cfg after range).1 it_scan.init [] rfl rfl rfl
    (fun h => absurd h (by simp))
  have hins := it_blocks_ok_inserted false _ _ _ hok
  have hfl := count_it_flatten (reinstate_loop cfg after range it_scan.init).2
    (fun it x hm => (hins it x hm).1)
  have hsnd := reinstate_loop_snd cfg after range it_scan.init
  have e0 : it_scan.init.it_count = 0 := rfl
  have e1 : it_scan.init.pending.getD [] = [] := rfl
  rw [e0] at hb
  rw [e1, List.nil_append] at hsnd
  rw [hsnd, ← hcnt] at hfl
  rw [reinstate_it_blocks_res, reinstate_it_blocks_to_list]
  refine ⟨by omega, hb.1, ?_⟩
  unfold count_it at hfl ⊢
  simp only [List.countP_append, hfl]
  omega

theorem reinstate_it_blocks_count_witness :
    (∀ x ∈ ex_it_range, x.opcode = OP_it → it_instr_predicated x = false) ∧
    it_uncovered 0 ex_it_range = 7 ∧
    (it_uncovered 0 ex_it_range + 3) / 4 ≤ (reinstate_it_blocks ex_cfg [] ex_it_range []).res ∧
    (reinstate_it_blocks ex_cfg [] ex_it_range []).res ≤ it_uncovered 0 ex_it_range :=
  ⟨by decide, by decide,
   (reinstate_it_blocks_count ex_cfg [] ex_it_range [] (by decide)).1,
   (reinstate_it_blocks_count ex_cfg [] ex_it_range [] (by decide)).2.1⟩

/-- C11 (as stated, counterexample): the range `label; addeq; addgt` holds
P = 2 predicated non-branch instructions outside any IT block, so
ceil(P/4) = 1, but their predicates cannot share a block and
`reinstate_it_blocks` inserts and returns 2. -/
theorem reinstate_it_blocks_more_than_quarter :
    it_uncovered 0 ex_it_two_preds = 2 ∧
    (reinstate_it_blocks ex_cfg [] ex_it_two_preds []).res = 2 ∧
    count_it (reinstate_it_blocks ex_cfg [] ex_it_two_preds []).to_list = 2 ∧
    ¬ ((reinstate_it_blocks ex_cfg [] ex_it_two_preds []).res ≤
        (it_uncovered 0 ex_it_two_preds + 3) / 4) := by
  decide

/-! ## C12 -/

theorem takeWhile_append_stop {α : Type} (p : α → Bool) (l1 l2 : List α) (x : α)
    (h1 : ∀ y ∈ l1, p y = true) (hx : p x = false) :
    (l1 ++ x :: l2).takeWhile p = l1 := by
  induction l1 with
  | nil => simp [List.takeWhile, hx]
  | cons y ys ih =>
    have hy := h1 y (by simp)
    simp [List.takeWhile, hy, ih (fun z hz => h1 z (by simp [hz]))]

theorem it_block_create_take (ps : List dr_pred_type_t) (k : Nat) (hk : 0 < k) (hk3 : k ≤ 3)
    (hlen : k ≤ ps.length) (hne : ∀ p ∈ ps, p ≠ DR_PRED_NONE) :
    instr_it_block_create (ps.getD 0 DR_PRED_NONE)
      (if k > 1 then ps.getD 1 DR_PRED_NONE else DR_PRED_NONE)
      (if k > 2 then ps.getD 2 DR_PRED_NONE else DR_PRED_NONE) DR_PRED_NONE =
    it_block_of (ps.take k) := by
  unfold instr_it_block_create it_block_of
  have hb : ∀ p ∈ ps, (p != DR_PRED_NONE) = true := fun p hp => bne_iff_ne.mpr (hne p hp)
  rcases ps with _ | ⟨a, _ | ⟨b, _ | ⟨c, ps⟩⟩⟩
  · simp at hlen
    omega
  · have ha := hb a (by simp)
    have : k = 1 := by simp at hlen; omega
    subst this
    simp [List.takeWhile, ha]
  · have ha := hb a (by simp)
    have hb2 := hb b (by simp)
    have : k = 1 ∨ k = 2 := by simp at hlen; omega
    rcases this with rfl | rfl <;> simp [List.takeWhile, ha, hb2]
  · have ha := hb a (by simp)
    have hb2 := hb b (by simp)
    have hc := hb c (by simp)
    have : k = 1 ∨ k = 2 ∨ k = 3 := by omega
    rcases this with rfl | rfl | rfl <;> simp [List.takeWhile, ha, hb2, hc]

theorem it_block_create_drop (ps : List dr_pred_type_t) (prior : Nat)
    (hlen : ps.length ≤ 4) (hc : ps.length - prior - 1 > 0)
    (hne : ∀ p ∈ ps, p ≠ DR_PRED_NONE) :
    instr_it_block_create (ps.getD (prior + 1) DR_PRED_NONE)
      (if ps.length - prior - 1 > 1 then ps.getD (prior + 2) DR_PRED_NONE else DR_PRED_NONE)
      (if ps.length - prior - 1 > 2 then ps.getD (prior + 3) DR_PRED_NONE else DR_PRED_NONE)
      DR_PRED_NONE =
    it_block_of (ps.drop (prior + 1)) := by
  unfold instr_it_block_create it_block_of
  have hb : ∀ p ∈ ps, (p != DR_PRED_NONE) = true := fun p hp => bne_iff_ne.mpr (hne p hp)
  rcases ps with _ | ⟨a, _ | ⟨b, _ | ⟨c, _ | ⟨d, _ | ⟨e, ps⟩⟩⟩⟩⟩
  · simp at hc
  · simp at hc
  · have hb2 := hb b (by simp)
    have : prior = 0 := by simp at hc; omega
    subst this
    simp [List.takeWhile, hb2]
  · have hb2 := hb b (by simp)
    have hc2 := hb c (by simp)
    have : prior = 0 ∨ prior = 1 := by simp at hc; omega
    rcases this with rfl | rfl <;> simp [List.takeWhile, hb2, hc2]
  · have hb2 := hb b (by simp)
    have hc2 := hb c (by simp)
    have hd2 := hb d (by simp)
    have : prior = 0 ∨ prior = 1 ∨ prior = 2 := by simp at hc; omega
    rcases this with rfl | rfl | rfl <;> simp [List.takeWhile, hb2, hc2, hd2]
  · simp at hlen

/-- C12: for a predicated Thumb instruction i_k standing at position k of an
IT block (`sibs` are i_(k-1) .. i_0, the predicated instructions between it
and the `OP_it`, nearest first; the `OP_it` declares the predicates `ps`,
1 <= |ps| <= 4, k < |ps|), `mangle_remove_from_it_block` removes the original
`OP_it`, puts in its place a new `OP_it` declaring exactly the first k
predicates when k > 0, puts immediately after i_k a new `OP_it` declaring
exactly the predicates after position k when there are any, leaves every
other instruction in place, and returns the instruction that now follows i_k
(`mid` is empty); for an instruction that is not Thumb or not predicated the
list is unchanged and its successor is returned. -/
theorem mangle_remove_from_it_block_splits (cfg : config_t) (c : ilist_at) :
    (∀ (sibs outer : List instr_t) (it : instr_t),
      c.instr.isa_mode = DR_ISA_ARM_THUMB → instr_is_predicated c.instr = true →
      c.prev = sibs ++ it :: outer →
      (∀ p ∈ sibs, p.opcode ≠ OP_it ∧ instr_is_predicated p = true) →
      it.opcode = OP_it → sibs.length < it.it_block.length → it.it_block.length ≤ 4 →
      (∀ p ∈ it.it_block, p ≠ DR_PRED_NONE) →
      mangle_remove_from_it_block cfg c = some
        { prev := sibs ++
            (if sibs.length > 0 then
              [list_insert cfg (it_block_of (it.it_block.take sibs.length))] else []) ++ outer,
          instr := c.instr,
          mid := [],
          next :=
            (if it.it_block.length - sibs.length - 1 > 0 then
              [list_insert cfg (it_block_of (it.it_block.drop (sibs.length + 1)))] else []) ++
            c.mid ++ c.next }) ∧
    ((c.instr.isa_mode ≠ DR_ISA_ARM_THUMB ∨ instr_is_predicated c.instr = false) →
      mangle_remove_from_it_block cfg c =
        some { prev := c.prev, instr := c.instr, mid := [], next := c.mid ++ c.next }) := by
  constructor
  · intro sibs outer it hmode hpred hprev hsibs hop hlt hle hne
    have htw : c.prev.takeWhile (fun p => p.opcode != OP_it) = sibs := by
      rw [hprev]
      exact takeWhile_append_stop _ sibs outer it
        (fun y hy => bne_iff_ne.mpr (hsibs y hy).1) (by simp [hop])
    have hdrop : c.prev.drop sibs.length = it :: outer := by
      rw [hprev]
      simp
    have hany : sibs.any (fun p => !instr_is_predicated p) = false := by
      simp only [List.any_eq_false, Bool.not_eq_true', Bool.not_eq_false]
      intro p hp
      simp [(hsibs p hp).2]
    have hcnt : instr_it_block_get_count it > sibs.length ∧
        instr_it_block_get_count it ≤ IT_BLOCK_MAX_INSTRS := ⟨hlt, hle⟩
    have hcount : ((if sibs.length > 0 then instr_it_block_get_count it - sibs.length
        else instr_it_block_get_count it) - 1) = it.it_block.length - sibs.length - 1 := by
      unfold instr_it_block_get_count
      split_ifs <;> omega
    have hhead : (if sibs.length > 0 then
          [list_insert cfg (instr_it_block_create (instr_it_block_get_pred it 0)
            (if sibs.length > 1 then instr_it_block_get_pred it 1 else DR_PRED_NONE)
            (if sibs.length > 2 then instr_it_block_get_pred it 2 else DR_PRED_NONE)
            DR_PRED_NONE)]
        else []) =
        (if sibs.length > 0 then
          [list_insert cfg (it_block_of (it.it_block.take sibs.length))] else []) := by
      by_cases hk : sibs.length > 0
      · rw [if_pos hk, if_pos hk]
        unfold instr_it_block_get_pred
        rw [it_block_create_take it.it_block sibs.length hk (by omega) (by omega) hne]
      · rw [if_neg hk, if_neg hk]
    have htail : (if it.it_block.length - sibs.length - 1 > 0 then
          [list_insert cfg (instr_it_block_create (instr_it_block_get_pred it (sibs.length + 1))
            (if it.it_block.length - sibs.length - 1 > 1 then
              instr_it_block_get_pred it (sibs.length + 2) else DR_PRED_NONE)
            (if it.it_block.length - sibs.length - 1 > 2 then
              instr_it_block_get_pred it (sibs.length + 3) else DR_PRED_NONE)
            DR_PRED_NONE)]
        else []) =
        (if it.it_block.length - sibs.length - 1 > 0 then
          [list_insert cfg (it_block_of (it.it_block.drop (sibs.length + 1)))] else []) := by
      by_cases hk : it.it_block.length - sibs.length - 1 > 0
      · rw [if_pos hk, if_pos hk]
        unfold instr_it_block_get_pred
        rw [it_block_create_drop it.it_block sibs.length hle hk hne]
      · rw [if_neg hk, if_neg hk]
    unfold mangle_remove_from_it_block
    simp only [hmode, hpred, ne_eq, not_true_eq_false, Bool.true_eq_false, or_self, if_false,
      htw, hany, Bool.false_eq_true, hdrop, hcnt, and_self, not_true, hcount, hhead, htail]
  · intro h
    unfold mangle_remove_from_it_block
    simp only [ne_eq]
    rw [if_pos h]

theorem mangle_remove_from_it_block_splits_witness :
    mangle_remove_from_it_block ex_cfg ex_it_middle = some
      { prev := [ex_t32_add DR_PRED_EQ,
                 list_insert ex_cfg (it_block_of [DR_PRED_EQ]),
                 meta_insert ex_cfg (instr_create OP_label [] [])],
        instr := ex_t32_add DR_PRED_NE,
        mid := [],
        next := [list_insert ex_cfg (it_block_of [DR_PRED_EQ]),
                 ex_t32_add DR_PRED_EQ, meta_insert ex_cfg (instr_create OP_label [] [])] } :=
  (mangle_remove_from_it_block_splits ex_cfg ex_it_middle).1 [ex_t32_add DR_PRED_EQ]
    [meta_insert ex_cfg (instr_create OP_label [] [])]
    (it_block_of [DR_PRED_EQ, DR_PRED_NE, DR_PRED_EQ])
    (by decide) (by decide) (by decide) (by decide) (by decide) (by decide) (by decide)
    (by decide)

/-! ## Widening of short branches -/

theorem set_six_bytes (l : List Nat) (hl : l.length = 6) (a b w : Nat) :
    ((((((l.set 0 a).set 1 b).set 2 (w % 256)).set (2 + 1) (w / 256 % 256)).set (2 + 2)
        (w / 65536 % 256)).set (2 + 3) (w / 16777216 % 256)) = a :: b :: word_bytes w := by
  match l, hl with
  | [x0, x1, x2, x3, x4, x5], _ => rfl

theorem allocate_length (o : Option (List Nat)) (n : Nat) :
    (((o.getD []).take n) ++ List.replicate (n - (o.getD []).length) 0).length = n := by
  simp only [List.length_append, List.length_take, List.length_replicate]
  omega

theorem byte_or8_low (r : Nat) (h0 : DR_REG_R0 ≤ r) (h7 : r ≤ DR_REG_R0 + 7) :
    byte_or8 ((r : Int) - DR_REG_R0) % 256 = 0x08 ||| (r - DR_REG_R0) := by
  simp only [DR_REG_R0] at h0 h7 ⊢
  interval_cases r <;> decide

theorem read_bytes_length (mem : Int → Nat) (pc : Int) (n : Nat) :
    (read_bytes mem pc n).length = n := by
  simp [read_bytes]

/-- The app path of the widener, for a `cbz`/`cbnz` whose target is a pc and
whose second source is a register. -/
theorem convert_to_near_rel_arch_app (cfg : config_t) (instr : instr_t) (fall_id : Nat)
    (bytes T : Int) (r sz fl : Nat)
    (hop : instr.opcode = OP_cbz ∨ instr.opcode = OP_cbnz)
    (htgt : instr_get_target instr = opnd_create_pc T)
    (hreg : instr_get_src instr 1 = .reg r sz fl) :
    convert_to_near_rel_arch cfg none instr fall_id bytes =
      some { instr := { instr with
               raw_bits := some (byte_or8 ((r : Int) - DR_REG_R0) % 256 ::
                 (if instr.opcode = OP_cbz then cfg.CBNZ_BYTE_A else cfg.CBZ_BYTE_A) % 256 ::
                 word_bytes (cfg.encode_raw_jmp cfg.isa_mode (bytes + 2) (bytes + 2))),
               operands_valid := true },
             after := [],
             ret := { instr with
               raw_bits := some (byte_or8 ((r : Int) - DR_REG_R0) % 256 ::
                 (if instr.opcode = OP_cbz then cfg.CBNZ_BYTE_A else cfg.CBZ_BYTE_A) % 256 ::
                 word_bytes (cfg.encode_raw_jmp cfg.isa_mode (bytes + 2) (bytes + 2))),
               operands_valid := true } } := by
  have hns : instr.opcode ≠ OP_b_short := by
    rcases hop with h | h <;> rw [h] <;> decide
  have hset := set_six_bytes _ (allocate_length instr.raw_bits 6)
    (byte_or8 ((r : Int) - DR_REG_R0) % 256)
    ((if instr.opcode = OP_cbz then cfg.CBNZ_BYTE_A else cfg.CBZ_BYTE_A) % 256)
    (cfg.encode_raw_jmp cfg.isa_mode (bytes + 2) (bytes + 2))
  simp only [convert_to_near_rel_arch, if_neg hns, if_pos hop, htgt, hreg, opnd_create_pc,
    opnd_is_near_pc, opnd_is_pc, opnd_is_reg, opnd_get_reg, if_true, instr_allocate_raw_bits,
    instr_set_raw_byte, instr_set_raw_word, instr_set_operands_valid, CTI_SHORT_REWRITE_LENGTH,
    CTI_SHORT_REWRITE_B_OFFS, Option.map_some', Nat.cast_ofNat]
  simp only [Bool.true_eq_false, if_false, Bool.false_eq_true] 
  rw [hset]

/-- C14: for every instruction with opcode `b_short`, with or without a list,
`convert_to_near_rel_arch` changes only the opcode, to `b`: destinations,
sources (the target among them), predicate and every other field are kept,
the instructions that follow in the list are the same and none is added, and
the instruction itself is returned. -/
theorem convert_to_near_rel_arch_b_short (cfg : config_t) (ilist : Option (List instr_t))
    (instr : instr_t) (fall_id : Nat) (bytes : Int) (hop : instr.opcode = OP_b_short) :
    convert_to_near_rel_arch cfg ilist instr fall_id bytes =
        some { instr := { instr with opcode := OP_b }, after := ilist.getD [],
               ret := { instr with opcode := OP_b } } ∧
      instr_get_target { instr with opcode := OP_b } = instr_get_target instr ∧
      ({ instr with opcode := OP_b } : instr_t).srcs = instr.srcs ∧
      ({ instr with opcode := OP_b } : instr_t).dsts = instr.dsts ∧
      ({ instr with opcode := OP_b } : instr_t).predicate = instr.predicate := by
  refine ⟨?_, rfl, rfl, rfl, rfl⟩
  simp only [convert_to_near_rel_arch, hop, if_true, instr_set_opcode]

theorem convert_to_near_rel_arch_b_short_witness :
    ex_t32_b_short.opcode = OP_b_short ∧
    convert_to_near_rel_arch ex_cfg (some [ex_add_stolen]) ex_t32_b_short 7 40960 =
      some { instr := { ex_t32_b_short with opcode := OP_b }, after := [ex_add_stolen],
             ret := { ex_t32_b_short with opcode := OP_b } } :=
  ⟨by decide, (convert_to_near_rel_arch_b_short ex_cfg (some [ex_add_stolen]) ex_t32_b_short 7
    40960 (by decide)).1⟩

/-- C15: for every app `cbz`/`cbnz` on a register r0..r7 with target `T`
(no list given), `convert_to_near_rel_arch` returns the instruction itself
with exactly six raw bytes: byte 0 is `0x08 | (register number)`, byte 1 is
`CBNZ_BYTE_A` for a `cbz` and `CBZ_BYTE_A` for a `cbnz`, bytes 2..5 are the
word `encode_raw_jmp` gives for a `b` at the address of byte 2 to that same
address; the operands are valid, src0 is still `T`, src1 still the register,
and nothing else of the instruction changes. -/
theorem convert_to_near_rel_arch_app_bytes (cfg : config_t) (instr : instr_t) (fall_id : Nat)
    (bytes T : Int) (r sz fl : Nat)
    (hA : cfg.CBNZ_BYTE_A < 256) (hB : cfg.CBZ_BYTE_A < 256)
    (hop : instr.opcode = OP_cbz ∨ instr.opcode = OP_cbnz)
    (htgt : instr_get_target instr = opnd_create_pc T)
    (hreg : instr_get_src instr 1 = .reg r sz fl)
    (h0 : DR_REG_R0 ≤ r) (h7 : r ≤ DR_REG_R0 + 7) :
    ∃ res, convert_to_near_rel_arch cfg none instr fall_id bytes = some res ∧
      res.ret = res.instr ∧ res.after = [] ∧
      res.instr = { instr with
        raw_bits := some ((0x08 ||| (r - DR_REG_R0)) ::
          (if instr.opcode = OP_cbz then cfg.CBNZ_BYTE_A else cfg.CBZ_BYTE_A) ::
          word_bytes (cfg.encode_raw_jmp cfg.isa_mode (bytes + CTI_SHORT_REWRITE_B_OFFS)
            (bytes + CTI_SHORT_REWRITE_B_OFFS))),
        operands_valid := true } ∧
      res.instr.raw_bits.map List.length = some CTI_SHORT_REWRITE_LENGTH ∧
      res.instr.operands_valid = true ∧
      instr_get_src res.instr 0 = opnd_create_pc T ∧
      instr_get_src res.instr 1 = .reg r sz fl := by
  have hb : (if instr.opcode = OP_cbz then cfg.CBNZ_BYTE_A else cfg.CBZ_BYTE_A) % 256 =
      (if instr.opcode = OP_cbz then cfg.CBNZ_BYTE_A else cfg.CBZ_BYTE_A) := by
    split_ifs
    · exact Nat.mod_eq_of_lt hA
    · exact Nat.mod_eq_of_lt hB
  refine ⟨_, convert_to_near_rel_arch_app cfg instr fall_id bytes T r sz fl hop htgt hreg,
    rfl, rfl, ?_, ?_, rfl, ?_, ?_⟩
  · rw [byte_or8_low r h0 h7, hb]
    rfl
  · simp [word_bytes, CTI_SHORT_REWRITE_LENGTH]
  · exact htgt
  · exact hreg

theorem convert_to_near_rel_arch_app_bytes_witness :
    ∃ res, convert_to_near_rel_arch ex_cfg none (ex_cbz false) 7 40960 = some res ∧
      res.ret = res.instr ∧ res.after = [] ∧
      res.instr = { ex_cbz false with
        raw_bits := some ((0x08 ||| (4 - DR_REG_R0)) ::
          (if (ex_cbz false).opcode = OP_cbz then ex_cfg.CBNZ_BYTE_A else ex_cfg.CBZ_BYTE_A) ::
          word_bytes (ex_cfg.encode_raw_jmp ex_cfg.isa_mode (40960 + CTI_SHORT_REWRITE_B_OFFS)
            (40960 + CTI_SHORT_REWRITE_B_OFFS))),
        operands_valid := true } ∧
      res.instr.raw_bits.map List.length = some CTI_SHORT_REWRITE_LENGTH ∧
      res.instr.operands_valid = true ∧
      instr_get_src res.instr 0 = opnd_create_pc 8192 ∧
      instr_get_src res.instr 1 = .reg 4 4 0 :=
  convert_to_near_rel_arch_app_bytes ex_cfg (ex_cbz false) 7 40960 8192 4 4 0
    (by decide) (by decide) (by decide) (by decide) (by decide) (by decide) (by decide)

theorem set_word_at_two (l : List Nat) (hl : l.length = 6) (w : Nat) :
    ((((l.set 2 (w % 256)).set (2 + 1) (w / 256 % 256)).set (2 + 2)
        (w / 65536 % 256)).set (2 + 3) (w / 16777216 % 256)) = l.take 2 ++ word_bytes w := by
  match l, hl with
  | [x0, x1, x2, x3, x4, x5], _ => rfl

theorem copy_six_bytes (bs l : List Nat) (hb : bs.length = 6) (hl : l.length = 6) :
    bs.take l.length ++ l.drop bs.length = bs := by
  rw [hb, hl, List.drop_of_length_le (by omega), List.take_of_length_le (by omega)]
  simp

/-- What `remangle_short_rewrite` computes once its assertion holds and the
target it is given, or reads at `pc + 2`, is `T`. -/
theorem remangle_short_rewrite_eval (cfg : config_t) (mem : Int → Nat) (i : instr_t)
    (T pc : Int) (target : Option Int) (s0 : opnd_t) (srest : List opnd_t)
    (hs : cfg.instr_is_cti_short_rewrite i (read_bytes mem pc 6) = true)
    (hsrcs : i.srcs = s0 :: srest)
    (harg : target = some T ∨ (target = none ∧
      cfg.decode_raw_jmp_target (read_bytes mem (pc + 2) 4) (pc + 2) = T)) :
    remangle_short_rewrite cfg mem i pc target =
      some ({ i with
        srcs := opnd_create_pc T :: srest,
        raw_bits := some ((read_bytes mem pc 6).take 2 ++
          word_bytes (cfg.encode_raw_jmp cfg.isa_mode T (pc + 2))),
        operands_valid := true }, pc + 6) := by
  have hl6 : (read_bytes mem pc 6).length = 6 := read_bytes_length mem pc 6
  have hw := set_word_at_two (read_bytes mem pc 6) hl6
    (cfg.encode_raw_jmp cfg.isa_mode T (pc + 2))
  have hcp := copy_six_bytes (read_bytes mem pc 6) _ hl6 (allocate_length i.raw_bits 6)
  rcases harg with h | ⟨h, hd⟩
  · subst h
    simp only [remangle_short_rewrite, CTI_SHORT_REWRITE_LENGTH, CTI_SHORT_REWRITE_B_OFFS,
      Nat.cast_ofNat, hs, Bool.true_eq_false, if_false, instr_set_target, instr_set_src,
      instr_allocate_raw_bits, instr_set_raw_bytes, instr_set_raw_word,
      instr_set_operands_valid, Option.map_some', hsrcs, List.set_cons_zero]
    rw [hcp, hw]
  · subst h
    simp only [remangle_short_rewrite, CTI_SHORT_REWRITE_LENGTH, CTI_SHORT_REWRITE_B_OFFS,
      Nat.cast_ofNat, hs, Bool.true_eq_false, if_false, instr_set_target, instr_set_src,
      instr_allocate_raw_bits, instr_set_raw_bytes, instr_set_raw_word,
      instr_set_operands_valid, Option.map_some', hsrcs, List.set_cons_zero, hd]
    rw [hcp, hw]

theorem read_bytes_drop_two (mem : Int → Nat) (pc : Int) :
    (read_bytes mem pc 6).drop 2 = read_bytes mem (pc + 2) 4 := by
  simp only [read_bytes, List.range, List.range.loop, List.map_cons, List.map_nil,
    List.drop_succ_cons, List.drop_zero, Nat.cast_ofNat, Nat.cast_zero, Nat.cast_one,
    add_zero, add_assoc]
  norm_num

/-- C13 (amended): for every app `cbz`/`cbnz` with target `T` and every address
`pc` at which the assertion of `remangle_short_rewrite` holds:
`remangle_short_rewrite` applied to the instruction the widener produced (no
list given) returns `pc + 6` and leaves an instruction with six raw bytes (the
two at `pc` and the `b` encoded at `pc + 2`) and valid operands, whose target
operand is the target that was passed, so again `T` when `T` is passed, and,
when no target is passed, the target decoded from the `b` found in memory at
`pc + 2`, whatever the operand of the widened instruction was; when that memory
holds the raw bytes the widener gave the instruction, that is the target of a
`b` encoded to its own address. -/
theorem remangle_short_rewrite_after_widener (cfg : config_t) (mem : Int → Nat)
    (instr : instr_t) (fall_id : Nat) (bytes T pc : Int) (r sz fl : Nat)
    (target : Option Int)
    (hop : instr.opcode = OP_cbz ∨ instr.opcode = OP_cbnz)
    (htgt : instr_get_target instr = opnd_create_pc T)
    (hreg : instr_get_src instr 1 = .reg r sz fl)
    (hshort : ∀ res, convert_to_near_rel_arch cfg none instr fall_id bytes = some res →
      cfg.instr_is_cti_short_rewrite res.instr (read_bytes mem pc CTI_SHORT_REWRITE_LENGTH) =
        true) :
    ∃ res out, convert_to_near_rel_arch cfg none instr fall_id bytes = some res ∧
      instr_get_target res.instr = opnd_create_pc T ∧
      remangle_short_rewrite cfg mem res.instr pc target = some (out, pc + 6) ∧
      instr_get_target out = opnd_create_pc (target.getD
        (cfg.decode_raw_jmp_target (read_bytes mem (pc + CTI_SHORT_REWRITE_B_OFFS) 4)
          (pc + CTI_SHORT_REWRITE_B_OFFS))) ∧
      (target = some T → instr_get_target out = opnd_create_pc T) ∧
      (target = none → bytes = pc → res.instr.raw_bits = some (read_bytes mem pc 6) →
        instr_get_target out = opnd_create_pc (cfg.decode_raw_jmp_target
          (word_bytes (cfg.encode_raw_jmp cfg.isa_mode (pc + 2) (pc + 2))) (pc + 2))) ∧
      out.raw_bits.map List.length = some 6 ∧
      out.raw_bits = some ((read_bytes mem pc 6).take 2 ++
        word_bytes (cfg.encode_raw_jmp cfg.isa_mode (target.getD
          (cfg.decode_raw_jmp_target (read_bytes mem (pc + CTI_SHORT_REWRITE_B_OFFS) 4)
            (pc + CTI_SHORT_REWRITE_B_OFFS))) (pc + 2))) ∧
      out.operands_valid = true ∧
      instr_get_src out 1 = instr_get_src instr 1 ∧
      out.opcode = instr.opcode := by
  have hconv := convert_to_near_rel_arch_app cfg instr fall_id bytes T r sz fl hop htgt hreg
  have hs := hshort _ hconv
  obtain ⟨s0, srest, hsrcs⟩ : ∃ s0 srest, instr.srcs = s0 :: srest := by
    cases hsr : instr.srcs with
    | nil =>
      simp [instr_get_target, instr_get_src, hsr, opnd_create_pc] at htgt
    | cons a b => exact ⟨a, b, rfl⟩
  simp only [CTI_SHORT_REWRITE_LENGTH, CTI_SHORT_REWRITE_B_OFFS, Nat.cast_ofNat] at hs ⊢
  have harg2 : target = some (target.getD
      (cfg.decode_raw_jmp_target (read_bytes mem (pc + 2) 4) (pc + 2))) ∨
      (target = none ∧
        cfg.decode_raw_jmp_target (read_bytes mem (pc + 2) 4) (pc + 2) =
          target.getD (cfg.decode_raw_jmp_target (read_bytes mem (pc + 2) 4) (pc + 2))) := by
    cases target with
    | none => exact Or.inr ⟨rfl, rfl⟩
    | some t => exact Or.inl rfl
  have hrem := remangle_short_rewrite_eval cfg mem _ _ pc target s0 srest hs hsrcs harg2
  refine ⟨_, _, hconv, ?_, hrem, ?_, ?_, ?_, ?_, rfl, rfl, ?_, rfl⟩
  · simpa [instr_get_target, instr_get_src] using htgt
  · simp [instr_get_target, instr_get_src]
  · intro ht
    subst ht
    simp [instr_get_target, instr_get_src]
  · intro ht hb hraw
    subst ht
    subst hb
    simp only [Option.some.injEq] at hraw
    have hd := read_bytes_drop_two mem bytes
    rw [← hraw] at hd
    simp only [List.drop_succ_cons, List.drop_zero] at hd
    simp [instr_get_target, instr_get_src, ← hd]
  · simp [word_bytes, read_bytes_length]
  · simp [instr_get_src, hsrcs]

theorem remangle_short_rewrite_after_widener_witness :
    ∃ res out, convert_to_near_rel_arch ex_cfg none (ex_cbz false) 7 40960 = some res ∧
      instr_get_target res.instr = opnd_create_pc 8192 ∧
      remangle_short_rewrite ex_cfg ex_mem res.instr 20480 (some 8192) =
        some (out, 20480 + 6) ∧
      instr_get_target out = opnd_create_pc ((some (8192 : Int)).getD
        (ex_cfg.decode_raw_jmp_target (read_bytes ex_mem (20480 + CTI_SHORT_REWRITE_B_OFFS) 4)
          (20480 + CTI_SHORT_REWRITE_B_OFFS))) ∧
      (some (8192 : Int) = some 8192 → instr_get_target out = opnd_create_pc 8192) ∧
      (some (8192 : Int) = none → (40960 : Int) = 20480 →
        res.instr.raw_bits = some (read_bytes ex_mem 20480 6) →
        instr_get_target out = opnd_create_pc (ex_cfg.decode_raw_jmp_target
          (word_bytes (ex_cfg.encode_raw_jmp ex_cfg.isa_mode (20480 + 2) (20480 + 2)))
          (20480 + 2))) ∧
      out.raw_bits.map List.length = some 6 ∧
      out.raw_bits = some ((read_bytes ex_mem 20480 6).take 2 ++
        word_bytes (ex_cfg.encode_raw_jmp ex_cfg.isa_mode ((some (8192 : Int)).getD
          (ex_cfg.decode_raw_jmp_target
            (read_bytes ex_mem (20480 + CTI_SHORT_REWRITE_B_OFFS) 4)
            (20480 + CTI_SHORT_REWRITE_B_OFFS))) (20480 + 2))) ∧
      out.operands_valid = true ∧
      instr_get_src out 1 = instr_get_src (ex_cbz false) 1 ∧
      out.opcode = (ex_cbz false).opcode :=
  remangle_short_rewrite_after_widener ex_cfg ex_mem (ex_cbz false) 7 40960 8192 20480 4 4 0
    (some 8192) (by decide) (by decide) (by decide)
    (by
      intro res h
      rw [convert_to_near_rel_arch_app ex_cfg (ex_cbz false) 7 40960 8192 4 4 0
        (by decide) (by decide) (by decide)] at h
      cases h
      decide)

/-- C13 (counterexample): the widener gives `cbz r3, 8192`, with raw bytes
allocated at 20480, the bytes of the inverted compare-and-branch and of a `b`
encoded to its own address 20482, and keeps the target operand 8192.  With
those six bytes in memory at 20480, `remangle_short_rewrite` called without a
target returns 20486 and an instruction whose target operand is 20482, not
8192. -/
theorem remangle_short_rewrite_null_target_reads_self_branch :
    ∃ res out, convert_to_near_rel_arch ex_cfg none (ex_cbz false) 7 20480 = some res ∧
      instr_get_target res.instr = opnd_create_pc 8192 ∧
      res.instr.raw_bits = some (read_bytes ex_widened_mem 20480 6) ∧
      remangle_short_rewrite ex_cfg ex_widened_mem res.instr 20480 none =
        some (out, 20486) ∧
      instr_get_target out = opnd_create_pc 20482 ∧
      instr_get_target out ≠ instr_get_target (ex_cbz false) := by
  refine ⟨_, _, rfl, ?_, ?_, rfl, ?_, ?_⟩ <;> decide

/-- The meta path of the widener, for every meta `cbz`/`cbnz` and every list:
behind the inverted, retargeted compare-and-branch stands that same
instruction again, then `b target`, the new label and the old successors;
the `b` is returned. -/
theorem convert_to_near_rel_arch_meta (cfg : config_t) (after : List instr_t)
    (instr : instr_t) (fall_id : Nat) (bytes : Int)
    (hop : instr.opcode = OP_cbz ∨ instr.opcode = OP_cbnz)
    (hmeta : instr_is_meta instr = true) :
    convert_to_near_rel_arch cfg (some after) instr fall_id bytes =
      some { instr := instr_invert_cbr (instr_set_target (meta_insert cfg instr)
               (opnd_create_instr (INSTR_CREATE_label fall_id))),
             after := instr_invert_cbr (instr_set_target (meta_insert cfg instr)
                 (opnd_create_instr (INSTR_CREATE_label fall_id))) ::
               meta_insert cfg (INSTR_CREATE_b (instr_get_target instr)) ::
               meta_insert cfg (INSTR_CREATE_label fall_id) :: after,
             ret := meta_insert cfg (INSTR_CREATE_b (instr_get_target instr)) } := by
  have hns : instr.opcode ≠ OP_b_short := by
    rcases hop with h | h <;> rw [h] <;> decide
  simp only [convert_to_near_rel_arch, if_neg hns, if_pos hop, hmeta, Bool.true_eq_false,
    if_false]

/-- C16: a meta `cbz r3, 8192` followed in its list by one instruction.  After
`convert_to_near_rel_arch` the inverted `cbnz` to the new label is followed by
itself (the third `instrlist_meta_postinsert` links `instr` behind `instr`),
and only then by `b 8192`, the label and the old successor: four
instructions stand where one stood, in a list in which the compare-and-branch
is its own successor.  The returned instruction is the `b`. -/
theorem convert_to_near_rel_arch_meta_links_instr_after_itself :
    convert_to_near_rel_arch ex_cfg (some [ex_add_stolen]) ex_meta_cbz 7 40960 =
      some { instr := ex_meta_cbnz_fall,
             after := [ex_meta_cbnz_fall,
                       meta_insert ex_cfg (INSTR_CREATE_b (opnd_create_pc 8192)),
                       meta_insert ex_cfg (INSTR_CREATE_label 7),
                       ex_add_stolen],
             ret := meta_insert ex_cfg (INSTR_CREATE_b (opnd_create_pc 8192)) } ∧
    instr_is_meta ex_meta_cbz = true ∧ ex_meta_cbz.opcode = OP_cbz ∧
    instr_get_target ex_meta_cbz = opnd_create_pc 8192 := by
  refine ⟨?_, rfl, rfl, rfl⟩
  rw [convert_to_near_rel_arch_meta ex_cfg [ex_add_stolen] ex_meta_cbz 7 40960 (Or.inl rfl) rfl]
  rfl

/-! ## Table branches -/

theorem exec_meta_add (cfg : config_t) (app : instr_t → mstate → mstate) (d : Nat) (v : Int)
    (s : mstate) :
    exec_instr app (meta_insert cfg (XINST_CREATE_add (opnd_create_reg d) (OPND_CREATE_INT v))) s
      = s.set_reg d (wrap32 (s.regs d + v)) := by
  rw [exec_instr_unpredicated _ _ _ (by rfl)]
  rfl

theorem exec_meta_lsl (cfg : config_t) (app : instr_t → mstate → mstate) (d : Nat)
    (s : mstate) :
    exec_instr app (meta_insert cfg (INSTR_CREATE_lsl (opnd_create_reg d) (opnd_create_reg d)
        (OPND_CREATE_INT 1))) s
      = s.set_reg d (wrap32 (s.regs d * 2)) := by
  rw [exec_instr_unpredicated _ _ _ (by rfl)]
  rfl

theorem exec_meta_movt (cfg : config_t) (app : instr_t → mstate → mstate) (d : Nat) (v : Int)
    (s : mstate) :
    exec_instr app (meta_insert cfg (INSTR_CREATE_movt (opnd_create_reg d) (OPND_CREATE_INT v))) s
      = s.set_reg d (wrap32 (s.regs d % 65536 + (v % 65536) * 65536)) := by
  rw [exec_instr_unpredicated _ _ _ (by rfl)]
  rfl

/-- The arithmetic of the `tbb`/`tbh` sequence on its own: for every decode-time
PC value `cur_pc` (even or not) and every table entry `v` (below 2^8 for `tbb`,
below 2^16 for `tbh`) that the load left in `IBL_TARGET_REG`, the instructions
after the `ldrb`/`ldrh` (`lsl #1`, then a `movt` of the high half of `cur_pc`
and two adds for `tbb`, four adds for `tbh`) leave `IBL_TARGET_REG` holding
`(cur_pc + 2*v) | 1` modulo 2^32, and the immediate of every add is, as a
32-bit pattern, one byte shifted into one of the four byte lanes. -/
theorem mangle_indirect_jump_tb_arith (cfg : config_t) (instr : instr_t)
    (app : instr_t → mstate → mstate) (s : mstate) (v : Int)
    (hop : instr.opcode = OP_tbb ∨ instr.opcode = OP_tbh)
    (hv0 : 0 ≤ v) (hvb : instr.opcode = OP_tbb → v < 256)
    (hvh : instr.opcode = OP_tbh → v < 65536)
    (hs : s.regs cfg.IBL_TARGET_REG = v) :
    (mangle_indirect_jump_tb cfg instr).map (fun i => i.opcode) =
        (if instr.opcode = OP_tbb then [OP_ldrb, OP_lsl, OP_movt, OP_add, OP_add]
         else [OP_ldrh, OP_lsl, OP_add, OP_add, OP_add, OP_add]) ∧
      (exec_list app (mangle_indirect_jump_tb cfg instr).tail s).regs cfg.IBL_TARGET_REG =
        wrap32 (or_one (cfg.decode_cur_pc instr + 2 * v)) ∧
      ∀ i ∈ mangle_indirect_jump_tb cfg instr, i.opcode = OP_add →
        ∃ imm b : Int, ∃ k : Nat, instr_get_src i 1 = OPND_CREATE_INT imm ∧
          0 ≤ b ∧ b < 256 ∧ k < 4 ∧ wrap32 imm = b * 256 ^ k := by
  rcases hop with h | h
  · have hv := hvb h
    refine ⟨?_, ?_, ?_⟩
    · simp only [mangle_indirect_jump_tb, h, if_true, List.cons_append, List.nil_append,
        List.map_cons, List.map_nil]
      rfl
    · simp only [mangle_indirect_jump_tb, h, if_true, List.cons_append, List.nil_append,
        List.tail_cons, exec_list, exec_meta_add, exec_meta_lsl, exec_meta_movt, set_reg_same, hs]
      simp only [wrap32, u32, to_int32, or_one]
      omega
    · intro i hi hadd
      simp only [mangle_indirect_jump_tb, h, if_true, List.cons_append, List.nil_append,
        List.mem_cons, List.mem_singleton, List.not_mem_nil, or_false] at hi
      rcases hi with hi | hi | hi | hi | hi
      · rw [hi] at hadd; cases (show OP_ldrb = OP_add from hadd)
      · rw [hi] at hadd; cases (show OP_lsl = OP_add from hadd)
      · rw [hi] at hadd; cases (show OP_movt = OP_add from hadd)
      · refine ⟨_, to_int32 (cfg.decode_cur_pc instr) / 256 % 256, 1, by rw [hi]; rfl, ?_, ?_,
          by decide, ?_⟩
        · omega
        · omega
        · simp only [wrap32, to_int32]
          omega
      · refine ⟨_, or_one (to_int32 (cfg.decode_cur_pc instr) % 256), 0, by rw [hi]; rfl, ?_, ?_,
          by decide, ?_⟩
        · simp only [or_one]; omega
        · simp only [or_one]; omega
        · simp only [wrap32, to_int32, or_one]
          omega
  · have hv := hvh h
    have hne : ¬ (OP_tbh = OP_tbb) := by decide
    refine ⟨?_, ?_, ?_⟩
    · simp only [mangle_indirect_jump_tb, h, hne, if_false, List.cons_append, List.nil_append,
        List.map_cons, List.map_nil]
      rfl
    · simp only [mangle_indirect_jump_tb, h, hne, if_false, List.cons_append, List.nil_append,
        List.tail_cons, exec_list, exec_meta_add, exec_meta_lsl, set_reg_same, hs]
      simp only [wrap32, u32, to_int32, or_one]
      omega
    · intro i hi hadd
      simp only [mangle_indirect_jump_tb, h, hne, if_false, List.cons_append, List.nil_append,
        List.mem_cons, List.mem_singleton, List.not_mem_nil, or_false] at hi
      rcases hi with hi | hi | hi | hi | hi | hi
      · rw [hi] at hadd; cases (show OP_ldrh = OP_add from hadd)
      · rw [hi] at hadd; cases (show OP_lsl = OP_add from hadd)
      · refine ⟨_, u32 (to_int32 (cfg.decode_cur_pc instr)) / 16777216, 3, by rw [hi]; rfl,
          ?_, ?_, by decide, ?_⟩
        · simp only [u32]; omega
        · simp only [u32]; omega
        · simp only [wrap32, to_int32, u32]
          omega
      · refine ⟨_, to_int32 (cfg.decode_cur_pc instr) / 65536 % 256, 2, by rw [hi]; rfl, ?_, ?_,
          by decide, ?_⟩
        · omega
        · omega
        · simp only [wrap32, to_int32]
          omega
      · refine ⟨_, to_int32 (cfg.decode_cur_pc instr) / 256 % 256, 1, by rw [hi]; rfl, ?_, ?_,
          by decide, ?_⟩
        · omega
        · omega
        · simp only [wrap32, to_int32]
          omega
      · refine ⟨_, or_one (to_int32 (cfg.decode_cur_pc instr) % 256), 0, by rw [hi]; rfl, ?_, ?_,
          by decide, ?_⟩
        · simp only [or_one]; omega
        · simp only [or_one]; omega
        · simp only [wrap32, to_int32, or_one]
          omega

/-! ## Calls -/

theorem exec_insert_mov_immed_ptrsz_eq (cfg : config_t) (val : Int) (d : Nat)
    (app : instr_t → mstate → mstate) (s : mstate) :
    exec_list app (insert_mov_immed_ptrsz cfg val (opnd_create_reg d)) s
      = s.set_reg d (wrap32 val) := by
  unfold insert_mov_immed_ptrsz opnd_create_reg
  by_cases h1 : (0 ≤ - val - 1 ∧ - val - 1 ≤ 0xff)
  · rw [insert_mov_immed_arch_mvn cfg val _ h1]
    simp only [exec_list]
    rw [exec_instr_unpredicated _ _ _ (by rfl)]
    simp only [exec_body, meta_insert, list_insert, instr_set_meta, INSTR_CREATE_mvn,
      instr_create, OPND_CREATE_INT]
    congr 1
    unfold wrap32
    omega
  · by_cases h2 : (val / 65536) % 65536 = 0
    · rw [insert_mov_immed_arch_movw cfg val _ h1 h2]
      simp only [exec_list]
      rw [exec_instr_unpredicated _ _ _ (by rfl)]
      simp only [exec_body, meta_insert, list_insert, instr_set_meta, INSTR_CREATE_movw,
        instr_create, OPND_CREATE_INT]
      congr 1
      unfold wrap32
      omega
    · rw [insert_mov_immed_arch_movw_movt cfg val _ h1 h2]
      simp only [exec_list]
      rw [exec_instr_unpredicated _ _ _ (by rfl), exec_instr_unpredicated _ _ _ (by rfl)]
      simp only [exec_body, meta_insert, list_insert, instr_set_meta, INSTR_CREATE_movw,
        INSTR_CREATE_movt, instr_create, OPND_CREATE_INT, set_reg_same, set_reg_set_reg]
      congr 1
      unfold wrap32
      omega

theorem exec_meta_label (cfg : config_t) (app : instr_t → mstate → mstate) (id : Nat)
    (s : mstate) : exec_instr app (meta_insert cfg (INSTR_CREATE_label id)) s = s := by
  rw [exec_instr_unpredicated _ _ _ (by rfl)]
  rfl

theorem opnd_same_create_reg (a b : Nat) :
    opnd_same (opnd_create_reg a) (opnd_create_reg b) = decide (a = b) := by
  by_cases h : a = b
  · subst h
    simp [opnd_same]
  · simp [opnd_same, opnd_create_reg, h]

theorem app_instr_is_in_it_block_unpredicated (i : instr_t) (h : i.predicate = DR_PRED_NONE) :
    app_instr_is_in_it_block i = false ∧ instr_is_predicated i = false := by
  simp [app_instr_is_in_it_block, instr_is_predicated, instr_predicate_is_cond, h]

theorem remove_at_bound_inserted (pre : List instr_t) (b : instr_t) (ins : List instr_t)
    (instr : instr_t) (mid next : List instr_t) :
    remove_at_bound { prev := ins.reverse ++ b :: pre, instr := instr, mid := mid,
                      next := next } ins.length =
      some { prev := pre, instr := b, mid := ins ++ mid, next := next } := by
  have hd : List.drop ins.length (ins.reverse ++ b :: pre) = b :: pre := by
    rw [← List.length_reverse ins]
    exact List.drop_left _ _
  have ht : List.take ins.length (ins.reverse ++ b :: pre) = ins.reverse := by
    rw [← List.length_reverse ins]
    exact List.take_left _ _
  simp only [remove_at_bound, hd, ht, List.reverse_reverse]

/-- The instructions `mangle_indirect_call` puts between the label and the
call for a call through register `rm`. -/
theorem mangle_indirect_call_shape (cfg : config_t) (c : ilist_at) (bound_id : Nat) (rm : Nat)
    (hpred : c.instr.predicate = DR_PRED_NONE)
    (htgt : instr_get_target c.instr = opnd_create_reg rm) :
    mangle_indirect_call cfg c bound_id =
      some { prev := meta_insert cfg
                 (instr_create_save_to_tls cfg cfg.IBL_TARGET_REG cfg.IBL_TARGET_SLOT) :: c.prev,
             instr := meta_insert cfg (INSTR_CREATE_label bound_id),
             mid := ((if rm = cfg.IBL_TARGET_REG then []
                      else if rm = cfg.dr_reg_stolen then
                        [meta_insert cfg (instr_create_restore_from_tls cfg cfg.IBL_TARGET_REG
                          cfg.TLS_REG_STOLEN_SLOT)]
                      else [meta_insert cfg (XINST_CREATE_move
                          (opnd_create_reg cfg.IBL_TARGET_REG) (opnd_create_reg rm))]) ++
                     insert_mov_immed_ptrsz cfg
                       (to_int32 (PC_AS_JMP_TGT c.instr.isa_mode
                         (cfg.get_call_return_address c.instr)))
                       (opnd_create_reg DR_REG_LR)) ++ c.mid,
             next := c.next } := by
  obtain ⟨hit, hp⟩ := app_instr_is_in_it_block_unpredicated c.instr hpred
  have htg : (if decide (rm = cfg.IBL_TARGET_REG) = false then
        if decide (rm = cfg.dr_reg_stolen) = true then
          [meta_insert cfg
            (instr_create_restore_from_tls cfg cfg.IBL_TARGET_REG cfg.TLS_REG_STOLEN_SLOT)]
        else
          [meta_insert cfg
            (XINST_CREATE_move (opnd_create_reg cfg.IBL_TARGET_REG) (opnd_create_reg rm))]
      else []) =
      (if rm = cfg.IBL_TARGET_REG then []
       else if rm = cfg.dr_reg_stolen then
         [meta_insert cfg (instr_create_restore_from_tls cfg cfg.IBL_TARGET_REG
           cfg.TLS_REG_STOLEN_SLOT)]
       else [meta_insert cfg (XINST_CREATE_move
           (opnd_create_reg cfg.IBL_TARGET_REG) (opnd_create_reg rm))]) := by
    by_cases h1 : rm = cfg.IBL_TARGET_REG
    · simp only [h1, decide_True, Bool.true_eq_false, if_false, if_true]
    · by_cases h2 : rm = cfg.dr_reg_stolen
      · rw [if_neg h1, if_pos h2, if_pos (by simp [h1]), if_pos (by simp [h2])]
      · simp only [h1, decide_False, if_true, h2, if_false, Bool.false_eq_true]
  simp only [mangle_indirect_call, hit, hp, htgt, opnd_same_create_reg, Bool.false_eq_true,
    if_false, htg]
  generalize (if rm = cfg.IBL_TARGET_REG then []
       else if rm = cfg.dr_reg_stolen then
         [meta_insert cfg (instr_create_restore_from_tls cfg cfg.IBL_TARGET_REG
           cfg.TLS_REG_STOLEN_SLOT)]
       else [meta_insert cfg (XINST_CREATE_move
           (opnd_create_reg cfg.IBL_TARGET_REG) (opnd_create_reg rm))]) = tgt
  generalize insert_mov_immed_ptrsz cfg
      (to_int32 (PC_AS_JMP_TGT c.instr.isa_mode (cfg.get_call_return_address c.instr)))
      (opnd_create_reg DR_REG_LR) = movs
  have hr := remove_at_bound_inserted
    (meta_insert cfg (instr_create_save_to_tls cfg cfg.IBL_TARGET_REG cfg.IBL_TARGET_SLOT) ::
      c.prev) (meta_insert cfg (INSTR_CREATE_label bound_id)) (tgt ++ movs) c.instr c.mid c.next
  simp only [List.reverse_append, List.length_append, List.append_assoc] at hr ⊢
  rw [hr]

/-- C18: for every unpredicated `blx Rm` (any register, `lr`, `IBL_TARGET_REG`
and `dr_reg_stolen` included): `mangle_indirect_call` returns, the list it
leaves has the spill of `IBL_TARGET_REG`, the label and the inserted
instructions where the call stood (the call is gone, what followed it
follows still, and `next_instr` is the one passed in), and executing the
inserted instructions leaves the entry value of `IBL_TARGET_REG` in its TLS
slot, the entry value of `Rm` in `IBL_TARGET_REG` (the word in the TLS slot
of the stolen register when `Rm` is `dr_reg_stolen`), and
`PC_AS_JMP_TGT(mode, return address)` in `lr`; all other registers are as on
entry. -/
theorem mangle_indirect_call_unpredicated (cfg : config_t) (c : ilist_at) (bound_id : Nat)
    (rm : Nat) (app : instr_t → mstate → mstate) (s : mstate)
    (hpred : c.instr.predicate = DR_PRED_NONE)
    (htgt : instr_get_target c.instr = opnd_create_reg rm)
    (hlr : cfg.IBL_TARGET_REG ≠ DR_REG_LR)
    (hst : cfg.IBL_TARGET_REG ≠ cfg.dr_reg_stolen)
    (hslot : rm = cfg.dr_reg_stolen →
      wrap32 (s.regs cfg.dr_reg_stolen + cfg.os_tls_offset cfg.TLS_REG_STOLEN_SLOT) ≠
        wrap32 (s.regs cfg.dr_reg_stolen + cfg.os_tls_offset cfg.IBL_TARGET_SLOT)) :
    ∃ ins : List instr_t,
      mangle_indirect_call cfg c bound_id =
        some { prev := meta_insert cfg
                 (instr_create_save_to_tls cfg cfg.IBL_TARGET_REG cfg.IBL_TARGET_SLOT) :: c.prev,
               instr := meta_insert cfg (INSTR_CREATE_label bound_id),
               mid := ins ++ c.mid, next := c.next } ∧
      (exec_list app (meta_insert cfg
          (instr_create_save_to_tls cfg cfg.IBL_TARGET_REG cfg.IBL_TARGET_SLOT) ::
          meta_insert cfg (INSTR_CREATE_label bound_id) :: ins) s).mem
        (wrap32 (s.regs cfg.dr_reg_stolen + cfg.os_tls_offset cfg.IBL_TARGET_SLOT)) =
          s.regs cfg.IBL_TARGET_REG ∧
      (exec_list app (meta_insert cfg
          (instr_create_save_to_tls cfg cfg.IBL_TARGET_REG cfg.IBL_TARGET_SLOT) ::
          meta_insert cfg (INSTR_CREATE_label bound_id) :: ins) s).regs cfg.IBL_TARGET_REG =
        (if rm = cfg.dr_reg_stolen then
           s.mem (wrap32 (s.regs cfg.dr_reg_stolen + cfg.os_tls_offset cfg.TLS_REG_STOLEN_SLOT))
         else s.regs rm) ∧
      (exec_list app (meta_insert cfg
          (instr_create_save_to_tls cfg cfg.IBL_TARGET_REG cfg.IBL_TARGET_SLOT) ::
          meta_insert cfg (INSTR_CREATE_label bound_id) :: ins) s).regs DR_REG_LR =
        wrap32 (PC_AS_JMP_TGT c.instr.isa_mode (cfg.get_call_return_address c.instr)) ∧
      ∀ q, q ≠ cfg.IBL_TARGET_REG → q ≠ DR_REG_LR →
        (exec_list app (meta_insert cfg
          (instr_create_save_to_tls cfg cfg.IBL_TARGET_REG cfg.IBL_TARGET_SLOT) ::
          meta_insert cfg (INSTR_CREATE_label bound_id) :: ins) s).regs q = s.regs q := by
  refine ⟨_, mangle_indirect_call_shape cfg c bound_id rm hpred htgt, ?_⟩
  have hw : wrap32 (to_int32 (PC_AS_JMP_TGT c.instr.isa_mode
      (cfg.get_call_return_address c.instr))) =
      wrap32 (PC_AS_JMP_TGT c.instr.isa_mode (cfg.get_call_return_address c.instr)) :=
    to_int32_mod _
  by_cases h1 : rm = cfg.IBL_TARGET_REG
  · have h2 : rm ≠ cfg.dr_reg_stolen := fun h => hst (h1.symm.trans h)
    rw [if_pos h1, if_neg h2]
    simp only [List.nil_append, exec_list, exec_meta_save_to_tls, exec_meta_label,
      exec_insert_mov_immed_ptrsz_eq, hw, set_reg_mem, set_mem_same, set_reg_same, set_mem_regs]
    refine ⟨trivial, ?_, trivial, ?_⟩
    · rw [set_reg_other _ _ _ _ hlr, set_mem_regs, h1]
    · intro q _ hq
      rw [set_reg_other _ _ _ _ hq, set_mem_regs]
  · by_cases h2 : rm = cfg.dr_reg_stolen
    · rw [if_neg h1, if_pos h2, if_pos h2]
      simp only [List.singleton_append, List.append_eq, List.nil_append, exec_list,
        exec_meta_save_to_tls, exec_meta_label, exec_meta_restore_from_tls,
        exec_insert_mov_immed_ptrsz_eq, hw, set_reg_mem, set_mem_same, set_reg_same,
        set_mem_regs]
      refine ⟨trivial, ?_, trivial, ?_⟩
      · rw [set_reg_other _ _ _ _ hlr, set_reg_same, set_mem_other _ _ _ _ (hslot h2)]
      · intro q hq1 hq
        rw [set_reg_other _ _ _ _ hq, set_reg_other _ _ _ _ hq1, set_mem_regs]
    · rw [if_neg h1, if_neg h2, if_neg h2]
      simp only [List.singleton_append, List.append_eq, List.nil_append, exec_list,
        exec_meta_save_to_tls, exec_meta_label, XINST_CREATE_move, exec_meta_mov,
        exec_insert_mov_immed_ptrsz_eq, hw, set_reg_mem, set_mem_same, set_reg_same,
        set_mem_regs]
      refine ⟨trivial, ?_, trivial, ?_⟩
      · rw [set_reg_other _ _ _ _ hlr, set_reg_same]
      · intro q hq1 hq
        rw [set_reg_other _ _ _ _ hq, set_reg_other _ _ _ _ hq1, set_mem_regs]

theorem mangle_indirect_call_unpredicated_witness :
    ∃ ins : List instr_t,
      mangle_indirect_call ex_cfg ex_blx_stolen_at 9 =
        some { prev := meta_insert ex_cfg
                 (instr_create_save_to_tls ex_cfg ex_cfg.IBL_TARGET_REG ex_cfg.IBL_TARGET_SLOT) ::
                 ex_blx_stolen_at.prev,
               instr := meta_insert ex_cfg (INSTR_CREATE_label 9),
               mid := ins ++ ex_blx_stolen_at.mid, next := ex_blx_stolen_at.next } ∧
      (exec_list ex_app (meta_insert ex_cfg
          (instr_create_save_to_tls ex_cfg ex_cfg.IBL_TARGET_REG ex_cfg.IBL_TARGET_SLOT) ::
          meta_insert ex_cfg (INSTR_CREATE_label 9) :: ins) ex_state).mem
        (wrap32 (ex_state.regs ex_cfg.dr_reg_stolen +
          ex_cfg.os_tls_offset ex_cfg.IBL_TARGET_SLOT)) =
          ex_state.regs ex_cfg.IBL_TARGET_REG ∧
      (exec_list ex_app (meta_insert ex_cfg
          (instr_create_save_to_tls ex_cfg ex_cfg.IBL_TARGET_REG ex_cfg.IBL_TARGET_SLOT) ::
          meta_insert ex_cfg (INSTR_CREATE_label 9) :: ins) ex_state).regs
            ex_cfg.IBL_TARGET_REG =
        (if ex_cfg.dr_reg_stolen = ex_cfg.dr_reg_stolen then
           ex_state.mem (wrap32 (ex_state.regs ex_cfg.dr_reg_stolen +
             ex_cfg.os_tls_offset ex_cfg.TLS_REG_STOLEN_SLOT))
         else ex_state.regs ex_cfg.dr_reg_stolen) ∧
      (exec_list ex_app (meta_insert ex_cfg
          (instr_create_save_to_tls ex_cfg ex_cfg.IBL_TARGET_REG ex_cfg.IBL_TARGET_SLOT) ::
          meta_insert ex_cfg (INSTR_CREATE_label 9) :: ins) ex_state).regs DR_REG_LR =
        wrap32 (PC_AS_JMP_TGT ex_blx_stolen_at.instr.isa_mode
          (ex_cfg.get_call_return_address ex_blx_stolen_at.instr)) ∧
      ∀ q, q ≠ ex_cfg.IBL_TARGET_REG → q ≠ DR_REG_LR →
        (exec_list ex_app (meta_insert ex_cfg
          (instr_create_save_to_tls ex_cfg ex_cfg.IBL_TARGET_REG ex_cfg.IBL_TARGET_SLOT) ::
          meta_insert ex_cfg (INSTR_CREATE_label 9) :: ins) ex_state).regs q =
            ex_state.regs q :=
  mangle_indirect_call_unpredicated ex_cfg ex_blx_stolen_at 9 ex_cfg.dr_reg_stolen ex_app
    ex_state (by decide) (by decide) (by decide) (by decide) (fun _ => by decide)

/-! ## Execution across reinstated IT blocks -/

theorem it_blocks_ok_unpredicated (strict : Bool) (ann : List (Option instr_t × instr_t))
    (cur : List dr_pred_type_t) (ins : Bool) (h : it_blocks_ok strict cur ins ann = true) :
    ∀ it x, (some it, x) ∈ ann → it.opcode = OP_it ∧ instr_is_predicated it = false := by
  induction ann generalizing cur ins with
  | nil => simp
  | cons a rest ih =>
    obtain ⟨o, x⟩ := a
    intro it y hmem
    cases o with
    | some it0 =>
      simp only [it_blocks_ok, Bool.and_eq_true, List.isEmpty_iff, beq_iff_eq,
        Bool.not_eq_true', decide_eq_true_eq, List.all_eq_true, Bool.or_eq_true] at h
      obtain ⟨⟨⟨⟨⟨⟨⟨-, hop⟩, hnp⟩, -⟩, -⟩, -⟩, -⟩, hrest⟩ := h
      simp only [List.mem_cons, Prod.mk.injEq, Option.some.injEq] at hmem
      rcases hmem with ⟨rfl, rfl⟩ | hmem
      · exact ⟨hop, hnp⟩
      · exact ih _ _ hrest it y hmem
    | none =>
      simp only [List.mem_cons, Prod.mk.injEq, false_and, false_or, reduceCtorEq] at hmem
      rcases cur with _ | ⟨p, cur⟩
      · by_cases hop : x.opcode = OP_it
        · simp only [it_blocks_ok, hop, if_true, Bool.and_eq_true] at h
          exact ih _ _ h.2 it y hmem
        · simp only [it_blocks_ok, hop, if_false, Bool.and_eq_true] at h
          exact ih _ _ h.2 it y hmem
      · simp only [it_blocks_ok, Bool.and_eq_true] at h
        exact ih _ _ h.2 it y hmem

/-- An unconditional `OP_it` does nothing when executed. -/
theorem exec_instr_it (app : instr_t → mstate → mstate) (it : instr_t) (s : mstate)
    (hop : it.opcode = OP_it) (hp : instr_is_predicated it = false) :
    exec_instr app it s = s := by
  simp only [exec_instr, hp, Bool.false_and, Bool.false_eq_true, if_false]
  unfold exec_body
  rw [hop]

/-- Executing a range with inserted unconditional `OP_it`s is executing the
range. -/
theorem exec_it_flatten (app : instr_t → mstate → mstate)
    (ann : List (Option instr_t × instr_t))
    (h : ∀ it x, (some it, x) ∈ ann → it.opcode = OP_it ∧ instr_is_predicated it = false)
    (s : mstate) :
    exec_list app (it_flatten ann) s = exec_list app (ann.map Prod.snd) s := by
  induction ann generalizing s with
  | nil => rfl
  | cons a rest ih =>
    obtain ⟨o, x⟩ := a
    have hrest : ∀ it x, (some it, x) ∈ rest →
        it.opcode = OP_it ∧ instr_is_predicated it = false :=
      fun it y hm => h it y (List.mem_cons_of_mem _ hm)
    cases o with
    | none =>
      simp only [it_flatten, List.map_cons, exec_list]
      exact ih hrest _
    | some it =>
      obtain ⟨hop, hp⟩ := h it x (List.mem_cons_self _ _)
      simp only [it_flatten, List.map_cons, exec_list, exec_instr_it app it s hop hp]
      exact ih hrest _

/-- Reinstating IT blocks from a label on: the label stays where it is, the
instructions in front of it and from `next_instr` on are untouched, and
executing the range does what it did. -/
theorem mangle_reinstate_it_blocks_exec (cfg : config_t) (c : ilist_at)
    (app : instr_t → mstate → mstate) (s : mstate)
    (hop : c.instr.opcode ≠ OP_it) (hx : it_instr_predicated c.instr = false) :
    (mangle_reinstate_it_blocks cfg c 0).prev = c.prev ∧
    (mangle_reinstate_it_blocks cfg c 0).instr = c.instr ∧
    (mangle_reinstate_it_blocks cfg c 0).next = c.next ∧
    exec_list app ((mangle_reinstate_it_blocks cfg c 0).instr ::
      (mangle_reinstate_it_blocks cfg c 0).mid) s = exec_list app (c.instr :: c.mid) s := by
  unfold mangle_reinstate_it_blocks
  by_cases hm : cfg.isa_mode ≠ DR_ISA_ARM_THUMB
  · rw [if_pos hm]
    exact ⟨rfl, rfl, rfl, rfl⟩
  · rw [if_neg hm]
    simp only [List.take_zero, List.reverse_nil, List.nil_append, List.drop_zero]
    have hstep := reinstate_loop_plain cfg c.next it_scan.init c.instr c.mid rfl rfl hop hx
    have hok := (reinstate_loop_ok false cfg c.next c.mid).1 it_scan.init [] rfl rfl rfl
      (by intro h; cases h)
    have hsnd := reinstate_loop_snd cfg c.next c.mid it_scan.init
    rw [hstep]
    simp only [it_flatten, List.append_nil, Option.toList_none, List.nil_append, exec_list,
      true_and]
    rw [exec_it_flatten app _ (it_blocks_ok_unpredicated false _ _ _ hok), hsnd]
    exact ⟨rfl, rfl⟩
/-! ## Execution of predicated materialisations -/

theorem exec_instr_set_predicate_skip (app : instr_t → mstate → mstate) (i : instr_t)
    (p : dr_pred_type_t) (s : mstate) (hc : instr_predicate_is_cond p = true)
    (hs : s.cond p = false) : exec_instr app (instr_set_predicate i p) s = s := by
  simp [exec_instr, instr_is_predicated, instr_set_predicate, hc, hs]

theorem exec_list_map_set_predicate_skip (app : instr_t → mstate → mstate) (l : List instr_t)
    (p : dr_pred_type_t) (s : mstate) (hc : instr_predicate_is_cond p = true)
    (hs : s.cond p = false) :
    exec_list app (l.map (fun m => instr_set_predicate m p)) s = s := by
  induction l with
  | nil => rfl
  | cons x xs ih =>
    simp only [List.map_cons, exec_list, exec_instr_set_predicate_skip app x p s hc hs]
    exact ih

theorem exec_instr_set_predicate_run (app : instr_t → mstate → mstate) (i : instr_t)
    (p : dr_pred_type_t) (s : mstate)
    (h : (instr_predicate_is_cond p && !s.cond p) = false) :
    exec_instr app (instr_set_predicate i p) s = exec_body app (instr_set_predicate i p) s := by
  have h2 : (instr_is_predicated (instr_set_predicate i p) &&
      !s.cond (instr_set_predicate i p).predicate) = false := h
  simp only [exec_instr, h2, Bool.false_eq_true, if_false]

/-- A pointer-sized materialisation whose instructions carry predicate `p`
does nothing when `p` is a condition that fails, and loads the value
otherwise. -/
theorem exec_insert_mov_immed_ptrsz_pred (cfg : config_t) (val : Int) (d : Nat)
    (p : dr_pred_type_t) (app : instr_t → mstate → mstate) (s : mstate) :
    exec_list app ((insert_mov_immed_ptrsz cfg val (opnd_create_reg d)).map
        (fun m => instr_set_predicate m p)) s
      = if (instr_predicate_is_cond p && !s.cond p) = true then s
        else s.set_reg d (wrap32 val) := by
  by_cases hrun : (instr_predicate_is_cond p && !s.cond p) = true
  · rw [if_pos hrun]
    simp only [Bool.and_eq_true, Bool.not_eq_true'] at hrun
    exact exec_list_map_set_predicate_skip app _ p s hrun.1 hrun.2
  · rw [if_neg hrun]
    have hr : (instr_predicate_is_cond p && !s.cond p) = false := by
      simpa using hrun
    unfold insert_mov_immed_ptrsz opnd_create_reg
    by_cases h1 : (0 ≤ - val - 1 ∧ - val - 1 ≤ 0xff)
    · rw [insert_mov_immed_arch_mvn cfg val _ h1]
      simp only [List.map_cons, List.map_nil, exec_list]
      rw [exec_instr_set_predicate_run app _ p s hr]
      simp only [exec_body, meta_insert, list_insert, instr_set_meta, INSTR_CREATE_mvn,
        instr_create, OPND_CREATE_INT, instr_set_predicate]
      congr 1
      unfold wrap32
      omega
    · by_cases h2 : (val / 65536) % 65536 = 0
      · rw [insert_mov_immed_arch_movw cfg val _ h1 h2]
        simp only [List.map_cons, List.map_nil, exec_list]
        rw [exec_instr_set_predicate_run app _ p s hr]
        simp only [exec_body, meta_insert, list_insert, instr_set_meta, INSTR_CREATE_movw,
          instr_create, OPND_CREATE_INT, instr_set_predicate]
        congr 1
        unfold wrap32
        omega
      · rw [insert_mov_immed_arch_movw_movt cfg val _ h1 h2]
        simp only [List.map_cons, List.map_nil, exec_list]
        have hor : instr_predicate_is_cond p = false ∨ s.cond p = true := by
          cases hc : instr_predicate_is_cond p
          · exact Or.inl rfl
          · right
            simpa [hc] using hr
        rw [exec_instr_run app _ s hor]
        simp only [exec_body, meta_insert, list_insert, instr_set_meta, INSTR_CREATE_movw,
          INSTR_CREATE_movt, instr_create, OPND_CREATE_INT, instr_set_predicate]
        rw [exec_instr_run app _ _ hor]
        simp only [exec_body, set_reg_same, set_reg_set_reg]
        congr 1
        unfold wrap32
        omega

/-! ## Direct calls -/

theorem mangle_remove_from_it_block_instr (cfg : config_t) (c c' : ilist_at)
    (h : mangle_remove_from_it_block cfg c = some c') : c'.instr = c.instr ∧ c'.mid = [] := by
  unfold mangle_remove_from_it_block at h
  simp only [] at h
  by_cases h1 : c.instr.isa_mode ≠ DR_ISA_ARM_THUMB ∨ instr_is_predicated c.instr = false
  · rw [if_pos h1] at h
    cases h
    exact ⟨rfl, rfl⟩
  · rw [if_neg h1] at h
    by_cases h2 : ((List.takeWhile (fun p => p.opcode != OP_it) c.prev).any
        fun p => !instr_is_predicated p) = true
    · rw [if_pos h2] at h
      cases h
    · rw [if_neg h2] at h
      cases hd : List.drop (List.takeWhile (fun p => p.opcode != OP_it) c.prev).length c.prev with
      | nil =>
        rw [hd] at h
        cases h
      | cons it outer =>
        rw [hd] at h
        simp only [] at h
        by_cases h3 : ¬ (instr_it_block_get_count it >
            (List.takeWhile (fun p => p.opcode != OP_it) c.prev).length ∧
            instr_it_block_get_count it ≤ IT_BLOCK_MAX_INSTRS)
        · rw [if_pos h3] at h
          cases h
        · rw [if_neg h3] at h
          cases h
          exact ⟨rfl, rfl⟩

theorem insert_mov_immed_ptrsz_mem (cfg : config_t) (val : Int) (dst : opnd_t) (m : instr_t)
    (hm : m ∈ insert_mov_immed_ptrsz cfg val dst) :
    m.is_app = false ∧ m.predicate = DR_PRED_NONE ∧
      (m.opcode = OP_mvn ∨ m.opcode = OP_movw ∨ m.opcode = OP_movt) ∧ m.dsts = [dst] := by
  unfold insert_mov_immed_ptrsz at hm
  by_cases h1 : (0 ≤ - val - 1 ∧ - val - 1 ≤ 0xff)
  · rw [insert_mov_immed_arch_mvn cfg val _ h1] at hm
    simp only [List.mem_singleton] at hm
    subst hm
    exact ⟨rfl, rfl, Or.inl rfl, rfl⟩
  · by_cases h2 : (val / 65536) % 65536 = 0
    · rw [insert_mov_immed_arch_movw cfg val _ h1 h2] at hm
      simp only [List.mem_singleton] at hm
      subst hm
      exact ⟨rfl, rfl, Or.inr (Or.inl rfl), rfl⟩
    · rw [insert_mov_immed_arch_movw_movt cfg val _ h1 h2] at hm
      simp only [List.mem_cons, List.mem_singleton, List.not_mem_nil, or_false] at hm
      rcases hm with hm | hm <;> subst hm
      · exact ⟨rfl, rfl, Or.inr (Or.inl rfl), rfl⟩
      · exact ⟨rfl, rfl, Or.inr (Or.inr rfl), rfl⟩

theorem insert_mov_immed_ptrsz_length (cfg : config_t) (val : Int) (dst : opnd_t) :
    (insert_mov_immed_ptrsz cfg val dst).length = 1 ∨
      (insert_mov_immed_ptrsz cfg val dst).length = 2 := by
  unfold insert_mov_immed_ptrsz
  by_cases h1 : (0 ≤ - val - 1 ∧ - val - 1 ≤ 0xff)
  · rw [insert_mov_immed_arch_mvn cfg val _ h1]
    exact Or.inl rfl
  · by_cases h2 : (val / 65536) % 65536 = 0
    · rw [insert_mov_immed_arch_movw cfg val _ h1 h2]
      exact Or.inl rfl
    · rw [insert_mov_immed_arch_movw_movt cfg val _ h1 h2]
      exact Or.inr rfl

/-- The loop of `mangle_add_predicated_fall_through` gives every instruction
of a materialisation the predicate. -/
theorem mark_insert_mov_immed_ptrsz (cfg : config_t) (pred : dr_pred_type_t) (val : Int)
    (dst : opnd_t) :
    (insert_mov_immed_ptrsz cfg val dst).map (mangle_add_predicated_fall_through_mark cfg pred)
      = (insert_mov_immed_ptrsz cfg val dst).map (fun m => instr_set_predicate m pred) := by
  apply List.map_congr_left
  intro m hm
  obtain ⟨-, -, hop, -⟩ := insert_mov_immed_ptrsz_mem cfg val dst m hm
  have hn : instr_is_reg_spill_or_restore cfg m = none := by
    unfold instr_is_reg_spill_or_restore
    rcases hop with h | h | h <;> rw [h]
  simp [mangle_add_predicated_fall_through_mark, hn]

/-- The loop of `mangle_add_predicated_fall_through` leaves a TLS spill as it
is. -/
theorem mark_save_to_tls (cfg : config_t) (pred : dr_pred_type_t) (r slot : Nat) :
    mangle_add_predicated_fall_through_mark cfg pred
        (meta_insert cfg (instr_create_save_to_tls cfg r slot)) =
      meta_insert cfg (instr_create_save_to_tls cfg r slot) := by
  have hs : (instr_is_reg_spill_or_restore cfg
      (meta_insert cfg (instr_create_save_to_tls cfg r slot))).isNone = false := by
    unfold instr_create_save_to_tls opnd_create_tls_slot opnd_create_base_disp
    split_ifs <;>
      simp [instr_is_reg_spill_or_restore, meta_insert, list_insert, instr_set_meta,
        XINST_CREATE_store, instr_create, opnd_create_reg]
  have ha : instr_is_app (meta_insert cfg (instr_create_save_to_tls cfg r slot)) = false := rfl
  simp only [mangle_add_predicated_fall_through_mark, hs, ha, Bool.or_self, Bool.false_eq_true,
    if_false]

theorem map_set_predicate_none (cfg : config_t) (val : Int) (dst : opnd_t) :
    (insert_mov_immed_ptrsz cfg val dst).map (fun m => instr_set_predicate m DR_PRED_NONE)
      = insert_mov_immed_ptrsz cfg val dst := by
  conv_rhs => rw [← List.map_id (insert_mov_immed_ptrsz cfg val dst)]
  apply List.map_congr_left
  intro m hm
  obtain ⟨-, hp, -, -⟩ := insert_mov_immed_ptrsz_mem cfg val dst m hm
  cases m
  simp only [instr_set_predicate, id] at hp ⊢
  rw [hp]
/-- What `mangle_add_predicated_fall_through` does to a list in which the
instructions `ins` stand between `mangle_start` and `instr`. -/
theorem mangle_add_predicated_fall_through_shape (cfg : config_t) (pre : List instr_t)
    (b : instr_t) (ins : List instr_t) (instr : instr_t) (mid next : List instr_t)
    (hp : instr_is_predicated instr = true) :
    mangle_add_predicated_fall_through cfg
        { prev := ins.reverse ++ b :: pre, instr := instr, mid := mid, next := next }
        ins.length =
      some { prev := (ins.map (if instr_uses_reg instr cfg.dr_reg_stolen = false then
                        mangle_add_predicated_fall_through_mark cfg instr.predicate
                      else id)).reverse ++ b :: pre,
             instr := (if instr_uses_reg instr cfg.dr_reg_stolen = false then
                        mangle_add_predicated_fall_through_mark cfg instr.predicate
                      else id) instr,
             mid := mid.map (if instr_uses_reg instr cfg.dr_reg_stolen = false then
                        mangle_add_predicated_fall_through_mark cfg instr.predicate
                      else id) ++
               (insert_mov_immed_ptrsz cfg
                 (to_int32 (PC_AS_JMP_TGT instr.isa_mode (cfg.get_call_return_address instr)))
                 (opnd_create_reg cfg.IBL_TARGET_REG)).map
                   (fun m => instr_set_predicate m (instr_invert_predicate instr.predicate)),
             next := next } := by
  have hd : List.drop ins.length (ins.reverse ++ b :: pre) = b :: pre := by
    rw [← List.length_reverse ins]
    exact List.drop_left _ _
  have ht : List.take ins.length (ins.reverse ++ b :: pre) = ins.reverse := by
    rw [← List.length_reverse ins]
    exact List.take_left _ _
  simp only [mangle_add_predicated_fall_through, hp, Bool.true_eq_false, if_false, hd, ht]
  by_cases hu : instr_uses_reg instr cfg.dr_reg_stolen = false
  · simp only [hu, if_true, List.map_reverse]
  · have hu2 : instr_uses_reg instr cfg.dr_reg_stolen = true := by
      simpa using hu
    simp only [hu2, Bool.true_eq_false, if_false, List.map_id]
    rfl

theorem mangle_direct_call_blx_shape (cfg : config_t) (c c' : ilist_at) (bound_id : Nat)
    (T : Int) (hop : c.instr.opcode = OP_blx)
    (htgt : instr_get_target c.instr = opnd_create_pc T) (hmid : c.mid = [])
    (hc' : (if app_instr_is_in_it_block c.instr = true then mangle_remove_from_it_block cfg c
            else some c) = some c') :
    mangle_direct_call cfg c bound_id =
      some (if app_instr_is_in_it_block c.instr = true then
              mangle_reinstate_it_blocks cfg
                { prev := c'.prev, instr := meta_insert cfg (INSTR_CREATE_label bound_id),
                  mid := blx_sequence_spec cfg c.instr T, next := c'.next } 0
            else
              { prev := c'.prev, instr := meta_insert cfg (INSTR_CREATE_label bound_id),
                mid := blx_sequence_spec cfg c.instr T, next := c'.next }) := by
  have hi : c'.instr = c.instr ∧ c'.mid = [] := by
    by_cases hit : app_instr_is_in_it_block c.instr = true
    · rw [if_pos hit] at hc'
      exact mangle_remove_from_it_block_instr cfg c c' hc'
    · rw [if_neg hit] at hc'
      cases hc'
      exact ⟨rfl, hmid⟩
  obtain ⟨hi1, hi2⟩ := hi
  have hopc : (c.instr.opcode = OP_bl ∨ c.instr.opcode = OP_blx) := Or.inr hop
  have hnbl : c.instr.opcode ≠ OP_bl := by rw [hop]; decide
  have hpc : opnd_is_pc (instr_get_target c.instr) = true := by rw [htgt]; rfl
  have hT : opnd_get_pc (instr_get_target c.instr) = T := by rw [htgt]; rfl
  unfold mangle_direct_call
  simp only []
  rw [hc']
  simp only [hopc, not_true_eq_false, if_false, hpc, Bool.true_eq_false, if_neg hnbl, hT]
  have hor : PC_AS_JMP_TGT DR_ISA_ARM_THUMB T = or_one T := rfl
  rw [hor]
  generalize hl : insert_mov_immed_ptrsz cfg (to_int32 (PC_AS_JMP_TGT c.instr.isa_mode
    (cfg.get_call_return_address c.instr))) (opnd_create_reg DR_REG_LR) = lrmovs
  generalize ht : insert_mov_immed_ptrsz cfg
    (if c.instr.isa_mode = DR_ISA_ARM_A32 then to_int32 (or_one T) else T)
    (opnd_create_reg cfg.IBL_TARGET_REG) = tmovs
  generalize hsv : meta_insert cfg
    (instr_create_save_to_tls cfg cfg.IBL_TARGET_REG cfg.IBL_TARGET_SLOT) = save
  have hprev : tmovs.reverse ++ save :: lrmovs.reverse ++
      meta_insert cfg (INSTR_CREATE_label bound_id) :: c'.prev =
      (lrmovs ++ save :: tmovs).reverse ++
        meta_insert cfg (INSTR_CREATE_label bound_id) :: c'.prev := by
    simp
  have hk : lrmovs.length + 1 + tmovs.length = (lrmovs ++ save :: tmovs).length := by
    simp only [List.length_append, List.length_cons]
    omega
  rw [hprev, hk, hi1, hi2]
  by_cases hp : instr_is_predicated c.instr = true
  · have hassert : app_instr_is_in_it_block c.instr = true ∨
        c.instr.isa_mode ≠ DR_ISA_ARM_THUMB := by
      by_cases hm : c.instr.isa_mode = DR_ISA_ARM_THUMB
      · left
        simp [app_instr_is_in_it_block, hm, hp]
      · exact Or.inr hm
    rw [if_pos hp, mangle_add_predicated_fall_through_shape cfg _ _ _ _ _ _ hp]
    simp only [hassert, if_true]
    rw [← List.length_map (lrmovs ++ save :: tmovs)
      (if instr_uses_reg c.instr cfg.dr_reg_stolen = false then
        mangle_add_predicated_fall_through_mark cfg c.instr.predicate else id),
      remove_at_bound_inserted]
    simp only []
    have hmid2 : List.map (if instr_uses_reg c.instr cfg.dr_reg_stolen = false then
          mangle_add_predicated_fall_through_mark cfg c.instr.predicate else id)
          (lrmovs ++ save :: tmovs) ++
        (List.map (if instr_uses_reg c.instr cfg.dr_reg_stolen = false then
          mangle_add_predicated_fall_through_mark cfg c.instr.predicate else id) [] ++
          List.map (fun m => instr_set_predicate m (instr_invert_predicate c.instr.predicate))
            (insert_mov_immed_ptrsz cfg (to_int32 (PC_AS_JMP_TGT c.instr.isa_mode
              (cfg.get_call_return_address c.instr))) (opnd_create_reg cfg.IBL_TARGET_REG))) =
        blx_sequence_spec cfg c.instr T := by
      simp only [blx_sequence_spec, hp, if_true, true_and, hl, ht, hsv, List.map_nil,
        List.nil_append, List.map_append, List.map_cons, List.append_assoc, List.cons_append]
      by_cases hu : instr_uses_reg c.instr cfg.dr_reg_stolen = false
      · simp only [hu, if_true]
        rw [← hl, ← ht, ← hsv, mark_insert_mov_immed_ptrsz, mark_insert_mov_immed_ptrsz,
          mark_save_to_tls]
      · have hu2 : instr_uses_reg c.instr cfg.dr_reg_stolen = true := by
          simpa using hu
        simp only [hu2, Bool.true_eq_false, if_false, List.map_id, id]
        rw [← hl, ← ht, map_set_predicate_none, map_set_predicate_none]
    rw [hmid2]
  · rw [if_neg hp]
    simp only []
    rw [remove_at_bound_inserted]
    simp only []
    have hmid2 : lrmovs ++ save :: tmovs ++ [] = blx_sequence_spec cfg c.instr T := by
      simp only [blx_sequence_spec, hp, Bool.false_eq_true, false_and, if_false, hl, ht, hsv,
        List.append_nil]
      rw [← hl, ← ht, map_set_predicate_none, map_set_predicate_none]
    rw [hmid2]

theorem instr_invert_predicate_is_cond (p : dr_pred_type_t)
    (h : instr_predicate_is_cond p = true) :
    instr_predicate_is_cond (instr_invert_predicate p) = true := by
  cases p <;> first | rfl | (exact absurd h (by decide))

theorem set_mem_cond (s : mstate) (a v : Int) : (s.set_mem a v).cond = s.cond := rfl

/-- Executing the sequence of an immediate `blx` when the call is taken. -/
theorem exec_blx_sequence_spec (cfg : config_t) (instr : instr_t) (T : Int)
    (app : instr_t → mstate → mstate) (s : mstate)
    (hlr : cfg.IBL_TARGET_REG ≠ DR_REG_LR) (hst : cfg.dr_reg_stolen ≠ DR_REG_LR)
    (hrun : instr_is_predicated instr = true →
      s.cond instr.predicate = true ∧
        s.cond (instr_invert_predicate instr.predicate) = false) :
    exec_list app (blx_sequence_spec cfg instr T) s =
      ((s.set_reg DR_REG_LR (wrap32 (PC_AS_JMP_TGT instr.isa_mode
            (cfg.get_call_return_address instr)))).set_mem
          (wrap32 (s.regs cfg.dr_reg_stolen + cfg.os_tls_offset cfg.IBL_TARGET_SLOT))
          (s.regs cfg.IBL_TARGET_REG)).set_reg cfg.IBL_TARGET_REG
        (wrap32 (if instr.isa_mode = DR_ISA_ARM_A32 then or_one T else T)) := by
  have hw : wrap32 (to_int32 (PC_AS_JMP_TGT instr.isa_mode
      (cfg.get_call_return_address instr))) =
      wrap32 (PC_AS_JMP_TGT instr.isa_mode (cfg.get_call_return_address instr)) :=
    to_int32_mod _
  have hw2 : wrap32 (if instr.isa_mode = DR_ISA_ARM_A32 then to_int32 (or_one T) else T) =
      wrap32 (if instr.isa_mode = DR_ISA_ARM_A32 then or_one T else T) := by
    split_ifs
    · exact to_int32_mod _
    · rfl
  have hq : ∀ t : mstate, t.cond = s.cond →
      ¬ ((instr_predicate_is_cond
          (if instr_is_predicated instr = true ∧ instr_uses_reg instr cfg.dr_reg_stolen = false
            then instr.predicate else DR_PRED_NONE) &&
        !t.cond (if instr_is_predicated instr = true ∧
            instr_uses_reg instr cfg.dr_reg_stolen = false
            then instr.predicate else DR_PRED_NONE)) = true) := by
    intro t ht
    rw [ht]
    by_cases hc : instr_is_predicated instr = true ∧
        instr_uses_reg instr cfg.dr_reg_stolen = false
    · rw [if_pos hc]
      simp [(hrun hc.1).1]
    · rw [if_neg hc]
      simp [instr_predicate_is_cond]
  simp only [blx_sequence_spec, exec_list_append, exec_list, exec_insert_mov_immed_ptrsz_pred]
  rw [if_neg (hq s rfl), hw]
  rw [exec_meta_save_to_tls, set_reg_other _ _ _ _ hst, set_reg_other _ _ _ _ hlr]
  rw [if_neg (hq _ (by rw [set_mem_cond, set_reg_cond])), hw2]
  by_cases hp : instr_is_predicated instr = true
  · rw [if_pos hp]
    rw [exec_list_map_set_predicate_skip app _ _ _
      (instr_invert_predicate_is_cond _ hp) (by
        rw [set_reg_cond, set_mem_cond, set_reg_cond]
        exact (hrun hp).2)]
  · rw [if_neg hp]
    rfl
theorem it_flatten_mem (ann : List (Option instr_t × instr_t)) (i : instr_t)
    (h : i ∈ it_flatten ann) : i ∈ ann.map Prod.snd ∨ ∃ x, (some i, x) ∈ ann := by
  induction ann with
  | nil => simp [it_flatten] at h
  | cons a rest ih =>
    obtain ⟨o, x⟩ := a
    cases o with
    | none =>
      simp only [it_flatten, List.mem_cons] at h
      rcases h with h | h
      · exact Or.inl (by simp [h])
      · rcases ih h with h2 | ⟨y, h2⟩
        · exact Or.inl (by simp only [List.map_cons, List.mem_cons]; exact Or.inr h2)
        · exact Or.inr ⟨y, List.mem_cons_of_mem _ h2⟩
    | some it =>
      simp only [it_flatten, List.mem_cons] at h
      rcases h with h | h | h
      · exact Or.inr ⟨x, by rw [h]; exact List.mem_cons_self _ _⟩
      · exact Or.inl (by simp [h])
      · rcases ih h with h2 | ⟨y, h2⟩
        · exact Or.inl (by simp only [List.map_cons, List.mem_cons]; exact Or.inr h2)
        · exact Or.inr ⟨y, List.mem_cons_of_mem _ h2⟩

/-- After IT blocks are reinstated from a label on, the range holds the
instructions it held and `OP_it`s. -/
theorem mangle_reinstate_it_blocks_mid_mem (cfg : config_t) (c : ilist_at)
    (hop : c.instr.opcode ≠ OP_it) (hx : it_instr_predicated c.instr = false) :
    ∀ i ∈ (mangle_reinstate_it_blocks cfg c 0).mid, i ∈ c.mid ∨ i.opcode = OP_it := by
  unfold mangle_reinstate_it_blocks
  by_cases hm : cfg.isa_mode ≠ DR_ISA_ARM_THUMB
  · rw [if_pos hm]
    exact fun i hi => Or.inl hi
  · rw [if_neg hm]
    simp only [List.take_zero, List.reverse_nil, List.nil_append, List.drop_zero]
    have hstep := reinstate_loop_plain cfg c.next it_scan.init c.instr c.mid rfl rfl hop hx
    have hok := (reinstate_loop_ok false cfg c.next c.mid).1 it_scan.init [] rfl rfl rfl
      (by intro h; cases h)
    have hsnd := reinstate_loop_snd cfg c.next c.mid it_scan.init
    rw [hstep]
    simp only []
    intro i hi
    rcases it_flatten_mem _ i hi with h | ⟨x, h⟩
    · rw [hsnd] at h
      exact Or.inl h
    · exact Or.inr (it_blocks_ok_unpredicated false _ _ _ hok i x h).1

theorem blx_sequence_spec_opcode (cfg : config_t) (instr : instr_t) (T : Int) :
    ∀ i ∈ blx_sequence_spec cfg instr T,
      i.opcode = OP_mvn ∨ i.opcode = OP_movw ∨ i.opcode = OP_movt ∨ i.opcode = OP_str := by
  intro i hi
  simp only [blx_sequence_spec, List.mem_append, List.mem_cons, List.mem_map] at hi
  have hm : ∀ (val : Int) (dst : opnd_t) (p : dr_pred_type_t),
      (∃ a, a ∈ insert_mov_immed_ptrsz cfg val dst ∧ instr_set_predicate a p = i) →
      i.opcode = OP_mvn ∨ i.opcode = OP_movw ∨ i.opcode = OP_movt ∨ i.opcode = OP_str := by
    rintro val dst p ⟨a, ha, rfl⟩
    obtain ⟨-, -, h, -⟩ := insert_mov_immed_ptrsz_mem cfg val dst a ha
    rcases h with h | h | h
    · exact Or.inl h
    · exact Or.inr (Or.inl h)
    · exact Or.inr (Or.inr (Or.inl h))
  rcases hi with (hi | hi | hi) | hi
  · exact hm _ _ _ hi
  · rw [hi]
    exact Or.inr (Or.inr (Or.inr rfl))
  · exact hm _ _ _ hi
  · split_ifs at hi
    · simp only [List.mem_map] at hi
      exact hm _ _ _ hi
    · simp at hi

/-- C20: for every immediate `blx` to `T`, predicated or not, with `next_instr`
the instruction behind it: `mangle_direct_call` returns; in the list it leaves,
the label `bound_start` stands where the `blx` stood and is followed, up to
`next_instr`, by the materialisation of the return address in `lr`, the spill
of `IBL_TARGET_REG` to `IBL_TARGET_SLOT`, then the materialisation of the
target in `IBL_TARGET_REG` (and for a predicated `blx` the fall-through
materialisation), with nothing between them but `OP_it`s when the `blx` was in
an IT block; no `blx` is among them.  When the call is taken, executing them
leaves the entry value of `IBL_TARGET_REG` in its TLS slot, `T` with bit 0 set
in `IBL_TARGET_REG` when the call site is A32 and `T` itself when it is T32,
and `PC_AS_JMP_TGT(call-site mode, return address)` in `lr`. -/
theorem mangle_direct_call_blx (cfg : config_t) (c c' : ilist_at) (bound_id : Nat) (T : Int)
    (app : instr_t → mstate → mstate) (s : mstate)
    (hop : c.instr.opcode = OP_blx)
    (htgt : instr_get_target c.instr = opnd_create_pc T) (hmid : c.mid = [])
    (hc' : (if app_instr_is_in_it_block c.instr = true then mangle_remove_from_it_block cfg c
            else some c) = some c')
    (hlr : cfg.IBL_TARGET_REG ≠ DR_REG_LR) (hst : cfg.dr_reg_stolen ≠ DR_REG_LR)
    (hrun : instr_is_predicated c.instr = true →
      s.cond c.instr.predicate = true ∧
        s.cond (instr_invert_predicate c.instr.predicate) = false) :
    ∃ r, mangle_direct_call cfg c bound_id = some r ∧
      r.prev = c'.prev ∧ r.instr = meta_insert cfg (INSTR_CREATE_label bound_id) ∧
      r.next = c'.next ∧
      (blx_sequence_spec cfg c.instr T).Sublist r.mid ∧
      (∀ i ∈ r.mid, i ∈ blx_sequence_spec cfg c.instr T ∨ i.opcode = OP_it) ∧
      (app_instr_is_in_it_block c.instr = false → r.mid = blx_sequence_spec cfg c.instr T) ∧
      (∀ i ∈ r.instr :: r.mid, i.opcode ≠ OP_blx) ∧
      (exec_list app (r.instr :: r.mid) s).mem
          (wrap32 (s.regs cfg.dr_reg_stolen + cfg.os_tls_offset cfg.IBL_TARGET_SLOT)) =
        s.regs cfg.IBL_TARGET_REG ∧
      (exec_list app (r.instr :: r.mid) s).regs cfg.IBL_TARGET_REG =
        wrap32 (if c.instr.isa_mode = DR_ISA_ARM_A32 then or_one T else T) ∧
      (exec_list app (r.instr :: r.mid) s).regs DR_REG_LR =
        wrap32 (PC_AS_JMP_TGT c.instr.isa_mode (cfg.get_call_return_address c.instr)) := by
  have hshape := mangle_direct_call_blx_shape cfg c c' bound_id T hop htgt hmid hc'
  have hlop : (meta_insert cfg (INSTR_CREATE_label bound_id)).opcode ≠ OP_it := by
    intro h
    cases (show OP_label = OP_it from h)
  have hlx : it_instr_predicated (meta_insert cfg (INSTR_CREATE_label bound_id)) = false := rfl
  have hexec0 : exec_list app (meta_insert cfg (INSTR_CREATE_label bound_id) ::
      blx_sequence_spec cfg c.instr T) s =
      ((s.set_reg DR_REG_LR (wrap32 (PC_AS_JMP_TGT c.instr.isa_mode
            (cfg.get_call_return_address c.instr)))).set_mem
          (wrap32 (s.regs cfg.dr_reg_stolen + cfg.os_tls_offset cfg.IBL_TARGET_SLOT))
          (s.regs cfg.IBL_TARGET_REG)).set_reg cfg.IBL_TARGET_REG
        (wrap32 (if c.instr.isa_mode = DR_ISA_ARM_A32 then or_one T else T)) := by
    simp only [exec_list, exec_meta_label]
    exact exec_blx_sequence_spec cfg c.instr T app s hlr hst hrun
  have hnoblx : ∀ i ∈ blx_sequence_spec cfg c.instr T, i.opcode ≠ OP_blx := by
    intro i hi h
    rcases blx_sequence_spec_opcode cfg c.instr T i hi with h2 | h2 | h2 | h2 <;>
      rw [h] at h2 <;> cases h2
  have hfinal : ∀ st : mstate,
      st = ((s.set_reg DR_REG_LR (wrap32 (PC_AS_JMP_TGT c.instr.isa_mode
            (cfg.get_call_return_address c.instr)))).set_mem
          (wrap32 (s.regs cfg.dr_reg_stolen + cfg.os_tls_offset cfg.IBL_TARGET_SLOT))
          (s.regs cfg.IBL_TARGET_REG)).set_reg cfg.IBL_TARGET_REG
        (wrap32 (if c.instr.isa_mode = DR_ISA_ARM_A32 then or_one T else T)) →
      st.mem (wrap32 (s.regs cfg.dr_reg_stolen + cfg.os_tls_offset cfg.IBL_TARGET_SLOT)) =
        s.regs cfg.IBL_TARGET_REG ∧
      st.regs cfg.IBL_TARGET_REG =
        wrap32 (if c.instr.isa_mode = DR_ISA_ARM_A32 then or_one T else T) ∧
      st.regs DR_REG_LR =
        wrap32 (PC_AS_JMP_TGT c.instr.isa_mode (cfg.get_call_return_address c.instr)) := by
    intro st hst2
    subst hst2
    refine ⟨?_, ?_, ?_⟩
    · rw [set_reg_mem, set_mem_same]
    · rw [set_reg_same]
    · rw [set_reg_other _ _ _ _ (Ne.symm hlr), set_mem_regs, set_reg_same]
  by_cases hit : app_instr_is_in_it_block c.instr = true
  · rw [if_pos hit] at hshape
    have hk := mangle_reinstate_it_blocks_keeps cfg
      { prev := c'.prev, instr := meta_insert cfg (INSTR_CREATE_label bound_id),
        mid := blx_sequence_spec cfg c.instr T, next := c'.next } 0 (Nat.zero_le _)
    have he := mangle_reinstate_it_blocks_exec cfg
      { prev := c'.prev, instr := meta_insert cfg (INSTR_CREATE_label bound_id),
        mid := blx_sequence_spec cfg c.instr T, next := c'.next } app s hlop hlx
    have hmm := mangle_reinstate_it_blocks_mid_mem cfg
      { prev := c'.prev, instr := meta_insert cfg (INSTR_CREATE_label bound_id),
        mid := blx_sequence_spec cfg c.instr T, next := c'.next } hlop hlx
    refine ⟨_, hshape, he.1, he.2.1, he.2.2.1, hk.2.2.1, hmm, ?_, ?_, ?_⟩
    · intro hf
      rw [hit] at hf
      cases hf
    · intro i hi
      rw [List.mem_cons] at hi
      rcases hi with hi | hi
      · rw [hi, he.2.1]
        intro h
        cases (show OP_label = OP_blx from h)
      · rcases hmm i hi with h | h
        · exact hnoblx i h
        · rw [h]
          decide
    · rw [he.2.2.2]
      exact hfinal _ hexec0
  · rw [if_neg hit] at hshape
    refine ⟨_, hshape, rfl, rfl, rfl, List.Sublist.refl _, fun i hi => Or.inl hi,
      fun _ => rfl, ?_, hfinal _ hexec0⟩
    intro i hi
    rw [List.mem_cons] at hi
    rcases hi with hi | hi
    · rw [hi]
      intro h
      cases (show OP_label = OP_blx from h)
    · exact hnoblx i hi

theorem mangle_direct_call_blx_witness :
    ∃ r, mangle_direct_call ex_cfg ex_blx_a32_at 9 = some r ∧
      r.prev = ex_blx_a32_at.prev ∧ r.instr = meta_insert ex_cfg (INSTR_CREATE_label 9) ∧
      r.next = ex_blx_a32_at.next ∧
      (blx_sequence_spec ex_cfg ex_blx_a32_at.instr 8192).Sublist r.mid ∧
      (∀ i ∈ r.mid, i ∈ blx_sequence_spec ex_cfg ex_blx_a32_at.instr 8192 ∨ i.opcode = OP_it) ∧
      (app_instr_is_in_it_block ex_blx_a32_at.instr = false →
        r.mid = blx_sequence_spec ex_cfg ex_blx_a32_at.instr 8192) ∧
      (∀ i ∈ r.instr :: r.mid, i.opcode ≠ OP_blx) ∧
      (exec_list ex_app (r.instr :: r.mid) ex_state).mem
          (wrap32 (ex_state.regs ex_cfg.dr_reg_stolen +
            ex_cfg.os_tls_offset ex_cfg.IBL_TARGET_SLOT)) =
        ex_state.regs ex_cfg.IBL_TARGET_REG ∧
      (exec_list ex_app (r.instr :: r.mid) ex_state).regs ex_cfg.IBL_TARGET_REG =
        wrap32 (if ex_blx_a32_at.instr.isa_mode = DR_ISA_ARM_A32 then or_one 8192 else 8192) ∧
      (exec_list ex_app (r.instr :: r.mid) ex_state).regs DR_REG_LR =
        wrap32 (PC_AS_JMP_TGT ex_blx_a32_at.instr.isa_mode
          (ex_cfg.get_call_return_address ex_blx_a32_at.instr)) :=
  mangle_direct_call_blx ex_cfg ex_blx_a32_at ex_blx_a32_at 9 8192 ex_app ex_state
    (by decide) (by decide) (by decide) (by decide) (by decide) (by decide)
    (fun h => absurd h (by decide))

/-- C19 (amended): for an unpredicated `bl target` at T32 address `P` (return
address `P + 4`), `mangle_direct_call` returns and leaves, where the `bl`
stood, the label `bound_start` and one or two meta instructions (`mvn`, or
`movw` with an optional `movt`) that write `lr` and, executed, leave
`PC_AS_JMP_TGT(T32, P + 4)` in it.  Nothing else is inserted, in particular no
`b target`: what followed the `bl` follows the materialisation, and the `bl`
is gone. -/
theorem mangle_direct_call_bl_unpredicated (cfg : config_t) (c : ilist_at) (bound_id : Nat)
    (T P : Int) (app : instr_t → mstate → mstate) (s : mstate)
    (hop : c.instr.opcode = OP_bl) (hpred : c.instr.predicate = DR_PRED_NONE)
    (htgt : instr_get_target c.instr = opnd_create_pc T)
    (hmode : c.instr.isa_mode = DR_ISA_ARM_THUMB)
    (hret : cfg.get_call_return_address c.instr = P + 4) :
    ∃ movs : List instr_t,
      mangle_direct_call cfg c bound_id =
        some { prev := c.prev, instr := meta_insert cfg (INSTR_CREATE_label bound_id),
               mid := movs ++ c.mid, next := c.next } ∧
      (movs.length = 1 ∨ movs.length = 2) ∧
      (∀ m ∈ movs, m.is_app = false ∧ m.predicate = DR_PRED_NONE ∧
        (m.opcode = OP_mvn ∨ m.opcode = OP_movw ∨ m.opcode = OP_movt) ∧
        m.dsts = [opnd_create_reg DR_REG_LR]) ∧
      exec_list app movs s =
        s.set_reg DR_REG_LR (wrap32 (PC_AS_JMP_TGT DR_ISA_ARM_THUMB (P + 4))) := by
  obtain ⟨hit, hp⟩ := app_instr_is_in_it_block_unpredicated c.instr hpred
  have hopc : (c.instr.opcode = OP_bl ∨ c.instr.opcode = OP_blx) := Or.inl hop
  have hpc : opnd_is_pc (instr_get_target c.instr) = true := by rw [htgt]; rfl
  refine ⟨insert_mov_immed_ptrsz cfg (to_int32 (PC_AS_JMP_TGT DR_ISA_ARM_THUMB (P + 4)))
    (opnd_create_reg DR_REG_LR), ?_, insert_mov_immed_ptrsz_length _ _ _,
    fun m hm => insert_mov_immed_ptrsz_mem _ _ _ m hm, ?_⟩
  · unfold mangle_direct_call
    simp only [hit, hp, Bool.false_eq_true, if_false, hopc, not_true_eq_false, hpc,
      Bool.true_eq_false, hop, if_true, hmode, hret]
    rw [remove_at_bound_inserted]
    simp only [true_or, not_true_eq_false, if_false]
  · rw [exec_insert_mov_immed_ptrsz_eq]
    congr 1
    exact to_int32_mod _

theorem mangle_direct_call_bl_unpredicated_witness :
    ∃ movs : List instr_t,
      mangle_direct_call ex_cfg ex_bl_at 9 =
        some { prev := ex_bl_at.prev, instr := meta_insert ex_cfg (INSTR_CREATE_label 9),
               mid := movs ++ ex_bl_at.mid, next := ex_bl_at.next } ∧
      (movs.length = 1 ∨ movs.length = 2) ∧
      (∀ m ∈ movs, m.is_app = false ∧ m.predicate = DR_PRED_NONE ∧
        (m.opcode = OP_mvn ∨ m.opcode = OP_movw ∨ m.opcode = OP_movt) ∧
        m.dsts = [opnd_create_reg DR_REG_LR]) ∧
      exec_list ex_app movs ex_state =
        ex_state.set_reg DR_REG_LR (wrap32 (PC_AS_JMP_TGT DR_ISA_ARM_THUMB (12288 + 4))) :=
  mangle_direct_call_bl_unpredicated ex_cfg ex_bl_at 9 8192 12288 ex_app ex_state
    (by decide) (by decide) (by decide) (by decide) (by decide)

/-- C19 as stated fails: for the unpredicated Thumb `bl 8192` of `ex_bl_at` the
list after `mangle_direct_call` is the instruction in front, the label, one
`movw lr`, and the instruction that followed the `bl`; there is no `b`. -/
theorem mangle_direct_call_bl_inserts_no_branch :
    ex_bl_at.instr.opcode = OP_bl ∧ ex_bl_at.instr.predicate = DR_PRED_NONE ∧
    ex_bl_at.instr.isa_mode = DR_ISA_ARM_THUMB ∧
    (mangle_direct_call ex_cfg ex_bl_at 9).map (fun r => r.to_list.map (fun i => i.opcode)) =
      some [OP_add, OP_label, OP_movw, OP_add] ∧
    (mangle_direct_call ex_cfg ex_bl_at 9).map
        (fun r => r.to_list.any (fun i => i.opcode == OP_b)) = some false := by
  decide

/-! ## System calls -/

/-- C21 (amended): for every permitted stolen register (r8..r12) and every
unpredicated system call, `mangle_syscall_arch` returns and inserts
`str r10, [tls:slot1]; mov r10, stolen` in front of the system call and
`mov stolen, r10; ldr r10, [tls:slot1]` in front of `next_instr` if and only
if the stolen register is r8, r9 or r12 (that is: neither r10 nor r11);
`str r0, [tls:slot0]` is inserted immediately in front of the system call in
every case, and nothing else is inserted. -/
theorem mangle_syscall_arch_inserts (cfg : config_t) (c : ilist_at)
    (hperm : DR_REG_STOLEN_MIN ≤ cfg.dr_reg_stolen ∧ cfg.dr_reg_stolen ≤ DR_REG_STOLEN_MAX)
    (hpred : instr_is_predicated c.instr = false) :
    ∃ r, mangle_syscall_arch cfg c = some r ∧
      r.to_list = c.prev.reverse ++
        (if cfg.dr_reg_stolen = DR_REG_R8 ∨ cfg.dr_reg_stolen = DR_REG_R9 ∨
            cfg.dr_reg_stolen = DR_REG_R12 then
           [meta_insert cfg (instr_create_save_to_tls cfg DR_REG_R10 (TLS_REG1_SLOT cfg)),
            meta_insert cfg (XINST_CREATE_move (opnd_create_reg DR_REG_R10)
              (opnd_create_reg cfg.dr_reg_stolen))]
         else []) ++
        [meta_insert cfg (instr_create_save_to_tls cfg DR_REG_R0 cfg.TLS_REG0_SLOT), c.instr] ++
        c.mid ++
        (if cfg.dr_reg_stolen = DR_REG_R8 ∨ cfg.dr_reg_stolen = DR_REG_R9 ∨
            cfg.dr_reg_stolen = DR_REG_R12 then
           [meta_insert cfg (XINST_CREATE_move (opnd_create_reg cfg.dr_reg_stolen)
              (opnd_create_reg DR_REG_R10)),
            meta_insert cfg (instr_create_restore_from_tls cfg DR_REG_R10 (TLS_REG1_SLOT cfg))]
         else []) ++ c.next ∧
      r.instr = c.instr ∧ r.next = c.next ∧
      r.prev.head? =
        some (meta_insert cfg (instr_create_save_to_tls cfg DR_REG_R0 cfg.TLS_REG0_SLOT)) := by
  have hmin : DR_REG_STOLEN_MIN > DR_REG_SYSNUM := by decide
  have hiff : (cfg.dr_reg_stolen ≠ DR_REG_R10 ∧ cfg.dr_reg_stolen ≠ DR_REG_R11) ↔
      (cfg.dr_reg_stolen = DR_REG_R8 ∨ cfg.dr_reg_stolen = DR_REG_R9 ∨
        cfg.dr_reg_stolen = DR_REG_R12) := by
    simp only [DR_REG_STOLEN_MIN, DR_REG_STOLEN_MAX, DR_REG_R8, DR_REG_R9, DR_REG_R10,
      DR_REG_R11, DR_REG_R12, DR_REG_R0] at hperm ⊢
    omega
  by_cases hsw : cfg.dr_reg_stolen ≠ DR_REG_R10 ∧ cfg.dr_reg_stolen ≠ DR_REG_R11
  · have h : mangle_syscall_arch cfg c = some
        { prev := meta_insert cfg (instr_create_save_to_tls cfg DR_REG_R0 cfg.TLS_REG0_SLOT) ::
            meta_insert cfg (XINST_CREATE_move (opnd_create_reg DR_REG_R10)
              (opnd_create_reg cfg.dr_reg_stolen)) ::
            meta_insert cfg (instr_create_save_to_tls cfg DR_REG_R10 (TLS_REG1_SLOT cfg)) ::
            c.prev,
          instr := c.instr,
          mid := c.mid ++
            [meta_insert cfg (XINST_CREATE_move (opnd_create_reg cfg.dr_reg_stolen)
               (opnd_create_reg DR_REG_R10)),
             meta_insert cfg
               (instr_create_restore_from_tls cfg DR_REG_R10 (TLS_REG1_SLOT cfg))],
          next := c.next } := by
      simp only [mangle_syscall_arch, hpred, Bool.false_eq_true, if_false, hmin,
        not_true_eq_false, if_pos hsw]
    refine ⟨_, h, ?_, rfl, rfl, rfl⟩
    rw [if_pos (hiff.mp hsw), if_pos (hiff.mp hsw)]
    simp [ilist_at.to_list]
  · have h : mangle_syscall_arch cfg c = some
        { prev := meta_insert cfg (instr_create_save_to_tls cfg DR_REG_R0 cfg.TLS_REG0_SLOT) ::
            c.prev,
          instr := c.instr, mid := c.mid, next := c.next } := by
      simp only [mangle_syscall_arch, hpred, Bool.false_eq_true, if_false, hmin,
        not_true_eq_false, if_neg hsw]
    refine ⟨_, h, ?_, rfl, rfl, rfl⟩
    rw [if_neg (fun h => hsw (hiff.mpr h)), if_neg (fun h => hsw (hiff.mpr h))]
    simp [ilist_at.to_list]

theorem mangle_syscall_arch_inserts_witness :
    ∃ r, mangle_syscall_arch ex_cfg ex_svc_at = some r ∧
      r.to_list = ex_svc_at.prev.reverse ++
        (if ex_cfg.dr_reg_stolen = DR_REG_R8 ∨ ex_cfg.dr_reg_stolen = DR_REG_R9 ∨
            ex_cfg.dr_reg_stolen = DR_REG_R12 then
           [meta_insert ex_cfg (instr_create_save_to_tls ex_cfg DR_REG_R10 (TLS_REG1_SLOT ex_cfg)),
            meta_insert ex_cfg (XINST_CREATE_move (opnd_create_reg DR_REG_R10)
              (opnd_create_reg ex_cfg.dr_reg_stolen))]
         else []) ++
        [meta_insert ex_cfg (instr_create_save_to_tls ex_cfg DR_REG_R0 ex_cfg.TLS_REG0_SLOT),
          ex_svc_at.instr] ++
        ex_svc_at.mid ++
        (if ex_cfg.dr_reg_stolen = DR_REG_R8 ∨ ex_cfg.dr_reg_stolen = DR_REG_R9 ∨
            ex_cfg.dr_reg_stolen = DR_REG_R12 then
           [meta_insert ex_cfg (XINST_CREATE_move (opnd_create_reg ex_cfg.dr_reg_stolen)
              (opnd_create_reg DR_REG_R10)),
            meta_insert ex_cfg
              (instr_create_restore_from_tls ex_cfg DR_REG_R10 (TLS_REG1_SLOT ex_cfg))]
         else []) ++ ex_svc_at.next ∧
      r.instr = ex_svc_at.instr ∧ r.next = ex_svc_at.next ∧
      r.prev.head? =
        some (meta_insert ex_cfg
          (instr_create_save_to_tls ex_cfg DR_REG_R0 ex_cfg.TLS_REG0_SLOT)) :=
  mangle_syscall_arch_inserts ex_cfg ex_svc_at (by decide) (by decide)

/-- C21 as stated fails for r12: with r12 stolen (a permitted register that is
neither r8 nor r9) the swap through r10 is inserted on both sides of the
system call. -/
theorem mangle_syscall_arch_swaps_for_r12 :
    DR_REG_STOLEN_MIN ≤ ex_cfg_r12.dr_reg_stolen ∧
    ex_cfg_r12.dr_reg_stolen ≤ DR_REG_STOLEN_MAX ∧
    ex_cfg_r12.dr_reg_stolen ≠ DR_REG_R8 ∧ ex_cfg_r12.dr_reg_stolen ≠ DR_REG_R9 ∧
    (mangle_syscall_arch ex_cfg_r12 ex_svc_at).map (fun r => r.to_list) =
      some [ex_add_stolen,
        meta_insert ex_cfg_r12
          (instr_create_save_to_tls ex_cfg_r12 DR_REG_R10 (TLS_REG1_SLOT ex_cfg_r12)),
        meta_insert ex_cfg_r12
          (XINST_CREATE_move (opnd_create_reg DR_REG_R10) (opnd_create_reg DR_REG_R12)),
        meta_insert ex_cfg_r12
          (instr_create_save_to_tls ex_cfg_r12 DR_REG_R0 ex_cfg_r12.TLS_REG0_SLOT),
        ex_svc,
        meta_insert ex_cfg_r12
          (XINST_CREATE_move (opnd_create_reg DR_REG_R12) (opnd_create_reg DR_REG_R10)),
        meta_insert ex_cfg_r12
          (instr_create_restore_from_tls ex_cfg_r12 DR_REG_R10 (TLS_REG1_SLOT ex_cfg_r12)),
        ex_t32_add DR_PRED_NONE] := by
  refine ⟨by decide, by decide, by decide, by decide, ?_⟩
  rfl
/-- What `mangle_insert_clone_code` leaves when `instr` has a successor. -/
theorem mangle_insert_clone_code_shape (cfg : config_t) (c : ilist_at)
    (parent_id post_id : Nat) (inn : instr_t) (rest : List instr_t)
    (hnext : c.mid ++ c.next = inn :: rest) :
    mangle_insert_clone_code cfg c parent_id post_id =
      some { prev := c.prev, instr := c.instr,
             mid := [meta_insert cfg (INSTR_CREATE_cbnz
                       (opnd_create_instr (INSTR_CREATE_label parent_id))
                       (opnd_create_reg DR_REG_R0))] ++
                    insert_mov_immed_ptrsz cfg
                      (to_int32 (PC_AS_JMP_TGT cfg.isa_mode cfg.get_new_thread_start))
                      (opnd_create_reg DR_REG_R0) ++
                    [meta_insert cfg (INSTR_CREATE_mov (opnd_create_reg DR_REG_PC)
                       (opnd_create_reg DR_REG_R0)),
                     meta_insert cfg (INSTR_CREATE_label post_id),
                     meta_insert cfg (INSTR_CREATE_label parent_id)],
             next := inn :: rest } := by
  have hne : DR_REG_R0 ≠ REG_NULL := by decide
  simp only [mangle_insert_clone_code, hnext, insert_reachable_cti, if_neg hne, Bool.not_true,
    Bool.false_and, Bool.false_eq_true, if_false, List.append_nil]
  generalize insert_mov_immed_ptrsz cfg
    (to_int32 (PC_AS_JMP_TGT cfg.isa_mode cfg.get_new_thread_start))
    (opnd_create_reg DR_REG_R0) = movs
  have hlast : set_meta_last (c.instr ::
      ([meta_insert cfg (INSTR_CREATE_cbnz (opnd_create_instr (INSTR_CREATE_label parent_id))
          (opnd_create_reg DR_REG_R0))] ++
        (movs ++ [meta_insert cfg (INSTR_CREATE_mov (opnd_create_reg DR_REG_PC)
            (opnd_create_reg DR_REG_R0)),
          meta_insert cfg (INSTR_CREATE_label post_id)]))) =
      c.instr ::
      ([meta_insert cfg (INSTR_CREATE_cbnz (opnd_create_instr (INSTR_CREATE_label parent_id))
          (opnd_create_reg DR_REG_R0))] ++
        (movs ++ [meta_insert cfg (INSTR_CREATE_mov (opnd_create_reg DR_REG_PC)
            (opnd_create_reg DR_REG_R0)),
          meta_insert cfg (INSTR_CREATE_label post_id)])) := by
    have e : c.instr ::
        ([meta_insert cfg (INSTR_CREATE_cbnz (opnd_create_instr (INSTR_CREATE_label parent_id))
            (opnd_create_reg DR_REG_R0))] ++
          (movs ++ [meta_insert cfg (INSTR_CREATE_mov (opnd_create_reg DR_REG_PC)
              (opnd_create_reg DR_REG_R0)),
            meta_insert cfg (INSTR_CREATE_label post_id)])) =
        (c.instr :: meta_insert cfg (INSTR_CREATE_cbnz
            (opnd_create_instr (INSTR_CREATE_label parent_id))
            (opnd_create_reg DR_REG_R0)) :: movs ++
          [meta_insert cfg (INSTR_CREATE_mov (opnd_create_reg DR_REG_PC)
            (opnd_create_reg DR_REG_R0))]) ++ [meta_insert cfg (INSTR_CREATE_label post_id)] := by
      simp
    rw [e]
    unfold set_meta_last
    rw [List.getLast?_concat, List.dropLast_concat]
    rfl
  rw [hlast]
  simp

/-- C22 (amended): for every list in which the clone system call has a
successor, `mangle_insert_clone_code` returns and leaves between the system
call and its successor, in order: `cbnz r0, parent`; one or two instructions
that materialise `PC_AS_JMP_TGT(mode, new-thread start address)` in r0 (the
scratch register handed to `insert_reachable_cti`, not `IBL_TARGET_REG`);
`mov pc, r0`; the label `post_call` of `insert_reachable_cti`; and the label
`parent` immediately in front of the successor. -/
theorem mangle_insert_clone_code_inserts (cfg : config_t) (c : ilist_at)
    (parent_id post_id : Nat) (inn : instr_t) (rest : List instr_t)
    (app : instr_t → mstate → mstate) (s : mstate)
    (hnext : c.mid ++ c.next = inn :: rest) :
    ∃ movs : List instr_t,
      mangle_insert_clone_code cfg c parent_id post_id =
        some { prev := c.prev, instr := c.instr,
               mid := [meta_insert cfg (INSTR_CREATE_cbnz
                         (opnd_create_instr (INSTR_CREATE_label parent_id))
                         (opnd_create_reg DR_REG_R0))] ++ movs ++
                      [meta_insert cfg (INSTR_CREATE_mov (opnd_create_reg DR_REG_PC)
                         (opnd_create_reg DR_REG_R0)),
                       meta_insert cfg (INSTR_CREATE_label post_id),
                       meta_insert cfg (INSTR_CREATE_label parent_id)],
               next := inn :: rest } ∧
      (movs.length = 1 ∨ movs.length = 2) ∧
      (∀ m ∈ movs, m.is_app = false ∧ m.predicate = DR_PRED_NONE ∧
        (m.opcode = OP_mvn ∨ m.opcode = OP_movw ∨ m.opcode = OP_movt) ∧
        m.dsts = [opnd_create_reg DR_REG_R0]) ∧
      exec_list app movs s =
        s.set_reg DR_REG_R0 (wrap32 (PC_AS_JMP_TGT cfg.isa_mode cfg.get_new_thread_start)) := by
  refine ⟨_, mangle_insert_clone_code_shape cfg c parent_id post_id inn rest hnext,
    insert_mov_immed_ptrsz_length _ _ _, fun m hm => insert_mov_immed_ptrsz_mem _ _ _ m hm, ?_⟩
  rw [exec_insert_mov_immed_ptrsz_eq]
  congr 1
  exact to_int32_mod _

theorem mangle_insert_clone_code_inserts_witness :
    ∃ movs : List instr_t,
      mangle_insert_clone_code ex_cfg ex_svc_at 5 6 =
        some { prev := ex_svc_at.prev, instr := ex_svc_at.instr,
               mid := [meta_insert ex_cfg (INSTR_CREATE_cbnz
                         (opnd_create_instr (INSTR_CREATE_label 5))
                         (opnd_create_reg DR_REG_R0))] ++ movs ++
                      [meta_insert ex_cfg (INSTR_CREATE_mov (opnd_create_reg DR_REG_PC)
                         (opnd_create_reg DR_REG_R0)),
                       meta_insert ex_cfg (INSTR_CREATE_label 6),
                       meta_insert ex_cfg (INSTR_CREATE_label 5)],
               next := ex_t32_add DR_PRED_NONE :: [] } ∧
      (movs.length = 1 ∨ movs.length = 2) ∧
      (∀ m ∈ movs, m.is_app = false ∧ m.predicate = DR_PRED_NONE ∧
        (m.opcode = OP_mvn ∨ m.opcode = OP_movw ∨ m.opcode = OP_movt) ∧
        m.dsts = [opnd_create_reg DR_REG_R0]) ∧
      exec_list ex_app movs ex_state =
        ex_state.set_reg DR_REG_R0
          (wrap32 (PC_AS_JMP_TGT ex_cfg.isa_mode ex_cfg.get_new_thread_start)) :=
  mangle_insert_clone_code_inserts ex_cfg ex_svc_at 5 6 (ex_t32_add DR_PRED_NONE) [] ex_app
    ex_state (by decide)

/-- C22 as stated fails: with r2 as `IBL_TARGET_REG` the instructions inserted
behind the `svc` are `cbnz r0`; `movw r0`; `movt r0`; `mov pc, r0`; two
labels.  None of them uses r2. -/
theorem mangle_insert_clone_code_uses_r0 :
    ex_cfg.IBL_TARGET_REG = DR_REG_R2 ∧
    (mangle_insert_clone_code ex_cfg ex_svc_at 5 6).map
        (fun r => r.mid.map (fun i => (i.opcode, i.dsts, i.srcs))) =
      some [(OP_cbnz, [], [opnd_create_instr (INSTR_CREATE_label 5), opnd_create_reg DR_REG_R0]),
            (OP_movw, [opnd_create_reg DR_REG_R0], [OPND_CREATE_INT 1]),
            (OP_movt, [opnd_create_reg DR_REG_R0], [OPND_CREATE_INT 28928]),
            (OP_mov, [opnd_create_reg DR_REG_PC], [opnd_create_reg DR_REG_R0]),
            (OP_label, [], []), (OP_label, [], [])] ∧
    (mangle_insert_clone_code ex_cfg ex_svc_at 5 6).map
        (fun r => r.mid.any (fun i => instr_uses_reg i ex_cfg.IBL_TARGET_REG)) = some false := by
  decide

/-- C23 (amended): for every list in which `instr` has a successor,
`mangle_insert_clone_code` leaves the system call instruction as it was (an
app system call stays an app instruction); the instruction it applies
`instr_set_meta` to is the one in front of the successor at that time, the
label `post_call`, and every instruction it inserted is meta. -/
theorem mangle_insert_clone_code_keeps_syscall (cfg : config_t) (c : ilist_at)
    (parent_id post_id : Nat) (inn : instr_t) (rest : List instr_t)
    (hnext : c.mid ++ c.next = inn :: rest) :
    ∃ r, mangle_insert_clone_code cfg c parent_id post_id = some r ∧
      r.instr = c.instr ∧ instr_is_meta r.instr = instr_is_meta c.instr ∧
      (∀ i ∈ r.mid, instr_is_meta i = true) ∧
      (r.mid.dropLast).getLast? = some (instr_set_meta (meta_insert cfg
        (INSTR_CREATE_label post_id))) ∧
      r.prev = c.prev ∧ r.next = inn :: rest := by
  refine ⟨_, mangle_insert_clone_code_shape cfg c parent_id post_id inn rest hnext, rfl, rfl,
    ?_, ?_, rfl, rfl⟩
  · intro i hi
    simp only [List.mem_append, List.mem_cons, List.mem_singleton, List.not_mem_nil,
      or_false] at hi
    rcases hi with (hi | hi) | hi | hi | hi
    · rw [hi]; rfl
    · obtain ⟨h, -⟩ := insert_mov_immed_ptrsz_mem _ _ _ i hi
      simp [instr_is_meta, h]
    · rw [hi]; rfl
    · rw [hi]; rfl
    · rw [hi]; rfl
  · simp only []
    rw [show ([meta_insert cfg (INSTR_CREATE_cbnz (opnd_create_instr (INSTR_CREATE_label parent_id))
          (opnd_create_reg DR_REG_R0))] ++
        insert_mov_immed_ptrsz cfg
          (to_int32 (PC_AS_JMP_TGT cfg.isa_mode cfg.get_new_thread_start))
          (opnd_create_reg DR_REG_R0) ++
        [meta_insert cfg (INSTR_CREATE_mov (opnd_create_reg DR_REG_PC)
            (opnd_create_reg DR_REG_R0)),
          meta_insert cfg (INSTR_CREATE_label post_id),
          meta_insert cfg (INSTR_CREATE_label parent_id)]) =
        (([meta_insert cfg (INSTR_CREATE_cbnz (opnd_create_instr (INSTR_CREATE_label parent_id))
          (opnd_create_reg DR_REG_R0))] ++
        insert_mov_immed_ptrsz cfg
          (to_int32 (PC_AS_JMP_TGT cfg.isa_mode cfg.get_new_thread_start))
          (opnd_create_reg DR_REG_R0) ++
        [meta_insert cfg (INSTR_CREATE_mov (opnd_create_reg DR_REG_PC)
            (opnd_create_reg DR_REG_R0))]) ++
          [meta_insert cfg (INSTR_CREATE_label post_id)]) ++
          [meta_insert cfg (INSTR_CREATE_label parent_id)] by simp]
    rw [List.dropLast_concat, List.getLast?_concat]
    rfl

theorem mangle_insert_clone_code_keeps_syscall_witness :
    ∃ r, mangle_insert_clone_code ex_cfg ex_svc_at 5 6 = some r ∧
      r.instr = ex_svc_at.instr ∧ instr_is_meta r.instr = instr_is_meta ex_svc_at.instr ∧
      (∀ i ∈ r.mid, instr_is_meta i = true) ∧
      (r.mid.dropLast).getLast? = some (instr_set_meta (meta_insert ex_cfg
        (INSTR_CREATE_label 6))) ∧
      r.prev = ex_svc_at.prev ∧ r.next = ex_t32_add DR_PRED_NONE :: [] :=
  mangle_insert_clone_code_keeps_syscall ex_cfg ex_svc_at 5 6 (ex_t32_add DR_PRED_NONE) []
    (by decide)

/-- C23 as stated fails: the app `svc` of `ex_svc_at`, which has a successor,
is not meta after `mangle_insert_clone_code`. -/
theorem mangle_insert_clone_code_syscall_stays_app :
    ex_svc_at.mid ++ ex_svc_at.next ≠ [] ∧ instr_is_meta ex_svc_at.instr = false ∧
    (mangle_insert_clone_code ex_cfg ex_svc_at 5 6).map (fun r => instr_is_meta r.instr) =
      some false ∧
    (mangle_insert_clone_code ex_cfg ex_svc_at 5 6).map (fun r => r.instr) = some ex_svc := by
  decide

/-! ## The general path of the stolen-register mangling -/

/-- The general path of `mangle_stolen_reg` returns once a scratch register is
found: for an instruction that is not a register-to-register `mov`, and for a
such a `mov` that is going to be removed. -/
theorem mangle_stolen_reg_general_returns (cfg : config_t) (c : ilist_at) (rm : Bool)
    (happ : instr_is_meta c.instr = false)
    (huse : instr_uses_reg c.instr cfg.dr_reg_stolen = true)
    (hgen : ¬ (c.instr.opcode = OP_mov ∧ opnd_is_reg (instr_get_src c.instr 0) = true) ∨
      (rm = true ∧ instr_num_srcs c.instr = 1 ∧ instr_num_dsts c.instr = 1 ∧
        opnd_is_reg (instr_get_dst c.instr 0) = true ∧
        opnd_same (instr_get_src c.instr 0) (instr_get_dst c.instr 0) = false))
    (ht : (pick_scratch_reg cfg c.prev c.instr false).1 ≠ REG_NULL) :
    mangle_stolen_reg cfg c rm =
      some { prev := restore_app_value_to_stolen_reg cfg c.prev c.instr
                (pick_scratch_reg cfg c.prev c.instr false).1
                (pick_scratch_reg cfg c.prev c.instr false).2.1,
             instr := c.instr,
             mid := (c.mid ++ restore_tls_base_to_stolen_reg cfg c.instr
                (pick_scratch_reg cfg c.prev c.instr false).1
                (pick_scratch_reg cfg c.prev c.instr false).2.1) ++
                [meta_insert cfg (instr_create_restore_from_tls cfg
                  (pick_scratch_reg cfg c.prev c.instr false).1
                  (pick_scratch_reg cfg c.prev c.instr false).2.1)],
             next := c.next } := by
  have hsr := (pick_scratch_reg_no_dead cfg c.prev c.instr).1
  unfold mangle_stolen_reg
  simp only [happ, huse, Bool.not_true, Bool.or_self, Bool.false_eq_true, if_false]
  generalize pick_scratch_reg cfg c.prev c.instr false = pk at hsr ht ⊢
  obtain ⟨tmp, slot, should_restore⟩ := pk
  simp only [] at hsr ht ⊢
  subst hsr
  simp only [if_true, if_neg ht]
  rcases hgen with h | ⟨h1, h2, h3, h4, h5⟩
  · rw [if_neg h]
  · by_cases hm : c.instr.opcode = OP_mov ∧ opnd_is_reg (instr_get_src c.instr 0) = true
    · rw [if_pos hm]
      simp only [h1, h2, h3, h4, h5, and_self, not_true_eq_false, if_false, Bool.true_eq_false,
        Bool.false_eq_true, Bool.not_true]
    · rw [if_neg hm]

/-- C28: in the general case of `mangle_stolen_reg` (an app instruction that
uses the stolen register and is not a register-to-register `mov` converted in
place, a scratch register `t` being found) the list after the call is, in
order: what stood in front, with either the spill of `t` to its TLS slot
added or (elision) one prior restore of `t` removed; `mov t, dr_reg_stolen`;
`ldr dr_reg_stolen, [stolen slot]` exactly when the instruction reads the
stolen register or does not unconditionally write it; the instruction and
what stood up to `next_instr`; the store of `dr_reg_stolen` to the stolen slot
(addressed through `t`) exactly when the instruction writes the stolen
register, conditional writes counted; `mov dr_reg_stolen, t`; the restore of
`t`; and `next_instr` on. -/
theorem mangle_stolen_reg_emits (cfg : config_t) (c : ilist_at) (rm : Bool)
    (happ : instr_is_meta c.instr = false)
    (huse : instr_uses_reg c.instr cfg.dr_reg_stolen = true)
    (hgen : ¬ (c.instr.opcode = OP_mov ∧ opnd_is_reg (instr_get_src c.instr 0) = true) ∨
      (rm = true ∧ instr_num_srcs c.instr = 1 ∧ instr_num_dsts c.instr = 1 ∧
        opnd_is_reg (instr_get_dst c.instr 0) = true ∧
        opnd_same (instr_get_src c.instr 0) (instr_get_dst c.instr 0) = false))
    (ht : (pick_scratch_reg cfg c.prev c.instr false).1 ≠ REG_NULL) :
    ∃ r kept, mangle_stolen_reg cfg c rm = some r ∧
      r.instr = c.instr ∧ r.next = c.next ∧
      r.to_list =
        kept.reverse ++
        (if spill_elided cfg c.prev (pick_scratch_reg cfg c.prev c.instr false).1 = true
         then []
         else [meta_insert cfg (instr_create_save_to_tls cfg
                (pick_scratch_reg cfg c.prev c.instr false).1
                (pick_scratch_reg cfg c.prev c.instr false).2.1)]) ++
        [meta_insert cfg (INSTR_CREATE_mov
          (opnd_create_reg (pick_scratch_reg cfg c.prev c.instr false).1)
          (opnd_create_reg cfg.dr_reg_stolen))] ++
        (if instr_reads_from_reg c.instr cfg.dr_reg_stolen DR_QUERY_DEFAULT = true ∨
            instr_writes_to_exact_reg c.instr cfg.dr_reg_stolen DR_QUERY_DEFAULT = false
         then [meta_insert cfg (instr_create_restore_from_tls cfg cfg.dr_reg_stolen
                cfg.TLS_REG_STOLEN_SLOT)]
         else []) ++
        [c.instr] ++ c.mid ++
        (if instr_writes_to_reg c.instr cfg.dr_reg_stolen DR_QUERY_INCLUDE_COND_DSTS = true
         then [meta_insert cfg (XINST_CREATE_store
                (opnd_create_base_disp (pick_scratch_reg cfg c.prev c.instr false).1 REG_NULL 0
                  (cfg.os_tls_offset cfg.TLS_REG_STOLEN_SLOT) OPSZ_PTR)
                (opnd_create_reg cfg.dr_reg_stolen))]
         else []) ++
        [meta_insert cfg (INSTR_CREATE_mov (opnd_create_reg cfg.dr_reg_stolen)
           (opnd_create_reg (pick_scratch_reg cfg c.prev c.instr false).1)),
         meta_insert cfg (instr_create_restore_from_tls cfg
           (pick_scratch_reg cfg c.prev c.instr false).1
           (pick_scratch_reg cfg c.prev c.instr false).2.1)] ++
        c.next ∧
      (if spill_elided cfg c.prev (pick_scratch_reg cfg c.prev c.instr false).1 = true then
         ∃ k, find_prior_scratch_reg_restore cfg c.prev =
             some (k, (pick_scratch_reg cfg c.prev c.instr false).1) ∧
           kept = c.prev.eraseIdx k
       else kept = c.prev) := by
  have hret := mangle_stolen_reg_general_returns cfg c rm happ huse hgen ht
  generalize (pick_scratch_reg cfg c.prev c.instr false).1 = t at hret ⊢
  generalize (pick_scratch_reg cfg c.prev c.instr false).2.1 = slot at hret ⊢
  have hload : (if instr_reads_from_reg c.instr cfg.dr_reg_stolen DR_QUERY_DEFAULT = true ∨
        instr_writes_to_exact_reg c.instr cfg.dr_reg_stolen DR_QUERY_DEFAULT = false
      then [meta_insert cfg (instr_create_restore_from_tls cfg cfg.dr_reg_stolen
            cfg.TLS_REG_STOLEN_SLOT)]
      else []) =
      (if (instr_reads_from_reg c.instr cfg.dr_reg_stolen DR_QUERY_DEFAULT ||
          !instr_writes_to_exact_reg c.instr cfg.dr_reg_stolen DR_QUERY_DEFAULT) = true
      then [meta_insert cfg (instr_create_restore_from_tls cfg cfg.dr_reg_stolen
            cfg.TLS_REG_STOLEN_SLOT)]
      else []) := by
    simp only [Bool.or_eq_true, Bool.not_eq_true']
  rcases insert_save_to_tls_if_necessary_shape cfg c.prev t slot with
    ⟨hel, k, hk, hres⟩ | ⟨hel, hres⟩
  · refine ⟨_, c.prev.eraseIdx k, hret, rfl, rfl, ?_, ?_⟩
    · rw [hload]
      simp only [ilist_at.to_list, restore_app_value_to_stolen_reg, hres,
        restore_tls_base_to_stolen_reg, hel, if_true]
      split_ifs <;> simp
    · rw [if_pos hel]
      exact ⟨k, hk, rfl⟩
  · refine ⟨_, c.prev, hret, rfl, rfl, ?_, ?_⟩
    · rw [hload]
      simp only [ilist_at.to_list, restore_app_value_to_stolen_reg, hres,
        restore_tls_base_to_stolen_reg, hel, Bool.false_eq_true, if_false]
      split_ifs <;> simp
    · rw [if_neg (by simp [hel])]

theorem mangle_stolen_reg_emits_witness :
    ∃ r kept, mangle_stolen_reg ex_cfg ex_stolen_alone false = some r ∧
      r.instr = ex_stolen_alone.instr ∧ r.next = ex_stolen_alone.next ∧
      r.to_list =
        kept.reverse ++
        (if spill_elided ex_cfg ex_stolen_alone.prev (pick_scratch_reg ex_cfg ex_stolen_alone.prev ex_stolen_alone.instr false).1 = true
         then []
         else [meta_insert ex_cfg (instr_create_save_to_tls ex_cfg
                (pick_scratch_reg ex_cfg ex_stolen_alone.prev ex_stolen_alone.instr false).1
                (pick_scratch_reg ex_cfg ex_stolen_alone.prev ex_stolen_alone.instr false).2.1)]) ++
        [meta_insert ex_cfg (INSTR_CREATE_mov
          (opnd_create_reg (pick_scratch_reg ex_cfg ex_stolen_alone.prev ex_stolen_alone.instr false).1)
          (opnd_create_reg ex_cfg.dr_reg_stolen))] ++
        (if instr_reads_from_reg ex_stolen_alone.instr ex_cfg.dr_reg_stolen DR_QUERY_DEFAULT = true ∨
            instr_writes_to_exact_reg ex_stolen_alone.instr ex_cfg.dr_reg_stolen DR_QUERY_DEFAULT = false
         then [meta_insert ex_cfg (instr_create_restore_from_tls ex_cfg ex_cfg.dr_reg_stolen
                ex_cfg.TLS_REG_STOLEN_SLOT)]
         else []) ++
        [ex_stolen_alone.instr] ++ ex_stolen_alone.mid ++
        (if instr_writes_to_reg ex_stolen_alone.instr ex_cfg.dr_reg_stolen DR_QUERY_INCLUDE_COND_DSTS = true
         then [meta_insert ex_cfg (XINST_CREATE_store
                (opnd_create_base_disp (pick_scratch_reg ex_cfg ex_stolen_alone.prev ex_stolen_alone.instr false).1 REG_NULL 0
                  (ex_cfg.os_tls_offset ex_cfg.TLS_REG_STOLEN_SLOT) OPSZ_PTR)
                (opnd_create_reg ex_cfg.dr_reg_stolen))]
         else []) ++
        [meta_insert ex_cfg (INSTR_CREATE_mov (opnd_create_reg ex_cfg.dr_reg_stolen)
           (opnd_create_reg (pick_scratch_reg ex_cfg ex_stolen_alone.prev ex_stolen_alone.instr false).1)),
         meta_insert ex_cfg (instr_create_restore_from_tls ex_cfg
           (pick_scratch_reg ex_cfg ex_stolen_alone.prev ex_stolen_alone.instr false).1
           (pick_scratch_reg ex_cfg ex_stolen_alone.prev ex_stolen_alone.instr false).2.1)] ++
        ex_stolen_alone.next ∧
      (if spill_elided ex_cfg ex_stolen_alone.prev (pick_scratch_reg ex_cfg ex_stolen_alone.prev ex_stolen_alone.instr false).1 = true then
         ∃ k, find_prior_scratch_reg_restore ex_cfg ex_stolen_alone.prev =
             some (k, (pick_scratch_reg ex_cfg ex_stolen_alone.prev ex_stolen_alone.instr false).1) ∧
           kept = ex_stolen_alone.prev.eraseIdx k
       else kept = ex_stolen_alone.prev) :=
  mangle_stolen_reg_emits ex_cfg ex_stolen_alone false (by decide) (by decide)
    (Or.inl (by decide)) (by decide)

/-! ## Elision of a restore/spill pair -/

/-- The condition under which `insert_save_to_tls_if_necessary` removes a
prior restore: `opt_mangle` is on and the nearest instruction in front of
`where` that is not a label of the mangler is a TLS restore of `reg`, with
`reg` one of r0..r3. -/
theorem find_prior_scratch_reg_restore_some (cfg : config_t) (left : List instr_t)
    (k reg : Nat) :
    find_prior_scratch_reg_restore cfg left = some (k, reg) ↔
      (cfg.opt_mangle ≠ 0 ∧
       k = (left.takeWhile (fun p => instr_is_label p && instr_is_our_mangling p)).length ∧
       ∃ prev rest, left.drop k = prev :: rest ∧
         ∃ tls, instr_is_reg_spill_or_restore cfg prev = some (tls, false, reg) ∧ tls = true ∧
           SCRATCH_REG0 ≤ reg ∧ reg ≤ SCRATCH_REG3) := by
  unfold find_prior_scratch_reg_restore
  by_cases h0 : cfg.opt_mangle = 0
  · simp [h0]
  · rw [if_neg h0]
    simp only []
    generalize (left.takeWhile (fun p => instr_is_label p && instr_is_our_mangling p)).length = n
    cases hd : left.drop n with
    | nil =>
      simp only [ne_eq, h0, not_false_eq_true, true_and]
      constructor
      · intro h; cases h
      · rintro ⟨rfl, prev, rest, h, -⟩
        rw [hd] at h
        cases h
    | cons prev rest =>
      simp only [ne_eq, h0, not_false_eq_true, true_and]
      cases hs : instr_is_reg_spill_or_restore cfg prev with
      | none =>
        constructor
        · intro h; cases h
        · rintro ⟨rfl, p, r, h, tls, h2, -⟩
          rw [hd] at h
          cases h
          rw [hs] at h2
          cases h2
      | some v =>
        obtain ⟨tls, spill, pr⟩ := v
        simp only []
        constructor
        · intro h
          split_ifs at h with hc
          simp only [Option.some.injEq, Prod.mk.injEq] at h
          obtain ⟨rfl, rfl⟩ := h
          simp only [Bool.and_eq_true, Bool.not_eq_true', decide_eq_true_eq] at hc
          obtain ⟨⟨⟨h1, h2⟩, h3⟩, h4⟩ := hc
          subst h2
          exact ⟨rfl, prev, rest, hd, tls, hs, h1, h3, h4⟩
        · rintro ⟨rfl, p, r, h, tls2, h2, h3, h4, h5⟩
          rw [hd] at h
          cases h
          rw [hs] at h2
          simp only [Option.some.injEq, Prod.mk.injEq] at h2
          obtain ⟨rfl, rfl, rfl⟩ := h2
          simp [h3, h4, h5]

/-- C29: for every list, insertion point, register and slot,
`insert_save_to_tls_if_necessary` does one of two things.  When `opt_mangle`
is on and the nearest instruction in front of `where`, the mangler's own
labels skipped, is a TLS restore of `reg` with `reg` in r0..r3, it removes
exactly that instruction and inserts nothing.  Otherwise it inserts exactly
one `instr_create_save_to_tls(reg, slot)` immediately in front of `where` and
removes nothing; this is so in particular whenever `opt_mangle` is 0. -/
theorem insert_save_to_tls_if_necessary_effect (cfg : config_t) (left : List instr_t)
    (reg slot : Nat) :
    (∀ prev rest,
      cfg.opt_mangle > 0 →
      left = left.takeWhile (fun p => instr_is_label p && instr_is_our_mangling p) ++
        prev :: rest →
      instr_is_reg_spill_or_restore cfg prev = some (true, false, reg) →
      SCRATCH_REG0 ≤ reg → reg ≤ SCRATCH_REG3 →
      insert_save_to_tls_if_necessary cfg left reg slot =
        left.takeWhile (fun p => instr_is_label p && instr_is_our_mangling p) ++ rest) ∧
    ((¬ (cfg.opt_mangle > 0 ∧ ∃ prev rest,
        left = left.takeWhile (fun p => instr_is_label p && instr_is_our_mangling p) ++
          prev :: rest ∧
        instr_is_reg_spill_or_restore cfg prev = some (true, false, reg) ∧
        SCRATCH_REG0 ≤ reg ∧ reg ≤ SCRATCH_REG3)) →
      insert_save_to_tls_if_necessary cfg left reg slot =
        meta_insert cfg (instr_create_save_to_tls cfg reg slot) :: left) ∧
    (cfg.opt_mangle = 0 →
      insert_save_to_tls_if_necessary cfg left reg slot =
        meta_insert cfg (instr_create_save_to_tls cfg reg slot) :: left) := by
  have hdrop : ∀ prev rest,
      left = left.takeWhile (fun p => instr_is_label p && instr_is_our_mangling p) ++
        prev :: rest →
      left.drop (left.takeWhile
        (fun p => instr_is_label p && instr_is_our_mangling p)).length = prev :: rest := by
    intro prev rest h
    generalize left.takeWhile (fun p => instr_is_label p && instr_is_our_mangling p) =
      labels at h ⊢
    rw [h]
    exact List.drop_left _ _
  have hsplit : ∀ prev rest,
      left.drop (left.takeWhile
        (fun p => instr_is_label p && instr_is_our_mangling p)).length = prev :: rest →
      left = left.takeWhile (fun p => instr_is_label p && instr_is_our_mangling p) ++
        prev :: rest := by
    intro prev rest h
    have e := List.takeWhile_append_dropWhile
      (fun p => instr_is_label p && instr_is_our_mangling p) left
    generalize left.takeWhile (fun p => instr_is_label p && instr_is_our_mangling p) =
      labels at h e ⊢
    have h2 : List.drop labels.length (labels ++ List.dropWhile
        (fun p => instr_is_label p && instr_is_our_mangling p) left) = prev :: rest := by
      rw [e]
      exact h
    rw [List.drop_left] at h2
    rw [← h2]
    exact e.symm
  have herase : ∀ prev rest,
      left = left.takeWhile (fun p => instr_is_label p && instr_is_our_mangling p) ++
        prev :: rest →
      left.eraseIdx (left.takeWhile
        (fun p => instr_is_label p && instr_is_our_mangling p)).length =
      left.takeWhile (fun p => instr_is_label p && instr_is_our_mangling p) ++ rest := by
    intro prev rest h
    generalize left.takeWhile (fun p => instr_is_label p && instr_is_our_mangling p) =
      labels at h ⊢
    rw [h, List.eraseIdx_append_of_length_le (le_refl _)]
    simp
  refine ⟨?_, ?_, ?_⟩
  · intro prev rest hopt hl hs h0 h3
    have hf : find_prior_scratch_reg_restore cfg left =
        some ((left.takeWhile
          (fun p => instr_is_label p && instr_is_our_mangling p)).length, reg) :=
      (find_prior_scratch_reg_restore_some cfg left _ reg).mpr
        ⟨by omega, rfl, prev, rest, hdrop prev rest hl, true, hs, rfl, h0, h3⟩
    unfold insert_save_to_tls_if_necessary
    rw [hf]
    simp only [hopt, and_self, if_true]
    exact herase prev rest hl
  · intro hno
    unfold insert_save_to_tls_if_necessary
    cases hf : find_prior_scratch_reg_restore cfg left with
    | none => rfl
    | some v =>
      obtain ⟨k, pr⟩ := v
      simp only []
      by_cases hc : cfg.opt_mangle > 0 ∧ pr = reg
      · exfalso
        obtain ⟨h0, rfl, prev, rest, hd, tls, hs, rfl, h1, h2⟩ :=
          (find_prior_scratch_reg_restore_some cfg left k pr).mp hf
        apply hno
        refine ⟨hc.1, prev, rest, hsplit prev rest hd, ?_, ?_, ?_⟩
        · rw [← hc.2]; exact hs
        · rw [← hc.2]; exact h1
        · rw [← hc.2]; exact h2
      · rw [if_neg hc]
  · intro h0
    unfold insert_save_to_tls_if_necessary find_prior_scratch_reg_restore
    simp [h0]

theorem insert_save_to_tls_if_necessary_effect_witness :
    insert_save_to_tls_if_necessary ex_cfg
        [meta_insert ex_cfg (INSTR_CREATE_label 3),
         meta_insert ex_cfg (instr_create_restore_from_tls ex_cfg DR_REG_R1 4),
         ex_add_stolen] DR_REG_R1 4 =
      [meta_insert ex_cfg (INSTR_CREATE_label 3)] ++ [ex_add_stolen] :=
  (insert_save_to_tls_if_necessary_effect ex_cfg
      [meta_insert ex_cfg (INSTR_CREATE_label 3),
       meta_insert ex_cfg (instr_create_restore_from_tls ex_cfg DR_REG_R1 4),
       ex_add_stolen] DR_REG_R1 4).1
    (meta_insert ex_cfg (instr_create_restore_from_tls ex_cfg DR_REG_R1 4)) [ex_add_stolen]
    (by decide) (by decide) (by decide) (by decide) (by decide)

/-! ## The fall-through of a predicated branch -/

/-- C27: for a predicated `instr` with predicate `p`,
`mangle_add_predicated_fall_through` returns, and what it adds stands at the
end of the instructions in front of `next_instr`: one or two meta
instructions writing `IBL_TARGET_REG`, each carrying the inverse of `p`.
Executed in a state where the inverse of `p` holds exactly when `p` does not,
they leave the state as it is when `p` holds (so `IBL_TARGET_REG` keeps the
taken target) and set `IBL_TARGET_REG` to `PC_AS_JMP_TGT(mode, fall-through)`
when `p` does not hold. -/
theorem mangle_add_predicated_fall_through_materializes (cfg : config_t) (c : ilist_at)
    (k : Nat) (hp : instr_is_predicated c.instr = true) :
    ∃ r movs, mangle_add_predicated_fall_through cfg c k = some r ∧
      r.mid = (if instr_uses_reg c.instr cfg.dr_reg_stolen = false then
                 c.mid.map (mangle_add_predicated_fall_through_mark cfg c.instr.predicate)
               else c.mid) ++ movs ∧
      r.next = c.next ∧
      (movs.length = 1 ∨ movs.length = 2) ∧
      (∀ m ∈ movs, m.predicate = instr_invert_predicate c.instr.predicate ∧
        m.is_app = false ∧ m.dsts = [opnd_create_reg cfg.IBL_TARGET_REG]) ∧
      (∀ (app : instr_t → mstate → mstate) (s : mstate),
        s.cond (instr_invert_predicate c.instr.predicate) = !s.cond c.instr.predicate →
        exec_list app movs s =
          if s.cond c.instr.predicate = true then s
          else s.set_reg cfg.IBL_TARGET_REG
            (wrap32 (PC_AS_JMP_TGT c.instr.isa_mode (cfg.get_call_return_address c.instr)))) := by
  have hret : mangle_add_predicated_fall_through cfg c k =
      some { prev := (if instr_uses_reg c.instr cfg.dr_reg_stolen = false then
                 (c.prev.take k).map
                   (mangle_add_predicated_fall_through_mark cfg c.instr.predicate) ++
                   c.prev.drop k
               else c.prev),
             instr := (if instr_uses_reg c.instr cfg.dr_reg_stolen = false then
                 mangle_add_predicated_fall_through_mark cfg c.instr.predicate c.instr
               else c.instr),
             mid := (if instr_uses_reg c.instr cfg.dr_reg_stolen = false then
                 c.mid.map (mangle_add_predicated_fall_through_mark cfg c.instr.predicate)
               else c.mid) ++
               (insert_mov_immed_ptrsz cfg
                 (to_int32 (PC_AS_JMP_TGT c.instr.isa_mode
                   (cfg.get_call_return_address c.instr)))
                 (opnd_create_reg cfg.IBL_TARGET_REG)).map
                   (fun m => instr_set_predicate m (instr_invert_predicate c.instr.predicate)),
             next := c.next } := by
    simp only [mangle_add_predicated_fall_through, hp, Bool.true_eq_false, if_false]
    by_cases hu : instr_uses_reg c.instr cfg.dr_reg_stolen = false
    · simp only [hu, if_true]
    · have hu2 : instr_uses_reg c.instr cfg.dr_reg_stolen = true := by
        simpa using hu
      simp only [hu2, Bool.true_eq_false, if_false]
  refine ⟨_, _, hret, rfl, rfl, ?_, ?_, ?_⟩
  · rw [List.length_map]
    exact insert_mov_immed_ptrsz_length cfg _ _
  · intro m hm
    obtain ⟨m0, hm0, rfl⟩ := List.mem_map.mp hm
    obtain ⟨ha, -, -, hd⟩ := insert_mov_immed_ptrsz_mem cfg _ _ m0 hm0
    exact ⟨rfl, ha, hd⟩
  · intro app s hs
    rw [exec_insert_mov_immed_ptrsz_pred, hs,
      instr_invert_predicate_is_cond c.instr.predicate hp]
    have hw : wrap32 (to_int32 (PC_AS_JMP_TGT c.instr.isa_mode
        (cfg.get_call_return_address c.instr))) =
        wrap32 (PC_AS_JMP_TGT c.instr.isa_mode (cfg.get_call_return_address c.instr)) :=
      to_int32_mod _
    rw [hw]
    cases s.cond c.instr.predicate <;> simp

theorem mangle_add_predicated_fall_through_materializes_witness :
    ∃ r movs, mangle_add_predicated_fall_through ex_cfg ex_blx_ind_eq_at 0 = some r ∧
      r.mid = (if instr_uses_reg ex_blx_ind_eq_at.instr ex_cfg.dr_reg_stolen = false then
                 ex_blx_ind_eq_at.mid.map
                   (mangle_add_predicated_fall_through_mark ex_cfg
                     ex_blx_ind_eq_at.instr.predicate)
               else ex_blx_ind_eq_at.mid) ++ movs ∧
      r.next = ex_blx_ind_eq_at.next ∧
      (movs.length = 1 ∨ movs.length = 2) ∧
      (∀ m ∈ movs, m.predicate = instr_invert_predicate ex_blx_ind_eq_at.instr.predicate ∧
        m.is_app = false ∧ m.dsts = [opnd_create_reg ex_cfg.IBL_TARGET_REG]) ∧
      (∀ (app : instr_t → mstate → mstate) (s : mstate),
        s.cond (instr_invert_predicate ex_blx_ind_eq_at.instr.predicate) =
          !s.cond ex_blx_ind_eq_at.instr.predicate →
        exec_list app movs s =
          if s.cond ex_blx_ind_eq_at.instr.predicate = true then s
          else s.set_reg ex_cfg.IBL_TARGET_REG
            (wrap32 (PC_AS_JMP_TGT ex_blx_ind_eq_at.instr.isa_mode
              (ex_cfg.get_call_return_address ex_blx_ind_eq_at.instr)))) :=
  mangle_add_predicated_fall_through_materializes ex_cfg ex_blx_ind_eq_at 0 (by decide)

/-! ## Parameter preparation -/

theorem insert_parameter_preparation_loop_eq (cfg : config_t) (args : List opnd_t) (i : Nat)
    (acc : List instr_t)
    (h : ∀ a ∈ args, ∀ rp, (insert_parameter_preparation_arg cfg a rp).isSome = true) :
    insert_parameter_preparation_loop cfg args i acc =
      some (parameter_instrs cfg args i ++ acc) := by
  induction args generalizing i acc with
  | nil => rfl
  | cons a rest ih =>
    have ha := h a (List.mem_cons_self _ _) (cfg.regparms.getD i REG_NULL)
    obtain ⟨l, hl⟩ := Option.isSome_iff_exists.mp ha
    simp only [insert_parameter_preparation_loop, parameter_instrs, hl, Option.getD_some]
    rw [ih (i + 1) (l ++ acc) (fun b hb => h b (List.mem_cons_of_mem _ hb)),
      List.append_assoc]

theorem insert_parameter_preparation_loop_none (cfg : config_t) (args : List opnd_t) (i : Nat)
    (acc : List instr_t)
    (h : ∃ a ∈ args, ∀ rp, insert_parameter_preparation_arg cfg a rp = none) :
    insert_parameter_preparation_loop cfg args i acc = none := by
  induction args generalizing i acc with
  | nil =>
    obtain ⟨a, ha, -⟩ := h
    cases ha
  | cons b rest ih =>
    obtain ⟨a, ha, hn⟩ := h
    simp only [insert_parameter_preparation_loop]
    cases hb : insert_parameter_preparation_arg cfg b (cfg.regparms.getD i REG_NULL) with
    | none => rfl
    | some l =>
      simp only []
      rcases List.mem_cons.mp ha with rfl | hr
      · rw [hn] at hb
        cases hb
      · exact ih (i + 1) (l ++ acc) ⟨a, hr, hn⟩

/-- What the instructions of one argument do: the parameter register gets the
value of the argument and no other register changes. -/
theorem exec_insert_parameter_preparation_arg (cfg : config_t)
    (app : instr_t → mstate → mstate) (a : opnd_t) (rp : Nat) (s : mstate)
    (h : opnd_is_immed_int a = true ∨
      (opnd_is_reg a = true ∧ opnd_get_size a = OPSZ_PTR ∧ opnd_get_reg a ≠ DR_REG_XSP)) :
    (insert_parameter_preparation_arg cfg a rp).isSome = true ∧
    (exec_list app ((insert_parameter_preparation_arg cfg a rp).getD []) s).regs rp =
      arg_value s a ∧
    ∀ r, r ≠ rp →
      (exec_list app ((insert_parameter_preparation_arg cfg a rp).getD []) s).regs r =
        s.regs r := by
  rcases h with h | ⟨h1, h2, h3⟩
  · cases a with
    | immed_int v =>
      simp only [insert_parameter_preparation_arg, opnd_is_immed_int, if_true,
        Option.isSome_some, Option.getD_some, opnd_get_immed_int, true_and,
        exec_insert_mov_immed_ptrsz_eq, set_reg_same, arg_value]
      intro r hr
      exact set_reg_other _ _ _ _ hr
    | _ => cases h
  · cases a with
    | reg r0 sz fl =>
      simp only [opnd_get_size] at h2
      simp only [opnd_get_reg] at h3
      subst h2
      by_cases hr : r0 = rp
      · subst hr
        simp [insert_parameter_preparation_arg, opnd_is_immed_int, opnd_is_reg, opnd_get_size,
          opnd_get_reg, h3, exec_list, arg_value]
      · have hm : exec_instr app (meta_insert cfg
            (XINST_CREATE_move (opnd_create_reg rp) (opnd_t.reg r0 OPSZ_PTR fl))) s =
            s.set_reg rp (s.regs r0) := by
          rw [exec_instr_unpredicated _ _ _ (by rfl)]
          rfl
        simp only [insert_parameter_preparation_arg, opnd_is_immed_int, opnd_is_reg,
          opnd_get_size, opnd_get_reg, h3, hr, Bool.false_eq_true, if_false, if_true, ne_eq,
          not_true_eq_false, not_false_eq_true, Option.isSome_some, Option.getD_some,
          exec_list, hm, set_reg_same, arg_value, true_and]
        intro r hr2
        exact set_reg_other _ _ _ _ hr2
    | _ => cases h1

/-- Executing the instructions of the arguments `args` destined to the
parameter registers number `i` on. -/
theorem exec_parameter_instrs (cfg : config_t) (app : instr_t → mstate → mstate)
    (args : List opnd_t) (i : Nat) (s : mstate)
    (hshape : ∀ a ∈ args, opnd_is_immed_int a = true ∨
      (opnd_is_reg a = true ∧ opnd_get_size a = OPSZ_PTR ∧ opnd_get_reg a ≠ DR_REG_XSP))
    (hinj : ∀ a b, a < args.length → b < args.length →
      cfg.regparms.getD (i + a) REG_NULL = cfg.regparms.getD (i + b) REG_NULL → a = b)
    (hconf : ∀ j k, j < k → k < args.length →
      opnd_uses_reg (args.getD j .null) (cfg.regparms.getD (i + k) REG_NULL) = false) :
    (∀ j, j < args.length →
      (exec_list app (parameter_instrs cfg args i) s).regs
        (cfg.regparms.getD (i + j) REG_NULL) = arg_value s (args.getD j .null)) ∧
    (∀ r, (∀ j, j < args.length → r ≠ cfg.regparms.getD (i + j) REG_NULL) →
      (exec_list app (parameter_instrs cfg args i) s).regs r = s.regs r) := by
  induction args generalizing i with
  | nil =>
    refine ⟨fun j hj => absurd hj (Nat.not_lt_zero _), fun r _ => rfl⟩
  | cons a rest ih =>
    have hidx : ∀ j, i + 1 + j = i + (j + 1) := fun j => by omega
    obtain ⟨ih1, ih2⟩ := ih (i + 1)
      (fun b hb => hshape b (List.mem_cons_of_mem _ hb))
      (fun x y hx hy hxy => by
        rw [hidx, hidx] at hxy
        have := hinj (x + 1) (y + 1) (by simpa using hx) (by simpa using hy) hxy
        omega)
      (fun j k hjk hk => by
        rw [hidx]
        have := hconf (j + 1) (k + 1) (by omega) (by simpa using hk)
        simpa using this)
    obtain ⟨-, ha1, ha2⟩ := exec_insert_parameter_preparation_arg cfg app a
      (cfg.regparms.getD i REG_NULL)
      (exec_list app (parameter_instrs cfg rest (i + 1)) s)
      (hshape a (List.mem_cons_self _ _))
    have hne : ∀ j, j < rest.length →
        cfg.regparms.getD (i + 1 + j) REG_NULL ≠ cfg.regparms.getD i REG_NULL := by
      intro j hj he
      rw [hidx] at he
      have := hinj (j + 1) 0 (by simpa using hj) (by simp) (by simpa using he)
      omega
    have hval : arg_value (exec_list app (parameter_instrs cfg rest (i + 1)) s) a =
        arg_value s a := by
      cases a with
      | reg r0 sz fl =>
        simp only [arg_value]
        apply ih2
        intro j hj he
        have := hconf 0 (j + 1) (by omega) (by simpa using hj)
        rw [show i + (j + 1) = i + 1 + j from by omega, ← he] at this
        simp [opnd_uses_reg] at this
      | _ => rfl
    simp only [parameter_instrs, exec_list_append]
    constructor
    · intro j hj
      cases j with
      | zero =>
        simp only [Nat.add_zero, List.getD_cons_zero]
        rw [ha1, hval]
      | succ j =>
        have hj2 : j < rest.length := by simpa using hj
        rw [show i + (j + 1) = i + 1 + j from by omega, ha2 _ (hne j hj2), ih1 j hj2]
        simp
    · intro r hr
      rw [ha2 r (by simpa using hr 0 (by simp))]
      apply ih2
      intro j hj
      rw [hidx]
      exact hr (j + 1) (by simpa using hj)

/-- C26: `insert_parameter_preparation` on arguments that are immediates or
pointer-sized registers other than sp, no more than there are parameter
registers, with no `args[j]` using `regparms[i]` for `j < i`: it returns 0,
the instructions it adds stand between the new label and `instr`, and
executing them leaves every `regparms[i]` equal to the value `args[i]` had
before them.  More arguments than parameter registers, or an argument that
is neither an immediate nor a register, are rejected. -/
theorem insert_parameter_preparation_sound (cfg : config_t) (c : ilist_at)
    (args : List opnd_t) (mark_id : Nat) :
    (args.length ≤ NUM_REGPARM cfg → cfg.regparms.Nodup →
      (∀ a ∈ args, opnd_is_immed_int a = true ∨
        (opnd_is_reg a = true ∧ opnd_get_size a = OPSZ_PTR ∧ opnd_get_reg a ≠ DR_REG_XSP)) →
      (∀ j i, j < i → i < args.length →
        opnd_uses_reg (args.getD j .null) (cfg.regparms.getD i REG_NULL) = false) →
      ∃ r ins, insert_parameter_preparation cfg c args mark_id = some (r, 0) ∧
        r.prev = ins.reverse ++ meta_insert cfg (INSTR_CREATE_label mark_id) :: c.prev ∧
        r.instr = c.instr ∧ r.mid = c.mid ∧ r.next = c.next ∧
        ∀ (app : instr_t → mstate → mstate) (s : mstate) (i : Nat), i < args.length →
          (exec_list app ins s).regs (cfg.regparms.getD i REG_NULL) =
            arg_value s (args.getD i .null)) ∧
    (args.length > NUM_REGPARM cfg → insert_parameter_preparation cfg c args mark_id = none) ∧
    ((∃ a ∈ args, opnd_is_immed_int a = false ∧ opnd_is_reg a = false) →
      insert_parameter_preparation cfg c args mark_id = none) := by
  refine ⟨?_, ?_, ?_⟩
  · intro hlen hnd hshape hconf
    have hsome : ∀ a ∈ args, ∀ rp,
        (insert_parameter_preparation_arg cfg a rp).isSome = true := by
      intro a ha rp
      exact (exec_insert_parameter_preparation_arg cfg (fun _ s => s) a rp
        ⟨fun _ => 0, fun _ => 0, fun _ => true⟩ (hshape a ha)).1
    have hloop := insert_parameter_preparation_loop_eq cfg args 0 [] hsome
    rw [List.append_nil] at hloop
    refine ⟨{ c with prev := ((parameter_instrs cfg args 0).reverse ++
        meta_insert cfg (INSTR_CREATE_label mark_id) :: c.prev) },
      parameter_instrs cfg args 0, ?_, rfl, rfl, rfl, rfl, ?_⟩
    · simp only [insert_parameter_preparation, hloop, not_lt.mpr hlen, if_false]
    · intro app s i hi
      have hinj : ∀ a b, a < args.length → b < args.length →
          cfg.regparms.getD (0 + a) REG_NULL = cfg.regparms.getD (0 + b) REG_NULL → a = b := by
        intro a b ha hb he
        have ha2 : a < cfg.regparms.length := lt_of_lt_of_le ha hlen
        have hb2 : b < cfg.regparms.length := lt_of_lt_of_le hb hlen
        rw [Nat.zero_add, Nat.zero_add, List.getD_eq_getElem _ _ ha2,
          List.getD_eq_getElem _ _ hb2] at he
        exact (List.Nodup.getElem_inj_iff hnd).mp he
      have h := (exec_parameter_instrs cfg app args 0 s hshape hinj
        (fun j k hjk hk => by
          rw [Nat.zero_add]
          exact hconf j k hjk hk)).1 i hi
      rw [Nat.zero_add] at h
      exact h
  · intro hlen
    simp only [insert_parameter_preparation, hlen, if_true]
  · rintro ⟨a, ha, h1, h2⟩
    have hnone := insert_parameter_preparation_loop_none cfg args 0 [] ⟨a, ha, fun rp => by
      simp [insert_parameter_preparation_arg, h1, h2]⟩
    simp only [insert_parameter_preparation, hnone]
    split_ifs <;> rfl

theorem insert_parameter_preparation_sound_witness :
    ∃ r ins, insert_parameter_preparation ex_cfg ex_svc_at ex_args 5 = some (r, 0) ∧
      r.prev = ins.reverse ++ meta_insert ex_cfg (INSTR_CREATE_label 5) :: ex_svc_at.prev ∧
      r.instr = ex_svc_at.instr ∧ r.mid = ex_svc_at.mid ∧ r.next = ex_svc_at.next ∧
      ∀ (app : instr_t → mstate → mstate) (s : mstate) (i : Nat), i < ex_args.length →
        (exec_list app ins s).regs (ex_cfg.regparms.getD i REG_NULL) =
          arg_value s (ex_args.getD i .null) :=
  (insert_parameter_preparation_sound ex_cfg ex_svc_at ex_args 5).1
    (by decide) (by decide) (by decide)
    (by
      intro j i hji hi
      have h3 : i < 3 := hi
      interval_cases i <;> interval_cases j <;> decide)

/-! ## Register lists in memory -/

theorem store_list_regs (rs : List Nat) (a : Int) (s : mstate) :
    (store_list rs a s).regs = s.regs := by
  induction rs generalizing a s with
  | nil => rfl
  | cons r rs ih => simp only [store_list, ih, set_mem_regs]

theorem store_list_mem_other (rs : List Nat) (a : Int) (s : mstate) (b : Int)
    (h : ∀ k : Nat, k < rs.length → b ≠ wrap32 (a + 4 * k)) :
    (store_list rs a s).mem b = s.mem b := by
  induction rs generalizing a s with
  | nil => rfl
  | cons r rs ih =>
    simp only [store_list]
    rw [ih (a + 4) _ (fun k hk => by
      have := h (k + 1) (by simpa using hk)
      have e : a + 4 + 4 * (k : Int) = a + 4 * ((k + 1 : Nat) : Int) := by push_cast; ring
      rw [e]
      exact this)]
    exact set_mem_other _ _ _ _ (by simpa using h 0 (by simp))

theorem store_list_mem_at (rs : List Nat) (a : Int) (s : mstate) (k : Nat)
    (hlen : rs.length ≤ 1073741824) (hk : k < rs.length) :
    (store_list rs a s).mem (wrap32 (a + 4 * k)) = s.regs (rs.getD k 0) := by
  induction rs generalizing a s k with
  | nil => exact absurd hk (Nat.not_lt_zero _)
  | cons r rs ih =>
    simp only [store_list]
    cases k with
    | zero =>
      rw [store_list_mem_other]
      · simp only [Nat.cast_zero, mul_zero, add_zero, set_mem_same, List.getD_cons_zero]
      · intro j hj
        have hl : rs.length + 1 ≤ 1073741824 := hlen
        have hj2 : j < 1073741824 := by omega
        unfold wrap32
        push_cast
        omega
    | succ k =>
      have e : a + 4 * ((k + 1 : Nat) : Int) = a + 4 + 4 * (k : Int) := by push_cast; ring
      rw [e, ih (a + 4) _ k (by have hl : rs.length + 1 ≤ _ := hlen; omega)
        (by simpa using hk)]
      simp only [set_mem_regs, List.getD_cons_succ]

theorem store_list_addr_congr (rs : List Nat) (a b : Int) (s : mstate)
    (h : wrap32 a = wrap32 b) : store_list rs a s = store_list rs b s := by
  induction rs generalizing a b s with
  | nil => rfl
  | cons r rs ih =>
    simp only [store_list, h]
    apply ih
    unfold wrap32 at h ⊢
    omega

theorem store_dlist_regs (rs : List Nat) (a : Int) (s : mstate) :
    (store_dlist rs a s).regs = s.regs := by
  induction rs generalizing a s with
  | nil => rfl
  | cons r rs ih => simp only [store_dlist, ih, set_mem_regs]

theorem store_dlist_mem_other (rs : List Nat) (a : Int) (s : mstate) (b : Int)
    (h : ∀ k : Nat, k < rs.length → b ≠ wrap32 (a + 8 * k) ∧ b ≠ wrap32 (a + 8 * k + 4)) :
    (store_dlist rs a s).mem b = s.mem b := by
  induction rs generalizing a s with
  | nil => rfl
  | cons r rs ih =>
    simp only [store_dlist]
    rw [ih (a + 8) _ (fun k hk => by
      have := h (k + 1) (by simpa using hk)
      have e : a + 8 + 8 * (k : Int) = a + 8 * ((k + 1 : Nat) : Int) := by push_cast; ring
      rw [e]
      exact this)]
    have h0 := h 0 (by simp)
    simp only [Nat.cast_zero, mul_zero, add_zero] at h0
    rw [set_mem_other _ _ _ _ h0.2, set_mem_other _ _ _ _ h0.1]

theorem store_dlist_mem_lo (rs : List Nat) (a : Int) (s : mstate) (k : Nat)
    (hlen : rs.length ≤ 268435456) (hk : k < rs.length) :
    (store_dlist rs a s).mem (wrap32 (a + 8 * k)) = s.regs (rs.getD k 0) % 4294967296 := by
  induction rs generalizing a s k with
  | nil => exact absurd hk (Nat.not_lt_zero _)
  | cons r rs ih =>
    simp only [store_dlist]
    cases k with
    | zero =>
      rw [store_dlist_mem_other]
      · simp only [Nat.cast_zero, mul_zero, add_zero, List.getD_cons_zero]
        rw [set_mem_other _ _ _ _ (by unfold wrap32; omega), set_mem_same]
      · intro j hj
        have hl : rs.length + 1 ≤ 268435456 := hlen
        have hj2 : j < 268435456 := by omega
        unfold wrap32
        push_cast
        constructor <;> omega
    | succ k =>
      have e : a + 8 * ((k + 1 : Nat) : Int) = a + 8 + 8 * (k : Int) := by push_cast; ring
      rw [e, ih (a + 8) _ k (by have hl : rs.length + 1 ≤ _ := hlen; omega)
        (by simpa using hk)]
      simp only [set_mem_regs, List.getD_cons_succ]

theorem store_dlist_mem_hi (rs : List Nat) (a : Int) (s : mstate) (k : Nat)
    (hlen : rs.length ≤ 268435456) (hk : k < rs.length) :
    (store_dlist rs a s).mem (wrap32 (a + 8 * k + 4)) =
      s.regs (rs.getD k 0) / 4294967296 % 4294967296 := by
  induction rs generalizing a s k with
  | nil => exact absurd hk (Nat.not_lt_zero _)
  | cons r rs ih =>
    simp only [store_dlist]
    cases k with
    | zero =>
      rw [store_dlist_mem_other]
      · simp only [Nat.cast_zero, mul_zero, add_zero, List.getD_cons_zero, set_mem_same]
      · intro j hj
        have hl : rs.length + 1 ≤ 268435456 := hlen
        have hj2 : j < 268435456 := by omega
        unfold wrap32
        push_cast
        constructor <;> omega
    | succ k =>
      have e : a + 8 * ((k + 1 : Nat) : Int) + 4 = a + 8 + 8 * (k : Int) + 4 := by
        push_cast; ring
      rw [e, ih (a + 8) _ k (by have hl : rs.length + 1 ≤ _ := hlen; omega)
        (by simpa using hk)]
      simp only [set_mem_regs, List.getD_cons_succ]

theorem store_dlist_addr_congr (rs : List Nat) (a b : Int) (s : mstate)
    (h : wrap32 a = wrap32 b) : store_dlist rs a s = store_dlist rs b s := by
  induction rs generalizing a b s with
  | nil => rfl
  | cons r rs ih =>
    have h4 : wrap32 (a + 4) = wrap32 (b + 4) := by
      unfold wrap32 at h ⊢
      omega
    simp only [store_dlist, h, h4]
    apply ih
    unfold wrap32 at h ⊢
    omega

theorem load_list_getD (rs : List Nat) (a : Int) (s : mstate) (k : Nat) (hnd : rs.Nodup)
    (hk : k < rs.length) :
    (load_list rs a s).regs (rs.getD k 0) = s.mem (wrap32 (a + 4 * k)) := by
  induction rs generalizing a s k with
  | nil => exact absurd hk (Nat.not_lt_zero _)
  | cons r rs ih =>
    obtain ⟨hr, hnd2⟩ := List.nodup_cons.mp hnd
    simp only [load_list]
    cases k with
    | zero =>
      simp only [List.getD_cons_zero, Nat.cast_zero, mul_zero, add_zero]
      rw [load_list_not_mem _ _ _ _ hr, set_reg_same]
    | succ k =>
      have e : a + 4 * ((k + 1 : Nat) : Int) = a + 4 + 4 * (k : Int) := by push_cast; ring
      rw [e, List.getD_cons_succ, ih (a + 4) _ k hnd2 (by simpa using hk)]
      rfl

theorem load_dlist_mem (rs : List Nat) (a : Int) (s : mstate) :
    (load_dlist rs a s).mem = s.mem := by
  induction rs generalizing a s with
  | nil => rfl
  | cons r rs ih => simp only [load_dlist, ih, set_reg_mem]

theorem load_dlist_not_mem (rs : List Nat) (a : Int) (s : mstate) (r : Nat) (h : r ∉ rs) :
    (load_dlist rs a s).regs r = s.regs r := by
  induction rs generalizing a s with
  | nil => rfl
  | cons q rs ih =>
    simp only [List.mem_cons, not_or] at h
    simp only [load_dlist]
    rw [ih _ _ h.2, set_reg_other _ _ _ _ h.1]

theorem load_dlist_getD (rs : List Nat) (a : Int) (s : mstate) (k : Nat) (hnd : rs.Nodup)
    (hk : k < rs.length) :
    (load_dlist rs a s).regs (rs.getD k 0) =
      s.mem (wrap32 (a + 8 * k)) + 4294967296 * s.mem (wrap32 (a + 8 * k + 4)) := by
  induction rs generalizing a s k with
  | nil => exact absurd hk (Nat.not_lt_zero _)
  | cons r rs ih =>
    obtain ⟨hr, hnd2⟩ := List.nodup_cons.mp hnd
    simp only [load_dlist]
    cases k with
    | zero =>
      simp only [List.getD_cons_zero, Nat.cast_zero, mul_zero, add_zero]
      rw [load_dlist_not_mem _ _ _ _ hr, set_reg_same]
    | succ k =>
      have e : a + 8 * ((k + 1 : Nat) : Int) = a + 8 + 8 * (k : Int) := by push_cast; ring
      rw [e, List.getD_cons_succ, ih (a + 8) _ k hnd2 (by simpa using hk)]
      rfl

theorem load_dlist_addr_congr (rs : List Nat) (a b : Int) (s : mstate)
    (h : wrap32 a = wrap32 b) : load_dlist rs a s = load_dlist rs b s := by
  induction rs generalizing a b s with
  | nil => rfl
  | cons r rs ih =>
    have h4 : wrap32 (a + 4) = wrap32 (b + 4) := by
      unfold wrap32 at h ⊢
      omega
    simp only [load_dlist, h, h4]
    apply ih
    unfold wrap32 at h ⊢
    omega

/-! ## Execution of the instructions of the clean-call save and restore -/

theorem exec_meta_push (cfg : config_t) (app : instr_t → mstate → mstate) (r sz fl : Nat)
    (s : mstate) :
    exec_instr app (meta_insert cfg (INSTR_CREATE_push (.reg r sz fl))) s =
      (s.set_mem (wrap32 (s.regs DR_REG_SP - 4)) (s.regs r)).set_reg DR_REG_SP
        (wrap32 (s.regs DR_REG_SP - 4)) := by
  rw [exec_instr_unpredicated _ _ _ (by rfl)]
  rfl

theorem exec_meta_pop (cfg : config_t) (app : instr_t → mstate → mstate) (r : Nat)
    (s : mstate) :
    exec_instr app (meta_insert cfg (INSTR_CREATE_pop (opnd_create_reg r))) s =
      (s.set_reg DR_REG_SP (wrap32 (s.regs DR_REG_SP + 4))).set_reg r
        (s.mem (wrap32 (s.regs DR_REG_SP))) := by
  rw [exec_instr_unpredicated _ _ _ (by rfl)]
  simp [exec_body, meta_insert, list_insert, instr_set_meta, INSTR_CREATE_pop, instr_create,
    OPND_CREATE_MEMPTR, opnd_create_base_disp, opnd_create_reg, OPND_CREATE_INT, DR_REG_XSP,
    opnd_get_signed_disp, REG_NULL, TEST, opnd_get_flags, opnd_get_disp]

theorem exec_meta_mrs (cfg : config_t) (app : instr_t → mstate → mstate) (d c : Nat)
    (s : mstate) :
    exec_instr app (meta_insert cfg (INSTR_CREATE_mrs (opnd_create_reg d) (opnd_create_reg c))) s
      = s.set_reg d (s.regs c) := by
  rw [exec_instr_unpredicated _ _ _ (by rfl)]
  rfl

theorem exec_meta_msr (cfg : config_t) (app : instr_t → mstate → mstate) (c r : Nat)
    (s : mstate) :
    (exec_instr app (meta_insert cfg (INSTR_CREATE_msr (opnd_create_reg c)
        OPND_CREATE_INT_MSR_NZCVQG (opnd_create_reg r))) s).regs =
      (s.set_reg c (msr_write 12 (s.regs c) (s.regs r))).regs ∧
    (exec_instr app (meta_insert cfg (INSTR_CREATE_msr (opnd_create_reg c)
        OPND_CREATE_INT_MSR_NZCVQG (opnd_create_reg r))) s).mem = s.mem := by
  rw [exec_instr_unpredicated _ _ _ (by rfl)]
  exact ⟨rfl, rfl⟩

theorem exec_meta_load_int (cfg : config_t) (app : instr_t → mstate → mstate) (d : Nat)
    (v : Int) (s : mstate) :
    ∃ w, exec_instr app (meta_insert cfg
        (XINST_CREATE_load_int (opnd_create_reg d) (.immed_int v))) s = s.set_reg d w := by
  unfold XINST_CREATE_load_int
  split_ifs
  · rw [exec_instr_unpredicated _ _ _ (by rfl)]
    exact ⟨_, rfl⟩
  · rw [exec_instr_unpredicated _ _ _ (by rfl)]
    exact ⟨_, rfl⟩

theorem exec_meta_sub (cfg : config_t) (app : instr_t → mstate → mstate) (d : Nat) (v : Int)
    (s : mstate) :
    exec_instr app (meta_insert cfg (XINST_CREATE_sub (opnd_create_reg d) (OPND_CREATE_INT8 v))) s
      = s.set_reg d (wrap32 (s.regs d - v)) := by
  rw [exec_instr_unpredicated _ _ _ (by rfl)]
  rfl

theorem exec_meta_add8 (cfg : config_t) (app : instr_t → mstate → mstate) (d : Nat) (v : Int)
    (s : mstate) :
    exec_instr app (meta_insert cfg (XINST_CREATE_add (opnd_create_reg d) (OPND_CREATE_INT8 v))) s
      = s.set_reg d (wrap32 (s.regs d + v)) := by
  rw [exec_instr_unpredicated _ _ _ (by rfl)]
  rfl

theorem reg_range_length (base n : Nat) : (reg_range base n).length = n := by
  simp [reg_range]

theorem reg_range_getD (base n k : Nat) (hk : k < n) : (reg_range base n).getD k 0 = base + k := by
  unfold reg_range
  rw [List.getD_eq_getElem _ _ (by simpa using hk)]
  simp

theorem reg_range_nodup (base n : Nat) : (reg_range base n).Nodup := by
  unfold reg_range
  exact (List.nodup_range n).map (fun a b h => by omega)

theorem mem_reg_range (base n r : Nat) : r ∈ reg_range base n ↔ base ≤ r ∧ r < base + n := by
  unfold reg_range
  simp only [List.mem_map, List.mem_range]
  constructor
  · rintro ⟨k, hk, rfl⟩
    omega
  · intro h
    exact ⟨r - base, by omega, by omega⟩

theorem exec_meta_vstmdb_16_31 (cfg : config_t) (app : instr_t → mstate → mstate) (s : mstate) :
    exec_instr app (meta_insert cfg (INSTR_CREATE_vstmdb (OPND_CREATE_MEMLIST DR_REG_SP)
        SIMD_REG_LIST_LEN SIMD_REG_LIST_16_31)) s =
      (store_dlist (reg_range (DR_REG_D0 + 16) 16) (s.regs DR_REG_SP - 128) s).set_reg DR_REG_SP
        (wrap32 (s.regs DR_REG_SP - 128)) := by
  rw [exec_instr_unpredicated _ _ _ (by rfl)]
  rfl

theorem exec_meta_vstmdb_0_15 (cfg : config_t) (app : instr_t → mstate → mstate) (s : mstate) :
    exec_instr app (meta_insert cfg (INSTR_CREATE_vstmdb (OPND_CREATE_MEMLIST DR_REG_SP)
        SIMD_REG_LIST_LEN SIMD_REG_LIST_0_15)) s =
      (store_dlist (reg_range DR_REG_D0 16) (s.regs DR_REG_SP - 128) s).set_reg DR_REG_SP
        (wrap32 (s.regs DR_REG_SP - 128)) := by
  rw [exec_instr_unpredicated _ _ _ (by rfl)]
  rfl

theorem exec_meta_vldm_0_15 (cfg : config_t) (app : instr_t → mstate → mstate) (s : mstate) :
    exec_instr app (meta_insert cfg (INSTR_CREATE_vldm_wb (OPND_CREATE_MEMLIST DR_REG_SP)
        SIMD_REG_LIST_LEN SIMD_REG_LIST_0_15)) s =
      (load_dlist (reg_range DR_REG_D0 16) (s.regs DR_REG_SP) s).set_reg DR_REG_SP
        (wrap32 (s.regs DR_REG_SP + 128)) := by
  rw [exec_instr_unpredicated _ _ _ (by rfl)]
  rfl

theorem exec_meta_vldm_16_31 (cfg : config_t) (app : instr_t → mstate → mstate) (s : mstate) :
    exec_instr app (meta_insert cfg (INSTR_CREATE_vldm_wb (OPND_CREATE_MEMLIST DR_REG_SP)
        SIMD_REG_LIST_LEN SIMD_REG_LIST_16_31)) s =
      (load_dlist (reg_range (DR_REG_D0 + 16) 16) (s.regs DR_REG_SP) s).set_reg DR_REG_SP
        (wrap32 (s.regs DR_REG_SP + 128)) := by
  rw [exec_instr_unpredicated _ _ _ (by rfl)]
  rfl

theorem exec_meta_stmdb_t32 (cfg : config_t) (app : instr_t → mstate → mstate) (s : mstate) :
    exec_instr app (meta_insert cfg (INSTR_CREATE_stmdb_wb (OPND_CREATE_MEMLIST DR_REG_SP)
        DR_REG_LIST_LENGTH_T32 DR_REG_LIST_T32)) s =
      (store_list (reg_range DR_REG_R0 13) (s.regs DR_REG_SP - 52) s).set_reg DR_REG_SP
        (wrap32 (s.regs DR_REG_SP - 52)) := by
  rw [exec_instr_unpredicated _ _ _ (by rfl)]
  rfl

theorem exec_meta_stmdb_arm (cfg : config_t) (app : instr_t → mstate → mstate) (s : mstate) :
    exec_instr app (meta_insert cfg (INSTR_CREATE_stmdb_wb (OPND_CREATE_MEMLIST DR_REG_SP)
        DR_REG_LIST_LENGTH_ARM DR_REG_LIST_ARM)) s =
      (store_list (reg_range DR_REG_R0 15) (s.regs DR_REG_SP - 60) s).set_reg DR_REG_SP
        (wrap32 (s.regs DR_REG_SP - 60)) := by
  rw [exec_instr_unpredicated _ _ _ (by rfl)]
  rfl

theorem exec_meta_ldm_t32 (cfg : config_t) (app : instr_t → mstate → mstate) (s : mstate) :
    exec_instr app (meta_insert cfg (INSTR_CREATE_ldm_wb (OPND_CREATE_MEMLIST DR_REG_SP)
        DR_REG_LIST_LENGTH_T32 DR_REG_LIST_T32)) s =
      (load_list (reg_range DR_REG_R0 13) (s.regs DR_REG_SP) s).set_reg DR_REG_SP
        (wrap32 (s.regs DR_REG_SP + 52)) := by
  rw [exec_instr_unpredicated _ _ _ (by rfl)]
  rfl

/-! ## The save sequence, part by part -/

theorem set_reg_set_mem_comm (s : mstate) (r : Nat) (v a w : Int) :
    (s.set_reg r v).set_mem a w = (s.set_mem a w).set_reg r v := rfl

theorem store_dlist_set_reg (rs : List Nat) (a : Int) (s : mstate) (b : Nat) (v : Int)
    (h : b ∉ rs) : store_dlist rs a (s.set_reg b v) = (store_dlist rs a s).set_reg b v := by
  induction rs generalizing a s with
  | nil => rfl
  | cons q rs ih =>
    simp only [List.mem_cons, not_or] at h
    simp only [store_dlist, set_reg_other _ _ _ _ (Ne.symm h.1), set_reg_set_mem_comm]
    exact ih _ _ h.2

/-- The two `vstmdb`: the stack pointer goes down by 256 and the double words
d0..d31 stand from there on, low word first. -/
theorem exec_insert_push_all_registers_simd (cfg : config_t)
    (app : instr_t → mstate → mstate) (s : mstate) :
    (exec_list app (insert_push_all_registers_simd cfg) s).regs DR_REG_SP =
      wrap32 (s.regs DR_REG_SP - 256) ∧
    (∀ r, r ≠ DR_REG_SP →
      (exec_list app (insert_push_all_registers_simd cfg) s).regs r = s.regs r) ∧
    (∀ k : Nat, k < 32 →
      (exec_list app (insert_push_all_registers_simd cfg) s).mem
          (wrap32 (s.regs DR_REG_SP - 256 + 8 * k)) = s.regs (DR_REG_D0 + k) % 4294967296 ∧
      (exec_list app (insert_push_all_registers_simd cfg) s).mem
          (wrap32 (s.regs DR_REG_SP - 256 + 8 * k + 4)) =
        s.regs (DR_REG_D0 + k) / 4294967296 % 4294967296) := by
  have hsp1 : DR_REG_SP ∉ reg_range DR_REG_D0 16 := by
    rw [mem_reg_range]
    decide
  have he : exec_list app (insert_push_all_registers_simd cfg) s =
      (store_dlist (reg_range DR_REG_D0 16) (s.regs DR_REG_SP - 256)
        (store_dlist (reg_range (DR_REG_D0 + 16) 16) (s.regs DR_REG_SP - 128) s)).set_reg
          DR_REG_SP (wrap32 (s.regs DR_REG_SP - 256)) := by
    simp only [insert_push_all_registers_simd, exec_list, exec_meta_vstmdb_16_31,
      exec_meta_vstmdb_0_15, set_reg_same]
    rw [store_dlist_set_reg _ _ _ _ _ hsp1, set_reg_set_reg,
      store_dlist_addr_congr _ (wrap32 (s.regs DR_REG_SP - 128) - 128)
        (s.regs DR_REG_SP - 256) _ (by unfold wrap32; omega)]
    congr 1
    unfold wrap32
    omega
  rw [he]
  refine ⟨set_reg_same _ _ _, ?_, ?_⟩
  · intro r hr
    rw [set_reg_other _ _ _ _ hr, store_dlist_regs, store_dlist_regs]
  · intro k hk
    simp only [set_reg_mem]
    by_cases hk16 : k < 16
    · have h1 := store_dlist_mem_lo (reg_range DR_REG_D0 16) (s.regs DR_REG_SP - 256)
        (store_dlist (reg_range (DR_REG_D0 + 16) 16) (s.regs DR_REG_SP - 128) s) k
        (by rw [reg_range_length]; norm_num) (by rw [reg_range_length]; exact hk16)
      have h2 := store_dlist_mem_hi (reg_range DR_REG_D0 16) (s.regs DR_REG_SP - 256)
        (store_dlist (reg_range (DR_REG_D0 + 16) 16) (s.regs DR_REG_SP - 128) s) k
        (by rw [reg_range_length]; norm_num) (by rw [reg_range_length]; exact hk16)
      rw [reg_range_getD _ _ _ hk16, store_dlist_regs] at h1 h2
      exact ⟨h1, h2⟩
    · have hj : k - 16 < 16 := by omega
      have e1 : s.regs DR_REG_SP - 256 + 8 * (k : Int) =
          s.regs DR_REG_SP - 128 + 8 * ((k - 16 : Nat) : Int) := by
        push_cast [Nat.cast_sub (not_lt.mp hk16)]
        ring
      have h1 := store_dlist_mem_lo (reg_range (DR_REG_D0 + 16) 16) (s.regs DR_REG_SP - 128)
        s (k - 16) (by rw [reg_range_length]; norm_num) (by rw [reg_range_length]; exact hj)
      have h2 := store_dlist_mem_hi (reg_range (DR_REG_D0 + 16) 16) (s.regs DR_REG_SP - 128)
        s (k - 16) (by rw [reg_range_length]; norm_num) (by rw [reg_range_length]; exact hj)
      rw [reg_range_getD _ _ _ hj] at h1 h2
      have e2 : DR_REG_D0 + 16 + (k - 16) = DR_REG_D0 + k := by omega
      rw [e2, ← e1] at h1 h2
      have hj3 : ∀ j : Nat, j < (reg_range DR_REG_D0 16).length →
          wrap32 (s.regs DR_REG_SP - 256 + 8 * (k : Int)) ≠
            wrap32 (s.regs DR_REG_SP - 256 + 8 * j) ∧
          wrap32 (s.regs DR_REG_SP - 256 + 8 * (k : Int)) ≠
            wrap32 (s.regs DR_REG_SP - 256 + 8 * j + 4) := by
        intro j hj2
        rw [reg_range_length] at hj2
        unfold wrap32
        constructor <;> omega
      have hj4 : ∀ j : Nat, j < (reg_range DR_REG_D0 16).length →
          wrap32 (s.regs DR_REG_SP - 256 + 8 * (k : Int) + 4) ≠
            wrap32 (s.regs DR_REG_SP - 256 + 8 * j) ∧
          wrap32 (s.regs DR_REG_SP - 256 + 8 * (k : Int) + 4) ≠
            wrap32 (s.regs DR_REG_SP - 256 + 8 * j + 4) := by
        intro j hj2
        rw [reg_range_length] at hj2
        unfold wrap32
        constructor <;> omega
      rw [store_dlist_mem_other _ _ _ _ hj3, store_dlist_mem_other _ _ _ _ hj4]
      exact ⟨h1, h2⟩

theorem exec_meta_push_reg (cfg : config_t) (app : instr_t → mstate → mstate) (r : Nat)
    (s : mstate) :
    exec_instr app (meta_insert cfg (INSTR_CREATE_push (opnd_create_reg r))) s =
      (s.set_mem (wrap32 (s.regs DR_REG_SP - 4)) (s.regs r)).set_reg DR_REG_SP
        (wrap32 (s.regs DR_REG_SP - 4)) :=
  exec_meta_push cfg app r OPSZ_PTR 0 s

theorem exec_push_aflags_core (cfg : config_t) (app : instr_t → mstate → mstate)
    (q : Nat) (push_pc : opnd_t) (s : mstate) (hq : q ≠ DR_REG_SP)
    (core : List instr_t)
    (hcore : (∃ v, push_pc = .immed_int v ∧ core =
        [meta_insert cfg (INSTR_CREATE_mrs (opnd_create_reg q) (opnd_create_reg DR_REG_CPSR)),
         meta_insert cfg (INSTR_CREATE_push (opnd_create_reg q)),
         meta_insert cfg (XINST_CREATE_load_int (opnd_create_reg q) push_pc),
         meta_insert cfg (INSTR_CREATE_push (opnd_create_reg q))]) ∨
      (∃ r sz fl, push_pc = .reg r sz fl ∧ core =
        [meta_insert cfg (INSTR_CREATE_mrs (opnd_create_reg q) (opnd_create_reg DR_REG_CPSR)),
         meta_insert cfg (INSTR_CREATE_push (opnd_create_reg q)),
         meta_insert cfg (INSTR_CREATE_push push_pc)])) :
    (exec_list app core s).regs DR_REG_SP = wrap32 (s.regs DR_REG_SP - 8) ∧
    (exec_list app core s).mem (wrap32 (s.regs DR_REG_SP - 4)) = s.regs DR_REG_CPSR ∧
    (∀ a, a ≠ wrap32 (s.regs DR_REG_SP - 4) → a ≠ wrap32 (s.regs DR_REG_SP - 8) →
      (exec_list app core s).mem a = s.mem a) ∧
    (∀ r, r ≠ DR_REG_SP → r ≠ q → (exec_list app core s).regs r = s.regs r) := by
  have h48 : wrap32 (wrap32 (s.regs DR_REG_SP - 4) - 4) = wrap32 (s.regs DR_REG_SP - 8) := by
    unfold wrap32
    omega
  have hne : wrap32 (s.regs DR_REG_SP - 4) ≠ wrap32 (s.regs DR_REG_SP - 8) := by
    unfold wrap32
    omega
  have hsp : (s.set_reg q (s.regs DR_REG_CPSR)).regs DR_REG_SP = s.regs DR_REG_SP :=
    set_reg_other _ _ _ _ (Ne.symm hq)
  rcases hcore with ⟨v, rfl, rfl⟩ | ⟨r, sz, fl, rfl, rfl⟩
  · obtain ⟨w, hw⟩ := exec_meta_load_int cfg app q v
      ((((s.set_reg q (s.regs DR_REG_CPSR)).set_mem (wrap32 (s.regs DR_REG_SP - 4))
        (s.regs DR_REG_CPSR))).set_reg DR_REG_SP (wrap32 (s.regs DR_REG_SP - 4)))
    simp only [exec_list, exec_meta_mrs, exec_meta_push_reg, hsp, set_reg_same,
      set_mem_regs]
    rw [hw]
    simp only [set_reg_other _ _ _ _ (Ne.symm hq), set_reg_same, set_reg_mem, set_mem_regs,
      h48, set_mem_other _ _ _ _ hne, set_mem_same, true_and]
    constructor
    · intro a h1 h2
      simp only [set_reg_mem, set_mem_regs, set_mem_other _ _ _ _ h1, set_mem_other _ _ _ _ h2]
    · intro r h1 h2
      simp only [set_reg_mem, set_mem_regs, set_reg_other _ _ _ _ h1, set_reg_other _ _ _ _ h2]
  · simp only [exec_list, exec_meta_mrs, exec_meta_push_reg, exec_meta_push, hsp, set_reg_same,
      set_mem_regs]
    simp only [set_reg_mem, set_mem_regs,
      h48, set_mem_other _ _ _ _ hne, set_mem_same, true_and]
    constructor
    · intro a h1 h2
      simp only [set_reg_mem, set_mem_regs, set_mem_other _ _ _ _ h1, set_mem_other _ _ _ _ h2]
    · intro r h1 h2
      simp only [set_reg_mem, set_mem_regs, set_reg_other _ _ _ _ h1, set_reg_other _ _ _ _ h2]

theorem exec_push_aflags_wrap (cfg : config_t) (app : instr_t → mstate → mstate)
    (q slot : Nat) (push_pc : opnd_t) (s : mstate) (b : Bool) (hq : q ≠ DR_REG_SP)
    (core : List instr_t)
    (hslot : slot = cfg.TLS_REG0_SLOT ∨ slot = TLS_REG1_SLOT cfg)
    (hcore : (∃ v, push_pc = .immed_int v ∧ core =
        [meta_insert cfg (INSTR_CREATE_mrs (opnd_create_reg q) (opnd_create_reg DR_REG_CPSR)),
         meta_insert cfg (INSTR_CREATE_push (opnd_create_reg q)),
         meta_insert cfg (XINST_CREATE_load_int (opnd_create_reg q) push_pc),
         meta_insert cfg (INSTR_CREATE_push (opnd_create_reg q))]) ∨
      (∃ r sz fl, push_pc = .reg r sz fl ∧ core =
        [meta_insert cfg (INSTR_CREATE_mrs (opnd_create_reg q) (opnd_create_reg DR_REG_CPSR)),
         meta_insert cfg (INSTR_CREATE_push (opnd_create_reg q)),
         meta_insert cfg (INSTR_CREATE_push push_pc)])) :
    (exec_list app ((if b = true then [meta_insert cfg (instr_create_save_to_tls cfg q slot)]
        else []) ++ core ++
        (if b = true then [meta_insert cfg (instr_create_restore_from_tls cfg q slot)]
         else [])) s).regs DR_REG_SP = wrap32 (s.regs DR_REG_SP - 8) ∧
    (exec_list app ((if b = true then [meta_insert cfg (instr_create_save_to_tls cfg q slot)]
        else []) ++ core ++
        (if b = true then [meta_insert cfg (instr_create_restore_from_tls cfg q slot)]
         else [])) s).mem (wrap32 (s.regs DR_REG_SP - 4)) = s.regs DR_REG_CPSR ∧
    (∀ a, a ≠ wrap32 (s.regs DR_REG_SP - 4) → a ≠ wrap32 (s.regs DR_REG_SP - 8) →
      a ≠ wrap32 (s.regs cfg.dr_reg_stolen + cfg.os_tls_offset cfg.TLS_REG0_SLOT) →
      a ≠ wrap32 (s.regs cfg.dr_reg_stolen + cfg.os_tls_offset (TLS_REG1_SLOT cfg)) →
      (exec_list app ((if b = true then [meta_insert cfg (instr_create_save_to_tls cfg q slot)]
        else []) ++ core ++
        (if b = true then [meta_insert cfg (instr_create_restore_from_tls cfg q slot)]
         else [])) s).mem a = s.mem a) := by
  cases b
  · simp only [Bool.false_eq_true, if_false, List.nil_append, List.append_nil]
    obtain ⟨h1, h2, h3, -⟩ := exec_push_aflags_core cfg app q push_pc s hq core hcore
    exact ⟨h1, h2, fun a ha hb _ _ => h3 a ha hb⟩
  · rw [if_pos rfl, if_pos rfl, exec_list_append, exec_list_append]
    simp only [exec_list, exec_meta_save_to_tls, exec_meta_restore_from_tls]
    obtain ⟨h1, h2, h3, -⟩ := exec_push_aflags_core cfg app q push_pc
      (s.set_mem (wrap32 (s.regs cfg.dr_reg_stolen + cfg.os_tls_offset slot)) (s.regs q))
      hq core hcore
    simp only [set_mem_regs] at h1 h2 h3
    refine ⟨?_, ?_, ?_⟩
    · rw [set_reg_other _ _ _ _ (Ne.symm hq)]
      exact h1
    · rw [set_reg_mem]
      exact h2
    · intro a ha hb hc hd
      rw [set_reg_mem, h3 a ha hb]
      apply set_mem_other
      rcases hslot with rfl | rfl
      · exact hc
      · exact hd

/-- The status word and the pc: the stack pointer goes down by 8, the word
above the new stack pointer holds the status word, and apart from the two
words pushed only the TLS slot of the scratch register changes. -/
theorem exec_insert_push_all_registers_aflags (cfg : config_t)
    (app : instr_t → mstate → mstate) (push_pc : opnd_t) (scratch : Nat) (s : mstate)
    (l : List instr_t)
    (hl : insert_push_all_registers_aflags cfg push_pc scratch = some l)
    (hscr : scratch ≠ DR_REG_SP) :
    (exec_list app l s).regs DR_REG_SP = wrap32 (s.regs DR_REG_SP - 8) ∧
    (exec_list app l s).mem (wrap32 (s.regs DR_REG_SP - 4)) = s.regs DR_REG_CPSR ∧
    (∀ a, a ≠ wrap32 (s.regs DR_REG_SP - 4) → a ≠ wrap32 (s.regs DR_REG_SP - 8) →
      a ≠ wrap32 (s.regs cfg.dr_reg_stolen + cfg.os_tls_offset cfg.TLS_REG0_SLOT) →
      a ≠ wrap32 (s.regs cfg.dr_reg_stolen + cfg.os_tls_offset (TLS_REG1_SLOT cfg)) →
      (exec_list app l s).mem a = s.mem a) := by
  unfold insert_push_all_registers_aflags at hl
  cases push_pc with
  | immed_int v =>
    cases hb : (scratch == REG_NULL)
    · simp only [hb, opnd_is_immed_int, opnd_is_reg, Bool.false_and, Bool.and_false,
        Bool.false_eq_true, if_false, if_true, Option.some.injEq, List.nil_append,
        List.append_nil] at hl
      subst hl
      exact exec_push_aflags_wrap cfg app scratch cfg.TLS_REG0_SLOT (.immed_int v) s false
        hscr _ (Or.inl rfl) (Or.inl ⟨v, rfl, rfl⟩)
    · simp only [hb, opnd_is_immed_int, opnd_is_reg, Bool.false_and, Bool.and_false,
        Bool.false_eq_true, if_false, if_true, Option.some.injEq] at hl
      subst hl
      exact exec_push_aflags_wrap cfg app DR_REG_R0 cfg.TLS_REG0_SLOT (.immed_int v) s true
        (by decide) _ (Or.inl rfl) (Or.inl ⟨v, rfl, rfl⟩)
  | reg r sz fl =>
    cases hb : (scratch == REG_NULL)
    · simp only [hb, opnd_is_immed_int, opnd_is_reg, Bool.false_and, Bool.and_false,
        Bool.false_eq_true, if_false, if_true, Option.some.injEq, List.nil_append,
        List.append_nil] at hl
      subst hl
      exact exec_push_aflags_wrap cfg app scratch cfg.TLS_REG0_SLOT (.reg r sz fl) s false
        hscr _ (Or.inl rfl) (Or.inr ⟨r, sz, fl, rfl, rfl⟩)
    · cases hc : (r == DR_REG_R0)
      · simp only [hb, hc, opnd_is_immed_int, opnd_is_reg, opnd_get_reg, Bool.true_and,
          Bool.and_false, Bool.false_eq_true, if_false, if_true, Option.some.injEq] at hl
        subst hl
        exact exec_push_aflags_wrap cfg app DR_REG_R0 cfg.TLS_REG0_SLOT (.reg r sz fl) s true
          (by decide) _ (Or.inl rfl) (Or.inr ⟨r, sz, fl, rfl, rfl⟩)
      · simp only [hb, hc, opnd_is_immed_int, opnd_is_reg, opnd_get_reg, Bool.true_and,
          Bool.and_true, Bool.and_self, Bool.false_eq_true, if_false, if_true,
          Option.some.injEq] at hl
        subst hl
        exact exec_push_aflags_wrap cfg app DR_REG_R1 (TLS_REG1_SLOT cfg) (.reg r sz fl) s true
          (by decide) _ (Or.inr rfl) (Or.inr ⟨r, sz, fl, rfl, rfl⟩)
  | null => simp [opnd_is_immed_int, opnd_is_reg] at hl
  | pc t => simp [opnd_is_immed_int, opnd_is_reg] at hl
  | instr a b c => simp [opnd_is_immed_int, opnd_is_reg] at hl
  | base_disp a b c d e f g => simp [opnd_is_immed_int, opnd_is_reg] at hl
/-- The general purpose registers: the stack pointer goes down by 60, r0..r12
stand from there on, lr stands in the highest of the 15 words, and nothing
outside the 15 words changes. -/
theorem exec_insert_push_all_registers_gprs (cfg : config_t)
    (app : instr_t → mstate → mstate) (s : mstate) :
    (exec_list app (insert_push_all_registers_gprs cfg) s).regs DR_REG_SP =
      wrap32 (s.regs DR_REG_SP - 60) ∧
    (∀ k : Nat, k < 13 →
      (exec_list app (insert_push_all_registers_gprs cfg) s).mem
          (wrap32 (s.regs DR_REG_SP - 60 + 4 * k)) =
        (exec_list app (insert_push_all_registers_gprs cfg) s).regs (DR_REG_R0 + k)) ∧
    (exec_list app (insert_push_all_registers_gprs cfg) s).mem (wrap32 (s.regs DR_REG_SP - 4)) =
      (exec_list app (insert_push_all_registers_gprs cfg) s).regs DR_REG_LR ∧
    (∀ a, (∀ j : Int, 0 ≤ j → j < 60 → a ≠ wrap32 (s.regs DR_REG_SP - 60 + j)) →
      (exec_list app (insert_push_all_registers_gprs cfg) s).mem a = s.mem a) ∧
    (∀ r, r ≠ DR_REG_SP →
      (exec_list app (insert_push_all_registers_gprs cfg) s).regs r = s.regs r) := by
  have hk13 : ∀ k : Nat, k < 13 → DR_REG_R0 + k ≠ DR_REG_SP := by
    intro k hk
    simp only [DR_REG_R0, DR_REG_SP]
    omega
  have hlr : DR_REG_LR ≠ DR_REG_SP := by decide
  unfold insert_push_all_registers_gprs
  by_cases hm : cfg.isa_mode = DR_ISA_ARM_THUMB
  · rw [if_pos hm]
    have he : exec_list app
        [meta_insert cfg (INSTR_CREATE_push (opnd_create_reg DR_REG_LR)),
         meta_insert cfg (XINST_CREATE_sub (opnd_create_reg DR_REG_SP) (OPND_CREATE_INT8 XSP_SZ)),
         meta_insert cfg (INSTR_CREATE_stmdb_wb (OPND_CREATE_MEMLIST DR_REG_SP)
           DR_REG_LIST_LENGTH_T32 DR_REG_LIST_T32)] s =
        (store_list (reg_range DR_REG_R0 13) (s.regs DR_REG_SP - 60)
          ((s.set_mem (wrap32 (s.regs DR_REG_SP - 4)) (s.regs DR_REG_LR)).set_reg DR_REG_SP
            (wrap32 (wrap32 (s.regs DR_REG_SP - 4) - 4)))).set_reg DR_REG_SP
          (wrap32 (s.regs DR_REG_SP - 60)) := by
      simp only [exec_list, exec_meta_push_reg, exec_meta_sub, exec_meta_stmdb_t32,
        set_reg_same, set_reg_set_reg, XSP_SZ, Nat.cast_ofNat]
      rw [store_list_addr_congr _ (wrap32 (wrap32 (s.regs DR_REG_SP - 4) - 4) - 52)
        (s.regs DR_REG_SP - 60) _ (by unfold wrap32; omega)]
      congr 1
      unfold wrap32
      omega
    rw [he]
    refine ⟨set_reg_same _ _ _, ?_, ?_, ?_, ?_⟩
    · intro k hk
      rw [set_reg_mem, set_reg_other _ _ _ _ (hk13 k hk), store_list_regs,
        store_list_mem_at _ _ _ k (by rw [reg_range_length]; norm_num)
          (by rw [reg_range_length]; exact hk), reg_range_getD _ _ _ hk]
    · rw [set_reg_mem, set_reg_other _ _ _ _ hlr, store_list_regs,
        set_reg_other _ _ _ _ hlr, set_mem_regs, store_list_mem_other, set_reg_mem,
        set_mem_same]
      intro j hj
      rw [reg_range_length] at hj
      unfold wrap32
      omega
    · intro a ha
      rw [set_reg_mem, store_list_mem_other, set_reg_mem, set_mem_other]
      · have := ha 56 (by norm_num) (by norm_num)
        intro h
        apply this
        rw [h]
        unfold wrap32
        congr 1
        ring
      · intro j hj
        rw [reg_range_length] at hj
        exact ha (4 * j) (by omega) (by omega)
    · intro r hr
      rw [set_reg_other _ _ _ _ hr, store_list_regs, set_reg_other _ _ _ _ hr, set_mem_regs]
  · rw [if_neg hm]
    simp only [exec_list, exec_meta_stmdb_arm]
    refine ⟨set_reg_same _ _ _, ?_, ?_, ?_, ?_⟩
    · intro k hk
      rw [set_reg_mem, set_reg_other _ _ _ _ (hk13 k hk), store_list_regs,
        store_list_mem_at _ _ _ k (by rw [reg_range_length]; norm_num)
          (by rw [reg_range_length]; omega), reg_range_getD _ _ _ (by omega)]
    · have h14 := store_list_mem_at (reg_range DR_REG_R0 15) (s.regs DR_REG_SP - 60) s 14
        (by rw [reg_range_length]; norm_num) (by rw [reg_range_length]; norm_num)
      rw [reg_range_getD _ _ _ (by norm_num)] at h14
      rw [set_reg_mem, set_reg_other _ _ _ _ hlr, store_list_regs]
      have e : wrap32 (s.regs DR_REG_SP - 4) =
          wrap32 (s.regs DR_REG_SP - 60 + 4 * ((14 : Nat) : Int)) := by
        unfold wrap32
        congr 1
        push_cast
        ring
      rw [e, h14]
      rfl
    · intro a ha
      rw [set_reg_mem, store_list_mem_other]
      intro j hj
      rw [reg_range_length] at hj
      exact ha (4 * j) (by omega) (by omega)
    · intro r hr
      rw [set_reg_other _ _ _ _ hr, store_list_regs]

/-- Where the save sequence leaves the registers: the layout of the saved
words, seen from the stack pointer it leaves. -/
theorem exec_push_layout (cfg : config_t) (app : instr_t → mstate → mstate)
    (cci : clean_call_info_t) (push_pc : opnd_t) (scratch : Nat) (afl : List instr_t)
    (s0 : mstate)
    (hafl : (cci.skip_save_aflags = false →
        insert_push_all_registers_aflags cfg push_pc scratch = some afl) ∧
      (cci.skip_save_aflags = true → afl = []))
    (hscr : scratch ≠ DR_REG_SP) (hst : cfg.dr_reg_stolen ≠ DR_REG_SP)
    (htls : ∀ slot, slot = cfg.TLS_REG0_SLOT ∨ slot = TLS_REG1_SLOT cfg →
      ∀ j : Int, 0 ≤ j → j < pushed_bytes cci →
        wrap32 (s0.regs cfg.dr_reg_stolen + cfg.os_tls_offset slot) ≠
          wrap32 (s0.regs DR_REG_SP - pushed_bytes cci + j)) :
    (exec_list app (insert_push_all_registers_simd cfg ++ afl ++
        insert_push_all_registers_gprs cfg) s0).regs DR_REG_SP =
      wrap32 (s0.regs DR_REG_SP - pushed_bytes cci) ∧
    (∀ k : Nat, k < 13 →
      (exec_list app (insert_push_all_registers_simd cfg ++ afl ++
          insert_push_all_registers_gprs cfg) s0).mem
        (wrap32 (s0.regs DR_REG_SP - pushed_bytes cci + 4 * k)) =
      (exec_list app (insert_push_all_registers_simd cfg ++ afl ++
          insert_push_all_registers_gprs cfg) s0).regs (DR_REG_R0 + k)) ∧
    (exec_list app (insert_push_all_registers_simd cfg ++ afl ++
        insert_push_all_registers_gprs cfg) s0).mem
      (wrap32 (s0.regs DR_REG_SP - pushed_bytes cci + 56)) =
    (exec_list app (insert_push_all_registers_simd cfg ++ afl ++
        insert_push_all_registers_gprs cfg) s0).regs DR_REG_LR ∧
    (cci.skip_save_aflags = false →
      (exec_list app (insert_push_all_registers_simd cfg ++ afl ++
          insert_push_all_registers_gprs cfg) s0).mem
        (wrap32 (s0.regs DR_REG_SP - pushed_bytes cci + 64)) = s0.regs DR_REG_CPSR) ∧
    (∀ k : Nat, k < 32 →
      (exec_list app (insert_push_all_registers_simd cfg ++ afl ++
          insert_push_all_registers_gprs cfg) s0).mem
        (wrap32 (s0.regs DR_REG_SP - pushed_bytes cci + simd_slot_offset cci + 8 * k)) =
        s0.regs (DR_REG_D0 + k) % 4294967296 ∧
      (exec_list app (insert_push_all_registers_simd cfg ++ afl ++
          insert_push_all_registers_gprs cfg) s0).mem
        (wrap32 (s0.regs DR_REG_SP - pushed_bytes cci + simd_slot_offset cci + 8 * k + 4)) =
        s0.regs (DR_REG_D0 + k) / 4294967296 % 4294967296) := by
  obtain ⟨a1, a2, a3⟩ := exec_insert_push_all_registers_simd cfg app s0
  rw [exec_list_append, exec_list_append]
  generalize exec_list app (insert_push_all_registers_simd cfg) s0 = sA at a1 a2 a3 ⊢
  have hstA : sA.regs cfg.dr_reg_stolen = s0.regs cfg.dr_reg_stolen := a2 _ hst
  have hcpA : sA.regs DR_REG_CPSR = s0.regs DR_REG_CPSR := a2 _ (by decide)
  cases hskip : cci.skip_save_aflags
  · -- the status word and the pc are saved
    have hT : pushed_bytes cci = 324 := by
      simp [pushed_bytes, hskip, SIMD_REG_LIST_LEN, XSP_SZ]
    have hO : simd_slot_offset cci = 68 := by
      simp [simd_slot_offset, hskip, XSP_SZ]
    rw [hT] at htls ⊢
    rw [hO]
    obtain ⟨b1, b2, b3⟩ := exec_insert_push_all_registers_aflags cfg app push_pc scratch
      sA afl (hafl.1 hskip) hscr
    generalize exec_list app afl sA = sB at b1 b2 b3 ⊢
    obtain ⟨c1, c2, c3, c4, c5⟩ := exec_insert_push_all_registers_gprs cfg app sB
    generalize exec_list app (insert_push_all_registers_gprs cfg) sB = s1 at c1 c2 c3 c4 c5 ⊢
    rw [hstA] at b3
    have hframe : ∀ j : Int, 64 ≤ j → j < 324 →
        s1.mem (wrap32 (s0.regs DR_REG_SP - 324 + j)) =
          sB.mem (wrap32 (s0.regs DR_REG_SP - 324 + j)) := by
      intro j h1 h2
      apply c4
      intro i hi1 hi2
      rw [b1, a1]
      unfold wrap32
      omega
    refine ⟨?_, ?_, ?_, ?_, ?_⟩
    · rw [c1, b1, a1]
      unfold wrap32
      omega
    · intro k hk
      rw [← c2 k hk, b1, a1]
      congr 1
      unfold wrap32
      omega
    · rw [← c3, b1, a1]
      congr 1
      unfold wrap32
      omega
    · intro _
      rw [hframe 64 (by norm_num) (by norm_num), ← hcpA, ← b2, a1]
      congr 1
      unfold wrap32
      omega
    · intro k hk
      have hd : ∀ d : Int, 0 ≤ d → d < 8 →
          s1.mem (wrap32 (s0.regs DR_REG_SP - 324 + 68 + 8 * k + d)) =
            sA.mem (wrap32 (s0.regs DR_REG_SP - 256 + 8 * k + d)) := by
        intro d hd1 hd2
        have e : s0.regs DR_REG_SP - 324 + 68 + 8 * (k : Int) + d =
            s0.regs DR_REG_SP - 324 + (68 + 8 * k + d) := by ring
        rw [e, hframe _ (by omega) (by omega), b3]
        · congr 1
          unfold wrap32
          omega
        · rw [a1]
          unfold wrap32
          omega
        · rw [a1]
          unfold wrap32
          omega
        · exact (htls _ (Or.inl rfl) _ (by omega) (by omega)).symm
        · exact (htls _ (Or.inr rfl) _ (by omega) (by omega)).symm
      have h0 := hd 0 (by norm_num) (by norm_num)
      have h4 := hd 4 (by norm_num) (by norm_num)
      rw [add_zero, add_zero] at h0
      rw [h0, h4]
      exact a3 k hk
  · -- neither is saved
    have hT : pushed_bytes cci = 316 := by
      simp [pushed_bytes, hskip, SIMD_REG_LIST_LEN, XSP_SZ]
    have hO : simd_slot_offset cci = 60 := by
      simp [simd_slot_offset, hskip, XSP_SZ]
    rw [hT, hO]
    rw [hafl.2 hskip]
    simp only [exec_list]
    obtain ⟨c1, c2, c3, c4, c5⟩ := exec_insert_push_all_registers_gprs cfg app sA
    generalize exec_list app (insert_push_all_registers_gprs cfg) sA = s1 at c1 c2 c3 c4 c5 ⊢
    refine ⟨?_, ?_, ?_, ?_, ?_⟩
    · rw [c1, a1]
      unfold wrap32
      omega
    · intro k hk
      rw [← c2 k hk, a1]
      congr 1
      unfold wrap32
      omega
    · rw [← c3, a1]
      congr 1
      unfold wrap32
      omega
    · intro h
      cases h
    · intro k hk
      have hd : ∀ d : Int, 0 ≤ d → d < 8 →
          s1.mem (wrap32 (s0.regs DR_REG_SP - 316 + 60 + 8 * k + d)) =
            sA.mem (wrap32 (s0.regs DR_REG_SP - 256 + 8 * k + d)) := by
        intro d hd1 hd2
        rw [c4]
        · congr 1
          unfold wrap32
          omega
        · intro i hi1 hi2
          rw [a1]
          unfold wrap32
          omega
      have h0 := hd 0 (by norm_num) (by norm_num)
      have h4 := hd 4 (by norm_num) (by norm_num)
      rw [add_zero, add_zero] at h0
      rw [h0, h4]
      exact a3 k hk

/-! ## The restore sequence, part by part -/

theorem load_dlist_set_reg (rs : List Nat) (a : Int) (s : mstate) (b : Nat) (v : Int)
    (h : b ∉ rs) : load_dlist rs a (s.set_reg b v) = (load_dlist rs a s).set_reg b v := by
  induction rs generalizing a s with
  | nil => rfl
  | cons q rs ih =>
    simp only [List.mem_cons, not_or] at h
    simp only [load_dlist, set_reg_mem]
    rw [set_reg_comm _ _ _ _ _ h.1, ih _ _ h.2]

/-- The general purpose registers of the restore sequence: r0..r12 come from
the 13 lowest words, the next word is passed over, lr comes from the word
after it, and the stack pointer ends 60 higher. -/
theorem exec_pop_gprs (cfg : config_t) (app : instr_t → mstate → mstate) (s : mstate) :
    (exec_list app
      [meta_insert cfg (INSTR_CREATE_ldm_wb (OPND_CREATE_MEMLIST DR_REG_SP)
         DR_REG_LIST_LENGTH_T32 DR_REG_LIST_T32),
       meta_insert cfg (XINST_CREATE_add (opnd_create_reg DR_REG_SP) (OPND_CREATE_INT8 XSP_SZ)),
       meta_insert cfg (INSTR_CREATE_pop (opnd_create_reg DR_REG_LR))] s) =
    ((load_list (reg_range DR_REG_R0 13) (s.regs DR_REG_SP) s).set_reg DR_REG_SP
        (wrap32 (s.regs DR_REG_SP + 60))).set_reg DR_REG_LR
      (s.mem (wrap32 (s.regs DR_REG_SP + 56))) := by
  have hsp : DR_REG_SP ∉ reg_range DR_REG_R0 13 := by
    rw [mem_reg_range]
    decide
  simp only [exec_list, exec_meta_ldm_t32, exec_meta_add8, exec_meta_pop, set_reg_same,
    set_reg_set_reg, set_reg_mem, load_list_mem, XSP_SZ, Nat.cast_ofNat]
  have e1 : wrap32 (wrap32 (wrap32 (s.regs DR_REG_SP + 52) + 4) + 4) =
      wrap32 (s.regs DR_REG_SP + 60) := by
    unfold wrap32
    omega
  have e2 : wrap32 (wrap32 (wrap32 (s.regs DR_REG_SP + 52) + 4)) =
      wrap32 (s.regs DR_REG_SP + 56) := by
    unfold wrap32
    omega
  rw [e1, e2]

/-- The status word of the restore sequence: the word at the stack pointer
is passed over, the status word comes from the word after it through `msr`,
r0 goes through its TLS slot, and the stack pointer ends 8 higher. -/
theorem exec_pop_aflags (cfg : config_t) (app : instr_t → mstate → mstate) (t : mstate)
    (hst : cfg.dr_reg_stolen ≠ DR_REG_SP ∧ cfg.dr_reg_stolen ≠ DR_REG_R0 ∧
      cfg.dr_reg_stolen ≠ DR_REG_CPSR)
    (htls : wrap32 (t.regs cfg.dr_reg_stolen + cfg.os_tls_offset cfg.TLS_REG0_SLOT) ≠
      wrap32 (t.regs DR_REG_SP + 4)) :
    (exec_list app
      [meta_insert cfg (XINST_CREATE_add (opnd_create_reg DR_REG_SP) (OPND_CREATE_INT8 XSP_SZ)),
       meta_insert cfg (instr_create_save_to_tls cfg DR_REG_R0 cfg.TLS_REG0_SLOT),
       meta_insert cfg (INSTR_CREATE_pop (opnd_create_reg DR_REG_R0)),
       meta_insert cfg (INSTR_CREATE_msr (opnd_create_reg DR_REG_CPSR)
         OPND_CREATE_INT_MSR_NZCVQG (opnd_create_reg DR_REG_R0)),
       meta_insert cfg (instr_create_restore_from_tls cfg DR_REG_R0 cfg.TLS_REG0_SLOT)] t).regs =
      (((t.set_reg DR_REG_SP (wrap32 (t.regs DR_REG_SP + 8))).set_reg DR_REG_CPSR
        (msr_write 12 (t.regs DR_REG_CPSR) (t.mem (wrap32 (t.regs DR_REG_SP + 4))))).set_reg
          DR_REG_R0 (t.regs DR_REG_R0)).regs ∧
    (∀ a, a ≠ wrap32 (t.regs cfg.dr_reg_stolen + cfg.os_tls_offset cfg.TLS_REG0_SLOT) →
      (exec_list app
      [meta_insert cfg (XINST_CREATE_add (opnd_create_reg DR_REG_SP) (OPND_CREATE_INT8 XSP_SZ)),
       meta_insert cfg (instr_create_save_to_tls cfg DR_REG_R0 cfg.TLS_REG0_SLOT),
       meta_insert cfg (INSTR_CREATE_pop (opnd_create_reg DR_REG_R0)),
       meta_insert cfg (INSTR_CREATE_msr (opnd_create_reg DR_REG_CPSR)
         OPND_CREATE_INT_MSR_NZCVQG (opnd_create_reg DR_REG_R0)),
       meta_insert cfg (instr_create_restore_from_tls cfg DR_REG_R0 cfg.TLS_REG0_SLOT)] t).mem a =
        t.mem a) := by
  obtain ⟨h1, h2, h3⟩ := hst
  have hr0sp : DR_REG_R0 ≠ DR_REG_SP := by decide
  have hcr0 : DR_REG_CPSR ≠ DR_REG_R0 := by decide
  have hcsp : DR_REG_CPSR ≠ DR_REG_SP := by decide
  have e8 : wrap32 (wrap32 (t.regs DR_REG_SP + 4) + 4) = wrap32 (t.regs DR_REG_SP + 8) := by
    unfold wrap32
    omega
  have e4 : wrap32 (wrap32 (t.regs DR_REG_SP + 4)) = wrap32 (t.regs DR_REG_SP + 4) := by
    unfold wrap32
    omega
  simp only [exec_list]
  generalize g1 : exec_instr app (meta_insert cfg
    (XINST_CREATE_add (opnd_create_reg DR_REG_SP) (OPND_CREATE_INT8 XSP_SZ))) t = t1
  rw [exec_meta_add8] at g1
  generalize g2 : exec_instr app (meta_insert cfg
    (instr_create_save_to_tls cfg DR_REG_R0 cfg.TLS_REG0_SLOT)) t1 = t2
  rw [exec_meta_save_to_tls] at g2
  generalize g3 : exec_instr app (meta_insert cfg
    (INSTR_CREATE_pop (opnd_create_reg DR_REG_R0))) t2 = t3
  rw [exec_meta_pop] at g3
  obtain ⟨m1, m2⟩ := exec_meta_msr cfg app DR_REG_CPSR DR_REG_R0 t3
  generalize exec_instr app (meta_insert cfg (INSTR_CREATE_msr (opnd_create_reg DR_REG_CPSR)
    OPND_CREATE_INT_MSR_NZCVQG (opnd_create_reg DR_REG_R0))) t3 = t4 at m1 m2 ⊢
  rw [exec_meta_restore_from_tls]
  -- the intermediate states
  have k1s : t1.regs DR_REG_SP = wrap32 (t.regs DR_REG_SP + 4) := by
    rw [← g1, set_reg_same]
    rfl
  have k1r : ∀ r, r ≠ DR_REG_SP → t1.regs r = t.regs r := by
    intro r hr
    rw [← g1, set_reg_other _ _ _ _ hr]
  have k1m : t1.mem = t.mem := by
    rw [← g1]
    rfl
  have k2r : t2.regs = t1.regs := by
    rw [← g2]
    rfl
  have k2m : ∀ a, t2.mem a = if a = wrap32 (t.regs cfg.dr_reg_stolen +
      cfg.os_tls_offset cfg.TLS_REG0_SLOT) then t.regs DR_REG_R0 else t.mem a := by
    intro a
    rw [← g2, k1r _ h1, k1r _ hr0sp, ← k1m]
    rfl
  have k3m : t3.mem = t2.mem := by
    rw [← g3]
    rfl
  have k3r0 : t3.regs DR_REG_R0 = t.mem (wrap32 (t.regs DR_REG_SP + 4)) := by
    rw [← g3, set_reg_same, k2m, k2r, k1s, e4, if_neg (Ne.symm htls)]
  have k3s : t3.regs DR_REG_SP = wrap32 (t.regs DR_REG_SP + 8) := by
    rw [← g3, set_reg_other _ _ _ _ (Ne.symm hr0sp), set_reg_same, k2r, k1s, e8]
  have k3r : ∀ r, r ≠ DR_REG_SP → r ≠ DR_REG_R0 → t3.regs r = t.regs r := by
    intro r hr hr0
    rw [← g3, set_reg_other _ _ _ _ hr0, set_reg_other _ _ _ _ hr, k2r, k1r _ hr]
  have k4st : t4.regs cfg.dr_reg_stolen = t.regs cfg.dr_reg_stolen := by
    rw [m1, set_reg_other _ _ _ _ h3, k3r _ h1 h2]
  constructor
  · funext r
    by_cases hr0 : r = DR_REG_R0
    · subst hr0
      rw [set_reg_same, set_reg_same, m2, k3m, k2m, k4st, if_pos rfl]
    · rw [set_reg_other _ _ _ _ hr0, set_reg_other _ _ _ _ hr0, m1]
      by_cases hrc : r = DR_REG_CPSR
      · subst hrc
        rw [set_reg_same, set_reg_same, k3r _ hcsp hcr0, k3r0]
      · rw [set_reg_other _ _ _ _ hrc, set_reg_other _ _ _ _ hrc]
        by_cases hrs : r = DR_REG_SP
        · subst hrs
          rw [set_reg_same, k3s]
        · rw [set_reg_other _ _ _ _ hrs, k3r _ hrs hr0]
  · intro a ha
    rw [set_reg_mem, m2, k3m, k2m, if_neg ha]

/-- The SIMD registers of the restore sequence: d0..d31 come from the 32
double words at the stack pointer, which ends 256 higher. -/
theorem exec_pop_simd (cfg : config_t) (app : instr_t → mstate → mstate) (u : mstate) :
    (exec_list app
      [meta_insert cfg (INSTR_CREATE_vldm_wb (OPND_CREATE_MEMLIST DR_REG_SP) SIMD_REG_LIST_LEN
         SIMD_REG_LIST_0_15),
       meta_insert cfg (INSTR_CREATE_vldm_wb (OPND_CREATE_MEMLIST DR_REG_SP) SIMD_REG_LIST_LEN
         SIMD_REG_LIST_16_31)] u) =
    (load_dlist (reg_range (DR_REG_D0 + 16) 16) (u.regs DR_REG_SP + 128)
      (load_dlist (reg_range DR_REG_D0 16) (u.regs DR_REG_SP) u)).set_reg DR_REG_SP
        (wrap32 (u.regs DR_REG_SP + 256)) := by
  have hsp : DR_REG_SP ∉ reg_range (DR_REG_D0 + 16) 16 := by
    rw [mem_reg_range]
    decide
  simp only [exec_list, exec_meta_vldm_0_15, exec_meta_vldm_16_31, set_reg_same]
  rw [load_dlist_set_reg _ _ _ _ _ hsp, set_reg_set_reg,
    load_dlist_addr_congr _ (wrap32 (u.regs DR_REG_SP + 128)) (u.regs DR_REG_SP + 128) _
      (by unfold wrap32; omega)]
  congr 1
  unfold wrap32
  omega
theorem exec_pop_simd_facts (cfg : config_t) (app : instr_t → mstate → mstate) (u : mstate) :
    (exec_list app
      [meta_insert cfg (INSTR_CREATE_vldm_wb (OPND_CREATE_MEMLIST DR_REG_SP) SIMD_REG_LIST_LEN
         SIMD_REG_LIST_0_15),
       meta_insert cfg (INSTR_CREATE_vldm_wb (OPND_CREATE_MEMLIST DR_REG_SP) SIMD_REG_LIST_LEN
         SIMD_REG_LIST_16_31)] u).regs DR_REG_SP = wrap32 (u.regs DR_REG_SP + 256) ∧
    (∀ k : Nat, k < 32 →
      (exec_list app
      [meta_insert cfg (INSTR_CREATE_vldm_wb (OPND_CREATE_MEMLIST DR_REG_SP) SIMD_REG_LIST_LEN
         SIMD_REG_LIST_0_15),
       meta_insert cfg (INSTR_CREATE_vldm_wb (OPND_CREATE_MEMLIST DR_REG_SP) SIMD_REG_LIST_LEN
         SIMD_REG_LIST_16_31)] u).regs (DR_REG_D0 + k) =
        u.mem (wrap32 (u.regs DR_REG_SP + 8 * k)) +
          4294967296 * u.mem (wrap32 (u.regs DR_REG_SP + 8 * k + 4))) ∧
    (∀ r, r ≠ DR_REG_SP → (∀ k : Nat, k < 32 → r ≠ DR_REG_D0 + k) →
      (exec_list app
      [meta_insert cfg (INSTR_CREATE_vldm_wb (OPND_CREATE_MEMLIST DR_REG_SP) SIMD_REG_LIST_LEN
         SIMD_REG_LIST_0_15),
       meta_insert cfg (INSTR_CREATE_vldm_wb (OPND_CREATE_MEMLIST DR_REG_SP) SIMD_REG_LIST_LEN
         SIMD_REG_LIST_16_31)] u).regs r = u.regs r) := by
  rw [exec_pop_simd]
  refine ⟨set_reg_same _ _ _, ?_, ?_⟩
  · intro k hk
    have hksp : DR_REG_D0 + k ≠ DR_REG_SP := by
      simp only [DR_REG_D0, DR_REG_PC, DR_REG_SP, DR_REG_R0]
      omega
    rw [set_reg_other _ _ _ _ hksp]
    by_cases hk16 : k < 16
    · rw [load_dlist_not_mem _ _ _ _ (by rw [mem_reg_range]; omega)]
      have h := load_dlist_getD (reg_range DR_REG_D0 16) (u.regs DR_REG_SP) u k
        (reg_range_nodup _ _) (by rw [reg_range_length]; exact hk16)
      rw [reg_range_getD _ _ _ hk16] at h
      exact h
    · have hj : k - 16 < 16 := by omega
      have h := load_dlist_getD (reg_range (DR_REG_D0 + 16) 16) (u.regs DR_REG_SP + 128)
        (load_dlist (reg_range DR_REG_D0 16) (u.regs DR_REG_SP) u) (k - 16)
        (reg_range_nodup _ _) (by rw [reg_range_length]; exact hj)
      rw [reg_range_getD _ _ _ hj, load_dlist_mem] at h
      have e2 : DR_REG_D0 + 16 + (k - 16) = DR_REG_D0 + k := by omega
      have e1 : u.regs DR_REG_SP + 128 + 8 * ((k - 16 : Nat) : Int) =
          u.regs DR_REG_SP + 8 * (k : Int) := by
        push_cast [Nat.cast_sub (not_lt.mp hk16)]
        ring
      rw [e2, e1] at h
      exact h
  · intro r hr hd
    rw [set_reg_other _ _ _ _ hr, load_dlist_not_mem, load_dlist_not_mem]
    · rw [mem_reg_range]
      intro h
      exact hd (r - DR_REG_D0) (by omega) (by omega)
    · rw [mem_reg_range]
      intro h
      exact hd (r - DR_REG_D0) (by omega) (by omega)

theorem exec_pop_simd_mem (cfg : config_t) (app : instr_t → mstate → mstate) (u : mstate) :
    (exec_list app
      [meta_insert cfg (INSTR_CREATE_vldm_wb (OPND_CREATE_MEMLIST DR_REG_SP) SIMD_REG_LIST_LEN
         SIMD_REG_LIST_0_15),
       meta_insert cfg (INSTR_CREATE_vldm_wb (OPND_CREATE_MEMLIST DR_REG_SP) SIMD_REG_LIST_LEN
         SIMD_REG_LIST_16_31)] u).mem = u.mem := by
  rw [exec_pop_simd, set_reg_mem, load_dlist_mem, load_dlist_mem]

theorem exec_pop_gprs_facts (cfg : config_t) (app : instr_t → mstate → mstate) (s : mstate) :
    (exec_list app
      [meta_insert cfg (INSTR_CREATE_ldm_wb (OPND_CREATE_MEMLIST DR_REG_SP)
         DR_REG_LIST_LENGTH_T32 DR_REG_LIST_T32),
       meta_insert cfg (XINST_CREATE_add (opnd_create_reg DR_REG_SP) (OPND_CREATE_INT8 XSP_SZ)),
       meta_insert cfg (INSTR_CREATE_pop (opnd_create_reg DR_REG_LR))] s).regs DR_REG_SP =
      wrap32 (s.regs DR_REG_SP + 60) ∧
    (∀ k : Nat, k < 13 →
      (exec_list app
      [meta_insert cfg (INSTR_CREATE_ldm_wb (OPND_CREATE_MEMLIST DR_REG_SP)
         DR_REG_LIST_LENGTH_T32 DR_REG_LIST_T32),
       meta_insert cfg (XINST_CREATE_add (opnd_create_reg DR_REG_SP) (OPND_CREATE_INT8 XSP_SZ)),
       meta_insert cfg (INSTR_CREATE_pop (opnd_create_reg DR_REG_LR))] s).regs (DR_REG_R0 + k) =
        s.mem (wrap32 (s.regs DR_REG_SP + 4 * k))) ∧
    (exec_list app
      [meta_insert cfg (INSTR_CREATE_ldm_wb (OPND_CREATE_MEMLIST DR_REG_SP)
         DR_REG_LIST_LENGTH_T32 DR_REG_LIST_T32),
       meta_insert cfg (XINST_CREATE_add (opnd_create_reg DR_REG_SP) (OPND_CREATE_INT8 XSP_SZ)),
       meta_insert cfg (INSTR_CREATE_pop (opnd_create_reg DR_REG_LR))] s).regs DR_REG_LR =
      s.mem (wrap32 (s.regs DR_REG_SP + 56)) ∧
    (exec_list app
      [meta_insert cfg (INSTR_CREATE_ldm_wb (OPND_CREATE_MEMLIST DR_REG_SP)
         DR_REG_LIST_LENGTH_T32 DR_REG_LIST_T32),
       meta_insert cfg (XINST_CREATE_add (opnd_create_reg DR_REG_SP) (OPND_CREATE_INT8 XSP_SZ)),
       meta_insert cfg (INSTR_CREATE_pop (opnd_create_reg DR_REG_LR))] s).mem = s.mem ∧
    (∀ r, r ≠ DR_REG_SP → r ≠ DR_REG_LR → (∀ k : Nat, k < 13 → r ≠ DR_REG_R0 + k) →
      (exec_list app
      [meta_insert cfg (INSTR_CREATE_ldm_wb (OPND_CREATE_MEMLIST DR_REG_SP)
         DR_REG_LIST_LENGTH_T32 DR_REG_LIST_T32),
       meta_insert cfg (XINST_CREATE_add (opnd_create_reg DR_REG_SP) (OPND_CREATE_INT8 XSP_SZ)),
       meta_insert cfg (INSTR_CREATE_pop (opnd_create_reg DR_REG_LR))] s).regs r = s.regs r) := by
  rw [exec_pop_gprs]
  have hlr : DR_REG_SP ≠ DR_REG_LR := by decide
  refine ⟨?_, ?_, set_reg_same _ _ _, ?_, ?_⟩
  · rw [set_reg_other _ _ _ _ hlr, set_reg_same]
  · intro k hk
    have h1 : DR_REG_R0 + k ≠ DR_REG_LR := by
      simp only [DR_REG_LR]
      omega
    have h2 : DR_REG_R0 + k ≠ DR_REG_SP := by
      simp only [DR_REG_SP]
      omega
    rw [set_reg_other _ _ _ _ h1, set_reg_other _ _ _ _ h2]
    have h := load_list_getD (reg_range DR_REG_R0 13) (s.regs DR_REG_SP) s k
      (reg_range_nodup _ _) (by rw [reg_range_length]; exact hk)
    rw [reg_range_getD _ _ _ hk] at h
    exact h
  · rw [set_reg_mem, set_reg_mem, load_list_mem]
  · intro r h1 h2 h3
    rw [set_reg_other _ _ _ _ h2, set_reg_other _ _ _ _ h1, load_list_not_mem]
    rw [mem_reg_range]
    intro h
    exact h3 (r - DR_REG_R0) (by omega) (by omega)

/-- Where the restore sequence takes the registers from: the layout of the
words it reads, seen from the stack pointer it finds. -/
theorem exec_pop_registers (cfg : config_t) (app : instr_t → mstate → mstate)
    (cci : clean_call_info_t) (s : mstate)
    (hst : DR_REG_STOLEN_MIN ≤ cfg.dr_reg_stolen ∧ cfg.dr_reg_stolen ≤ DR_REG_STOLEN_MAX)
    (htls : cci.skip_save_aflags = false → ∀ j : Int, 0 ≤ j → j < pushed_bytes cci →
      wrap32 (s.mem (wrap32 (s.regs DR_REG_SP +
          4 * ((cfg.dr_reg_stolen - DR_REG_R0 : Nat) : Int))) +
        cfg.os_tls_offset cfg.TLS_REG0_SLOT) ≠ wrap32 (s.regs DR_REG_SP + j)) :
    (exec_list app (insert_pop_all_registers_instrs cfg cci) s).regs DR_REG_SP =
      wrap32 (s.regs DR_REG_SP + pushed_bytes cci) ∧
    (∀ k : Nat, k < 13 →
      (exec_list app (insert_pop_all_registers_instrs cfg cci) s).regs (DR_REG_R0 + k) =
        s.mem (wrap32 (s.regs DR_REG_SP + 4 * k))) ∧
    (exec_list app (insert_pop_all_registers_instrs cfg cci) s).regs DR_REG_LR =
      s.mem (wrap32 (s.regs DR_REG_SP + 56)) ∧
    (cci.skip_save_aflags = false →
      (exec_list app (insert_pop_all_registers_instrs cfg cci) s).regs DR_REG_CPSR =
        msr_write 12 (s.regs DR_REG_CPSR) (s.mem (wrap32 (s.regs DR_REG_SP + 64)))) ∧
    (∀ k : Nat, k < 32 →
      (exec_list app (insert_pop_all_registers_instrs cfg cci) s).regs (DR_REG_D0 + k) =
        s.mem (wrap32 (s.regs DR_REG_SP + simd_slot_offset cci + 8 * k)) +
          4294967296 * s.mem (wrap32 (s.regs DR_REG_SP + simd_slot_offset cci + 8 * k + 4))) ∧
    (∀ r, r ≠ DR_REG_SP → r ≠ DR_REG_LR → (∀ k : Nat, k < 13 → r ≠ DR_REG_R0 + k) →
      (∀ k : Nat, k < 32 → r ≠ DR_REG_D0 + k) →
      (cci.skip_save_aflags = false → r ≠ DR_REG_CPSR) →
      (exec_list app (insert_pop_all_registers_instrs cfg cci) s).regs r = s.regs r) := by
  obtain ⟨g1, g2, g3, g4, g5⟩ := exec_pop_gprs_facts cfg app s
  unfold insert_pop_all_registers_instrs
  rw [exec_list_append, exec_list_append]
  generalize exec_list app
      [meta_insert cfg (INSTR_CREATE_ldm_wb (OPND_CREATE_MEMLIST DR_REG_SP)
         DR_REG_LIST_LENGTH_T32 DR_REG_LIST_T32),
       meta_insert cfg (XINST_CREATE_add (opnd_create_reg DR_REG_SP) (OPND_CREATE_INT8 XSP_SZ)),
       meta_insert cfg (INSTR_CREATE_pop (opnd_create_reg DR_REG_LR))] s = sG
    at g1 g2 g3 g4 g5 ⊢
  have hd_sp : ∀ k : Nat, k < 32 → DR_REG_D0 + k ≠ DR_REG_SP := by
    intro k hk
    simp only [DR_REG_D0, DR_REG_PC, DR_REG_SP, DR_REG_R0]
    omega
  have hd_lr : ∀ k : Nat, k < 32 → DR_REG_D0 + k ≠ DR_REG_LR := by
    intro k hk
    simp only [DR_REG_D0, DR_REG_PC, DR_REG_LR, DR_REG_R0]
    omega
  have hd_cp : ∀ k : Nat, k < 32 → DR_REG_CPSR ≠ DR_REG_D0 + k := by
    intro k hk
    simp only [DR_REG_D0, DR_REG_PC, DR_REG_CPSR, DR_REG_R0]
    omega
  have hr_sp : ∀ k : Nat, k < 13 → DR_REG_R0 + k ≠ DR_REG_SP := by
    intro k hk
    simp only [DR_REG_SP]
    omega
  have hr_d : ∀ k : Nat, k < 13 → ∀ j : Nat, j < 32 → DR_REG_R0 + k ≠ DR_REG_D0 + j := by
    intro k hk j hj
    simp only [DR_REG_D0, DR_REG_PC]
    omega
  have hr_cp : ∀ k : Nat, k < 13 → DR_REG_R0 + k ≠ DR_REG_CPSR := by
    intro k hk
    simp only [DR_REG_CPSR, DR_REG_PC]
    omega
  have hlr_d : ∀ j : Nat, j < 32 → DR_REG_LR ≠ DR_REG_D0 + j := by
    intro j hj
    simp only [DR_REG_D0, DR_REG_PC, DR_REG_LR]
    omega
  cases hskip : cci.skip_save_aflags
  · have hT : pushed_bytes cci = 324 := by
      simp [pushed_bytes, hskip, SIMD_REG_LIST_LEN, XSP_SZ]
    have hO : simd_slot_offset cci = 68 := by
      simp [simd_slot_offset, hskip, XSP_SZ]
    rw [hT, hO]
    have htls2 := htls hskip
    rw [hT] at htls2
    simp only [if_true]
    -- the stolen register after the general purpose registers are reloaded
    have hks : cfg.dr_reg_stolen - DR_REG_R0 < 13 := by
      have h1 := hst.1
      have h2 := hst.2
      simp only [DR_REG_STOLEN_MIN, DR_REG_STOLEN_MAX, DR_REG_R8, DR_REG_R12, DR_REG_R0]
        at h1 h2 ⊢
      omega
    have hkse : DR_REG_R0 + (cfg.dr_reg_stolen - DR_REG_R0) = cfg.dr_reg_stolen := by
      have h1 := hst.1
      simp only [DR_REG_STOLEN_MIN, DR_REG_R8, DR_REG_R0] at h1 ⊢
      omega
    have hstG := g2 _ hks
    rw [hkse] at hstG
    have hst3 : cfg.dr_reg_stolen ≠ DR_REG_SP ∧ cfg.dr_reg_stolen ≠ DR_REG_R0 ∧
        cfg.dr_reg_stolen ≠ DR_REG_CPSR := by
      have h1 := hst.1
      have h2 := hst.2
      simp only [DR_REG_STOLEN_MIN, DR_REG_STOLEN_MAX, DR_REG_R8, DR_REG_R12, DR_REG_R0,
        DR_REG_SP, DR_REG_CPSR, DR_REG_PC] at h1 h2 ⊢
      omega
    obtain ⟨t1, t2⟩ := exec_pop_aflags cfg app sG hst3 (by
      rw [hstG, g1]
      have := htls2 64 (by norm_num) (by norm_num)
      intro h
      apply this
      rw [h]
      unfold wrap32
      omega)
    generalize exec_list app
      [meta_insert cfg (XINST_CREATE_add (opnd_create_reg DR_REG_SP) (OPND_CREATE_INT8 XSP_SZ)),
       meta_insert cfg (instr_create_save_to_tls cfg DR_REG_R0 cfg.TLS_REG0_SLOT),
       meta_insert cfg (INSTR_CREATE_pop (opnd_create_reg DR_REG_R0)),
       meta_insert cfg (INSTR_CREATE_msr (opnd_create_reg DR_REG_CPSR)
         OPND_CREATE_INT_MSR_NZCVQG (opnd_create_reg DR_REG_R0)),
       meta_insert cfg (instr_create_restore_from_tls cfg DR_REG_R0 cfg.TLS_REG0_SLOT)] sG = tA
      at t1 t2 ⊢
    rw [hstG] at t2
    obtain ⟨d1, d2, d3⟩ := exec_pop_simd_facts cfg app tA
    generalize exec_list app
      [meta_insert cfg (INSTR_CREATE_vldm_wb (OPND_CREATE_MEMLIST DR_REG_SP) SIMD_REG_LIST_LEN
         SIMD_REG_LIST_0_15),
       meta_insert cfg (INSTR_CREATE_vldm_wb (OPND_CREATE_MEMLIST DR_REG_SP) SIMD_REG_LIST_LEN
         SIMD_REG_LIST_16_31)] tA = f at d1 d2 d3 ⊢
    have hr0sp : DR_REG_R0 ≠ DR_REG_SP := by decide
    have hcsp : DR_REG_CPSR ≠ DR_REG_SP := by decide
    have hcr0 : DR_REG_CPSR ≠ DR_REG_R0 := by decide
    have tsp : tA.regs DR_REG_SP = wrap32 (sG.regs DR_REG_SP + 8) := by
      rw [t1, set_reg_other _ _ _ _ (Ne.symm hr0sp), set_reg_other _ _ _ _ (Ne.symm hcsp),
        set_reg_same]
    have tr : ∀ r, r ≠ DR_REG_SP → r ≠ DR_REG_CPSR → tA.regs r = sG.regs r := by
      intro r h1 h2
      rw [t1]
      by_cases h0 : r = DR_REG_R0
      · subst h0
        rw [set_reg_same]
      · rw [set_reg_other _ _ _ _ h0, set_reg_other _ _ _ _ h2, set_reg_other _ _ _ _ h1]
    refine ⟨?_, ?_, ?_, ?_, ?_, ?_⟩
    · rw [d1, tsp, g1]
      unfold wrap32
      omega
    · intro k hk
      rw [d3 _ (hr_sp k hk) (fun j hj => hr_d k hk j hj), tr _ (hr_sp k hk) (hr_cp k hk),
        g2 k hk]
    · rw [d3 _ (by decide) hlr_d, tr _ (by decide) (by decide), g3]
    · intro _
      rw [d3 _ hcsp hd_cp, t1, set_reg_other _ _ _ _ hcr0, set_reg_same, g4, g1,
        g5 _ hcsp (by decide) (fun k hk => (hr_cp k hk).symm)]
      congr 2
      unfold wrap32
      omega
    · intro k hk
      rw [d2 k hk, tsp, g1]
      have hm : ∀ d : Int, 0 ≤ d → d < 8 →
          tA.mem (wrap32 (wrap32 (wrap32 (s.regs DR_REG_SP + 60) + 8) + 8 * k + d)) =
            s.mem (wrap32 (s.regs DR_REG_SP + 68 + 8 * k + d)) := by
        intro d hd1 hd2
        rw [t2, g4]
        · congr 1
          unfold wrap32
          omega
        · have := htls2 (68 + 8 * k + d) (by omega) (by omega)
          intro h
          apply this
          rw [← h]
          unfold wrap32
          omega
      have h0 := hm 0 (by norm_num) (by norm_num)
      have h4 := hm 4 (by norm_num) (by norm_num)
      rw [add_zero, add_zero] at h0
      rw [h0, h4]
    · intro r h1 h2 h3 h4 h5
      rw [d3 _ h1 h4, tr _ h1 (h5 trivial), g5 _ h1 h2 h3]
  · have hT : pushed_bytes cci = 316 := by
      simp [pushed_bytes, hskip, SIMD_REG_LIST_LEN, XSP_SZ]
    have hO : simd_slot_offset cci = 60 := by
      simp [simd_slot_offset, hskip, XSP_SZ]
    rw [hT, hO]
    simp only [Bool.true_eq_false, if_false, exec_list]
    obtain ⟨d1, d2, d3⟩ := exec_pop_simd_facts cfg app sG
    have dm := exec_pop_simd_mem cfg app sG
    simp only [exec_list] at d1 d2 d3 dm
    generalize exec_instr app
      (meta_insert cfg (INSTR_CREATE_vldm_wb (OPND_CREATE_MEMLIST DR_REG_SP) SIMD_REG_LIST_LEN
         SIMD_REG_LIST_16_31))
      (exec_instr app
        (meta_insert cfg (INSTR_CREATE_vldm_wb (OPND_CREATE_MEMLIST DR_REG_SP) SIMD_REG_LIST_LEN
         SIMD_REG_LIST_0_15)) sG) = f at d1 d2 d3 ⊢
    refine ⟨?_, ?_, ?_, ?_, ?_, ?_⟩
    · rw [d1, g1]
      unfold wrap32
      omega
    · intro k hk
      rw [d3 _ (hr_sp k hk) (fun j hj => hr_d k hk j hj), g2 k hk]
    · rw [d3 _ (by decide) hlr_d, g3]
    · intro h
      cases h
    · intro k hk
      rw [d2 k hk, g4, g1]
      have e0 : wrap32 (wrap32 (s.regs DR_REG_SP + 60) + 8 * (k : Int)) =
          wrap32 (s.regs DR_REG_SP + 60 + 8 * k) := by
        unfold wrap32
        omega
      have e4 : wrap32 (wrap32 (s.regs DR_REG_SP + 60) + 8 * (k : Int) + 4) =
          wrap32 (s.regs DR_REG_SP + 60 + 8 * k + 4) := by
        unfold wrap32
        omega
      rw [e0, e4]
    · intro r h1 h2 h3 h4 _
      rw [d3 _ h1 h4, g5 _ h1 h2 h3]

/-! ## The clean-call save: what it returns and how far it lowers sp -/

/-- The result of `insert_push_all_registers` when its assertions hold. -/
theorem insert_push_all_registers_eq (cfg : config_t) (cci : Option clean_call_info_t)
    (c : ilist_at) (alignment : Nat) (push_pc : opnd_t) (scratch : Nat)
    (hpc : opnd_is_immed_int push_pc = true ∨ opnd_is_reg push_pc = true)
    (hsimd : cfg.NUM_SIMD_SLOTS * cfg.sizeof_dr_simd_t = 2 * SIMD_REG_LIST_LEN * 8)
    (hassert : (cci.getD cfg.default_clean_call_info).skip_save_aflags = true ∨
      (cci.getD cfg.default_clean_call_info).num_xmms_skip ≠ 0 ∨
      (cci.getD cfg.default_clean_call_info).num_regs_skip ≠ 0 ∨
      cfg.NUM_SIMD_SLOTS * cfg.sizeof_dr_simd_t + 2 * XSP_SZ + 15 * XSP_SZ =
        cfg.get_clean_call_switch_stack_size % 4294967296) :
    ∃ afl,
      ((cci.getD cfg.default_clean_call_info).skip_save_aflags = false →
        insert_push_all_registers_aflags cfg push_pc scratch = some afl) ∧
      ((cci.getD cfg.default_clean_call_info).skip_save_aflags = true → afl = []) ∧
      insert_push_all_registers cfg cci c alignment push_pc scratch =
        some ({ c with prev := (insert_push_all_registers_simd cfg ++ afl ++
                  insert_push_all_registers_gprs cfg).reverse ++ c.prev },
              cfg.NUM_SIMD_SLOTS * cfg.sizeof_dr_simd_t + 15 * 4 +
                (if (cci.getD cfg.default_clean_call_info).skip_save_aflags = true then 0
                 else 8)) := by
  have hsome : ∃ l, insert_push_all_registers_aflags cfg push_pc scratch = some l := by
    unfold insert_push_all_registers_aflags
    rcases hpc with h | h
    · simp only [h, if_true]
      exact ⟨_, rfl⟩
    · by_cases h2 : opnd_is_immed_int push_pc = true
      · simp only [h2, if_true]
        exact ⟨_, rfl⟩
      · simp only [h2, h, if_true, if_false]
        exact ⟨_, rfl⟩
  obtain ⟨l, hl⟩ := hsome
  have h256 : cfg.NUM_SIMD_SLOTS * cfg.sizeof_dr_simd_t = 256 := by
    rw [hsimd]
    rfl
  unfold insert_push_all_registers
  simp only []
  cases hskip : (cci.getD cfg.default_clean_call_info).skip_save_aflags
  · refine ⟨l, fun _ => hl, fun h => absurd h (by decide), ?_⟩
    rw [hskip] at hassert
    have hsz : 324 = cfg.get_clean_call_switch_stack_size % 4294967296 ∨
        (cci.getD cfg.default_clean_call_info).num_xmms_skip ≠ 0 ∨
        (cci.getD cfg.default_clean_call_info).num_regs_skip ≠ 0 := by
      rcases hassert with h | h | h | h
      · cases h
      · exact Or.inr (Or.inl h)
      · exact Or.inr (Or.inr h)
      · left
        rw [← h, h256]
        rfl
    simp only [hl, h256, XSP_SZ, Bool.false_eq_true, if_false, if_true, Bool.false_or]
    have e : ((((0 + 256) % 4294967296 + 4) % 4294967296 + 4) % 4294967296 + 15 * 4) %
        4294967296 = 324 := by norm_num
    rw [e]
    have hc : ((cci.getD cfg.default_clean_call_info).num_xmms_skip != 0 ||
        (cci.getD cfg.default_clean_call_info).num_regs_skip != 0 ||
        324 == cfg.get_clean_call_switch_stack_size % 4294967296) = true := by
      rcases hsz with h | h | h
      · simp [← h]
      · simp [h]
      · simp [h]
    rw [if_pos hc]
  · refine ⟨[], fun h => absurd h (by decide), fun _ => rfl, ?_⟩
    simp only [h256, XSP_SZ, Bool.true_eq_false, if_false, if_true, Bool.true_or,
      List.append_nil]

/-- C24: for every clean-call info (a null pointer included), ISA mode,
alignment argument, `push_pc` that is an immediate or a register, and scratch
argument, when the SIMD slots of the context take the 256 bytes of d0..d31
and the closing assertion of the function holds: `insert_push_all_registers`
returns `NUM_SIMD_SLOTS*sizeof(dr_simd_t) + 15*4`, plus 8 unless
`skip_save_aflags`; a second call with any other mode, alignment and scratch
returns the same number; and executing the instructions it inserted lowers sp
by exactly that number (the scratch register, which receives the status word,
being a register other than sp). -/
theorem insert_push_all_registers_returns_bytes_pushed (cfg : config_t)
    (cci : Option clean_call_info_t) (c : ilist_at) (push_pc : opnd_t)
    (mode mode2 : dr_isa_mode_t) (alignment alignment2 scratch scratch2 : Nat)
    (hpc : opnd_is_immed_int push_pc = true ∨ opnd_is_reg push_pc = true)
    (hsimd : cfg.NUM_SIMD_SLOTS * cfg.sizeof_dr_simd_t = 2 * SIMD_REG_LIST_LEN * 8)
    (hassert : (cci.getD cfg.default_clean_call_info).skip_save_aflags = true ∨
      (cci.getD cfg.default_clean_call_info).num_xmms_skip ≠ 0 ∨
      (cci.getD cfg.default_clean_call_info).num_regs_skip ≠ 0 ∨
      cfg.NUM_SIMD_SLOTS * cfg.sizeof_dr_simd_t + 2 * XSP_SZ + 15 * XSP_SZ =
        cfg.get_clean_call_switch_stack_size % 4294967296) :
    ∃ r ins r2,
      insert_push_all_registers { cfg with isa_mode := mode } cci c alignment push_pc
          scratch =
        some (r, cfg.NUM_SIMD_SLOTS * cfg.sizeof_dr_simd_t + 15 * 4 +
          (if (cci.getD cfg.default_clean_call_info).skip_save_aflags = true then 0
           else 8)) ∧
      insert_push_all_registers { cfg with isa_mode := mode2 } cci c alignment2 push_pc
          scratch2 =
        some (r2, cfg.NUM_SIMD_SLOTS * cfg.sizeof_dr_simd_t + 15 * 4 +
          (if (cci.getD cfg.default_clean_call_info).skip_save_aflags = true then 0
           else 8)) ∧
      r.prev = ins.reverse ++ c.prev ∧ r.instr = c.instr ∧ r.mid = c.mid ∧
      r.next = c.next ∧
      ∀ (app : instr_t → mstate → mstate) (s : mstate), scratch ≠ DR_REG_SP →
        (exec_list app ins s).regs DR_REG_SP =
          wrap32 (s.regs DR_REG_SP -
            ((cfg.NUM_SIMD_SLOTS * cfg.sizeof_dr_simd_t + 15 * 4 +
              (if (cci.getD cfg.default_clean_call_info).skip_save_aflags = true then 0
               else 8) : Nat) : Int)) := by
  obtain ⟨afl, h1, h2, h3⟩ := insert_push_all_registers_eq { cfg with isa_mode := mode } cci c
    alignment push_pc scratch hpc hsimd hassert
  obtain ⟨afl2, -, -, k3⟩ := insert_push_all_registers_eq { cfg with isa_mode := mode2 } cci c
    alignment2 push_pc scratch2 hpc hsimd hassert
  refine ⟨_, _, _, h3, k3, rfl, rfl, rfl, rfl, ?_⟩
  intro app s hscr
  have h256 : cfg.NUM_SIMD_SLOTS * cfg.sizeof_dr_simd_t = 256 := by
    rw [hsimd]
    rfl
  rw [h256, exec_list_append, exec_list_append]
  obtain ⟨a1, -, -⟩ := exec_insert_push_all_registers_simd { cfg with isa_mode := mode } app s
  generalize exec_list app (insert_push_all_registers_simd { cfg with isa_mode := mode }) s =
    sA at a1 ⊢
  cases hskip : (cci.getD cfg.default_clean_call_info).skip_save_aflags
  · obtain ⟨b1, -, -⟩ := exec_insert_push_all_registers_aflags { cfg with isa_mode := mode }
      app push_pc scratch sA afl (h1 hskip) hscr
    generalize exec_list app afl sA = sB at b1 ⊢
    rw [(exec_insert_push_all_registers_gprs { cfg with isa_mode := mode } app sB).1, b1, a1]
    simp only [Bool.false_eq_true, if_false]
    unfold wrap32
    push_cast
    omega
  · rw [h2 hskip]
    simp only [exec_list, if_true]
    rw [(exec_insert_push_all_registers_gprs { cfg with isa_mode := mode } app sA).1, a1]
    unfold wrap32
    push_cast
    omega

theorem insert_push_all_registers_returns_bytes_pushed_witness :
    ∃ r ins r2,
      insert_push_all_registers { ex_cfg with isa_mode := DR_ISA_ARM_THUMB } none ex_svc_at 1
          (OPND_CREATE_INT 12288) REG_NULL =
        some (r, ex_cfg.NUM_SIMD_SLOTS * ex_cfg.sizeof_dr_simd_t + 15 * 4 +
          (if ((none : Option clean_call_info_t).getD
              ex_cfg.default_clean_call_info).skip_save_aflags = true then 0
           else 8)) ∧
      insert_push_all_registers { ex_cfg with isa_mode := DR_ISA_ARM_A32 } none ex_svc_at 8
          (OPND_CREATE_INT 12288) DR_REG_R3 =
        some (r2, ex_cfg.NUM_SIMD_SLOTS * ex_cfg.sizeof_dr_simd_t + 15 * 4 +
          (if ((none : Option clean_call_info_t).getD
              ex_cfg.default_clean_call_info).skip_save_aflags = true then 0
           else 8)) ∧
      r.prev = ins.reverse ++ ex_svc_at.prev ∧ r.instr = ex_svc_at.instr ∧
      r.mid = ex_svc_at.mid ∧ r.next = ex_svc_at.next ∧
      ∀ (app : instr_t → mstate → mstate) (s : mstate), REG_NULL ≠ DR_REG_SP →
        (exec_list app ins s).regs DR_REG_SP =
          wrap32 (s.regs DR_REG_SP -
            ((ex_cfg.NUM_SIMD_SLOTS * ex_cfg.sizeof_dr_simd_t + 15 * 4 +
              (if ((none : Option clean_call_info_t).getD
                  ex_cfg.default_clean_call_info).skip_save_aflags = true then 0
               else 8) : Nat) : Int)) :=
  insert_push_all_registers_returns_bytes_pushed ex_cfg none ex_svc_at (OPND_CREATE_INT 12288)
    DR_ISA_ARM_THUMB DR_ISA_ARM_A32 1 8 REG_NULL DR_REG_R3
    (Or.inl rfl) (by decide) (Or.inr (Or.inr (Or.inr (by decide))))

/-! ## The clean-call restore mirrors the save -/

/-- The restore sequence reads neither the word the save left for sp nor,
when the status word is saved, the word of the pc: two states with the same
registers whose memories differ at most there leave the same registers. -/
theorem exec_pop_registers_congr (cfg : config_t) (app : instr_t → mstate → mstate)
    (cci : clean_call_info_t) (s s2 : mstate)
    (hst : DR_REG_STOLEN_MIN ≤ cfg.dr_reg_stolen ∧ cfg.dr_reg_stolen ≤ DR_REG_STOLEN_MAX)
    (htls : cci.skip_save_aflags = false → ∀ j : Int, 0 ≤ j → j < pushed_bytes cci →
      wrap32 (s.mem (wrap32 (s.regs DR_REG_SP +
          4 * ((cfg.dr_reg_stolen - DR_REG_R0 : Nat) : Int))) +
        cfg.os_tls_offset cfg.TLS_REG0_SLOT) ≠ wrap32 (s.regs DR_REG_SP + j))
    (hregs : s2.regs = s.regs)
    (hmem : ∀ b, b ≠ wrap32 (s.regs DR_REG_SP + 52) →
      (cci.skip_save_aflags = false → b ≠ wrap32 (s.regs DR_REG_SP + 60)) →
      s2.mem b = s.mem b) :
    (exec_list app (insert_pop_all_registers_instrs cfg cci) s2).regs =
      (exec_list app (insert_pop_all_registers_instrs cfg cci) s).regs := by
  have hks : cfg.dr_reg_stolen - DR_REG_R0 < 13 ∧ 8 ≤ cfg.dr_reg_stolen - DR_REG_R0 := by
    have h1 := hst.1
    have h2 := hst.2
    simp only [DR_REG_STOLEN_MIN, DR_REG_STOLEN_MAX, DR_REG_R8, DR_REG_R12, DR_REG_R0]
      at h1 h2 ⊢
    omega
  have hO : simd_slot_offset cci = if cci.skip_save_aflags = true then 60 else 68 := by
    cases h : cci.skip_save_aflags <;> simp [simd_slot_offset, h, XSP_SZ]
  have hslot : s2.mem (wrap32 (s.regs DR_REG_SP +
      4 * ((cfg.dr_reg_stolen - DR_REG_R0 : Nat) : Int))) =
      s.mem (wrap32 (s.regs DR_REG_SP +
        4 * ((cfg.dr_reg_stolen - DR_REG_R0 : Nat) : Int))) := by
    apply hmem
    · unfold wrap32
      omega
    · intro _
      unfold wrap32
      omega
  have htls2 : cci.skip_save_aflags = false → ∀ j : Int, 0 ≤ j → j < pushed_bytes cci →
      wrap32 (s2.mem (wrap32 (s2.regs DR_REG_SP +
          4 * ((cfg.dr_reg_stolen - DR_REG_R0 : Nat) : Int))) +
        cfg.os_tls_offset cfg.TLS_REG0_SLOT) ≠ wrap32 (s2.regs DR_REG_SP + j) := by
    rw [hregs, hslot]
    exact htls
  obtain ⟨p1, p2, p3, p4, p5, p6⟩ := exec_pop_registers cfg app cci s hst htls
  obtain ⟨q1, q2, q3, q4, q5, q6⟩ := exec_pop_registers cfg app cci s2 hst htls2
  rw [hregs] at q1 q2 q3 q4 q5 q6
  funext r
  by_cases h1 : r = DR_REG_SP
  · rw [h1, p1, q1]
  by_cases h2 : r = DR_REG_LR
  · rw [h2, p3, q3]
    apply hmem
    · unfold wrap32
      omega
    · intro _
      unfold wrap32
      omega
  by_cases h3 : ∃ k : Nat, k < 13 ∧ r = DR_REG_R0 + k
  · obtain ⟨k, hk, rfl⟩ := h3
    rw [p2 k hk, q2 k hk]
    apply hmem
    · unfold wrap32
      omega
    · intro _
      unfold wrap32
      omega
  by_cases h4 : ∃ k : Nat, k < 32 ∧ r = DR_REG_D0 + k
  · obtain ⟨k, hk, rfl⟩ := h4
    rw [p5 k hk, q5 k hk, hO]
    have e1 : s2.mem (wrap32 (s.regs DR_REG_SP +
        (if cci.skip_save_aflags = true then 60 else 68) + 8 * (k : Int))) =
        s.mem (wrap32 (s.regs DR_REG_SP +
          (if cci.skip_save_aflags = true then 60 else 68) + 8 * (k : Int))) := by
      apply hmem
      · split_ifs <;> (unfold wrap32; omega)
      · intro hs
        rw [hs]
        simp only [Bool.false_eq_true, if_false]
        unfold wrap32
        omega
    have e2 : s2.mem (wrap32 (s.regs DR_REG_SP +
        (if cci.skip_save_aflags = true then 60 else 68) + 8 * (k : Int) + 4)) =
        s.mem (wrap32 (s.regs DR_REG_SP +
          (if cci.skip_save_aflags = true then 60 else 68) + 8 * (k : Int) + 4)) := by
      apply hmem
      · split_ifs <;> (unfold wrap32; omega)
      · intro hs
        rw [hs]
        simp only [Bool.false_eq_true, if_false]
        unfold wrap32
        omega
    rw [e1, e2]
  by_cases h5 : cci.skip_save_aflags = false ∧ r = DR_REG_CPSR
  · obtain ⟨hs, rfl⟩ := h5
    rw [p4 hs, q4 hs]
    congr 1
    apply hmem
    · unfold wrap32
      omega
    · intro _
      unfold wrap32
      omega
  · have h3b : ∀ k : Nat, k < 13 → r ≠ DR_REG_R0 + k := fun k hk he => h3 ⟨k, hk, he⟩
    have h4b : ∀ k : Nat, k < 32 → r ≠ DR_REG_D0 + k := fun k hk he => h4 ⟨k, hk, he⟩
    have h5b : cci.skip_save_aflags = false → r ≠ DR_REG_CPSR := fun hs he => h5 ⟨hs, he⟩
    rw [p6 r h1 h2 h3b h4b h5b, q6 r h1 h2 h3b h4b h5b]

/-- C25: `insert_pop_all_registers` against `insert_push_all_registers` for
the same clean-call info and mode.  The restore sequence raises sp by the
number the save returns.  Seen from the stack pointer the save leaves, and
from the stack pointer the restore finds, the words are the same: r0..r12 at
offsets 0..48, lr at 56, the status word at 64 (written back through `msr`
with the mask NZCVQG) and d0..d31 from `simd_slot_offset` on, each register
reloaded from the word in which the save stored it.  The words at offset 52
(left for sp) and, when the status word is saved, at 60 (the pc) are not
read: changing them changes no register the restore leaves. -/
theorem insert_pop_all_registers_mirrors_push (cfg : config_t)
    (cci : Option clean_call_info_t) (c c2 : ilist_at) (alignment : Nat) (push_pc : opnd_t)
    (scratch : Nat) (app : instr_t → mstate → mstate) (s0 s : mstate)
    (hpc : opnd_is_immed_int push_pc = true ∨ opnd_is_reg push_pc = true)
    (hscr : scratch ≠ DR_REG_SP)
    (hst : DR_REG_STOLEN_MIN ≤ cfg.dr_reg_stolen ∧ cfg.dr_reg_stolen ≤ DR_REG_STOLEN_MAX)
    (hsimd : cfg.NUM_SIMD_SLOTS * cfg.sizeof_dr_simd_t = 2 * SIMD_REG_LIST_LEN * 8)
    (hassert : (cci.getD cfg.default_clean_call_info).skip_save_aflags = true ∨
      (cci.getD cfg.default_clean_call_info).num_xmms_skip ≠ 0 ∨
      (cci.getD cfg.default_clean_call_info).num_regs_skip ≠ 0 ∨
      cfg.NUM_SIMD_SLOTS * cfg.sizeof_dr_simd_t + 2 * XSP_SZ + 15 * XSP_SZ =
        cfg.get_clean_call_switch_stack_size % 4294967296)
    (htls0 : ∀ slot, slot = cfg.TLS_REG0_SLOT ∨ slot = TLS_REG1_SLOT cfg →
      ∀ j : Int, 0 ≤ j → j < pushed_bytes (cci.getD cfg.default_clean_call_info) →
        wrap32 (s0.regs cfg.dr_reg_stolen + cfg.os_tls_offset slot) ≠
          wrap32 (s0.regs DR_REG_SP - pushed_bytes (cci.getD cfg.default_clean_call_info) + j))
    (htls : (cci.getD cfg.default_clean_call_info).skip_save_aflags = false →
      ∀ j : Int, 0 ≤ j → j < pushed_bytes (cci.getD cfg.default_clean_call_info) →
      wrap32 (s.mem (wrap32 (s.regs DR_REG_SP +
          4 * ((cfg.dr_reg_stolen - DR_REG_R0 : Nat) : Int))) +
        cfg.os_tls_offset cfg.TLS_REG0_SLOT) ≠ wrap32 (s.regs DR_REG_SP + j)) :
    ∃ r ins n pops,
      insert_push_all_registers cfg cci c alignment push_pc scratch = some (r, n) ∧
      r.prev = ins.reverse ++ c.prev ∧
      (insert_pop_all_registers cfg cci c2 alignment).prev = pops.reverse ++ c2.prev ∧
      (exec_list app ins s0).regs DR_REG_SP = wrap32 (s0.regs DR_REG_SP - n) ∧
      (exec_list app pops s).regs DR_REG_SP = wrap32 (s.regs DR_REG_SP + n) ∧
      (∀ k : Nat, k < 13 →
        (exec_list app ins s0).mem (wrap32 ((exec_list app ins s0).regs DR_REG_SP + 4 * k)) =
          (exec_list app ins s0).regs (DR_REG_R0 + k) ∧
        (exec_list app pops s).regs (DR_REG_R0 + k) =
          s.mem (wrap32 (s.regs DR_REG_SP + 4 * k))) ∧
      ((exec_list app ins s0).mem (wrap32 ((exec_list app ins s0).regs DR_REG_SP + 56)) =
          (exec_list app ins s0).regs DR_REG_LR ∧
        (exec_list app pops s).regs DR_REG_LR = s.mem (wrap32 (s.regs DR_REG_SP + 56))) ∧
      ((cci.getD cfg.default_clean_call_info).skip_save_aflags = false →
        (exec_list app ins s0).mem (wrap32 ((exec_list app ins s0).regs DR_REG_SP + 64)) =
          s0.regs DR_REG_CPSR ∧
        (exec_list app pops s).regs DR_REG_CPSR =
          msr_write 12 (s.regs DR_REG_CPSR) (s.mem (wrap32 (s.regs DR_REG_SP + 64)))) ∧
      (∀ k : Nat, k < 32 →
        (exec_list app ins s0).mem (wrap32 ((exec_list app ins s0).regs DR_REG_SP +
            simd_slot_offset (cci.getD cfg.default_clean_call_info) + 8 * k)) =
          s0.regs (DR_REG_D0 + k) % 4294967296 ∧
        (exec_list app ins s0).mem (wrap32 ((exec_list app ins s0).regs DR_REG_SP +
            simd_slot_offset (cci.getD cfg.default_clean_call_info) + 8 * k + 4)) =
          s0.regs (DR_REG_D0 + k) / 4294967296 % 4294967296 ∧
        (exec_list app pops s).regs (DR_REG_D0 + k) =
          s.mem (wrap32 (s.regs DR_REG_SP +
            simd_slot_offset (cci.getD cfg.default_clean_call_info) + 8 * k)) +
          4294967296 * s.mem (wrap32 (s.regs DR_REG_SP +
            simd_slot_offset (cci.getD cfg.default_clean_call_info) + 8 * k + 4))) ∧
      (∀ s2 : mstate, s2.regs = s.regs →
        (∀ b, b ≠ wrap32 (s.regs DR_REG_SP + 52) →
          ((cci.getD cfg.default_clean_call_info).skip_save_aflags = false →
            b ≠ wrap32 (s.regs DR_REG_SP + 60)) → s2.mem b = s.mem b) →
        (exec_list app pops s2).regs = (exec_list app pops s).regs) := by
  obtain ⟨afl, h1, h2, h3⟩ := insert_push_all_registers_eq cfg cci c alignment push_pc scratch
    hpc hsimd hassert
  obtain ⟨l1, l2, l3, l4, l5⟩ := exec_push_layout cfg app
    (cci.getD cfg.default_clean_call_info) push_pc scratch afl s0 ⟨h1, h2⟩ hscr
    (by
      have a := hst.1
      simp only [DR_REG_STOLEN_MIN, DR_REG_R8, DR_REG_R0, DR_REG_SP] at a ⊢
      have b := hst.2
      simp only [DR_REG_STOLEN_MAX, DR_REG_R12, DR_REG_R0] at b
      omega) htls0
  obtain ⟨p1, p2, p3, p4, p5, -⟩ := exec_pop_registers cfg app
    (cci.getD cfg.default_clean_call_info) s hst htls
  have hn : ((cfg.NUM_SIMD_SLOTS * cfg.sizeof_dr_simd_t + 15 * 4 +
      (if (cci.getD cfg.default_clean_call_info).skip_save_aflags = true then 0 else 8) :
        Nat) : Int) = pushed_bytes (cci.getD cfg.default_clean_call_info) := by
    rw [hsimd]
    unfold pushed_bytes
    cases (cci.getD cfg.default_clean_call_info).skip_save_aflags <;>
      simp [SIMD_REG_LIST_LEN, XSP_SZ]
  refine ⟨_, insert_push_all_registers_simd cfg ++ afl ++ insert_push_all_registers_gprs cfg,
    _, insert_pop_all_registers_instrs cfg (cci.getD cfg.default_clean_call_info),
    h3, rfl, rfl, ?_, ?_, ?_, ?_, ?_, ?_, ?_⟩
  · rw [hn]
    exact l1
  · rw [hn]
    exact p1
  · intro k hk
    refine ⟨?_, p2 k hk⟩
    rw [← l2 k hk, l1]
    congr 1
    unfold wrap32
    omega
  · refine ⟨?_, p3⟩
    rw [← l3, l1]
    congr 1
    unfold wrap32
    omega
  · intro hs
    refine ⟨?_, p4 hs⟩
    rw [← l4 hs, l1]
    congr 1
    unfold wrap32
    omega
  · intro k hk
    obtain ⟨a, b⟩ := l5 k hk
    refine ⟨?_, ?_, p5 k hk⟩
    · rw [← a, l1]
      congr 1
      unfold wrap32
      omega
    · rw [← b, l1]
      congr 1
      unfold wrap32
      omega
  · intro s2 hr hm
    exact exec_pop_registers_congr cfg app _ s s2 hst htls hr hm

theorem insert_pop_all_registers_mirrors_push_witness :
    ∃ r ins n pops,
      insert_push_all_registers ex_cfg (none : Option clean_call_info_t) ex_svc_at 1 (OPND_CREATE_INT 12288) REG_NULL = some (r, n) ∧
      r.prev = ins.reverse ++ ex_svc_at.prev ∧
      (insert_pop_all_registers ex_cfg (none : Option clean_call_info_t) ex_svc_at 1).prev = pops.reverse ++ ex_svc_at.prev ∧
      (exec_list ex_app ins ex_state).regs DR_REG_SP = wrap32 (ex_state.regs DR_REG_SP - n) ∧
      (exec_list ex_app pops ex_state_saved).regs DR_REG_SP = wrap32 (ex_state_saved.regs DR_REG_SP + n) ∧
      (∀ k : Nat, k < 13 →
        (exec_list ex_app ins ex_state).mem (wrap32 ((exec_list ex_app ins ex_state).regs DR_REG_SP + 4 * k)) =
          (exec_list ex_app ins ex_state).regs (DR_REG_R0 + k) ∧
        (exec_list ex_app pops ex_state_saved).regs (DR_REG_R0 + k) =
          ex_state_saved.mem (wrap32 (ex_state_saved.regs DR_REG_SP + 4 * k))) ∧
      ((exec_list ex_app ins ex_state).mem (wrap32 ((exec_list ex_app ins ex_state).regs DR_REG_SP + 56)) =
          (exec_list ex_app ins ex_state).regs DR_REG_LR ∧
        (exec_list ex_app pops ex_state_saved).regs DR_REG_LR = ex_state_saved.mem (wrap32 (ex_state_saved.regs DR_REG_SP + 56))) ∧
      (((none : Option clean_call_info_t).getD ex_cfg.default_clean_call_info).skip_save_aflags = false →
        (exec_list ex_app ins ex_state).mem (wrap32 ((exec_list ex_app ins ex_state).regs DR_REG_SP + 64)) =
          ex_state.regs DR_REG_CPSR ∧
        (exec_list ex_app pops ex_state_saved).regs DR_REG_CPSR =
          msr_write 12 (ex_state_saved.regs DR_REG_CPSR) (ex_state_saved.mem (wrap32 (ex_state_saved.regs DR_REG_SP + 64)))) ∧
      (∀ k : Nat, k < 32 →
        (exec_list ex_app ins ex_state).mem (wrap32 ((exec_list ex_app ins ex_state).regs DR_REG_SP +
            simd_slot_offset ((none : Option clean_call_info_t).getD ex_cfg.default_clean_call_info) + 8 * k)) =
          ex_state.regs (DR_REG_D0 + k) % 4294967296 ∧
        (exec_list ex_app ins ex_state).mem (wrap32 ((exec_list ex_app ins ex_state).regs DR_REG_SP +
            simd_slot_offset ((none : Option clean_call_info_t).getD ex_cfg.default_clean_call_info) + 8 * k + 4)) =
          ex_state.regs (DR_REG_D0 + k) / 4294967296 % 4294967296 ∧
        (exec_list ex_app pops ex_state_saved).regs (DR_REG_D0 + k) =
          ex_state_saved.mem (wrap32 (ex_state_saved.regs DR_REG_SP +
            simd_slot_offset ((none : Option clean_call_info_t).getD ex_cfg.default_clean_call_info) + 8 * k)) +
          4294967296 * ex_state_saved.mem (wrap32 (ex_state_saved.regs DR_REG_SP +
            simd_slot_offset ((none : Option clean_call_info_t).getD ex_cfg.default_clean_call_info) + 8 * k + 4))) ∧
      (∀ s2 : mstate, s2.regs = ex_state_saved.regs →
        (∀ b, b ≠ wrap32 (ex_state_saved.regs DR_REG_SP + 52) →
          (((none : Option clean_call_info_t).getD ex_cfg.default_clean_call_info).skip_save_aflags = false →
            b ≠ wrap32 (ex_state_saved.regs DR_REG_SP + 60)) → s2.mem b = ex_state_saved.mem b) →
        (exec_list ex_app pops s2).regs = (exec_list ex_app pops ex_state_saved).regs) :=
  insert_pop_all_registers_mirrors_push ex_cfg none ex_svc_at ex_svc_at 1
    (OPND_CREATE_INT 12288) REG_NULL ex_app ex_state ex_state_saved
    (Or.inl rfl) (by decide) (by decide) (by decide) (Or.inr (Or.inr (Or.inr (by decide))))
    (by
      intro slot hs j h0 h1
      have hT : pushed_bytes ((none : Option clean_call_info_t).getD
          ex_cfg.default_clean_call_info) = 324 := by decide
      rw [hT] at h1 ⊢
      rcases hs with rfl | rfl <;>
        simp only [ex_state, ex_cfg, TLS_REG1_SLOT, wrap32, DR_REG_R10, DR_REG_SP, DR_REG_R0] <;>
        norm_num <;> omega)
    (by
      intro _ j h0 h1
      have hT : pushed_bytes ((none : Option clean_call_info_t).getD
          ex_cfg.default_clean_call_info) = 324 := by decide
      rw [hT] at h1
      simp only [ex_state_saved, ex_cfg, wrap32, DR_REG_R10, DR_REG_SP, DR_REG_R0]
      norm_num
      omega)

theorem ite_ok_ne_not_implemented {α : Type} (c : Prop) [Decidable c] (x : α) :
    (if c then (Except.ok x : Except mangle_error α) else .error .assert_failed) ≠
      .error .not_implemented := by
  split <;> simp

theorem ite_assert_ne_not_implemented {α : Type} (c : Prop) [Decidable c] (x : α) :
    (if c then (Except.error .assert_failed : Except mangle_error α) else .ok x) ≠
      .error .not_implemented := by
  split <;> simp

/-- C36: `normalize_ldm_instr` answers "not implemented" exactly for the
forms that write PC, have no writeback (a single source) and have the base
register among the destinations, and an error carries neither a rewritten
instruction nor an output; and for every other `ldm` whose register list is
just PC (first destination PC, followed only by the writeback base when there
is writeback) the call returns the instruction itself, opcode and operands
untouched, with all four outputs NULL. -/
theorem normalize_ldm_instr_rejects_and_pop_pc (cfg : config_t) (left : List instr_t)
    (instr : instr_t) :
    (normalize_ldm_instr cfg left instr = .error .not_implemented ↔
      (instr_writes_to_reg instr DR_REG_PC DR_QUERY_INCLUDE_ALL = true ∧
       ¬ instr_num_srcs instr > 1 ∧
       instr_writes_to_reg instr (opnd_get_base (instr_get_src instr 0))
         DR_QUERY_INCLUDE_ALL = true)) ∧
    (∀ size flags rest,
      instr.dsts = opnd_t.reg DR_REG_PC size flags :: rest →
      rest.length = (if instr_num_srcs instr > 1 then 1 else 0) →
      (instr_num_srcs instr > 1 ∨
        instr_writes_to_reg instr (opnd_get_base (instr_get_src instr 0))
          DR_QUERY_INCLUDE_ALL = false) →
      normalize_ldm_instr cfg left instr =
        .ok { instr := instr, pre_ldm_adjust := none, pre_ldm_ldr := none,
              post_ldm_adjust := none, ldr_pc := none }) := by
  refine ⟨?_, ?_⟩
  · by_cases hc : (instr_writes_to_reg instr DR_REG_PC DR_QUERY_INCLUDE_ALL &&
        !decide (instr_num_srcs instr > 1) &&
        instr_writes_to_reg instr (opnd_get_base (instr_get_src instr 0))
          DR_QUERY_INCLUDE_ALL) = true
    · have hc2 := hc
      simp only [Bool.and_eq_true, Bool.not_eq_true', decide_eq_false_iff_not] at hc2
      unfold normalize_ldm_instr
      simp only []
      rw [if_pos hc]
      exact ⟨fun _ => ⟨hc2.1.1, hc2.1.2, hc2.2⟩, fun _ => rfl⟩
    · constructor
      · intro h
        exfalso
        unfold normalize_ldm_instr at h
        simp only [] at h
        rw [if_neg hc] at h
        by_cases h1 : opnd_get_reg (instr_get_dst instr 0) = DR_REG_PC
        · rw [if_pos h1] at h
          exact ite_ok_ne_not_implemented _ _ h
        · rw [if_neg h1] at h
          cases hT : ldm_adjust_table instr.opcode (decide (instr_num_srcs instr > 1))
              (instr_writes_to_reg instr DR_REG_PC DR_QUERY_INCLUDE_ALL)
              (opnd_get_base (instr_get_src instr 0))
              (to_int32 (u32 (4 * (if decide (instr_num_srcs instr > 1) = true
                then u32 ((instr_num_dsts instr : Int) - 1) else (instr_num_dsts instr : Int)))))
            with
          | none =>
            rw [hT] at h
            cases h
          | some p =>
            obtain ⟨a, b, c1, d⟩ := p
            rw [hT] at h
            exact ite_assert_ne_not_implemented _ _ h
      · intro h
        exfalso
        apply hc
        simp only [Bool.and_eq_true, Bool.not_eq_true', decide_eq_false_iff_not]
        exact ⟨⟨h.1, h.2.1⟩, h.2.2⟩
  · intro size flags rest hd hlen hnr
    have hw : instr_writes_to_reg instr DR_REG_PC DR_QUERY_INCLUDE_ALL = true := by
      simp [instr_writes_to_reg, hd, opnd_is_reg, opnd_get_reg, DR_QUERY_INCLUDE_ALL,
        DR_QUERY_INCLUDE_COND_DSTS, TEST]
    unfold normalize_ldm_instr
    simp only []
    rw [if_neg, if_pos, if_pos]
    · refine ⟨hw, ?_⟩
      simp only [instr_num_dsts, hd, List.length_cons, hlen]
      split
      · rename_i h1
        have h2 : 1 < instr_num_srcs instr := by simpa using h1
        simp [u32, to_int32, h2]
      · rename_i h1
        have h2 : ¬ 1 < instr_num_srcs instr := by simpa using h1
        simp [u32, to_int32, h2]
    · simp [instr_get_dst, hd, opnd_get_reg]
    · rcases hnr with h | h
      · simp [h]
      · simp [h]

/-- C36 at concrete inputs: `ldmia r10, {r10, pc}` is rejected, and
`pop {pc}` (`ldmia sp!, {pc}`) is returned unchanged without outputs. -/
theorem normalize_ldm_instr_rejects_and_pop_pc_witness :
    normalize_ldm_instr ex_cfg [] (ex_ldm OP_ldmia false 10 [10, 15]) =
      .error .not_implemented ∧
    normalize_ldm_instr ex_cfg [] (ex_ldm OP_ldmia true 13 [15]) =
      .ok { instr := ex_ldm OP_ldmia true 13 [15], pre_ldm_adjust := none,
            pre_ldm_ldr := none, post_ldm_adjust := none, ldr_pc := none } :=
  ⟨(normalize_ldm_instr_rejects_and_pop_pc ex_cfg [] (ex_ldm OP_ldmia false 10 [10, 15])).1.2
      (by decide),
   (normalize_ldm_instr_rejects_and_pop_pc ex_cfg [] (ex_ldm OP_ldmia true 13 [15])).2
      OPSZ_PTR 0 [ex_reg 13] (by decide) (by decide) (by decide)⟩

theorem drop_takeWhile_length {α : Type} (p : α → Bool) (l : List α) :
    l.drop (l.takeWhile p).length = l.dropWhile p := by
  induction l with
  | nil => rfl
  | cons a l ih =>
    by_cases h : p a = true
    · simp [List.takeWhile, List.dropWhile, h, ih]
    · simp [List.takeWhile, List.dropWhile, h]

theorem scratch_scan_find (ok : Nat → Bool) (slot : Nat) :
    (scratch_scan ok 4 SCRATCH_REG0 slot).1 =
      ([DR_REG_R0, DR_REG_R1, DR_REG_R2, DR_REG_R3].find? ok).getD (SCRATCH_REG3 + 1) := by
  simp only [scratch_scan, SCRATCH_REG0, SCRATCH_REG3, DR_REG_R0, DR_REG_R1, DR_REG_R2,
    DR_REG_R3, List.find?]
  cases h1 : ok 1 <;> cases h2 : ok 2 <;> cases h3 : ok 3 <;> cases h4 : ok 4 <;>
    simp [h1, h2, h3, h4]

theorem find_scratch_le (ok : Nat → Bool) (r : Nat)
    (h : [DR_REG_R0, DR_REG_R1, DR_REG_R2, DR_REG_R3].find? ok = some r) :
    r ≤ SCRATCH_REG3 ∧ r ≠ REG_NULL := by
  have hm := List.mem_of_find?_eq_some h
  simp only [DR_REG_R0, DR_REG_R1, DR_REG_R2, DR_REG_R3, List.mem_cons, List.mem_singleton,
    List.not_mem_nil, or_false] at hm
  simp only [SCRATCH_REG3, DR_REG_R3, DR_REG_R0, REG_NULL]
  omega

/-- The first step of `pick_scratch_reg` against the wording of the order. -/
theorem pick_scratch_prior_order (cfg : config_t) (left : List instr_t) (instr : instr_t) :
    (pick_scratch_prior cfg left instr).1 =
      (pick_scratch_reg_order_prior cfg left instr).getD REG_NULL ∧
    (∀ r, pick_scratch_reg_order_prior cfg left instr = some r →
      r ≠ REG_NULL ∧ r ≤ SCRATCH_REG3) := by
  unfold pick_scratch_prior find_prior_scratch_reg_restore pick_scratch_reg_order_prior
  by_cases h0 : cfg.opt_mangle = 0
  · simp [h0]
  · simp only [h0, if_false]
    rw [drop_takeWhile_length]
    cases hd : left.dropWhile (fun p => instr_is_label p && instr_is_our_mangling p) with
    | nil => simp
    | cons prev rest =>
      simp only [List.head?_cons]
      cases hs : instr_is_reg_spill_or_restore cfg prev with
      | none => simp
      | some t =>
        obtain ⟨tls, spill, r⟩ := t
        cases tls <;> cases spill
        all_goals simp only [Bool.false_and, Bool.true_and, Bool.not_true, Bool.not_false,
          Bool.false_eq_true, if_false, Option.getD_none]
        all_goals try simp
        simp only [scratch_not_ibl, SCRATCH_REG0, SCRATCH_REG3, DR_REG_R0, DR_REG_R1,
          DR_REG_R2, DR_REG_R3, REG_NULL]
        by_cases a : 1 ≤ r ∧ r ≤ 4
        · have hc : (r = 1 ∨ r = 2 ∨ r = 3 ∨ r = 4) := by omega
          have hn : ¬ r = 0 := by omega
          simp only [a, hc, hn, and_self, if_true, true_and, not_false_eq_true]
          by_cases hu : instr_uses_reg instr r = false
          · by_cases hi : (cfg.instr_is_cti instr = false ∨ ¬ r = cfg.IBL_TARGET_REG)
            · simp [hu, hi, a, hn]
            · simp [hu, hi]
          · simp [hu]
        · have hc : ¬ (r = 1 ∨ r = 2 ∨ r = 3 ∨ r = 4) := by omega
          simp [a, hc]

/-- C31: the register and `should_restore` that `pick_scratch_reg` returns
follow the selection order `pick_scratch_reg_order`: the register of the prior
TLS restore (found only when `opt_mangle` is on) when it is eligible, else
the lowest-numbered eligible register of r0..r3, else, when `dead_reg_ok`
holds, the lowest-numbered register the instruction does not read and that is
not `IBL_TARGET_REG` for a control transfer, with `should_restore` false, else
`REG_NULL`. -/
theorem pick_scratch_reg_selection_order (cfg : config_t) (left : List instr_t)
    (instr : instr_t) (dead_reg_ok : Bool) :
    ((pick_scratch_reg cfg left instr dead_reg_ok).1,
      (pick_scratch_reg cfg left instr dead_reg_ok).2.2) =
      pick_scratch_reg_order cfg left instr dead_reg_ok := by
  obtain ⟨hp, hple⟩ := pick_scratch_prior_order cfg left instr
  have hs1 := scratch_scan_find
    (fun r => !instr_uses_reg instr r &&
      (!cfg.instr_is_cti instr || decide (r ≠ cfg.IBL_TARGET_REG))) cfg.TLS_REG0_SLOT
  have hs2 := scratch_scan_find
    (fun r => !instr_reads_from_reg instr r DR_QUERY_INCLUDE_ALL &&
      (!cfg.instr_is_cti instr || decide (r ≠ cfg.IBL_TARGET_REG))) cfg.TLS_REG0_SLOT
  have hf1 := find_scratch_le
    (fun r => !instr_uses_reg instr r &&
      (!cfg.instr_is_cti instr || decide (r ≠ cfg.IBL_TARGET_REG)))
  have hf2 := find_scratch_le
    (fun r => !instr_reads_from_reg instr r DR_QUERY_INCLUDE_ALL &&
      (!cfg.instr_is_cti instr || decide (r ≠ cfg.IBL_TARGET_REG)))
  unfold pick_scratch_reg_order pick_scratch_reg pick_scratch_dead pick_scratch_unused
  simp only [scratch_not_ibl]
  generalize pick_scratch_reg_order_prior cfg left instr = prior at hp hple ⊢
  generalize pick_scratch_prior cfg left instr = fp at hp ⊢
  generalize scratch_scan
    (fun r => !instr_uses_reg instr r &&
      (!cfg.instr_is_cti instr || decide (r ≠ cfg.IBL_TARGET_REG))) 4 SCRATCH_REG0
    cfg.TLS_REG0_SLOT = sc at hs1 ⊢
  generalize scratch_scan
    (fun r => !instr_reads_from_reg instr r DR_QUERY_INCLUDE_ALL &&
      (!cfg.instr_is_cti instr || decide (r ≠ cfg.IBL_TARGET_REG))) 4 SCRATCH_REG0
    cfg.TLS_REG0_SLOT = sd at hs2 ⊢
  generalize [DR_REG_R0, DR_REG_R1, DR_REG_R2, DR_REG_R3].find?
    (fun r => !instr_uses_reg instr r &&
      (!cfg.instr_is_cti instr || decide (r ≠ cfg.IBL_TARGET_REG))) = f1 at hs1 hf1 ⊢
  generalize [DR_REG_R0, DR_REG_R1, DR_REG_R2, DR_REG_R3].find?
    (fun r => !instr_reads_from_reg instr r DR_QUERY_INCLUDE_ALL &&
      (!cfg.instr_is_cti instr || decide (r ≠ cfg.IBL_TARGET_REG))) = f2 at hs2 hf2 ⊢
  obtain ⟨fp1, fp2⟩ := fp
  obtain ⟨sc1, sc2⟩ := sc
  obtain ⟨sd1, sd2⟩ := sd
  simp only [SCRATCH_REG3, DR_REG_R3, DR_REG_R0, REG_NULL] at *
  subst hp hs1 hs2
  cases prior with
  | some r =>
    obtain ⟨h1, h2⟩ := hple r rfl
    have h3 : ¬ r > 1 + 3 := by omega
    simp [h1, h3]
  | none =>
    cases f1 with
    | some r =>
      obtain ⟨h2, h1⟩ := hf1 r rfl
      have h3 : ¬ r > 1 + 3 := by omega
      simp [h3]
    | none =>
      cases dead_reg_ok
      · simp
      · cases f2 with
        | some r =>
          obtain ⟨h2, h1⟩ := hf2 r rfl
          have h3 : ¬ r > 1 + 3 := by omega
          simp [h3]
        | none => simp

/-- C31, against the order without those two provisos: with `opt_mangle` off
the register of a prior TLS restore of the unused r1 is not preferred (r0 is
returned), and for a control transfer that reads r0, r1 and r3 the dead
register scan does not return r2, the lowest-numbered register the
instruction does not read, because r2 is `IBL_TARGET_REG`: `REG_NULL` is
returned. -/
theorem pick_scratch_reg_ignores_prior_and_ibl :
    (instr_is_reg_spill_or_restore ex_cfg_noopt
        (meta_insert ex_cfg_noopt
          (instr_create_restore_from_tls ex_cfg_noopt DR_REG_R1 (TLS_REG1_SLOT ex_cfg_noopt))) =
        some (true, false, DR_REG_R1) ∧
      instr_uses_reg ex_add_stolen DR_REG_R1 = false ∧
      ex_cfg_noopt.instr_is_cti ex_add_stolen = false ∧
      (pick_scratch_reg ex_cfg_noopt
        [meta_insert ex_cfg_noopt
          (instr_create_restore_from_tls ex_cfg_noopt DR_REG_R1 (TLS_REG1_SLOT ex_cfg_noopt))]
        ex_add_stolen false).1 = DR_REG_R0) ∧
    (ex_cfg_cti.instr_is_cti ex_add_pc_shifted = true ∧
      ex_cfg_cti.IBL_TARGET_REG = DR_REG_R2 ∧
      [DR_REG_R0, DR_REG_R1, DR_REG_R2, DR_REG_R3].find?
        (fun r => !instr_uses_reg ex_add_pc_shifted r &&
          (!ex_cfg_cti.instr_is_cti ex_add_pc_shifted ||
            decide (r ≠ ex_cfg_cti.IBL_TARGET_REG))) = none ∧
      [DR_REG_R0, DR_REG_R1, DR_REG_R2, DR_REG_R3].find?
        (fun r => !instr_reads_from_reg ex_add_pc_shifted r DR_QUERY_INCLUDE_ALL) =
        some DR_REG_R2 ∧
      pick_scratch_reg ex_cfg_cti [] ex_add_pc_shifted true =
        (REG_NULL, (ex_cfg_cti.TLS_REG0_SLOT + 16) % 65536, false)) := by
  refine ⟨⟨by decide, by decide, rfl, by decide⟩, by decide, rfl, by decide, by decide,
    by decide⟩

/-- C32: for every predicated instruction that does not use the stolen
register, `mangle_add_predicated_fall_through` returns, and of the
instructions lying behind the bounding start label and in front of
`next_instr` it gives the taken predicate to exactly those that are app
instructions or are not register spills or restores; every meta register
spill or restore in that range is left as it was. -/
theorem mangle_add_predicated_fall_through_marks (cfg : config_t) (pre : List instr_t)
    (b : instr_t) (ins : List instr_t) (instr : instr_t) (mid next : List instr_t)
    (hp : instr_is_predicated instr = true)
    (hu : instr_uses_reg instr cfg.dr_reg_stolen = false) :
    ∃ r movs, mangle_add_predicated_fall_through cfg
        { prev := ins.reverse ++ b :: pre, instr := instr, mid := mid, next := next }
        ins.length = some r ∧
      r.prev.reverse ++ r.instr :: r.mid =
        pre.reverse ++ b :: (ins ++ instr :: mid).map
          (mangle_add_predicated_fall_through_mark cfg instr.predicate) ++ movs ∧
      (∀ x, instr_is_app x = false →
        (instr_is_reg_spill_or_restore cfg x).isSome = true →
        mangle_add_predicated_fall_through_mark cfg instr.predicate x = x) ∧
      (∀ x, (instr_is_app x = true ∨ instr_is_reg_spill_or_restore cfg x = none) →
        mangle_add_predicated_fall_through_mark cfg instr.predicate x =
          instr_set_predicate x instr.predicate) := by
  refine ⟨_, (insert_mov_immed_ptrsz cfg
      (to_int32 (PC_AS_JMP_TGT instr.isa_mode (cfg.get_call_return_address instr)))
      (opnd_create_reg cfg.IBL_TARGET_REG)).map
        (fun m => instr_set_predicate m (instr_invert_predicate instr.predicate)),
    mangle_add_predicated_fall_through_shape cfg pre b ins instr mid next hp, ?_, ?_, ?_⟩
  · simp only [hu, if_true, List.reverse_append, List.reverse_reverse, List.reverse_cons,
      List.map_append, List.map_cons, List.append_assoc, List.singleton_append,
      List.cons_append, List.nil_append]
  · intro x ha hs
    have hn : (instr_is_reg_spill_or_restore cfg x).isNone = false := by
      cases h : instr_is_reg_spill_or_restore cfg x with
      | none => rw [h] at hs; cases hs
      | some v => rfl
    simp only [mangle_add_predicated_fall_through_mark, ha, hn, Bool.or_self,
      Bool.false_eq_true, if_false]
  · intro x h
    rcases h with h | h
    · simp only [mangle_add_predicated_fall_through_mark, h, Bool.true_or, if_true]
    · simp only [mangle_add_predicated_fall_through_mark, h, Option.isNone_none, Bool.or_true,
        if_true]

/-- C32 at the Thumb `blx r5` under `eq` with a spill of r1 between the label
and the call. -/
theorem mangle_add_predicated_fall_through_marks_witness :
    ∃ r movs, mangle_add_predicated_fall_through ex_cfg
        { prev := [meta_insert ex_cfg (instr_create_save_to_tls ex_cfg DR_REG_R1
                     (TLS_REG1_SLOT ex_cfg))].reverse ++ INSTR_CREATE_label 7 :: [],
          instr := ex_blx_ind_eq_at.instr, mid := [], next := ex_blx_ind_eq_at.next }
        [meta_insert ex_cfg (instr_create_save_to_tls ex_cfg DR_REG_R1
          (TLS_REG1_SLOT ex_cfg))].length = some r ∧
      r.prev.reverse ++ r.instr :: r.mid =
        ([] : List instr_t).reverse ++ INSTR_CREATE_label 7 ::
          ([meta_insert ex_cfg (instr_create_save_to_tls ex_cfg DR_REG_R1
              (TLS_REG1_SLOT ex_cfg))] ++ ex_blx_ind_eq_at.instr :: []).map
            (mangle_add_predicated_fall_through_mark ex_cfg ex_blx_ind_eq_at.instr.predicate)
          ++ movs ∧
      (∀ x, instr_is_app x = false →
        (instr_is_reg_spill_or_restore ex_cfg x).isSome = true →
        mangle_add_predicated_fall_through_mark ex_cfg ex_blx_ind_eq_at.instr.predicate x =
          x) ∧
      (∀ x, (instr_is_app x = true ∨ instr_is_reg_spill_or_restore ex_cfg x = none) →
        mangle_add_predicated_fall_through_mark ex_cfg ex_blx_ind_eq_at.instr.predicate x =
          instr_set_predicate x ex_blx_ind_eq_at.instr.predicate) :=
  mangle_add_predicated_fall_through_marks ex_cfg [] (INSTR_CREATE_label 7)
    [meta_insert ex_cfg (instr_create_save_to_tls ex_cfg DR_REG_R1 (TLS_REG1_SLOT ex_cfg))]
    ex_blx_ind_eq_at.instr [] ex_blx_ind_eq_at.next (by decide) (by decide)

/-- C32, against marking the spills: for the Thumb `blx r5` under `eq`, which
does not use the stolen register, the meta spill of r1 that lies between the
bounding start label and `next_instr` is a register spill and still has no
predicate after `mangle_add_predicated_fall_through`, while the call itself
keeps `eq`. -/
theorem mangle_add_predicated_fall_through_leaves_spill :
    instr_is_predicated ex_blx_ind_eq_at.instr = true ∧
    instr_uses_reg ex_blx_ind_eq_at.instr ex_cfg.dr_reg_stolen = false ∧
    instr_is_reg_spill_or_restore ex_cfg
      (meta_insert ex_cfg (instr_create_save_to_tls ex_cfg DR_REG_R1 (TLS_REG1_SLOT ex_cfg))) =
      some (true, true, DR_REG_R1) ∧
    ∃ r, mangle_add_predicated_fall_through ex_cfg
        { prev := [meta_insert ex_cfg (instr_create_save_to_tls ex_cfg DR_REG_R1
                     (TLS_REG1_SLOT ex_cfg)), INSTR_CREATE_label 7],
          instr := ex_blx_ind_eq_at.instr, mid := [], next := ex_blx_ind_eq_at.next } 1 =
        some r ∧
      r.prev = [meta_insert ex_cfg (instr_create_save_to_tls ex_cfg DR_REG_R1
                  (TLS_REG1_SLOT ex_cfg)), INSTR_CREATE_label 7] ∧
      (r.prev.map (fun x => x.predicate)) = [DR_PRED_NONE, DR_PRED_NONE] ∧
      r.instr.predicate = DR_PRED_EQ := by
  refine ⟨by decide, by decide, by decide, _, rfl, ?_, ?_, ?_⟩
  · decide
  · decide
  · decide

theorem it_xl8_ok_append (after : List instr_t) (l1 l2 : List (Option instr_t × instr_t)) :
    it_xl8_ok after (l1 ++ l2) =
      (it_xl8_ok (l2.map Prod.snd ++ after) l1 && it_xl8_ok after l2) := by
  induction l1 with
  | nil => simp [it_xl8_ok]
  | cons p l1 ih =>
    obtain ⟨a, x⟩ := p
    cases a <;>
      simp only [List.cons_append, it_xl8_ok, ih, List.map_append, List.append_assoc,
        Bool.and_assoc, List.append_eq]

theorem it_xl8_ok_none (after : List instr_t) (l : List instr_t) :
    it_xl8_ok after (l.map (fun x => ((none : Option instr_t), x))) = true := by
  induction l with
  | nil => rfl
  | cons x l ih => simp [it_xl8_ok, ih]

theorem it_xl8_ok_annotate (after : List instr_t) (it : instr_t) (pend : List instr_t)
    (h : it.translation = it_block_xl8 (pend ++ after)) :
    it_xl8_ok after (it_annotate it pend) = true := by
  cases pend with
  | nil => rfl
  | cons b bs =>
    simp only [it_annotate, it_xl8_ok, it_xl8_ok_none, Bool.and_true, List.map_map,
      beq_iff_eq]
    rw [h]
    simp [Function.comp_def]

theorem make_it_translation (cfg : config_t) (st : it_scan) :
    (st.make_it cfg).translation = st.block_xl8 := rfl

theorem reinstate_loop_xl8 (cfg : config_t) (after l : List instr_t) (st : it_scan)
    (hinv : ∀ pend, st.pending = some pend →
      st.block_xl8 = it_block_xl8 (pend ++ l ++ after)) :
    it_xl8_ok after (reinstate_loop cfg after l st).2 = true := by
  induction l generalizing st with
  | nil =>
    unfold reinstate_loop
    cases hp : st.pending with
    | none => rfl
    | some pend =>
      simp only []
      apply it_xl8_ok_annotate
      rw [make_it_translation, hinv pend hp, List.append_nil]
  | cons instr rest ih =>
    have ih_none : ∀ st : it_scan, st.pending = none →
        it_xl8_ok after (reinstate_loop cfg after rest st).2 = true := by
      intro st h
      apply ih
      intro pend hp
      rw [h] at hp
      cases hp
    have ih_some : ∀ (st : it_scan) (pend : List instr_t), st.pending = some pend →
        st.block_xl8 = it_block_xl8 (pend ++ rest ++ after) →
        it_xl8_ok after (reinstate_loop cfg after rest st).2 = true := by
      intro st pend h hx
      apply ih
      intro pend2 hp
      rw [h] at hp
      cases hp
      exact hx
    unfold reinstate_loop
    cases hp : st.pending with
    | none =>
      simp only []
      split_ifs
      · simp only [it_xl8_ok, Bool.true_and]
        exact ih_none _ hp
      · simp only [it_xl8_ok, Bool.true_and]
        exact ih_none _ hp
      · exact ih_some _ [instr] rfl (by simp)
      · simp only [it_xl8_ok, Bool.true_and]
        exact ih_none _ hp
    | some pend =>
      have hx := hinv pend hp
      simp only []
      split_ifs
      all_goals first
        | exact ih_some _ (pend ++ [instr]) rfl (by simp [hx])
        | (simp only [it_xl8_ok_append, Bool.and_eq_true, it_xl8_ok, Bool.true_and]
           refine ⟨it_xl8_ok_annotate _ _ _ ?_, ?_⟩
           · simp [make_it_translation, reinstate_loop_snd, hx]
           · first
               | exact ih_none _ rfl
               | exact ih_some _ [instr] rfl (by simp))

theorem it_xl8_ok_get (after : List instr_t) (ann : List (Option instr_t × instr_t))
    (h : it_xl8_ok after ann = true) (k : Nat) (it x : instr_t)
    (hk : ann.get? k = some (some it, x)) :
    it.translation = it_block_xl8 ((ann.map Prod.snd).drop k ++ after) := by
  induction ann generalizing k with
  | nil => cases hk
  | cons p rest ih =>
    obtain ⟨a, y⟩ := p
    simp only [it_xl8_ok, Bool.and_eq_true] at h
    cases k with
    | zero =>
      simp only [List.get?_cons_zero, Option.some.injEq, Prod.mk.injEq] at hk
      obtain ⟨rfl, rfl⟩ := hk
      simpa using h.1
    | succ k =>
      simp only [List.get?_cons_succ] at hk
      simpa using ih h.2 k hk

/-- C37: `reinstate_it_blocks` leaves the instructions of the range in place
(the annotated range lists them in order, each with the `OP_it` inserted in
front of it, and the list after the call is the old one with those `OP_it`s
added), and the translation of each inserted `OP_it` is the app PC of the
first instruction that has one, searched from the first instruction of the
block to the end of the whole list, and null when none of those has one. -/
theorem reinstate_it_blocks_translation (cfg : config_t) (before range after : List instr_t) :
    (reinstate_loop cfg after range it_scan.init).2.map Prod.snd = range ∧
    (reinstate_it_blocks cfg before range after).to_list =
      before.reverse ++ it_flatten (reinstate_loop cfg after range it_scan.init).2 ++ after ∧
    ∀ (k : Nat) (it x : instr_t),
      (reinstate_loop cfg after range it_scan.init).2.get? k = some (some it, x) →
      it.translation = it_block_xl8 (range.drop k ++ after) := by
  have hs : (reinstate_loop cfg after range it_scan.init).2.map Prod.snd = range := by
    rw [reinstate_loop_snd]
    rfl
  refine ⟨hs, ?_, ?_⟩
  · exact reinstate_it_blocks_to_list cfg before range after
  · intro k it x hk
    have h := it_xl8_ok_get after _ (reinstate_loop_xl8 cfg after range it_scan.init
      (fun pend hp => by cases hp)) k it x hk
    rw [hs] at h
    exact h

/-- C37, against the search ending with the run: for a range that is one
predicated meta instruction without app PC, followed behind the range by an
app instruction with app PC 12288, the inserted `OP_it` has the translation
12288 although no instruction of the run has an app PC. -/
theorem reinstate_it_blocks_translation_beyond_run :
    ([ex_meta_add_eq].all (fun x => (instr_get_app_pc x).isNone)) = true ∧
    (reinstate_loop ex_cfg [{ ex_t32_add DR_PRED_NONE with translation := some 12288 }]
        [ex_meta_add_eq] it_scan.init).2.map
      (fun p => (p.1.map (fun (it : instr_t) => (it.opcode, it.it_block, it.translation)),
        p.2)) =
      [(some (OP_it, [DR_PRED_EQ], some 12288), ex_meta_add_eq)] ∧
    ((reinstate_it_blocks ex_cfg [] [ex_meta_add_eq]
        [{ ex_t32_add DR_PRED_NONE with translation := some 12288 }]).before.map
      (fun (it : instr_t) => (it.opcode, it.translation))) = [(OP_it, some 12288)] := by
  refine ⟨by decide, by decide, by decide⟩

theorem pred_cond_ne_none (p : dr_pred_type_t) (h : instr_predicate_is_cond p = true) :
    p ≠ DR_PRED_NONE := by
  intro e
  rw [e] at h
  cases h

theorem instr_invert_predicate_ne (p : dr_pred_type_t) (h : instr_predicate_is_cond p = true) :
    instr_invert_predicate p ≠ p := by
  revert h
  cases p <;> decide

/-- The loop of `reinstate_it_blocks` over one predicated instruction followed
by a conditional branch. -/
theorem reinstate_loop_one_then_b (cfg : config_t) (after : List instr_t) (m1 j : instr_t)
    (h1 : it_instr_predicated m1 = true) (h1o : m1.opcode ≠ OP_it)
    (hj : it_instr_predicated j = false) (hjo : j.opcode ≠ OP_it) :
    (reinstate_loop cfg after [m1, j] it_scan.init).2 =
      [(some (list_insert cfg (instr_set_translation
          (instr_it_block_create m1.predicate DR_PRED_NONE DR_PRED_NONE DR_PRED_NONE)
          (it_block_xl8 (m1 :: j :: after)))), m1), (none, j)] := by
  simp [reinstate_loop, h1, h1o, hj, hjo, it_scan.init, it_scan.make_it, it_annotate,
    IT_BLOCK_MAX_INSTRS]

/-- The loop of `reinstate_it_blocks` over two instructions under the same
predicate followed by a conditional branch. -/
theorem reinstate_loop_two_then_b (cfg : config_t) (after : List instr_t) (m1 m2 j : instr_t)
    (h1 : it_instr_predicated m1 = true) (h1o : m1.opcode ≠ OP_it)
    (h2 : it_instr_predicated m2 = true) (h2p : m2.predicate = m1.predicate)
    (hj : it_instr_predicated j = false) (hjo : j.opcode ≠ OP_it) :
    (reinstate_loop cfg after [m1, m2, j] it_scan.init).2 =
      [(some (list_insert cfg (instr_set_translation
          (instr_it_block_create m1.predicate m1.predicate DR_PRED_NONE DR_PRED_NONE)
          (it_block_xl8 (m1 :: m2 :: j :: after)))), m1), (none, m2), (none, j)] := by
  simp [reinstate_loop, h1, h1o, h2, h2p, hj, hjo, it_scan.init, it_scan.make_it, it_annotate,
    IT_BLOCK_MAX_INSTRS]

theorem reinstate_loop_one_then_b_it (cfg : config_t) (after : List instr_t) (m1 j : instr_t)
    (h1 : it_instr_predicated m1 = true) (h1o : m1.opcode ≠ OP_it)
    (hj : it_instr_predicated j = false) (hjo : j.opcode ≠ OP_it)
    (hne : m1.predicate ≠ DR_PRED_NONE) :
    ∃ it : instr_t, it.opcode = OP_it ∧ it.predicate = DR_PRED_NONE ∧
      it.it_block = [m1.predicate] ∧
      (reinstate_loop cfg after [m1, j] it_scan.init).2 = [(some it, m1), (none, j)] := by
  refine ⟨_, ?_, ?_, ?_, reinstate_loop_one_then_b cfg after m1 j h1 h1o hj hjo⟩
  · rfl
  · rfl
  · simp [instr_it_block_create, list_insert, instr_set_translation, hne]

theorem reinstate_loop_two_then_b_it (cfg : config_t) (after : List instr_t)
    (m1 m2 j : instr_t)
    (h1 : it_instr_predicated m1 = true) (h1o : m1.opcode ≠ OP_it)
    (h2 : it_instr_predicated m2 = true) (h2p : m2.predicate = m1.predicate)
    (hj : it_instr_predicated j = false) (hjo : j.opcode ≠ OP_it)
    (hne : m1.predicate ≠ DR_PRED_NONE) :
    ∃ it : instr_t, it.opcode = OP_it ∧ it.predicate = DR_PRED_NONE ∧
      it.it_block = [m1.predicate, m1.predicate] ∧
      (reinstate_loop cfg after [m1, m2, j] it_scan.init).2 =
        [(some it, m1), (none, m2), (none, j)] := by
  refine ⟨_, ?_, ?_, ?_, reinstate_loop_two_then_b cfg after m1 m2 j h1 h1o h2 h2p hj hjo⟩
  · rfl
  · rfl
  · simp [instr_it_block_create, list_insert, instr_set_translation, hne]

theorem mangle_direct_call_bl_shape (cfg : config_t) (c c' : ilist_at) (bound_id : Nat)
    (T : Int) (hop : c.instr.opcode = OP_bl) (hp : instr_is_predicated c.instr = true)
    (htgt : instr_get_target c.instr = opnd_create_pc T)
    (hc' : (if app_instr_is_in_it_block c.instr = true then mangle_remove_from_it_block cfg c
            else some c) = some c') :
    mangle_direct_call cfg c bound_id =
      some (if app_instr_is_in_it_block c.instr = true then
              mangle_reinstate_it_blocks cfg
                { prev := c'.prev, instr := meta_insert cfg (INSTR_CREATE_label bound_id),
                  mid := ((insert_mov_immed_ptrsz cfg
                      (to_int32 (PC_AS_JMP_TGT c.instr.isa_mode
                        (cfg.get_call_return_address c.instr)))
                      (opnd_create_reg DR_REG_LR)).map
                        (fun m => instr_set_predicate m c.instr.predicate) ++
                    [list_insert cfg (INSTR_PRED (XINST_CREATE_jump (opnd_create_pc T))
                      c.instr.predicate)]) ++ c'.mid,
                  next := c'.next } 0
            else
              { prev := c'.prev, instr := meta_insert cfg (INSTR_CREATE_label bound_id),
                mid := ((insert_mov_immed_ptrsz cfg
                    (to_int32 (PC_AS_JMP_TGT c.instr.isa_mode
                      (cfg.get_call_return_address c.instr)))
                    (opnd_create_reg DR_REG_LR)).map
                      (fun m => instr_set_predicate m c.instr.predicate) ++
                  [list_insert cfg (INSTR_PRED (XINST_CREATE_jump (opnd_create_pc T))
                    c.instr.predicate)]) ++ c'.mid,
                next := c'.next }) := by
  have hopc : (c.instr.opcode = OP_bl ∨ c.instr.opcode = OP_blx) := Or.inl hop
  have hpc : opnd_is_pc (instr_get_target c.instr) = true := by rw [htgt]; rfl
  have hT : opnd_get_pc (instr_get_target c.instr) = T := by rw [htgt]; rfl
  unfold mangle_direct_call
  simp only []
  rw [hc']
  simp only [hopc, not_true_eq_false, if_false, hpc, Bool.true_eq_false, hop, if_true, hT, hp]
  generalize insert_mov_immed_ptrsz cfg (to_int32 (PC_AS_JMP_TGT c.instr.isa_mode
    (cfg.get_call_return_address c.instr))) (opnd_create_reg DR_REG_LR) = lrmovs
  generalize list_insert cfg (INSTR_PRED (XINST_CREATE_jump (opnd_create_pc T))
    c.instr.predicate) = jmp
  have hprev : jmp :: (lrmovs.map (fun m => instr_set_predicate m c.instr.predicate)).reverse ++
      meta_insert cfg (INSTR_CREATE_label bound_id) :: c'.prev =
      (lrmovs.map (fun m => instr_set_predicate m c.instr.predicate) ++ [jmp]).reverse ++
        meta_insert cfg (INSTR_CREATE_label bound_id) :: c'.prev := by
    simp
  have hk : (lrmovs.map (fun m => instr_set_predicate m c.instr.predicate)).length + 1 =
      (lrmovs.map (fun m => instr_set_predicate m c.instr.predicate) ++ [jmp]).length := by
    simp
  rw [hprev, hk, remove_at_bound_inserted]
  simp only [true_or, not_true_eq_false, if_false]

/-- C35: for every predicated `bl target` under `p` (in an IT block when it
is Thumb code), `mangle_direct_call` returns; where the `bl` stood there are
the label `bound_start`, then, in a Thumb list, one `OP_it` declaring `p` for
each instruction of the materialisation, then the one or two meta
instructions that write the return address to `lr`, each under `p`, then a
`b target` under `p`, and then what followed the `bl`.  None of these is a
`bl`, has the inverse predicate, or is a register spill or restore. -/
theorem mangle_direct_call_bl_predicated (cfg : config_t) (c c' : ilist_at) (bound_id : Nat)
    (T : Int) (hop : c.instr.opcode = OP_bl) (hp : instr_is_predicated c.instr = true)
    (htgt : instr_get_target c.instr = opnd_create_pc T)
    (hc' : (if app_instr_is_in_it_block c.instr = true then mangle_remove_from_it_block cfg c
            else some c) = some c') :
    ∃ (r : ilist_at) (its movs : List instr_t),
      mangle_direct_call cfg c bound_id = some r ∧
      r.prev = c'.prev ∧ r.instr = meta_insert cfg (INSTR_CREATE_label bound_id) ∧
      r.next = c'.next ∧
      r.mid = its ++ movs ++
        [list_insert cfg (INSTR_PRED (XINST_CREATE_jump (opnd_create_pc T))
          c.instr.predicate)] ++ c'.mid ∧
      (movs.length = 1 ∨ movs.length = 2) ∧
      (∀ m ∈ movs, m.is_app = false ∧ m.predicate = c.instr.predicate ∧
        (m.opcode = OP_mvn ∨ m.opcode = OP_movw ∨ m.opcode = OP_movt) ∧
        m.dsts = [opnd_create_reg DR_REG_LR]) ∧
      (∀ (app : instr_t → mstate → mstate) (s : mstate), s.cond c.instr.predicate = true →
        exec_list app movs s = s.set_reg DR_REG_LR
          (wrap32 (PC_AS_JMP_TGT c.instr.isa_mode (cfg.get_call_return_address c.instr)))) ∧
      (list_insert cfg (INSTR_PRED (XINST_CREATE_jump (opnd_create_pc T))
          c.instr.predicate)).opcode = OP_b ∧
      (list_insert cfg (INSTR_PRED (XINST_CREATE_jump (opnd_create_pc T))
          c.instr.predicate)).predicate = c.instr.predicate ∧
      instr_get_target (list_insert cfg (INSTR_PRED (XINST_CREATE_jump (opnd_create_pc T))
          c.instr.predicate)) = opnd_create_pc T ∧
      (its = [] ∨ ∃ it, its = [it] ∧ it.opcode = OP_it ∧ it.predicate = DR_PRED_NONE ∧
        it.it_block = List.replicate movs.length c.instr.predicate) ∧
      (its = [] ↔ ¬ (app_instr_is_in_it_block c.instr = true ∧
        cfg.isa_mode = DR_ISA_ARM_THUMB)) ∧
      (∀ i ∈ r.instr :: (its ++ movs ++
          [list_insert cfg (INSTR_PRED (XINST_CREATE_jump (opnd_create_pc T))
            c.instr.predicate)]),
        i.opcode ≠ OP_bl ∧ i.predicate ≠ instr_invert_predicate c.instr.predicate ∧
        instr_is_reg_spill_or_restore cfg i = none) := by
  have hshape := mangle_direct_call_bl_shape cfg c c' bound_id T hop hp htgt hc'
  have hpc : instr_predicate_is_cond c.instr.predicate = true := hp
  have hne := pred_cond_ne_none _ hpc
  have hinv := instr_invert_predicate_ne _ hpc
  have hinvc : instr_invert_predicate c.instr.predicate ≠ DR_PRED_NONE := by
    revert hpc
    cases c.instr.predicate <;> decide
  generalize hl : insert_mov_immed_ptrsz cfg (to_int32 (PC_AS_JMP_TGT c.instr.isa_mode
    (cfg.get_call_return_address c.instr))) (opnd_create_reg DR_REG_LR) = lrmovs at hshape
  have hlen := insert_mov_immed_ptrsz_length cfg (to_int32 (PC_AS_JMP_TGT c.instr.isa_mode
    (cfg.get_call_return_address c.instr))) (opnd_create_reg DR_REG_LR)
  have hmem := insert_mov_immed_ptrsz_mem cfg (to_int32 (PC_AS_JMP_TGT c.instr.isa_mode
    (cfg.get_call_return_address c.instr))) (opnd_create_reg DR_REG_LR)
  have hexec : ∀ (app : instr_t → mstate → mstate) (s : mstate),
      s.cond c.instr.predicate = true →
      exec_list app (lrmovs.map (fun m => instr_set_predicate m c.instr.predicate)) s =
        s.set_reg DR_REG_LR
          (wrap32 (PC_AS_JMP_TGT c.instr.isa_mode (cfg.get_call_return_address c.instr))) := by
    intro app s hs
    rw [← hl, exec_insert_mov_immed_ptrsz_pred, hs, hpc]
    simp only [Bool.not_true, Bool.and_false, Bool.false_eq_true, if_false]
    congr 1
    exact to_int32_mod _
  rw [hl] at hlen hmem
  have hmovs : ∀ m ∈ lrmovs.map (fun m => instr_set_predicate m c.instr.predicate),
      m.is_app = false ∧ m.predicate = c.instr.predicate ∧
      (m.opcode = OP_mvn ∨ m.opcode = OP_movw ∨ m.opcode = OP_movt) ∧
      m.dsts = [opnd_create_reg DR_REG_LR] := by
    intro m hm
    obtain ⟨m0, hm0, rfl⟩ := List.mem_map.mp hm
    obtain ⟨h1, -, h3, h4⟩ := hmem m0 hm0
    exact ⟨h1, rfl, h3, h4⟩
  have hmovs_no : ∀ m ∈ lrmovs.map (fun m => instr_set_predicate m c.instr.predicate),
      m.opcode ≠ OP_bl ∧ m.predicate ≠ instr_invert_predicate c.instr.predicate ∧
      instr_is_reg_spill_or_restore cfg m = none := by
    intro m hm
    obtain ⟨-, h2, h3, -⟩ := hmovs m hm
    refine ⟨?_, ?_, ?_⟩
    · rcases h3 with h | h | h <;> rw [h] <;> decide
    · rw [h2]
      exact fun e => hinv e.symm
    · unfold instr_is_reg_spill_or_restore
      rcases h3 with h | h | h <;> rw [h]
  have hjmp_no : instr_is_reg_spill_or_restore cfg
      (list_insert cfg (INSTR_PRED (XINST_CREATE_jump (opnd_create_pc T))
        c.instr.predicate)) = none := rfl
  have hlab_no : instr_is_reg_spill_or_restore cfg
      (meta_insert cfg (INSTR_CREATE_label bound_id)) = none := rfl
  have hlab_p : (meta_insert cfg (INSTR_CREATE_label bound_id)).predicate ≠
      instr_invert_predicate c.instr.predicate := fun e => hinvc e.symm
  have hlab_o : (meta_insert cfg (INSTR_CREATE_label bound_id)).opcode ≠ OP_bl := by
    intro h
    cases (show OP_label = OP_bl from h)
  have hjmp_o : (list_insert cfg (INSTR_PRED (XINST_CREATE_jump (opnd_create_pc T))
      c.instr.predicate)).opcode ≠ OP_bl := by
    intro h
    cases (show OP_b = OP_bl from h)
  by_cases hit : app_instr_is_in_it_block c.instr = true ∧ cfg.isa_mode = DR_ISA_ARM_THUMB
  · obtain ⟨h1, h2⟩ := hit
    rw [if_pos h1] at hc'
    obtain ⟨-, hmid⟩ := mangle_remove_from_it_block_instr cfg c c' hc'
    rw [if_pos h1, hmid, List.append_nil] at hshape
    have hlop : (meta_insert cfg (INSTR_CREATE_label bound_id)).opcode ≠ OP_it := by
      intro h
      cases (show OP_label = OP_it from h)
    have hlx : it_instr_predicated (meta_insert cfg (INSTR_CREATE_label bound_id)) = false :=
      rfl
    have hjx : it_instr_predicated (list_insert cfg
        (INSTR_PRED (XINST_CREATE_jump (opnd_create_pc T)) c.instr.predicate)) = false := by
      simp [it_instr_predicated, list_insert, INSTR_PRED, instr_set_predicate,
        XINST_CREATE_jump, INSTR_CREATE_b, instr_create]
    have hjo : (list_insert cfg (INSTR_PRED (XINST_CREATE_jump (opnd_create_pc T))
        c.instr.predicate)).opcode ≠ OP_it := by
      intro h
      cases (show OP_b = OP_it from h)
    have hmx : ∀ m ∈ lrmovs, it_instr_predicated (instr_set_predicate m c.instr.predicate) =
        true ∧ (instr_set_predicate m c.instr.predicate).opcode ≠ OP_it := by
      intro m hm
      obtain ⟨-, -, h3, -⟩ := hmem m hm
      have e : (instr_set_predicate m c.instr.predicate).opcode = m.opcode := rfl
      have e2 : instr_is_predicated (instr_set_predicate m c.instr.predicate) = true := hpc
      rw [e]
      unfold it_instr_predicated
      rw [e, e2]
      rcases h3 with h | h | h <;> rw [h] <;> exact ⟨by decide, by decide⟩
    unfold mangle_reinstate_it_blocks at hshape
    rw [if_neg (fun h => h h2)] at hshape
    simp only [List.take_zero, List.reverse_nil, List.nil_append, List.drop_zero] at hshape
    rw [reinstate_loop_plain cfg c'.next it_scan.init _ _ rfl rfl hlop hlx] at hshape
    simp only [] at hshape
    rcases hlen with hlen | hlen
    · obtain ⟨a, rfl⟩ := List.length_eq_one.mp hlen
      obtain ⟨ha1, ha2⟩ := hmx a (List.mem_singleton_self a)
      simp only [List.map_cons, List.map_nil, List.singleton_append] at hshape hmovs
      simp only [List.map_cons, List.map_nil, List.singleton_append] at hmovs_no hexec
      obtain ⟨it, hio, hip, hib, hloop⟩ :=
        reinstate_loop_one_then_b_it cfg c'.next _ _ ha1 ha2 hjx hjo hne
      rw [hloop] at hshape
      simp only [it_flatten, Option.toList, List.reverse_nil, List.nil_append] at hshape
      refine ⟨_, [it], [instr_set_predicate a c.instr.predicate], hshape, rfl, rfl, rfl, ?_,
        ?_, hmovs, hexec, rfl, rfl, rfl, Or.inr ⟨it, rfl, hio, hip, hib⟩, ?_, ?_⟩
      · simp [hmid]
      · simp
      · simp [h1, h2]
      · intro i hi
        simp only [List.mem_cons, List.mem_append, List.mem_singleton, List.not_mem_nil,
          or_false] at hi
        rcases hi with rfl | (rfl | hi) | rfl
        · exact ⟨hlab_o, hlab_p, hlab_no⟩
        · refine ⟨?_, ?_, ?_⟩
          · rw [hio]
            decide
          · rw [hip]
            exact fun e => hinvc e.symm
          · unfold instr_is_reg_spill_or_restore
            rw [hio]
        · exact hmovs_no i (by simpa using hi)
        · exact ⟨hjmp_o, fun e => hinv e.symm, hjmp_no⟩
    · obtain ⟨a, b, rfl⟩ := List.length_eq_two.mp hlen
      obtain ⟨ha1, ha2⟩ := hmx a (by simp)
      obtain ⟨hb1, -⟩ := hmx b (by simp)
      simp only [List.map_cons, List.map_nil, List.cons_append, List.nil_append] at hshape
      simp only [List.map_cons, List.map_nil, List.cons_append, List.nil_append] at hmovs
      simp only [List.map_cons, List.map_nil, List.cons_append, List.nil_append] at hmovs_no
      simp only [List.map_cons, List.map_nil, List.cons_append, List.nil_append] at hexec
      obtain ⟨it, hio, hip, hib, hloop⟩ :=
        reinstate_loop_two_then_b_it cfg c'.next _ _ _ ha1 ha2 hb1 rfl hjx hjo hne
      rw [hloop] at hshape
      simp only [it_flatten, Option.toList, List.reverse_nil, List.nil_append] at hshape
      refine ⟨_, [it], [instr_set_predicate a c.instr.predicate,
        instr_set_predicate b c.instr.predicate], hshape, rfl, rfl, rfl, ?_,
        ?_, hmovs, hexec, rfl, rfl, rfl, Or.inr ⟨it, rfl, hio, hip, hib⟩, ?_, ?_⟩
      · simp [hmid]
      · simp
      · simp [h1, h2]
      · intro i hi
        simp only [List.mem_cons, List.mem_append, List.mem_singleton, List.not_mem_nil,
          or_false] at hi
        rcases hi with rfl | (rfl | hi) | rfl
        · exact ⟨hlab_o, hlab_p, hlab_no⟩
        · refine ⟨?_, ?_, ?_⟩
          · rw [hio]
            decide
          · rw [hip]
            exact fun e => hinvc e.symm
          · unfold instr_is_reg_spill_or_restore
            rw [hio]
        · exact hmovs_no i (by simpa using hi)
        · exact ⟨hjmp_o, fun e => hinv e.symm, hjmp_no⟩
  · have hr : mangle_direct_call cfg c bound_id =
        some { prev := c'.prev, instr := meta_insert cfg (INSTR_CREATE_label bound_id),
               mid := (lrmovs.map (fun m => instr_set_predicate m c.instr.predicate) ++
                  [list_insert cfg (INSTR_PRED (XINST_CREATE_jump (opnd_create_pc T))
                    c.instr.predicate)]) ++ c'.mid,
               next := c'.next } := by
      rw [hshape]
      by_cases h1 : app_instr_is_in_it_block c.instr = true
      · have h2 : cfg.isa_mode ≠ DR_ISA_ARM_THUMB := fun e => hit ⟨h1, e⟩
        rw [if_pos h1]
        unfold mangle_reinstate_it_blocks
        rw [if_pos h2]
      · rw [if_neg h1]
    refine ⟨_, [], _, hr, rfl, rfl, rfl, by simp, by simpa using hlen, hmovs, hexec, rfl, rfl,
      rfl, Or.inl rfl, ⟨fun _ => hit, fun _ => rfl⟩, ?_⟩
    intro i hi
    simp only [List.nil_append, List.mem_cons, List.mem_append, List.mem_singleton,
      List.not_mem_nil, or_false] at hi
    rcases hi with rfl | hi | rfl
    · exact ⟨hlab_o, hlab_p, hlab_no⟩
    · exact hmovs_no i hi
    · exact ⟨hjmp_o, fun e => hinv e.symm, hjmp_no⟩

/-- C35 at the Thumb `bl 8192` under `eq` of `ex_bl_eq_at`. -/
theorem mangle_direct_call_bl_predicated_witness :
    ∃ (r : ilist_at) (its movs : List instr_t),
      mangle_direct_call ex_cfg ex_bl_eq_at 9 = some r ∧
      r.prev = ex_bl_eq_removed.prev ∧ r.instr = meta_insert ex_cfg (INSTR_CREATE_label 9) ∧
      r.next = ex_bl_eq_removed.next ∧
      r.mid = its ++ movs ++
        [list_insert ex_cfg (INSTR_PRED (XINST_CREATE_jump (opnd_create_pc 8192))
          ex_bl_eq_at.instr.predicate)] ++ ex_bl_eq_removed.mid ∧
      (movs.length = 1 ∨ movs.length = 2) ∧
      (∀ m ∈ movs, m.is_app = false ∧ m.predicate = ex_bl_eq_at.instr.predicate ∧
        (m.opcode = OP_mvn ∨ m.opcode = OP_movw ∨ m.opcode = OP_movt) ∧
        m.dsts = [opnd_create_reg DR_REG_LR]) ∧
      (∀ (app : instr_t → mstate → mstate) (s : mstate),
        s.cond ex_bl_eq_at.instr.predicate = true →
        exec_list app movs s = s.set_reg DR_REG_LR
          (wrap32 (PC_AS_JMP_TGT ex_bl_eq_at.instr.isa_mode
            (ex_cfg.get_call_return_address ex_bl_eq_at.instr)))) ∧
      (list_insert ex_cfg (INSTR_PRED (XINST_CREATE_jump (opnd_create_pc 8192))
          ex_bl_eq_at.instr.predicate)).opcode = OP_b ∧
      (list_insert ex_cfg (INSTR_PRED (XINST_CREATE_jump (opnd_create_pc 8192))
          ex_bl_eq_at.instr.predicate)).predicate = ex_bl_eq_at.instr.predicate ∧
      instr_get_target (list_insert ex_cfg (INSTR_PRED (XINST_CREATE_jump (opnd_create_pc 8192))
          ex_bl_eq_at.instr.predicate)) = opnd_create_pc 8192 ∧
      (its = [] ∨ ∃ it, its = [it] ∧ it.opcode = OP_it ∧ it.predicate = DR_PRED_NONE ∧
        it.it_block = List.replicate movs.length ex_bl_eq_at.instr.predicate) ∧
      (its = [] ↔ ¬ (app_instr_is_in_it_block ex_bl_eq_at.instr = true ∧
        ex_cfg.isa_mode = DR_ISA_ARM_THUMB)) ∧
      (∀ i ∈ r.instr :: (its ++ movs ++
          [list_insert ex_cfg (INSTR_PRED (XINST_CREATE_jump (opnd_create_pc 8192))
            ex_bl_eq_at.instr.predicate)]),
        i.opcode ≠ OP_bl ∧ i.predicate ≠ instr_invert_predicate ex_bl_eq_at.instr.predicate ∧
        instr_is_reg_spill_or_restore ex_cfg i = none) :=
  mangle_direct_call_bl_predicated ex_cfg ex_bl_eq_at ex_bl_eq_removed 9 8192
    (by decide) (by decide) (by decide) (by decide)

theorem mangle_pc_read_loop_spec (reg : Nat) (rest pre : List opnd_t) (instr : instr_t)
    (hs : instr.srcs = pre ++ rest)
    (hbase : ∀ o ∈ rest, opnd_uses_reg o DR_REG_PC = true → opnd_is_reg o = true) :
    mangle_pc_read_loop reg rest.length pre.length instr =
      some { instr with srcs := pre ++ rest.map (fun o =>
        if opnd_uses_reg o DR_REG_PC then
          opnd_create_reg_ex reg (opnd_get_size o) (opnd_get_flags o)
        else o) } := by
  induction rest generalizing pre instr with
  | nil =>
    simp only [List.length_nil, mangle_pc_read_loop, List.map_nil, List.append_nil]
    rw [← List.append_nil pre, ← hs]
  | cons o rest ih =>
    have hg : instr_get_src instr pre.length = o := by
      have h0 : (pre ++ o :: rest)[pre.length]? = some o := by
        rw [List.getElem?_append_right (le_refl _)]
        simp
      simp [instr_get_src, hs, List.getD_eq_getElem?_getD, h0]
    simp only [List.length_cons, mangle_pc_read_loop, hg]
    by_cases hu : opnd_uses_reg o DR_REG_PC = true
    · have hr := hbase o (List.mem_cons_self _ _) hu
      simp only [hu, if_true, hr, Bool.true_eq_false, if_false, List.map_cons]
      have h2 : (instr_set_src instr pre.length
          (opnd_create_reg_ex reg (opnd_get_size o) (opnd_get_flags o))).srcs =
          (pre ++ [opnd_create_reg_ex reg (opnd_get_size o) (opnd_get_flags o)]) ++ rest := by
        simp [instr_set_src, hs]
      have := ih (pre ++ [opnd_create_reg_ex reg (opnd_get_size o) (opnd_get_flags o)]) _ h2
        (fun o' ho' => hbase o' (List.mem_cons_of_mem _ ho'))
      simp only [List.length_append, List.length_singleton] at this
      rw [this]
      simp [instr_set_src]
    · have h2 : instr.srcs = (pre ++ [o]) ++ rest := by simp [hs]
      have := ih (pre ++ [o]) instr h2 (fun o' ho' => hbase o' (List.mem_cons_of_mem _ ho'))
      simp only [List.length_append, List.length_singleton] at this
      simp only [hu, Bool.false_eq_true, if_false, List.map_cons]
      rw [this]
      simp

theorem pick_scratch_reg_le (cfg : config_t) (left : List instr_t) (instr : instr_t)
    (d : Bool) : (pick_scratch_reg cfg left instr d).1 ≤ SCRATCH_REG3 := by
  unfold pick_scratch_reg
  simp only []
  split_ifs with h
  · simp [REG_NULL]
  · omega

theorem opnd_uses_reg_create_reg_ex (r sz fl x : Nat) (h : r ≠ x) :
    opnd_uses_reg (opnd_create_reg_ex r sz fl) x = false := by
  simp [opnd_uses_reg, opnd_create_reg_ex, h]

/-- C40: for every app instruction some source operand of which uses r15, all
of those being plain register operands (none a memory operand), and for
which `pick_scratch_reg` finds a register: `mangle_pc_read` returns; every
source operand r15 is replaced by the scratch register with the size and
flags of the operand it replaces, so that no source operand uses r15 any
more, and every other operand, the destinations, the opcode and the predicate
are unchanged; the one or two instructions directly in front of the
instruction are meta instructions that write the scratch register and leave
the decode-time PC value in it; and a restore of the scratch register from
its slot is appended in front of `next_instr` exactly when `should_restore`
is true. -/
theorem mangle_pc_read_replaces (cfg : config_t) (c : ilist_at)
    (happ : c.instr.is_app = true)
    (hsrc : ∃ o ∈ c.instr.srcs, opnd_uses_reg o DR_REG_PC = true)
    (hreg : ∀ o ∈ c.instr.srcs, opnd_uses_reg o DR_REG_PC = true → opnd_is_reg o = true)
    (hpick : (pick_scratch_reg cfg c.prev c.instr true).1 ≠ REG_NULL) :
    ∃ (r : ilist_at) (movs : List instr_t), mangle_pc_read cfg c = some r ∧
      r.instr = { c.instr with srcs := c.instr.srcs.map (fun o =>
        if opnd_uses_reg o DR_REG_PC then
          opnd_create_reg_ex (pick_scratch_reg cfg c.prev c.instr true).1
            (opnd_get_size o) (opnd_get_flags o)
        else o) } ∧
      (∀ o ∈ r.instr.srcs, opnd_uses_reg o DR_REG_PC = false) ∧
      r.prev = movs.reverse ++ insert_save_to_tls_if_necessary cfg c.prev
        (pick_scratch_reg cfg c.prev c.instr true).1
        (pick_scratch_reg cfg c.prev c.instr true).2.1 ∧
      (movs.length = 1 ∨ movs.length = 2) ∧
      (∀ m ∈ movs, m.is_app = false ∧ m.predicate = DR_PRED_NONE ∧
        (m.opcode = OP_mvn ∨ m.opcode = OP_movw ∨ m.opcode = OP_movt) ∧
        m.dsts = [opnd_create_reg (pick_scratch_reg cfg c.prev c.instr true).1]) ∧
      (∀ (app : instr_t → mstate → mstate) (s : mstate),
        exec_list app movs s = s.set_reg (pick_scratch_reg cfg c.prev c.instr true).1
          (wrap32 (cfg.decode_cur_pc c.instr))) ∧
      r.mid = c.mid ++
        (if (pick_scratch_reg cfg c.prev c.instr true).2.2 = true then
           [meta_insert cfg (instr_create_restore_from_tls cfg
             (pick_scratch_reg cfg c.prev c.instr true).1
             (pick_scratch_reg cfg c.prev c.instr true).2.1)]
         else []) ∧
      r.next = c.next := by
  have hle := pick_scratch_reg_le cfg c.prev c.instr true
  have hne : (pick_scratch_reg cfg c.prev c.instr true).1 ≠ DR_REG_PC := by
    simp only [SCRATCH_REG3, DR_REG_R3, DR_REG_R0] at hle
    simp only [DR_REG_PC, DR_REG_R0]
    omega
  have hmeta : instr_is_meta c.instr = false := by simp [instr_is_meta, happ]
  have hreads : instr_reads_from_reg c.instr DR_REG_PC DR_QUERY_INCLUDE_ALL = true := by
    obtain ⟨o, ho, hu⟩ := hsrc
    have : instr_reg_in_src c.instr DR_REG_PC = true := by
      simp only [instr_reg_in_src, List.any_eq_true]
      exact ⟨o, ho, hu⟩
    simp [instr_reads_from_reg, DR_QUERY_INCLUDE_ALL, DR_QUERY_INCLUDE_COND_SRCS, TEST, this]
  have hloop := mangle_pc_read_loop_spec (pick_scratch_reg cfg c.prev c.instr true).1
    c.instr.srcs [] c.instr rfl hreg
  simp only [List.length_nil, List.nil_append] at hloop
  have hcall : mangle_pc_read cfg c = some
      { prev := (insert_mov_immed_ptrsz cfg (cfg.decode_cur_pc c.instr)
            (opnd_create_reg (pick_scratch_reg cfg c.prev c.instr true).1)).reverse ++
           insert_save_to_tls_if_necessary cfg c.prev
             (pick_scratch_reg cfg c.prev c.instr true).1
             (pick_scratch_reg cfg c.prev c.instr true).2.1,
        instr := { c.instr with srcs := c.instr.srcs.map (fun o =>
          if opnd_uses_reg o DR_REG_PC then
            opnd_create_reg_ex (pick_scratch_reg cfg c.prev c.instr true).1
              (opnd_get_size o) (opnd_get_flags o)
          else o) },
        mid := c.mid ++
          (if (pick_scratch_reg cfg c.prev c.instr true).2.2 = true then
             [meta_insert cfg (instr_create_restore_from_tls cfg
               (pick_scratch_reg cfg c.prev c.instr true).1
               (pick_scratch_reg cfg c.prev c.instr true).2.1)]
           else []),
        next := c.next } := by
    unfold mangle_pc_read
    simp only [hpick, if_false, hmeta, hreads, Bool.not_true, Bool.or_self, Bool.false_eq_true,
      instr_num_srcs, hloop]
    split_ifs <;> simp
  refine ⟨_, _, hcall, rfl, ?_, rfl, insert_mov_immed_ptrsz_length _ _ _,
    fun m hm => insert_mov_immed_ptrsz_mem _ _ _ m hm, ?_, rfl, rfl⟩
  · intro o ho
    simp only [List.mem_map] at ho
    obtain ⟨o0, -, rfl⟩ := ho
    by_cases hu : opnd_uses_reg o0 DR_REG_PC = true
    · rw [if_pos hu]
      exact opnd_uses_reg_create_reg_ex _ _ _ _ hne
    · rw [if_neg hu]
      simpa using hu
  · intro app s
    exact exec_insert_mov_immed_ptrsz_eq _ _ _ _ _

/-- C40 at `add r5, pc, r0` of `ex_add_from_pc`. -/
theorem mangle_pc_read_replaces_witness :
    ∃ (r : ilist_at) (movs : List instr_t), mangle_pc_read ex_cfg ex_add_from_pc = some r ∧
      r.instr = { ex_add_from_pc.instr with srcs := ex_add_from_pc.instr.srcs.map (fun o =>
        if opnd_uses_reg o DR_REG_PC then
          opnd_create_reg_ex
            (pick_scratch_reg ex_cfg ex_add_from_pc.prev ex_add_from_pc.instr true).1
            (opnd_get_size o) (opnd_get_flags o)
        else o) } ∧
      (∀ o ∈ r.instr.srcs, opnd_uses_reg o DR_REG_PC = false) ∧
      r.prev = movs.reverse ++ insert_save_to_tls_if_necessary ex_cfg ex_add_from_pc.prev
        (pick_scratch_reg ex_cfg ex_add_from_pc.prev ex_add_from_pc.instr true).1
        (pick_scratch_reg ex_cfg ex_add_from_pc.prev ex_add_from_pc.instr true).2.1 ∧
      (movs.length = 1 ∨ movs.length = 2) ∧
      (∀ m ∈ movs, m.is_app = false ∧ m.predicate = DR_PRED_NONE ∧
        (m.opcode = OP_mvn ∨ m.opcode = OP_movw ∨ m.opcode = OP_movt) ∧
        m.dsts = [opnd_create_reg
          (pick_scratch_reg ex_cfg ex_add_from_pc.prev ex_add_from_pc.instr true).1]) ∧
      (∀ (app : instr_t → mstate → mstate) (s : mstate),
        exec_list app movs s =
          s.set_reg (pick_scratch_reg ex_cfg ex_add_from_pc.prev ex_add_from_pc.instr true).1
            (wrap32 (ex_cfg.decode_cur_pc ex_add_from_pc.instr))) ∧
      r.mid = ex_add_from_pc.mid ++
        (if (pick_scratch_reg ex_cfg ex_add_from_pc.prev ex_add_from_pc.instr true).2.2 = true
         then
           [meta_insert ex_cfg (instr_create_restore_from_tls ex_cfg
             (pick_scratch_reg ex_cfg ex_add_from_pc.prev ex_add_from_pc.instr true).1
             (pick_scratch_reg ex_cfg ex_add_from_pc.prev ex_add_from_pc.instr true).2.1)]
         else []) ∧
      r.next = ex_add_from_pc.next :=
  mangle_pc_read_replaces ex_cfg ex_add_from_pc (by decide)
    ⟨ex_reg 15, by decide, by decide⟩ (by decide) (by decide)

/-- C39: the Thumb `mrcne p15, 0, r10, c13, c0, 3` (r10 the stolen register),
alone in its IT block, becomes (behind the label and in a new IT block) `ldrne r10, [r10, #app_tls_base]` bracketed by
`str r0, [r10, #slot0]; mov r0, r10` and
`str r10, [r0, #stolen_slot]; mov r10, r0; ldr r0, [r10, #slot0]`, the
brackets without predicate.  Run from a state in which `ne` is false, the
load does not execute, r10 holds the TLS base again at the end, and the
stolen slot, which held the app value of r10, now holds the TLS base. -/
theorem mangle_reads_thread_register_clobbers_stolen_slot :
    ∃ r, mangle_reads_thread_register ex_cfg ex_reads_thread_register 20 ex_mrc_ne_at 9 =
        some r ∧
      (r.prev.reverse ++ r.instr :: r.mid).map
          (fun i => (i.opcode, i.is_app, i.predicate)) =
        [(OP_label, false, DR_PRED_NONE),
         (OP_str, false, DR_PRED_NONE), (OP_mov, false, DR_PRED_NONE),
         (OP_it, true, DR_PRED_NONE),
         (OP_ldr, true, DR_PRED_NE),
         (OP_str, false, DR_PRED_NONE), (OP_mov, false, DR_PRED_NONE),
         (OP_ldr, false, DR_PRED_NONE)] ∧
      r.instr.dsts = [opnd_create_reg ex_cfg.dr_reg_stolen] ∧
      r.instr.srcs = [opnd_create_sized_tls_slot ex_cfg (ex_cfg.os_tls_offset 20) OPSZ_PTR] ∧
      ex_state_ne_false.cond DR_PRED_NE = false ∧
      (exec_list ex_app (r.prev.reverse ++ r.instr :: r.mid) ex_state_ne_false).regs
          ex_cfg.dr_reg_stolen = ex_state_ne_false.regs ex_cfg.dr_reg_stolen ∧
      (exec_list ex_app (r.prev.reverse ++ r.instr :: r.mid) ex_state_ne_false).regs
          DR_REG_R0 = ex_state_ne_false.regs DR_REG_R0 ∧
      (exec_list ex_app (r.prev.reverse ++ r.instr :: r.mid) ex_state_ne_false).mem
          (ex_state_ne_false.regs ex_cfg.dr_reg_stolen +
            ex_cfg.os_tls_offset ex_cfg.TLS_REG_STOLEN_SLOT) =
        ex_state_ne_false.regs ex_cfg.dr_reg_stolen ∧
      ex_state_ne_false.mem (ex_state_ne_false.regs ex_cfg.dr_reg_stolen +
          ex_cfg.os_tls_offset ex_cfg.TLS_REG_STOLEN_SLOT) ≠
        ex_state_ne_false.regs ex_cfg.dr_reg_stolen := by
  refine ⟨_, rfl, by decide, by decide, by decide, by decide, ?_, ?_, ?_, by decide⟩
  · decide
  · decide
  · decide

theorem gpr_list_scan_comp (fix r : Nat) (regs : List Nat) (i : Nat) (a : Option Nat)
    (hn : r ∉ regs) :
    (if fix ∈ regs then some (i + 1 + regs.indexOf fix)
     else (if r = fix then some i else a)) =
      (if fix ∈ r :: regs then some (i + (r :: regs).indexOf fix) else a) := by
  by_cases h : r = fix
  · subst h
    simp [hn, List.indexOf_cons]
  · have h' : ¬ fix = r := fun e => h e.symm
    have hb : (r == fix) = false := by simpa using h
    by_cases hm : fix ∈ regs
    · simp only [hm, if_true, List.mem_cons, or_true, List.indexOf_cons, hb, cond_false]
      congr 1
      omega
    · simp [hm, h, h']

theorem gpr_list_scan_spec (fix0 fix1 : Nat) (ops : List opnd_t) (i : Nat)
    (acc : Option Nat × Option Nat)
    (hops : ∀ o ∈ ops, opnd_is_reg o = true) (hnd : (ops.map opnd_get_reg).Nodup) :
    gpr_list_scan fix0 fix1 ops i acc =
      some (if fix0 ∈ ops.map opnd_get_reg then some (i + (ops.map opnd_get_reg).indexOf fix0)
            else acc.1,
            if fix1 ∈ ops.map opnd_get_reg then some (i + (ops.map opnd_get_reg).indexOf fix1)
            else acc.2) := by
  induction ops generalizing i acc with
  | nil => simp [gpr_list_scan]
  | cons o rest ih =>
    have ho := hops o (List.mem_cons_self _ _)
    simp only [List.map_cons, List.nodup_cons] at hnd
    rw [gpr_list_scan]
    simp only [ho, Bool.true_eq_false, if_false]
    rw [ih (i + 1) _ (fun o' h => hops o' (List.mem_cons_of_mem _ h)) hnd.2]
    simp only [List.map_cons]
    rw [gpr_list_scan_comp fix0 _ _ i acc.1 hnd.1, gpr_list_scan_comp fix1 _ _ i acc.2 hnd.1]

theorem restore_from_tls_is_restore (cfg : config_t) (r slot : Nat) :
    instr_is_reg_spill_or_restore cfg
      (meta_insert cfg (instr_create_restore_from_tls cfg r slot)) = some (true, false, r) := by
  unfold instr_create_restore_from_tls opnd_create_tls_slot opnd_create_base_disp
  split_ifs <;>
    simp [instr_is_reg_spill_or_restore, meta_insert, list_insert, instr_set_meta,
      XINST_CREATE_load, instr_create, opnd_create_reg, REG_NULL]

theorem spill_elided_other_restore (cfg : config_t) (r slot reg : Nat) (rest : List instr_t)
    (h : r ≠ reg) :
    spill_elided cfg (meta_insert cfg (instr_create_restore_from_tls cfg r slot) :: rest) reg =
      false := by
  unfold spill_elided
  cases hf : find_prior_scratch_reg_restore cfg
      (meta_insert cfg (instr_create_restore_from_tls cfg r slot) :: rest) with
  | none => rfl
  | some p =>
    obtain ⟨k, pr⟩ := p
    have := (find_prior_scratch_reg_restore_some cfg _ k pr).mp hf
    obtain ⟨-, hk, prev, rest', hd, tls, hs, -⟩ := this
    have hlab : instr_is_label (meta_insert cfg (instr_create_restore_from_tls cfg r slot)) =
        false := rfl
    simp only [List.takeWhile, hlab, Bool.false_and, List.length_nil] at hk
    subst hk
    simp only [List.drop_zero, List.cons.injEq] at hd
    rw [← hd.1, restore_from_tls_is_restore] at hs
    simp only [Option.some.injEq, Prod.mk.injEq] at hs
    have : r = pr := hs.2.2
    simp only [decide_eq_false_iff_not, not_and]
    intro _ e
    exact h (this.trans e)

theorem spill_elided_stm (cfg : config_t) (instr : instr_t) (rest : List instr_t) (reg : Nat)
    (h : instr_reads_gpr_list instr = true) :
    spill_elided cfg (instr :: rest) reg = false := by
  unfold spill_elided
  cases hf : find_prior_scratch_reg_restore cfg (instr :: rest) with
  | none => rfl
  | some p =>
    exfalso
    obtain ⟨k, pr⟩ := p
    have := (find_prior_scratch_reg_restore_some cfg _ k pr).mp hf
    obtain ⟨-, hk, prev, rest', hd, tls, hs, -⟩ := this
    have hlab : instr_is_label instr = false := by
      simp only [instr_reads_gpr_list, Bool.or_eq_true, beq_iff_eq] at h
      simp only [instr_is_label, beq_eq_false_iff_ne, ne_eq]
      rcases h with ((h | h) | h) | h <;> rw [h] <;> decide
    simp only [List.takeWhile, hlab, Bool.false_and, List.length_nil] at hk
    subst hk
    simp only [List.drop_zero, List.cons.injEq] at hd
    rw [← hd.1] at hs
    simp only [instr_reads_gpr_list, Bool.or_eq_true, beq_iff_eq] at h
    unfold instr_is_reg_spill_or_restore at hs
    rcases h with ((h | h) | h) | h <;> rw [h] at hs <;> simp at hs

theorem insert_save_not_elided (cfg : config_t) (left : List instr_t) (reg slot : Nat)
    (h : spill_elided cfg left reg = false) :
    insert_save_to_tls_if_necessary cfg left reg slot =
      meta_insert cfg (instr_create_save_to_tls cfg reg slot) :: left := by
  rcases insert_save_to_tls_if_necessary_shape cfg left reg slot with ⟨h1, -⟩ | ⟨-, h2⟩
  · rw [h] at h1
    cases h1
  · exact h2

theorem take_front {α : Type} (A : List α) (x : α) (P : List α) :
    (A ++ x :: P).take ((A ++ x :: P).length - (P.length + 1)) = A := by
  have h : (A ++ x :: P).length - (P.length + 1) = A.length := by
    simp only [List.length_append, List.length_cons]
    omega
  rw [h]
  exact List.take_left _ _

theorem store_reg_to_memlist_store (cfg : config_t) (instr : instr_t)
    (base_reg slot tmp fix idx : Nat) :
    ∃ load store, store_reg_to_memlist cfg instr base_reg slot tmp fix idx = load ++ [store] ∧
      store.opcode = OP_str ∧ store.is_app = true ∧
      store.predicate = instr.predicate ∧ store.translation = instr.translation ∧
      store.srcs = [opnd_create_reg tmp] ∧
      opnd_get_base (instr_get_dst store 0) = base_reg ∧
      (∀ m ∈ load, m.is_app = false ∧ m.opcode ≠ OP_str ∧ m.dsts = [opnd_create_reg tmp]) := by
  refine ⟨_, _, rfl, rfl, rfl, rfl, rfl, rfl, ?_, ?_⟩
  · simp only [instr_get_dst, list_insert, instr_set_translation, instr_set_predicate,
      XINST_CREATE_store, instr_create, List.getD_cons_zero, opnd_create_base_disp]
    split_ifs <;> rfl
  · intro m hm
    split_ifs at hm with h
    · obtain ⟨h1, -, h3, h4⟩ := insert_mov_immed_ptrsz_mem cfg _ _ m hm
      refine ⟨h1, ?_, h4⟩
      rcases h3 with h | h | h <;> rw [h] <;> decide
    · simp only [List.mem_singleton] at hm
      subst hm
      exact ⟨rfl, (show OP_ldr ≠ OP_str by decide), rfl⟩

/-- C38: for every `stm` off a base register (a memory list without index)
whose register operands are distinct, called with `next_instr` directly
behind it and with the stolen register a register other than r0 and r1:
`mangle_gpr_list_read` returns and leaves the instruction itself unchanged.
Fix-ups are made for PC and for the stolen register, but when the stolen
register is the base for PC and for r0 instead (the stolen register then
holds its app value during the store, and r0 holds the TLS base).  If one of
the two occurs in the register list (the writeback base source excluded),
what is inserted behind the instruction is: the spill of the scratch register
to the slot of r1, for each of the two registers that occurs, in this order,
the load of its app value into the scratch register followed by one store of
the scratch register to its slot in the list, and the restore of the scratch
register from the same slot of r1 (when the stolen register is the base, this
stands between the instructions that give the stolen register back its TLS
base and reload r0).  Each fix-up store is an app `str` with the predicate
and the translation of the original instruction, and the scratch register is
never the register that addresses the slot. -/
theorem mangle_gpr_list_read_fixups (cfg : config_t) (c : ilist_at) (base : Nat)
    (st sa : Nat) (d : Int) (f sz : Nat) (ops wb : List opnd_t)
    (hop : instr_reads_gpr_list c.instr = true)
    (hst : cfg.dr_reg_stolen ≠ REG_NULL ∧ cfg.dr_reg_stolen ≠ DR_REG_R0 ∧
      cfg.dr_reg_stolen ≠ DR_REG_R1)
    (hmem : instr_get_dst c.instr 0 = .base_disp base REG_NULL st sa d f sz)
    (hsrcs : c.instr.srcs = ops ++ wb)
    (hwb : wb.length = if instr_num_dsts c.instr > 1 then 1 else 0)
    (hops : ∀ o ∈ ops, opnd_is_reg o = true)
    (hnd : (ops.map opnd_get_reg).Nodup)
    (hmid : c.mid = []) :
    ∃ r, mangle_gpr_list_read cfg c = some r ∧
      r.instr = c.instr ∧ r.next = c.next ∧
      r.prev = (if base = cfg.dr_reg_stolen then
          restore_app_value_to_stolen_reg cfg c.prev c.instr DR_REG_R0 cfg.TLS_REG0_SLOT
        else c.prev) ∧
      r.mid =
        (if base = cfg.dr_reg_stolen then
           restore_tls_base_to_stolen_reg cfg c.instr DR_REG_R0 cfg.TLS_REG0_SLOT
         else []) ++
        (if DR_REG_PC ∈ ops.map opnd_get_reg ∨
            gpr_list_fix_reg1 cfg base ∈ ops.map opnd_get_reg then
           (if base = cfg.dr_reg_stolen then
              [meta_insert cfg
                (instr_create_restore_from_tls cfg DR_REG_R0 cfg.TLS_REG_STOLEN_SLOT)]
            else []) ++
           [meta_insert cfg
             (instr_create_save_to_tls cfg (gpr_list_scratch cfg base) (TLS_REG1_SLOT cfg))] ++
           (if DR_REG_PC ∈ ops.map opnd_get_reg then
              store_reg_to_memlist cfg c.instr (gpr_list_base_reg cfg base)
                (gpr_list_app_val_slot cfg base) (gpr_list_scratch cfg base) DR_REG_PC
                ((ops.map opnd_get_reg).indexOf DR_REG_PC)
            else []) ++
           (if gpr_list_fix_reg1 cfg base ∈ ops.map opnd_get_reg then
              store_reg_to_memlist cfg c.instr (gpr_list_base_reg cfg base)
                (gpr_list_app_val_slot cfg base) (gpr_list_scratch cfg base)
                (gpr_list_fix_reg1 cfg base)
                ((ops.map opnd_get_reg).indexOf (gpr_list_fix_reg1 cfg base))
            else []) ++
           [meta_insert cfg
             (instr_create_restore_from_tls cfg (gpr_list_scratch cfg base)
               (TLS_REG1_SLOT cfg))]
         else []) ++
        (if base = cfg.dr_reg_stolen then
           [meta_insert cfg (instr_create_restore_from_tls cfg DR_REG_R0 cfg.TLS_REG0_SLOT)]
         else []) ∧
      gpr_list_scratch cfg base ≠ gpr_list_base_reg cfg base ∧
      (∀ fix idx, ∃ load store,
        store_reg_to_memlist cfg c.instr (gpr_list_base_reg cfg base)
            (gpr_list_app_val_slot cfg base) (gpr_list_scratch cfg base) fix idx =
          load ++ [store] ∧
        store.opcode = OP_str ∧ store.is_app = true ∧
        store.predicate = c.instr.predicate ∧ store.translation = c.instr.translation ∧
        store.srcs = [opnd_create_reg (gpr_list_scratch cfg base)] ∧
        opnd_get_base (instr_get_dst store 0) = gpr_list_base_reg cfg base ∧
        (∀ m ∈ load, m.is_app = false ∧ m.opcode ≠ OP_str ∧
          m.dsts = [opnd_create_reg (gpr_list_scratch cfg base)])) := by
  obtain ⟨hstn, hst0, hst1⟩ := hst
  have hne : gpr_list_scratch cfg base ≠ gpr_list_base_reg cfg base := by
    unfold gpr_list_scratch gpr_list_base_reg
    split_ifs with h1 h2
    · decide
    · rw [h2]; decide
    · exact fun e => h2 e.symm
  have huse : ∀ x, opnd_uses_reg (instr_get_dst c.instr 0) x =
      (base == x || REG_NULL == x) := by
    intro x
    rw [hmem]
    rfl
  have hbase : opnd_get_base (instr_get_dst c.instr 0) = base := by
    rw [hmem]
    rfl
  have htake : c.instr.srcs.take (if decide (instr_num_dsts c.instr > 1) = true then
      instr_num_srcs c.instr - 1 else instr_num_srcs c.instr) = ops := by
    by_cases h1 : instr_num_dsts c.instr > 1
    · simp only [h1, if_true] at hwb
      simp only [h1, decide_True, if_true, instr_num_srcs, hsrcs, List.length_append, hwb,
        Nat.add_sub_cancel]
      exact List.take_left _ _
    · simp only [h1, if_false] at hwb
      have hw : wb = [] := List.length_eq_zero.mp hwb
      simp [h1, instr_num_srcs, hsrcs, hw]
  have hnz : (decide (instr_num_dsts c.instr > 1) && instr_num_srcs c.instr == 0) = false := by
    by_cases h1 : instr_num_dsts c.instr > 1
    · simp only [h1, if_true] at hwb
      simp [instr_num_srcs, hsrcs, hwb]
    · simp [h1]
  have hscan := gpr_list_scan_spec DR_REG_PC (gpr_list_fix_reg1 cfg base) ops 0 (none, none)
    hops hnd
  simp only [Nat.zero_add] at hscan
  have hsave : ∀ (A P : List instr_t) (reg slot : Nat),
      spill_elided cfg (A ++ c.instr :: P) reg = false →
      ((insert_save_to_tls_if_necessary cfg (A ++ c.instr :: P) reg slot).take
        ((insert_save_to_tls_if_necessary cfg (A ++ c.instr :: P) reg slot).length -
          (P.length + 1))).reverse =
        A.reverse ++ [meta_insert cfg (instr_create_save_to_tls cfg reg slot)] := by
    intro A P reg slot h
    rw [insert_save_not_elided cfg _ reg slot h]
    have := take_front (meta_insert cfg (instr_create_save_to_tls cfg reg slot) :: A) c.instr P
    simp only [List.cons_append] at this
    rw [this]
    simp
  by_cases hb : base = cfg.dr_reg_stolen
  · subst hb
    have hb : cfg.dr_reg_stolen = cfg.dr_reg_stolen := rfl
    have hf1 : gpr_list_fix_reg1 cfg cfg.dr_reg_stolen = DR_REG_R0 := by
      simp [gpr_list_fix_reg1]
    have hus : opnd_uses_reg (instr_get_dst c.instr 0) cfg.dr_reg_stolen = true := by
      rw [huse]
      simp [hb]
    have hscr : gpr_list_scratch cfg cfg.dr_reg_stolen = DR_REG_R1 := by
      simp [gpr_list_scratch]
    have hbr : gpr_list_base_reg cfg cfg.dr_reg_stolen = DR_REG_R0 := by
      simp [gpr_list_base_reg]
    have hsl : gpr_list_app_val_slot cfg cfg.dr_reg_stolen = cfg.TLS_REG0_SLOT := by
      simp [gpr_list_app_val_slot]
    have hua : opnd_uses_reg (instr_get_dst c.instr 0) DR_REG_R1 = false := by
      rw [huse]
      have h2 : ¬ REG_NULL = DR_REG_R1 := by decide
      simp [hst1, h2]
    rw [hf1] at hscan
    have hcall : mangle_gpr_list_read cfg c = some
        { prev := restore_app_value_to_stolen_reg cfg c.prev c.instr DR_REG_R0
            cfg.TLS_REG0_SLOT,
          instr := c.instr,
          mid :=
            restore_tls_base_to_stolen_reg cfg c.instr DR_REG_R0 cfg.TLS_REG0_SLOT ++
            (if DR_REG_PC ∈ ops.map opnd_get_reg ∨ DR_REG_R0 ∈ ops.map opnd_get_reg then
               [meta_insert cfg
                 (instr_create_restore_from_tls cfg DR_REG_R0 cfg.TLS_REG_STOLEN_SLOT)] ++
               [meta_insert cfg (instr_create_save_to_tls cfg DR_REG_R1 (TLS_REG1_SLOT cfg))] ++
               (if DR_REG_PC ∈ ops.map opnd_get_reg then
                  store_reg_to_memlist cfg c.instr DR_REG_R0 cfg.TLS_REG0_SLOT
                    DR_REG_R1 DR_REG_PC ((ops.map opnd_get_reg).indexOf DR_REG_PC)
                else []) ++
               (if DR_REG_R0 ∈ ops.map opnd_get_reg then
                  store_reg_to_memlist cfg c.instr DR_REG_R0 cfg.TLS_REG0_SLOT
                    DR_REG_R1 DR_REG_R0 ((ops.map opnd_get_reg).indexOf DR_REG_R0)
                else []) ++
               [meta_insert cfg (instr_create_restore_from_tls cfg DR_REG_R1
                   (TLS_REG1_SLOT cfg))]
             else []) ++
            [meta_insert cfg (instr_create_restore_from_tls cfg DR_REG_R0 cfg.TLS_REG0_SLOT)],
          next := c.next } := by
      have hs0 := hsave
        ((restore_tls_base_to_stolen_reg cfg c.instr DR_REG_R0 cfg.TLS_REG0_SLOT ++
          [meta_insert cfg
            (instr_create_restore_from_tls cfg DR_REG_R0 cfg.TLS_REG_STOLEN_SLOT)]).reverse)
        (restore_app_value_to_stolen_reg cfg c.prev c.instr DR_REG_R0 cfg.TLS_REG0_SLOT)
        DR_REG_R1 (TLS_REG1_SLOT cfg)
        (by
          rw [List.reverse_append]
          exact spill_elided_other_restore cfg DR_REG_R0 _ DR_REG_R1 _ (by decide))
      rw [List.reverse_reverse] at hs0
      unfold mangle_gpr_list_read
      simp only [hst0, hst1, or_self, if_false, hus, if_true, hnz, Bool.false_eq_true, htake,
        hscan, hmid, List.append_nil, hua, hs0]
      by_cases hpc : DR_REG_PC ∈ ops.map opnd_get_reg <;>
        by_cases hf : DR_REG_R0 ∈ ops.map opnd_get_reg <;>
        simp [hpc, hf]
    refine ⟨_, hcall, rfl, rfl, ?_, ?_, hne,
      fun fix idx => store_reg_to_memlist_store _ _ _ _ _ _ _⟩
    · simp
    · simp only [if_true, hf1, hbr, hsl, hscr]
  · have hf1 : gpr_list_fix_reg1 cfg base = cfg.dr_reg_stolen := by
      simp [gpr_list_fix_reg1, hb]
    have hus : opnd_uses_reg (instr_get_dst c.instr 0) cfg.dr_reg_stolen = false := by
      rw [huse]
      have h1 : ¬ REG_NULL = cfg.dr_reg_stolen := fun e => hstn e.symm
      simp [hb, h1]
    have hu1 : opnd_uses_reg (instr_get_dst c.instr 0) DR_REG_R1 = (base == DR_REG_R1) := by
      rw [huse]
      simp [REG_NULL, DR_REG_R1, DR_REG_R0]
    have hsc : (if opnd_uses_reg (instr_get_dst c.instr 0) DR_REG_R1 = true then DR_REG_R0
        else DR_REG_R1) = gpr_list_scratch cfg base := by
      rw [hu1]
      have h1 : ¬ DR_REG_R1 = cfg.dr_reg_stolen := fun e => hst1 e.symm
      by_cases h : base = DR_REG_R1 <;> simp [gpr_list_scratch, hb, h, h1]
    have hbr : gpr_list_base_reg cfg base = base := by simp [gpr_list_base_reg, hb]
    have hsl : gpr_list_app_val_slot cfg base = cfg.TLS_REG_STOLEN_SLOT := by
      simp [gpr_list_app_val_slot, hb]
    have hua : opnd_uses_reg (instr_get_dst c.instr 0) (gpr_list_scratch cfg base) = false := by
      rw [huse]
      have h1 : ¬ base = gpr_list_scratch cfg base := by
        intro e
        apply hne
        rw [hbr]
        exact e.symm
      have h2 : ¬ REG_NULL = gpr_list_scratch cfg base := by
        unfold gpr_list_scratch
        split_ifs <;> decide
      simp [h1, h2]
    rw [hf1] at hscan
    have hcall : mangle_gpr_list_read cfg c = some
        { prev := c.prev, instr := c.instr,
          mid :=
            (if DR_REG_PC ∈ ops.map opnd_get_reg ∨
                cfg.dr_reg_stolen ∈ ops.map opnd_get_reg then
               [meta_insert cfg (instr_create_save_to_tls cfg (gpr_list_scratch cfg base)
                   (TLS_REG1_SLOT cfg))] ++
               (if DR_REG_PC ∈ ops.map opnd_get_reg then
                  store_reg_to_memlist cfg c.instr base cfg.TLS_REG_STOLEN_SLOT
                    (gpr_list_scratch cfg base) DR_REG_PC
                    ((ops.map opnd_get_reg).indexOf DR_REG_PC)
                else []) ++
               (if cfg.dr_reg_stolen ∈ ops.map opnd_get_reg then
                  store_reg_to_memlist cfg c.instr base cfg.TLS_REG_STOLEN_SLOT
                    (gpr_list_scratch cfg base) cfg.dr_reg_stolen
                    ((ops.map opnd_get_reg).indexOf cfg.dr_reg_stolen)
                else []) ++
               [meta_insert cfg (instr_create_restore_from_tls cfg (gpr_list_scratch cfg base)
                   (TLS_REG1_SLOT cfg))]
             else []),
          next := c.next } := by
      have hs0 := hsave [] c.prev (gpr_list_scratch cfg base) (TLS_REG1_SLOT cfg)
        (spill_elided_stm cfg c.instr c.prev _ hop)
      simp only [List.nil_append, List.reverse_nil] at hs0
      unfold mangle_gpr_list_read
      simp only [hst0, hst1, or_self, if_false, hus, Bool.false_eq_true, hnz, htake, hscan,
        hmid, hbase, hsc, hua, List.reverse_nil, List.nil_append, hs0]
      by_cases hpc : DR_REG_PC ∈ ops.map opnd_get_reg <;>
        by_cases hf : cfg.dr_reg_stolen ∈ ops.map opnd_get_reg <;>
        simp [hpc, hf]
    refine ⟨_, hcall, rfl, rfl, ?_, ?_, hne,
      fun fix idx => store_reg_to_memlist_store _ _ _ _ _ _ _⟩
    · simp [hb]
    · simp only [hb, if_false, List.nil_append, List.append_nil, hf1, hbr, hsl]

/-- C38 at `stmia r5, {r0, r10, pc}` of `ex_stm_at`. -/
theorem mangle_gpr_list_read_fixups_witness :
    ∃ r, mangle_gpr_list_read ex_cfg ex_stm_at = some r ∧
      r.instr = ex_stm_at.instr ∧ r.next = ex_stm_at.next ∧
      r.prev = (if (DR_REG_R0 + 5) = ex_cfg.dr_reg_stolen then
          restore_app_value_to_stolen_reg ex_cfg ex_stm_at.prev ex_stm_at.instr DR_REG_R0 ex_cfg.TLS_REG0_SLOT
        else ex_stm_at.prev) ∧
      r.mid =
        (if (DR_REG_R0 + 5) = ex_cfg.dr_reg_stolen then
           restore_tls_base_to_stolen_reg ex_cfg ex_stm_at.instr DR_REG_R0 ex_cfg.TLS_REG0_SLOT
         else []) ++
        (if DR_REG_PC ∈ ([0, 10, 15].map ex_reg).map opnd_get_reg ∨
            gpr_list_fix_reg1 ex_cfg (DR_REG_R0 + 5) ∈ ([0, 10, 15].map ex_reg).map opnd_get_reg then
           (if (DR_REG_R0 + 5) = ex_cfg.dr_reg_stolen then
              [meta_insert ex_cfg
                (instr_create_restore_from_tls ex_cfg DR_REG_R0 ex_cfg.TLS_REG_STOLEN_SLOT)]
            else []) ++
           [meta_insert ex_cfg
             (instr_create_save_to_tls ex_cfg (gpr_list_scratch ex_cfg (DR_REG_R0 + 5)) (TLS_REG1_SLOT ex_cfg))] ++
           (if DR_REG_PC ∈ ([0, 10, 15].map ex_reg).map opnd_get_reg then
              store_reg_to_memlist ex_cfg ex_stm_at.instr (gpr_list_base_reg ex_cfg (DR_REG_R0 + 5))
                (gpr_list_app_val_slot ex_cfg (DR_REG_R0 + 5)) (gpr_list_scratch ex_cfg (DR_REG_R0 + 5)) DR_REG_PC
                ((([0, 10, 15].map ex_reg).map opnd_get_reg).indexOf DR_REG_PC)
            else []) ++
           (if gpr_list_fix_reg1 ex_cfg (DR_REG_R0 + 5) ∈ ([0, 10, 15].map ex_reg).map opnd_get_reg then
              store_reg_to_memlist ex_cfg ex_stm_at.instr (gpr_list_base_reg ex_cfg (DR_REG_R0 + 5))
                (gpr_list_app_val_slot ex_cfg (DR_REG_R0 + 5)) (gpr_list_scratch ex_cfg (DR_REG_R0 + 5))
                (gpr_list_fix_reg1 ex_cfg (DR_REG_R0 + 5))
                ((([0, 10, 15].map ex_reg).map opnd_get_reg).indexOf (gpr_list_fix_reg1 ex_cfg (DR_REG_R0 + 5)))
            else []) ++
           [meta_insert ex_cfg
             (instr_create_restore_from_tls ex_cfg (gpr_list_scratch ex_cfg (DR_REG_R0 + 5))
               (TLS_REG1_SLOT ex_cfg))]
         else []) ++
        (if (DR_REG_R0 + 5) = ex_cfg.dr_reg_stolen then
           [meta_insert ex_cfg (instr_create_restore_from_tls ex_cfg DR_REG_R0 ex_cfg.TLS_REG0_SLOT)]
         else []) ∧
      gpr_list_scratch ex_cfg (DR_REG_R0 + 5) ≠ gpr_list_base_reg ex_cfg (DR_REG_R0 + 5) ∧
      (∀ fix idx, ∃ load store,
        store_reg_to_memlist ex_cfg ex_stm_at.instr (gpr_list_base_reg ex_cfg (DR_REG_R0 + 5))
            (gpr_list_app_val_slot ex_cfg (DR_REG_R0 + 5)) (gpr_list_scratch ex_cfg (DR_REG_R0 + 5)) fix idx =
          load ++ [store] ∧
        store.opcode = OP_str ∧ store.is_app = true ∧
        store.predicate = ex_stm_at.instr.predicate ∧ store.translation = ex_stm_at.instr.translation ∧
        store.srcs = [opnd_create_reg (gpr_list_scratch ex_cfg (DR_REG_R0 + 5))] ∧
        opnd_get_base (instr_get_dst store 0) = gpr_list_base_reg ex_cfg (DR_REG_R0 + 5) ∧
        (∀ m ∈ load, m.is_app = false ∧ m.opcode ≠ OP_str ∧
          m.dsts = [opnd_create_reg (gpr_list_scratch ex_cfg (DR_REG_R0 + 5))])) :=
  mangle_gpr_list_read_fixups ex_cfg ex_stm_at (DR_REG_R0 + 5) 0 0 0 0 OPSZ_VAR_REGLIST
    ([0, 10, 15].map ex_reg) [] (by decide) (by decide) (by decide) (by decide) (by decide)
    (by decide) (by decide) (by decide)

/-- C38, against a fix-up for exactly PC and the stolen register: for
`stmia r10, {r5, r10}`, whose base is the stolen register r10 and whose list
contains r10, no fix-up store is inserted (no app instruction at all), and
for `stmia r10, {r0, r5}`, whose list contains neither PC nor r10, one fix-up
store is inserted, for r0. -/
theorem mangle_gpr_list_read_fixes_r0_for_stolen_base :
    ex_cfg.dr_reg_stolen = DR_REG_R0 + 10 ∧
    (mangle_gpr_list_read ex_cfg (ex_at (ex_stm OP_stmia false 10 [5, 10]))).map
        (fun r => r.mid.filter (fun i => i.is_app)) = some [] ∧
    (mangle_gpr_list_read ex_cfg (ex_at (ex_stm OP_stmia false 10 [0, 5]))).map
        (fun r => (r.mid.filter (fun i => i.is_app)).map
          (fun i => (i.opcode, i.dsts, i.srcs))) =
      some [(OP_str, [opnd_create_base_disp DR_REG_R0 REG_NULL 0 0 OPSZ_PTR],
             [opnd_create_reg DR_REG_R1])] := by
  refine ⟨by decide, by decide, by decide⟩

theorem save_to_tls_is_spill (cfg : config_t) (r slot : Nat) :
    instr_is_reg_spill_or_restore cfg
      (meta_insert cfg (instr_create_save_to_tls cfg r slot)) = some (true, true, r) := by
  unfold instr_create_save_to_tls opnd_create_tls_slot opnd_create_base_disp
  split_ifs <;>
    simp [instr_is_reg_spill_or_restore, meta_insert, list_insert, instr_set_meta,
      XINST_CREATE_store, instr_create, opnd_create_reg, REG_NULL]

theorem spill_elided_after_bound (cfg : config_t) (id r slot reg : Nat)
    (rest : List instr_t) :
    spill_elided cfg (meta_insert cfg (INSTR_CREATE_label id) ::
      meta_insert cfg (instr_create_save_to_tls cfg r slot) :: rest) reg = false := by
  unfold spill_elided
  cases hf : find_prior_scratch_reg_restore cfg (meta_insert cfg (INSTR_CREATE_label id) ::
      meta_insert cfg (instr_create_save_to_tls cfg r slot) :: rest) with
  | none => rfl
  | some p =>
    exfalso
    obtain ⟨k, pr⟩ := p
    have := (find_prior_scratch_reg_restore_some cfg _ k pr).mp hf
    obtain ⟨-, hk, prev, rest', hd, tls, hs, -⟩ := this
    have hlab : instr_is_label (meta_insert cfg (instr_create_save_to_tls cfg r slot)) =
        false := rfl
    have hlab2 : instr_is_label (meta_insert cfg (INSTR_CREATE_label id)) = true := rfl
    have hsl : instr_is_reg_spill_or_restore cfg (meta_insert cfg (INSTR_CREATE_label id)) =
        none := rfl
    by_cases hm : instr_is_our_mangling (meta_insert cfg (INSTR_CREATE_label id)) = true
    · simp only [List.takeWhile, hlab, hlab2, hm, Bool.false_and, Bool.and_self,
        List.length_cons, List.length_nil] at hk
      subst hk
      simp only [zero_add, List.drop_succ_cons, List.drop_zero, List.cons.injEq] at hd
      rw [← hd.1, save_to_tls_is_spill] at hs
      simp at hs
    · simp only [Bool.not_eq_true] at hm
      simp only [List.takeWhile, hlab2, hm, Bool.and_false, List.length_nil] at hk
      subst hk
      simp only [List.drop_zero, List.cons.injEq] at hd
      rw [← hd.1, hsl] at hs
      cases hs
theorem restore_app_value_to_stolen_reg_shape (cfg : config_t) (left : List instr_t)
    (instr : instr_t) (reg slot : Nat) (h : spill_elided cfg left reg = false) :
    ∃ pre : List instr_t,
      restore_app_value_to_stolen_reg cfg left instr reg slot = pre.reverse ++ left ∧
      ∀ i ∈ pre, i.is_app = false ∧ i.predicate = DR_PRED_NONE ∧
        (i.opcode = OP_str ∨ i.opcode = OP_mov ∨ i.opcode = OP_ldr) := by
  unfold restore_app_value_to_stolen_reg
  simp only [insert_save_not_elided cfg left reg slot h]
  split_ifs
  · refine ⟨[meta_insert cfg (instr_create_save_to_tls cfg reg slot),
      meta_insert cfg (INSTR_CREATE_mov (opnd_create_reg reg)
        (opnd_create_reg cfg.dr_reg_stolen)),
      meta_insert cfg (instr_create_restore_from_tls cfg cfg.dr_reg_stolen
        cfg.TLS_REG_STOLEN_SLOT)], by simp, ?_⟩
    intro i hi
    simp only [List.mem_cons, List.mem_singleton, List.not_mem_nil, or_false] at hi
    rcases hi with rfl | rfl | rfl
    · exact ⟨rfl, rfl, Or.inl rfl⟩
    · exact ⟨rfl, rfl, Or.inr (Or.inl rfl)⟩
    · exact ⟨rfl, rfl, Or.inr (Or.inr rfl)⟩
  · refine ⟨[meta_insert cfg (instr_create_save_to_tls cfg reg slot),
      meta_insert cfg (INSTR_CREATE_mov (opnd_create_reg reg)
        (opnd_create_reg cfg.dr_reg_stolen))], by simp, ?_⟩
    intro i hi
    simp only [List.mem_cons, List.mem_singleton, List.not_mem_nil, or_false] at hi
    rcases hi with rfl | rfl
    · exact ⟨rfl, rfl, Or.inl rfl⟩
    · exact ⟨rfl, rfl, Or.inr (Or.inl rfl)⟩

theorem restore_tls_base_to_stolen_reg_mem (cfg : config_t) (instr : instr_t)
    (reg slot : Nat) :
    ∀ i ∈ restore_tls_base_to_stolen_reg cfg instr reg slot,
      i.is_app = false ∧ i.predicate = DR_PRED_NONE ∧
        (i.opcode = OP_str ∨ i.opcode = OP_mov ∨ i.opcode = OP_ldr) := by
  intro i hi
  unfold restore_tls_base_to_stolen_reg at hi
  split_ifs at hi
  · simp only [List.singleton_append, List.mem_cons, List.mem_singleton, List.not_mem_nil,
      or_false] at hi
    rcases hi with rfl | rfl
    · exact ⟨rfl, rfl, Or.inl rfl⟩
    · exact ⟨rfl, rfl, Or.inr (Or.inl rfl)⟩
  · simp only [List.nil_append, List.mem_singleton] at hi
    subst hi
    exact ⟨rfl, rfl, Or.inr (Or.inl rfl)⟩

theorem ilist_at_with_instr (c : ilist_at) (x : instr_t) :
    ({ c with instr := x } : ilist_at) =
      { prev := ([] : List instr_t).reverse ++ c.prev, instr := x, mid := c.mid ++ [],
        next := c.next } := by
  simp

theorem ilist_at_self (c : ilist_at) :
    c = { prev := ([] : List instr_t).reverse ++ c.prev, instr := c.instr,
          mid := c.mid ++ [], next := c.next } := by
  simp

theorem mangle_stolen_reg_cases (cfg : config_t) (c r : ilist_at) (rm : Bool)
    (h : mangle_stolen_reg cfg c rm = some r)
    (hel : ∀ reg, spill_elided cfg c.prev reg = false) :
    ∃ pre post x,
      r = { prev := pre.reverse ++ c.prev, instr := x, mid := c.mid ++ post,
            next := c.next } ∧
      (∀ i ∈ pre ++ post, i.is_app = false ∧ i.predicate = DR_PRED_NONE ∧
        (i.opcode = OP_str ∨ i.opcode = OP_mov ∨ i.opcode = OP_ldr)) ∧
      (x = c.instr ∨
        (rm = false ∧ c.instr.opcode = OP_mov ∧ pre = [] ∧ post = [] ∧
          ((opnd_get_reg (instr_get_src c.instr 0) = cfg.dr_reg_stolen ∧
            x = instr_set_src (instr_set_opcode c.instr OP_ldr) 0
                (opnd_create_tls_slot cfg (cfg.os_tls_offset cfg.TLS_REG_STOLEN_SLOT))) ∨
           (instr_num_dsts c.instr = 1 ∧
            opnd_get_reg (instr_get_dst c.instr 0) = cfg.dr_reg_stolen ∧
            x = instr_set_dst (instr_set_opcode c.instr OP_str) 0
                (opnd_create_tls_slot cfg (cfg.os_tls_offset cfg.TLS_REG_STOLEN_SLOT)))))) := by
  have hsr := (pick_scratch_reg_no_dead cfg c.prev c.instr).1
  have hgen : ∀ tmp slot,
      ∃ pre post x,
        ({ c with prev := restore_app_value_to_stolen_reg cfg c.prev c.instr tmp slot,
                  mid := (c.mid ++ restore_tls_base_to_stolen_reg cfg c.instr tmp slot) ++
                    [meta_insert cfg (instr_create_restore_from_tls cfg tmp slot)] } :
          ilist_at) =
          { prev := pre.reverse ++ c.prev, instr := x, mid := c.mid ++ post,
            next := c.next } ∧
        (∀ i ∈ pre ++ post, i.is_app = false ∧ i.predicate = DR_PRED_NONE ∧
          (i.opcode = OP_str ∨ i.opcode = OP_mov ∨ i.opcode = OP_ldr)) ∧
        (x = c.instr ∨
          (rm = false ∧ c.instr.opcode = OP_mov ∧ pre = [] ∧ post = [] ∧
            ((opnd_get_reg (instr_get_src c.instr 0) = cfg.dr_reg_stolen ∧
              x = instr_set_src (instr_set_opcode c.instr OP_ldr) 0
                  (opnd_create_tls_slot cfg (cfg.os_tls_offset cfg.TLS_REG_STOLEN_SLOT))) ∨
             (instr_num_dsts c.instr = 1 ∧
              opnd_get_reg (instr_get_dst c.instr 0) = cfg.dr_reg_stolen ∧
              x = instr_set_dst (instr_set_opcode c.instr OP_str) 0
                  (opnd_create_tls_slot cfg
                    (cfg.os_tls_offset cfg.TLS_REG_STOLEN_SLOT)))))) := by
    intro tmp slot
    obtain ⟨pre, hpre, hmem⟩ :=
      restore_app_value_to_stolen_reg_shape cfg c.prev c.instr tmp slot (hel tmp)
    refine ⟨pre, restore_tls_base_to_stolen_reg cfg c.instr tmp slot ++
      [meta_insert cfg (instr_create_restore_from_tls cfg tmp slot)], c.instr, ?_, ?_,
      Or.inl rfl⟩
    · rw [hpre, List.append_assoc]
    · intro i hi
      simp only [List.mem_append, List.mem_singleton] at hi
      rcases hi with hi | hi | hi
      · exact hmem i hi
      · exact restore_tls_base_to_stolen_reg_mem cfg c.instr tmp slot i hi
      · subst hi
        exact ⟨rfl, rfl, Or.inr (Or.inr rfl)⟩
  unfold mangle_stolen_reg at h
  simp only [] at h
  generalize pick_scratch_reg cfg c.prev c.instr false = pk at h hsr
  obtain ⟨tmp, slot, should_restore⟩ := pk
  simp only [] at h hsr
  subst hsr
  simp only [if_true] at h
  split_ifs at h with h1 h2 h3 h4 h5 h6 h7 h8 h9 h10
  all_goals simp only [Option.some.injEq] at h
  all_goals subst h
  all_goals first
    | exact hgen tmp slot
    | exact ⟨[], [], c.instr, ilist_at_self c, by simp, Or.inl rfl⟩
    | exact ⟨[], [], _, ilist_at_with_instr c _, by simp,
        Or.inr ⟨by simpa using h6, h2.1, rfl, rfl, Or.inl ⟨h7, rfl⟩⟩⟩
    | exact ⟨[], [], _, ilist_at_with_instr c _, by simp,
        Or.inr ⟨by simpa using h6, h2.1, rfl, rfl,
          Or.inr ⟨h3.2, Classical.not_not.mp h8, rfl⟩⟩⟩

theorem keep_at_bound_inserted (pre : List instr_t) (b : instr_t) (ins : List instr_t)
    (instr : instr_t) (mid next : List instr_t) :
    keep_at_bound { prev := ins.reverse ++ b :: pre, instr := instr, mid := mid,
                    next := next } ins.length =
      some { prev := pre, instr := b, mid := ins ++ instr :: mid, next := next } := by
  unfold keep_at_bound
  have h1 : (ins.reverse ++ b :: pre).drop ins.length = b :: pre := by
    rw [← List.length_reverse ins]
    exact List.drop_left _ _
  have h2 : (ins.reverse ++ b :: pre).take ins.length = ins.reverse := by
    rw [← List.length_reverse ins]
    exact List.take_left _ _
  simp only [h1, h2, List.reverse_reverse]

theorem bound_finish_shape (cfg : config_t) (pre ins : List instr_t) (lab x : instr_t)
    (mid next : List instr_t) (rm in_it : Bool) (P : Prop) [Decidable P] (r : ilist_at)
    (h : (match
        (if instr_is_predicated x = true then
          match mangle_add_predicated_fall_through cfg
              { prev := ins.reverse ++ lab :: pre, instr := x, mid := mid, next := next }
              ins.length with
          | none => none
          | some c_1 => if P then some c_1 else none
        else some { prev := ins.reverse ++ lab :: pre, instr := x, mid := mid,
                    next := next }) with
      | none => none
      | some c_1 =>
        match (if rm = true then remove_at_bound c_1 ins.length
               else keep_at_bound c_1 ins.length) with
        | none => none
        | some c_2 =>
          some (if in_it = true then mangle_reinstate_it_blocks cfg c_2 0 else c_2)) =
      some r) :
    (instr_is_predicated x = true → P) ∧
    r = (if in_it = true then
          mangle_reinstate_it_blocks cfg
            { prev := pre, instr := lab,
              mid := if instr_is_predicated x = true then
                  ins.map (if instr_uses_reg x cfg.dr_reg_stolen = false then
                      mangle_add_predicated_fall_through_mark cfg x.predicate else id) ++
                    ((if rm = true then [] else
                      [(if instr_uses_reg x cfg.dr_reg_stolen = false then
                        mangle_add_predicated_fall_through_mark cfg x.predicate else id) x]) ++
                    (mid.map (if instr_uses_reg x cfg.dr_reg_stolen = false then
                      mangle_add_predicated_fall_through_mark cfg x.predicate else id) ++
                    (insert_mov_immed_ptrsz cfg
                      (to_int32 (PC_AS_JMP_TGT x.isa_mode (cfg.get_call_return_address x)))
                      (opnd_create_reg cfg.IBL_TARGET_REG)).map
                        (fun m => instr_set_predicate m (instr_invert_predicate x.predicate))))
                else ins ++ ((if rm = true then [] else [x]) ++ mid),
              next := next } 0
        else
          { prev := pre, instr := lab,
              mid := if instr_is_predicated x = true then
                  ins.map (if instr_uses_reg x cfg.dr_reg_stolen = false then
                      mangle_add_predicated_fall_through_mark cfg x.predicate else id) ++
                    ((if rm = true then [] else
                      [(if instr_uses_reg x cfg.dr_reg_stolen = false then
                        mangle_add_predicated_fall_through_mark cfg x.predicate else id) x]) ++
                    (mid.map (if instr_uses_reg x cfg.dr_reg_stolen = false then
                      mangle_add_predicated_fall_through_mark cfg x.predicate else id) ++
                    (insert_mov_immed_ptrsz cfg
                      (to_int32 (PC_AS_JMP_TGT x.isa_mode (cfg.get_call_return_address x)))
                      (opnd_create_reg cfg.IBL_TARGET_REG)).map
                        (fun m => instr_set_predicate m (instr_invert_predicate x.predicate))))
                else ins ++ ((if rm = true then [] else [x]) ++ mid),
              next := next }) := by
  by_cases hp : instr_is_predicated x = true
  · rw [if_pos hp, mangle_add_predicated_fall_through_shape cfg pre lab ins x mid next hp] at h
    simp only [] at h
    by_cases hP : P
    · rw [if_pos hP] at h
      simp only [] at h
      refine ⟨fun _ => hP, ?_⟩
      generalize (if instr_uses_reg x cfg.dr_reg_stolen = false then
        mangle_add_predicated_fall_through_mark cfg x.predicate else id) = g at h ⊢
      have e1 := remove_at_bound_inserted pre lab (ins.map g) (g x)
        (mid.map g ++ (insert_mov_immed_ptrsz cfg
          (to_int32 (PC_AS_JMP_TGT x.isa_mode (cfg.get_call_return_address x)))
          (opnd_create_reg cfg.IBL_TARGET_REG)).map
            (fun m => instr_set_predicate m (instr_invert_predicate x.predicate))) next
      have e2 := keep_at_bound_inserted pre lab (ins.map g) (g x)
        (mid.map g ++ (insert_mov_immed_ptrsz cfg
          (to_int32 (PC_AS_JMP_TGT x.isa_mode (cfg.get_call_return_address x)))
          (opnd_create_reg cfg.IBL_TARGET_REG)).map
            (fun m => instr_set_predicate m (instr_invert_predicate x.predicate))) next
      rw [List.length_map] at e1 e2
      cases rm
      · rw [if_neg (by decide), e2] at h
        simp only [Option.some.injEq] at h
        rw [← h]
        simp [hp]
      · rw [if_pos rfl, e1] at h
        simp only [Option.some.injEq] at h
        rw [← h]
        simp [hp]
    · rw [if_neg hP] at h
      cases h
  · rw [if_neg hp] at h
    simp only [] at h
    refine ⟨fun e => absurd e hp, ?_⟩
    cases rm
    · rw [if_neg (by decide), keep_at_bound_inserted] at h
      simp only [Option.some.injEq] at h
      rw [← h]
      simp [hp]
    · rw [if_pos rfl, remove_at_bound_inserted] at h
      simp only [Option.some.injEq] at h
      rw [← h]
      simp [hp]

theorem bound_finish_bound (cfg : config_t) (pre ins : List instr_t) (lab x : instr_t)
    (mid next : List instr_t) (rm in_it : Bool) (P : Prop) [Decidable P] (r : ilist_at)
    (hlop : lab.opcode ≠ OP_it) (hlx : it_instr_predicated lab = false)
    (h : (match
        (if instr_is_predicated x = true then
          match mangle_add_predicated_fall_through cfg
              { prev := ins.reverse ++ lab :: pre, instr := x, mid := mid, next := next }
              ins.length with
          | none => none
          | some c_1 => if P then some c_1 else none
        else some { prev := ins.reverse ++ lab :: pre, instr := x, mid := mid,
                    next := next }) with
      | none => none
      | some c_1 =>
        match (if rm = true then remove_at_bound c_1 ins.length
               else keep_at_bound c_1 ins.length) with
        | none => none
        | some c_2 =>
          some (if in_it = true then mangle_reinstate_it_blocks cfg c_2 0 else c_2)) =
      some r) :
    r.prev = pre ∧ r.instr = lab ∧ r.next = next := by
  have hs := (bound_finish_shape cfg pre ins lab x mid next rm in_it P r h).2
  generalize (if instr_is_predicated x = true then _ else _ : List instr_t) = M at hs
  cases in_it
  · rw [if_neg (by decide)] at hs
    rw [hs]
    exact ⟨rfl, rfl, rfl⟩
  · rw [if_pos rfl] at hs
    rw [hs]
    have := mangle_reinstate_it_blocks_exec cfg
      { prev := pre, instr := lab, mid := M, next := next } (fun _ s => s)
      ⟨fun _ => 0, fun _ => 0, fun _ => false⟩ hlop hlx
    exact ⟨this.1, this.2.1, this.2.2.1⟩
theorem mangle_indirect_jump_pc_shape (cfg : config_t) (c c2 : ilist_at) (rm : Bool)
    (h : mangle_indirect_jump_pc cfg c = some (c2, rm))
    (hel : ∀ reg, spill_elided cfg c.prev reg = false) :
    instr_writes_to_reg c.instr cfg.IBL_TARGET_REG DR_QUERY_INCLUDE_ALL = false ∧
    ∃ i pre post x,
      find_pc_dst c.instr.dsts 0 = some i ∧
      rm = ((decide (c.instr.isa_mode = DR_ISA_ARM_THUMB) &&
              (decide ((instr_set_dst c.instr i (opnd_create_reg cfg.IBL_TARGET_REG)).opcode =
                  OP_mov) ||
               decide ((instr_set_dst c.instr i (opnd_create_reg cfg.IBL_TARGET_REG)).opcode =
                  OP_add))) &&
            (decide ((instr_set_dst c.instr i (opnd_create_reg cfg.IBL_TARGET_REG)).opcode =
                OP_mov) &&
             !instr_is_predicated
                (instr_set_dst c.instr i (opnd_create_reg cfg.IBL_TARGET_REG)))) ∧
      c2 = { prev := pre.reverse ++ c.prev, instr := x,
             mid := ((if (decide (c.instr.isa_mode = DR_ISA_ARM_THUMB) &&
                  (decide ((instr_set_dst c.instr i
                      (opnd_create_reg cfg.IBL_TARGET_REG)).opcode = OP_mov) ||
                   decide ((instr_set_dst c.instr i
                      (opnd_create_reg cfg.IBL_TARGET_REG)).opcode = OP_add))) = true then
                [meta_insert cfg (INSTR_CREATE_orr (opnd_create_reg cfg.IBL_TARGET_REG)
                  (if rm = true then
                    instr_get_src
                      (instr_set_dst c.instr i (opnd_create_reg cfg.IBL_TARGET_REG)) 0
                   else opnd_create_reg cfg.IBL_TARGET_REG)
                  (OPND_CREATE_INT 1))]
               else []) ++ post) ++ c.mid,
             next := c.next } ∧
      (∀ j ∈ pre ++ post, j.is_app = false ∧ j.predicate = DR_PRED_NONE ∧
        (j.opcode = OP_str ∨ j.opcode = OP_mov ∨ j.opcode = OP_ldr)) ∧
      (x = instr_set_dst c.instr i (opnd_create_reg cfg.IBL_TARGET_REG) ∨
        (rm = false ∧
          (instr_set_dst c.instr i (opnd_create_reg cfg.IBL_TARGET_REG)).opcode = OP_mov ∧
          pre = [] ∧ post = [] ∧
          ((opnd_get_reg (instr_get_src
                (instr_set_dst c.instr i (opnd_create_reg cfg.IBL_TARGET_REG)) 0) =
              cfg.dr_reg_stolen ∧
            x = instr_set_src (instr_set_opcode
                  (instr_set_dst c.instr i (opnd_create_reg cfg.IBL_TARGET_REG)) OP_ldr) 0
                (opnd_create_tls_slot cfg (cfg.os_tls_offset cfg.TLS_REG_STOLEN_SLOT))) ∨
           (instr_num_dsts (instr_set_dst c.instr i (opnd_create_reg cfg.IBL_TARGET_REG)) = 1 ∧
            opnd_get_reg (instr_get_dst
                (instr_set_dst c.instr i (opnd_create_reg cfg.IBL_TARGET_REG)) 0) =
              cfg.dr_reg_stolen ∧
            x = instr_set_dst (instr_set_opcode
                  (instr_set_dst c.instr i (opnd_create_reg cfg.IBL_TARGET_REG)) OP_str) 0
                (opnd_create_tls_slot cfg (cfg.os_tls_offset cfg.TLS_REG_STOLEN_SLOT)))))) ∧
      (instr_uses_reg (instr_set_dst c.instr i (opnd_create_reg cfg.IBL_TARGET_REG))
          cfg.dr_reg_stolen = false →
        pre = [] ∧ post = [] ∧
          x = instr_set_dst c.instr i (opnd_create_reg cfg.IBL_TARGET_REG)) := by
  unfold mangle_indirect_jump_pc at h
  simp only [] at h
  by_cases hw : instr_writes_to_reg c.instr cfg.IBL_TARGET_REG DR_QUERY_INCLUDE_ALL = true
  · rw [if_pos hw] at h
    cases h
  rw [if_neg hw] at h
  refine ⟨by simpa using hw, ?_⟩
  cases hf : find_pc_dst c.instr.dsts 0 with
  | none =>
    rw [hf] at h
    cases h
  | some i =>
    rw [hf] at h
    simp only [] at h
    by_cases hu : instr_uses_reg (instr_set_dst c.instr i (opnd_create_reg cfg.IBL_TARGET_REG))
        cfg.dr_reg_stolen = true
    · rw [if_pos hu] at h
      cases hm : mangle_stolen_reg cfg
          { prev := c.prev,
            instr := instr_set_dst c.instr i (opnd_create_reg cfg.IBL_TARGET_REG),
            mid := _, next := c.mid ++ c.next } _ with
      | none =>
        rw [hm] at h
        cases h
      | some r =>
        rw [hm] at h
        simp only [Option.some.injEq, Prod.mk.injEq] at h
        obtain ⟨pre, post, x, hr, hmem, hx⟩ := mangle_stolen_reg_cases cfg _ r _ hm hel
        subst hr
        obtain ⟨h1, h2⟩ := h
        refine ⟨i, pre, post, x, rfl, h2.symm, ?_, hmem, ?_, ?_⟩
        · rw [← h1]
          simp only [← h2]
        · rw [← h2]
          exact hx
        · intro hn
          rw [hn] at hu
          cases hu
    · rw [if_neg hu] at h
      simp only [Option.some.injEq, Prod.mk.injEq] at h
      obtain ⟨h1, h2⟩ := h
      refine ⟨i, [], [], _, rfl, h2.symm, ?_, by simp, Or.inl rfl, fun _ => ⟨rfl, rfl, rfl⟩⟩
      rw [← h1]
      simp only [← h2, List.reverse_nil, List.nil_append, List.append_nil]

theorem mangle_indirect_jump_bound (cfg : config_t) (c r : ilist_at) (id : Nat)
    (h : mangle_indirect_jump cfg c id = some r) :
    ∃ c1, (if app_instr_is_in_it_block c.instr = true then mangle_remove_from_it_block cfg c
           else some c) = some c1 ∧
      r.instr = meta_insert cfg (INSTR_CREATE_label id) ∧
      r.prev = meta_insert cfg
        (instr_create_save_to_tls cfg cfg.IBL_TARGET_REG cfg.IBL_TARGET_SLOT) :: c1.prev ∧
      r.next = c1.next := by
  unfold mangle_indirect_jump at h
  simp only [] at h
  cases hc : (if app_instr_is_in_it_block c.instr = true then mangle_remove_from_it_block cfg c
            else some c) with
  | none =>
    rw [hc] at h
    cases h
  | some c1 =>
    rw [hc] at h
    simp only [] at h
    refine ⟨c1, rfl, ?_⟩
    generalize hr : (if instr_writes_gpr_list c.instr = true then _ else _ :
      Option (ilist_at × Bool)) = r1 at h
    cases r1 with
    | none => cases h
    | some p =>
      obtain ⟨c2, rm⟩ := p
      simp only [] at h
      have hel : ∀ reg, spill_elided cfg (meta_insert cfg (INSTR_CREATE_label id) ::
          meta_insert cfg (instr_create_save_to_tls cfg cfg.IBL_TARGET_REG
            cfg.IBL_TARGET_SLOT) :: c1.prev) reg = false :=
        fun reg => spill_elided_after_bound cfg id _ _ reg c1.prev
      have hprev : ∃ ins : List instr_t, c2.prev = ins.reverse ++ meta_insert cfg (INSTR_CREATE_label id) ::
          meta_insert cfg (instr_create_save_to_tls cfg cfg.IBL_TARGET_REG
            cfg.IBL_TARGET_SLOT) :: c1.prev ∧ c2.next = c1.next := by
        by_cases h1 : instr_writes_gpr_list c.instr = true
        · rw [if_pos h1] at hr
          split_ifs at hr
          simp only [Option.some.injEq, Prod.mk.injEq] at hr
          rw [← hr.1]
          exact ⟨[], rfl, rfl⟩
        rw [if_neg h1] at hr
        by_cases h2 : c.instr.opcode = OP_bx ∨ c.instr.opcode = OP_bxj
        · rw [if_pos h2] at hr
          split_ifs at hr
          all_goals simp only [Option.some.injEq, Prod.mk.injEq] at hr
          all_goals rw [← hr.1]
          · exact ⟨[_], rfl, rfl⟩
          · exact ⟨[_], rfl, rfl⟩
        rw [if_neg h2] at hr
        by_cases h3 : c.instr.opcode = OP_tbb ∨ c.instr.opcode = OP_tbh
        · rw [if_pos h3] at hr
          by_cases hu : instr_uses_reg c.instr cfg.dr_reg_stolen = true
          · rw [if_pos hu] at hr
            cases hm : mangle_stolen_reg cfg
                { prev := meta_insert cfg (INSTR_CREATE_label id) ::
                    meta_insert cfg (instr_create_save_to_tls cfg cfg.IBL_TARGET_REG
                      cfg.IBL_TARGET_SLOT) :: c1.prev,
                  instr := c1.instr, mid := [], next := c1.mid ++ c1.next } false with
            | none =>
              rw [hm] at hr
              cases hr
            | some r2 =>
              rw [hm] at hr
              simp only [Option.some.injEq, Prod.mk.injEq] at hr
              obtain ⟨pre, post, x, hr2, -, -⟩ := mangle_stolen_reg_cases cfg _ r2 _ hm hel
              subst hr2
              rw [← hr.1]
              refine ⟨pre ++ mangle_indirect_jump_tb cfg c.instr, ?_, rfl⟩
              simp only [List.reverse_append, List.append_assoc]
          · rw [if_neg hu] at hr
            simp only [Option.some.injEq, Prod.mk.injEq] at hr
            rw [← hr.1]
            exact ⟨mangle_indirect_jump_tb cfg c.instr, rfl, rfl⟩
        rw [if_neg h3] at hr
        split_ifs at hr
        obtain ⟨-, i, pre, post, x, -, -, hc2, -⟩ := mangle_indirect_jump_pc_shape cfg _ c2 rm hr hel
        rw [hc2]
        exact ⟨pre, rfl, rfl⟩
      obtain ⟨ins, hp, hn⟩ := hprev
      have hk : c2.prev.length - (c1.prev.length + 2) = ins.length := by
        rw [hp]
        simp only [List.length_append, List.length_reverse, List.length_cons]
        omega
      rw [hk] at h
      obtain ⟨p2, x2, m2, n2⟩ := c2
      simp only [] at hp hn h
      subst hp
      subst hn
      have hb := bound_finish_bound cfg
        (meta_insert cfg (instr_create_save_to_tls cfg cfg.IBL_TARGET_REG
          cfg.IBL_TARGET_SLOT) :: c1.prev) ins (meta_insert cfg (INSTR_CREATE_label id))
        x2 m2 c1.next rm _ _ r (by intro e; cases e) rfl h
      exact ⟨hb.2.1, hb.1, hb.2.2⟩
theorem mangle_indirect_call_bound (cfg : config_t) (c r : ilist_at) (id : Nat)
    (h : mangle_indirect_call cfg c id = some r) :
    ∃ c1, (if app_instr_is_in_it_block c.instr = true then mangle_remove_from_it_block cfg c
           else some c) = some c1 ∧
      r.instr = meta_insert cfg (INSTR_CREATE_label id) ∧
      r.prev = meta_insert cfg
        (instr_create_save_to_tls cfg cfg.IBL_TARGET_REG cfg.IBL_TARGET_SLOT) :: c1.prev ∧
      r.next = c1.next := by
  unfold mangle_indirect_call at h
  simp only [] at h
  cases hc : (if app_instr_is_in_it_block c.instr = true then mangle_remove_from_it_block cfg c
            else some c) with
  | none =>
    rw [hc] at h
    cases h
  | some c1 =>
    rw [hc] at h
    simp only [] at h
    refine ⟨c1, rfl, ?_⟩
    generalize (if opnd_same (instr_get_target c.instr) (opnd_create_reg cfg.IBL_TARGET_REG) =
      false then _ else _ : List instr_t) = tgt at h
    generalize insert_mov_immed_ptrsz cfg _ (opnd_create_reg DR_REG_LR) = movs at h
    have e1 : movs.reverse ++ tgt.reverse ++ meta_insert cfg (INSTR_CREATE_label id) ::
        meta_insert cfg (instr_create_save_to_tls cfg cfg.IBL_TARGET_REG
          cfg.IBL_TARGET_SLOT) :: c1.prev =
        (tgt ++ movs).reverse ++ meta_insert cfg (INSTR_CREATE_label id) ::
        meta_insert cfg (instr_create_save_to_tls cfg cfg.IBL_TARGET_REG
          cfg.IBL_TARGET_SLOT) :: c1.prev := by
      simp only [List.reverse_append]
    have e2 : tgt.length + movs.length = (tgt ++ movs).length := by
      simp only [List.length_append]
    rw [e1, e2] at h
    have hb := bound_finish_bound cfg
      (meta_insert cfg (instr_create_save_to_tls cfg cfg.IBL_TARGET_REG
        cfg.IBL_TARGET_SLOT) :: c1.prev) (tgt ++ movs)
      (meta_insert cfg (INSTR_CREATE_label id))
      c.instr c1.mid c1.next true (app_instr_is_in_it_block c.instr)
      (app_instr_is_in_it_block c.instr = true ∨ c.instr.isa_mode ≠ DR_ISA_ARM_THUMB) r
      (by intro e; cases e) rfl
    have hi : c1.instr = c.instr := by
      by_cases hit : app_instr_is_in_it_block c.instr = true
      · rw [if_pos hit] at hc
        exact (mangle_remove_from_it_block_instr cfg c c1 hc).1
      · rw [if_neg hit] at hc
        simp only [Option.some.injEq] at hc
        rw [hc]
    rw [hi] at h
    simp only [if_true] at hb
    have hb := hb h
    exact ⟨hb.2.1, hb.1, hb.2.2⟩
/-- C33 (amended): in `mangle_indirect_call` and `mangle_indirect_jump` the bounding start
label is placed after the spill of IBL_TARGET_REG: whenever either handler returns, the cursor
of the result is the label and the instruction directly in front of it is the unpredicated
spill, so the spill lies outside the range (label up to the next instruction) over which
predication and IT-block reinstatement are applied.  In `mangle_direct_call` for a `blx` the
label is inserted first instead: the result has the label directly behind the old prefix of
the list and the spill of IBL_TARGET_REG inside the range, behind the label. -/
theorem bound_start_after_ibl_spill (cfg : config_t) (c : ilist_at) (bound_id : Nat) :
    (∀ r, mangle_indirect_call cfg c bound_id = some r →
      ∃ c1, (if app_instr_is_in_it_block c.instr = true then mangle_remove_from_it_block cfg c
             else some c) = some c1 ∧
        r.instr = meta_insert cfg (INSTR_CREATE_label bound_id) ∧
        r.prev = meta_insert cfg
          (instr_create_save_to_tls cfg cfg.IBL_TARGET_REG cfg.IBL_TARGET_SLOT) :: c1.prev ∧
        r.next = c1.next ∧
        (meta_insert cfg (instr_create_save_to_tls cfg cfg.IBL_TARGET_REG
          cfg.IBL_TARGET_SLOT)).predicate = DR_PRED_NONE) ∧
    (∀ r, mangle_indirect_jump cfg c bound_id = some r →
      ∃ c1, (if app_instr_is_in_it_block c.instr = true then mangle_remove_from_it_block cfg c
             else some c) = some c1 ∧
        r.instr = meta_insert cfg (INSTR_CREATE_label bound_id) ∧
        r.prev = meta_insert cfg
          (instr_create_save_to_tls cfg cfg.IBL_TARGET_REG cfg.IBL_TARGET_SLOT) :: c1.prev ∧
        r.next = c1.next ∧
        (meta_insert cfg (instr_create_save_to_tls cfg cfg.IBL_TARGET_REG
          cfg.IBL_TARGET_SLOT)).predicate = DR_PRED_NONE) ∧
    (∀ r T, c.instr.opcode = OP_blx → instr_get_target c.instr = opnd_create_pc T →
      c.mid = [] → mangle_direct_call cfg c bound_id = some r →
      ∃ c1, (if app_instr_is_in_it_block c.instr = true then mangle_remove_from_it_block cfg c
             else some c) = some c1 ∧
        r.instr = meta_insert cfg (INSTR_CREATE_label bound_id) ∧
        r.prev = c1.prev ∧
        r.next = c1.next ∧
        meta_insert cfg (instr_create_save_to_tls cfg cfg.IBL_TARGET_REG
          cfg.IBL_TARGET_SLOT) ∈ r.mid) := by
  refine ⟨?_, ?_, ?_⟩
  · intro r h
    obtain ⟨c1, h1, h2, h3, h4⟩ := mangle_indirect_call_bound cfg c r bound_id h
    exact ⟨c1, h1, h2, h3, h4, rfl⟩
  · intro r h
    obtain ⟨c1, h1, h2, h3, h4⟩ := mangle_indirect_jump_bound cfg c r bound_id h
    exact ⟨c1, h1, h2, h3, h4, rfl⟩
  · intro r T hop htgt hmid h
    cases hc : (if app_instr_is_in_it_block c.instr = true then
        mangle_remove_from_it_block cfg c else some c) with
    | none =>
      unfold mangle_direct_call at h
      simp only [] at h
      rw [hc] at h
      cases h
    | some c1 =>
      refine ⟨c1, rfl, ?_⟩
      rw [mangle_direct_call_blx_shape cfg c c1 bound_id T hop htgt hmid hc] at h
      simp only [Option.some.injEq] at h
      have hmem : meta_insert cfg (instr_create_save_to_tls cfg cfg.IBL_TARGET_REG
          cfg.IBL_TARGET_SLOT) ∈ blx_sequence_spec cfg c.instr T := by
        unfold blx_sequence_spec
        simp only [List.mem_append, List.mem_cons, true_or, or_true]
      by_cases hit : app_instr_is_in_it_block c.instr = true
      · rw [if_pos hit] at h
        rw [← h]
        have hk := mangle_reinstate_it_blocks_keeps cfg
          { prev := c1.prev, instr := meta_insert cfg (INSTR_CREATE_label bound_id),
            mid := blx_sequence_spec cfg c.instr T, next := c1.next } 0 (Nat.zero_le _)
        have he := mangle_reinstate_it_blocks_exec cfg
          { prev := c1.prev, instr := meta_insert cfg (INSTR_CREATE_label bound_id),
            mid := blx_sequence_spec cfg c.instr T, next := c1.next } (fun _ s => s)
          ⟨fun _ => 0, fun _ => 0, fun _ => false⟩ (by intro e; cases e) rfl
        exact ⟨he.2.1, he.1, he.2.2.1, hk.2.2.1.subset hmem⟩
      · rw [if_neg hit] at h
        rw [← h]
        exact ⟨rfl, rfl, rfl, hmem⟩

theorem bound_start_after_ibl_spill_witness :
    (∃ r, mangle_indirect_call ex_cfg ex_blx_stolen_at 9 = some r ∧
      r.instr = meta_insert ex_cfg (INSTR_CREATE_label 9) ∧
      r.prev = meta_insert ex_cfg (instr_create_save_to_tls ex_cfg ex_cfg.IBL_TARGET_REG
        ex_cfg.IBL_TARGET_SLOT) :: ex_blx_stolen_at.prev) ∧
    (∃ r, mangle_indirect_jump ex_cfg (ex_at (ex_mov_pc 5 DR_PRED_NONE)) 9 = some r ∧
      r.instr = meta_insert ex_cfg (INSTR_CREATE_label 9) ∧
      r.prev = meta_insert ex_cfg (instr_create_save_to_tls ex_cfg ex_cfg.IBL_TARGET_REG
        ex_cfg.IBL_TARGET_SLOT) :: (ex_at (ex_mov_pc 5 DR_PRED_NONE)).prev) ∧
    (∃ r, mangle_direct_call ex_cfg ex_blx_a32_at 9 = some r ∧
      r.instr = meta_insert ex_cfg (INSTR_CREATE_label 9) ∧
      r.prev = ex_blx_a32_at.prev ∧
      meta_insert ex_cfg (instr_create_save_to_tls ex_cfg ex_cfg.IBL_TARGET_REG
        ex_cfg.IBL_TARGET_SLOT) ∈ r.mid) := by
  refine ⟨?_, ?_, ?_⟩
  · obtain ⟨r, hr⟩ := Option.isSome_iff_exists.mp
      (show (mangle_indirect_call ex_cfg ex_blx_stolen_at 9).isSome = true by decide)
    obtain ⟨c1, h1, h2, h3, -⟩ :=
      (bound_start_after_ibl_spill ex_cfg ex_blx_stolen_at 9).1 r hr
    have e : c1 = ex_blx_stolen_at := by
      have h1 : some ex_blx_stolen_at = some c1 := h1
      exact (Option.some.inj h1).symm
    rw [e] at h3
    exact ⟨r, hr, h2, h3⟩
  · obtain ⟨r, hr⟩ := Option.isSome_iff_exists.mp
      (show (mangle_indirect_jump ex_cfg (ex_at (ex_mov_pc 5 DR_PRED_NONE)) 9).isSome = true
        by decide)
    obtain ⟨c1, h1, h2, h3, -⟩ :=
      (bound_start_after_ibl_spill ex_cfg (ex_at (ex_mov_pc 5 DR_PRED_NONE)) 9).2.1 r hr
    have e : c1 = ex_at (ex_mov_pc 5 DR_PRED_NONE) := by
      have h1 : some (ex_at (ex_mov_pc 5 DR_PRED_NONE)) = some c1 := h1
      exact (Option.some.inj h1).symm
    rw [e] at h3
    exact ⟨r, hr, h2, h3⟩
  · obtain ⟨r, hr⟩ := Option.isSome_iff_exists.mp
      (show (mangle_direct_call ex_cfg ex_blx_a32_at 9).isSome = true by decide)
    obtain ⟨c1, h1, h2, h3, -, h5⟩ :=
      (bound_start_after_ibl_spill ex_cfg ex_blx_a32_at 9).2.2 r 8192 (by decide) (by decide)
        (by decide) hr
    have e : c1 = ex_blx_a32_at := by
      have h1 : some ex_blx_a32_at = some c1 := h1
      exact (Option.some.inj h1).symm
    rw [e] at h3
    exact ⟨r, hr, h2, h3, h5⟩

/-- C33 (counterexample): for the A32 call `blx 8192` handled by `mangle_direct_call`, the
bounding start label is the first inserted instruction and the spill of IBL_TARGET_REG comes
after it, inside the range that starts at the label: the spill is the second instruction
behind the label, after the instruction that loads the return address into LR, and it is not
in front of the label. -/
theorem mangle_direct_call_blx_spill_inside_range :
    ∃ r, mangle_direct_call ex_cfg ex_blx_a32_at 9 = some r ∧
      r.instr = meta_insert ex_cfg (INSTR_CREATE_label 9) ∧
      r.prev = ex_blx_a32_at.prev ∧
      r.mid.get? 1 = some (meta_insert ex_cfg (instr_create_save_to_tls ex_cfg
        ex_cfg.IBL_TARGET_REG ex_cfg.IBL_TARGET_SLOT)) ∧
      meta_insert ex_cfg (instr_create_save_to_tls ex_cfg ex_cfg.IBL_TARGET_REG
        ex_cfg.IBL_TARGET_SLOT) ∉ r.prev := by
  refine ⟨_, rfl, ?_⟩
  decide

theorem mangle_indirect_jump_tb_shape (cfg : config_t) (c r : ilist_at) (id : Nat)
    (hop : c.instr.opcode = OP_tbb ∨ c.instr.opcode = OP_tbh)
    (hpred : instr_is_predicated c.instr = false)
    (h : mangle_indirect_jump cfg c id = some r) :
    ∃ pre post : List instr_t,
      r = { prev := meta_insert cfg (instr_create_save_to_tls cfg cfg.IBL_TARGET_REG
                cfg.IBL_TARGET_SLOT) :: c.prev,
            instr := meta_insert cfg (INSTR_CREATE_label id),
            mid := pre ++ mangle_indirect_jump_tb cfg c.instr ++ (post ++ c.mid),
            next := c.next } ∧
      (∀ j ∈ pre ++ post, j.is_app = false ∧ j.predicate = DR_PRED_NONE ∧
        (j.opcode = OP_str ∨ j.opcode = OP_mov ∨ j.opcode = OP_ldr)) ∧
      (instr_uses_reg c.instr cfg.dr_reg_stolen = false → pre = [] ∧ post = []) := by
  have hin : app_instr_is_in_it_block c.instr = false := by
    simp [app_instr_is_in_it_block, hpred]
  have hgl : ¬ instr_writes_gpr_list c.instr = true := by
    rcases hop with h1 | h1 <;> simp [instr_writes_gpr_list, h1]
  have hbx : ¬ (c.instr.opcode = OP_bx ∨ c.instr.opcode = OP_bxj) := by
    rcases hop with h1 | h1 <;> rw [h1] <;> decide
  have hmov : c.instr.opcode ≠ OP_mov := by
    rcases hop with h1 | h1 <;> rw [h1] <;> decide
  unfold mangle_indirect_jump at h
  simp only [] at h
  rw [hin] at h
  simp only [Bool.false_eq_true, if_false] at h
  rw [if_neg hgl, if_neg hbx, if_pos hop] at h
  have hel : ∀ reg, spill_elided cfg (meta_insert cfg (INSTR_CREATE_label id) ::
      meta_insert cfg (instr_create_save_to_tls cfg cfg.IBL_TARGET_REG
        cfg.IBL_TARGET_SLOT) :: c.prev) reg = false :=
    fun reg => spill_elided_after_bound cfg id _ _ reg c.prev
  generalize ho : (if instr_uses_reg c.instr cfg.dr_reg_stolen = true then _ else _ :
    Option ilist_at) = o1 at h
  have hc1 : o1 = none ∨ ∃ pre post : List instr_t,
      o1 = some { prev := (pre.reverse ++ meta_insert cfg (INSTR_CREATE_label id) ::
                            meta_insert cfg (instr_create_save_to_tls cfg cfg.IBL_TARGET_REG
                              cfg.IBL_TARGET_SLOT) :: c.prev),
                  instr := c.instr,
                  mid := post ++ c.mid,
                  next := c.next } ∧
       (∀ j ∈ pre ++ post, j.is_app = false ∧ j.predicate = DR_PRED_NONE ∧
          (j.opcode = OP_str ∨ j.opcode = OP_mov ∨ j.opcode = OP_ldr)) ∧
       (instr_uses_reg c.instr cfg.dr_reg_stolen = false → pre = [] ∧ post = []) := by
    by_cases hu : instr_uses_reg c.instr cfg.dr_reg_stolen = true
    · rw [if_pos hu] at ho
      cases hm : mangle_stolen_reg cfg
          { prev := meta_insert cfg (INSTR_CREATE_label id) ::
              meta_insert cfg (instr_create_save_to_tls cfg cfg.IBL_TARGET_REG
                cfg.IBL_TARGET_SLOT) :: c.prev,
            instr := c.instr, mid := [], next := c.mid ++ c.next } false with
      | none =>
        rw [hm] at ho
        exact Or.inl ho.symm
      | some r2 =>
        rw [hm] at ho
        obtain ⟨pre, post, x, hr2, hmem, hx⟩ := mangle_stolen_reg_cases cfg _ r2 _ hm hel
        subst hr2
        have hxe : x = c.instr := by
          rcases hx with hx | ⟨-, hx, -⟩
          · exact hx
          · exact absurd hx hmov
        subst hxe
        refine Or.inr ⟨pre, post, ?_, hmem, ?_⟩
        · rw [← ho]
          simp
        · intro hn
          rw [hn] at hu
          cases hu
    · rw [if_neg hu] at ho
      refine Or.inr ⟨[], [], ?_, by simp, fun _ => ⟨rfl, rfl⟩⟩
      rw [← ho]
      simp
  rcases hc1 with hc1 | ⟨pre, post, hc1, hmem, hno⟩
  · rw [hc1] at h
    cases h
  rw [hc1] at h
  simp only [] at h
  have e1 : (mangle_indirect_jump_tb cfg c.instr).reverse ++
      (pre.reverse ++ meta_insert cfg (INSTR_CREATE_label id) ::
        meta_insert cfg (instr_create_save_to_tls cfg cfg.IBL_TARGET_REG
          cfg.IBL_TARGET_SLOT) :: c.prev) =
      (pre ++ mangle_indirect_jump_tb cfg c.instr).reverse ++
        meta_insert cfg (INSTR_CREATE_label id) ::
        meta_insert cfg (instr_create_save_to_tls cfg cfg.IBL_TARGET_REG
          cfg.IBL_TARGET_SLOT) :: c.prev := by
    simp only [List.reverse_append, List.append_assoc]
  rw [e1] at h
  have hk : ((pre ++ mangle_indirect_jump_tb cfg c.instr).reverse ++
        meta_insert cfg (INSTR_CREATE_label id) ::
        meta_insert cfg (instr_create_save_to_tls cfg cfg.IBL_TARGET_REG
          cfg.IBL_TARGET_SLOT) :: c.prev).length - (c.prev.length + 2) =
      (pre ++ mangle_indirect_jump_tb cfg c.instr).length := by
    simp only [List.length_append, List.length_reverse, List.length_cons]
    omega
  rw [hk] at h
  have hb := (bound_finish_shape cfg
    (meta_insert cfg (instr_create_save_to_tls cfg cfg.IBL_TARGET_REG
      cfg.IBL_TARGET_SLOT) :: c.prev) (pre ++ mangle_indirect_jump_tb cfg c.instr)
    (meta_insert cfg (INSTR_CREATE_label id)) c.instr (post ++ c.mid) c.next true false
    (False ∨ c.instr.isa_mode ≠ DR_ISA_ARM_THUMB) r h).2
  rw [hb]
  refine ⟨pre, post, ?_, hmem, hno⟩
  simp [hpred]

theorem mangle_indirect_jump_tb_returns (cfg : config_t) (c : ilist_at) (id : Nat)
    (hop : c.instr.opcode = OP_tbb ∨ c.instr.opcode = OP_tbh)
    (hpred : instr_is_predicated c.instr = false)
    (hst : instr_uses_reg c.instr cfg.dr_reg_stolen = false) :
    ∃ r, mangle_indirect_jump cfg c id = some r := by
  have hin : app_instr_is_in_it_block c.instr = false := by
    simp [app_instr_is_in_it_block, hpred]
  have hgl : ¬ instr_writes_gpr_list c.instr = true := by
    rcases hop with h1 | h1 <;> simp [instr_writes_gpr_list, h1]
  have hbx : ¬ (c.instr.opcode = OP_bx ∨ c.instr.opcode = OP_bxj) := by
    rcases hop with h1 | h1 <;> rw [h1] <;> decide
  have hk : ((mangle_indirect_jump_tb cfg c.instr).reverse ++
        meta_insert cfg (INSTR_CREATE_label id) ::
        meta_insert cfg (instr_create_save_to_tls cfg cfg.IBL_TARGET_REG
          cfg.IBL_TARGET_SLOT) :: c.prev).length - (c.prev.length + 2) =
      (mangle_indirect_jump_tb cfg c.instr).length := by
    simp only [List.length_append, List.length_reverse, List.length_cons]
    omega
  unfold mangle_indirect_jump
  simp only []
  rw [hin]
  simp only [Bool.false_eq_true, if_false]
  rw [if_neg hgl, if_neg hbx, if_pos hop, hst]
  simp only [Bool.false_eq_true, if_false]
  rw [hk, hpred]
  simp only [Bool.false_eq_true, if_false, if_true]
  rw [remove_at_bound_inserted]
  exact ⟨_, rfl⟩
/-- C17: for every unpredicated `tbb`/`tbh`, every decode-time PC value `cur_pc`
(even or not) and every table entry `v` (below 2^8 for `tbb`, below 2^16 for
`tbh`): whenever `mangle_indirect_jump` returns, the range behind the bounding
label is the stolen-register prologue (empty when the instruction does not use
the stolen register), then the `ldrb`/`ldrh` into `IBL_TARGET_REG` followed by
`lsl #1` and a `movt` of the high half of `cur_pc` and two adds (`tbb`) or four
adds (`tbh`), then the stolen-register epilogue and what followed; without the
stolen register the function does return.  Executed with the table entry `v`
in `IBL_TARGET_REG`, the instructions emitted after the load leave
`IBL_TARGET_REG` holding `(cur_pc + 2*v) | 1` modulo 2^32, and the immediate of
every add is, as a 32-bit pattern, one byte shifted into one of the four byte
lanes. -/
theorem mangle_indirect_jump_tb_target (cfg : config_t) (c : ilist_at) (bound_id : Nat)
    (app : instr_t → mstate → mstate) (s : mstate) (v : Int)
    (hop : c.instr.opcode = OP_tbb ∨ c.instr.opcode = OP_tbh)
    (hpred : instr_is_predicated c.instr = false)
    (hv0 : 0 ≤ v) (hvb : c.instr.opcode = OP_tbb → v < 256)
    (hvh : c.instr.opcode = OP_tbh → v < 65536)
    (hs : s.regs cfg.IBL_TARGET_REG = v) :
    (∀ r, mangle_indirect_jump cfg c bound_id = some r →
      ∃ pre post : List instr_t,
        r.instr = meta_insert cfg (INSTR_CREATE_label bound_id) ∧
        r.mid = pre ++ mangle_indirect_jump_tb cfg c.instr ++ (post ++ c.mid) ∧
        r.next = c.next ∧
        (∀ j ∈ pre ++ post, j.is_app = false ∧ j.predicate = DR_PRED_NONE ∧
          (j.opcode = OP_str ∨ j.opcode = OP_mov ∨ j.opcode = OP_ldr)) ∧
        (instr_uses_reg c.instr cfg.dr_reg_stolen = false → pre = [] ∧ post = [])) ∧
    (instr_uses_reg c.instr cfg.dr_reg_stolen = false →
      ∃ r, mangle_indirect_jump cfg c bound_id = some r ∧
        r.mid = mangle_indirect_jump_tb cfg c.instr ++ c.mid) ∧
    (mangle_indirect_jump_tb cfg c.instr).map (fun i => i.opcode) =
        (if c.instr.opcode = OP_tbb then [OP_ldrb, OP_lsl, OP_movt, OP_add, OP_add]
         else [OP_ldrh, OP_lsl, OP_add, OP_add, OP_add, OP_add]) ∧
    (∀ i ∈ mangle_indirect_jump_tb cfg c.instr,
      i.is_app = false ∧ instr_get_dst i 0 = opnd_create_reg cfg.IBL_TARGET_REG) ∧
    (exec_list app (mangle_indirect_jump_tb cfg c.instr).tail s).regs cfg.IBL_TARGET_REG =
        wrap32 (or_one (cfg.decode_cur_pc c.instr + 2 * v)) ∧
    ∀ i ∈ mangle_indirect_jump_tb cfg c.instr, i.opcode = OP_add →
      ∃ imm b : Int, ∃ k : Nat, instr_get_src i 1 = OPND_CREATE_INT imm ∧
        0 ≤ b ∧ b < 256 ∧ k < 4 ∧ wrap32 imm = b * 256 ^ k := by
  obtain ⟨h1, h2, h3⟩ := mangle_indirect_jump_tb_arith cfg c.instr app s v hop hv0 hvb hvh hs
  refine ⟨?_, ?_, h1, ?_, h2, h3⟩
  · intro r h
    obtain ⟨pre, post, hr, hmem, hno⟩ := mangle_indirect_jump_tb_shape cfg c r bound_id hop hpred h
    subst hr
    exact ⟨pre, post, rfl, rfl, rfl, hmem, hno⟩
  · intro hst
    obtain ⟨r, h⟩ := mangle_indirect_jump_tb_returns cfg c bound_id hop hpred hst
    obtain ⟨pre, post, hr, -, hno⟩ := mangle_indirect_jump_tb_shape cfg c r bound_id hop hpred h
    obtain ⟨hp1, hp2⟩ := hno hst
    subst hp1
    subst hp2
    subst hr
    exact ⟨_, h, by simp⟩
  · intro i hi
    rcases hop with h | h
    · simp only [mangle_indirect_jump_tb, h, if_true, List.cons_append, List.nil_append,
        List.mem_cons, List.mem_singleton, List.not_mem_nil, or_false] at hi
      rcases hi with hi | hi | hi | hi | hi
      all_goals subst hi
      all_goals exact ⟨rfl, rfl⟩
    · have hne : ¬ (OP_tbh = OP_tbb) := by decide
      simp only [mangle_indirect_jump_tb, h, hne, if_false, List.cons_append, List.nil_append,
        List.mem_cons, List.mem_singleton, List.not_mem_nil, or_false] at hi
      rcases hi with hi | hi | hi | hi | hi | hi
      all_goals subst hi
      all_goals exact ⟨rfl, rfl⟩

theorem mangle_indirect_jump_tb_target_witness :
    (∀ r, mangle_indirect_jump ex_cfg (ex_at (ex_tb true)) 9 = some r →
      ∃ pre post : List instr_t,
        r.instr = meta_insert ex_cfg (INSTR_CREATE_label 9) ∧
        r.mid = pre ++ mangle_indirect_jump_tb ex_cfg (ex_at (ex_tb true)).instr ++
          (post ++ (ex_at (ex_tb true)).mid) ∧
        r.next = (ex_at (ex_tb true)).next ∧
        (∀ j ∈ pre ++ post, j.is_app = false ∧ j.predicate = DR_PRED_NONE ∧
          (j.opcode = OP_str ∨ j.opcode = OP_mov ∨ j.opcode = OP_ldr)) ∧
        (instr_uses_reg (ex_at (ex_tb true)).instr ex_cfg.dr_reg_stolen = false →
          pre = [] ∧ post = [])) ∧
    (instr_uses_reg (ex_at (ex_tb true)).instr ex_cfg.dr_reg_stolen = false →
      ∃ r, mangle_indirect_jump ex_cfg (ex_at (ex_tb true)) 9 = some r ∧
        r.mid = mangle_indirect_jump_tb ex_cfg (ex_at (ex_tb true)).instr ++
          (ex_at (ex_tb true)).mid) ∧
    (mangle_indirect_jump_tb ex_cfg (ex_at (ex_tb true)).instr).map (fun i => i.opcode) =
        (if (ex_at (ex_tb true)).instr.opcode = OP_tbb then
          [OP_ldrb, OP_lsl, OP_movt, OP_add, OP_add]
         else [OP_ldrh, OP_lsl, OP_add, OP_add, OP_add, OP_add]) ∧
    (∀ i ∈ mangle_indirect_jump_tb ex_cfg (ex_at (ex_tb true)).instr,
      i.is_app = false ∧ instr_get_dst i 0 = opnd_create_reg ex_cfg.IBL_TARGET_REG) ∧
    (exec_list ex_app (mangle_indirect_jump_tb ex_cfg (ex_at (ex_tb true)).instr).tail
        (ex_state.set_reg ex_cfg.IBL_TARGET_REG 300)).regs ex_cfg.IBL_TARGET_REG =
        wrap32 (or_one (ex_cfg.decode_cur_pc (ex_at (ex_tb true)).instr + 2 * 300)) ∧
    ∀ i ∈ mangle_indirect_jump_tb ex_cfg (ex_at (ex_tb true)).instr, i.opcode = OP_add →
      ∃ imm b : Int, ∃ k : Nat, instr_get_src i 1 = OPND_CREATE_INT imm ∧
        0 ≤ b ∧ b < 256 ∧ k < 4 ∧ wrap32 imm = b * 256 ^ k :=
  mangle_indirect_jump_tb_target ex_cfg (ex_at (ex_tb true)) 9 ex_app
    (ex_state.set_reg ex_cfg.IBL_TARGET_REG 300) 300 (Or.inr (by decide)) (by decide)
    (by decide) (by decide) (by decide) (by simp [mstate.set_reg])

theorem eraseIdx_takeWhile_length {α : Type} (p : α → Bool) (l rest : List α) (x : α)
    (h : l.drop (l.takeWhile p).length = x :: rest) :
    l = l.takeWhile p ++ x :: rest ∧
    l.eraseIdx (l.takeWhile p).length = l.takeWhile p ++ rest := by
  rw [drop_takeWhile_length] at h
  have hl : l = l.takeWhile p ++ x :: rest := by
    conv_lhs => rw [← List.takeWhile_append_dropWhile p l, h]
  refine ⟨hl, ?_⟩
  conv_lhs => rw [hl]
  rw [List.eraseIdx_append_of_length_le (by
    rw [← hl])]
  rw [← hl]
  simp

/-- C30 (amended): whenever `insert_save_to_tls_if_necessary(where, reg, slot)`
elides a restore/spill pair, the instruction it removes is the nearest
instruction in front of `where`, behind labels of our own mangling only, that
is reported as a restore of `reg` from TLS, and nothing is inserted; `slot` is
not consulted, the result is the same for every slot.  When the removed restore
read `reg` from the TLS slot `slot` that the requested spill would have
written, the pair would have left every word of memory as it was and `reg`
holding the word of `slot`: after the elision the app value of `reg` is held
in `slot`. -/
theorem insert_save_to_tls_if_necessary_elision (cfg : config_t) (left : List instr_t)
    (reg slot : Nat)
    (helide : insert_save_to_tls_if_necessary cfg left reg slot ≠
      meta_insert cfg (instr_create_save_to_tls cfg reg slot) :: left) :
    ∃ labels prev rest,
      left = labels ++ prev :: rest ∧
      (∀ l ∈ labels, instr_is_label l = true ∧ instr_is_our_mangling l = true) ∧
      instr_is_reg_spill_or_restore cfg prev = some (true, false, reg) ∧
      (∀ slot2, insert_save_to_tls_if_necessary cfg left reg slot2 = labels ++ rest) ∧
      (prev = meta_insert cfg (instr_create_restore_from_tls cfg reg slot) →
        reg ≠ cfg.dr_reg_stolen →
        ∀ (app : instr_t → mstate → mstate) (s : mstate),
          (exec_list app [prev, meta_insert cfg (instr_create_save_to_tls cfg reg slot)]
              s).regs reg =
            s.mem (wrap32 (s.regs cfg.dr_reg_stolen + cfg.os_tls_offset slot)) ∧
          ∀ a, (exec_list app [prev, meta_insert cfg (instr_create_save_to_tls cfg reg slot)]
              s).mem a = s.mem a) := by
  rcases insert_save_to_tls_if_necessary_shape cfg left reg slot with
    ⟨-, k, hf, -⟩ | ⟨-, hn⟩
  · obtain ⟨-, hk, prev, rest, hd, tls, hs, ht, -, -⟩ :=
      (find_prior_scratch_reg_restore_some cfg left k reg).mp hf
    subst hk
    subst ht
    obtain ⟨hl, he⟩ := eraseIdx_takeWhile_length _ left rest prev hd
    refine ⟨_, prev, rest, hl, ?_, hs, ?_, ?_⟩
    · intro l hl2
      have := List.mem_takeWhile_imp hl2
      simpa using this
    · intro slot2
      rcases insert_save_to_tls_if_necessary_shape cfg left reg slot2 with
        ⟨-, k2, hf2, hr2⟩ | ⟨hne, -⟩
      · rw [hf] at hf2
        simp only [Option.some.injEq, Prod.mk.injEq, and_true] at hf2
        rw [hr2, ← hf2, he]
      · have hsp : spill_elided cfg left reg = true := by
          have hopt : cfg.opt_mangle ≠ 0 :=
            ((find_prior_scratch_reg_restore_some cfg left _ reg).mp hf).1
          simp only [spill_elided, hf, decide_eq_true_eq, and_true]
          omega
        rw [hsp] at hne
        cases hne
    · intro hp hne app s
      subst hp
      simp only [exec_list, exec_meta_restore_from_tls, exec_meta_save_to_tls, set_reg_same,
        set_reg_other _ _ _ _ (Ne.symm hne), set_mem_regs, set_reg_mem, true_and]
      intro a
      simp only [mstate.set_mem, mstate.set_reg]
      split
      · rename_i ha
        rw [ha]
      · rfl
  · exact absurd hn helide

theorem insert_save_to_tls_if_necessary_elision_witness :
    ∃ labels prev rest,
      [meta_insert ex_cfg (INSTR_CREATE_label 3),
         meta_insert ex_cfg (instr_create_restore_from_tls ex_cfg DR_REG_R1 4),
         ex_add_stolen] = labels ++ prev :: rest ∧
      (∀ l ∈ labels, instr_is_label l = true ∧ instr_is_our_mangling l = true) ∧
      instr_is_reg_spill_or_restore ex_cfg prev = some (true, false, DR_REG_R1) ∧
      (∀ slot2, insert_save_to_tls_if_necessary ex_cfg
          [meta_insert ex_cfg (INSTR_CREATE_label 3),
           meta_insert ex_cfg (instr_create_restore_from_tls ex_cfg DR_REG_R1 4),
           ex_add_stolen] DR_REG_R1 slot2 = labels ++ rest) ∧
      (prev = meta_insert ex_cfg (instr_create_restore_from_tls ex_cfg DR_REG_R1 4) →
        DR_REG_R1 ≠ ex_cfg.dr_reg_stolen →
        ∀ (app : instr_t → mstate → mstate) (s : mstate),
          (exec_list app [prev, meta_insert ex_cfg
              (instr_create_save_to_tls ex_cfg DR_REG_R1 4)] s).regs DR_REG_R1 =
            s.mem (wrap32 (s.regs ex_cfg.dr_reg_stolen + ex_cfg.os_tls_offset 4)) ∧
          ∀ a, (exec_list app [prev, meta_insert ex_cfg
              (instr_create_save_to_tls ex_cfg DR_REG_R1 4)] s).mem a = s.mem a) :=
  insert_save_to_tls_if_necessary_elision ex_cfg
    [meta_insert ex_cfg (INSTR_CREATE_label 3),
     meta_insert ex_cfg (instr_create_restore_from_tls ex_cfg DR_REG_R1 4),
     ex_add_stolen] DR_REG_R1 4 (by decide)

/-- C30 (counterexample): in front of `where` stands the restore of r0 from the
slot of r0 (TLS offset 64), and `insert_save_to_tls_if_necessary` is asked to
spill r0 to the slot of r1 (TLS offset 68), the register and slot that
`mangle_gpr_list_read` passes when the memory operand uses r1.  The restore is
removed and nothing is inserted, although it read another slot than the
requested spill would have written: the pair would have left the word of the
slot of r0 in the slot of r1, and after the elision the slot of r1 holds its
old word. -/
theorem insert_save_to_tls_if_necessary_ignores_slot :
    insert_save_to_tls_if_necessary ex_cfg
        [meta_insert ex_cfg (instr_create_restore_from_tls ex_cfg DR_REG_R0 ex_cfg.TLS_REG0_SLOT)]
        DR_REG_R0 (TLS_REG1_SLOT ex_cfg) = [] ∧
    ex_cfg.os_tls_offset ex_cfg.TLS_REG0_SLOT = 64 ∧
    ex_cfg.os_tls_offset (TLS_REG1_SLOT ex_cfg) = 68 ∧
    (exec_list ex_app
      [meta_insert ex_cfg (instr_create_restore_from_tls ex_cfg DR_REG_R0 ex_cfg.TLS_REG0_SLOT),
       meta_insert ex_cfg (instr_create_save_to_tls ex_cfg DR_REG_R0 (TLS_REG1_SLOT ex_cfg))]
      ex_state).mem (ex_state.regs ex_cfg.dr_reg_stolen + 68) =
        ex_state.mem (ex_state.regs ex_cfg.dr_reg_stolen + 64) ∧
    (exec_list ex_app
      (insert_save_to_tls_if_necessary ex_cfg
        [meta_insert ex_cfg
          (instr_create_restore_from_tls ex_cfg DR_REG_R0 ex_cfg.TLS_REG0_SLOT)]
        DR_REG_R0 (TLS_REG1_SLOT ex_cfg)).reverse
      ex_state).mem (ex_state.regs ex_cfg.dr_reg_stolen + 68) =
        ex_state.mem (ex_state.regs ex_cfg.dr_reg_stolen + 68) ∧
    ex_state.mem (ex_state.regs ex_cfg.dr_reg_stolen + 64) ≠
      ex_state.mem (ex_state.regs ex_cfg.dr_reg_stolen + 68) := by
  refine ⟨by decide, by decide, by decide, ?_, ?_, by decide⟩
  · simp only [exec_list, exec_meta_restore_from_tls, exec_meta_save_to_tls, set_reg_same,
      set_mem_same, set_mem_regs, set_reg_mem]
    decide
  · rw [show insert_save_to_tls_if_necessary ex_cfg
        [meta_insert ex_cfg
          (instr_create_restore_from_tls ex_cfg DR_REG_R0 ex_cfg.TLS_REG0_SLOT)]
        DR_REG_R0 (TLS_REG1_SLOT ex_cfg) = [] by decide]
    rfl

theorem find_pc_dst_bound : ∀ (l : List opnd_t) (k i : Nat),
    find_pc_dst l k = some i → k ≤ i ∧ i < k + l.length := by
  intro l
  induction l with
  | nil =>
    intro k i h
    simp [find_pc_dst] at h
  | cons o rest ih =>
    intro k i h
    unfold find_pc_dst at h
    split_ifs at h
    · simp only [Option.some.injEq] at h
      subst h
      simp
    · have := ih (k + 1) i h
      simp only [List.length_cons]
      omega

theorem mangle_indirect_jump_pc_result (cfg : config_t) (c r : ilist_at) (bound_id : Nat)
    (hgl : ¬ instr_writes_gpr_list c.instr = true)
    (hbx : ¬ (c.instr.opcode = OP_bx ∨ c.instr.opcode = OP_bxj))
    (htb : ¬ (c.instr.opcode = OP_tbb ∨ c.instr.opcode = OP_tbh))
    (hrfe : ¬ (c.instr.opcode = OP_rfe ∨ c.instr.opcode = OP_rfedb ∨
      c.instr.opcode = OP_rfeda ∨ c.instr.opcode = OP_rfeib ∨ c.instr.opcode = OP_eret))
    (hne : cfg.IBL_TARGET_REG ≠ cfg.dr_reg_stolen)
    (h : mangle_indirect_jump cfg c bound_id = some r) :
    ∃ (c1 : ilist_at) (i : Nat) (pre post : List instr_t) (x : instr_t) (rm : Bool)
      (orr M : List instr_t),
      (if app_instr_is_in_it_block c.instr = true then mangle_remove_from_it_block cfg c
       else some c) = some c1 ∧
      instr_writes_to_reg c.instr cfg.IBL_TARGET_REG DR_QUERY_INCLUDE_ALL = false ∧
      find_pc_dst c.instr.dsts 0 = some i ∧
      rm = (decide (c.instr.isa_mode = DR_ISA_ARM_THUMB) &&
          (decide (c.instr.opcode = OP_mov) || decide (c.instr.opcode = OP_add)) &&
          (decide (c.instr.opcode = OP_mov) && !instr_is_predicated c.instr)) ∧
      orr = (if (decide (c.instr.isa_mode = DR_ISA_ARM_THUMB) &&
            (decide (c.instr.opcode = OP_mov) || decide (c.instr.opcode = OP_add))) = true then
          [meta_insert cfg (INSTR_CREATE_orr (opnd_create_reg cfg.IBL_TARGET_REG)
            (if rm = true then instr_get_src c.instr 0
             else opnd_create_reg cfg.IBL_TARGET_REG) (OPND_CREATE_INT 1))]
        else []) ∧
      (∀ j ∈ pre ++ post, j.is_app = false ∧ j.predicate = DR_PRED_NONE ∧
        (j.opcode = OP_str ∨ j.opcode = OP_mov ∨ j.opcode = OP_ldr)) ∧
      (x = instr_set_dst c.instr i (opnd_create_reg cfg.IBL_TARGET_REG) ∨
        (rm = false ∧ c.instr.opcode = OP_mov ∧ pre = [] ∧ post = [] ∧
          x = instr_set_src (instr_set_opcode
                (instr_set_dst c.instr i (opnd_create_reg cfg.IBL_TARGET_REG)) OP_ldr) 0
              (opnd_create_tls_slot cfg (cfg.os_tls_offset cfg.TLS_REG_STOLEN_SLOT)))) ∧
      (instr_uses_reg (instr_set_dst c.instr i (opnd_create_reg cfg.IBL_TARGET_REG))
          cfg.dr_reg_stolen = false →
        pre = [] ∧ post = [] ∧
          x = instr_set_dst c.instr i (opnd_create_reg cfg.IBL_TARGET_REG)) ∧
      M = (if instr_is_predicated x = true then
            pre.map (if instr_uses_reg x cfg.dr_reg_stolen = false then
                mangle_add_predicated_fall_through_mark cfg x.predicate else id) ++
              ((if rm = true then [] else
                [(if instr_uses_reg x cfg.dr_reg_stolen = false then
                  mangle_add_predicated_fall_through_mark cfg x.predicate else id) x]) ++
              (((orr ++ post) ++ c1.mid).map (if instr_uses_reg x cfg.dr_reg_stolen = false then
                mangle_add_predicated_fall_through_mark cfg x.predicate else id) ++
              (insert_mov_immed_ptrsz cfg
                (to_int32 (PC_AS_JMP_TGT x.isa_mode (cfg.get_call_return_address x)))
                (opnd_create_reg cfg.IBL_TARGET_REG)).map
                  (fun m => instr_set_predicate m (instr_invert_predicate x.predicate))))
          else pre ++ ((if rm = true then [] else [x]) ++ ((orr ++ post) ++ c1.mid))) ∧
      r = (if app_instr_is_in_it_block c.instr = true then
            mangle_reinstate_it_blocks cfg
              { prev := meta_insert cfg (instr_create_save_to_tls cfg cfg.IBL_TARGET_REG
                          cfg.IBL_TARGET_SLOT) :: c1.prev,
                instr := meta_insert cfg (INSTR_CREATE_label bound_id),
                mid := M,
                next := c1.next } 0
          else
            { prev := meta_insert cfg (instr_create_save_to_tls cfg cfg.IBL_TARGET_REG
                          cfg.IBL_TARGET_SLOT) :: c1.prev,
              instr := meta_insert cfg (INSTR_CREATE_label bound_id),
              mid := M,
              next := c1.next }) := by
  unfold mangle_indirect_jump at h
  simp only [] at h
  cases hc : (if app_instr_is_in_it_block c.instr = true then mangle_remove_from_it_block cfg c
            else some c) with
  | none =>
    rw [hc] at h
    cases h
  | some c1 =>
    rw [hc] at h
    simp only [] at h
    have hi : c1.instr = c.instr := by
      by_cases hit : app_instr_is_in_it_block c.instr = true
      · rw [if_pos hit] at hc
        exact (mangle_remove_from_it_block_instr cfg c c1 hc).1
      · rw [if_neg hit] at hc
        simp only [Option.some.injEq] at hc
        rw [hc]
    generalize hr : (if instr_writes_gpr_list c.instr = true then _ else _ :
      Option (ilist_at × Bool)) = r1 at h
    rw [if_neg hgl, if_neg hbx, if_neg htb, if_neg hrfe] at hr
    cases r1 with
    | none => cases h
    | some p =>
      obtain ⟨c2, rm⟩ := p
      simp only [] at h
      have hel : ∀ reg, spill_elided cfg (meta_insert cfg (INSTR_CREATE_label bound_id) ::
          meta_insert cfg (instr_create_save_to_tls cfg cfg.IBL_TARGET_REG
            cfg.IBL_TARGET_SLOT) :: c1.prev) reg = false :=
        fun reg => spill_elided_after_bound cfg bound_id _ _ reg c1.prev
      obtain ⟨hw, i, pre, post, x, hfi, hrm, hc2, hmem, hx, hno⟩ :=
        mangle_indirect_jump_pc_shape cfg _ c2 rm hr hel
      simp only [hi] at hw hfi hrm hc2 hx hno
      have hop1 : (instr_set_dst c.instr i (opnd_create_reg cfg.IBL_TARGET_REG)).opcode =
          c.instr.opcode := rfl
      have hpr1 : instr_is_predicated
          (instr_set_dst c.instr i (opnd_create_reg cfg.IBL_TARGET_REG)) =
          instr_is_predicated c.instr := rfl
      have hsrc1 : instr_get_src
          (instr_set_dst c.instr i (opnd_create_reg cfg.IBL_TARGET_REG)) 0 =
          instr_get_src c.instr 0 := rfl
      rw [hop1, hpr1] at hrm
      rw [hop1, hsrc1] at hc2
      rw [hop1] at hx
      have hx2 : x = instr_set_dst c.instr i (opnd_create_reg cfg.IBL_TARGET_REG) ∨
          (rm = false ∧ c.instr.opcode = OP_mov ∧ pre = [] ∧ post = [] ∧
            x = instr_set_src (instr_set_opcode
                  (instr_set_dst c.instr i (opnd_create_reg cfg.IBL_TARGET_REG)) OP_ldr) 0
                (opnd_create_tls_slot cfg (cfg.os_tls_offset cfg.TLS_REG_STOLEN_SLOT))) := by
        rcases hx with hx | ⟨h1, h2, h3, h4, h5⟩
        · exact Or.inl hx
        · rcases h5 with ⟨-, h5⟩ | ⟨hn1, hg, -⟩
          · exact Or.inr ⟨h1, h2, h3, h4, h5⟩
          · exfalso
            have hb := find_pc_dst_bound c.instr.dsts 0 i hfi
            have hlen : c.instr.dsts.length = 1 := by
              simpa [instr_num_dsts, instr_set_dst] using hn1
            have hi0 : i = 0 := by omega
            subst hi0
            apply hne
            rw [← hg]
            cases hd : c.instr.dsts with
            | nil => simp [hd] at hlen
            | cons d ds =>
              simp [instr_get_dst, instr_set_dst, hd, opnd_get_reg, opnd_create_reg]
      have hk : c2.prev.length - (c1.prev.length + 2) = pre.length := by
        rw [hc2]
        simp only [List.length_append, List.length_reverse, List.length_cons]
        omega
      rw [hk, hc2] at h
      have hb := (bound_finish_shape cfg
        (meta_insert cfg (instr_create_save_to_tls cfg cfg.IBL_TARGET_REG
          cfg.IBL_TARGET_SLOT) :: c1.prev) pre (meta_insert cfg (INSTR_CREATE_label bound_id))
        x _ c1.next rm (app_instr_is_in_it_block c.instr)
        (app_instr_is_in_it_block c.instr = true ∨ c.instr.isa_mode ≠ DR_ISA_ARM_THUMB)
        r h).2
      exact ⟨c1, i, pre, post, x, rm, _, _, rfl, hw, hfi, hrm, rfl, hmem, hx2, hno, rfl, hb⟩

theorem find_pc_dst_is_pc : ∀ (l : List opnd_t) (k i : Nat),
    find_pc_dst l k = some i →
      opnd_is_reg (l.getD (i - k) .null) = true ∧
      opnd_get_reg (l.getD (i - k) .null) = DR_REG_PC := by
  intro l
  induction l with
  | nil =>
    intro k i h
    simp [find_pc_dst] at h
  | cons o rest ih =>
    intro k i h
    unfold find_pc_dst at h
    split_ifs at h with hc
    · simp only [Option.some.injEq] at h
      subst h
      simpa using hc
    · have hb := find_pc_dst_bound rest (k + 1) i h
      have := ih (k + 1) i h
      have e : i - k = (i - (k + 1)) + 1 := by omega
      rw [e, List.getD_cons_succ]
      exact this

theorem mark_self (cfg : config_t) (x : instr_t) :
    mangle_add_predicated_fall_through_mark cfg x.predicate x = x := by
  unfold mangle_add_predicated_fall_through_mark instr_set_predicate
  split_ifs <;> rfl

theorem mark_keeps (cfg : config_t) (p : dr_pred_type_t) (j : instr_t) :
    (mangle_add_predicated_fall_through_mark cfg p j).opcode = j.opcode ∧
    (mangle_add_predicated_fall_through_mark cfg p j).is_app = j.is_app := by
  unfold mangle_add_predicated_fall_through_mark instr_set_predicate
  split_ifs <;> exact ⟨rfl, rfl⟩

theorem mark_or_id_keeps (cfg : config_t) (p : dr_pred_type_t) (b : Bool) (j : instr_t) :
    ((if b = false then mangle_add_predicated_fall_through_mark cfg p else id) j).opcode =
      j.opcode ∧
    ((if b = false then mangle_add_predicated_fall_through_mark cfg p else id) j).is_app =
      j.is_app := by
  cases b
  · simpa using mark_keeps cfg p j
  · exact ⟨rfl, rfl⟩

theorem mark_meta_orr (cfg : config_t) (p : dr_pred_type_t) (d s i : opnd_t) :
    mangle_add_predicated_fall_through_mark cfg p (meta_insert cfg (INSTR_CREATE_orr d s i)) =
      instr_set_predicate (meta_insert cfg (INSTR_CREATE_orr d s i)) p := by
  have h : instr_is_reg_spill_or_restore cfg (meta_insert cfg (INSTR_CREATE_orr d s i)) =
      none := rfl
  simp [mangle_add_predicated_fall_through_mark, h]

theorem fall_through_movs_mem (cfg : config_t) (val : Int) (dst : opnd_t)
    (q : dr_pred_type_t) (j : instr_t)
    (hj : j ∈ (insert_mov_immed_ptrsz cfg val dst).map
      (fun m => instr_set_predicate m q)) :
    j.is_app = false ∧ j.opcode ≠ OP_orr := by
  simp only [List.mem_map] at hj
  obtain ⟨m, hm, rfl⟩ := hj
  obtain ⟨h1, -, h3, -⟩ := insert_mov_immed_ptrsz_mem cfg val dst m hm
  refine ⟨h1, ?_⟩
  intro e
  have e2 : m.opcode = OP_orr := e
  rw [e2] at h3
  rcases h3 with h | h | h <;> cases h

theorem instr_uses_reg_set_dst (instr : instr_t) (i r q : Nat)
    (h : instr_uses_reg instr q = false) (hne : r ≠ q) :
    instr_uses_reg (instr_set_dst instr i (opnd_create_reg r)) q = false := by
  simp only [instr_uses_reg, Bool.or_eq_false_iff] at h ⊢
  refine ⟨?_, h.2⟩
  simp only [instr_reg_in_dst, instr_set_dst, List.any_eq_false] at h ⊢
  intro o ho
  rcases List.mem_or_eq_of_mem_set ho with ho | ho
  · exact h.1 o ho
  · subst ho
    simp [opnd_uses_reg, opnd_create_reg, hne]

theorem mangle_indirect_jump_mov_removed (cfg : config_t) (c r : ilist_at) (bound_id : Nat)
    (hgl : ¬ instr_writes_gpr_list c.instr = true)
    (hbx : ¬ (c.instr.opcode = OP_bx ∨ c.instr.opcode = OP_bxj))
    (htb : ¬ (c.instr.opcode = OP_tbb ∨ c.instr.opcode = OP_tbh))
    (hrfe : ¬ (c.instr.opcode = OP_rfe ∨ c.instr.opcode = OP_rfedb ∨
      c.instr.opcode = OP_rfeda ∨ c.instr.opcode = OP_rfeib ∨ c.instr.opcode = OP_eret))
    (hne : cfg.IBL_TARGET_REG ≠ cfg.dr_reg_stolen) (hmid : c.mid = [])
    (hmode : c.instr.isa_mode = DR_ISA_ARM_THUMB) (hopc : c.instr.opcode = OP_mov)
    (hpred : instr_is_predicated c.instr = false)
    (h : mangle_indirect_jump cfg c bound_id = some r) :
    ∃ pre post : List instr_t,
      r.mid = pre ++ meta_insert cfg (INSTR_CREATE_orr (opnd_create_reg cfg.IBL_TARGET_REG)
        (instr_get_src c.instr 0) (OPND_CREATE_INT 1)) :: post ∧
      (∀ j ∈ pre ++ post, j.is_app = false ∧ j.opcode ≠ OP_orr) ∧
      (instr_uses_reg c.instr cfg.dr_reg_stolen = false → pre = [] ∧ post = []) := by
  obtain ⟨c1, i, pre, post, x, rm, orr, M, hc1, -, -, hrm, horr, hmem, hx, hno, hM, hr⟩ :=
    mangle_indirect_jump_pc_result cfg c r bound_id hgl hbx htb hrfe hne h
  have hin : app_instr_is_in_it_block c.instr = false := by
    simp [app_instr_is_in_it_block, hpred]
  simp only [hmode, hopc, hpred, decide_True, Bool.true_or, Bool.and_self, Bool.not_false,
    Bool.and_true] at hrm
  subst hrm
  simp only [hmode, hopc, decide_True, Bool.true_or, Bool.and_self, if_true] at horr
  have hxe : x = instr_set_dst c.instr i (opnd_create_reg cfg.IBL_TARGET_REG) := by
    rcases hx with hx | ⟨hx, -⟩
    · exact hx
    · cases hx
  have hxp : instr_is_predicated x = false := by
    rw [hxe]
    exact hpred
  rw [hin] at hc1 hr
  simp only [Bool.false_eq_true, if_false, Option.some.injEq] at hc1 hr
  subst hc1
  rw [hxp] at hM
  simp only [Bool.false_eq_true, if_false, if_true, hmid, List.append_nil, List.nil_append]
    at hM
  subst hr
  subst hM
  subst horr
  refine ⟨pre, post, by simp, ?_, ?_⟩
  · intro j hj
    obtain ⟨h1, -, h3⟩ := hmem j hj
    refine ⟨h1, ?_⟩
    intro e
    rw [e] at h3
    rcases h3 with h3 | h3 | h3 <;> cases h3
  · intro hu
    have := hno (instr_uses_reg_set_dst c.instr i _ _ hu hne)
    exact ⟨this.1, this.2.1⟩

theorem mangle_indirect_jump_a32_kept (cfg : config_t) (c r : ilist_at) (bound_id : Nat)
    (hgl : ¬ instr_writes_gpr_list c.instr = true)
    (hbx : ¬ (c.instr.opcode = OP_bx ∨ c.instr.opcode = OP_bxj))
    (htb : ¬ (c.instr.opcode = OP_tbb ∨ c.instr.opcode = OP_tbh))
    (hrfe : ¬ (c.instr.opcode = OP_rfe ∨ c.instr.opcode = OP_rfedb ∨
      c.instr.opcode = OP_rfeda ∨ c.instr.opcode = OP_rfeib ∨ c.instr.opcode = OP_eret))
    (hne : cfg.IBL_TARGET_REG ≠ cfg.dr_reg_stolen) (hmid : c.mid = [])
    (hmode : c.instr.isa_mode ≠ DR_ISA_ARM_THUMB)
    (h : mangle_indirect_jump cfg c bound_id = some r) :
    ∃ (i : Nat) (A B : List instr_t) (x : instr_t),
      find_pc_dst c.instr.dsts 0 = some i ∧
      r.mid = A ++ x :: B ∧
      (x = instr_set_dst c.instr i (opnd_create_reg cfg.IBL_TARGET_REG) ∨
        (c.instr.opcode = OP_mov ∧
          x = instr_set_src (instr_set_opcode
                (instr_set_dst c.instr i (opnd_create_reg cfg.IBL_TARGET_REG)) OP_ldr) 0
              (opnd_create_tls_slot cfg (cfg.os_tls_offset cfg.TLS_REG_STOLEN_SLOT)))) ∧
      (∀ j ∈ A ++ B, j.is_app = false ∧ j.opcode ≠ OP_orr) ∧
      (instr_uses_reg c.instr cfg.dr_reg_stolen = false →
        A = [] ∧ x = instr_set_dst c.instr i (opnd_create_reg cfg.IBL_TARGET_REG)) := by
  obtain ⟨c1, i, pre, post, x, rm, orr, M, hc1, -, hfi, hrm, horr, hmem, hx, hno, hM, hr⟩ :=
    mangle_indirect_jump_pc_result cfg c r bound_id hgl hbx htb hrfe hne h
  have hin : app_instr_is_in_it_block c.instr = false := by
    simp [app_instr_is_in_it_block, hmode]
  simp only [hmode, decide_False, Bool.false_and] at hrm
  subst hrm
  simp only [hmode, decide_False, Bool.false_and, Bool.false_eq_true, if_false] at horr
  subst horr
  rw [hin] at hc1 hr
  simp only [Bool.false_eq_true, if_false, Option.some.injEq] at hc1 hr
  subst hc1
  simp only [Bool.false_eq_true, if_false, hmid, List.append_nil, List.nil_append] at hM
  have hx2 : x = instr_set_dst c.instr i (opnd_create_reg cfg.IBL_TARGET_REG) ∨
      (c.instr.opcode = OP_mov ∧
        x = instr_set_src (instr_set_opcode
              (instr_set_dst c.instr i (opnd_create_reg cfg.IBL_TARGET_REG)) OP_ldr) 0
            (opnd_create_tls_slot cfg (cfg.os_tls_offset cfg.TLS_REG_STOLEN_SLOT))) := by
    rcases hx with hx | ⟨-, h2, -, -, h5⟩
    · exact Or.inl hx
    · exact Or.inr ⟨h2, h5⟩
  have hmeta : ∀ j ∈ pre ++ post, j.is_app = false ∧ j.opcode ≠ OP_orr := by
    intro j hj
    obtain ⟨h1, -, h3⟩ := hmem j hj
    refine ⟨h1, ?_⟩
    intro e
    rw [e] at h3
    rcases h3 with h3 | h3 | h3 <;> cases h3
  subst hr
  subst hM
  by_cases hp : instr_is_predicated x = true
  · rw [if_pos hp]
    refine ⟨i, pre.map (if instr_uses_reg x cfg.dr_reg_stolen = false then
        mangle_add_predicated_fall_through_mark cfg x.predicate else id),
      post.map (if instr_uses_reg x cfg.dr_reg_stolen = false then
        mangle_add_predicated_fall_through_mark cfg x.predicate else id) ++
      (insert_mov_immed_ptrsz cfg
        (to_int32 (PC_AS_JMP_TGT x.isa_mode (cfg.get_call_return_address x)))
        (opnd_create_reg cfg.IBL_TARGET_REG)).map
          (fun m => instr_set_predicate m (instr_invert_predicate x.predicate)),
      _, hfi, rfl, ?_, ?_, ?_⟩
    · have e : (if instr_uses_reg x cfg.dr_reg_stolen = false then
          mangle_add_predicated_fall_through_mark cfg x.predicate else id) x = x := by
        split_ifs
        · exact mark_self cfg x
        · rfl
      rw [e]
      exact hx2
    · intro j hj
      simp only [List.mem_append, List.mem_map] at hj
      rcases hj with ⟨a, ha, rfl⟩ | ⟨a, ha, rfl⟩ | hj
      · have hk := mark_or_id_keeps cfg x.predicate (instr_uses_reg x cfg.dr_reg_stolen) a
        rw [hk.1, hk.2]
        exact hmeta a (List.mem_append.mpr (Or.inl ha))
      · have hk := mark_or_id_keeps cfg x.predicate (instr_uses_reg x cfg.dr_reg_stolen) a
        rw [hk.1, hk.2]
        exact hmeta a (List.mem_append.mpr (Or.inr ha))
      · exact fall_through_movs_mem cfg _ _ _ _ (List.mem_map.mpr hj)
    · intro hu
      obtain ⟨h1, -, h3⟩ := hno (instr_uses_reg_set_dst c.instr i _ _ hu hne)
      subst h1
      subst h3
      have e : (if instr_uses_reg (instr_set_dst c.instr i
            (opnd_create_reg cfg.IBL_TARGET_REG)) cfg.dr_reg_stolen = false then
          mangle_add_predicated_fall_through_mark cfg
            (instr_set_dst c.instr i (opnd_create_reg cfg.IBL_TARGET_REG)).predicate
          else id) (instr_set_dst c.instr i (opnd_create_reg cfg.IBL_TARGET_REG)) =
          instr_set_dst c.instr i (opnd_create_reg cfg.IBL_TARGET_REG) := by
        split_ifs
        · exact mark_self cfg _
        · rfl
      exact ⟨rfl, e⟩
  · rw [if_neg hp]
    refine ⟨i, pre, post, x, hfi, rfl, hx2, hmeta, ?_⟩
    intro hu
    obtain ⟨h1, -, h3⟩ := hno (instr_uses_reg_set_dst c.instr i _ _ hu hne)
    exact ⟨h1, h3⟩

theorem reinstate_loop_pending_head (cfg : config_t) (after : List instr_t) :
    ∀ (rest : List instr_t) (st : it_scan) (x : instr_t) (ps : List instr_t),
      st.pending = some (x :: ps) →
      ∃ (it : instr_t) (rs : List instr_t) (tail : List (Option instr_t × instr_t)),
        (reinstate_loop cfg after rest st).2 =
          (some it, x) :: (ps ++ rs).map (fun a => ((none : Option instr_t), a)) ++ tail := by
  intro rest
  induction rest with
  | nil =>
    intro st x ps hp
    rw [reinstate_loop_nil_some cfg after st (x :: ps) hp]
    exact ⟨st.make_it cfg, [], [], by simp [it_annotate]⟩
  | cons z rest ih =>
    intro st x ps hp
    by_cases hj : it_joins st z = true
    · by_cases hn : st.block_count + 1 = IT_BLOCK_MAX_INSTRS
      · rw [reinstate_loop_full cfg after st z rest (x :: ps) hp hj hn]
        generalize it_scan.make_it cfg _ = it
        generalize (reinstate_loop cfg after rest _).2 = tl
        exact ⟨it, [z], tl, by simp [it_annotate]⟩
      · rw [reinstate_loop_extend cfg after st z rest (x :: ps) hp hj hn]
        obtain ⟨it, rs, tail, h⟩ := ih
          { st with block_pred := st.block_pred.set st.block_count z.predicate
                    block_count := st.block_count + 1
                    pending := some ((x :: ps) ++ [z]) } x (ps ++ [z]) rfl
        exact ⟨it, z :: rs, tail, by rw [h]; simp⟩
    · simp only [Bool.not_eq_true] at hj
      rw [reinstate_loop_close cfg after st z rest (x :: ps) hp hj]
      generalize it_scan.make_it cfg _ = it
      generalize (reinstate_loop cfg after (z :: rest) _).2 = tl
      exact ⟨it, [], tl, by simp [it_annotate]⟩

theorem reinstate_loop_adjacent (cfg : config_t) (after A B : List instr_t) (x y : instr_t)
    (hA : ∀ a ∈ A, a.opcode ≠ OP_it ∧ it_instr_predicated a = false)
    (hx : it_instr_predicated x = true) (hxo : x.opcode ≠ OP_it)
    (hy : (it_instr_predicated y = false ∧ y.opcode ≠ OP_it) ∨
      (it_instr_predicated y = true ∧ y.predicate = x.predicate)) :
    ∃ (it : instr_t) (tail : List (Option instr_t × instr_t)),
      (reinstate_loop cfg after (A ++ x :: y :: B) it_scan.init).2 =
        A.map (fun a => ((none : Option instr_t), a)) ++ (some it, x) :: (none, y) :: tail := by
  induction A with
  | nil =>
    rw [List.nil_append, reinstate_loop_start cfg after it_scan.init x (y :: B) rfl rfl hxo hx]
    rcases hy with ⟨hy1, hy2⟩ | ⟨hy1, hy2⟩
    · rw [reinstate_loop_close cfg after _ y B [x] rfl (by simp [it_joins, hy1])]
      rw [reinstate_loop_plain cfg after _ y B rfl rfl hy2 hy1]
      generalize it_scan.make_it cfg _ = it
      generalize (reinstate_loop cfg after B _).2 = tl
      exact ⟨it, tl, by simp [it_annotate]⟩
    · rw [reinstate_loop_extend cfg after _ y B [x] rfl
        (by simp [it_joins, hy1, hy2, it_scan.init])
        (by simp [IT_BLOCK_MAX_INSTRS])]
      obtain ⟨it, rs, tail, h⟩ := reinstate_loop_pending_head cfg after B
        { ({ it_scan.init with pending := some [x]
                               block_pred := it_scan.init.block_pred.set 0 x.predicate
                               block_count := 1
                               block_xl8 := it_block_xl8 (x :: ((y :: B) ++ after)) } :
              it_scan) with
          block_pred := (it_scan.init.block_pred.set 0 x.predicate).set 1 y.predicate
          block_count := 1 + 1
          pending := some ([x] ++ [y]) } x [y] rfl
      exact ⟨it, rs.map (fun a => ((none : Option instr_t), a)) ++ tail, by
        rw [h]; simp⟩
  | cons a A ih =>
    obtain ⟨it, tail, h⟩ := ih (fun b hb => hA b (List.mem_cons_of_mem _ hb))
    rw [List.cons_append, reinstate_loop_plain cfg after it_scan.init a _ rfl rfl
      (hA a (List.mem_cons_self _ _)).1 (hA a (List.mem_cons_self _ _)).2, h]
    exact ⟨it, tail, rfl⟩

theorem it_flatten_map_none_append (A : List instr_t)
    (l : List (Option instr_t × instr_t)) :
    it_flatten (A.map (fun a => ((none : Option instr_t), a)) ++ l) = A ++ it_flatten l := by
  induction A with
  | nil => rfl
  | cons a A ih =>
    rw [List.map_cons, List.cons_append, List.cons_append]
    show a :: it_flatten (A.map (fun a => ((none : Option instr_t), a)) ++ l) = _
    rw [ih]

theorem mangle_reinstate_it_blocks_adjacent (cfg : config_t) (pre next A B : List instr_t)
    (lab x y : instr_t)
    (hlo : lab.opcode ≠ OP_it) (hlx : it_instr_predicated lab = false)
    (hA : ∀ a ∈ A, a.opcode ≠ OP_it ∧ it_instr_predicated a = false)
    (hx : it_instr_predicated x = true) (hxo : x.opcode ≠ OP_it)
    (hy : (it_instr_predicated y = false ∧ y.opcode ≠ OP_it) ∨
      (it_instr_predicated y = true ∧ y.predicate = x.predicate)) :
    ∃ A1 B1 : List instr_t,
      (mangle_reinstate_it_blocks cfg
        { prev := pre, instr := lab, mid := A ++ x :: y :: B, next := next } 0).mid =
        A1 ++ x :: y :: B1 := by
  unfold mangle_reinstate_it_blocks
  by_cases hm : cfg.isa_mode ≠ DR_ISA_ARM_THUMB
  · rw [if_pos hm]
    exact ⟨A, B, rfl⟩
  · rw [if_neg hm]
    simp only [List.take_zero, List.reverse_nil, List.nil_append, List.drop_zero]
    obtain ⟨it, tail, h⟩ := reinstate_loop_adjacent cfg next (lab :: A) B x y
      (by
        intro a ha
        rcases List.mem_cons.mp ha with rfl | ha
        · exact ⟨hlo, hlx⟩
        · exact hA a ha) hx hxo hy
    rw [List.cons_append] at h
    rw [h]
    simp only [List.map_cons, List.cons_append]
    rw [it_flatten_map_none_append]
    exact ⟨A ++ [it], it_flatten tail, by simp [it_flatten]⟩

theorem mangle_indirect_jump_t32_orr_after (cfg : config_t) (c r : ilist_at) (bound_id : Nat)
    (hgl : ¬ instr_writes_gpr_list c.instr = true)
    (hbx : ¬ (c.instr.opcode = OP_bx ∨ c.instr.opcode = OP_bxj))
    (htb : ¬ (c.instr.opcode = OP_tbb ∨ c.instr.opcode = OP_tbh))
    (hrfe : ¬ (c.instr.opcode = OP_rfe ∨ c.instr.opcode = OP_rfedb ∨
      c.instr.opcode = OP_rfeda ∨ c.instr.opcode = OP_rfeib ∨ c.instr.opcode = OP_eret))
    (hne : cfg.IBL_TARGET_REG ≠ cfg.dr_reg_stolen) (hmid : c.mid = [])
    (hmode : c.instr.isa_mode = DR_ISA_ARM_THUMB)
    (hcase : (c.instr.opcode = OP_mov ∧ instr_is_predicated c.instr = true) ∨
      c.instr.opcode = OP_add)
    (h : mangle_indirect_jump cfg c bound_id = some r) :
    ∃ (i : Nat) (A B : List instr_t) (x y : instr_t),
      find_pc_dst c.instr.dsts 0 = some i ∧
      r.mid = A ++ x :: y :: B ∧
      (x = instr_set_dst c.instr i (opnd_create_reg cfg.IBL_TARGET_REG) ∨
        (c.instr.opcode = OP_mov ∧
          x = instr_set_src (instr_set_opcode
                (instr_set_dst c.instr i (opnd_create_reg cfg.IBL_TARGET_REG)) OP_ldr) 0
              (opnd_create_tls_slot cfg (cfg.os_tls_offset cfg.TLS_REG_STOLEN_SLOT)))) ∧
      (y = meta_insert cfg (INSTR_CREATE_orr (opnd_create_reg cfg.IBL_TARGET_REG)
            (opnd_create_reg cfg.IBL_TARGET_REG) (OPND_CREATE_INT 1)) ∨
       y = instr_set_predicate (meta_insert cfg (INSTR_CREATE_orr
            (opnd_create_reg cfg.IBL_TARGET_REG) (opnd_create_reg cfg.IBL_TARGET_REG)
            (OPND_CREATE_INT 1))) c.instr.predicate) ∧
      (instr_uses_reg c.instr cfg.dr_reg_stolen = false →
        x = instr_set_dst c.instr i (opnd_create_reg cfg.IBL_TARGET_REG)) := by
  obtain ⟨c1, i, pre, post, x, rm, orr, M, hc1, -, hfi, hrm, horr, hmem, hx, hno, hM, hr⟩ :=
    mangle_indirect_jump_pc_result cfg c r bound_id hgl hbx htb hrfe hne h
  have hrm2 : rm = false := by
    rcases hcase with ⟨h1, h2⟩ | h1
    · simp [hrm, h1, h2]
    · simp [hrm, h1]
  subst hrm2
  have hsimple : (decide (c.instr.isa_mode = DR_ISA_ARM_THUMB) &&
      (decide (c.instr.opcode = OP_mov) || decide (c.instr.opcode = OP_add))) = true := by
    rcases hcase with ⟨h1, -⟩ | h1 <;> simp [hmode, h1]
  rw [if_pos hsimple] at horr
  simp only [Bool.false_eq_true, if_false] at horr
  have hx2 : x = instr_set_dst c.instr i (opnd_create_reg cfg.IBL_TARGET_REG) ∨
      (c.instr.opcode = OP_mov ∧
        x = instr_set_src (instr_set_opcode
              (instr_set_dst c.instr i (opnd_create_reg cfg.IBL_TARGET_REG)) OP_ldr) 0
            (opnd_create_tls_slot cfg (cfg.os_tls_offset cfg.TLS_REG_STOLEN_SLOT))) := by
    rcases hx with hx | ⟨-, h2, -, -, h5⟩
    · exact Or.inl hx
    · exact Or.inr ⟨h2, h5⟩
  have hxp : x.predicate = c.instr.predicate := by
    rcases hx2 with hx | ⟨-, hx⟩ <;> rw [hx] <;> rfl
  have hxpr : instr_is_predicated x = instr_is_predicated c.instr := by
    simp only [instr_is_predicated, hxp]
  have hxop : x.opcode = OP_mov ∨ x.opcode = OP_add ∨ x.opcode = OP_ldr := by
    rcases hx2 with hx | ⟨-, hx⟩
    · rw [hx]
      rcases hcase with ⟨h1, -⟩ | h1
      · exact Or.inl h1
      · exact Or.inr (Or.inl h1)
    · rw [hx]
      exact Or.inr (Or.inr rfl)
  have hxu : instr_uses_reg c.instr cfg.dr_reg_stolen = false →
      x = instr_set_dst c.instr i (opnd_create_reg cfg.IBL_TARGET_REG) := by
    intro hu
    exact (hno (instr_uses_reg_set_dst c.instr i _ _ hu hne)).2.2
  simp only [Bool.false_eq_true, if_false] at hM
  by_cases hp : instr_is_predicated c.instr = true
  · have hin : app_instr_is_in_it_block c.instr = true := by
      simp [app_instr_is_in_it_block, hmode, hp]
    rw [hin] at hc1 hr
    simp only [if_true] at hc1 hr
    have hc1m : c1.mid = [] := (mangle_remove_from_it_block_instr cfg c c1 hc1).2
    rw [hxpr, if_pos hp, hc1m] at hM
    have hgx : (if instr_uses_reg x cfg.dr_reg_stolen = false then
        mangle_add_predicated_fall_through_mark cfg x.predicate else id) x = x := by
      split_ifs
      · exact mark_self cfg x
      · rfl
    have hxit : it_instr_predicated x = true := by
      simp only [it_instr_predicated, hxpr, hp, Bool.true_and, Bool.and_eq_true, bne_iff_ne,
        ne_eq]
      rcases hxop with e | e | e <;> rw [e] <;> exact ⟨by decide, by decide⟩
    have hxo : x.opcode ≠ OP_it := by
      rcases hxop with e | e | e <;> rw [e] <;> decide
    have hpre : ∀ a ∈ pre.map (if instr_uses_reg x cfg.dr_reg_stolen = false then
        mangle_add_predicated_fall_through_mark cfg x.predicate else id),
        a.opcode ≠ OP_it ∧ it_instr_predicated a = false := by
      by_cases hu : instr_uses_reg x cfg.dr_reg_stolen = false
      · have hpe : pre = [] := by
          rcases hx with hx | ⟨-, -, h3, -⟩
          · rw [hx] at hu
            exact (hno hu).1
          · exact h3
        rw [hpe]
        intro a ha
        cases ha
      · rw [if_neg hu]
        intro a ha
        simp only [List.map_id_fun, id_eq] at ha
        obtain ⟨-, h2, h3⟩ := hmem a (List.mem_append.mpr (Or.inl ha))
        refine ⟨?_, ?_⟩
        · rcases h3 with e | e | e <;> rw [e] <;> decide
        · simp [it_instr_predicated, instr_is_predicated, instr_predicate_is_cond, h2]
    have hy : (it_instr_predicated ((if instr_uses_reg x cfg.dr_reg_stolen = false then
          mangle_add_predicated_fall_through_mark cfg x.predicate else id)
          (meta_insert cfg (INSTR_CREATE_orr (opnd_create_reg cfg.IBL_TARGET_REG)
            (opnd_create_reg cfg.IBL_TARGET_REG) (OPND_CREATE_INT 1)))) = false ∧
        ((if instr_uses_reg x cfg.dr_reg_stolen = false then
          mangle_add_predicated_fall_through_mark cfg x.predicate else id)
          (meta_insert cfg (INSTR_CREATE_orr (opnd_create_reg cfg.IBL_TARGET_REG)
            (opnd_create_reg cfg.IBL_TARGET_REG) (OPND_CREATE_INT 1)))).opcode ≠ OP_it) ∨
        (it_instr_predicated ((if instr_uses_reg x cfg.dr_reg_stolen = false then
          mangle_add_predicated_fall_through_mark cfg x.predicate else id)
          (meta_insert cfg (INSTR_CREATE_orr (opnd_create_reg cfg.IBL_TARGET_REG)
            (opnd_create_reg cfg.IBL_TARGET_REG) (OPND_CREATE_INT 1)))) = true ∧
        ((if instr_uses_reg x cfg.dr_reg_stolen = false then
          mangle_add_predicated_fall_through_mark cfg x.predicate else id)
          (meta_insert cfg (INSTR_CREATE_orr (opnd_create_reg cfg.IBL_TARGET_REG)
            (opnd_create_reg cfg.IBL_TARGET_REG) (OPND_CREATE_INT 1)))).predicate =
          x.predicate) := by
      by_cases hu : instr_uses_reg x cfg.dr_reg_stolen = false
      · rw [if_pos hu, mark_meta_orr]
        refine Or.inr ⟨?_, rfl⟩
        have : instr_is_predicated x = true := by rw [hxpr]; exact hp
        simp only [it_instr_predicated, instr_is_predicated, instr_set_predicate] at this ⊢
        rw [this]
        rfl
      · rw [if_neg hu]
        exact Or.inl ⟨rfl, by intro e; cases e⟩
    have hMe : M = pre.map (if instr_uses_reg x cfg.dr_reg_stolen = false then
          mangle_add_predicated_fall_through_mark cfg x.predicate else id) ++
        x :: (if instr_uses_reg x cfg.dr_reg_stolen = false then
          mangle_add_predicated_fall_through_mark cfg x.predicate else id)
          (meta_insert cfg (INSTR_CREATE_orr (opnd_create_reg cfg.IBL_TARGET_REG)
            (opnd_create_reg cfg.IBL_TARGET_REG) (OPND_CREATE_INT 1))) ::
        (post.map (if instr_uses_reg x cfg.dr_reg_stolen = false then
          mangle_add_predicated_fall_through_mark cfg x.predicate else id) ++
        (insert_mov_immed_ptrsz cfg
          (to_int32 (PC_AS_JMP_TGT x.isa_mode (cfg.get_call_return_address x)))
          (opnd_create_reg cfg.IBL_TARGET_REG)).map
            (fun m => instr_set_predicate m (instr_invert_predicate x.predicate))) := by
      rw [hM, horr, hgx]
      simp only [List.append_nil, List.singleton_append, List.cons_append, List.map_cons,
        List.nil_append]
    obtain ⟨A1, B1, hadj⟩ := mangle_reinstate_it_blocks_adjacent cfg
      (meta_insert cfg (instr_create_save_to_tls cfg cfg.IBL_TARGET_REG
        cfg.IBL_TARGET_SLOT) :: c1.prev) c1.next _ _
      (meta_insert cfg (INSTR_CREATE_label bound_id)) x _
      (by intro e; cases e) rfl hpre hxit hxo hy
    rw [hr, hMe, hadj]
    refine ⟨i, A1, B1, x, _, hfi, rfl, hx2, ?_, hxu⟩
    by_cases hu : instr_uses_reg x cfg.dr_reg_stolen = false
    · rw [if_pos hu, mark_meta_orr, hxp]
      exact Or.inr rfl
    · rw [if_neg hu]
      exact Or.inl rfl
  · have hp2 : instr_is_predicated c.instr = false := by simpa using hp
    have hin : app_instr_is_in_it_block c.instr = false := by
      simp [app_instr_is_in_it_block, hp2]
    rw [hin] at hc1 hr
    simp only [Bool.false_eq_true, if_false, Option.some.injEq] at hc1 hr
    subst hc1
    rw [hxpr, hp2] at hM
    simp only [Bool.false_eq_true, if_false, hmid, List.append_nil] at hM
    rw [hr, hM, horr]
    exact ⟨i, pre, post, x, _, hfi, by simp, hx2, Or.inl rfl, hxu⟩

theorem bound_finish_returns (cfg : config_t) (pre ins : List instr_t) (lab x : instr_t)
    (mid next : List instr_t) (rm in_it : Bool) (P : Prop) [Decidable P]
    (hP : instr_is_predicated x = true → P) :
    ∃ r, (match
        (if instr_is_predicated x = true then
          match mangle_add_predicated_fall_through cfg
              { prev := ins.reverse ++ lab :: pre, instr := x, mid := mid, next := next }
              ins.length with
          | none => none
          | some c_1 => if P then some c_1 else none
        else some { prev := ins.reverse ++ lab :: pre, instr := x, mid := mid,
                    next := next }) with
      | none => none
      | some c_1 =>
        match (if rm = true then remove_at_bound c_1 ins.length
               else keep_at_bound c_1 ins.length) with
        | none => none
        | some c_2 =>
          some (if in_it = true then mangle_reinstate_it_blocks cfg c_2 0 else c_2)) =
      some r := by
  by_cases hp : instr_is_predicated x = true
  · rw [if_pos hp, mangle_add_predicated_fall_through_shape cfg pre lab ins x mid next hp]
    simp only []
    rw [if_pos (hP hp)]
    simp only []
    generalize (if instr_uses_reg x cfg.dr_reg_stolen = false then
      mangle_add_predicated_fall_through_mark cfg x.predicate else id) = g
    have e1 := remove_at_bound_inserted pre lab (ins.map g) (g x)
      (mid.map g ++ (insert_mov_immed_ptrsz cfg
        (to_int32 (PC_AS_JMP_TGT x.isa_mode (cfg.get_call_return_address x)))
        (opnd_create_reg cfg.IBL_TARGET_REG)).map
          (fun m => instr_set_predicate m (instr_invert_predicate x.predicate))) next
    have e2 := keep_at_bound_inserted pre lab (ins.map g) (g x)
      (mid.map g ++ (insert_mov_immed_ptrsz cfg
        (to_int32 (PC_AS_JMP_TGT x.isa_mode (cfg.get_call_return_address x)))
        (opnd_create_reg cfg.IBL_TARGET_REG)).map
          (fun m => instr_set_predicate m (instr_invert_predicate x.predicate))) next
    rw [List.length_map] at e1 e2
    cases rm
    · rw [if_neg (by decide), e2]
      exact ⟨_, rfl⟩
    · rw [if_pos rfl, e1]
      exact ⟨_, rfl⟩
  · rw [if_neg hp]
    simp only []
    cases rm
    · rw [if_neg (by decide), keep_at_bound_inserted]
      exact ⟨_, rfl⟩
    · rw [if_pos rfl, remove_at_bound_inserted]
      exact ⟨_, rfl⟩

theorem mangle_indirect_jump_pc_returns (cfg : config_t) (c c1 : ilist_at) (bound_id i : Nat)
    (hgl : ¬ instr_writes_gpr_list c.instr = true)
    (hbx : ¬ (c.instr.opcode = OP_bx ∨ c.instr.opcode = OP_bxj))
    (htb : ¬ (c.instr.opcode = OP_tbb ∨ c.instr.opcode = OP_tbh))
    (hrfe : ¬ (c.instr.opcode = OP_rfe ∨ c.instr.opcode = OP_rfedb ∨
      c.instr.opcode = OP_rfeda ∨ c.instr.opcode = OP_rfeib ∨ c.instr.opcode = OP_eret))
    (hc1 : (if app_instr_is_in_it_block c.instr = true then mangle_remove_from_it_block cfg c
       else some c) = some c1)
    (hw : instr_writes_to_reg c.instr cfg.IBL_TARGET_REG DR_QUERY_INCLUDE_ALL = false)
    (hfi : find_pc_dst c.instr.dsts 0 = some i)
    (hu : instr_uses_reg (instr_set_dst c.instr i (opnd_create_reg cfg.IBL_TARGET_REG))
      cfg.dr_reg_stolen = false) :
    ∃ r, mangle_indirect_jump cfg c bound_id = some r := by
  have hi : c1.instr = c.instr := by
    by_cases hit : app_instr_is_in_it_block c.instr = true
    · rw [if_pos hit] at hc1
      exact (mangle_remove_from_it_block_instr cfg c c1 hc1).1
    · rw [if_neg hit] at hc1
      simp only [Option.some.injEq] at hc1
      rw [hc1]
  unfold mangle_indirect_jump
  simp only []
  rw [hc1]
  simp only []
  rw [if_neg hgl, if_neg hbx, if_neg htb, if_neg hrfe]
  unfold mangle_indirect_jump_pc
  simp only [hi, hw, hfi, hu, Bool.false_eq_true, if_false]
  have hk : (meta_insert cfg (INSTR_CREATE_label bound_id) ::
      meta_insert cfg (instr_create_save_to_tls cfg cfg.IBL_TARGET_REG
        cfg.IBL_TARGET_SLOT) :: c1.prev).length - (c1.prev.length + 2) =
      ([] : List instr_t).length := by
    simp only [List.length_cons, List.length_nil]
    omega
  rw [hk]
  have hP : instr_is_predicated
      (instr_set_dst c.instr i (opnd_create_reg cfg.IBL_TARGET_REG)) = true →
      (app_instr_is_in_it_block c.instr = true ∨ c.instr.isa_mode ≠ DR_ISA_ARM_THUMB) := by
    intro hp
    have hp2 : instr_is_predicated c.instr = true := hp
    by_cases hm : c.instr.isa_mode = DR_ISA_ARM_THUMB
    · exact Or.inl (by simp [app_instr_is_in_it_block, hm, hp2])
    · exact Or.inr hm
  exact bound_finish_returns cfg
    (meta_insert cfg (instr_create_save_to_tls cfg cfg.IBL_TARGET_REG
      cfg.IBL_TARGET_SLOT) :: c1.prev) [] (meta_insert cfg (INSTR_CREATE_label bound_id))
    _ _ c1.next _ (app_instr_is_in_it_block c.instr) _ hP

/-- C34: `mangle_indirect_jump` on an instruction that explicitly writes PC (not
a register-list load, `bx`/`bxj`, `tbb`/`tbh` or `rfe`/`eret`), with
`next_instr` directly behind it.  The function returns whenever the IT-block
split succeeds, the instruction has a PC destination, does not write
`IBL_TARGET_REG` and does not use the stolen register.  Whenever it returns,
the instruction has a register destination PC at some position `i`, and behind
the bounding label stands:
in T32, for an unpredicated `mov pc, Rs`, `orr IBL_TARGET_REG, Rs, #1` between
the stolen-register prologue and epilogue (both empty without the stolen
register) and no app instruction, the `mov` being removed;
in T32, for a predicated `mov` and for every `add`, the original instruction
with destination `i` redirected to `IBL_TARGET_REG` (for a `mov` from the stolen
register rewritten in place to the load of its slot) and immediately after it
`orr IBL_TARGET_REG, IBL_TARGET_REG, #1`, unpredicated or under the predicate
of the instruction;
in A32, the original instruction with destination `i` redirected (or rewritten
in place likewise), and around it only meta instructions none of which is an
`orr`. -/
theorem mangle_indirect_jump_explicit_pc_write (cfg : config_t) (c : ilist_at)
    (bound_id : Nat)
    (hgl : instr_writes_gpr_list c.instr = false)
    (hbx : ¬ (c.instr.opcode = OP_bx ∨ c.instr.opcode = OP_bxj))
    (htb : ¬ (c.instr.opcode = OP_tbb ∨ c.instr.opcode = OP_tbh))
    (hrfe : ¬ (c.instr.opcode = OP_rfe ∨ c.instr.opcode = OP_rfedb ∨
      c.instr.opcode = OP_rfeda ∨ c.instr.opcode = OP_rfeib ∨ c.instr.opcode = OP_eret))
    (hne : cfg.IBL_TARGET_REG ≠ cfg.dr_reg_stolen) (hmid : c.mid = []) :
    (∀ c1 i,
      (if app_instr_is_in_it_block c.instr = true then mangle_remove_from_it_block cfg c
       else some c) = some c1 →
      instr_writes_to_reg c.instr cfg.IBL_TARGET_REG DR_QUERY_INCLUDE_ALL = false →
      find_pc_dst c.instr.dsts 0 = some i →
      instr_uses_reg c.instr cfg.dr_reg_stolen = false →
      ∃ r, mangle_indirect_jump cfg c bound_id = some r) ∧
    (∀ r, mangle_indirect_jump cfg c bound_id = some r →
      ∃ i, find_pc_dst c.instr.dsts 0 = some i ∧
        opnd_is_reg (instr_get_dst c.instr i) = true ∧
        opnd_get_reg (instr_get_dst c.instr i) = DR_REG_PC ∧
        r.instr = meta_insert cfg (INSTR_CREATE_label bound_id) ∧
        (c.instr.isa_mode = DR_ISA_ARM_THUMB → c.instr.opcode = OP_mov →
          instr_is_predicated c.instr = false →
          ∃ pre post : List instr_t,
            r.mid = pre ++ meta_insert cfg (INSTR_CREATE_orr
              (opnd_create_reg cfg.IBL_TARGET_REG) (instr_get_src c.instr 0)
              (OPND_CREATE_INT 1)) :: post ∧
            (∀ j ∈ pre ++ post, j.is_app = false ∧ j.opcode ≠ OP_orr) ∧
            (∀ j ∈ r.mid, j.is_app = false) ∧
            (instr_uses_reg c.instr cfg.dr_reg_stolen = false → pre = [] ∧ post = [])) ∧
        (c.instr.isa_mode = DR_ISA_ARM_THUMB →
          (c.instr.opcode = OP_mov ∧ instr_is_predicated c.instr = true) ∨
            c.instr.opcode = OP_add →
          ∃ (A B : List instr_t) (x y : instr_t),
            r.mid = A ++ x :: y :: B ∧
            (x = instr_set_dst c.instr i (opnd_create_reg cfg.IBL_TARGET_REG) ∨
              (c.instr.opcode = OP_mov ∧
                x = instr_set_src (instr_set_opcode
                    (instr_set_dst c.instr i (opnd_create_reg cfg.IBL_TARGET_REG)) OP_ldr) 0
                  (opnd_create_tls_slot cfg
                    (cfg.os_tls_offset cfg.TLS_REG_STOLEN_SLOT)))) ∧
            x.dsts = c.instr.dsts.set i (opnd_create_reg cfg.IBL_TARGET_REG) ∧
            x.is_app = c.instr.is_app ∧ x.predicate = c.instr.predicate ∧
            (y = meta_insert cfg (INSTR_CREATE_orr (opnd_create_reg cfg.IBL_TARGET_REG)
                  (opnd_create_reg cfg.IBL_TARGET_REG) (OPND_CREATE_INT 1)) ∨
             y = instr_set_predicate (meta_insert cfg (INSTR_CREATE_orr
                  (opnd_create_reg cfg.IBL_TARGET_REG) (opnd_create_reg cfg.IBL_TARGET_REG)
                  (OPND_CREATE_INT 1))) c.instr.predicate) ∧
            (instr_uses_reg c.instr cfg.dr_reg_stolen = false →
              x = instr_set_dst c.instr i (opnd_create_reg cfg.IBL_TARGET_REG))) ∧
        (c.instr.isa_mode ≠ DR_ISA_ARM_THUMB →
          ∃ (A B : List instr_t) (x : instr_t),
            r.mid = A ++ x :: B ∧
            (x = instr_set_dst c.instr i (opnd_create_reg cfg.IBL_TARGET_REG) ∨
              (c.instr.opcode = OP_mov ∧
                x = instr_set_src (instr_set_opcode
                    (instr_set_dst c.instr i (opnd_create_reg cfg.IBL_TARGET_REG)) OP_ldr) 0
                  (opnd_create_tls_slot cfg
                    (cfg.os_tls_offset cfg.TLS_REG_STOLEN_SLOT)))) ∧
            x.dsts = c.instr.dsts.set i (opnd_create_reg cfg.IBL_TARGET_REG) ∧
            x.is_app = c.instr.is_app ∧ x.predicate = c.instr.predicate ∧
            (∀ j ∈ A ++ B, j.is_app = false ∧ j.opcode ≠ OP_orr) ∧
            (instr_uses_reg c.instr cfg.dr_reg_stolen = false →
              A = [] ∧ x = instr_set_dst c.instr i (opnd_create_reg cfg.IBL_TARGET_REG)))) := by
  have hgl2 : ¬ instr_writes_gpr_list c.instr = true := by simp [hgl]
  have hkept : ∀ (i : Nat) (x : instr_t),
      (x = instr_set_dst c.instr i (opnd_create_reg cfg.IBL_TARGET_REG) ∨
        (c.instr.opcode = OP_mov ∧
          x = instr_set_src (instr_set_opcode
              (instr_set_dst c.instr i (opnd_create_reg cfg.IBL_TARGET_REG)) OP_ldr) 0
            (opnd_create_tls_slot cfg (cfg.os_tls_offset cfg.TLS_REG_STOLEN_SLOT)))) →
      x.dsts = c.instr.dsts.set i (opnd_create_reg cfg.IBL_TARGET_REG) ∧
      x.is_app = c.instr.is_app ∧ x.predicate = c.instr.predicate := by
    intro i x hx
    rcases hx with hx | ⟨-, hx⟩ <;> rw [hx] <;> exact ⟨rfl, rfl, rfl⟩
  refine ⟨?_, ?_⟩
  · intro c1 i hc1 hw hfi hu
    exact mangle_indirect_jump_pc_returns cfg c c1 bound_id i hgl2 hbx htb hrfe hc1 hw hfi
      (instr_uses_reg_set_dst c.instr i _ _ hu hne)
  · intro r h
    obtain ⟨c1, i, pre, post, x, rm, orr, M, hc1, -, hfi, -⟩ :=
      mangle_indirect_jump_pc_result cfg c r bound_id hgl2 hbx htb hrfe hne h
    have hpc := find_pc_dst_is_pc c.instr.dsts 0 i hfi
    simp only [Nat.sub_zero] at hpc
    have hlab := (mangle_indirect_jump_bound cfg c r bound_id h)
    obtain ⟨-, -, hlab, -⟩ := hlab
    refine ⟨i, hfi, hpc.1, hpc.2, hlab, ?_, ?_, ?_⟩
    · intro hmode hopc hpred
      obtain ⟨pre, post, hmid2, hmeta, hnone⟩ :=
        mangle_indirect_jump_mov_removed cfg c r bound_id hgl2 hbx htb hrfe hne hmid hmode
          hopc hpred h
      refine ⟨pre, post, hmid2, hmeta, ?_, hnone⟩
      intro j hj
      rw [hmid2] at hj
      simp only [List.mem_append, List.mem_cons] at hj
      rcases hj with hj | hj | hj
      · exact (hmeta j (List.mem_append.mpr (Or.inl hj))).1
      · rw [hj]
        rfl
      · exact (hmeta j (List.mem_append.mpr (Or.inr hj))).1
    · intro hmode hcase
      obtain ⟨i2, A, B, x, y, hfi2, hmid2, hx, hy, hxu⟩ :=
        mangle_indirect_jump_t32_orr_after cfg c r bound_id hgl2 hbx htb hrfe hne hmid hmode
          hcase h
      rw [hfi] at hfi2
      simp only [Option.some.injEq] at hfi2
      subst hfi2
      have hk := hkept i x hx
      exact ⟨A, B, x, y, hmid2, hx, hk.1, hk.2.1, hk.2.2, hy, hxu⟩
    · intro hmode
      obtain ⟨i2, A, B, x, hfi2, hmid2, hx, hmeta, hxu⟩ :=
        mangle_indirect_jump_a32_kept cfg c r bound_id hgl2 hbx htb hrfe hne hmid hmode h
      rw [hfi] at hfi2
      simp only [Option.some.injEq] at hfi2
      subst hfi2
      have hk := hkept i x hx
      exact ⟨A, B, x, hmid2, hx, hk.1, hk.2.1, hk.2.2, hmeta, hxu⟩

theorem mangle_indirect_jump_explicit_pc_write_witness :
    (∃ r, mangle_indirect_jump ex_cfg (ex_at (ex_mov_pc 5 DR_PRED_NONE)) 9 = some r ∧
      r.mid = [meta_insert ex_cfg (INSTR_CREATE_orr (opnd_create_reg ex_cfg.IBL_TARGET_REG)
        (instr_get_src (ex_mov_pc 5 DR_PRED_NONE) 0) (OPND_CREATE_INT 1))]) ∧
    (∃ r A B x y, mangle_indirect_jump ex_cfg ex_mov_pc_eq_at 9 = some r ∧
      r.mid = A ++ x :: y :: B ∧
      x = instr_set_dst (ex_mov_pc 5 DR_PRED_EQ) 0 (opnd_create_reg ex_cfg.IBL_TARGET_REG) ∧
      (y = meta_insert ex_cfg (INSTR_CREATE_orr (opnd_create_reg ex_cfg.IBL_TARGET_REG)
            (opnd_create_reg ex_cfg.IBL_TARGET_REG) (OPND_CREATE_INT 1)) ∨
       y = instr_set_predicate (meta_insert ex_cfg (INSTR_CREATE_orr
            (opnd_create_reg ex_cfg.IBL_TARGET_REG) (opnd_create_reg ex_cfg.IBL_TARGET_REG)
            (OPND_CREATE_INT 1))) DR_PRED_EQ)) ∧
    (∃ r B, mangle_indirect_jump ex_cfg (ex_at (ex_add_pc DR_ISA_ARM_A32)) 9 = some r ∧
      r.mid = instr_set_dst (ex_add_pc DR_ISA_ARM_A32) 0
        (opnd_create_reg ex_cfg.IBL_TARGET_REG) :: B ∧
      ∀ j ∈ B, j.is_app = false ∧ j.opcode ≠ OP_orr) := by
  refine ⟨?_, ?_, ?_⟩
  · have hT := mangle_indirect_jump_explicit_pc_write ex_cfg
      (ex_at (ex_mov_pc 5 DR_PRED_NONE)) 9 (by decide) (by decide) (by decide) (by decide)
      (by decide) (by decide)
    obtain ⟨r, hr⟩ := hT.1 _ 0 rfl (by decide) (by decide) (by decide)
    obtain ⟨i, -, -, -, -, hA, -, -⟩ := hT.2 r hr
    obtain ⟨pre, post, hm, -, -, hno⟩ := hA (by decide) (by decide) (by decide)
    obtain ⟨h1, h2⟩ := hno (by decide)
    subst h1
    subst h2
    exact ⟨r, hr, hm⟩
  · have hT := mangle_indirect_jump_explicit_pc_write ex_cfg ex_mov_pc_eq_at 9
      (by decide) (by decide) (by decide) (by decide) (by decide) (by decide)
    obtain ⟨c1, hc1⟩ := Option.isSome_iff_exists.mp
      (show (mangle_remove_from_it_block ex_cfg ex_mov_pc_eq_at).isSome = true by decide)
    have hc1b : (if app_instr_is_in_it_block ex_mov_pc_eq_at.instr = true then
        mangle_remove_from_it_block ex_cfg ex_mov_pc_eq_at else some ex_mov_pc_eq_at) =
        some c1 := by
      rw [if_pos (by decide)]
      exact hc1
    obtain ⟨r, hr⟩ := hT.1 c1 0 hc1b (by decide) (by decide) (by decide)
    obtain ⟨i, hfi, -, -, -, -, hB, -⟩ := hT.2 r hr
    have hi0 : i = 0 := by
      have e : find_pc_dst ex_mov_pc_eq_at.instr.dsts 0 = some 0 := by decide
      rw [e] at hfi
      exact (Option.some.inj hfi).symm
    subst hi0
    obtain ⟨A, B, x, y, hm, -, -, -, -, hy, hxu⟩ := hB (by decide) (Or.inl (by decide))
    exact ⟨r, A, B, x, y, hr, hm, hxu (by decide), hy⟩
  · have hT := mangle_indirect_jump_explicit_pc_write ex_cfg
      (ex_at (ex_add_pc DR_ISA_ARM_A32)) 9 (by decide) (by decide) (by decide) (by decide)
      (by decide) (by decide)
    obtain ⟨r, hr⟩ := hT.1 _ 0 rfl (by decide) (by decide) (by decide)
    obtain ⟨i, hfi, -, -, -, -, -, hC⟩ := hT.2 r hr
    have hi0 : i = 0 := by
      have e : find_pc_dst (ex_at (ex_add_pc DR_ISA_ARM_A32)).instr.dsts 0 = some 0 := by
        decide
      rw [e] at hfi
      exact (Option.some.inj hfi).symm
    subst hi0
    obtain ⟨A, B, x, hm, -, -, -, -, hmeta, hxu⟩ := hC (by decide)
    obtain ⟨hA, hx⟩ := hxu (by decide)
    subst hA
    subst hx
    exact ⟨r, B, hr, hm, fun j hj => hmeta j (by simpa using hj)⟩

end Mangle
